import Mathlib

/-!
# cpp-compiler: parser, semantic analyzer and TAC generator

A shallow embedding of `phase2_syntax.c`, `phase_3_semantic.c` and
`phase_4_tac_generator.c`.  C strings are Lean strings without NUL; every
fixed-size buffer is modelled by the truncation the C library call performs.
Recursive C functions take a fuel argument; running out of fuel is a separate
outcome, different from a normal return and from an abort.
-/

set_option maxRecDepth 100000

/-! ## Outcome of a run -/

/-- The result of running a piece of the program: it returns a value, the
process aborts (`exit(EXIT_FAILURE)` after printing a message, with the line
number printed if there is one), or the model ran out of fuel. -/
inductive Outcome (α : Type) where
  | ok (a : α)
  | fail (line : Option Int) (msg : String)
  | fuel
deriving DecidableEq, Repr

namespace Outcome

/-- Sequencing: an abort or a fuel exhaustion ends the run. -/
def bind {α β : Type} (x : Outcome α) (f : α → Outcome β) : Outcome β :=
  match x with
  | .ok a => f a
  | .fail l m => .fail l m
  | .fuel => .fuel

instance : Monad Outcome where
  pure := Outcome.ok
  bind := Outcome.bind

/-- The run returned normally. -/
def isOk {α : Type} : Outcome α → Bool
  | .ok _ => true
  | _ => false

end Outcome

/-! ## C library string functions -/

namespace CStr

/-- Function `strncpy(dst, s, n)` into a buffer that ends up NUL-terminated: the first
`n` characters of `s`.  (`snprintf(dst, n + 1, "%s", s)` is the same.) -/
def strncpy (n : Nat) (s : String) : String := String.mk (s.data.take n)

/-- The test `strncmp(s, p, n) == 0`: the first `n` characters agree. -/
def strncmp_eq (s p : String) (n : Nat) : Bool :=
  decide (s.data.take n = p.data.take n)

/-- Function `isspace` in the C locale. -/
def isspace (c : Char) : Bool :=
  c = ' ' || c = '\t' || c = '\n' || c = '\x0b' || c = '\x0c' || c = '\r'

/-- Function `isdigit`. -/
def isdigit (c : Char) : Bool := decide ('0' ≤ c ∧ c ≤ '9')

/-- The characters `sscanf(s, "%s", buf)` stores: leading white space is
skipped, then the maximal run of non-space characters is read.  When that run
is empty `sscanf` stores nothing; the model then gives the empty string. -/
def scan_word (s : List Char) : List Char :=
  (s.dropWhile isspace).takeWhile (fun c => !isspace c)

/-- What is left of the input after `%s`. -/
def scan_word_rest (s : List Char) : List Char :=
  (s.dropWhile isspace).dropWhile (fun c => !isspace c)

/-- The characters `sscanf(s, "%[^)]", buf)` stores: the maximal run of
characters other than `)`; no white space is skipped. -/
def scan_until_rparen (s : List Char) : List Char :=
  s.takeWhile (fun c => c != ')')

/-- The test `strstr(hay, needle) != NULL` on character lists. -/
def strstr_found : List Char → List Char → Bool
  | [], needle => needle.isEmpty
  | c :: cs, needle => needle.isPrefixOf (c :: cs) || strstr_found cs needle

/-- Decimal digits of a natural number, least significant first. -/
def digits_rev : Nat → Nat → List Char
  | 0, _ => []
  | f + 1, n =>
    if n < 10 then [Char.ofNat (48 + n)]
    else Char.ofNat (48 + n % 10) :: digits_rev f (n / 10)

/-- The text `printf("%d", n)` prints for a non-negative `n`. -/
def fmt_d (n : Nat) : String := String.mk (digits_rev (n + 1) n).reverse

end CStr

/-! ## Phase 1: the lexer (`phase1_lexer.c`) -/

namespace Phase1

open CStr

inductive TokenType where
  | TOK_KEYWORD
  | TOK_IDENTIFIER
  | TOK_INT_LITERAL
  | TOK_FLOAT_LITERAL
  | TOK_STRING_LITERAL
  | TOK_OPERATOR
  | TOK_PUNCTUATION
  | TOK_PREPROCESSOR
  | TOK_EOF
deriving DecidableEq, Repr

open TokenType

/-- A token of the lexer: `lexeme` is the content of `char lexeme[256]`. -/
structure Token where
  type : TokenType
  lexeme : String
  line : Nat
deriving DecidableEq, Repr

/-- The globals of the lexer.  `input` is `current_char` followed by what
`fgetc` has not read yet, one `Char` per byte of the file; it is empty once
`fgetc` has returned `EOF`. -/
structure State where
  input : List Char
  line_number : Nat
deriving DecidableEq, Repr

/-- The value `line_number` has after `advance()` has made the head of `rest`
the current character: one more when that character is a newline. -/
def line_after (rest : List Char) (line : Nat) : Nat :=
  if rest.head? = some '\n' then line + 1 else line

/-- Function `advance`: at the end of the file `fgetc` returns `EOF` again and
nothing changes. -/
def advance (st : State) : State :=
  match st.input with
  | [] => st
  | _ :: rest => { input := rest, line_number := line_after rest st.line_number }

/-- The byte that `(char)` turns into -1, the value of `EOF`: the lexer
compares `peek()` with `EOF`, which has a meaning for signed `char` only, and
there byte 255 reads as the end of the input. -/
def is_eof_byte (c : Char) : Bool := decide (c.toNat = 255)

/-- Function `peek`: the current character, `none` when `peek() == EOF` holds. -/
def peek (st : State) : Option Char :=
  match st.input with
  | [] => none
  | c :: _ => if is_eof_byte c then none else some c

/-- Function `peek_next`: the character after the current one, `none` at the
end of the file. -/
def peek_next (st : State) : Option Char :=
  match st.input with
  | _ :: c :: _ => some c
  | _ => none

/-- The test `isalpha` in the C locale. -/
def isalpha (c : Char) : Bool :=
  decide ('a' ≤ c ∧ c ≤ 'z') || decide ('A' ≤ c ∧ c ≤ 'Z')

/-- The test `isalnum` in the C locale. -/
def isalnum (c : Char) : Bool := isalpha c || isdigit c

/-- The C string in a buffer: the characters before the first NUL. -/
def c_string (buffer : List Char) : List Char :=
  buffer.takeWhile (fun c => c != '\x00')

/-- Function `make_token`: the lexeme is copied with `strncpy(.., 255)`. -/
def make_token (type : TokenType) (lexeme : List Char) (line : Nat) : Token :=
  { type := type, lexeme := String.mk ((c_string lexeme).take 255), line := line }

/-- The table `keywords`. -/
def keywords : List String := ["int", "float", "void", "return", "if", "else", "while", "for"]

/-- Function `is_keyword`. -/
def is_keyword (str : List Char) : Bool := keywords.contains (String.mk str)

/-- A write past the end of the 256-byte `buffer`: the behaviour of the C
program is undefined from here on; the model stops the run. -/
def buffer_overflow {α : Type} : Outcome α := .fail none "buffer overflow"

/-- The guarded write `if (length < MAX_LEXEME_LEN - 1) buffer[length++] = c;`. -/
def store_guarded (buffer : List Char) (c : Char) : List Char :=
  if buffer.length < 255 then buffer ++ [c] else buffer

/-- The loop `while (isspace(peek())) advance();`. -/
def skip_spaces : List Char → Nat → State
  | [], line => { input := [], line_number := line }
  | c :: rest, line =>
    if isspace c then skip_spaces rest (line_after rest line)
    else { input := c :: rest, line_number := line }

/-- The loop `while (peek() != '\n' && peek() != EOF) advance();`. -/
def skip_line : List Char → Nat → State
  | [], line => { input := [], line_number := line }
  | c :: rest, line =>
    if c = '\n' ∨ is_eof_byte c = true then { input := c :: rest, line_number := line }
    else skip_line rest (line_after rest line)

/-- The loop over the inside of a block comment: it stops on the `*` of the
closing `*/`, and aborts at the end of the input. -/
def skip_block : List Char → Nat → Outcome State
  | [], line => .fail (some (line : Int)) "Unterminated comment"
  | c :: rest, line =>
    if c = '*' ∧ rest.head? = some '/' then .ok { input := c :: rest, line_number := line }
    else if is_eof_byte c then .fail (some (line : Int)) "Unterminated comment"
    else skip_block rest (line_after rest line)

/-- Function `skip_whitespace_and_comments`; one unit of fuel per round of its
outer loop. -/
def skip_whitespace_and_comments : Nat → State → Outcome State
  | 0, _ => .fuel
  | f + 1, st =>
    let st1 := skip_spaces st.input st.line_number
    if peek st1 = none then .ok st1
    else if peek st1 = some '/' ∧ peek_next st1 = some '/' then
      let st2 := advance (advance st1)
      skip_whitespace_and_comments f (skip_line st2.input st2.line_number)
    else if peek st1 = some '/' ∧ peek_next st1 = some '*' then
      let st2 := advance (advance st1)
      match skip_block st2.input st2.line_number with
      | .ok st3 => skip_whitespace_and_comments f (advance (advance st3))
      | .fail l m => .fail l m
      | .fuel => .fuel
    else .ok st1

/-- The loop of `preprocess_directive`: the characters up to the newline or the
end of the input, stored with the guarded write. -/
def directive_loop : List Char → Nat → List Char → List Char × State
  | [], line, buffer => (buffer, { input := [], line_number := line })
  | c :: rest, line, buffer =>
    if c = '\n' ∨ is_eof_byte c = true then (buffer, { input := c :: rest, line_number := line })
    else directive_loop rest (line_after rest line) (store_guarded buffer c)

/-- Function `preprocess_directive`, called after the `#` has been consumed. -/
def preprocess_directive (st : State) : Outcome (Token × State) :=
  let start_line := st.line_number
  let (buffer, st1) := directive_loop st.input st.line_number []
  .ok (make_token TOK_PREPROCESSOR buffer start_line, st1)

/-- The loop of `identifier_or_keyword`: letters, digits and `_`, stored with
the guarded write. -/
def identifier_loop : List Char → Nat → List Char → List Char × State
  | [], line, buffer => (buffer, { input := [], line_number := line })
  | c :: rest, line, buffer =>
    if isalnum c || decide (c = '_') then
      identifier_loop rest (line_after rest line) (store_guarded buffer c)
    else (buffer, { input := c :: rest, line_number := line })

/-- Function `identifier_or_keyword`. -/
def identifier_or_keyword (st : State) : Outcome (Token × State) :=
  let start_line := st.line_number
  let (buffer, st1) := identifier_loop st.input st.line_number []
  if is_keyword (c_string buffer) then .ok (make_token TOK_KEYWORD buffer start_line, st1)
  else .ok (make_token TOK_IDENTIFIER buffer start_line, st1)

/-- The loops `while (isdigit(peek())) { buffer[length++] = peek(); advance(); }`
of `number_literal`; the writes are not guarded. -/
def digit_loop : List Char → Nat → List Char → List Char × State
  | [], line, buffer => (buffer, { input := [], line_number := line })
  | c :: rest, line, buffer =>
    if isdigit c then digit_loop rest (line_after rest line) (buffer ++ [c])
    else (buffer, { input := c :: rest, line_number := line })

/-- The test `peek() == '.' && isdigit(peek_next())` of `number_literal`. -/
def fraction_follows (st : State) : Bool :=
  decide (peek st = some '.') &&
    (match peek_next st with
     | some d => isdigit d
     | none => false)

/-- Function `number_literal`.  Its writes to `buffer` are in bounds exactly
when at most 255 characters are stored before the final NUL. -/
def number_literal (st : State) : Outcome (Token × State) :=
  let start_line := st.line_number
  let (buffer, st1) := digit_loop st.input st.line_number []
  let is_float : Bool := fraction_follows st1
  let (buffer2, st2) :=
    if is_float then
      let st1a := advance st1
      digit_loop st1a.input st1a.line_number (buffer ++ ['.'])
    else (buffer, st1)
  if buffer2.length > 255 then buffer_overflow
  else .ok (make_token (if is_float then TOK_FLOAT_LITERAL else TOK_INT_LITERAL) buffer2
    start_line, st2)

/-- The loop of `string_literal` up to the closing quote or the end of the
input.  A backslash directly before a quote is stored without a guard and
skipped, then the quote is stored as an ordinary character. -/
def string_loop : List Char → Nat → List Char → Outcome (List Char × State)
  | [], line, buffer => .ok (buffer, { input := [], line_number := line })
  | [c], line, buffer =>
    if c = '"' ∨ is_eof_byte c = true then .ok (buffer, { input := [c], line_number := line })
    else .ok (store_guarded buffer c, { input := [], line_number := line })
  | c :: q :: rest, line, buffer =>
    if c = '"' ∨ is_eof_byte c = true then
      .ok (buffer, { input := c :: q :: rest, line_number := line })
    else if c = '\\' ∧ q = '"' then
      if buffer.length ≥ 256 then buffer_overflow
      else string_loop rest (line_after rest line) (store_guarded (buffer ++ [c]) q)
    else string_loop (q :: rest) (line_after (q :: rest) line) (store_guarded buffer c)

/-- Function `string_literal`.  The closing quote and the final NUL are written
without a guard: they are in bounds when fewer than 255 characters are stored
before the closing quote. -/
def string_literal (st : State) : Outcome (Token × State) :=
  let start_line := st.line_number
  match st.input with
  | [] => .fail (some (start_line : Int)) "Unterminated string literal"
  | c :: rest =>
    match string_loop rest (line_after rest st.line_number) [c] with
    | .ok (buffer, st1) =>
      if peek st1 = some '"' then
        if buffer.length ≥ 255 then buffer_overflow
        else .ok (make_token TOK_STRING_LITERAL (buffer ++ ['"']) start_line, advance st1)
      else .fail (some (start_line : Int)) "Unterminated string literal"
    | .fail l m => .fail l m
    | .fuel => .fuel

/-- The test on `peek()` and `peek_next()` for the double-character operators. -/
def is_double_operator (c d : Char) : Bool :=
  (decide (c = '=') && decide (d = '=')) || (decide (c = '!') && decide (d = '=')) ||
  (decide (c = '<') && decide (d = '=')) || (decide (c = '>') && decide (d = '=')) ||
  (decide (c = '+') && decide (d = '+')) || (decide (c = '-') && decide (d = '-')) ||
  (decide (c = '+') && decide (d = '=')) || (decide (c = '-') && decide (d = '=')) ||
  (decide (c = '*') && decide (d = '=')) || (decide (c = '/') && decide (d = '=')) ||
  (decide (c = '&') && decide (d = '&')) || (decide (c = '|') && decide (d = '|'))

/-- The test `strchr(set, c) != NULL`: `c` is one of the characters of `set`,
or `c` is NUL, which `strchr` finds at the end of every string. -/
def strchr_found (set : List Char) (c : Char) : Bool :=
  set.contains c || decide (c = '\x00')

/-- Function `operator_or_punctuation`. -/
def operator_or_punctuation (st : State) : Outcome (Token × State) :=
  let start_line := st.line_number
  match peek st with
  | none => .fail (some (st.line_number : Int)) "Invalid character"
  | some c =>
    if (match peek_next st with
        | some d => is_double_operator c d
        | none => false) then
      match peek (advance st) with
      | some d => .ok (make_token TOK_OPERATOR [c, d] start_line, advance (advance st))
      | none => .ok (make_token TOK_OPERATOR [c] start_line, advance (advance st))
    else if strchr_found "+-*/<>=!&|%".data c then
      .ok (make_token TOK_OPERATOR [c] start_line, advance st)
    else if strchr_found "[],;()\x7b\x7d".data c then
      .ok (make_token TOK_PUNCTUATION [c] start_line, advance st)
    else .fail (some (st.line_number : Int)) ("Invalid character '" ++ String.mk [c] ++ "'")

/-- The body of the loop of `main` once white space and comments are skipped
and the input is not at its end: one token is read. -/
def scan_token (st : State) : Outcome (Token × State) :=
  match peek st with
  | none => operator_or_punctuation st
  | some c =>
    if c = '#' then preprocess_directive (advance st)
    else if c = '"' then string_literal st
    else if isalpha c || decide (c = '_') then identifier_or_keyword st
    else if isdigit c then number_literal st
    else operator_or_punctuation st

/-- The loop `while (peek() != EOF)` of `main`: the tokens in the order they
are printed and the state at the end. -/
def main_loop : Nat → State → Outcome (List Token × State)
  | 0, _ => .fuel
  | f + 1, st =>
    if peek st = none then .ok ([], st)
    else
      match skip_whitespace_and_comments f st with
      | .ok st1 =>
        if peek st1 = none then .ok ([], st1)
        else
          match scan_token st1 with
          | .ok (tok, st2) =>
            match main_loop f st2 with
            | .ok (toks, st3) => .ok (tok :: toks, st3)
            | .fail l m => .fail l m
            | .fuel => .fuel
          | .fail l m => .fail l m
          | .fuel => .fuel
      | .fail l m => .fail l m
      | .fuel => .fuel

/-- The state after `line_number = 1; advance();`. -/
def initial_state (file : List Char) : State :=
  { input := file, line_number := line_after file 1 }

/-- Function `main` of the lexer on the content of the source file: the tokens
it prints, the last one being the EOF token. -/
def main (fuel : Nat) (file : String) : Outcome (List Token) :=
  match main_loop fuel (initial_state file.data) with
  | .ok (toks, st) => .ok (toks ++ [make_token TOK_EOF "EOF".data st.line_number])
  | .fail l m => .fail l m
  | .fuel => .fuel

end Phase1

/-! ## Writing `tokens.txt` (`print_token` in `phase1_lexer.c`) -/

namespace Phase1

open CStr TokenType

/-- The table `type_names` of `print_token`. -/
def type_name : TokenType → String
  | TOK_KEYWORD => "KEYWORD"
  | TOK_IDENTIFIER => "IDENTIFIER"
  | TOK_INT_LITERAL => "INT_LITERAL"
  | TOK_FLOAT_LITERAL => "FLOAT_LITERAL"
  | TOK_STRING_LITERAL => "STRING_LITERAL"
  | TOK_OPERATOR => "OPERATOR"
  | TOK_PUNCTUATION => "PUNCTUATION"
  | TOK_PREPROCESSOR => "PREPROCESSOR"
  | TOK_EOF => "EOF"

/-- What `%-16s` prints: the text, then spaces up to a width of 16. -/
def pad16 (s : String) : String := s ++ String.mk (List.replicate (16 - s.length) ' ')

/-- Function `print_token`: the line
`fprintf(out_file, "[line:%d] %-16s \"%s\"\n", line, type_names[type], lexeme)`
writes. -/
def print_token (tok : Token) : String :=
  "[line:" ++ fmt_d tok.line ++ "] " ++ pad16 (type_name tok.type) ++ " \"" ++ tok.lexeme ++
    "\"\n"

/-- The content of `tokens.txt` when the tokens `toks` have been printed in
order. -/
def tokens_txt : List Token → String
  | [] => ""
  | tok :: rest => print_token tok ++ tokens_txt rest

/-- Function `main` of the lexer on the content of the source file: the content of
`tokens.txt` at a normal exit. -/
def main_output (fuel : Nat) (file : String) : Outcome String :=
  match main fuel file with
  | .ok toks => .ok (tokens_txt toks)
  | .fail l m => .fail l m
  | .fuel => .fuel

end Phase1

/-! ## Phase 2: the parser (`phase2_syntax.c`) -/

namespace Phase2

open CStr

inductive TokenType where
  | TOK_KEYWORD
  | TOK_IDENTIFIER
  | TOK_INT_LITERAL
  | TOK_FLOAT_LITERAL
  | TOK_OPERATOR
  | TOK_PUNCTUATION
  | TOK_EOF_TOKEN
deriving DecidableEq, Repr

open TokenType

/-- A token: `lexeme` is the content of `char lexeme[256]`. -/
structure Token where
  type : TokenType
  lexeme : String
  line : Int
deriving DecidableEq, Repr

inductive NodeKind where
  | NODE_PROGRAM
  | NODE_FUNCTION_DEF
  | NODE_PARAM_LIST
  | NODE_BODY
  | NODE_VAR_DECL
  | NODE_ASSIGN
  | NODE_RETURN
  | NODE_BINOP
  | NODE_NUMBER
  | NODE_VAR
  | NODE_IF
  | NODE_ELSE
  | NODE_WHILE
  | NODE_FOR
deriving DecidableEq, Repr

open NodeKind

/-- An AST node: kind, `char text[64]`, and the children in order. -/
inductive ASTNode where
  | mk (kind : NodeKind) (text : String) (children : List ASTNode)
deriving Repr

namespace ASTNode

def kind : ASTNode → NodeKind
  | .mk k _ _ => k

def text : ASTNode → String
  | .mk _ t _ => t

def children : ASTNode → List ASTNode
  | .mk _ _ cs => cs

end ASTNode

/-- Function `ast_new_node(kind, text)`: the text is cut to 63 characters (empty for
`NULL`); no children yet. -/
def ast_new_node (kind : NodeKind) (text : Option String) : ASTNode :=
  match text with
  | some s => .mk kind (strncpy 63 s) []
  | none => .mk kind "" []

/-- Function `node_list_append(&parent->children, child)`. -/
def node_list_append (parent child : ASTNode) : ASTNode :=
  match parent with
  | .mk k t cs => .mk k t (cs ++ [child])

/-- The parser's cursor: the tokens from `current_token_index` to
`token_count`, in order.  `peek_token()` is the head of that list,
`peek_token_offset(i)` its element `i`, `advance_token()` drops the head; the
parse functions below read the cursor by pattern matching, `[]` standing for a
`NULL` from `peek_token()`. -/
abbrev Cursor := List Token

def peek_token (toks : Cursor) : Option Token := toks.head?

def peek_token_offset (toks : Cursor) (i : Nat) : Option Token := toks.get? i

def advance_token (toks : Cursor) : Cursor := toks.tail

/-- The token is of the given type with the given lexeme. -/
def Token.is (t : Token) (ty : TokenType) (lex : String) : Bool :=
  decide (t.type = ty) && decide (t.lexeme = lex)

/-- Function `expect_token(type, lex)`. -/
def expect_token (ty : TokenType) (lex : String) (toks : Cursor) : Outcome Cursor :=
  match toks with
  | [] => .fail none ("unexpected end of input, expected '" ++ lex ++ "'")
  | t :: rest =>
    if t.is ty lex then .ok rest
    else .fail (some t.line) ("expected '" ++ lex ++ "', got '" ++ t.lexeme ++ "'")

/-- Function `expect_keyword(kw)`. -/
def expect_keyword (kw : String) (toks : Cursor) : Outcome Cursor :=
  match toks with
  | [] => .fail none ("unexpected end of input, expected keyword '" ++ kw ++ "'")
  | t :: rest =>
    if t.is TOK_KEYWORD kw then .ok rest
    else .fail (some t.line) ("expected keyword '" ++ kw ++ "', got '" ++ t.lexeme ++ "'")

/-- A read through the `NULL` that `peek_token()` returns at the end of the
token array: the process crashes. -/
def null_deref {α : Type} : Outcome α := .fail none "NULL token dereferenced"

/-- The loop test of `parse_term`. -/
def is_mul_op (t : Token) : Bool :=
  decide (t.type = TOK_OPERATOR) &&
    (decide (t.lexeme = "*") || decide (t.lexeme = "/") || decide (t.lexeme = "%"))

/-- The loop test of `parse_add_sub`. -/
def is_add_op (t : Token) : Bool :=
  decide (t.type = TOK_OPERATOR) && (decide (t.lexeme = "+") || decide (t.lexeme = "-"))

/-- The loop test of `parse_comparison`. -/
def is_cmp_op (t : Token) : Bool :=
  decide (t.type = TOK_OPERATOR) &&
    (decide (t.lexeme = "==") || decide (t.lexeme = "!=") || decide (t.lexeme = "<") ||
     decide (t.lexeme = ">") || decide (t.lexeme = "<=") || decide (t.lexeme = ">="))

/-- The test `(`, `int` or `float`, `)` that opens a cast in `parse_factor`. -/
def is_cast_start (toks : Cursor) : Bool :=
  match toks with
  | t :: t1 :: t2 :: _ =>
    t.is TOK_PUNCTUATION "(" &&
      (t1.is TOK_KEYWORD "int" || t1.is TOK_KEYWORD "float") &&
      t2.is TOK_PUNCTUATION ")"
  | _ => false

/-- The text `snprintf(op_text, 16, "BinOp(%s)", lexeme)` leaves. -/
def binop_text (lexeme : String) : String := strncpy 15 ("BinOp(" ++ lexeme ++ ")")

/-- A `NODE_BINOP` node with the two operands appended in order. -/
def binop_node (text : String) (l r : ASTNode) : ASTNode :=
  node_list_append (node_list_append (ast_new_node NODE_BINOP (some text)) l) r

mutual

/-- Function `parse_factor`. -/
def parse_factor : Nat → Cursor → Outcome (ASTNode × Cursor)
  | 0, _ => .fuel
  | f + 1, toks =>
    match toks with
    | [] => .fail none "Unexpected end of input in factor"
    | t :: rest =>
      if is_cast_start toks then
        match rest with
        | type_tok :: rest1 => do
          let rest2 ← expect_token TOK_PUNCTUATION ")" rest1
          let (cast_expr, rest3) ← parse_factor f rest2
          let cast_text := strncpy 63 ("Cast(" ++ type_tok.lexeme ++ ")")
          let cast_node := ast_new_node NODE_BINOP (some cast_text)
          .ok (node_list_append cast_node cast_expr, rest3)
        | [] => null_deref
      else if t.is TOK_PUNCTUATION "(" then do
        let (expr, rest1) ← parse_logical_or f rest
        let rest2 ← expect_token TOK_PUNCTUATION ")" rest1
        .ok (expr, rest2)
      else if t.is TOK_OPERATOR "!" then do
        let (factor, rest1) ← parse_factor f rest
        let not_node := ast_new_node NODE_BINOP (some "BinOp(!)")
        .ok (node_list_append not_node factor, rest1)
      else if t.type = TOK_INT_LITERAL ∨ t.type = TOK_FLOAT_LITERAL then
        .ok (ast_new_node NODE_NUMBER (some t.lexeme), rest)
      else if t.type = TOK_IDENTIFIER then
        match rest with
        | next :: _ =>
          if next.is TOK_PUNCTUATION "(" then parse_function_call f toks
          else .ok (ast_new_node NODE_VAR (some t.lexeme), rest)
        | [] => .ok (ast_new_node NODE_VAR (some t.lexeme), rest)
      else
        .fail (some t.line) ("unexpected token '" ++ t.lexeme ++ "' in factor")

/-- Function `parse_function_call`. -/
def parse_function_call : Nat → Cursor → Outcome (ASTNode × Cursor)
  | 0, _ => .fuel
  | f + 1, toks =>
    match toks with
    | [] => .fail (some (-1)) "expected function name, got 'NULL'"
    | t :: rest =>
      if t.type ≠ TOK_IDENTIFIER then
        .fail (some t.line) ("expected function name, got '" ++ t.lexeme ++ "'")
      else do
        let call := ast_new_node NODE_BINOP (some t.lexeme)
        let rest1 ← expect_token TOK_PUNCTUATION "(" rest
        let (call1, rest2) ← parse_call_args f call rest1
        let rest3 ← expect_token TOK_PUNCTUATION ")" rest2
        .ok (call1, rest3)

/-- The argument loop of `parse_function_call`. -/
def parse_call_args : Nat → ASTNode → Cursor → Outcome (ASTNode × Cursor)
  | 0, _, _ => .fuel
  | f + 1, call, toks =>
    match toks with
    | [] => .ok (call, toks)
    | t :: _ =>
      if t.is TOK_PUNCTUATION ")" then .ok (call, toks)
      else do
        let (arg, rest1) ← parse_logical_or f toks
        let call1 := node_list_append call arg
        match rest1 with
        | c :: rest2 =>
          if c.is TOK_PUNCTUATION "," then parse_call_args f call1 rest2
          else .ok (call1, rest1)
        | [] => .ok (call1, rest1)

/-- Function `parse_term`. -/
def parse_term : Nat → Cursor → Outcome (ASTNode × Cursor)
  | 0, _ => .fuel
  | f + 1, toks => do
    let (node, rest) ← parse_factor f toks
    parse_term_loop f node rest

/-- The `while` loop of `parse_term`. -/
def parse_term_loop : Nat → ASTNode → Cursor → Outcome (ASTNode × Cursor)
  | 0, _, _ => .fuel
  | f + 1, node, toks =>
    match toks with
    | [] => .ok (node, toks)
    | op :: rest =>
      if is_mul_op op then do
        let (rhs, rest1) ← parse_factor f rest
        parse_term_loop f (binop_node (binop_text op.lexeme) node rhs) rest1
      else .ok (node, toks)

/-- Function `parse_add_sub`. -/
def parse_add_sub : Nat → Cursor → Outcome (ASTNode × Cursor)
  | 0, _ => .fuel
  | f + 1, toks => do
    let (node, rest) ← parse_term f toks
    parse_add_sub_loop f node rest

/-- The `while` loop of `parse_add_sub`. -/
def parse_add_sub_loop : Nat → ASTNode → Cursor → Outcome (ASTNode × Cursor)
  | 0, _, _ => .fuel
  | f + 1, node, toks =>
    match toks with
    | [] => .ok (node, toks)
    | op :: rest =>
      if is_add_op op then do
        let (rhs, rest1) ← parse_term f rest
        parse_add_sub_loop f (binop_node (binop_text op.lexeme) node rhs) rest1
      else .ok (node, toks)

/-- Function `parse_comparison`. -/
def parse_comparison : Nat → Cursor → Outcome (ASTNode × Cursor)
  | 0, _ => .fuel
  | f + 1, toks => do
    let (node, rest) ← parse_add_sub f toks
    parse_comparison_loop f node rest

/-- The `while` loop of `parse_comparison`. -/
def parse_comparison_loop : Nat → ASTNode → Cursor → Outcome (ASTNode × Cursor)
  | 0, _, _ => .fuel
  | f + 1, node, toks =>
    match toks with
    | [] => .ok (node, toks)
    | op :: rest =>
      if is_cmp_op op then do
        let (rhs, rest1) ← parse_add_sub f rest
        parse_comparison_loop f (binop_node (binop_text op.lexeme) node rhs) rest1
      else .ok (node, toks)

/-- Function `parse_logical_and`. -/
def parse_logical_and : Nat → Cursor → Outcome (ASTNode × Cursor)
  | 0, _ => .fuel
  | f + 1, toks => do
    let (node, rest) ← parse_comparison f toks
    parse_logical_and_loop f node rest

/-- The `while` loop of `parse_logical_and`. -/
def parse_logical_and_loop : Nat → ASTNode → Cursor → Outcome (ASTNode × Cursor)
  | 0, _, _ => .fuel
  | f + 1, node, toks =>
    match toks with
    | [] => .ok (node, toks)
    | op :: rest =>
      if op.is TOK_OPERATOR "&&" then do
        let (rhs, rest1) ← parse_comparison f rest
        parse_logical_and_loop f (binop_node "BinOp(&&)" node rhs) rest1
      else .ok (node, toks)

/-- Function `parse_logical_or`. -/
def parse_logical_or : Nat → Cursor → Outcome (ASTNode × Cursor)
  | 0, _ => .fuel
  | f + 1, toks => do
    let (node, rest) ← parse_logical_and f toks
    parse_logical_or_loop f node rest

/-- The `while` loop of `parse_logical_or`. -/
def parse_logical_or_loop : Nat → ASTNode → Cursor → Outcome (ASTNode × Cursor)
  | 0, _, _ => .fuel
  | f + 1, node, toks =>
    match toks with
    | [] => .ok (node, toks)
    | op :: rest =>
      if op.is TOK_OPERATOR "||" then do
        let (rhs, rest1) ← parse_logical_and f rest
        parse_logical_or_loop f (binop_node "BinOp(||)" node rhs) rest1
      else .ok (node, toks)

end

/-- Function `parse_expression`. -/
def parse_expression (fuel : Nat) (toks : Cursor) : Outcome (ASTNode × Cursor) :=
  parse_logical_or fuel toks

/-- Function `parse_assignment_inline`: an assignment without the closing `;`.  The name
is copied with `strncpy(var_name, lexeme, 63)` into an uninitialised 64-byte
buffer, so the model is exact for lexemes shorter than 63 characters. -/
def parse_assignment_inline (fuel : Nat) (toks : Cursor) : Outcome (ASTNode × Cursor) :=
  match toks with
  | [] => null_deref
  | t :: rest =>
    if t.type = TOK_IDENTIFIER then do
      let var_name := strncpy 63 t.lexeme
      let rest1 ← expect_token TOK_OPERATOR "=" rest
      let buf := strncpy 127 ("Assign: " ++ var_name ++ " =")
      let assign_node := ast_new_node NODE_ASSIGN (some buf)
      let (expr, rest2) ← parse_expression fuel rest1
      .ok (node_list_append assign_node expr, rest2)
    else
      .fail (some t.line) ("expected identifier in assignment, got '" ++ t.lexeme ++ "'")

/-- Function `parse_assignment`: `identifier '=' expression ';'`. -/
def parse_assignment (fuel : Nat) (toks : Cursor) : Outcome (ASTNode × Cursor) :=
  match toks with
  | [] => null_deref
  | t :: rest =>
    if t.type = TOK_IDENTIFIER then do
      let var_name := strncpy 63 t.lexeme
      let rest1 ← expect_token TOK_OPERATOR "=" rest
      let buf := strncpy 127 ("Assign: " ++ var_name ++ " =")
      let assign_node := ast_new_node NODE_ASSIGN (some buf)
      let (expr, rest2) ← parse_expression fuel rest1
      let rest3 ← expect_token TOK_PUNCTUATION ";" rest2
      .ok (node_list_append assign_node expr, rest3)
    else
      .fail (some t.line) ("expected identifier in assignment, got '" ++ t.lexeme ++ "'")

/-- Function `parse_return_stmt`: a Number or Var expression is folded into the label
(`snprintf(buf, 64, "Return: %s", expr->text)`) and dropped as a child. -/
def parse_return_stmt (fuel : Nat) (toks : Cursor) : Outcome (ASTNode × Cursor) := do
  let rest ← expect_keyword "return" toks
  let (expr, rest1) ← parse_expression fuel rest
  let rest2 ← expect_token TOK_PUNCTUATION ";" rest1
  if expr.kind = NODE_NUMBER ∨ expr.kind = NODE_VAR then
    .ok (ast_new_node NODE_RETURN (some (strncpy 63 ("Return: " ++ expr.text))), rest2)
  else
    .ok (node_list_append (ast_new_node NODE_RETURN (some "Return:")) expr, rest2)

/-- The token opens a variable declaration: keyword `int` or `float`. -/
def is_decl_start (t : Token) : Bool :=
  t.is TOK_KEYWORD "int" || t.is TOK_KEYWORD "float"

/-- The `while (1)` loop of `parse_var_decl`, one declarator per round. -/
def parse_var_decl_loop : Nat → String → ASTNode → Cursor → Outcome (ASTNode × Cursor)
  | 0, _, _, _ => .fuel
  | f + 1, type_text, decl, toks =>
    match toks with
    | [] => .fail (some (-1)) "expected identifier in declaration, got 'NULL'"
    | t :: rest =>
      if t.type ≠ TOK_IDENTIFIER then
        .fail (some t.line) ("expected identifier in declaration, got '" ++ t.lexeme ++ "'")
      else do
        let var_name := strncpy 63 t.lexeme
        let plain : ASTNode × Cursor :=
          (ast_new_node NODE_VAR_DECL
            (some (strncpy 127 ("VarDecl: " ++ type_text ++ " " ++ var_name))), rest)
        let (var_node, rest3) ←
          (match rest with
           | e :: rest1 =>
             if e.is TOK_OPERATOR "=" then do
               let (rhs, rest2) ← parse_expression f rest1
               let buf := strncpy 127 ("VarDecl: " ++ type_text ++ " " ++ var_name ++ " =")
               .ok (node_list_append (ast_new_node NODE_VAR_DECL (some buf)) rhs, rest2)
             else .ok plain
           | [] => .ok plain : Outcome (ASTNode × Cursor))
        let decl1 := node_list_append decl var_node
        match rest3 with
        | [] => .fail (some (-1)) "expected ',' or ';'"
        | p :: rest4 =>
          if p.type = TOK_PUNCTUATION then
            if p.lexeme = "," then parse_var_decl_loop f type_text decl1 rest4
            else if p.lexeme = ";" then .ok (decl1, rest4)
            else .fail (some p.line) ("expected ',' or ';', got '" ++ p.lexeme ++ "'")
          else .fail (some p.line) "expected ',' or ';'"

/-- Function `parse_var_decl`. -/
def parse_var_decl (fuel : Nat) (toks : Cursor) : Outcome (ASTNode × Cursor) :=
  match toks with
  | [] => null_deref
  | t :: rest =>
    if !is_decl_start t then
      .fail (some t.line) ("expected type in declaration, got '" ++ t.lexeme ++ "'")
    else
      parse_var_decl_loop fuel (strncpy 15 t.lexeme)
        (ast_new_node NODE_VAR_DECL (some "VarDeclGroup:")) rest

mutual

/-- Function `parse_statement`. -/
def parse_statement : Nat → Cursor → Outcome (ASTNode × Cursor)
  | 0, _ => .fuel
  | f + 1, toks =>
    match toks with
    | [] => null_deref
    | t :: rest =>
      if t.is TOK_PUNCTUATION "\x7b" then parse_block_statement f toks
      else if decide (t.type = TOK_IDENTIFIER) &&
          (match rest with
           | n :: _ => n.is TOK_OPERATOR "="
           | [] => false) then parse_assignment f toks
      else if t.is TOK_KEYWORD "return" then parse_return_stmt f toks
      else if t.is TOK_KEYWORD "if" then parse_if_statement f toks
      else if t.is TOK_KEYWORD "while" then parse_while_statement f toks
      else if t.is TOK_KEYWORD "for" then parse_for_statement f toks
      else .fail (some t.line) ("unexpected token '" ++ t.lexeme ++ "' in statement")

/-- Function `parse_block_statement`: `'{' { var_decl | statement } '}'`. -/
def parse_block_statement : Nat → Cursor → Outcome (ASTNode × Cursor)
  | 0, _ => .fuel
  | f + 1, toks => do
    let rest ← expect_token TOK_PUNCTUATION "\x7b" toks
    let (body_node, rest1) ← parse_block_loop f (ast_new_node NODE_BODY (some "Body:")) rest
    let rest2 ← expect_token TOK_PUNCTUATION "\x7d" rest1
    .ok (body_node, rest2)

/-- The `while` loop of `parse_block_statement`. -/
def parse_block_loop : Nat → ASTNode → Cursor → Outcome (ASTNode × Cursor)
  | 0, _, _ => .fuel
  | f + 1, body_node, toks =>
    match toks with
    | [] => .ok (body_node, toks)
    | t :: _ =>
      if t.is TOK_PUNCTUATION "\x7d" then .ok (body_node, toks)
      else if is_decl_start t then do
        let (decl, rest) ← parse_var_decl f toks
        parse_block_loop f (node_list_append body_node decl) rest
      else do
        let (stmt, rest) ← parse_statement f toks
        parse_block_loop f (node_list_append body_node stmt) rest

/-- The `while` loop of `parse_body`: declarations and statements up to the
next `}` (not consumed) or the end of the tokens. -/
def parse_body_loop : Nat → ASTNode → Cursor → Outcome (ASTNode × Cursor)
  | 0, _, _ => .fuel
  | f + 1, body_node, toks =>
    match toks with
    | [] => .ok (body_node, toks)
    | t :: _ =>
      if t.is TOK_PUNCTUATION "\x7d" then .ok (body_node, toks)
      else if is_decl_start t then do
        let (var_decl, rest) ← parse_var_decl f toks
        parse_body_loop f (node_list_append body_node var_decl) rest
      else do
        let (stmt, rest) ← parse_statement f toks
        parse_body_loop f (node_list_append body_node stmt) rest

/-- Function `parse_if_statement`: after `else`, an `if` is parsed as a statement and
appended directly; anything else is handed to `parse_body`. -/
def parse_if_statement : Nat → Cursor → Outcome (ASTNode × Cursor)
  | 0, _ => .fuel
  | f + 1, toks => do
    let r1 ← expect_keyword "if" toks
    let r2 ← expect_token TOK_PUNCTUATION "(" r1
    let (condition, r3) ← parse_expression f r2
    let r4 ← expect_token TOK_PUNCTUATION ")" r3
    let if_node := node_list_append (ast_new_node NODE_IF (some "If:")) condition
    let (then_stmt, r5) ← parse_statement f r4
    let if_node1 := node_list_append if_node then_stmt
    match r5 with
    | [] => .ok (if_node1, r5)
    | t :: r6 =>
      if t.is TOK_KEYWORD "else" then
        if (match r6 with
            | next :: _ => next.is TOK_KEYWORD "if"
            | [] => false) then do
          let (else_if_node, r7) ← parse_statement f r6
          .ok (node_list_append if_node1 else_if_node, r7)
        else do
          let (else_body, r7) ← parse_body_loop f (ast_new_node NODE_BODY (some "Body:")) r6
          let else_node := node_list_append (ast_new_node NODE_ELSE (some "Else:")) else_body
          .ok (node_list_append if_node1 else_node, r7)
      else .ok (if_node1, r5)

/-- Function `parse_while_statement`. -/
def parse_while_statement : Nat → Cursor → Outcome (ASTNode × Cursor)
  | 0, _ => .fuel
  | f + 1, toks => do
    let r1 ← expect_keyword "while" toks
    let r2 ← expect_token TOK_PUNCTUATION "(" r1
    let (cond, r3) ← parse_expression f r2
    let r4 ← expect_token TOK_PUNCTUATION ")" r3
    let while_node := node_list_append (ast_new_node NODE_WHILE (some "While:")) cond
    let (body, r5) ← parse_statement f r4
    .ok (node_list_append while_node body, r5)

/-- Function `parse_for_statement`: the children are appended in the order init,
condition, increment, body; an omitted clause adds no child. -/
def parse_for_statement : Nat → Cursor → Outcome (ASTNode × Cursor)
  | 0, _ => .fuel
  | f + 1, toks => do
    let r1 ← expect_keyword "for" toks
    let r2 ← expect_token TOK_PUNCTUATION "(" r1
    let for_node := ast_new_node NODE_FOR (some "For:")
    let (for_node1, r3) ←
      (match r2 with
       | [] => null_deref
       | t :: _ =>
         if t.is TOK_PUNCTUATION ";" then .ok (for_node, r2)
         else do
           let (init, r) ← parse_assignment_inline f r2
           .ok (node_list_append for_node init, r) : Outcome (ASTNode × Cursor))
    let r4 ← expect_token TOK_PUNCTUATION ";" r3
    let (for_node2, r5) ←
      (match r4 with
       | [] => null_deref
       | t :: _ =>
         if t.is TOK_PUNCTUATION ";" then .ok (for_node1, r4)
         else do
           let (cond, r) ← parse_expression f r4
           .ok (node_list_append for_node1 cond, r) : Outcome (ASTNode × Cursor))
    let r6 ← expect_token TOK_PUNCTUATION ";" r5
    let (for_node3, r7) ←
      (match r6 with
       | [] => null_deref
       | t :: _ =>
         if t.is TOK_PUNCTUATION ")" then .ok (for_node2, r6)
         else do
           let (inc, r) ← parse_assignment_inline f r6
           .ok (node_list_append for_node2 inc, r) : Outcome (ASTNode × Cursor))
    let r8 ← expect_token TOK_PUNCTUATION ")" r7
    let (body, r9) ← parse_statement f r8
    .ok (node_list_append for_node3 body, r9)

end

/-- Function `parse_body`. -/
def parse_body (fuel : Nat) (toks : Cursor) : Outcome (ASTNode × Cursor) :=
  parse_body_loop fuel (ast_new_node NODE_BODY (some "Body:")) toks

/-- The `while (1)` loop of `parse_param_list`.  `type_buf` and `name_buf` are
zero-initialised buffers of 16 and 32 bytes, `desc` is filled by
`snprintf(desc, 128, "Param: %s %s%s", ...)`. -/
def parse_param_loop : Nat → ASTNode → Cursor → Outcome (ASTNode × Cursor)
  | 0, _, _ => .fuel
  | f + 1, params, toks =>
    match toks with
    | [] => .ok (params, toks)
    | t :: rest =>
      if t.is TOK_PUNCTUATION ")" then .ok (params, toks)
      else if !is_decl_start t then
        .fail (some t.line) ("expected type in parameter, got '" ++ t.lexeme ++ "'")
      else
        let type_buf := strncpy 15 t.lexeme
        match rest with
        | [] => .fail (some (-1)) "expected identifier in parameter, got 'NULL'"
        | n :: rest1 =>
          if n.type ≠ TOK_IDENTIFIER then
            .fail (some n.line) ("expected identifier in parameter, got '" ++ n.lexeme ++ "'")
          else do
            let name_buf := strncpy 31 n.lexeme
            let (is_array, rest3) ←
              (match rest1 with
               | b :: rest2 =>
                 if b.is TOK_PUNCTUATION "[" then do
                   let r ← expect_token TOK_PUNCTUATION "]" rest2
                   .ok (true, r)
                 else .ok (false, rest1)
               | [] => .ok (false, rest1) : Outcome (Bool × Cursor))
            let desc := strncpy 127
              ("Param: " ++ type_buf ++ " " ++ name_buf ++ (if is_array then "[]" else ""))
            let params1 := node_list_append params (ast_new_node NODE_VAR_DECL (some desc))
            match rest3 with
            | c :: rest4 =>
              if c.is TOK_PUNCTUATION "," then parse_param_loop f params1 rest4
              else .ok (params1, rest3)
            | [] => .ok (params1, rest3)

/-- Function `parse_param_list`. -/
def parse_param_list (fuel : Nat) (toks : Cursor) : Outcome (ASTNode × Cursor) :=
  parse_param_loop fuel (ast_new_node NODE_PARAM_LIST (some "Parameters:")) toks

/-- The token is a return type keyword: `int`, `float` or `void`. -/
def is_return_type (t : Token) : Bool :=
  t.is TOK_KEYWORD "int" || t.is TOK_KEYWORD "float" || t.is TOK_KEYWORD "void"

/-- Function `parse_function_def`: the return type keyword is consumed and not stored. -/
def parse_function_def (fuel : Nat) (toks : Cursor) : Outcome (ASTNode × Cursor) :=
  match toks with
  | [] => null_deref
  | t :: rest =>
    if !is_return_type t then
      .fail (some t.line) ("expected function return type, got '" ++ t.lexeme ++ "'")
    else
      match rest with
      | [] => .fail none "unexpected end of input, expected function name"
      | n :: rest1 =>
        if n.type ≠ TOK_IDENTIFIER then
          .fail (some n.line) ("expected function name, got '" ++ n.lexeme ++ "'")
        else do
          let fn_node := ast_new_node NODE_FUNCTION_DEF (some n.lexeme)
          let rest2 ← expect_token TOK_PUNCTUATION "(" rest1
          let (params, rest3) ← parse_param_list fuel rest2
          let fn_node1 := node_list_append fn_node params
          let rest4 ← expect_token TOK_PUNCTUATION ")" rest3
          let rest5 ← expect_token TOK_PUNCTUATION "\x7b" rest4
          let (body, rest6) ← parse_body fuel rest5
          let fn_node2 := node_list_append fn_node1 body
          let rest7 ← expect_token TOK_PUNCTUATION "\x7d" rest6
          .ok (fn_node2, rest7)

/-- The test in `parse_program` that sends a declaration to
`parse_function_def`: a type keyword, an identifier, then `(`. -/
def is_function_start (toks : Cursor) : Bool :=
  match toks with
  | t :: rest =>
    is_return_type t &&
      (match rest with
       | t1 :: t2 :: _ => decide (t1.type = TOK_IDENTIFIER) && t2.is TOK_PUNCTUATION "("
       | _ => false)
  | [] => false

/-- The `while` loop of `parse_program`. -/
def parse_program_loop : Nat → ASTNode → Cursor → Outcome ASTNode
  | 0, _, _ => .fuel
  | f + 1, program_node, toks =>
    match toks with
    | [] => .ok program_node
    | t :: _ =>
      if t.type = TOK_EOF_TOKEN then .ok program_node
      else if is_function_start toks then do
        let (fn, rest) ← parse_function_def f toks
        parse_program_loop f (node_list_append program_node fn) rest
      else if is_decl_start t then do
        let (decl, rest) ← parse_var_decl f toks
        parse_program_loop f (node_list_append program_node decl) rest
      else
        .fail (some t.line) ("unexpected token '" ++ t.lexeme ++ "' at global scope")

/-- Function `parse_program`. -/
def parse_program (fuel : Nat) (toks : Cursor) : Outcome ASTNode :=
  parse_program_loop fuel (ast_new_node NODE_PROGRAM none) toks

/-- The text `print_ast_recursive` writes for the node itself, after the
indentation: nothing for the Program node, else the label and a newline. -/
def node_line (kind : NodeKind) (text : String) : String :=
  match kind with
  | NODE_PROGRAM => ""
  | NODE_FUNCTION_DEF => "FunctionDefinition: " ++ text ++ "\n"
  | NODE_NUMBER => "Number(" ++ text ++ ")\n"
  | NODE_VAR => "Var(" ++ text ++ ")\n"
  | _ => text ++ "\n"

/-- Four spaces per level. -/
def indentation (depth : Nat) : String := String.mk (List.replicate (4 * depth) ' ')

mutual

/-- Function `print_ast_recursive(out, node, depth)`: the text appended to the file. -/
def print_ast_recursive : ASTNode → Nat → String
  | .mk kind text children, depth =>
    indentation depth ++ node_line kind text ++ print_children children (depth + 1)

/-- The loop over the children in `print_ast_recursive`. -/
def print_children : List ASTNode → Nat → String
  | [], _ => ""
  | c :: cs, depth => print_ast_recursive c depth ++ print_children cs depth

end

/-- Function `print_ast`: the children of the Program root are printed at depth 0. -/
def print_ast (root : ASTNode) : String :=
  if root.kind = NODE_PROGRAM then print_children root.children 0
  else print_ast_recursive root 0

/-- Function `main` of the parser on the loaded token array: the content written to
`ast.txt`. -/
def parser_main (fuel : Nat) (tokens : List Token) : Outcome String := do
  let program ← parse_program fuel tokens
  .ok (print_ast program)

end Phase2

/-! ## Reading `ast.txt` (`load_ast`, the same code in phases 3 and 4) -/

namespace Ast

/-- One loaded AST line: the indent in 4-space units and the text after the
leading spaces. -/
structure ASTLine where
  indent : Nat
  text : String
deriving DecidableEq, Repr

/-- Successive results of `fgets(buf, 512, fp)`: a chunk ends after a newline
or when it holds 511 characters.  `cur` is the current chunk, reversed. -/
def read_chunks : List Char → List Char → List (List Char)
  | [], [] => []
  | [], c :: cur => [(c :: cur).reverse]
  | c :: cs, cur =>
    if c = '\n' ∨ cur.length + 1 = 511 then (c :: cur).reverse :: read_chunks cs []
    else read_chunks cs (c :: cur)

/-- The body of the loop of `load_ast` for one chunk: count the leading spaces,
divide by 4, cut the text at the first `\r` or `\n`. -/
def load_line (buf : List Char) : ASTLine :=
  let spaces := (buf.takeWhile (fun c => c = ' ')).length
  { indent := spaces / 4,
    text := String.mk (((buf.drop spaces).takeWhile (fun c => c != '\r' && c != '\n')).take 511) }

/-- Function `load_ast`: at most `MAX_LINES = 2048` lines are loaded. -/
def load_ast (file : String) : List ASTLine :=
  ((read_chunks file.data []).take 2048).map load_line

end Ast

/-! ## Reading `tokens.txt` (`load_tokens` in `phase2_syntax.c`) -/

namespace CStr

/-- Function `strstr(hay, needle)`: the text from the first occurrence of
`needle` on, `none` for `NULL`. -/
def strstr : List Char → List Char → Option (List Char)
  | [], needle => if needle.isEmpty then some [] else none
  | c :: cs, needle => if needle.isPrefixOf (c :: cs) then some (c :: cs) else strstr cs needle

/-- Function `strchr(s, c)` for a character `c` other than NUL: the text from the
first `c` on, `none` for `NULL`. -/
def strchr (s : List Char) (c : Char) : Option (List Char) :=
  match s.dropWhile (fun x => x != c) with
  | [] => none
  | r => some r

/-- The number a run of decimal digits stands for, most significant digit
first. -/
def decimal_value (ds : List Char) : Nat :=
  ds.foldl (fun acc c => 10 * acc + (c.toNat - 48)) 0

/-- Function `atoi`: white space is skipped, then an optional sign and the
maximal run of digits are read.  Exact when the value fits in an `int`. -/
def atoi (s : List Char) : Int :=
  let s1 := s.dropWhile isspace
  if s1.head? = some '-' then - (decimal_value (s1.tail.takeWhile isdigit) : Int)
  else if s1.head? = some '+' then (decimal_value (s1.tail.takeWhile isdigit) : Int)
  else (decimal_value (s1.takeWhile isdigit) : Int)

end CStr

namespace Phase2

open CStr TokenType

/-- Function `token_type_from_string`: every name that is not one of the six
kinds the parser knows gives `TOK_EOF_TOKEN`. -/
def token_type_from_string (str : String) : TokenType :=
  if str = "KEYWORD" then TOK_KEYWORD
  else if str = "IDENTIFIER" then TOK_IDENTIFIER
  else if str = "INT_LITERAL" then TOK_INT_LITERAL
  else if str = "FLOAT_LITERAL" then TOK_FLOAT_LITERAL
  else if str = "OPERATOR" then TOK_OPERATOR
  else if str = "PUNCTUATION" then TOK_PUNCTUATION
  else if str = "EOF" then TOK_EOF_TOKEN
  else TOK_EOF_TOKEN

/-- The body of the loop of `load_tokens` for one line `linebuf` read by
`fgets`: the line number after `[line:`, the type name after the first `]`
(read up to a space, a tab or a quote, at most 31 characters kept), and the
lexeme between the first quote and the next one (empty when its length is 0 or
more than 255). -/
def load_token_line (linebuf : List Char) : Outcome Token :=
  match strstr linebuf "[line:".data with
  | none => .fail none "Error parsing line number"
  | some p =>
    let line_num := atoi (p.drop 6)
    match strchr linebuf ']' with
    | none => .fail none "Error parsing token type"
    | some r =>
      let r1 := (r.drop 1).dropWhile (fun c => c = ' ' || c = '\t')
      let type_str := (r1.takeWhile (fun c => c != ' ' && c != '\t' && c != '"')).take 31
      match strchr linebuf '"' with
      | none => .fail none "Error parsing lexeme (no opening quote)"
      | some q1 =>
        match strchr (q1.drop 1) '"' with
        | none => .fail none "Error parsing lexeme (no closing quote)"
        | some q2 =>
          let len := (q1.drop 1).length - q2.length
          let lexeme_str := if len > 0 ∧ len < 256 then (q1.drop 1).take len else []
          .ok { type := token_type_from_string (String.mk type_str),
                lexeme := strncpy 255 (String.mk lexeme_str),
                line := line_num }

/-- The loop of `load_tokens` over the lines `fgets` reads, `count` being
`token_count`: it aborts when 4096 tokens are loaded and a line is left, and
stops after the first token of type `TOK_EOF_TOKEN`. -/
def load_tokens_loop : List (List Char) → Nat → Outcome (List Token)
  | [], _ => .ok []
  | linebuf :: rest, count =>
    if count ≥ 4096 then .fail none "Error: too many tokens (>4096)"
    else
      match load_token_line linebuf with
      | .ok tok =>
        if tok.type = TOK_EOF_TOKEN then .ok [tok]
        else
          match load_tokens_loop rest (count + 1) with
          | .ok toks => .ok (tok :: toks)
          | .fail l m => .fail l m
          | .fuel => .fuel
      | .fail l m => .fail l m
      | .fuel => .fuel

/-- Function `load_tokens` on the content of `tokens.txt`: the token array.  The
lines are read by `fgets(linebuf, 512, fp)` as in `load_ast`. -/
def load_tokens (file : String) : Outcome (List Token) :=
  load_tokens_loop (Ast.read_chunks file.data []) 0

/-- Function `main` of the parser on the content of `tokens.txt`: the content written
to `ast.txt`. -/
def main (fuel : Nat) (file : String) : Outcome String :=
  match load_tokens file with
  | .ok tokens => parser_main fuel tokens
  | .fail l m => .fail l m
  | .fuel => .fuel

end Phase2

/-! ## Phase 3: the semantic analyzer (`phase_3_semantic.c`) -/

namespace Phase3

open CStr Ast

inductive VarType where
  | TYPE_INT
  | TYPE_FLOAT
  | TYPE_BOOL
  | TYPE_VOID
  | TYPE_UNKNOWN
deriving DecidableEq, Repr

open VarType

structure Symbol where
  name : String
  type : VarType
deriving DecidableEq, Repr

/-- A scope: `symbols[0 .. count)` in order. -/
abbrev Scope := List Symbol

structure Function where
  name : String
  return_type : VarType
  scope : Scope
  has_return : Bool
deriving DecidableEq, Repr

/-- The globals of the analyzer.  `functions` is `functions[0 .. func_count)`;
`current_function` is the index the pointer of that name points at, `none` for
`NULL`; `global_scope` is the static scope declared in the `VarDecl:` branch. -/
structure State where
  lines : List ASTLine
  current_line : Nat
  functions : List Function
  current_function : Option Nat
  global_scope : Scope
deriving DecidableEq, Repr

def string_to_type (s : String) : VarType :=
  if s = "int" then TYPE_INT
  else if s = "float" then TYPE_FLOAT
  else if s = "bool" then TYPE_BOOL
  else if s = "void" then TYPE_VOID
  else TYPE_UNKNOWN

/-- Function `semantic_error(lineno, msg)`: print and `exit(EXIT_FAILURE)`. -/
def semantic_error {α : Type} (lineno : Nat) (msg : String) : Outcome α :=
  .fail (some (lineno : Int)) msg

/-- Function `add_symbol`: redeclaration and overflow abort; the name is stored cut to
63 characters. -/
def add_symbol (scope : Scope) (name : String) (type : VarType) (lineno : Nat) :
    Outcome Scope :=
  if scope.any (fun s => decide (s.name = name)) then
    semantic_error lineno (strncpy 127 ("Redeclaration of '" ++ name ++ "'"))
  else if scope.length ≥ 1024 then
    semantic_error lineno "Symbol table overflow"
  else .ok (scope ++ [{ name := strncpy 63 name, type := type }])

/-- Function `lookup_symbol`: the type of the first symbol of that name, else
`TYPE_UNKNOWN`. -/
def lookup_symbol (scope : Scope) (name : String) : VarType :=
  match scope.find? (fun s => decide (s.name = name)) with
  | some s => s.type
  | none => TYPE_UNKNOWN

/-- The text of a line from offset `n` on (`txt + n`). -/
def from_offset (txt : String) (n : Nat) : List Char := txt.data.drop n

/-- The function record `current_function` points at. -/
def current_fn (st : State) : Option Function :=
  match st.current_function with
  | some i => st.functions.get? i
  | none => none

/-- A write through `current_function`. -/
def update_current_fn (st : State) (g : Function → Function) : State :=
  match st.current_function with
  | some i => { st with functions := st.functions.modify g i }
  | none => st

/-- A read or write through a `NULL` `current_function`: the process crashes. -/
def null_function {α : Type} : Outcome α := .fail none "NULL current_function dereferenced"

/-- The write `functions[func_count++]` when `func_count` is already `MAX_FUNCS`:
there is no bound check, the record is written past the end of the array and
the process is taken to crash. -/
def functions_overflow {α : Type} : Outcome α := .fail none "functions array overflow"

/-- The value `lines[current_line].indent` as the `VarDecl:` branch reads it, without a
bound check: past the loaded lines the static array holds indent 0. -/
def indent_at (st : State) : Nat :=
  match st.lines.get? st.current_line with
  | some ln => ln.indent
  | none => 0

/-- The current line, when `current_line < line_count`. -/
def cur_line (st : State) : Option ASTLine := st.lines.get? st.current_line

/-- The current line exists, has the given indent and starts with `Body:`. -/
def at_body (st : State) (indent : Nat) : Bool :=
  match cur_line st with
  | some ln => decide (ln.indent = indent) && strncmp_eq ln.text "Body:" 5
  | none => false

/-- The current line exists, has the given indent and starts with `Else:`. -/
def at_else (st : State) (indent : Nat) : Bool :=
  match cur_line st with
  | some ln => decide (ln.indent = indent) && strncmp_eq ln.text "Else:" 5
  | none => false

def advance (st : State) : State := { st with current_line := st.current_line + 1 }

/-- The operators for which a `BinOp` has type bool. -/
def is_bool_op (op : String) : Bool :=
  decide (op = "==") || decide (op = "!=") || decide (op = "<") || decide (op = ">") ||
  decide (op = "<=") || decide (op = ">=") || decide (op = "&&") || decide (op = "||")

/-- One `Param:` or `VarDecl:` line inside `Parameters:`: when
`sscanf(..., "%s %s", ...)` reads two words, the second is added as a symbol
with the type named by the first.  `scope` is `none` when `current_function`
is `NULL`. -/
def param_symbol (off : Nat) (ln : ASTLine) (lineno : Nat) (scope : Option Scope) :
    Outcome (Option Scope) :=
  let param_type := scan_word (from_offset ln.text off)
  let param_name := scan_word (scan_word_rest (from_offset ln.text off))
  if param_type ≠ [] ∧ param_name ≠ [] then
    match scope with
    | some sc => do
      let sc1 ← add_symbol sc (String.mk param_name) (string_to_type (String.mk param_type)) lineno
      .ok (some sc1)
    | none => null_function
  else .ok scope

/-- The `while` loop of the `Parameters:` branch over the lines from
`current_line` on: every line of greater indent is consumed.  Returns the new
scope and the number of lines consumed. -/
def params_loop : List ASTLine → Nat → Nat → Option Scope → Outcome (Option Scope × Nat)
  | [], _, _, scope => .ok (scope, 0)
  | ln :: rest, expected_indent, lineno, scope =>
    if ln.indent > expected_indent then do
      let scope1 ←
        (if strncmp_eq ln.text "Param:" 6 then param_symbol 6 ln lineno scope
         else if strncmp_eq ln.text "VarDecl:" 8 then param_symbol 8 ln lineno scope
         else .ok scope : Outcome (Option Scope))
      let (scope2, n) ← params_loop rest expected_indent (lineno + 1) scope1
      .ok (scope2, n + 1)
    else .ok (scope, 0)

mutual

/-- Function `parse_node(expected_indent)`: the type of the node at the cursor and the
state after it.  (The second `Assign:` branch of the C function can never be
reached and is left out; the debug `printf` is not modelled.) -/
def parse_node : Nat → Nat → State → Outcome (VarType × State)
  | 0, _, _ => .fuel
  | f + 1, expected_indent, st =>
    match cur_line st with
    | none => .ok (TYPE_UNKNOWN, st)
    | some ln =>
      if ln.indent ≠ expected_indent then .ok (TYPE_UNKNOWN, st)
      else
        let txt := ln.text
        if strncmp_eq txt "FunctionDefinition:" 19 then
          if st.functions.length ≥ 128 then functions_overflow
          else do
            let fname := String.mk (scan_word (from_offset txt 19))
            let fn : Function :=
              { name := strncpy 63 fname, return_type := TYPE_INT, scope := [],
                has_return := false }
            let st1 : State :=
              { st with functions := st.functions ++ [fn],
                        current_function := some st.functions.length,
                        current_line := st.current_line + 1 }
            let (_, st2) ← parse_node f (expected_indent + 1) st1
            let (_, st3) ← parse_node f (expected_indent + 1) st2
            .ok (TYPE_VOID, st3)
        else if strncmp_eq txt "Body:" 5 then do
          let st1 ← children_loop f expected_indent (advance st)
          .ok (TYPE_VOID, st1)
        else if strncmp_eq txt "VarDecl:" 8 then do
          let typestr := String.mk (scan_word (from_offset txt 8))
          let name := String.mk (scan_word (scan_word_rest (from_offset txt 8)))
          let vt := string_to_type typestr
          let st1 ←
            (match st.current_function with
             | some _ =>
               match current_fn st with
               | some fn => do
                 let scope1 ← add_symbol fn.scope name vt st.current_line
                 .ok (update_current_fn st (fun g => { g with scope := scope1 }))
               | none => null_function
             | none => do
               let scope1 ← add_symbol st.global_scope name vt st.current_line
               .ok { st with global_scope := scope1 } : Outcome State)
          let st2 := advance st1
          if indent_at st2 = expected_indent + 1 then do
            let (_, st3) ← parse_node f (expected_indent + 1) st2
            .ok (TYPE_VOID, st3)
          else .ok (TYPE_VOID, st2)
        else if strncmp_eq txt "Assign:" 7 then
          let name := String.mk (scan_word (from_offset txt 7))
          match current_fn st with
          | none => semantic_error 0 "Assignment outside function"
          | some fn =>
            let lhs := lookup_symbol fn.scope name
            if lhs = TYPE_UNKNOWN then
              semantic_error 0 (strncpy 127 ("Use of undeclared '" ++ name ++ "'"))
            else do
              let (rhs, st1) ← parse_node f (expected_indent + 1) (advance st)
              if rhs ≠ lhs then
                semantic_error 0 (strncpy 127 ("Type mismatch in assignment to '" ++ name ++ "'"))
              else .ok (TYPE_VOID, st1)
        else if strncmp_eq txt "If:" 3 then do
          let (cond_type, st1) ← parse_node f (expected_indent + 1) (advance st)
          if cond_type ≠ TYPE_BOOL then
            semantic_error st1.current_line "Condition of 'if' must be boolean"
          else do
            let st2 ←
              (if at_body st1 (expected_indent + 1) then do
                 let (_, s) ← parse_node f (expected_indent + 1) st1
                 .ok s
               else .ok st1 : Outcome State)
            if at_else st2 (expected_indent + 1) then
              let st3 := advance st2
              if at_body st3 (expected_indent + 2) then do
                let (_, st4) ← parse_node f (expected_indent + 2) st3
                .ok (TYPE_VOID, st4)
              else .ok (TYPE_VOID, st3)
            else .ok (TYPE_VOID, st2)
        else if strncmp_eq txt "Return:" 7 then
          match current_fn st with
          | none => null_function
          | some _ => do
            let st0 := update_current_fn st (fun g => { g with has_return := true })
            let rest := (from_offset txt 7).dropWhile (fun c => c = ' ')
            let (rt, st1) ←
              (if rest = [] then parse_node f (expected_indent + 1) (advance st0)
               else
                 let temp := scan_word rest
                 let rt : VarType :=
                   if (match temp with
                       | c :: _ => isdigit c
                       | [] => false) then TYPE_INT
                   else
                     match current_fn st0 with
                     | some fn => lookup_symbol fn.scope (String.mk temp)
                     | none => TYPE_UNKNOWN
                 .ok (rt, advance st0) : Outcome (VarType × State))
            match current_fn st1 with
            | none => null_function
            | some fn =>
              let st2 :=
                if fn.return_type = TYPE_INT ∧ fn.name ≠ "main" then
                  update_current_fn st1 (fun g => { g with return_type := rt })
                else st1
              match current_fn st2 with
              | none => null_function
              | some fn2 =>
                if rt ≠ fn2.return_type then
                  semantic_error st2.current_line "Return type mismatch"
                else .ok (TYPE_VOID, st2)
        else if strncmp_eq txt "For:" 4 then do
          let (_, st1) ← parse_node f (expected_indent + 1) (advance st)
          let (cond, st2) ← parse_node f (expected_indent + 1) st1
          if cond ≠ TYPE_BOOL then
            semantic_error st2.current_line "Condition of 'for' must be boolean"
          else do
            let (_, st3) ← parse_node f (expected_indent + 1) st2
            if at_body st3 (expected_indent + 1) then do
              let (_, st4) ← parse_node f (expected_indent + 1) st3
              .ok (TYPE_VOID, st4)
            else .ok (TYPE_VOID, st3)
        else if strncmp_eq txt "While:" 6 then do
          let (cond, st1) ← parse_node f (expected_indent + 1) (advance st)
          if cond ≠ TYPE_BOOL then
            semantic_error st1.current_line "Condition of 'while' must be boolean"
          else if at_body st1 (expected_indent + 1) then do
            let (_, st2) ← parse_node f (expected_indent + 1) st1
            .ok (TYPE_VOID, st2)
          else .ok (TYPE_VOID, st1)
        else if strncmp_eq txt "BinOp(" 6 then do
          let op := String.mk (scan_until_rparen (from_offset txt 6))
          let (left, st1) ← parse_node f (expected_indent + 1) (advance st)
          let (right, st2) ← parse_node f (expected_indent + 1) st1
          if left ≠ right then
            semantic_error st2.current_line "Type mismatch in binary operation"
          else if is_bool_op op then .ok (TYPE_BOOL, st2)
          else .ok (left, st2)
        else if strncmp_eq txt "Number(" 7 then
          .ok (TYPE_INT, advance st)
        else if strncmp_eq txt "Var(" 4 then
          let varname := String.mk (scan_until_rparen (from_offset txt 4))
          match current_fn st with
          | none => null_function
          | some fn =>
            let vt := lookup_symbol fn.scope varname
            if vt = TYPE_UNKNOWN then
              semantic_error 0 (strncpy 127 ("Use of undeclared '" ++ varname ++ "'"))
            else .ok (vt, advance st)
        else if strncmp_eq txt "Cast(" 5 then do
          let typestr := String.mk (scan_until_rparen (from_offset txt 5))
          let cast_type := string_to_type typestr
          let (_, st1) ← parse_node f (expected_indent + 1) (advance st)
          .ok (cast_type, st1)
        else if strncmp_eq txt "Parameters:" 11 then do
          let st1 := advance st
          let (scope1, n) ←
            params_loop (st1.lines.drop st1.current_line) expected_indent st1.current_line
              ((current_fn st1).map (fun fn => fn.scope))
          let st2 :=
            match scope1 with
            | some sc => update_current_fn st1 (fun g => { g with scope := sc })
            | none => st1
          .ok (TYPE_VOID, { st2 with current_line := st2.current_line + n })
        else if strncmp_eq txt "VarDeclGroup:" 13 then do
          let st1 ← group_loop f expected_indent (advance st)
          .ok (TYPE_VOID, st1)
        else
          match st.functions.find? (fun fn => decide (txt = fn.name)) with
          | some fn => do
            let st1 ← children_loop f expected_indent (advance st)
            .ok (fn.return_type, st1)
          | none => .ok (TYPE_UNKNOWN, advance st)

/-- The loop `while (current_line < line_count && lines[current_line].indent >
expected_indent) parse_node(expected_indent + 1);` of the `Body:` branch and of
the call branch. -/
def children_loop : Nat → Nat → State → Outcome State
  | 0, _, _ => .fuel
  | f + 1, expected_indent, st =>
    match cur_line st with
    | none => .ok st
    | some ln =>
      if ln.indent > expected_indent then do
        let (_, st1) ← parse_node f (expected_indent + 1) st
        children_loop f expected_indent st1
      else .ok st

/-- The loop of the `VarDeclGroup:` branch: it runs while the current line has
indent exactly `expected_indent + 1`. -/
def group_loop : Nat → Nat → State → Outcome State
  | 0, _, _ => .fuel
  | f + 1, expected_indent, st =>
    match cur_line st with
    | none => .ok st
    | some ln =>
      if ln.indent = expected_indent + 1 then do
        let (_, st1) ← parse_node f (expected_indent + 1) st
        group_loop f expected_indent st1
      else .ok st

end

/-- The loop `while (current_line < line_count) parse_node(0);` of `main`. -/
def main_loop : Nat → State → Outcome State
  | 0, _ => .fuel
  | f + 1, st =>
    match cur_line st with
    | none => .ok st
    | some _ => do
      let (_, st1) ← parse_node f 0 st
      main_loop f st1

/-- The first function, in order, that has a non-void return type and no
recorded return. -/
def missing_return (fns : List Function) : Option Function :=
  fns.find? (fun fn => decide (fn.return_type ≠ TYPE_VOID) && !fn.has_return)

def initial_state (lines : List ASTLine) : State :=
  { lines := lines, current_line := 0, functions := [], current_function := none,
    global_scope := [] }

/-- Function `main` of the analyzer on the content of `ast.txt`: `ok` is the verdict
"Semantic Analysis: Successful" with exit status 0. -/
def main (fuel : Nat) (file : String) : Outcome Unit := do
  let st ← main_loop fuel (initial_state (load_ast file))
  match missing_return st.functions with
  | some fn => .fail none ("function '" ++ fn.name ++ "' missing return")
  | none => .ok ()

end Phase3

/-! ## Phase 4: the TAC generator (`phase_4_tac_generator.c`) -/

namespace Phase4

open CStr Ast

/-- The globals of the generator and the text written to standard output. -/
structure State where
  lines : List ASTLine
  current_line : Nat
  temp_counter : Nat
  label_counter : Nat
  out : String
deriving DecidableEq, Repr

/-- Function `new_temp()`: `t<temp_counter>`, then the counter is incremented. -/
def new_temp (st : State) : String × State :=
  ("t" ++ fmt_d st.temp_counter, { st with temp_counter := st.temp_counter + 1 })

/-- Function `new_label()`: `L<label_counter>`, then the counter is incremented. -/
def new_label (st : State) : String × State :=
  ("L" ++ fmt_d st.label_counter, { st with label_counter := st.label_counter + 1 })

/-- A `printf` of one piece of text. -/
def emit (st : State) (s : String) : State := { st with out := st.out ++ s }

/-- What `printf("%s", p)` prints for an operand pointer: glibc prints
`(null)` for `NULL`. -/
def str_arg (p : Option String) : String :=
  match p with
  | some s => s
  | none => "(null)"

def cur_line (st : State) : Option ASTLine := st.lines.get? st.current_line

def advance (st : State) : State := { st with current_line := st.current_line + 1 }

/-- The test `current_line < line_count && strcmp(text, "Body:") == 0`. -/
def at_body (st : State) : Bool :=
  match cur_line st with
  | some ln => decide (ln.text = "Body:")
  | none => false

/-- The text of a line from offset `n` on. -/
def from_offset (txt : String) (n : Nat) : List Char := txt.data.drop n

/-- A write past the end of a local buffer: the process is taken to crash. -/
def buffer_overflow {α : Type} : Outcome α := .fail none "buffer overflow"

/-- The content of a buffer `char buf[size]` after a `sscanf` conversion without
field width has stored the characters `w` and the final NUL in it: they fit
when `w` has fewer than `size` characters; a longer run is written past the
end of the buffer. -/
def scanned (size : Nat) (w : List Char) : Outcome String :=
  if w.length < size then .ok (String.mk w) else buffer_overflow

mutual

/-- Function `gen_block(indent)`. -/
def gen_block : Nat → Nat → State → Outcome State
  | 0, _, _ => .fuel
  | f + 1, indent, st =>
    match cur_line st with
    | none => .ok st
    | some ln =>
      if ln.indent ≥ indent then do
        let (_, st1) ← gen_node f indent st
        gen_block f indent st1
      else .ok st

/-- Function `gen_node(indent)`: the operand name returned (`none` for `NULL`) and the
state after it.  The names read with `sscanf` go to `name[64]`, `var[64]`,
`op[8]` and `val[64]`. -/
def gen_node : Nat → Nat → State → Outcome (Option String × State)
  | 0, _, _ => .fuel
  | f + 1, indent, st =>
    match cur_line st with
    | none => .ok (none, st)
    | some ln =>
      if ln.indent < indent then .ok (none, st)
      else if strncmp_eq ln.text "FunctionDefinition:" 19 then do
        let name ← scanned 64 (scan_word (from_offset ln.text 19))
        let st1 := advance (emit st ("func " ++ name ++ ":\n"))
        -- skip parameters
        let st2 ←
          (match cur_line st1 with
           | some l1 =>
             if l1.indent = indent + 1 then do
               let (_, s) ← gen_node f (indent + 1) st1
               .ok s
             else .ok st1
           | none => .ok st1 : Outcome State)
        -- body
        let st3 ←
          (match cur_line st2 with
           | some l2 =>
             if strstr_found l2.text.data "Body:".data then gen_block f (indent + 1) st2
             else .ok st2
           | none => .ok st2 : Outcome State)
        .ok (none, emit st3 "endfunc\n\n")
      else if ln.text = "Body:" then do
        let st1 ← gen_block f (indent + 1) (advance st)
        .ok (none, st1)
      else if strncmp_eq ln.text "VarDeclGroup:" 13 then
        let st1 := advance st
        let skipped := ((st1.lines.drop st1.current_line).takeWhile
          (fun l => decide (l.indent > indent))).length
        .ok (none, { st1 with current_line := st1.current_line + skipped })
      else if strncmp_eq ln.text "VarDecl:" 8 then
        let st1 := advance st
        match cur_line st1 with
        | some l1 =>
          if l1.indent > indent then do
            let (_, st2) ← gen_node f (indent + 1) st1
            .ok (none, st2)
          else .ok (none, st1)
        | none => .ok (none, st1)
      else if strncmp_eq ln.text "Assign:" 7 then do
        let var ← scanned 64 (scan_word (from_offset ln.text 7))
        let (r, st1) ← gen_node f (indent + 1) (advance st)
        .ok (none, emit st1 (var ++ " = " ++ str_arg r ++ "\n"))
      else if strncmp_eq ln.text "Return" 6 then do
        let (r, st1) ← gen_node f (indent + 1) (advance st)
        match r with
        | some x => .ok (none, emit st1 ("return " ++ x ++ "\n"))
        | none => .ok (none, emit st1 "return\n")
      else if strncmp_eq ln.text "If:" 3 then do
        let (cond, st1) ← gen_node f (indent + 1) (advance st)
        let (Lelse, st2) := new_label st1
        let (Lend, st3) := new_label st2
        let st4 := emit st3 ("ifFalse " ++ str_arg cond ++ " goto " ++ Lelse ++ "\n")
        -- then
        let st5 ← (if at_body st4 then gen_block f (indent + 1) st4 else .ok st4 : Outcome State)
        let st6 := emit (emit st5 ("goto " ++ Lend ++ "\n")) (Lelse ++ ":\n")
        -- else
        let st7 ←
          (match cur_line st6 with
           | some l6 =>
             if strncmp_eq l6.text "Else:" 5 then
               let s := advance st6
               if at_body s then gen_block f (indent + 2) s else .ok s
             else .ok st6
           | none => .ok st6 : Outcome State)
        .ok (none, emit st7 (Lend ++ ":\n"))
      else if strncmp_eq ln.text "For:" 4 then do
        -- init
        let (_, st1) ← gen_node f (indent + 1) (advance st)
        let (Lstart, st2) := new_label st1
        let (Lend, st3) := new_label st2
        let st4 := emit st3 (Lstart ++ ":\n")
        -- cond
        let (cond, st5) ← gen_node f (indent + 1) st4
        let st6 := emit st5 ("ifFalse " ++ str_arg cond ++ " goto " ++ Lend ++ "\n")
        -- body
        let st7 ← (if at_body st6 then gen_block f (indent + 1) st6 else .ok st6 : Outcome State)
        -- increment
        let (_, st8) ← gen_node f (indent + 1) st7
        .ok (none, emit (emit st8 ("goto " ++ Lstart ++ "\n")) (Lend ++ ":\n"))
      else if strncmp_eq ln.text "While:" 6 then do
        let (Lstart, st1) := new_label (advance st)
        let (Lend, st2) := new_label st1
        let st3 := emit st2 (Lstart ++ ":\n")
        let (cond, st4) ← gen_node f (indent + 1) st3
        let st5 := emit st4 ("ifFalse " ++ str_arg cond ++ " goto " ++ Lend ++ "\n")
        let st6 ← (if at_body st5 then gen_block f (indent + 1) st5 else .ok st5 : Outcome State)
        .ok (none, emit (emit st6 ("goto " ++ Lstart ++ "\n")) (Lend ++ ":\n"))
      else if strncmp_eq ln.text "BinOp(" 6 then do
        let op ← scanned 8 (scan_until_rparen (from_offset ln.text 6))
        let (l, st1) ← gen_node f (indent + 1) (advance st)
        let (r, st2) ← gen_node f (indent + 1) st1
        let (t, st3) := new_temp st2
        .ok (some t, emit st3 (t ++ " = " ++ str_arg l ++ " " ++ op ++ " " ++ str_arg r ++ "\n"))
      else if strncmp_eq ln.text "Number(" 7 then do
        let val ← scanned 64 (scan_until_rparen (from_offset ln.text 7))
        .ok (some val, advance st)
      else if strncmp_eq ln.text "Var(" 4 then do
        let name ← scanned 64 (scan_until_rparen (from_offset ln.text 4))
        .ok (some name, advance st)
      else if strncmp_eq ln.text "Cast(" 5 then
        gen_node f (indent + 1) (advance st)
      else
        .ok (none, advance st)

end

/-- The loop `while (current_line < line_count) gen_node(0);` of `main`. -/
def main_loop : Nat → State → Outcome State
  | 0, _ => .fuel
  | f + 1, st =>
    match cur_line st with
    | none => .ok st
    | some _ => do
      let (_, st1) ← gen_node f 0 st
      main_loop f st1

def initial_state (lines : List ASTLine) : State :=
  { lines := lines, current_line := 0, temp_counter := 0, label_counter := 0, out := "" }

/-- Function `main` of the generator on the content of `ast.txt`: the text written to
standard output. -/
def main (fuel : Nat) (file : String) : Outcome String := do
  let st ← main_loop fuel (initial_state (load_ast file))
  .ok st.out

end Phase4

/-! ## Vocabulary for the precedence and associativity claims -/

namespace Phase2

open CStr TokenType NodeKind

/-- The precedence level of a binary operator lexeme, from 1 (`||`, lowest) to
5 (`* / %`, highest), as given by which function of the parser consumes it;
0 for every other text. -/
def lexeme_level (s : String) : Nat :=
  if s = "||" then 1
  else if s = "&&" then 2
  else if s = "==" ∨ s = "!=" ∨ s = "<" ∨ s = ">" ∨ s = "<=" ∨ s = ">=" then 3
  else if s = "+" ∨ s = "-" then 4
  else if s = "*" ∨ s = "/" ∨ s = "%" then 5
  else 0

/-- The precedence level of a token: that of its lexeme for an OPERATOR token,
0 for every other token. -/
def op_level (t : Token) : Nat :=
  if t.type = TOK_OPERATOR then lexeme_level t.lexeme else 0

/-- The precedence level of a node: for a `NODE_BINOP` node labelled
`BinOp(<op>)` the level of `<op>`; 0 for every other node (leaves, `BinOp(!)`,
casts, calls). -/
def node_level : ASTNode → Nat
  | .mk k t _ =>
    if k = NODE_BINOP ∧ t.data.take 6 = "BinOp(".data ∧ t.data.getLast? = some ')' then
      lexeme_level (String.mk ((t.data.drop 6).dropLast))
    else 0

mutual

/-- No binary operator node in the tree has a binary operator node of a lower
level as a direct operand. -/
def prec_ok : ASTNode → Bool
  | .mk k t cs => operands_ok (node_level (.mk k t [])) cs

/-- Every operand in the list is either no binary operator node or one of level
at least `lvl`, and satisfies `prec_ok` itself. -/
def operands_ok : Nat → List ASTNode → Bool
  | _, [] => true
  | lvl, c :: cs =>
    (decide (node_level c = 0) || decide (lvl ≤ node_level c)) && prec_ok c && operands_ok lvl cs

end

/-- A primary operand token: an integer literal, a float literal or an
identifier. -/
def is_primary (t : Token) : Bool :=
  decide (t.type = TOK_INT_LITERAL) || decide (t.type = TOK_FLOAT_LITERAL) ||
  decide (t.type = TOK_IDENTIFIER)

/-- The leaf for a primary operand token: `Var` for an identifier, `Number` for
a literal, the lexeme cut to 63 characters. -/
def leaf (t : Token) : ASTNode :=
  if t.type = TOK_IDENTIFIER then .mk NODE_VAR (strncpy 63 t.lexeme) []
  else .mk NODE_NUMBER (strncpy 63 t.lexeme) []

/-- The operator node `BinOp(<op>)[l, r]` for an operator token. -/
def binop (o : Token) (l r : ASTNode) : ASTNode :=
  .mk NODE_BINOP ("BinOp(" ++ o.lexeme ++ ")") [l, r]

/-- The level of the token that follows, 0 at the end of the tokens. -/
def next_level (rest : Cursor) : Nat :=
  match rest with
  | [] => 0
  | t :: _ => op_level t

/-- The token that follows is `(`. -/
def next_is_lparen (rest : Cursor) : Bool :=
  match rest with
  | [] => false
  | t :: _ => t.is TOK_PUNCTUATION "("

/-- The tokens after an expression do not continue it: the next token, if any,
is neither a binary operator nor `(`. -/
def ends_expression (rest : Cursor) : Prop :=
  next_level rest = 0 ∧ next_is_lparen rest = false

/-- The tokens `toks` start with an operand: with any fuel of at least `c`,
`parse_factor` reads the node `n` from `toks` and leaves the tokens `rest`. -/
def reads_operand (c : Nat) (toks : Cursor) (n : ASTNode) (rest : Cursor) : Prop :=
  ∀ fuel, parse_factor (c + fuel) toks = .ok (n, rest)

/-- The trees that respect the operator levels down to their operands.
`Layered k n`: `n` is an operand read by `parse_factor` (a leaf, a call, a
cast, a negation or a parenthesised expression), or an operator node of some
level `j ≥ k` whose left operand is `Layered j` and whose right operand is
`Layered (j + 1)`. -/
inductive Layered : Nat → ASTNode → Prop where
  | operand (k : Nat) (n : ASTNode) (fuel : Nat) (toks rest : Cursor) :
      parse_factor fuel toks = .ok (n, rest) → Layered k n
  | node (k j : Nat) (o : Token) (l r : ASTNode) :
      k ≤ j → op_level o = j → Layered j l → Layered (j + 1) r → Layered k (binop o l r)

/-- No token is the punctuation `(`. -/
def no_paren (toks : Cursor) : Prop :=
  ∀ t ∈ toks, t.is TOK_PUNCTUATION "(" = false

end Phase2

/-! ## Vocabulary for the dangling-else claim -/

namespace Phase2

open CStr TokenType NodeKind

/-- The tokens `toks` start with an expression: with any fuel of at least `c`,
`parse_expression` reads the node `n` from `toks` and leaves the tokens `rest`. -/
def reads_expression (c : Nat) (toks : Cursor) (n : ASTNode) (rest : Cursor) : Prop :=
  ∀ fuel, parse_expression (c + fuel) toks = .ok (n, rest)

/-- The tokens `toks` start with a statement: with any fuel of at least `c`,
`parse_statement` reads the node `n` from `toks` and leaves the tokens `rest`. -/
def reads_statement (c : Nat) (toks : Cursor) (n : ASTNode) (rest : Cursor) : Prop :=
  ∀ fuel, parse_statement (c + fuel) toks = .ok (n, rest)

/-- With any fuel of at least `c`, `parse_body` reads the `Body:` node `n` from
`toks` and leaves the tokens `rest`. -/
def reads_body (c : Nat) (toks : Cursor) (n : ASTNode) (rest : Cursor) : Prop :=
  ∀ fuel, parse_body (c + fuel) toks = .ok (n, rest)

/-- The next token, if any, is not the keyword `kw`. -/
def next_is_not_keyword (kw : String) (toks : Cursor) : Prop :=
  match toks with
  | [] => True
  | t :: _ => t.is TOK_KEYWORD kw = false

end Phase2

/-! ## Vocabulary for the serialization claims -/

namespace Phase2

open CStr TokenType NodeKind

/-- The label of a node as the AST protocol gives it: `FunctionDefinition:
<name>`, `Number(<text>)`, `Var(<name>)`, and for every other kind the text
the parser stored in the node. -/
def label_text (kind : NodeKind) (text : String) : String :=
  match kind with
  | NODE_FUNCTION_DEF => "FunctionDefinition: " ++ text
  | NODE_NUMBER => "Number(" ++ text ++ ")"
  | NODE_VAR => "Var(" ++ text ++ ")"
  | _ => text

mutual

/-- The pre-order traversal of a tree as (depth, label) pairs: the node itself,
then its children in order, one level deeper. -/
def preorder : ASTNode → Nat → List (Nat × String)
  | .mk kind text children, depth =>
    (depth, label_text kind text) :: preorder_list children (depth + 1)

/-- The pre-order traversals of the trees of a list, one after the other. -/
def preorder_list : List ASTNode → Nat → List (Nat × String)
  | [], _ => []
  | c :: cs, depth => preorder c depth ++ preorder_list cs depth

end

/-- The file text of a list of (depth, label) pairs: per pair one line made of
4 × depth spaces, the label and a newline. -/
def render_lines : List (Nat × String) → String
  | [] => ""
  | (depth, label) :: rest => indentation depth ++ label ++ "\n" ++ render_lines rest

mutual

/-- No node of the tree has kind `NODE_PROGRAM`. -/
def no_program : ASTNode → Bool
  | .mk kind _ children => decide (kind ≠ NODE_PROGRAM) && no_program_list children

/-- No node of the trees of the list has kind `NODE_PROGRAM`. -/
def no_program_list : List ASTNode → Bool
  | [] => true
  | c :: cs => no_program c && no_program_list cs

end

end Phase2

/-! ## Vocabulary for the lexer claims -/

namespace Phase1

/-- The two-character operators the specification lists: `==`, `!=`, `<=`, `>=`,
`++`, `--`, `+=`, `-=`, `*=`, `/=`, `&&`, `||`. -/
def double_operators : List (Char × Char) :=
  [('=', '='), ('!', '='), ('<', '='), ('>', '='), ('+', '+'), ('-', '-'),
   ('+', '='), ('-', '='), ('*', '='), ('/', '='), ('&', '&'), ('|', '|')]

/-- The single-character operators the specification lists. -/
def operator_chars : List Char := ['+', '-', '*', '/', '<', '>', '=', '!', '&', '|', '%']

/-- The punctuation characters the specification lists. -/
def punctuation_chars : List Char := ['[', ']', ',', ';', '(', ')', '\x7b', '\x7d']

/-- The character after `c` in the input does not make a two-character
operator with it. -/
def no_double_operator (c : Char) (rest : List Char) : Prop :=
  ∀ d, rest.head? = some d → (c, d) ∉ double_operators

/-- A character that starts no token of the specification: not white space,
not a letter, a digit, `_`, `#`, `"`, an operator character or a punctuation
character. -/
def other_character (c : Char) : Prop :=
  CStr.isspace c = false ∧ isalpha c = false ∧ CStr.isdigit c = false ∧ c ≠ '_' ∧ c ≠ '#' ∧
  c ≠ '"' ∧ c ∉ operator_chars ∧ c ∉ punctuation_chars

/-- Every character of the run is a digit. -/
def all_digits (ds : List Char) : Prop := ∀ c ∈ ds, CStr.isdigit c = true

instance (ds : List Char) : Decidable (all_digits ds) := by
  unfold all_digits
  infer_instance

/-- The input does not go on with a digit: the digit run before it is maximal. -/
def no_digit_next (rest : List Char) : Prop :=
  ∀ d, rest.head? = some d → CStr.isdigit d = false

/-- The input does not go on with `.` and a digit. -/
def no_fraction_next (rest : List Char) : Prop :=
  ∀ d r, rest = '.' :: d :: r → CStr.isdigit d = false

/-- The states in which the loop of `main` calls `scan_token`: the places of the
input where the lexer starts a token. -/
def token_starts : Nat → State → List State
  | 0, _ => []
  | f + 1, st =>
    if peek st = none then []
    else
      match skip_whitespace_and_comments f st with
      | .ok st1 =>
        if peek st1 = none then []
        else
          st1 ::
            (match scan_token st1 with
             | .ok (_, st2) => token_starts f st2
             | _ => [])
      | _ => []

instance (c : Char) : Decidable (other_character c) := by
  unfold other_character
  infer_instance

end Phase1

/-! ## Vocabulary for the indentation claim -/

namespace Outcome

/-- Every value the run returns satisfies `P` (nothing is said of a run that
aborts). -/
def Sat {α : Type} (P : α → Prop) (x : Outcome α) : Prop := ∀ a, x = .ok a → P a

end Outcome

namespace Phase2

open CStr TokenType NodeKind

/-- The text has no newline character. -/
def no_newline (s : List Char) : Bool := s.all (fun c => c != '\n')

/-- The text does not begin with a space. -/
def no_leading_space (s : List Char) : Bool :=
  match s with
  | c :: _ => c != ' '
  | [] => true

/-- A text that fits on one line of `ast.txt` and leaves the indentation before
it readable: no newline inside and no space at its beginning. -/
def clean_text (s : String) : Bool := no_newline s.data && no_leading_space s.data

/-- The token is an identifier or a number: the tokens whose lexeme the parser
copies into the text of a node. -/
def carries_text (t : Token) : Bool :=
  decide (t.type = TOK_IDENTIFIER) || decide (t.type = TOK_INT_LITERAL) ||
    decide (t.type = TOK_FLOAT_LITERAL)

/-- The lexemes of the identifier and number tokens are clean, as the lexer
makes them: an identifier consists of letters, digits and `_`, a number of
digits and at most one `.`. -/
def clean_tokens (toks : Cursor) : Prop :=
  ∀ t ∈ toks, carries_text t = true → clean_text t.lexeme = true

instance (toks : Cursor) : Decidable (clean_tokens toks) := by
  unfold clean_tokens
  infer_instance

mutual

/-- No node of the tree is a Program node and every node has a clean text. -/
def good_node : ASTNode → Bool
  | .mk kind text children =>
    decide (kind ≠ NODE_PROGRAM) && clean_text text && good_list children

/-- All trees of the list are good. -/
def good_list : List ASTNode → Bool
  | [] => true
  | c :: cs => good_node c && good_list cs

end

/-- What the parse functions keep: the node built is good and the tokens left
are clean. -/
def Kept (p : ASTNode × Cursor) : Prop := good_node p.1 = true ∧ clean_tokens p.2

/-- The lines of a text: each line ends after its newline; `cur` is the
beginning of the current line. -/
def text_lines_from (cur : List Char) : List Char → List (List Char)
  | [] => if cur = [] then [] else [cur]
  | c :: cs =>
    if c = '\n' then (cur ++ [c]) :: text_lines_from [] cs
    else text_lines_from (cur ++ [c]) cs

/-- The indents of the lines of `ast.txt`, each read the way `load_ast` reads
it: the number of leading spaces divided by 4. -/
def line_indents (text : String) : List Nat :=
  (text_lines_from [] text.data).map (fun l => (Ast.load_line l).indent)

/-- Each indent is at most one more than the indent before it; `prev` is the
indent before the first. -/
def steps_ok : Nat → List Nat → Bool
  | _, [] => true
  | prev, d :: ds => decide (d ≤ prev + 1) && steps_ok d ds

/-- The indents form a well-nested tree: the first is 0 and no indent exceeds
the one before it by more than 1. -/
def well_nested : List Nat → Bool
  | [] => true
  | d :: ds => decide (d = 0) && steps_ok d ds

end Phase2

/-! ## Vocabulary for the typing claims -/

namespace Phase3

/-- The operators for which the specification gives a `BinOp` the type bool. -/
def bool_operators : List String := ["==", "!=", "<", ">", "<=", ">=", "&&", "||"]

/-- The operator named in a `BinOp(op)` line, as the analyzer reads it. -/
def binop_operator (txt : String) : String :=
  String.mk (CStr.scan_until_rparen (from_offset txt 6))

end Phase3

namespace Phase3

open CStr Ast

/-- The lines of an expression subtree at indent `d` that is built from
`Number(`, `Var(`, `Cast(` and `BinOp(` lines: a leaf, a cast with its operand
one level deeper, or a binary operation with its two operands one level
deeper. -/
inductive expr_lines : Nat → List ASTLine → Prop where
  | number (d : Nat) (txt : String) :
      strncmp_eq txt "Number(" 7 = true → expr_lines d [⟨d, txt⟩]
  | var (d : Nat) (txt : String) :
      strncmp_eq txt "Var(" 4 = true → expr_lines d [⟨d, txt⟩]
  | cast (d : Nat) (txt : String) (sub : List ASTLine) :
      strncmp_eq txt "Cast(" 5 = true → expr_lines (d + 1) sub → expr_lines d (⟨d, txt⟩ :: sub)
  | binop (d : Nat) (txt : String) (l r : List ASTLine) :
      strncmp_eq txt "BinOp(" 6 = true → expr_lines (d + 1) l → expr_lines (d + 1) r →
      expr_lines d (⟨d, txt⟩ :: (l ++ r))

end Phase3

/-! ## Vocabulary for the claims about the emitted TAC -/

namespace CStr

/-- The number a list of decimal digits stands for, least significant digit
first. -/
def digits_val : List Char → Nat
  | [] => 0
  | c :: cs => (c.toNat - 48) + 10 * digits_val cs

end CStr

namespace Outcome

/-- The run returns a value, and the value satisfies `P`. -/
def Returns {α : Type} (P : α → Prop) (x : Outcome α) : Prop := ∃ a, x = .ok a ∧ P a

end Outcome

namespace Phase4

open CStr Ast

/-- The name `new_temp` gives to temporary number `k`. -/
def temp_name (k : Nat) : String := "t" ++ fmt_d k

/-- The name `new_label` gives to label number `k`. -/
def label_name (k : Nat) : String := "L" ++ fmt_d k

/-- One instruction of the emitted text, by the `printf` that writes it.
Labels and the temporary on the left of a binary instruction are given by
their numbers; operands are given by their text. -/
inductive Instr where
  | func (name : String)
  | endfunc
  | copy (var src : String)
  | ret (src : Option String)
  | if_false (cond : String) (target : Nat)
  | goto (target : Nat)
  | label (k : Nat)
  | binary (t : Nat) (l op r : String)
deriving DecidableEq, Repr

/-- The text of one instruction, as the generator prints it. -/
def Instr.text : Instr → String
  | .func name => "func " ++ name ++ ":\n"
  | .endfunc => "endfunc\n\n"
  | .copy var src => var ++ " = " ++ src ++ "\n"
  | .ret (some x) => "return " ++ x ++ "\n"
  | .ret none => "return\n"
  | .if_false c k => "ifFalse " ++ c ++ " goto " ++ label_name k ++ "\n"
  | .goto k => "goto " ++ label_name k ++ "\n"
  | .label k => label_name k ++ ":\n"
  | .binary t l o r => temp_name t ++ " = " ++ l ++ " " ++ o ++ " " ++ r ++ "\n"

/-- The text of a list of instructions. -/
def render : List Instr → String
  | [] => ""
  | i :: rest => i.text ++ render rest

/-- The label an instruction declares. -/
def Instr.declared : Instr → Option Nat
  | .label k => some k
  | _ => none

/-- The label an instruction jumps to. -/
def Instr.target : Instr → Option Nat
  | .if_false _ k => some k
  | .goto k => some k
  | _ => none

/-- The temporary a binary instruction assigns. -/
def Instr.assigned : Instr → Option Nat
  | .binary t _ _ _ => some t
  | _ => none

/-- The operands an instruction reads. -/
def Instr.operands : Instr → List String
  | .copy _ src => [src]
  | .ret (some x) => [x]
  | .if_false c _ => [c]
  | .binary _ l _ r => [l, r]
  | _ => []

/-- The instruction is a `func <name>:` line. -/
def Instr.is_func : Instr → Bool
  | .func _ => true
  | _ => false

/-- The instruction is an `endfunc` line. -/
def Instr.is_endfunc : Instr → Bool
  | .endfunc => true
  | _ => false

/-- The labels declared by `Lk:` lines, in order of appearance. -/
def declared_labels (d : List Instr) : List Nat := d.filterMap Instr.declared

/-- The targets of the `goto` and `ifFalse` instructions, in order of appearance. -/
def jump_targets (d : List Instr) : List Nat := d.filterMap Instr.target

/-- The temporaries on the left of the binary instructions, in order of
appearance. -/
def assigned_temps (d : List Instr) : List Nat := d.filterMap Instr.assigned

/-- The number of `func <name>:` lines. -/
def func_count (d : List Instr) : Nat := d.countP Instr.is_func

/-- The number of `endfunc` lines. -/
def endfunc_count (d : List Instr) : Nat := d.countP Instr.is_endfunc

/-- The test of the `FunctionDefinition:` branch of `gen_node`. -/
def is_function_line (ln : ASTLine) : Bool := strncmp_eq ln.text "FunctionDefinition:" 19

/-- The number of `FunctionDefinition:` lines among the first `n` lines. -/
def function_lines_upto (lines : List ASTLine) (n : Nat) : Nat :=
  (lines.take n).countP is_function_line

/-- Every `FunctionDefinition:` line has indent 0, as in the `ast.txt` the
parser writes. -/
def functions_at_top (lines : List ASTLine) : Prop :=
  ∀ ln ∈ lines, is_function_line ln = true → ln.indent = 0

/-- The operand a `Number(` or `Var(` line gives, as `gen_node` reads it. -/
def ast_operand (ln : ASTLine) : Option String :=
  if strncmp_eq ln.text "Number(" 7 then
    some (String.mk (scan_until_rparen (from_offset ln.text 7)))
  else if strncmp_eq ln.text "Var(" 4 then
    some (String.mk (scan_until_rparen (from_offset ln.text 4)))
  else none

/-- The operands the `Number(` and `Var(` lines of the AST give. -/
def ast_operands (lines : List ASTLine) : List String := lines.filterMap ast_operand

/-- The characters `gen_node` reads from a line with `sscanf`, and the size of the
buffer they are stored in: the name of a `FunctionDefinition:` line, the
variable of an `Assign:` line, the operator of a `BinOp(` line, the operand of
a `Number(` or `Var(` line. -/
def line_read (ln : ASTLine) : Option (List Char × Nat) :=
  if strncmp_eq ln.text "FunctionDefinition:" 19 then
    some (scan_word (from_offset ln.text 19), 64)
  else if strncmp_eq ln.text "Assign:" 7 then some (scan_word (from_offset ln.text 7), 64)
  else if strncmp_eq ln.text "BinOp(" 6 then
    some (scan_until_rparen (from_offset ln.text 6), 8)
  else if strncmp_eq ln.text "Number(" 7 then
    some (scan_until_rparen (from_offset ln.text 7), 64)
  else if strncmp_eq ln.text "Var(" 4 then
    some (scan_until_rparen (from_offset ln.text 4), 64)
  else none

/-- What `gen_node` reads from the line is not empty, so that `sscanf` stores
something, and fits the buffer together with the final NUL. -/
def fits (ln : ASTLine) : Bool :=
  match line_read ln with
  | some (w, size) => !w.isEmpty && decide (w.length < size)
  | none => true

/-- On every line of the AST, what `gen_node` reads from such a line is there and
fits its buffer: the name of a `FunctionDefinition:` line, the variable of an
`Assign:` line, the operator of a `BinOp(` line, the operand of a `Number(` or
`Var(` line. -/
def words_fit (lines : List ASTLine) : Prop := ∀ ln ∈ lines, fits ln = true

/-- Where the texts of an instruction that are no operands come from: the name
of a `func` line is the word read from a `FunctionDefinition:` line, the
variable of a copy the word read from an `Assign:` line, the operator of a
binary instruction the text read from a `BinOp(` line. -/
def Instr.sourced (lines : List ASTLine) : Instr → Prop
  | .func name => ∃ ln ∈ lines, strncmp_eq ln.text "FunctionDefinition:" 19 = true ∧
      name.data = scan_word (from_offset ln.text 19)
  | .copy var _ => ∃ ln ∈ lines, strncmp_eq ln.text "Assign:" 7 = true ∧
      var.data = scan_word (from_offset ln.text 7)
  | .binary _ _ op _ => ∃ ln ∈ lines, strncmp_eq ln.text "BinOp(" 6 = true ∧
      op.data = scan_until_rparen (from_offset ln.text 6)
  | _ => True

/-- An operand that may be read when `n` temporaries have been assigned: one
of these temporaries, an operand of the AST, or the text `(null)` that `printf`
writes for a missing operand. -/
def is_operand (lines : List ASTLine) (n : Nat) (o : String) : Prop :=
  (∃ j, j < n ∧ o = temp_name j) ∨ o ∈ ast_operands lines ∨ o = "(null)"

/-- Every operand of every instruction may be read where it stands, `n`
temporaries having been assigned before the first instruction. -/
def operands_ok (lines : List ASTLine) : Nat → List Instr → Prop
  | _, [] => True
  | n, i :: rest =>
    (∀ o ∈ i.operands, is_operand lines n o) ∧
    operands_ok lines (n + (assigned_temps [i]).length) rest

/-- Label hygiene of a piece of output that uses the labels `a .. b - 1`: each of
them is declared once and is the target of one jump, and no other label is
declared or jumped to. -/
def hygiene (a b : Nat) (d : List Instr) : Prop :=
  ∀ k, (declared_labels d).count k = (if a ≤ k ∧ k < b then 1 else 0) ∧
       (jump_targets d).count k = (if a ≤ k ∧ k < b then 1 else 0)

/-- The `func` and `endfunc` lines of a piece of output written while the cursor
went from line `c` to line `c2`: as many `endfunc` as `func`, and when every
`FunctionDefinition:` line has indent 0, one `func` for each such line passed. -/
def func_facts (lines : List ASTLine) (c c2 : Nat) (d : List Instr) : Prop :=
  endfunc_count d = func_count d ∧
  (functions_at_top lines →
    func_count d + function_lines_upto lines c = function_lines_upto lines c2)

/-- What one run of a piece of the generator did to the state: `d` is the list
of instructions written. -/
structure Core (st st2 : State) (d : List Instr) : Prop where
  lines_eq : st2.lines = st.lines
  cursor_le : st.current_line ≤ st2.current_line
  out_eq : st2.out = st.out ++ render d
  labels_le : st.label_counter ≤ st2.label_counter
  temps_le : st.temp_counter ≤ st2.temp_counter
  assigned : assigned_temps d =
    List.range' st.temp_counter (st2.temp_counter - st.temp_counter)
  operands : operands_ok st.lines st.temp_counter d
  sourced : ∀ i ∈ d, i.sourced st.lines

/-- The run from `st` to `st2` wrote the instructions `d`, with label hygiene and
matching `func` and `endfunc` lines. -/
def Traced (st st2 : State) (d : List Instr) : Prop :=
  Core st st2 d ∧ hygiene st.label_counter st2.label_counter d ∧
  func_facts st.lines st.current_line st2.current_line d

/-- What `gen_node(indent)` started in `st` has done when it returns operand `p.1`
in state `p.2`: the cursor has moved on if the current line had indent at least
`indent`, and the operand may be read. -/
def node_post (indent : Nat) (st : State) (p : Option String × State) : Prop :=
  (∃ d, Traced st p.2 d) ∧
  is_operand st.lines p.2.temp_counter (str_arg p.1) ∧
  (∀ ln, cur_line st = some ln → indent ≤ ln.indent → st.current_line < p.2.current_line)

/-- What `gen_block` started in `st` has done when it returns in `st2`. -/
def block_post (st st2 : State) : Prop := ∃ d, Traced st st2 d

end Phase4

/-! ## Vocabulary for the scope claim -/

namespace Phase3

open CStr Ast

/-- The names of the symbols of a scope, in order. -/
def scope_names (scope : Scope) : List String := scope.map Symbol.name

/-- Every scope of the state, the scope of each function and the global scope,
has pairwise distinct symbol names. -/
def scopes_distinct (st : State) : Prop :=
  (∀ fn ∈ st.functions, (scope_names fn.scope).Nodup) ∧ (scope_names st.global_scope).Nodup

instance (st : State) : Decidable (scopes_distinct st) := by
  unfold scopes_distinct
  infer_instance

/-- The texts of the lines have at most 63 characters, as the labels of the
parser's nodes have. -/
def short_lines (lines : List ASTLine) : Prop := ∀ ln ∈ lines, ln.text.length ≤ 63

instance (lines : List ASTLine) : Decidable (short_lines lines) := by
  unfold short_lines
  infer_instance

/-- The invariant of the analysis: short lines and distinct names in every
scope. -/
def scopes_ok (st : State) : Prop := short_lines st.lines ∧ scopes_distinct st

end Phase3

/-! ## Vocabulary for the missing-return claim -/

namespace Phase3

open CStr Ast VarType

/-- The test of the `FunctionDefinition:` branch of `parse_node`. -/
def is_function_line (ln : ASTLine) : Bool := strncmp_eq ln.text "FunctionDefinition:" 19

/-- The test of the `Return:` branch of `parse_node`. -/
def is_return_line (ln : ASTLine) : Bool := strncmp_eq ln.text "Return:" 7

/-- The region of each function, in order: the lines that follow its
`FunctionDefinition:` line, up to the next `FunctionDefinition:` line. -/
def function_regions : List ASTLine → List (List ASTLine)
  | [] => []
  | ln :: rest =>
    if is_function_line ln then
      rest.takeWhile (fun l => !is_function_line l) :: function_regions rest
    else function_regions rest

/-- Every `FunctionDefinition:` line has indent 0, as in the `ast.txt` the
parser writes. -/
def functions_at_top (lines : List ASTLine) : Prop :=
  ∀ ln ∈ lines, is_function_line ln = true → ln.indent = 0

instance (lines : List ASTLine) : Decidable (functions_at_top lines) := by
  unfold functions_at_top
  infer_instance

/-- The lines of greater indent that follow a `Parameters:` line are neither
`FunctionDefinition:` nor `Return:` lines (in the `ast.txt` the parser writes
they are `Param:` lines). -/
def params_plain : List ASTLine → Bool
  | [] => true
  | ln :: rest =>
    (if strncmp_eq ln.text "Parameters:" 11 then
       (rest.takeWhile (fun l => decide (l.indent > ln.indent))).all
         (fun l => !is_function_line l && !is_return_line l)
     else true) && params_plain rest

/-- The last flag is set. -/
def mark_last : List Bool → List Bool
  | [] => []
  | [_] => [true]
  | b :: rest => b :: mark_last rest

/-- What reading one more line does to the return flags of the functions read so
far: a `FunctionDefinition:` line adds a flag that is not set, a `Return:`
line sets the flag of the last function. -/
def flag_step (flags : List Bool) (ln : ASTLine) : List Bool :=
  if is_function_line ln then flags ++ [false]
  else if is_return_line ln then mark_last flags
  else flags

/-- The return flags after reading the given lines in order. -/
def return_flags (lines : List ASTLine) : List Bool := lines.foldl flag_step []

/-- The analyzer's records agree with the lines read so far: `current_function`
is the last function, the `has_return` fields are the return flags of the lines
before the cursor, and a function without recorded return still has the
default return type. -/
def flags_ok (lines : List ASTLine) (st : State) : Prop :=
  st.lines = lines ∧
  st.current_function =
    (if st.functions = [] then none else some (st.functions.length - 1)) ∧
  st.functions.map Function.has_return = return_flags (lines.take st.current_line) ∧
  ∀ fn ∈ st.functions, fn.has_return = false → fn.return_type = TYPE_INT

/-- The state `s` comes after `st` with the same number of function records. -/
def follows (st s : State) : Prop :=
  st.current_line ≤ s.current_line ∧ s.functions.length = st.functions.length

/-- What `parse_node(e)` started in `st` has done when it returns `p`: the records
agree with the lines read, the cursor has not moved back, and below the top
level no function was added. -/
def flags_post (lines : List ASTLine) (e : Nat) (st : State) (p : VarType × State) : Prop :=
  flags_ok lines p.2 ∧ st.current_line ≤ p.2.current_line ∧
  (0 < e → p.2.functions.length = st.functions.length)

end Phase3

/-! ## Vocabulary for the function-context claim -/

namespace Phase3

open CStr Ast

/-- The type word of a `VarDecl:` line, as the analyzer reads it with
`sscanf(txt + 8, "%s %s", typestr, name)`. -/
def decl_type (txt : String) : VarType :=
  string_to_type (String.mk (scan_word (from_offset txt 8)))

/-- The name of a `VarDecl:` line, the second word read by the same `sscanf`. -/
def decl_name (txt : String) : String :=
  String.mk (scan_word (scan_word_rest (from_offset txt 8)))

/-- The pointer `current_function` is not `NULL`. -/
def in_function (st : State) : Prop := st.current_function ≠ none

instance (st : State) : Decidable (in_function st) := by
  unfold in_function
  infer_instance

end Phase3

/-! ## Vocabulary for the return-statement claim -/

namespace Phase2

open CStr TokenType NodeKind

/-- The node of an expression is the leaf of a literal or identifier token, or
a node of kind `NODE_BINOP`, the kind the parser gives to operator nodes, casts
and calls. -/
def leaf_or_operation (n : ASTNode) : Prop :=
  (∃ t, is_primary t = true ∧ n = leaf t) ∨ n.kind = NODE_BINOP

end Phase2

/-! ## Vocabulary for the token-file claims -/

namespace Phase1

open TokenType

/-- A lexeme that `load_tokens` reads back whole: at most 255 characters, none
of them a double quote or a newline. -/
def plain_lexeme (s : String) : Prop :=
  s.length ≤ 255 ∧ ∀ c ∈ s.data, c ≠ '"' ∧ c ≠ '\n'

instance (s : String) : Decidable (plain_lexeme s) := by
  unfold plain_lexeme
  infer_instance

/-- The token is of one of the seven kinds the parser knows: not a string
literal and not a preprocessor directive. -/
def known_kind (tok : Token) : Prop :=
  tok.type ≠ TOK_STRING_LITERAL ∧ tok.type ≠ TOK_PREPROCESSOR

instance (tok : Token) : Decidable (known_kind tok) := by
  unfold known_kind
  infer_instance

/-- An EOF token, if there is one, is the last token of the list. -/
def eof_only_last : List Token → Prop
  | [] => True
  | tok :: rest => (tok.type = TOK_EOF → rest = []) ∧ eof_only_last rest

end Phase1

/-! ## Vocabulary for the claim about the declared return type -/

namespace Phase2

open CStr TokenType NodeKind

/-- Two tokens the parser cannot tell apart where it looks ahead without
consuming: the same token, or two return type keywords. -/
def looks_same (t t' : Token) : Prop :=
  t' = t ∨ (is_return_type t = true ∧ is_return_type t' = true)

/-- Two cursors whose next tokens the parser cannot tell apart. -/
def same_next : Cursor → Cursor → Prop
  | [], r' => r' = []
  | t :: _, r' => ∃ t' rest', r' = t' :: rest' ∧ looks_same t t'

/-- The run of a parse function on `toks` returned `p`, it consumed at least `k`
tokens, and it returns the same node whatever tokens follow the consumed ones,
as long as the first of them looks the same. -/
def Reads {α : Type} (k : Nat) (run : Cursor → Outcome (α × Cursor)) (toks : Cursor)
    (p : α × Cursor) : Prop :=
  ∃ pre, toks = pre ++ p.2 ∧ k ≤ pre.length ∧
    ∀ r', same_next p.2 r' → run (pre ++ r') = .ok (p.1, r')

/-- The cursors at which the loop of `parse_program` starts a round that parses
a function definition or a declaration, in order. -/
def item_starts : Nat → Cursor → List Cursor
  | 0, _ => []
  | f + 1, toks =>
    match toks with
    | [] => []
    | t :: _ =>
      if t.type = TOK_EOF_TOKEN then []
      else if is_function_start toks then
        toks :: (match parse_function_def f toks with
                 | .ok (_, rest) => item_starts f rest
                 | _ => [])
      else if is_decl_start t then
        toks :: (match parse_var_decl f toks with
                 | .ok (_, rest) => item_starts f rest
                 | _ => [])
      else []

/-- Every returning run of `A` reads what it consumes, at least `k` tokens, and
looks one token ahead. -/
def Local {α : Type} (k : Nat) (A : Cursor → Outcome (α × Cursor)) : Prop :=
  ∀ toks q, A toks = .ok q → Reads k A toks q

end Phase2

/-! ## Vocabulary for reading the emitted TAC as text -/

namespace CStr

/-- The pieces of a text between the occurrences of the character `sep`. -/
def split_at (sep : Char) : List Char → List (List Char)
  | [] => [[]]
  | c :: cs =>
    if c = sep then [] :: split_at sep cs
    else
      match split_at sep cs with
      | w :: ws => (c :: w) :: ws
      | [] => [[c]]

/-- The text made of the given rows, each followed by the character `sep`. -/
def join_rows (sep : Char) : List (List Char) → List Char
  | [] => []
  | r :: rs => r ++ sep :: join_rows sep rs

end CStr

namespace Phase4

open CStr Ast

/-- The lines of the emitted text: the pieces between the newline characters.
The piece after the last newline is the empty line. -/
def tac_lines (out : String) : List (List Char) := split_at '\n' out.data

/-- The words of a line of the emitted text: the pieces between the blanks. -/
def tac_words (l : List Char) : List (List Char) := split_at ' ' l

/-- A name of the form `L<digits>`, as `new_label` makes them. -/
def is_label_name (w : List Char) : Bool :=
  match w with
  | 'L' :: ds => !ds.isEmpty && ds.all isdigit
  | _ => false

/-- A name of the form `t<digits>`, as `new_temp` makes them. -/
def is_temp_name (w : List Char) : Bool :=
  match w with
  | 't' :: ds => !ds.isEmpty && ds.all isdigit
  | _ => false

/-- The label a line of the form `<label>:` declares. -/
def line_declares (l : List Char) : Option (List Char) :=
  if l.getLast? = some ':' ∧ is_label_name l.dropLast = true then some l.dropLast else none

/-- The label a line of the form `goto <label>` or `ifFalse <operand> goto <label>`
jumps to. -/
def line_jumps (l : List Char) : Option (List Char) :=
  match tac_words l with
  | [g, x] => if g = "goto".data ∧ is_label_name x = true then some x else none
  | [i, _, g, x] =>
    if i = "ifFalse".data ∧ g = "goto".data ∧ is_label_name x = true then some x else none
  | _ => none

/-- The name on the left of a binary line `<t> = <a> <op> <b>`. -/
def binary_left (l : List Char) : Option (List Char) :=
  match tac_words l with
  | [t, e, _, _, _] => if e = "=".data then some t else none
  | _ => none

/-- The name a line assigns: the left side of a copy `<var> = <operand>` or of a
binary line `<t> = <a> <op> <b>`. -/
def line_assigns (l : List Char) : Option (List Char) :=
  match tac_words l with
  | [x, e, _] => if e = "=".data then some x else none
  | [x, e, _, _, _] => if e = "=".data then some x else none
  | _ => none

/-- The operands a line reads: the right side of a copy, the two operands of a
binary line, the operand of `return <operand>` and of
`ifFalse <operand> goto <label>`. -/
def line_operands (l : List Char) : List (List Char) :=
  match tac_words l with
  | [r, x] => if r = "return".data then [x] else []
  | [_, e, y] => if e = "=".data then [y] else []
  | [i, c, g, _] => if i = "ifFalse".data ∧ g = "goto".data then [c] else []
  | [_, e, a, _, b] => if e = "=".data then [a, b] else []
  | _ => []

/-- The line has the form `func <name>:`. -/
def is_func_line (l : List Char) : Bool :=
  match tac_words l with
  | [f, w] => decide (f = "func".data) && decide (w.getLast? = some ':')
  | _ => false

/-- The line is `endfunc`. -/
def is_endfunc_line (l : List Char) : Bool := decide (l = "endfunc".data)

/-- The labels declared in the emitted text, in order of appearance. -/
def declared_in (out : String) : List (List Char) := (tac_lines out).filterMap line_declares

/-- The targets of the jumps of the emitted text, in order of appearance. -/
def targets_in (out : String) : List (List Char) := (tac_lines out).filterMap line_jumps

/-- The text of an AST line holds no newline character: it is one line of a
file. -/
def single_line (ln : ASTLine) : Bool := ln.text.data.all (fun c => c != '\n')

/-- Every AST line is one line of text. -/
def one_line (lines : List ASTLine) : Prop := ∀ ln ∈ lines, single_line ln = true

/-- The operand of a `Number(` or `Var(` line holds no blank. -/
def operand_plain (ln : ASTLine) : Bool :=
  match ast_operand ln with
  | some o => o.data.all (fun c => c != ' ')
  | none => true

/-- No operand of the AST holds a blank. -/
def operands_plain (lines : List ASTLine) : Prop := ∀ ln ∈ lines, operand_plain ln = true

/-- The operator of a `BinOp(` line holds no blank. -/
def operator_plain (ln : ASTLine) : Bool :=
  if strncmp_eq ln.text "BinOp(" 6 then
    (scan_until_rparen (from_offset ln.text 6)).all (fun c => c != ' ')
  else true

/-- No operator of the AST holds a blank. -/
def operators_plain (lines : List ASTLine) : Prop := ∀ ln ∈ lines, operator_plain ln = true

/-- The variable of an `Assign:` line and the operand of a `Number(` or `Var(`
line are not of the form `t<digits>`. -/
def temp_free (ln : ASTLine) : Bool :=
  (if strncmp_eq ln.text "Assign:" 7 then !is_temp_name (scan_word (from_offset ln.text 7))
   else true) &&
  (match ast_operand ln with
   | some o => !is_temp_name o.data
   | none => true)

/-- No assigned variable and no operand of the AST is named like a temporary. -/
def no_temp_names (lines : List ASTLine) : Prop := ∀ ln ∈ lines, temp_free ln = true

/-- The lines of text an instruction writes. -/
def Instr.rows : Instr → List (List Char)
  | .func name => ["func ".data ++ name.data ++ ":".data]
  | .endfunc => ["endfunc".data, []]
  | .copy var src => [var.data ++ " = ".data ++ src.data]
  | .ret (some x) => ["return ".data ++ x.data]
  | .ret none => ["return".data]
  | .if_false c k => ["ifFalse ".data ++ c.data ++ " goto ".data ++ (label_name k).data]
  | .goto k => ["goto ".data ++ (label_name k).data]
  | .label k => [(label_name k).data ++ ":".data]
  | .binary t l o r =>
    [(temp_name t).data ++ " = ".data ++ l.data ++ " ".data ++ o.data ++ " ".data ++ r.data]

/-- The lines of text a list of instructions writes. -/
def rows_of : List Instr → List (List Char)
  | [] => []
  | i :: rest => i.rows ++ rows_of rest

/-- Reading the lines in order, `n` temporaries having been assigned before the
first line: every operand named like a temporary is one of the temporaries
assigned before its line, and every binary line assigns the next temporary. -/
def temps_in_order (n : Nat) : List (List Char) → Prop
  | [] => True
  | l :: rest =>
    (∀ o ∈ line_operands l, is_temp_name o = true → ∃ j, j < n ∧ o = (temp_name j).data) ∧
    (∀ t, binary_left l = some t → t = (temp_name n).data) ∧
    temps_in_order (n + (binary_left l).toList.length) rest

end Phase4

/-! ## The stages run one after the other -/

namespace Pipeline

open Phase2 Phase2.TokenType

/-- The parser, then the TAC generator on the `ast.txt` the parser wrote. -/
def tac_of_tokens (fuel : Nat) (tokens : List Token) : Outcome String := do
  let ast ← parser_main fuel tokens
  Phase4.main fuel ast

/-- The parser, then the semantic analyzer on the `ast.txt` the parser wrote;
the parser gets fuel `pfuel`, the analyzer `fuel`. -/
def verdict_of_tokens (pfuel fuel : Nat) (tokens : List Token) : Outcome Unit := do
  let ast ← parser_main pfuel tokens
  Phase3.main fuel ast

/-- Tokens as the lexer writes them for a one-line source, by kind. -/
def kw (s : String) : Token := { type := TOK_KEYWORD, lexeme := s, line := 1 }

def ident (s : String) : Token := { type := TOK_IDENTIFIER, lexeme := s, line := 1 }

def int_lit (s : String) : Token := { type := TOK_INT_LITERAL, lexeme := s, line := 1 }

def float_lit (s : String) : Token := { type := TOK_FLOAT_LITERAL, lexeme := s, line := 1 }

def op (s : String) : Token := { type := TOK_OPERATOR, lexeme := s, line := 1 }

def punct (s : String) : Token := { type := TOK_PUNCTUATION, lexeme := s, line := 1 }

def eof : Token := { type := TOK_EOF_TOKEN, lexeme := "", line := 1 }

/-- The tokens of `int f(int a, int b) { return a + b; }`. -/
def tokens_add_fn : List Token :=
  [kw "int", ident "f", punct "(", kw "int", ident "a", punct ",", kw "int", ident "b",
   punct ")", punct "\x7b", kw "return", ident "a", op "+", ident "b", punct ";", punct "\x7d", eof]

/-- The tokens of `int main() { return 0; }`. -/
def tokens_main_return : List Token :=
  [kw "int", ident "main", punct "(", punct ")", punct "\x7b", kw "return", int_lit "0",
   punct ";", punct "\x7d", eof]

/-- The tokens of
`int f() { int a; int b; if (a == 1) { b = 2; } else { b = 3; } return b; }`. -/
def tokens_if_else_blocks : List Token :=
  [kw "int", ident "f", punct "(", punct ")", punct "\x7b",
   kw "int", ident "a", punct ";", kw "int", ident "b", punct ";",
   kw "if", punct "(", ident "a", op "==", int_lit "1", punct ")",
   punct "\x7b", ident "b", op "=", int_lit "2", punct ";", punct "\x7d",
   kw "else", punct "\x7b", ident "b", op "=", int_lit "3", punct ";", punct "\x7d",
   kw "return", ident "b", punct ";", punct "\x7d", eof]

/-- The tokens of
`int f() { int i, n, s; for (i = 0; i < n; i = i + 1) { s = s + i; } return s; }`. -/
def tokens_for_loop : List Token :=
  [kw "int", ident "f", punct "(", punct ")", punct "\x7b",
   kw "int", ident "i", punct ",", ident "n", punct ",", ident "s", punct ";",
   kw "for", punct "(", ident "i", op "=", int_lit "0", punct ";",
   ident "i", op "<", ident "n", punct ";",
   ident "i", op "=", ident "i", op "+", int_lit "1", punct ")",
   punct "\x7b", ident "s", op "=", ident "s", op "+", ident "i", punct ";", punct "\x7d",
   kw "return", ident "s", punct ";", punct "\x7d", eof]

/-- The tokens of
`int f() { int a; int b; if (a == 1) b = 2; else b = 3; return 0; }`. -/
def tokens_if_else_plain : List Token :=
  [kw "int", ident "f", punct "(", punct ")", punct "\x7b",
   kw "int", ident "a", punct ";", kw "int", ident "b", punct ";",
   kw "if", punct "(", ident "a", op "==", int_lit "1", punct ")",
   ident "b", op "=", int_lit "2", punct ";",
   kw "else", ident "b", op "=", int_lit "3", punct ";",
   kw "return", int_lit "0", punct ";", punct "\x7d", eof]

/-- The tokens of `int f() { int x; x = 1.5; return x; }`. -/
def tokens_float_to_int : List Token :=
  [kw "int", ident "f", punct "(", punct ")", punct "\x7b",
   kw "int", ident "x", punct ";", ident "x", op "=", float_lit "1.5", punct ";",
   kw "return", ident "x", punct ";", punct "\x7d", eof]

/-- The tokens of `void f() { }`. -/
def tokens_void_fn : List Token :=
  [kw "void", ident "f", punct "(", punct ")", punct "\x7b", punct "\x7d", eof]

/-- The tokens of
`int f() { int a; int b; if (a == 1) b = 2; else b = 3; a = 5; return 0; }`. -/
def tokens_else_then_more : List Token :=
  [kw "int", ident "f", punct "(", punct ")", punct "\x7b",
   kw "int", ident "a", punct ";", kw "int", ident "b", punct ";",
   kw "if", punct "(", ident "a", op "==", int_lit "1", punct ")",
   ident "b", op "=", int_lit "2", punct ";",
   kw "else", ident "b", op "=", int_lit "3", punct ";",
   ident "a", op "=", int_lit "5", punct ";",
   kw "return", int_lit "0", punct ";", punct "\x7d", eof]

/-- The `ast.txt` the parser writes for `tokens_if_else_plain`. -/
def ast_if_else_plain : String :=
  "FunctionDefinition: f\n    Parameters:\n    Body:\n" ++
  "        VarDeclGroup:\n            VarDecl: int a\n" ++
  "        VarDeclGroup:\n            VarDecl: int b\n" ++
  "        If:\n            BinOp(==)\n                Var(a)\n                Number(1)\n" ++
  "            Assign: b =\n                Number(2)\n" ++
  "            Else:\n                Body:\n" ++
  "                    Assign: b =\n                        Number(3)\n" ++
  "                    Return: 0\n"

/-- The analyzer's state on `ast_if_else_plain` when the `If:` branch has
returned: the cursor is on line 11, `Assign: b =` at indent 3, inside the loop
of the function's `Body:` (indent 1). -/
def state_after_if : Phase3.State :=
  { lines := Ast.load_ast ast_if_else_plain,
    current_line := 11,
    functions :=
      [{ name := "f", return_type := Phase3.VarType.TYPE_INT,
         scope := [{ name := "a", type := Phase3.VarType.TYPE_INT },
                   { name := "b", type := Phase3.VarType.TYPE_INT }],
         has_return := false }],
    current_function := some 0,
    global_scope := [] }

/-- The tokens of `int f() { if (a) if (b) x = 1; else if (c) y = 2; }`. -/
def tokens_nested_if_else_if : List Token :=
  [kw "int", ident "f", punct "(", punct ")", punct "\x7b",
   kw "if", punct "(", ident "a", punct ")",
   kw "if", punct "(", ident "b", punct ")", ident "x", op "=", int_lit "1", punct ";",
   kw "else", kw "if", punct "(", ident "c", punct ")", ident "y", op "=", int_lit "2", punct ";",
   punct "\x7d", eof]

/-- The tokens of `if (a) if (b) x = 1; else y = 2; }`, the end of a block. -/
def tokens_nested_if_else : List Token :=
  [kw "if", punct "(", ident "a", punct ")",
   kw "if", punct "(", ident "b", punct ")", ident "x", op "=", int_lit "1", punct ";",
   kw "else", ident "y", op "=", int_lit "2", punct ";", punct "\x7d"]

/-- The tokens of `int f() { return y; }`: `y` is declared nowhere. -/
def tokens_return_undeclared : List Token :=
  [kw "int", ident "f", punct "(", punct ")", punct "\x7b", kw "return", ident "y", punct ";",
   punct "\x7d", eof]

/-- The tokens of `int main() { return y; }`: `y` is declared nowhere. -/
def tokens_main_return_undeclared : List Token :=
  [kw "int", ident "main", punct "(", punct ")", punct "\x7b", kw "return", ident "y", punct ";",
   punct "\x7d", eof]

/-- The tokens of the top-level declaration `int x = 1 + 2 * 3;`. -/
def tokens_global_init : List Token :=
  [kw "int", ident "x", op "=", int_lit "1", op "+", int_lit "2", op "*", int_lit "3",
   punct ";", eof]

/-- The tree the parser builds for `tokens_add_fn`. -/
def ast_add_fn : Phase2.ASTNode :=
  .mk .NODE_PROGRAM ""
    [.mk .NODE_FUNCTION_DEF "f"
      [.mk .NODE_PARAM_LIST "Parameters:"
         [.mk .NODE_VAR_DECL "Param: int a" [], .mk .NODE_VAR_DECL "Param: int b" []],
       .mk .NODE_BODY "Body:"
         [.mk .NODE_RETURN "Return:"
            [.mk .NODE_BINOP "BinOp(+)" [.mk .NODE_VAR "a" [], .mk .NODE_VAR "b" []]]]]]

/-- The tokens of `int main() { float y; int x = (float) y; return 0; }`. -/
def tokens_init_cast : List Token :=
  [kw "int", ident "main", punct "(", punct ")", punct "\x7b",
   kw "float", ident "y", punct ";",
   kw "int", ident "x", op "=", punct "(", kw "float", punct ")", ident "y", punct ";",
   kw "return", int_lit "0", punct ";", punct "\x7d", eof]

/-- The tokens of `int main() { float y; int x; x = (float) y; return 0; }`. -/
def tokens_assign_cast : List Token :=
  [kw "int", ident "main", punct "(", punct ")", punct "\x7b",
   kw "float", ident "y", punct ";",
   kw "int", ident "x", punct ";",
   ident "x", op "=", punct "(", kw "float", punct ")", ident "y", punct ";",
   kw "return", int_lit "0", punct ";", punct "\x7d", eof]

/-- The tokens of `int <name>() { float x; return x; }`. -/
def tokens_return_float (name : String) : List Token :=
  [kw "int", ident name, punct "(", punct ")", punct "\x7b",
   kw "float", ident "x", punct ";", kw "return", ident "x", punct ";", punct "\x7d", eof]

/-- The tokens of `int f() { float x; int y; return <a>; return <b>; }`. -/
def tokens_two_returns (a b : String) : List Token :=
  [kw "int", ident "f", punct "(", punct ")", punct "\x7b",
   kw "float", ident "x", punct ";", kw "int", ident "y", punct ";",
   kw "return", ident a, punct ";", kw "return", ident b, punct ";", punct "\x7d", eof]

/-- The tokens of `float f() { int x; return x + 1; }`. -/
def tokens_float_fn_returns_int : List Token :=
  [kw "float", ident "f", punct "(", punct ")", punct "\x7b",
   kw "int", ident "x", punct ";", kw "return", ident "x", op "+", int_lit "1", punct ";",
   punct "\x7d", eof]

/-- The analyzer inside a function `f` with `a` of type int and `b` of type
`tb` in scope, on the three lines of `a < b` as a subtree at indent 0, with the
cursor on line `n`. -/
def state_at_binop (tb : Phase3.VarType) (n : Nat) : Phase3.State :=
  { lines := [⟨0, "BinOp(<)"⟩, ⟨1, "Var(a)"⟩, ⟨1, "Var(b)"⟩],
    current_line := n,
    functions :=
      [{ name := "f", return_type := Phase3.VarType.TYPE_INT,
         scope := [{ name := "a", type := Phase3.VarType.TYPE_INT }, { name := "b", type := tb }],
         has_return := false }],
    current_function := some 0,
    global_scope := [] }

/-- The tokens of `int f() { int a; if (a) { a = 1; } return a; }`. -/
def tokens_if_int_condition : List Token :=
  [kw "int", ident "f", punct "(", punct ")", punct "\x7b",
   kw "int", ident "a", punct ";",
   kw "if", punct "(", ident "a", punct ")",
   punct "\x7b", ident "a", op "=", int_lit "1", punct ";", punct "\x7d",
   kw "return", ident "a", punct ";", punct "\x7d", eof]

/-- The tokens of `int f() { int a; while (a + 1) { a = 1; } return a; }`. -/
def tokens_while_arith_condition : List Token :=
  [kw "int", ident "f", punct "(", punct ")", punct "\x7b",
   kw "int", ident "a", punct ";",
   kw "while", punct "(", ident "a", op "+", int_lit "1", punct ")",
   punct "\x7b", ident "a", op "=", int_lit "1", punct ";", punct "\x7d",
   kw "return", ident "a", punct ";", punct "\x7d", eof]

/-- The tokens of
`int f() { int a; for (a = 0; a; a = a + 1) { a = 1; } return a; }`. -/
def tokens_for_int_condition : List Token :=
  [kw "int", ident "f", punct "(", punct ")", punct "\x7b",
   kw "int", ident "a", punct ";",
   kw "for", punct "(", ident "a", op "=", int_lit "0", punct ";", ident "a", punct ";",
   ident "a", op "=", ident "a", op "+", int_lit "1", punct ")",
   punct "\x7b", ident "a", op "=", int_lit "1", punct ";", punct "\x7d",
   kw "return", ident "a", punct ";", punct "\x7d", eof]

/-- The analyzer inside a function `f` with `a` of type int in scope, on the
given lines with the cursor on line `n`. -/
def state_in_f (lines : List Ast.ASTLine) (n : Nat) : Phase3.State :=
  { lines := lines,
    current_line := n,
    functions :=
      [{ name := "f", return_type := Phase3.VarType.TYPE_INT,
         scope := [{ name := "a", type := Phase3.VarType.TYPE_INT }],
         has_return := false }],
    current_function := some 0,
    global_scope := [] }

/-- The lines of `if (a) { }` as a subtree at indent 0. -/
def lines_if_a : List Ast.ASTLine := [⟨0, "If:"⟩, ⟨1, "Var(a)"⟩, ⟨1, "Body:"⟩]

/-- The lines of `while (a + 1) { }` as a subtree at indent 0. -/
def lines_while_a_plus_1 : List Ast.ASTLine :=
  [⟨0, "While:"⟩, ⟨1, "BinOp(+)"⟩, ⟨2, "Var(a)"⟩, ⟨2, "Number(1)"⟩, ⟨1, "Body:"⟩]

/-- The lines of `for (a = 0; a; a = a + 1) { }` as a subtree at indent 0. -/
def lines_for_a : List Ast.ASTLine :=
  [⟨0, "For:"⟩, ⟨1, "Assign: a ="⟩, ⟨2, "Number(0)"⟩, ⟨1, "Var(a)"⟩,
   ⟨1, "Assign: a ="⟩, ⟨2, "BinOp(+)"⟩, ⟨3, "Var(a)"⟩, ⟨3, "Number(1)"⟩, ⟨1, "Body:"⟩]

/-- The tokens of
`int f() { int a; if (a == 1) { while (a == 2) { if (a == 3) { a = 4; } } } else { a = 5; } return a; }`. -/
def tokens_while_in_if_else : List Token :=
  [kw "int", ident "f", punct "(", punct ")", punct "\x7b",
   kw "int", ident "a", punct ";",
   kw "if", punct "(", ident "a", op "==", int_lit "1", punct ")", punct "\x7b",
   kw "while", punct "(", ident "a", op "==", int_lit "2", punct ")", punct "\x7b",
   kw "if", punct "(", ident "a", op "==", int_lit "3", punct ")", punct "\x7b",
   ident "a", op "=", int_lit "4", punct ";", punct "\x7d", punct "\x7d", punct "\x7d",
   kw "else", punct "\x7b", ident "a", op "=", int_lit "5", punct ";", punct "\x7d",
   kw "return", ident "a", punct ";", punct "\x7d", eof]

/-- The lines of the `ast.txt` the parser writes for `tokens_while_in_if_else`. -/
def lines_while_in_if_else : List Ast.ASTLine :=
  [⟨0, "FunctionDefinition: f"⟩, ⟨1, "Parameters:"⟩, ⟨1, "Body:"⟩, ⟨2, "VarDeclGroup:"⟩,
   ⟨3, "VarDecl: int a"⟩, ⟨2, "If:"⟩, ⟨3, "BinOp(==)"⟩, ⟨4, "Var(a)"⟩, ⟨4, "Number(1)"⟩,
   ⟨3, "Body:"⟩, ⟨4, "While:"⟩, ⟨5, "BinOp(==)"⟩, ⟨6, "Var(a)"⟩, ⟨6, "Number(2)"⟩,
   ⟨5, "Body:"⟩, ⟨6, "If:"⟩, ⟨7, "BinOp(==)"⟩, ⟨8, "Var(a)"⟩, ⟨8, "Number(3)"⟩, ⟨7, "Body:"⟩,
   ⟨8, "Assign: a ="⟩, ⟨9, "Number(4)"⟩, ⟨3, "Else:"⟩, ⟨4, "Body:"⟩, ⟨5, "Body:"⟩,
   ⟨6, "Assign: a ="⟩, ⟨7, "Number(5)"⟩, ⟨5, "Return: a"⟩]

/-- The generator's state on `lines_while_in_if_else` when `gen_node(4)` is called on
the `While:` line (line 10, indent 4): the condition of the outer `if` has been
lowered. -/
def state_at_while : Phase4.State :=
  { lines := lines_while_in_if_else, current_line := 10, temp_counter := 1, label_counter := 2,
    out := "func f:\nt0 = a == 1\nifFalse t0 goto L0\n" }

/-- The tokens of `int f(int a) { int a; return a; }`. -/
def tokens_param_redeclared : List Token :=
  [kw "int", ident "f", punct "(", kw "int", ident "a", punct ")", punct "\x7b",
   kw "int", ident "a", punct ";", kw "return", ident "a", punct ";", punct "\x7d", eof]

/-- The lines of the `ast.txt` the parser writes for
`int f(int a) { int b; return b; }`. -/
def lines_param_and_local : List Ast.ASTLine :=
  [⟨0, "FunctionDefinition: f"⟩, ⟨1, "Parameters:"⟩, ⟨2, "Param: int a"⟩, ⟨1, "Body:"⟩,
   ⟨2, "VarDeclGroup:"⟩, ⟨3, "VarDecl: int b"⟩, ⟨2, "Return: b"⟩]

/-- The analyzer's state at the end of its loop over `lines_param_and_local`. -/
def state_param_and_local : Phase3.State :=
  { lines := lines_param_and_local,
    current_line := 7,
    functions :=
      [{ name := "f", return_type := Phase3.VarType.TYPE_INT,
         scope := [{ name := "a", type := Phase3.VarType.TYPE_INT },
                   { name := "b", type := Phase3.VarType.TYPE_INT }],
         has_return := true }],
    current_function := some 0,
    global_scope := [] }

/-- The `ast.txt` the parser writes for `int f() { int a; }`. -/
def ast_no_return : String :=
  "FunctionDefinition: f\n    Parameters:\n    Body:\n" ++
  "        VarDeclGroup:\n            VarDecl: int a\n"

/-- The analyzer's state at the end of its loop over `ast_no_return`. -/
def state_no_return : Phase3.State :=
  { lines := Ast.load_ast ast_no_return,
    current_line := 5,
    functions :=
      [{ name := "f", return_type := Phase3.VarType.TYPE_INT,
         scope := [{ name := "a", type := Phase3.VarType.TYPE_INT }],
         has_return := false }],
    current_function := some 0,
    global_scope := [] }

/-- The `ast.txt` the parser writes for
`int f(int a) { return a; } int main() { return 0; }`. -/
def ast_two_returns : String :=
  "FunctionDefinition: f\n    Parameters:\n        Param: int a\n    Body:\n" ++
  "        Return: a\n" ++
  "FunctionDefinition: main\n    Parameters:\n    Body:\n        Return: 0\n"

/-- The analyzer's state at the end of its loop over `ast_two_returns`. -/
def state_two_returns : Phase3.State :=
  { lines := Ast.load_ast ast_two_returns,
    current_line := 9,
    functions :=
      [{ name := "f", return_type := Phase3.VarType.TYPE_INT,
         scope := [{ name := "a", type := Phase3.VarType.TYPE_INT }],
         has_return := true },
       { name := "main", return_type := Phase3.VarType.TYPE_INT, scope := [],
         has_return := true }],
    current_function := some 1,
    global_scope := [] }

/-- The tokens of `int main() { int x = 10; return x + 1; }`. -/
def tokens_decl_with_init : List Token :=
  [kw "int", ident "main", punct "(", punct ")", punct "\x7b",
   kw "int", ident "x", op "=", int_lit "10", punct ";",
   kw "return", ident "x", op "+", int_lit "1", punct ";", punct "\x7d", eof]

/-- The tokens of `int main() { int x; x = 10; return x + 1; }`. -/
def tokens_decl_then_assign : List Token :=
  [kw "int", ident "main", punct "(", punct ")", punct "\x7b",
   kw "int", ident "x", punct ";", ident "x", op "=", int_lit "10", punct ";",
   kw "return", ident "x", op "+", int_lit "1", punct ";", punct "\x7d", eof]

/-- The tokens of `int main() { int x = 2 * 3; return x + 1; }`. -/
def tokens_decl_with_product : List Token :=
  [kw "int", ident "main", punct "(", punct ")", punct "\x7b",
   kw "int", ident "x", op "=", int_lit "2", op "*", int_lit "3", punct ";",
   kw "return", ident "x", op "+", int_lit "1", punct ";", punct "\x7d", eof]

/-- The lines of a declaration group with one initialized declaration. -/
def lines_decl_group : List Ast.ASTLine :=
  [⟨0, "VarDeclGroup:"⟩, ⟨1, "VarDecl: int x ="⟩, ⟨2, "BinOp(*)"⟩, ⟨3, "Number(2)"⟩,
   ⟨3, "Number(3)"⟩]

/-- The generator's state on `lines` with the cursor on line `n`, `k` temporaries
used and the output `out`. -/
def generator_state (lines : List Ast.ASTLine) (n k : Nat) (out : String) : Phase4.State :=
  { lines := lines, current_line := n, temp_counter := k, label_counter := 0, out := out }

/-- The tokens of `(void) x;`. -/
def tokens_void_cast : List Token :=
  [punct "(", kw "void", punct ")", ident "x", punct ";"]

/-- The tokens of `(int) x;`. -/
def tokens_int_cast : List Token :=
  [punct "(", kw "int", punct ")", ident "x", punct ";"]

/-- The tokens of `(x + 1);`. -/
def tokens_parenthesised : List Token :=
  [punct "(", ident "x", op "+", int_lit "1", punct ")", punct ";"]

/-- The tokens of `int f(int a[]) { int x; x = a + 1; return x; }`. -/
def tokens_array_param : List Token :=
  [kw "int", ident "f", punct "(", kw "int", ident "a", punct "[", punct "]", punct ")",
   punct "\x7b", kw "int", ident "x", punct ";",
   ident "x", op "=", ident "a", op "+", int_lit "1", punct ";",
   kw "return", ident "x", punct ";", punct "\x7d", eof]

/-- The tokens of `int f(int a) { int x; x = a + 1; return x; }`. -/
def tokens_plain_param : List Token :=
  [kw "int", ident "f", punct "(", kw "int", ident "a", punct ")",
   punct "\x7b", kw "int", ident "x", punct ";",
   ident "x", op "=", ident "a", op "+", int_lit "1", punct ";",
   kw "return", ident "x", punct ";", punct "\x7d", eof]

/-- The tokens of
`int f() { int i; for (; i < 10; i = i + 1) { i = i; } return i; }`. -/
def tokens_for_without_init : List Token :=
  [kw "int", ident "f", punct "(", punct ")", punct "\x7b",
   kw "int", ident "i", punct ";",
   kw "for", punct "(", punct ";", ident "i", op "<", int_lit "10", punct ";",
   ident "i", op "=", ident "i", op "+", int_lit "1", punct ")",
   punct "\x7b", ident "i", op "=", ident "i", punct ";", punct "\x7d",
   kw "return", ident "i", punct ";", punct "\x7d", eof]

/-- The tokens of
`int f() { int i; for (i = 0; i < 10; i = i + 1) { i = i; } return i; }`. -/
def tokens_for_with_init : List Token :=
  [kw "int", ident "f", punct "(", punct ")", punct "\x7b",
   kw "int", ident "i", punct ";",
   kw "for", punct "(", ident "i", op "=", int_lit "0", punct ";",
   ident "i", op "<", int_lit "10", punct ";",
   ident "i", op "=", ident "i", op "+", int_lit "1", punct ")",
   punct "\x7b", ident "i", op "=", ident "i", punct ";", punct "\x7d",
   kw "return", ident "i", punct ";", punct "\x7d", eof]

/-- The tokens of `int f(int a) { return a; } int a;`. -/
def tokens_global_after_function : List Token :=
  [kw "int", ident "f", punct "(", kw "int", ident "a", punct ")", punct "\x7b",
   kw "return", ident "a", punct ";", punct "\x7d",
   kw "int", ident "a", punct ";", eof]

/-- The tokens of `int a; int f(int a) { return a; }`. -/
def tokens_global_before_function : List Token :=
  [kw "int", ident "a", punct ";",
   kw "int", ident "f", punct "(", kw "int", ident "a", punct ")", punct "\x7b",
   kw "return", ident "a", punct ";", punct "\x7d", eof]

/-- The lines the parser writes for `tokens_global_after_function`. -/
def lines_global_after_function : List Ast.ASTLine :=
  [⟨0, "FunctionDefinition: f"⟩, ⟨1, "Parameters:"⟩, ⟨2, "Param: int a"⟩, ⟨1, "Body:"⟩,
   ⟨2, "Return: a"⟩, ⟨0, "VarDeclGroup:"⟩, ⟨1, "VarDecl: int a"⟩]

/-- The analyzer's state on `lines_global_after_function` when the function has
been analysed and the cursor is on the line `VarDecl: int a` of the top-level
declaration. -/
def state_at_global_decl : Phase3.State :=
  { lines := lines_global_after_function,
    current_line := 6,
    functions :=
      [{ name := "f", return_type := Phase3.VarType.TYPE_INT,
         scope := [{ name := "a", type := Phase3.VarType.TYPE_INT }],
         has_return := true }],
    current_function := some 0,
    global_scope := [] }

/-- The tokens of `int f() { int a; if (!a) { a = 1; } return a; }`. -/
def tokens_if_not : List Token :=
  [kw "int", ident "f", punct "(", punct ")", punct "\x7b",
   kw "int", ident "a", punct ";",
   kw "if", punct "(", op "!", ident "a", punct ")",
   punct "\x7b", ident "a", op "=", int_lit "1", punct ";", punct "\x7d",
   kw "return", ident "a", punct ";", punct "\x7d", eof]

/-- The tokens of `int f() { int a; int b; b = !(a < 1); return b; }`. -/
def tokens_not_of_comparison : List Token :=
  [kw "int", ident "f", punct "(", punct ")", punct "\x7b",
   kw "int", ident "a", punct ";", kw "int", ident "b", punct ";",
   ident "b", op "=", op "!", punct "(", ident "a", op "<", int_lit "1", punct ")", punct ";",
   kw "return", ident "b", punct ";", punct "\x7d", eof]

/-- The lines of `if (!a) { }` as a subtree at indent 0. -/
def lines_if_not_a : List Ast.ASTLine :=
  [⟨0, "If:"⟩, ⟨1, "BinOp(!)"⟩, ⟨2, "Var(a)"⟩, ⟨1, "Body:"⟩]

/-- The tokens of `return <operand>;` for a single operand token. -/
def tokens_return_operand (t : Token) : List Token := [kw "return", t, punct ";"]

/-- The tokens of `return (x);`. -/
def tokens_return_parenthesised : List Token :=
  [kw "return", punct "(", ident "x", punct ")", punct ";"]

/-- The tokens of `return f(1);`. -/
def tokens_return_call : List Token :=
  [kw "return", ident "f", punct "(", int_lit "1", punct ")", punct ";"]

/-- The tokens of `return a + b;`. -/
def tokens_return_sum : List Token :=
  [kw "return", ident "a", op "+", ident "b", punct ";"]

/-- The tokens of `return (int) a;`. -/
def tokens_return_cast : List Token :=
  [kw "return", punct "(", kw "int", punct ")", ident "a", punct ";"]

/-- The tokens of `return !a;`. -/
def tokens_return_not : List Token :=
  [kw "return", op "!", ident "a", punct ";"]

/-- The parser's kind of the same name as the lexer's kind; the parser has no
kind for string literals and preprocessor directives. -/
def same_kind : Phase1.TokenType → Option Phase2.TokenType
  | .TOK_KEYWORD => some .TOK_KEYWORD
  | .TOK_IDENTIFIER => some .TOK_IDENTIFIER
  | .TOK_INT_LITERAL => some .TOK_INT_LITERAL
  | .TOK_FLOAT_LITERAL => some .TOK_FLOAT_LITERAL
  | .TOK_OPERATOR => some .TOK_OPERATOR
  | .TOK_PUNCTUATION => some .TOK_PUNCTUATION
  | .TOK_EOF => some .TOK_EOF_TOKEN
  | .TOK_STRING_LITERAL => none
  | .TOK_PREPROCESSOR => none

/-- The kind `load_tokens` gives to a token of the lexer: the kind of the same
name, and `TOK_EOF_TOKEN` where there is none. -/
def loaded_kind (ty : Phase1.TokenType) : Phase2.TokenType :=
  match same_kind ty with
  | some k => k
  | none => .TOK_EOF_TOKEN

/-- The parser's token with the kind, the lexeme and the line number of a token
of the lexer. -/
def loaded_token (tok : Phase1.Token) : Phase2.Token :=
  { type := loaded_kind tok.type, lexeme := tok.lexeme, line := (tok.line : Int) }

/-- The lexer, then the parser on the `tokens.txt` the lexer wrote: the
content of `ast.txt`. -/
def ast_of_source (lfuel pfuel : Nat) (source : String) : Outcome String :=
  match Phase1.main_output lfuel source with
  | .ok file => Phase2.main pfuel file
  | .fail l m => .fail l m
  | .fuel => .fuel

/-- A source text with a keyword, identifiers, an integer and a float literal,
operators of one and two characters and punctuation on four lines. -/
def source_all_kinds : String :=
  "int main() \x7b\n  float x = 1.5;\n  return x<=2;\n\x7d\n"

/-- The tokens `load_tokens` gets from the lexer's output for `source_all_kinds`. -/
def tokens_all_kinds : List Token :=
  [⟨TOK_KEYWORD, "int", 1⟩, ⟨TOK_IDENTIFIER, "main", 1⟩, ⟨TOK_PUNCTUATION, "(", 1⟩,
   ⟨TOK_PUNCTUATION, ")", 1⟩, ⟨TOK_PUNCTUATION, "\x7b", 1⟩,
   ⟨TOK_KEYWORD, "float", 2⟩, ⟨TOK_IDENTIFIER, "x", 2⟩, ⟨TOK_OPERATOR, "=", 2⟩,
   ⟨TOK_FLOAT_LITERAL, "1.5", 2⟩, ⟨TOK_PUNCTUATION, ";", 2⟩,
   ⟨TOK_KEYWORD, "return", 3⟩, ⟨TOK_IDENTIFIER, "x", 3⟩, ⟨TOK_OPERATOR, "<=", 3⟩,
   ⟨TOK_INT_LITERAL, "2", 3⟩, ⟨TOK_PUNCTUATION, ";", 3⟩,
   ⟨TOK_PUNCTUATION, "\x7d", 4⟩, ⟨TOK_EOF_TOKEN, "EOF", 5⟩]

/-- A program after an `#include` line. -/
def source_with_directive : String := "#include <stdio.h>\nint main() \x7b return 0; \x7d\n"

/-- The same program without the `#include` line. -/
def source_without_directive : String := "int main() \x7b return 0; \x7d\n"

/-- A program with a string literal in the second statement. -/
def source_with_string : String := "int x;\nint f() \x7b x = \"a\"; return 0; \x7d\n"

/-- The tokens of `int g; float f(int a) { return a; }`, the start of a program
that goes on with a second function. -/
def tokens_before_second_function : List Token :=
  [kw "int", ident "g", punct ";",
   kw "float", ident "f", punct "(", kw "int", ident "a", punct ")", punct "\x7b",
   kw "return", ident "a", punct ";", punct "\x7d"]

/-- The tokens of `main() { return 2; }`, a function definition after its return
type keyword, and the end of the tokens. -/
def tokens_after_return_type : List Token :=
  [ident "main", punct "(", punct ")", punct "\x7b", kw "return", int_lit "2", punct ";",
   punct "\x7d", eof]

/-- The tokens of `int f() { int t0; t0 = 1 + 2; return t0; }`. -/
def tokens_temp_named : List Token :=
  [kw "int", ident "f", punct "(", punct ")", punct "\x7b",
   kw "int", ident "t0", punct ";",
   ident "t0", op "=", int_lit "1", op "+", int_lit "2", punct ";",
   kw "return", ident "t0", punct ";", punct "\x7d", eof]

/-- The tokens of `int f() { int a; if (a == 1) a = 2; }`. -/
def tokens_if_no_return : List Token :=
  [kw "int", ident "f", punct "(", punct ")", punct "\x7b",
   kw "int", ident "a", punct ";",
   kw "if", punct "(", ident "a", op "==", int_lit "1", punct ")",
   ident "a", op "=", int_lit "2", punct ";", punct "\x7d", eof]

/-- The `ast.txt` the parser writes for `tokens_if_no_return`. -/
def ast_if_no_return : String :=
  "FunctionDefinition: f\n    Parameters:\n    Body:\n" ++
  "        VarDeclGroup:\n            VarDecl: int a\n" ++
  "        If:\n            BinOp(==)\n                Var(a)\n                Number(1)\n" ++
  "            Assign: a =\n                Number(2)\n"

/-- The analyzer's state on `ast_if_no_return` when the `If:` branch has
returned: the cursor is on line 9, `Assign: a =` at indent 3, inside the loop
of the function's `Body:` (indent 1). -/
def state_if_no_return : Phase3.State :=
  { lines := Ast.load_ast ast_if_no_return,
    current_line := 9,
    functions :=
      [{ name := "f", return_type := Phase3.VarType.TYPE_INT,
         scope := [{ name := "a", type := Phase3.VarType.TYPE_INT }],
         has_return := false }],
    current_function := some 0,
    global_scope := [] }

end Pipeline

/-! ## Theorems -/

open Phase2 Phase2.TokenType Phase2.NodeKind Pipeline

/-- C1, the code at `int f(int a, int b) { return a + b; }`: the parser writes
the two `Param:` lines under `Parameters:`, the generator skips only the
`Parameters:` line, finds no `Body:` on the next line and prints `endfunc`
right after `func f:`; the instructions of the body come after `endfunc`. -/
theorem C1_body_emitted_after_endfunc :
    parser_main 100 tokens_add_fn =
      .ok ("FunctionDefinition: f\n    Parameters:\n        Param: int a\n" ++
           "        Param: int b\n    Body:\n        Return:\n            BinOp(+)\n" ++
           "                Var(a)\n                Var(b)\n") ∧
    tac_of_tokens 100 tokens_add_fn =
      .ok "func f:\nendfunc\n\nt0 = a + b\nreturn t0\n" := by
  decide

/-- C2, the code at `int main() { return 0; }`: the parser writes the line
`Return: 0` without a child, the generator reads the operand from a child line
only and prints a bare `return`. -/
theorem C2_return_lexeme_dropped :
    parser_main 100 tokens_main_return =
      .ok "FunctionDefinition: main\n    Parameters:\n    Body:\n        Return: 0\n" ∧
    tac_of_tokens 100 tokens_main_return = .ok "func main:\nreturn\nendfunc\n\n" := by
  decide

/-- C3, the code at an if/else with block branches: the `gen_block` call for
the then-body also consumes the `Else:` line and its body, so the else
assignment `b = 3` is printed before `goto L1` and `L0:`; the analyzer accepts
the same program. -/
theorem C3_else_body_before_else_label :
    tac_of_tokens 100 tokens_if_else_blocks =
      .ok ("func f:\nt0 = a == 1\nifFalse t0 goto L0\nb = 2\nb = 3\nreturn\n" ++
           "goto L1\nL0:\nL1:\nendfunc\n\n") ∧
    verdict_of_tokens 100 100 tokens_if_else_blocks = .ok () := by
  decide

/-- C4, the code at the for-loop of the spec: the parser writes the step before
the body, the generator looks for `Body:` before the step, so the loop closes
with `goto L0` and `L1:` before the body `t2 = s + i`, `s = t2` is printed; the
analyzer accepts the same program. -/
theorem C4_for_body_after_loop :
    tac_of_tokens 100 tokens_for_loop =
      .ok ("func f:\ni = 0\nL0:\nt0 = i < n\nifFalse t0 goto L1\nt1 = i + 1\ni = t1\n" ++
           "goto L0\nL1:\nt2 = s + i\ns = t2\nreturn\nendfunc\n\n") ∧
    verdict_of_tokens 100 100 tokens_for_loop = .ok () := by
  decide

/-- C6, the code at `int f() { int x; x = 1.5; return x; }`: the literal is
written as `Number(1.5)`, the analyzer types every `Number(` line as int and
reports success. -/
theorem C6_float_literal_accepted_as_int :
    parser_main 100 tokens_float_to_int =
      .ok ("FunctionDefinition: f\n    Parameters:\n    Body:\n        VarDeclGroup:\n" ++
           "            VarDecl: int x\n        Assign: x =\n            Number(1.5)\n" ++
           "        Return: x\n") ∧
    verdict_of_tokens 100 100 tokens_float_to_int = .ok () := by
  decide

/-- C7, the code at `void f() { }`: the AST carries no return type, the
function record keeps the default `TYPE_INT`, and `main` ends with the
missing-return failure. -/
theorem C7_void_function_missing_return :
    parser_main 100 tokens_void_fn = .ok "FunctionDefinition: f\n    Parameters:\n    Body:\n" ∧
    verdict_of_tokens 100 100 tokens_void_fn = .fail none "function 'f' missing return" := by
  decide

/-- C8, the code at `if (a == 1) b = 2; else b = 3; a = 5; return 0; }`: after
`else` the parser calls `parse_body`, which reads statements up to the closing
brace, so `Assign: a =` and `Return: 0` are written inside the `Body:` under
`Else:` (depth 5) and not as siblings of `If:` (depth 2). -/
theorem C8_else_swallows_following_statements :
    parser_main 100 tokens_else_then_more =
      .ok ("FunctionDefinition: f\n    Parameters:\n    Body:\n" ++
           "        VarDeclGroup:\n            VarDecl: int a\n" ++
           "        VarDeclGroup:\n            VarDecl: int b\n" ++
           "        If:\n            BinOp(==)\n                Var(a)\n" ++
           "                Number(1)\n            Assign: b =\n                Number(2)\n" ++
           "            Else:\n                Body:\n" ++
           "                    Assign: b =\n                        Number(3)\n" ++
           "                    Assign: a =\n                        Number(5)\n" ++
           "                    Return: 0\n") := by
  decide

/-! ### The analyzer's loop over children can stall -/

/-- Function `parse_node` returns without moving the cursor when the current line's
indent differs from the expected one. -/
theorem Phase3.parse_node_indent_mismatch (f e : Nat) (st : Phase3.State) (ln : Ast.ASTLine)
    (h1 : Phase3.cur_line st = some ln) (h2 : ln.indent ≠ e) :
    Phase3.parse_node (f + 1) e st = .ok (Phase3.VarType.TYPE_UNKNOWN, st) := by
  rw [Phase3.parse_node]
  simp only [h1]
  rw [if_pos h2]

/-- The loop over the children of a `Body:` at indent `k` never ends once the
cursor is on a line of indent greater than `k + 1`: every call
`parse_node(k + 1)` returns at once and the loop test stays true. -/
theorem Phase3.children_loop_stalls (k : Nat) (st : Phase3.State) (ln : Ast.ASTLine)
    (h1 : Phase3.cur_line st = some ln) (h2 : k + 1 < ln.indent) (f : Nat) :
    Phase3.children_loop f k st = .fuel := by
  induction f with
  | zero => rw [Phase3.children_loop]
  | succ n ih =>
    rw [Phase3.children_loop]
    simp only [h1]
    rw [if_pos (by omega)]
    cases n with
    | zero =>
      rw [Phase3.parse_node]
      rfl
    | succ m =>
      rw [Phase3.parse_node_indent_mismatch m (k + 1) st ln h1 (by omega)]
      exact ih

/-- C5, the code at `int f() { int a; int b; if (a == 1) b = 2; else b = 3;
return 0; }`: the `If:` branch of the analyzer reads a then-branch only when it
is a `Body:` line, so it returns with the cursor on `Assign: b =` (indent 3);
the loop of the function body (indent 1) then calls `parse_node(2)` for ever.
Whatever the fuel, the run never reaches a verdict. -/
theorem C5_plain_if_branches_never_terminate (fuel : Nat) :
    parser_main 100 tokens_if_else_plain = .ok ast_if_else_plain ∧
    Phase3.main fuel ast_if_else_plain = .fuel ∧
    verdict_of_tokens 100 fuel tokens_if_else_plain = .fuel := by
  have hparse : parser_main 100 tokens_if_else_plain = .ok ast_if_else_plain := by decide
  have hstall : ∀ n, Phase3.children_loop n 1 state_after_if = .fuel := fun n =>
    Phase3.children_loop_stalls 1 state_after_if ⟨3, "Assign: b ="⟩ (by decide) (by decide) n
  have hloop : Phase3.main_loop fuel (Phase3.initial_state (Ast.load_ast ast_if_else_plain)) =
      .fuel := by
    by_cases hf : fuel < 9
    · interval_cases fuel <;> decide
    · obtain ⟨m, rfl⟩ : ∃ m, fuel = m + 9 := ⟨fuel - 9, by omega⟩
      have hrun : Phase3.main_loop (m + 9) (Phase3.initial_state (Ast.load_ast ast_if_else_plain)) =
          (((Phase3.children_loop (m + 3) 1 state_after_if).bind
              (fun st => .ok (Phase3.VarType.TYPE_VOID, st))).bind
              (fun p => (.ok (Phase3.VarType.TYPE_VOID, p.2) :
                Outcome (Phase3.VarType × Phase3.State)))).bind
              (fun p => Phase3.main_loop (m + 8) p.2) := rfl
      rw [hrun, hstall]
      rfl
  have hmain : Phase3.main fuel ast_if_else_plain = .fuel := by
    unfold Phase3.main
    rw [show (Phase3.main_loop fuel (Phase3.initial_state (Ast.load_ast ast_if_else_plain))) =
      .fuel from hloop]
    rfl
  refine ⟨hparse, hmain, ?_⟩
  unfold verdict_of_tokens
  rw [hparse]
  exact hmain

/-- C26, the code at `int f() { int a; if (a == 1) a = 2; }`: the function is
declared `int` and its AST has no `Return` line, and no line before the end
gives a semantic error.  The `If:` branch of the analyzer reads a then-branch
only when it is a `Body:` line, so it returns with the cursor on `Assign: a =`
(indent 3); the loop of the function body (indent 1) then calls `parse_node(2)`
for ever.  Whatever the fuel, the run never reaches the missing-return check
at the end of `main`. -/
theorem C26_missing_return_never_reported (fuel : Nat) :
    parser_main 100 tokens_if_no_return = .ok ast_if_no_return ∧
    (Ast.load_ast ast_if_no_return).all
      (fun ln => !CStr.strncmp_eq ln.text "Return" 6) = true ∧
    Phase3.main fuel ast_if_no_return = .fuel ∧
    verdict_of_tokens 100 fuel tokens_if_no_return = .fuel := by
  have hparse : parser_main 100 tokens_if_no_return = .ok ast_if_no_return := by decide
  have hstall : ∀ n, Phase3.children_loop n 1 state_if_no_return = .fuel := fun n =>
    Phase3.children_loop_stalls 1 state_if_no_return ⟨3, "Assign: a ="⟩ (by decide) (by decide) n
  have hloop : Phase3.main_loop fuel (Phase3.initial_state (Ast.load_ast ast_if_no_return)) =
      .fuel := by
    by_cases hf : fuel < 8
    · interval_cases fuel <;> decide
    · obtain ⟨m, rfl⟩ : ∃ m, fuel = m + 8 := ⟨fuel - 8, by omega⟩
      have hrun : Phase3.main_loop (m + 8) (Phase3.initial_state (Ast.load_ast ast_if_no_return)) =
          (((Phase3.children_loop (m + 3) 1 state_if_no_return).bind
              (fun st => .ok (Phase3.VarType.TYPE_VOID, st))).bind
              (fun p => (.ok (Phase3.VarType.TYPE_VOID, p.2) :
                Outcome (Phase3.VarType × Phase3.State)))).bind
              (fun p => Phase3.main_loop (m + 7) p.2) := rfl
      rw [hrun, hstall]
      rfl
  have hmain : Phase3.main fuel ast_if_no_return = .fuel := by
    unfold Phase3.main
    rw [show (Phase3.main_loop fuel (Phase3.initial_state (Ast.load_ast ast_if_no_return))) =
      .fuel from hloop]
    rfl
  refine ⟨hparse, by decide, hmain, ?_⟩
  unfold verdict_of_tokens
  rw [hparse]
  exact hmain

/-! ### The expression parser on operator chains -/

@[simp] theorem Outcome.ok_bind {α β : Type} (a : α) (f : α → Outcome β) :
    (Outcome.ok a >>= f) = f a := rfl

@[simp] theorem Outcome.fail_bind {α β : Type} (l : Option Int) (m : String) (f : α → Outcome β) :
    ((Outcome.fail l m : Outcome α) >>= f) = Outcome.fail l m := rfl

@[simp] theorem Outcome.fuel_bind {α β : Type} (f : α → Outcome β) :
    ((Outcome.fuel : Outcome α) >>= f) = Outcome.fuel := rfl

/-- The lexemes of positive level are the thirteen binary operators. -/
theorem Phase2.lexeme_level_cases (s : String) (h : lexeme_level s ≠ 0) :
    s = "||" ∨ s = "&&" ∨ s = "==" ∨ s = "!=" ∨ s = "<" ∨ s = ">" ∨ s = "<=" ∨ s = ">=" ∨
    s = "+" ∨ s = "-" ∨ s = "*" ∨ s = "/" ∨ s = "%" := by
  unfold lexeme_level at h
  split_ifs at h with h1 h2 h3 h4 h5
  · exact Or.inl h1
  · exact Or.inr (Or.inl h2)
  · rcases h3 with h | h | h | h | h | h <;> simp [h]
  · rcases h4 with h | h <;> simp [h]
  · rcases h5 with h | h | h <;> simp [h]
  · exact absurd rfl h

/-- A token of positive level is an OPERATOR token, so it is not `(`. -/
theorem Phase2.operator_not_lparen (o : Token) (rest : Cursor) (h : op_level o ≠ 0) :
    next_is_lparen (o :: rest) = false := by
  obtain ⟨ty, lex, line⟩ := o
  unfold op_level at h
  by_cases hty : ty = TOK_OPERATOR
  · subst hty
    rfl
  · simp [hty] at h

/-- A cast starts with `(`. -/
theorem Phase2.is_cast_start_head (t : Token) (rest : Cursor)
    (h : t.is TOK_PUNCTUATION "(" = false) : is_cast_start (t :: rest) = false := by
  unfold is_cast_start
  split
  · next heq =>
    simp only [List.cons.injEq] at heq
    obtain ⟨rfl, _⟩ := heq
    simp [h]
  · rfl

/-- Function `parse_factor` on a primary operand that is not followed by `(`: the
operand's leaf, one token consumed. -/
theorem Phase2.parse_factor_primary (n : Nat) (t : Token) (rest : Cursor)
    (ht : is_primary t = true) (hr : next_is_lparen rest = false) :
    parse_factor (n + 1) (t :: rest) = .ok (leaf t, rest) := by
  obtain ⟨ty, lex, line⟩ := t
  have hp : Token.is ⟨ty, lex, line⟩ TOK_PUNCTUATION "(" = false := by
    cases ty <;> simp [is_primary] at ht <;> simp [Token.is]
  have ho : Token.is ⟨ty, lex, line⟩ TOK_OPERATOR "!" = false := by
    cases ty <;> simp [is_primary] at ht <;> simp [Token.is]
  rw [parse_factor.eq_def]
  simp only [Phase2.is_cast_start_head _ _ hp, hp, ho]
  cases ty <;> simp [is_primary] at ht
  · cases rest with
    | nil => simp [leaf, ast_new_node]
    | cons next r =>
      simp only [next_is_lparen] at hr
      simp [leaf, ast_new_node, hr]
  · simp [leaf, ast_new_node]
  · simp [leaf, ast_new_node]

/-- The loop test of `parse_term` holds exactly for the operator tokens of level 5. -/
theorem Phase2.term_test_iff (t : Token) : (is_mul_op t) = true ↔ op_level t = 5 := by
  obtain ⟨ty, lex, line⟩ := t
  unfold op_level
  by_cases h : ty = TOK_OPERATOR
  · subst h
    constructor
    · intro hh
      simp only [is_mul_op, is_add_op, is_cmp_op, Token.is, Bool.and_eq_true, Bool.or_eq_true,
        decide_eq_true_eq, true_and] at hh
      simp only [if_true]
      casesm* _ ∨ _ <;> subst_vars <;> decide
    · intro hh
      simp only [if_true] at hh
      have hc := Phase2.lexeme_level_cases lex (by omega)
      rcases hc with h1 | h1 | h1 | h1 | h1 | h1 | h1 | h1 | h1 | h1 | h1 | h1 | h1 <;>
        subst h1 <;> first | exact absurd hh (by decide) | rfl
  · have hne : decide (ty = TOK_OPERATOR) = false := by simp [h]
    simp [is_mul_op, is_add_op, is_cmp_op, Token.is, hne, h]

/-- The node the loop of `parse_term` builds for an operator of level 5. -/
theorem Phase2.term_node (o : Token) (l r : ASTNode) (h : op_level o = 5) :
    binop_node (binop_text o.lexeme) l r = binop o l r := by
  obtain ⟨ty, lex, line⟩ := o
  unfold op_level at h
  by_cases hty : ty = TOK_OPERATOR
  · subst hty
    simp only [if_true] at h
    have hc := Phase2.lexeme_level_cases lex (by omega)
    rcases hc with h1 | h1 | h1 | h1 | h1 | h1 | h1 | h1 | h1 | h1 | h1 | h1 | h1 <;>
      subst h1 <;> first | exact absurd h (by decide) | rfl
  · simp [hty] at h

/-- The loop of `parse_term` stops at a token that is not an operator of level 5. -/
theorem Phase2.term_loop_stop (n : Nat) (node : ASTNode) (rest : Cursor)
    (h : next_level rest ≠ 5) : parse_term_loop (n + 1) node rest = .ok (node, rest) := by
  cases rest with
  | nil => rw [parse_term_loop]
  | cons t r =>
    have ht : (is_mul_op t) = false := by
      cases hb : (is_mul_op t)
      · rfl
      · exact absurd ((Phase2.term_test_iff t).mp hb) h
    rw [parse_term_loop, if_neg (by simp [ht])]

/-- One round of the loop of `parse_term` at an operator of level 5. -/
theorem Phase2.term_loop_step (n : Nat) (node rhs : ASTNode) (o : Token) (rest rest1 : Cursor)
    (r : Outcome (ASTNode × Cursor)) (h : op_level o = 5)
    (hs : parse_factor n rest = .ok (rhs, rest1)) (hl : parse_term_loop n (binop o node rhs) rest1 = r) :
    parse_term_loop (n + 1) node (o :: rest) = r := by
  rw [parse_term_loop, if_pos ((Phase2.term_test_iff o).mpr h), hs]
  show parse_term_loop n (binop_node (binop_text o.lexeme) node rhs) rest1 = r
  rw [Phase2.term_node o node rhs h]
  exact hl

/-- Function `parse_term` is `parse_factor` followed by the loop. -/
theorem Phase2.term_of (n : Nat) (toks rest : Cursor) (node : ASTNode)
    (r : Outcome (ASTNode × Cursor))
    (hs : parse_factor n toks = .ok (node, rest)) (hl : parse_term_loop n node rest = r) :
    parse_term (n + 1) toks = r := by
  rw [parse_term, hs]
  exact hl

/-- Function `parse_term` passes on the result of `parse_factor` when the next token is not an operator
of level 5. -/
theorem Phase2.term_pass (n : Nat) (toks rest : Cursor) (node : ASTNode)
    (hs : parse_factor n toks = .ok (node, rest)) (h : next_level rest ≠ 5) :
    parse_term (n + 1) toks = .ok (node, rest) := by
  cases n with
  | zero => rw [parse_factor] at hs; exact absurd hs (by simp)
  | succ m => exact Phase2.term_of (m + 1) toks rest node _ hs (Phase2.term_loop_stop m node rest h)

/-- Function `parse_term` on tokens that start with an operand (read by `parse_factor` with
fuel `m`) followed by no operator of level 5 or higher: the operand's node. -/
theorem Phase2.term_operand (m : Nat) (toks rest : Cursor) (node : ASTNode)
    (hs : parse_factor m toks = .ok (node, rest)) (hl : next_level rest < 5) :
    parse_term (m + 1) toks = .ok (node, rest) :=
  Phase2.term_pass (m + 0) toks rest node hs (by omega)

/-- Function `parse_term` on an operand, an operator of level 5, an operand, an operator of
level 5 and an operand: the left-nested tree. -/
theorem Phase2.term_chain (c n : Nat) (T0 T1 T2 rest : Cursor) (x y z : ASTNode) (o1 o2 : Token)
    (hx : reads_operand c T0 x (o1 :: T1)) (hy : reads_operand c T1 y (o2 :: T2))
    (hz : reads_operand c T2 z rest)
    (h1 : op_level o1 = 5) (h2 : op_level o2 = 5) (hr : next_level rest = 0) :
    parse_term (c + (n + 4)) T0 = .ok (binop o2 (binop o1 x y) z, rest) :=
  Phase2.term_of (c + (n + 3)) _ _ _ _
    (hx (n + 3))
    (Phase2.term_loop_step (c + (n + 2)) _ _ o1 _ _ _ h1
      (hy (n + 2))
      (Phase2.term_loop_step (c + (n + 1)) _ _ o2 _ _ _ h2
        (hz (n + 1))
        (Phase2.term_loop_stop (c + (n + 0)) _ rest (by omega))))

/-- The loop test of `parse_add_sub` holds exactly for the operator tokens of level 4. -/
theorem Phase2.add_sub_test_iff (t : Token) : (is_add_op t) = true ↔ op_level t = 4 := by
  obtain ⟨ty, lex, line⟩ := t
  unfold op_level
  by_cases h : ty = TOK_OPERATOR
  · subst h
    constructor
    · intro hh
      simp only [is_mul_op, is_add_op, is_cmp_op, Token.is, Bool.and_eq_true, Bool.or_eq_true,
        decide_eq_true_eq, true_and] at hh
      simp only [if_true]
      casesm* _ ∨ _ <;> subst_vars <;> decide
    · intro hh
      simp only [if_true] at hh
      have hc := Phase2.lexeme_level_cases lex (by omega)
      rcases hc with h1 | h1 | h1 | h1 | h1 | h1 | h1 | h1 | h1 | h1 | h1 | h1 | h1 <;>
        subst h1 <;> first | exact absurd hh (by decide) | rfl
  · have hne : decide (ty = TOK_OPERATOR) = false := by simp [h]
    simp [is_mul_op, is_add_op, is_cmp_op, Token.is, hne, h]

/-- The node the loop of `parse_add_sub` builds for an operator of level 4. -/
theorem Phase2.add_sub_node (o : Token) (l r : ASTNode) (h : op_level o = 4) :
    binop_node (binop_text o.lexeme) l r = binop o l r := by
  obtain ⟨ty, lex, line⟩ := o
  unfold op_level at h
  by_cases hty : ty = TOK_OPERATOR
  · subst hty
    simp only [if_true] at h
    have hc := Phase2.lexeme_level_cases lex (by omega)
    rcases hc with h1 | h1 | h1 | h1 | h1 | h1 | h1 | h1 | h1 | h1 | h1 | h1 | h1 <;>
      subst h1 <;> first | exact absurd h (by decide) | rfl
  · simp [hty] at h

/-- The loop of `parse_add_sub` stops at a token that is not an operator of level 4. -/
theorem Phase2.add_sub_loop_stop (n : Nat) (node : ASTNode) (rest : Cursor)
    (h : next_level rest ≠ 4) : parse_add_sub_loop (n + 1) node rest = .ok (node, rest) := by
  cases rest with
  | nil => rw [parse_add_sub_loop]
  | cons t r =>
    have ht : (is_add_op t) = false := by
      cases hb : (is_add_op t)
      · rfl
      · exact absurd ((Phase2.add_sub_test_iff t).mp hb) h
    rw [parse_add_sub_loop, if_neg (by simp [ht])]

/-- One round of the loop of `parse_add_sub` at an operator of level 4. -/
theorem Phase2.add_sub_loop_step (n : Nat) (node rhs : ASTNode) (o : Token) (rest rest1 : Cursor)
    (r : Outcome (ASTNode × Cursor)) (h : op_level o = 4)
    (hs : parse_term n rest = .ok (rhs, rest1)) (hl : parse_add_sub_loop n (binop o node rhs) rest1 = r) :
    parse_add_sub_loop (n + 1) node (o :: rest) = r := by
  rw [parse_add_sub_loop, if_pos ((Phase2.add_sub_test_iff o).mpr h), hs]
  show parse_add_sub_loop n (binop_node (binop_text o.lexeme) node rhs) rest1 = r
  rw [Phase2.add_sub_node o node rhs h]
  exact hl

/-- Function `parse_add_sub` is `parse_term` followed by the loop. -/
theorem Phase2.add_sub_of (n : Nat) (toks rest : Cursor) (node : ASTNode)
    (r : Outcome (ASTNode × Cursor))
    (hs : parse_term n toks = .ok (node, rest)) (hl : parse_add_sub_loop n node rest = r) :
    parse_add_sub (n + 1) toks = r := by
  rw [parse_add_sub, hs]
  exact hl

/-- Function `parse_add_sub` passes on the result of `parse_term` when the next token is not an operator
of level 4. -/
theorem Phase2.add_sub_pass (n : Nat) (toks rest : Cursor) (node : ASTNode)
    (hs : parse_term n toks = .ok (node, rest)) (h : next_level rest ≠ 4) :
    parse_add_sub (n + 1) toks = .ok (node, rest) := by
  cases n with
  | zero => rw [parse_term] at hs; exact absurd hs (by simp)
  | succ m => exact Phase2.add_sub_of (m + 1) toks rest node _ hs (Phase2.add_sub_loop_stop m node rest h)

/-- Function `parse_add_sub` on tokens that start with an operand (read by `parse_factor` with
fuel `m`) followed by no operator of level 4 or higher: the operand's node. -/
theorem Phase2.add_sub_operand (m : Nat) (toks rest : Cursor) (node : ASTNode)
    (hs : parse_factor m toks = .ok (node, rest)) (hl : next_level rest < 4) :
    parse_add_sub (m + 2) toks = .ok (node, rest) :=
  Phase2.add_sub_pass (m + 1) toks rest node (Phase2.term_operand m toks rest node hs (by omega)) (by omega)

/-- Function `parse_add_sub` on an operand, an operator of level 4, an operand, an operator of
level 4 and an operand: the left-nested tree. -/
theorem Phase2.add_sub_chain (c n : Nat) (T0 T1 T2 rest : Cursor) (x y z : ASTNode) (o1 o2 : Token)
    (hx : reads_operand c T0 x (o1 :: T1)) (hy : reads_operand c T1 y (o2 :: T2))
    (hz : reads_operand c T2 z rest)
    (h1 : op_level o1 = 4) (h2 : op_level o2 = 4) (hr : next_level rest = 0) :
    parse_add_sub (c + (n + 5)) T0 = .ok (binop o2 (binop o1 x y) z, rest) :=
  Phase2.add_sub_of (c + (n + 4)) _ _ _ _
    (Phase2.term_operand (c + (n + 3)) _ _ _ (hx (n + 3)) (by simp only [next_level]; omega))
    (Phase2.add_sub_loop_step (c + (n + 3)) _ _ o1 _ _ _ h1
      (Phase2.term_operand (c + (n + 2)) _ _ _ (hy (n + 2)) (by simp only [next_level]; omega))
      (Phase2.add_sub_loop_step (c + (n + 2)) _ _ o2 _ _ _ h2
        (Phase2.term_operand (c + (n + 1)) _ _ _ (hz (n + 1)) (by omega))
        (Phase2.add_sub_loop_stop (c + (n + 1)) _ rest (by omega))))

/-- The loop test of `parse_comparison` holds exactly for the operator tokens of level 3. -/
theorem Phase2.comparison_test_iff (t : Token) : (is_cmp_op t) = true ↔ op_level t = 3 := by
  obtain ⟨ty, lex, line⟩ := t
  unfold op_level
  by_cases h : ty = TOK_OPERATOR
  · subst h
    constructor
    · intro hh
      simp only [is_mul_op, is_add_op, is_cmp_op, Token.is, Bool.and_eq_true, Bool.or_eq_true,
        decide_eq_true_eq, true_and] at hh
      simp only [if_true]
      casesm* _ ∨ _ <;> subst_vars <;> decide
    · intro hh
      simp only [if_true] at hh
      have hc := Phase2.lexeme_level_cases lex (by omega)
      rcases hc with h1 | h1 | h1 | h1 | h1 | h1 | h1 | h1 | h1 | h1 | h1 | h1 | h1 <;>
        subst h1 <;> first | exact absurd hh (by decide) | rfl
  · have hne : decide (ty = TOK_OPERATOR) = false := by simp [h]
    simp [is_mul_op, is_add_op, is_cmp_op, Token.is, hne, h]

/-- The node the loop of `parse_comparison` builds for an operator of level 3. -/
theorem Phase2.comparison_node (o : Token) (l r : ASTNode) (h : op_level o = 3) :
    binop_node (binop_text o.lexeme) l r = binop o l r := by
  obtain ⟨ty, lex, line⟩ := o
  unfold op_level at h
  by_cases hty : ty = TOK_OPERATOR
  · subst hty
    simp only [if_true] at h
    have hc := Phase2.lexeme_level_cases lex (by omega)
    rcases hc with h1 | h1 | h1 | h1 | h1 | h1 | h1 | h1 | h1 | h1 | h1 | h1 | h1 <;>
      subst h1 <;> first | exact absurd h (by decide) | rfl
  · simp [hty] at h

/-- The loop of `parse_comparison` stops at a token that is not an operator of level 3. -/
theorem Phase2.comparison_loop_stop (n : Nat) (node : ASTNode) (rest : Cursor)
    (h : next_level rest ≠ 3) : parse_comparison_loop (n + 1) node rest = .ok (node, rest) := by
  cases rest with
  | nil => rw [parse_comparison_loop]
  | cons t r =>
    have ht : (is_cmp_op t) = false := by
      cases hb : (is_cmp_op t)
      · rfl
      · exact absurd ((Phase2.comparison_test_iff t).mp hb) h
    rw [parse_comparison_loop, if_neg (by simp [ht])]

/-- One round of the loop of `parse_comparison` at an operator of level 3. -/
theorem Phase2.comparison_loop_step (n : Nat) (node rhs : ASTNode) (o : Token) (rest rest1 : Cursor)
    (r : Outcome (ASTNode × Cursor)) (h : op_level o = 3)
    (hs : parse_add_sub n rest = .ok (rhs, rest1)) (hl : parse_comparison_loop n (binop o node rhs) rest1 = r) :
    parse_comparison_loop (n + 1) node (o :: rest) = r := by
  rw [parse_comparison_loop, if_pos ((Phase2.comparison_test_iff o).mpr h), hs]
  show parse_comparison_loop n (binop_node (binop_text o.lexeme) node rhs) rest1 = r
  rw [Phase2.comparison_node o node rhs h]
  exact hl

/-- Function `parse_comparison` is `parse_add_sub` followed by the loop. -/
theorem Phase2.comparison_of (n : Nat) (toks rest : Cursor) (node : ASTNode)
    (r : Outcome (ASTNode × Cursor))
    (hs : parse_add_sub n toks = .ok (node, rest)) (hl : parse_comparison_loop n node rest = r) :
    parse_comparison (n + 1) toks = r := by
  rw [parse_comparison, hs]
  exact hl

/-- Function `parse_comparison` passes on the result of `parse_add_sub` when the next token is not an operator
of level 3. -/
theorem Phase2.comparison_pass (n : Nat) (toks rest : Cursor) (node : ASTNode)
    (hs : parse_add_sub n toks = .ok (node, rest)) (h : next_level rest ≠ 3) :
    parse_comparison (n + 1) toks = .ok (node, rest) := by
  cases n with
  | zero => rw [parse_add_sub] at hs; exact absurd hs (by simp)
  | succ m => exact Phase2.comparison_of (m + 1) toks rest node _ hs (Phase2.comparison_loop_stop m node rest h)

/-- Function `parse_comparison` on tokens that start with an operand (read by `parse_factor` with
fuel `m`) followed by no operator of level 3 or higher: the operand's node. -/
theorem Phase2.comparison_operand (m : Nat) (toks rest : Cursor) (node : ASTNode)
    (hs : parse_factor m toks = .ok (node, rest)) (hl : next_level rest < 3) :
    parse_comparison (m + 3) toks = .ok (node, rest) :=
  Phase2.comparison_pass (m + 2) toks rest node (Phase2.add_sub_operand m toks rest node hs (by omega)) (by omega)

/-- Function `parse_comparison` on an operand, an operator of level 3, an operand, an operator of
level 3 and an operand: the left-nested tree. -/
theorem Phase2.comparison_chain (c n : Nat) (T0 T1 T2 rest : Cursor) (x y z : ASTNode) (o1 o2 : Token)
    (hx : reads_operand c T0 x (o1 :: T1)) (hy : reads_operand c T1 y (o2 :: T2))
    (hz : reads_operand c T2 z rest)
    (h1 : op_level o1 = 3) (h2 : op_level o2 = 3) (hr : next_level rest = 0) :
    parse_comparison (c + (n + 6)) T0 = .ok (binop o2 (binop o1 x y) z, rest) :=
  Phase2.comparison_of (c + (n + 5)) _ _ _ _
    (Phase2.add_sub_operand (c + (n + 3)) _ _ _ (hx (n + 3)) (by simp only [next_level]; omega))
    (Phase2.comparison_loop_step (c + (n + 4)) _ _ o1 _ _ _ h1
      (Phase2.add_sub_operand (c + (n + 2)) _ _ _ (hy (n + 2)) (by simp only [next_level]; omega))
      (Phase2.comparison_loop_step (c + (n + 3)) _ _ o2 _ _ _ h2
        (Phase2.add_sub_operand (c + (n + 1)) _ _ _ (hz (n + 1)) (by omega))
        (Phase2.comparison_loop_stop (c + (n + 2)) _ rest (by omega))))

/-- The loop test of `parse_logical_and` holds exactly for the operator tokens of level 2. -/
theorem Phase2.logical_and_test_iff (t : Token) : (t.is TOK_OPERATOR "&&") = true ↔ op_level t = 2 := by
  obtain ⟨ty, lex, line⟩ := t
  unfold op_level
  by_cases h : ty = TOK_OPERATOR
  · subst h
    constructor
    · intro hh
      simp only [is_mul_op, is_add_op, is_cmp_op, Token.is, Bool.and_eq_true, Bool.or_eq_true,
        decide_eq_true_eq, true_and] at hh
      simp only [if_true]
      subst hh
      decide
    · intro hh
      simp only [if_true] at hh
      have hc := Phase2.lexeme_level_cases lex (by omega)
      rcases hc with h1 | h1 | h1 | h1 | h1 | h1 | h1 | h1 | h1 | h1 | h1 | h1 | h1 <;>
        subst h1 <;> first | exact absurd hh (by decide) | rfl
  · have hne : decide (ty = TOK_OPERATOR) = false := by simp [h]
    simp [is_mul_op, is_add_op, is_cmp_op, Token.is, hne, h]

/-- The node the loop of `parse_logical_and` builds for an operator of level 2. -/
theorem Phase2.logical_and_node (o : Token) (l r : ASTNode) (h : op_level o = 2) :
    binop_node ("BinOp(&&)") l r = binop o l r := by
  obtain ⟨ty, lex, line⟩ := o
  unfold op_level at h
  by_cases hty : ty = TOK_OPERATOR
  · subst hty
    simp only [if_true] at h
    have hc := Phase2.lexeme_level_cases lex (by omega)
    rcases hc with h1 | h1 | h1 | h1 | h1 | h1 | h1 | h1 | h1 | h1 | h1 | h1 | h1 <;>
      subst h1 <;> first | exact absurd h (by decide) | rfl
  · simp [hty] at h

/-- The loop of `parse_logical_and` stops at a token that is not an operator of level 2. -/
theorem Phase2.logical_and_loop_stop (n : Nat) (node : ASTNode) (rest : Cursor)
    (h : next_level rest ≠ 2) : parse_logical_and_loop (n + 1) node rest = .ok (node, rest) := by
  cases rest with
  | nil => rw [parse_logical_and_loop]
  | cons t r =>
    have ht : (t.is TOK_OPERATOR "&&") = false := by
      cases hb : (t.is TOK_OPERATOR "&&")
      · rfl
      · exact absurd ((Phase2.logical_and_test_iff t).mp hb) h
    rw [parse_logical_and_loop, if_neg (by simp [ht])]

/-- One round of the loop of `parse_logical_and` at an operator of level 2. -/
theorem Phase2.logical_and_loop_step (n : Nat) (node rhs : ASTNode) (o : Token) (rest rest1 : Cursor)
    (r : Outcome (ASTNode × Cursor)) (h : op_level o = 2)
    (hs : parse_comparison n rest = .ok (rhs, rest1)) (hl : parse_logical_and_loop n (binop o node rhs) rest1 = r) :
    parse_logical_and_loop (n + 1) node (o :: rest) = r := by
  rw [parse_logical_and_loop, if_pos ((Phase2.logical_and_test_iff o).mpr h), hs]
  show parse_logical_and_loop n (binop_node ("BinOp(&&)") node rhs) rest1 = r
  rw [Phase2.logical_and_node o node rhs h]
  exact hl

/-- Function `parse_logical_and` is `parse_comparison` followed by the loop. -/
theorem Phase2.logical_and_of (n : Nat) (toks rest : Cursor) (node : ASTNode)
    (r : Outcome (ASTNode × Cursor))
    (hs : parse_comparison n toks = .ok (node, rest)) (hl : parse_logical_and_loop n node rest = r) :
    parse_logical_and (n + 1) toks = r := by
  rw [parse_logical_and, hs]
  exact hl

/-- Function `parse_logical_and` passes on the result of `parse_comparison` when the next token is not an operator
of level 2. -/
theorem Phase2.logical_and_pass (n : Nat) (toks rest : Cursor) (node : ASTNode)
    (hs : parse_comparison n toks = .ok (node, rest)) (h : next_level rest ≠ 2) :
    parse_logical_and (n + 1) toks = .ok (node, rest) := by
  cases n with
  | zero => rw [parse_comparison] at hs; exact absurd hs (by simp)
  | succ m => exact Phase2.logical_and_of (m + 1) toks rest node _ hs (Phase2.logical_and_loop_stop m node rest h)

/-- Function `parse_logical_and` on tokens that start with an operand (read by `parse_factor` with
fuel `m`) followed by no operator of level 2 or higher: the operand's node. -/
theorem Phase2.logical_and_operand (m : Nat) (toks rest : Cursor) (node : ASTNode)
    (hs : parse_factor m toks = .ok (node, rest)) (hl : next_level rest < 2) :
    parse_logical_and (m + 4) toks = .ok (node, rest) :=
  Phase2.logical_and_pass (m + 3) toks rest node (Phase2.comparison_operand m toks rest node hs (by omega)) (by omega)

/-- Function `parse_logical_and` on an operand, an operator of level 2, an operand, an operator of
level 2 and an operand: the left-nested tree. -/
theorem Phase2.logical_and_chain (c n : Nat) (T0 T1 T2 rest : Cursor) (x y z : ASTNode) (o1 o2 : Token)
    (hx : reads_operand c T0 x (o1 :: T1)) (hy : reads_operand c T1 y (o2 :: T2))
    (hz : reads_operand c T2 z rest)
    (h1 : op_level o1 = 2) (h2 : op_level o2 = 2) (hr : next_level rest = 0) :
    parse_logical_and (c + (n + 7)) T0 = .ok (binop o2 (binop o1 x y) z, rest) :=
  Phase2.logical_and_of (c + (n + 6)) _ _ _ _
    (Phase2.comparison_operand (c + (n + 3)) _ _ _ (hx (n + 3)) (by simp only [next_level]; omega))
    (Phase2.logical_and_loop_step (c + (n + 5)) _ _ o1 _ _ _ h1
      (Phase2.comparison_operand (c + (n + 2)) _ _ _ (hy (n + 2)) (by simp only [next_level]; omega))
      (Phase2.logical_and_loop_step (c + (n + 4)) _ _ o2 _ _ _ h2
        (Phase2.comparison_operand (c + (n + 1)) _ _ _ (hz (n + 1)) (by omega))
        (Phase2.logical_and_loop_stop (c + (n + 3)) _ rest (by omega))))

/-- The loop test of `parse_logical_or` holds exactly for the operator tokens of level 1. -/
theorem Phase2.logical_or_test_iff (t : Token) : (t.is TOK_OPERATOR "||") = true ↔ op_level t = 1 := by
  obtain ⟨ty, lex, line⟩ := t
  unfold op_level
  by_cases h : ty = TOK_OPERATOR
  · subst h
    constructor
    · intro hh
      simp only [is_mul_op, is_add_op, is_cmp_op, Token.is, Bool.and_eq_true, Bool.or_eq_true,
        decide_eq_true_eq, true_and] at hh
      simp only [if_true]
      subst hh
      decide
    · intro hh
      simp only [if_true] at hh
      have hc := Phase2.lexeme_level_cases lex (by omega)
      rcases hc with h1 | h1 | h1 | h1 | h1 | h1 | h1 | h1 | h1 | h1 | h1 | h1 | h1 <;>
        subst h1 <;> first | exact absurd hh (by decide) | rfl
  · have hne : decide (ty = TOK_OPERATOR) = false := by simp [h]
    simp [is_mul_op, is_add_op, is_cmp_op, Token.is, hne, h]

/-- The node the loop of `parse_logical_or` builds for an operator of level 1. -/
theorem Phase2.logical_or_node (o : Token) (l r : ASTNode) (h : op_level o = 1) :
    binop_node ("BinOp(||)") l r = binop o l r := by
  obtain ⟨ty, lex, line⟩ := o
  unfold op_level at h
  by_cases hty : ty = TOK_OPERATOR
  · subst hty
    simp only [if_true] at h
    have hc := Phase2.lexeme_level_cases lex (by omega)
    rcases hc with h1 | h1 | h1 | h1 | h1 | h1 | h1 | h1 | h1 | h1 | h1 | h1 | h1 <;>
      subst h1 <;> first | exact absurd h (by decide) | rfl
  · simp [hty] at h

/-- The loop of `parse_logical_or` stops at a token that is not an operator of level 1. -/
theorem Phase2.logical_or_loop_stop (n : Nat) (node : ASTNode) (rest : Cursor)
    (h : next_level rest ≠ 1) : parse_logical_or_loop (n + 1) node rest = .ok (node, rest) := by
  cases rest with
  | nil => rw [parse_logical_or_loop]
  | cons t r =>
    have ht : (t.is TOK_OPERATOR "||") = false := by
      cases hb : (t.is TOK_OPERATOR "||")
      · rfl
      · exact absurd ((Phase2.logical_or_test_iff t).mp hb) h
    rw [parse_logical_or_loop, if_neg (by simp [ht])]

/-- One round of the loop of `parse_logical_or` at an operator of level 1. -/
theorem Phase2.logical_or_loop_step (n : Nat) (node rhs : ASTNode) (o : Token) (rest rest1 : Cursor)
    (r : Outcome (ASTNode × Cursor)) (h : op_level o = 1)
    (hs : parse_logical_and n rest = .ok (rhs, rest1)) (hl : parse_logical_or_loop n (binop o node rhs) rest1 = r) :
    parse_logical_or_loop (n + 1) node (o :: rest) = r := by
  rw [parse_logical_or_loop, if_pos ((Phase2.logical_or_test_iff o).mpr h), hs]
  show parse_logical_or_loop n (binop_node ("BinOp(||)") node rhs) rest1 = r
  rw [Phase2.logical_or_node o node rhs h]
  exact hl

/-- Function `parse_logical_or` is `parse_logical_and` followed by the loop. -/
theorem Phase2.logical_or_of (n : Nat) (toks rest : Cursor) (node : ASTNode)
    (r : Outcome (ASTNode × Cursor))
    (hs : parse_logical_and n toks = .ok (node, rest)) (hl : parse_logical_or_loop n node rest = r) :
    parse_logical_or (n + 1) toks = r := by
  rw [parse_logical_or, hs]
  exact hl

/-- Function `parse_logical_or` passes on the result of `parse_logical_and` when the next token is not an operator
of level 1. -/
theorem Phase2.logical_or_pass (n : Nat) (toks rest : Cursor) (node : ASTNode)
    (hs : parse_logical_and n toks = .ok (node, rest)) (h : next_level rest ≠ 1) :
    parse_logical_or (n + 1) toks = .ok (node, rest) := by
  cases n with
  | zero => rw [parse_logical_and] at hs; exact absurd hs (by simp)
  | succ m => exact Phase2.logical_or_of (m + 1) toks rest node _ hs (Phase2.logical_or_loop_stop m node rest h)

/-- Function `parse_logical_or` on tokens that start with an operand (read by `parse_factor` with
fuel `m`) followed by no operator of level 1 or higher: the operand's node. -/
theorem Phase2.logical_or_operand (m : Nat) (toks rest : Cursor) (node : ASTNode)
    (hs : parse_factor m toks = .ok (node, rest)) (hl : next_level rest < 1) :
    parse_logical_or (m + 5) toks = .ok (node, rest) :=
  Phase2.logical_or_pass (m + 4) toks rest node (Phase2.logical_and_operand m toks rest node hs (by omega)) (by omega)

/-- Function `parse_logical_or` on an operand, an operator of level 1, an operand, an operator of
level 1 and an operand: the left-nested tree. -/
theorem Phase2.logical_or_chain (c n : Nat) (T0 T1 T2 rest : Cursor) (x y z : ASTNode) (o1 o2 : Token)
    (hx : reads_operand c T0 x (o1 :: T1)) (hy : reads_operand c T1 y (o2 :: T2))
    (hz : reads_operand c T2 z rest)
    (h1 : op_level o1 = 1) (h2 : op_level o2 = 1) (hr : next_level rest = 0) :
    parse_logical_or (c + (n + 8)) T0 = .ok (binop o2 (binop o1 x y) z, rest) :=
  Phase2.logical_or_of (c + (n + 7)) _ _ _ _
    (Phase2.logical_and_operand (c + (n + 3)) _ _ _ (hx (n + 3)) (by simp only [next_level]; omega))
    (Phase2.logical_or_loop_step (c + (n + 6)) _ _ o1 _ _ _ h1
      (Phase2.logical_and_operand (c + (n + 2)) _ _ _ (hy (n + 2)) (by simp only [next_level]; omega))
      (Phase2.logical_or_loop_step (c + (n + 5)) _ _ o2 _ _ _ h2
        (Phase2.logical_and_operand (c + (n + 1)) _ _ _ (hz (n + 1)) (by omega))
        (Phase2.logical_or_loop_stop (c + (n + 4)) _ rest (by omega))))

/-! ### Precedence of the trees the expression parser builds -/

/-- The level of a token is at most 5. -/
theorem Phase2.op_level_le (t : Token) : op_level t ≤ 5 := by
  unfold op_level lexeme_level
  split_ifs <;> omega

/-- The tail of a token list without `(` has no `(`. -/
theorem Phase2.no_paren_tail (t : Token) (r : Cursor) (h : no_paren (t :: r)) : no_paren r :=
  fun x hx => h x (List.mem_cons_of_mem t hx)

/-- The level of the node built for an operator token is the token's level. -/
theorem Phase2.node_level_binop (o : Token) (l r : ASTNode) (h : op_level o ≠ 0) :
    node_level (binop o l r) = op_level o := by
  obtain ⟨ty, lex, line⟩ := o
  unfold op_level at h ⊢
  by_cases hty : ty = TOK_OPERATOR
  · subst hty
    simp only [if_true] at h ⊢
    have hc := Phase2.lexeme_level_cases lex h
    rcases hc with h1 | h1 | h1 | h1 | h1 | h1 | h1 | h1 | h1 | h1 | h1 | h1 | h1 <;>
      subst h1 <;> rfl
  · simp [hty] at h

/-- An operator node of level `k` whose operands satisfy the invariant at level
`k` satisfies it too. -/
theorem Phase2.binop_ok (o : Token) (l r : ASTNode) (k : Nat) (h : op_level o = k) (hk : 1 ≤ k)
    (hl : prec_ok l = true ∧ (node_level l = 0 ∨ k ≤ node_level l))
    (hr : prec_ok r = true ∧ (node_level r = 0 ∨ k ≤ node_level r)) :
    prec_ok (binop o l r) = true ∧
      (node_level (binop o l r) = 0 ∨ k ≤ node_level (binop o l r)) := by
  have hlev : node_level (binop o l r) = k := by
    rw [Phase2.node_level_binop o l r (by omega), h]
  have hlev0 : node_level (ASTNode.mk NODE_BINOP ("BinOp(" ++ o.lexeme ++ ")") []) = k := by
    have := Phase2.node_level_binop o l r (by omega)
    rw [h] at this
    exact this
  refine ⟨?_, Or.inr (by omega)⟩
  unfold binop
  rw [prec_ok, hlev0]
  simp only [operands_ok, hl.1, hr.1, Bool.and_true, Bool.and_eq_true, Bool.or_eq_true,
    decide_eq_true_eq]
  exact ⟨hl.2, hr.2⟩

/-- On tokens without `(`, `parse_factor` returns a leaf or a `BinOp(!)` over
such a node: it satisfies `prec_ok` and is no binary operator node. -/
theorem Phase2.factor_ok (f : Nat) :
    ∀ (toks : Cursor) (n : ASTNode) (rest : Cursor), no_paren toks →
      parse_factor f toks = .ok (n, rest) →
      (prec_ok n = true ∧ (node_level n = 0 ∨ 6 ≤ node_level n)) ∧ no_paren rest := by
  induction f with
  | zero =>
    intro toks n rest _ h
    rw [parse_factor] at h
    exact absurd h (by simp)
  | succ f ih =>
    intro toks n rest hnp h
    cases toks with
    | nil =>
      rw [parse_factor] at h
      exact absurd h (by simp)
    | cons t r =>
      have hp : t.is TOK_PUNCTUATION "(" = false := hnp t (List.mem_cons_self t r)
      have hnr : no_paren r := Phase2.no_paren_tail t r hnp
      rw [parse_factor.eq_def] at h
      simp only [Phase2.is_cast_start_head _ _ hp, hp] at h
      by_cases hnot : t.is TOK_OPERATOR "!" = true
      · simp only [hnot, if_true] at h
        cases hs : parse_factor f r with
        | ok p =>
          obtain ⟨factor, rest1⟩ := p
          rw [hs] at h
          simp only [Outcome.ok_bind] at h
          injection h with h
          injection h with h1 h2
          subst h1 h2
          have hr := ih r factor rest1 hnr hs
          refine ⟨⟨?_, Or.inl rfl⟩, hr.2⟩
          have h0 : node_level (ASTNode.mk NODE_BINOP (CStr.strncpy 63 "BinOp(!)") []) = 0 := by
            decide
          simp only [ast_new_node, node_list_append, List.nil_append]
          rw [prec_ok, h0]
          simp [operands_ok, hr.1.1]
        | fail l m =>
          rw [hs] at h
          exact absurd h (by simp)
        | fuel =>
          rw [hs] at h
          exact absurd h (by simp)
      · simp only [hnot] at h
        by_cases hnum : t.type = TOK_INT_LITERAL ∨ t.type = TOK_FLOAT_LITERAL
        · simp only [hnum, if_true] at h
          injection h with h
          injection h with h1 h2
          subst h1 h2
          refine ⟨⟨?_, Or.inl ?_⟩, hnr⟩
          · simp [ast_new_node, prec_ok, operands_ok]
          · simp [ast_new_node, node_level]
        · simp only [hnum, if_false] at h
          by_cases hid : t.type = TOK_IDENTIFIER
          · simp only [hid, if_true] at h
            have hvar : (Outcome.ok (ast_new_node NODE_VAR (some t.lexeme), r) :
                Outcome (ASTNode × Cursor)) = .ok (n, rest) := by
              cases r with
              | nil => exact h
              | cons next r2 =>
                have hn : next.is TOK_PUNCTUATION "(" = false :=
                  hnp next (List.mem_cons_of_mem t (List.mem_cons_self next r2))
                simp only [hn] at h
                exact h
            injection hvar with hvar
            injection hvar with h1 h2
            subst h1 h2
            refine ⟨⟨?_, Or.inl ?_⟩, hnr⟩
            · simp [ast_new_node, prec_ok, operands_ok]
            · simp [ast_new_node, node_level]
          · simp only [hid, if_false] at h
            exact absurd h (by simp)

/-- A tree layered at a level is layered at every lower level. -/
theorem Phase2.layered_weaken (k k2 : Nat) (n : ASTNode) (hk : k2 ≤ k) (h : Layered k n) :
    Layered k2 n := by
  cases h with
  | operand _ _ fuel toks rest hf => exact Layered.operand k2 n fuel toks rest hf
  | node _ j o l r hkj ho hl hr => exact Layered.node k2 j o l r (by omega) ho hl hr

/-- On tokens without `(`, the loop of `parse_term` keeps the invariant: the node it
returns satisfies `prec_ok` and is no binary operator of a level below 5. -/
theorem Phase2.term_loop_ok (f : Nat) :
    ∀ (node : ASTNode) (toks : Cursor) (n : ASTNode) (rest : Cursor), no_paren toks →
      (prec_ok node = true ∧ (node_level node = 0 ∨ 5 ≤ node_level node)) →
      parse_term_loop f node toks = .ok (n, rest) →
      (prec_ok n = true ∧ (node_level n = 0 ∨ 5 ≤ node_level n)) ∧ no_paren rest := by
  induction f with
  | zero =>
    intro node toks n rest _ _ h
    rw [parse_term_loop] at h
    exact absurd h (by simp)
  | succ f ih =>
    intro node toks n rest hnp hg h
    cases toks with
    | nil =>
      rw [parse_term_loop] at h
      injection h with h
      injection h with h1 h2
      subst h1 h2
      exact ⟨hg, hnp⟩
    | cons t r =>
      rw [parse_term_loop] at h
      by_cases ht : (is_mul_op t) = true
      · rw [if_pos ht] at h
        have hlev := (Phase2.term_test_iff t).mp ht
        cases hs : parse_factor f r with
        | ok p =>
          obtain ⟨rhs, rest1⟩ := p
          rw [hs] at h
          have h2 : parse_term_loop f (binop_node (binop_text t.lexeme) node rhs) rest1 = .ok (n, rest) := h
          rw [Phase2.term_node t node rhs hlev] at h2
          have hr := Phase2.factor_ok f r rhs rest1 (Phase2.no_paren_tail t r hnp) hs
          exact ih _ _ _ _ hr.2
            (Phase2.binop_ok t node rhs 5 hlev (by omega) hg
              ⟨hr.1.1, by have := hr.1.2; omega⟩) h2
        | fail l m =>
          rw [hs] at h
          exact absurd h (by simp)
        | fuel =>
          rw [hs] at h
          exact absurd h (by simp)
      · rw [if_neg ht] at h
        injection h with h
        injection h with h1 h2
        subst h1 h2
        exact ⟨hg, hnp⟩

/-- On tokens without `(`, the node `parse_term` returns satisfies `prec_ok` and is no
binary operator of a level below 5; the tokens left have no `(`. -/
theorem Phase2.term_ok (f : Nat) (toks : Cursor) (n : ASTNode) (rest : Cursor)
    (hnp : no_paren toks) (h : parse_term f toks = .ok (n, rest)) :
    (prec_ok n = true ∧ (node_level n = 0 ∨ 5 ≤ node_level n)) ∧ no_paren rest := by
  cases f with
  | zero =>
    rw [parse_term] at h
    exact absurd h (by simp)
  | succ f =>
    rw [parse_term] at h
    cases hs : parse_factor f toks with
    | ok p =>
      obtain ⟨node, rest1⟩ := p
      rw [hs] at h
      have hr := Phase2.factor_ok f toks node rest1 hnp hs
      exact Phase2.term_loop_ok f node rest1 n rest hr.2
        ⟨hr.1.1, by have := hr.1.2; omega⟩ h
    | fail l m =>
      rw [hs] at h
      exact absurd h (by simp)
    | fuel =>
      rw [hs] at h
      exact absurd h (by simp)

/-- On tokens without `(`, the loop of `parse_add_sub` keeps the invariant: the node it
returns satisfies `prec_ok` and is no binary operator of a level below 4. -/
theorem Phase2.add_sub_loop_ok (f : Nat) :
    ∀ (node : ASTNode) (toks : Cursor) (n : ASTNode) (rest : Cursor), no_paren toks →
      (prec_ok node = true ∧ (node_level node = 0 ∨ 4 ≤ node_level node)) →
      parse_add_sub_loop f node toks = .ok (n, rest) →
      (prec_ok n = true ∧ (node_level n = 0 ∨ 4 ≤ node_level n)) ∧ no_paren rest := by
  induction f with
  | zero =>
    intro node toks n rest _ _ h
    rw [parse_add_sub_loop] at h
    exact absurd h (by simp)
  | succ f ih =>
    intro node toks n rest hnp hg h
    cases toks with
    | nil =>
      rw [parse_add_sub_loop] at h
      injection h with h
      injection h with h1 h2
      subst h1 h2
      exact ⟨hg, hnp⟩
    | cons t r =>
      rw [parse_add_sub_loop] at h
      by_cases ht : (is_add_op t) = true
      · rw [if_pos ht] at h
        have hlev := (Phase2.add_sub_test_iff t).mp ht
        cases hs : parse_term f r with
        | ok p =>
          obtain ⟨rhs, rest1⟩ := p
          rw [hs] at h
          have h2 : parse_add_sub_loop f (binop_node (binop_text t.lexeme) node rhs) rest1 = .ok (n, rest) := h
          rw [Phase2.add_sub_node t node rhs hlev] at h2
          have hr := Phase2.term_ok f r rhs rest1 (Phase2.no_paren_tail t r hnp) hs
          exact ih _ _ _ _ hr.2
            (Phase2.binop_ok t node rhs 4 hlev (by omega) hg
              ⟨hr.1.1, by have := hr.1.2; omega⟩) h2
        | fail l m =>
          rw [hs] at h
          exact absurd h (by simp)
        | fuel =>
          rw [hs] at h
          exact absurd h (by simp)
      · rw [if_neg ht] at h
        injection h with h
        injection h with h1 h2
        subst h1 h2
        exact ⟨hg, hnp⟩

/-- On tokens without `(`, the node `parse_add_sub` returns satisfies `prec_ok` and is no
binary operator of a level below 4; the tokens left have no `(`. -/
theorem Phase2.add_sub_ok (f : Nat) (toks : Cursor) (n : ASTNode) (rest : Cursor)
    (hnp : no_paren toks) (h : parse_add_sub f toks = .ok (n, rest)) :
    (prec_ok n = true ∧ (node_level n = 0 ∨ 4 ≤ node_level n)) ∧ no_paren rest := by
  cases f with
  | zero =>
    rw [parse_add_sub] at h
    exact absurd h (by simp)
  | succ f =>
    rw [parse_add_sub] at h
    cases hs : parse_term f toks with
    | ok p =>
      obtain ⟨node, rest1⟩ := p
      rw [hs] at h
      have hr := Phase2.term_ok f toks node rest1 hnp hs
      exact Phase2.add_sub_loop_ok f node rest1 n rest hr.2
        ⟨hr.1.1, by have := hr.1.2; omega⟩ h
    | fail l m =>
      rw [hs] at h
      exact absurd h (by simp)
    | fuel =>
      rw [hs] at h
      exact absurd h (by simp)

/-- On tokens without `(`, the loop of `parse_comparison` keeps the invariant: the node it
returns satisfies `prec_ok` and is no binary operator of a level below 3. -/
theorem Phase2.comparison_loop_ok (f : Nat) :
    ∀ (node : ASTNode) (toks : Cursor) (n : ASTNode) (rest : Cursor), no_paren toks →
      (prec_ok node = true ∧ (node_level node = 0 ∨ 3 ≤ node_level node)) →
      parse_comparison_loop f node toks = .ok (n, rest) →
      (prec_ok n = true ∧ (node_level n = 0 ∨ 3 ≤ node_level n)) ∧ no_paren rest := by
  induction f with
  | zero =>
    intro node toks n rest _ _ h
    rw [parse_comparison_loop] at h
    exact absurd h (by simp)
  | succ f ih =>
    intro node toks n rest hnp hg h
    cases toks with
    | nil =>
      rw [parse_comparison_loop] at h
      injection h with h
      injection h with h1 h2
      subst h1 h2
      exact ⟨hg, hnp⟩
    | cons t r =>
      rw [parse_comparison_loop] at h
      by_cases ht : (is_cmp_op t) = true
      · rw [if_pos ht] at h
        have hlev := (Phase2.comparison_test_iff t).mp ht
        cases hs : parse_add_sub f r with
        | ok p =>
          obtain ⟨rhs, rest1⟩ := p
          rw [hs] at h
          have h2 : parse_comparison_loop f (binop_node (binop_text t.lexeme) node rhs) rest1 = .ok (n, rest) := h
          rw [Phase2.comparison_node t node rhs hlev] at h2
          have hr := Phase2.add_sub_ok f r rhs rest1 (Phase2.no_paren_tail t r hnp) hs
          exact ih _ _ _ _ hr.2
            (Phase2.binop_ok t node rhs 3 hlev (by omega) hg
              ⟨hr.1.1, by have := hr.1.2; omega⟩) h2
        | fail l m =>
          rw [hs] at h
          exact absurd h (by simp)
        | fuel =>
          rw [hs] at h
          exact absurd h (by simp)
      · rw [if_neg ht] at h
        injection h with h
        injection h with h1 h2
        subst h1 h2
        exact ⟨hg, hnp⟩

/-- On tokens without `(`, the node `parse_comparison` returns satisfies `prec_ok` and is no
binary operator of a level below 3; the tokens left have no `(`. -/
theorem Phase2.comparison_ok (f : Nat) (toks : Cursor) (n : ASTNode) (rest : Cursor)
    (hnp : no_paren toks) (h : parse_comparison f toks = .ok (n, rest)) :
    (prec_ok n = true ∧ (node_level n = 0 ∨ 3 ≤ node_level n)) ∧ no_paren rest := by
  cases f with
  | zero =>
    rw [parse_comparison] at h
    exact absurd h (by simp)
  | succ f =>
    rw [parse_comparison] at h
    cases hs : parse_add_sub f toks with
    | ok p =>
      obtain ⟨node, rest1⟩ := p
      rw [hs] at h
      have hr := Phase2.add_sub_ok f toks node rest1 hnp hs
      exact Phase2.comparison_loop_ok f node rest1 n rest hr.2
        ⟨hr.1.1, by have := hr.1.2; omega⟩ h
    | fail l m =>
      rw [hs] at h
      exact absurd h (by simp)
    | fuel =>
      rw [hs] at h
      exact absurd h (by simp)

/-- On tokens without `(`, the loop of `parse_logical_and` keeps the invariant: the node it
returns satisfies `prec_ok` and is no binary operator of a level below 2. -/
theorem Phase2.logical_and_loop_ok (f : Nat) :
    ∀ (node : ASTNode) (toks : Cursor) (n : ASTNode) (rest : Cursor), no_paren toks →
      (prec_ok node = true ∧ (node_level node = 0 ∨ 2 ≤ node_level node)) →
      parse_logical_and_loop f node toks = .ok (n, rest) →
      (prec_ok n = true ∧ (node_level n = 0 ∨ 2 ≤ node_level n)) ∧ no_paren rest := by
  induction f with
  | zero =>
    intro node toks n rest _ _ h
    rw [parse_logical_and_loop] at h
    exact absurd h (by simp)
  | succ f ih =>
    intro node toks n rest hnp hg h
    cases toks with
    | nil =>
      rw [parse_logical_and_loop] at h
      injection h with h
      injection h with h1 h2
      subst h1 h2
      exact ⟨hg, hnp⟩
    | cons t r =>
      rw [parse_logical_and_loop] at h
      by_cases ht : (t.is TOK_OPERATOR "&&") = true
      · rw [if_pos ht] at h
        have hlev := (Phase2.logical_and_test_iff t).mp ht
        cases hs : parse_comparison f r with
        | ok p =>
          obtain ⟨rhs, rest1⟩ := p
          rw [hs] at h
          have h2 : parse_logical_and_loop f (binop_node ("BinOp(&&)") node rhs) rest1 = .ok (n, rest) := h
          rw [Phase2.logical_and_node t node rhs hlev] at h2
          have hr := Phase2.comparison_ok f r rhs rest1 (Phase2.no_paren_tail t r hnp) hs
          exact ih _ _ _ _ hr.2
            (Phase2.binop_ok t node rhs 2 hlev (by omega) hg
              ⟨hr.1.1, by have := hr.1.2; omega⟩) h2
        | fail l m =>
          rw [hs] at h
          exact absurd h (by simp)
        | fuel =>
          rw [hs] at h
          exact absurd h (by simp)
      · rw [if_neg ht] at h
        injection h with h
        injection h with h1 h2
        subst h1 h2
        exact ⟨hg, hnp⟩

/-- On tokens without `(`, the node `parse_logical_and` returns satisfies `prec_ok` and is no
binary operator of a level below 2; the tokens left have no `(`. -/
theorem Phase2.logical_and_ok (f : Nat) (toks : Cursor) (n : ASTNode) (rest : Cursor)
    (hnp : no_paren toks) (h : parse_logical_and f toks = .ok (n, rest)) :
    (prec_ok n = true ∧ (node_level n = 0 ∨ 2 ≤ node_level n)) ∧ no_paren rest := by
  cases f with
  | zero =>
    rw [parse_logical_and] at h
    exact absurd h (by simp)
  | succ f =>
    rw [parse_logical_and] at h
    cases hs : parse_comparison f toks with
    | ok p =>
      obtain ⟨node, rest1⟩ := p
      rw [hs] at h
      have hr := Phase2.comparison_ok f toks node rest1 hnp hs
      exact Phase2.logical_and_loop_ok f node rest1 n rest hr.2
        ⟨hr.1.1, by have := hr.1.2; omega⟩ h
    | fail l m =>
      rw [hs] at h
      exact absurd h (by simp)
    | fuel =>
      rw [hs] at h
      exact absurd h (by simp)

/-- On tokens without `(`, the loop of `parse_logical_or` keeps the invariant: the node it
returns satisfies `prec_ok` and is no binary operator of a level below 1. -/
theorem Phase2.logical_or_loop_ok (f : Nat) :
    ∀ (node : ASTNode) (toks : Cursor) (n : ASTNode) (rest : Cursor), no_paren toks →
      (prec_ok node = true ∧ (node_level node = 0 ∨ 1 ≤ node_level node)) →
      parse_logical_or_loop f node toks = .ok (n, rest) →
      (prec_ok n = true ∧ (node_level n = 0 ∨ 1 ≤ node_level n)) ∧ no_paren rest := by
  induction f with
  | zero =>
    intro node toks n rest _ _ h
    rw [parse_logical_or_loop] at h
    exact absurd h (by simp)
  | succ f ih =>
    intro node toks n rest hnp hg h
    cases toks with
    | nil =>
      rw [parse_logical_or_loop] at h
      injection h with h
      injection h with h1 h2
      subst h1 h2
      exact ⟨hg, hnp⟩
    | cons t r =>
      rw [parse_logical_or_loop] at h
      by_cases ht : (t.is TOK_OPERATOR "||") = true
      · rw [if_pos ht] at h
        have hlev := (Phase2.logical_or_test_iff t).mp ht
        cases hs : parse_logical_and f r with
        | ok p =>
          obtain ⟨rhs, rest1⟩ := p
          rw [hs] at h
          have h2 : parse_logical_or_loop f (binop_node ("BinOp(||)") node rhs) rest1 = .ok (n, rest) := h
          rw [Phase2.logical_or_node t node rhs hlev] at h2
          have hr := Phase2.logical_and_ok f r rhs rest1 (Phase2.no_paren_tail t r hnp) hs
          exact ih _ _ _ _ hr.2
            (Phase2.binop_ok t node rhs 1 hlev (by omega) hg
              ⟨hr.1.1, by have := hr.1.2; omega⟩) h2
        | fail l m =>
          rw [hs] at h
          exact absurd h (by simp)
        | fuel =>
          rw [hs] at h
          exact absurd h (by simp)
      · rw [if_neg ht] at h
        injection h with h
        injection h with h1 h2
        subst h1 h2
        exact ⟨hg, hnp⟩

/-- On tokens without `(`, the node `parse_logical_or` returns satisfies `prec_ok` and is no
binary operator of a level below 1; the tokens left have no `(`. -/
theorem Phase2.logical_or_ok (f : Nat) (toks : Cursor) (n : ASTNode) (rest : Cursor)
    (hnp : no_paren toks) (h : parse_logical_or f toks = .ok (n, rest)) :
    (prec_ok n = true ∧ (node_level n = 0 ∨ 1 ≤ node_level n)) ∧ no_paren rest := by
  cases f with
  | zero =>
    rw [parse_logical_or] at h
    exact absurd h (by simp)
  | succ f =>
    rw [parse_logical_or] at h
    cases hs : parse_logical_and f toks with
    | ok p =>
      obtain ⟨node, rest1⟩ := p
      rw [hs] at h
      have hr := Phase2.logical_and_ok f toks node rest1 hnp hs
      exact Phase2.logical_or_loop_ok f node rest1 n rest hr.2
        ⟨hr.1.1, by have := hr.1.2; omega⟩ h
    | fail l m =>
      rw [hs] at h
      exact absurd h (by simp)
    | fuel =>
      rw [hs] at h
      exact absurd h (by simp)

/-- The loop of `parse_term` keeps its node layered at level 5. -/
theorem Phase2.term_loop_layered (f : Nat) :
    ∀ (node : ASTNode) (toks : Cursor) (n : ASTNode) (rest : Cursor),
      Layered 5 node → parse_term_loop f node toks = .ok (n, rest) → Layered 5 n := by
  induction f with
  | zero =>
    intro node toks n rest _ h
    rw [parse_term_loop] at h
    exact absurd h (by simp)
  | succ f ih =>
    intro node toks n rest hg h
    cases toks with
    | nil =>
      rw [parse_term_loop] at h
      injection h with h
      injection h with h1 h2
      subst h1 h2
      exact hg
    | cons t r =>
      rw [parse_term_loop] at h
      by_cases ht : (is_mul_op t) = true
      · rw [if_pos ht] at h
        have hlev := (Phase2.term_test_iff t).mp ht
        cases hs : parse_factor f r with
        | ok p =>
          obtain ⟨rhs, rest1⟩ := p
          rw [hs] at h
          have h2 : parse_term_loop f (binop_node (binop_text t.lexeme) node rhs) rest1 = .ok (n, rest) := h
          rw [Phase2.term_node t node rhs hlev] at h2
          exact ih _ _ _ _
            (Layered.node 5 5 t node rhs (le_refl _) hlev hg (Layered.operand 6 rhs f r rest1 hs)) h2
        | fail l m =>
          rw [hs] at h
          exact absurd h (by simp)
        | fuel =>
          rw [hs] at h
          exact absurd h (by simp)
      · rw [if_neg ht] at h
        injection h with h
        injection h with h1 h2
        subst h1 h2
        exact hg

/-- The node `parse_term` returns is layered at level 5. -/
theorem Phase2.term_layered (f : Nat) (toks : Cursor) (n : ASTNode) (rest : Cursor)
    (h : parse_term f toks = .ok (n, rest)) : Layered 5 n := by
  cases f with
  | zero =>
    rw [parse_term] at h
    exact absurd h (by simp)
  | succ f =>
    rw [parse_term] at h
    cases hs : parse_factor f toks with
    | ok p =>
      obtain ⟨node, rest1⟩ := p
      rw [hs] at h
      exact Phase2.term_loop_layered f node rest1 n rest (Layered.operand 5 node f toks rest1 hs) h
    | fail l m =>
      rw [hs] at h
      exact absurd h (by simp)
    | fuel =>
      rw [hs] at h
      exact absurd h (by simp)

/-- The loop of `parse_add_sub` keeps its node layered at level 4. -/
theorem Phase2.add_sub_loop_layered (f : Nat) :
    ∀ (node : ASTNode) (toks : Cursor) (n : ASTNode) (rest : Cursor),
      Layered 4 node → parse_add_sub_loop f node toks = .ok (n, rest) → Layered 4 n := by
  induction f with
  | zero =>
    intro node toks n rest _ h
    rw [parse_add_sub_loop] at h
    exact absurd h (by simp)
  | succ f ih =>
    intro node toks n rest hg h
    cases toks with
    | nil =>
      rw [parse_add_sub_loop] at h
      injection h with h
      injection h with h1 h2
      subst h1 h2
      exact hg
    | cons t r =>
      rw [parse_add_sub_loop] at h
      by_cases ht : (is_add_op t) = true
      · rw [if_pos ht] at h
        have hlev := (Phase2.add_sub_test_iff t).mp ht
        cases hs : parse_term f r with
        | ok p =>
          obtain ⟨rhs, rest1⟩ := p
          rw [hs] at h
          have h2 : parse_add_sub_loop f (binop_node (binop_text t.lexeme) node rhs) rest1 = .ok (n, rest) := h
          rw [Phase2.add_sub_node t node rhs hlev] at h2
          exact ih _ _ _ _
            (Layered.node 4 4 t node rhs (le_refl _) hlev hg (Phase2.term_layered f r rhs rest1 hs)) h2
        | fail l m =>
          rw [hs] at h
          exact absurd h (by simp)
        | fuel =>
          rw [hs] at h
          exact absurd h (by simp)
      · rw [if_neg ht] at h
        injection h with h
        injection h with h1 h2
        subst h1 h2
        exact hg

/-- The node `parse_add_sub` returns is layered at level 4. -/
theorem Phase2.add_sub_layered (f : Nat) (toks : Cursor) (n : ASTNode) (rest : Cursor)
    (h : parse_add_sub f toks = .ok (n, rest)) : Layered 4 n := by
  cases f with
  | zero =>
    rw [parse_add_sub] at h
    exact absurd h (by simp)
  | succ f =>
    rw [parse_add_sub] at h
    cases hs : parse_term f toks with
    | ok p =>
      obtain ⟨node, rest1⟩ := p
      rw [hs] at h
      exact Phase2.add_sub_loop_layered f node rest1 n rest (Phase2.layered_weaken 5 4 node (by omega) (Phase2.term_layered f toks node rest1 hs)) h
    | fail l m =>
      rw [hs] at h
      exact absurd h (by simp)
    | fuel =>
      rw [hs] at h
      exact absurd h (by simp)

/-- The loop of `parse_comparison` keeps its node layered at level 3. -/
theorem Phase2.comparison_loop_layered (f : Nat) :
    ∀ (node : ASTNode) (toks : Cursor) (n : ASTNode) (rest : Cursor),
      Layered 3 node → parse_comparison_loop f node toks = .ok (n, rest) → Layered 3 n := by
  induction f with
  | zero =>
    intro node toks n rest _ h
    rw [parse_comparison_loop] at h
    exact absurd h (by simp)
  | succ f ih =>
    intro node toks n rest hg h
    cases toks with
    | nil =>
      rw [parse_comparison_loop] at h
      injection h with h
      injection h with h1 h2
      subst h1 h2
      exact hg
    | cons t r =>
      rw [parse_comparison_loop] at h
      by_cases ht : (is_cmp_op t) = true
      · rw [if_pos ht] at h
        have hlev := (Phase2.comparison_test_iff t).mp ht
        cases hs : parse_add_sub f r with
        | ok p =>
          obtain ⟨rhs, rest1⟩ := p
          rw [hs] at h
          have h2 : parse_comparison_loop f (binop_node (binop_text t.lexeme) node rhs) rest1 = .ok (n, rest) := h
          rw [Phase2.comparison_node t node rhs hlev] at h2
          exact ih _ _ _ _
            (Layered.node 3 3 t node rhs (le_refl _) hlev hg (Phase2.add_sub_layered f r rhs rest1 hs)) h2
        | fail l m =>
          rw [hs] at h
          exact absurd h (by simp)
        | fuel =>
          rw [hs] at h
          exact absurd h (by simp)
      · rw [if_neg ht] at h
        injection h with h
        injection h with h1 h2
        subst h1 h2
        exact hg

/-- The node `parse_comparison` returns is layered at level 3. -/
theorem Phase2.comparison_layered (f : Nat) (toks : Cursor) (n : ASTNode) (rest : Cursor)
    (h : parse_comparison f toks = .ok (n, rest)) : Layered 3 n := by
  cases f with
  | zero =>
    rw [parse_comparison] at h
    exact absurd h (by simp)
  | succ f =>
    rw [parse_comparison] at h
    cases hs : parse_add_sub f toks with
    | ok p =>
      obtain ⟨node, rest1⟩ := p
      rw [hs] at h
      exact Phase2.comparison_loop_layered f node rest1 n rest (Phase2.layered_weaken 4 3 node (by omega) (Phase2.add_sub_layered f toks node rest1 hs)) h
    | fail l m =>
      rw [hs] at h
      exact absurd h (by simp)
    | fuel =>
      rw [hs] at h
      exact absurd h (by simp)

/-- The loop of `parse_logical_and` keeps its node layered at level 2. -/
theorem Phase2.logical_and_loop_layered (f : Nat) :
    ∀ (node : ASTNode) (toks : Cursor) (n : ASTNode) (rest : Cursor),
      Layered 2 node → parse_logical_and_loop f node toks = .ok (n, rest) → Layered 2 n := by
  induction f with
  | zero =>
    intro node toks n rest _ h
    rw [parse_logical_and_loop] at h
    exact absurd h (by simp)
  | succ f ih =>
    intro node toks n rest hg h
    cases toks with
    | nil =>
      rw [parse_logical_and_loop] at h
      injection h with h
      injection h with h1 h2
      subst h1 h2
      exact hg
    | cons t r =>
      rw [parse_logical_and_loop] at h
      by_cases ht : (t.is TOK_OPERATOR "&&") = true
      · rw [if_pos ht] at h
        have hlev := (Phase2.logical_and_test_iff t).mp ht
        cases hs : parse_comparison f r with
        | ok p =>
          obtain ⟨rhs, rest1⟩ := p
          rw [hs] at h
          have h2 : parse_logical_and_loop f (binop_node ("BinOp(&&)") node rhs) rest1 = .ok (n, rest) := h
          rw [Phase2.logical_and_node t node rhs hlev] at h2
          exact ih _ _ _ _
            (Layered.node 2 2 t node rhs (le_refl _) hlev hg (Phase2.comparison_layered f r rhs rest1 hs)) h2
        | fail l m =>
          rw [hs] at h
          exact absurd h (by simp)
        | fuel =>
          rw [hs] at h
          exact absurd h (by simp)
      · rw [if_neg ht] at h
        injection h with h
        injection h with h1 h2
        subst h1 h2
        exact hg

/-- The node `parse_logical_and` returns is layered at level 2. -/
theorem Phase2.logical_and_layered (f : Nat) (toks : Cursor) (n : ASTNode) (rest : Cursor)
    (h : parse_logical_and f toks = .ok (n, rest)) : Layered 2 n := by
  cases f with
  | zero =>
    rw [parse_logical_and] at h
    exact absurd h (by simp)
  | succ f =>
    rw [parse_logical_and] at h
    cases hs : parse_comparison f toks with
    | ok p =>
      obtain ⟨node, rest1⟩ := p
      rw [hs] at h
      exact Phase2.logical_and_loop_layered f node rest1 n rest (Phase2.layered_weaken 3 2 node (by omega) (Phase2.comparison_layered f toks node rest1 hs)) h
    | fail l m =>
      rw [hs] at h
      exact absurd h (by simp)
    | fuel =>
      rw [hs] at h
      exact absurd h (by simp)

/-- The loop of `parse_logical_or` keeps its node layered at level 1. -/
theorem Phase2.logical_or_loop_layered (f : Nat) :
    ∀ (node : ASTNode) (toks : Cursor) (n : ASTNode) (rest : Cursor),
      Layered 1 node → parse_logical_or_loop f node toks = .ok (n, rest) → Layered 1 n := by
  induction f with
  | zero =>
    intro node toks n rest _ h
    rw [parse_logical_or_loop] at h
    exact absurd h (by simp)
  | succ f ih =>
    intro node toks n rest hg h
    cases toks with
    | nil =>
      rw [parse_logical_or_loop] at h
      injection h with h
      injection h with h1 h2
      subst h1 h2
      exact hg
    | cons t r =>
      rw [parse_logical_or_loop] at h
      by_cases ht : (t.is TOK_OPERATOR "||") = true
      · rw [if_pos ht] at h
        have hlev := (Phase2.logical_or_test_iff t).mp ht
        cases hs : parse_logical_and f r with
        | ok p =>
          obtain ⟨rhs, rest1⟩ := p
          rw [hs] at h
          have h2 : parse_logical_or_loop f (binop_node ("BinOp(||)") node rhs) rest1 = .ok (n, rest) := h
          rw [Phase2.logical_or_node t node rhs hlev] at h2
          exact ih _ _ _ _
            (Layered.node 1 1 t node rhs (le_refl _) hlev hg (Phase2.logical_and_layered f r rhs rest1 hs)) h2
        | fail l m =>
          rw [hs] at h
          exact absurd h (by simp)
        | fuel =>
          rw [hs] at h
          exact absurd h (by simp)
      · rw [if_neg ht] at h
        injection h with h
        injection h with h1 h2
        subst h1 h2
        exact hg

/-- The node `parse_logical_or` returns is layered at level 1. -/
theorem Phase2.logical_or_layered (f : Nat) (toks : Cursor) (n : ASTNode) (rest : Cursor)
    (h : parse_logical_or f toks = .ok (n, rest)) : Layered 1 n := by
  cases f with
  | zero =>
    rw [parse_logical_or] at h
    exact absurd h (by simp)
  | succ f =>
    rw [parse_logical_or] at h
    cases hs : parse_logical_and f toks with
    | ok p =>
      obtain ⟨node, rest1⟩ := p
      rw [hs] at h
      exact Phase2.logical_or_loop_layered f node rest1 n rest (Phase2.layered_weaken 2 1 node (by omega) (Phase2.logical_and_layered f toks node rest1 hs)) h
    | fail l m =>
      rw [hs] at h
      exact absurd h (by simp)
    | fuel =>
      rw [hs] at h
      exact absurd h (by simp)

/-- The leaf of a primary operand is what `parse_factor` builds: `Var(<name>)`
for an identifier, `Number(<text>)` for a literal, without children. -/
theorem Phase2.leaf_is_new_node (t : Token) :
    leaf t = (if t.type = TOK_IDENTIFIER then ast_new_node NODE_VAR (some t.lexeme)
              else ast_new_node NODE_NUMBER (some t.lexeme)) := by
  unfold leaf ast_new_node
  split_ifs <;> rfl

/-- A literal or an identifier that is not followed by `(` is an operand, read
with any fuel of at least 1 as its leaf. -/
theorem Phase2.reads_primary (t : Token) (rest : Cursor)
    (ht : is_primary t = true) (hr : next_is_lparen rest = false) :
    reads_operand 1 (t :: rest) (leaf t) rest := by
  intro fuel
  rw [Nat.add_comm]
  exact Phase2.parse_factor_primary fuel t rest ht hr

/-- A token with the lexeme of an operator and the type OPERATOR has the level
of that lexeme. -/
theorem Phase2.op_level_of_is (t : Token) (lex : String) (h : t.is TOK_OPERATOR lex = true) :
    op_level t = lexeme_level lex := by
  obtain ⟨ty, l, line⟩ := t
  simp only [Token.is, Bool.and_eq_true, decide_eq_true_eq] at h
  obtain ⟨rfl, rfl⟩ := h
  rfl

/-- C9: the expression parser respects the precedence order `||` < `&&` <
comparisons < additive < multiplicative.  An operand is any token sequence that
`parse_factor` reads (a literal, an identifier, a call, a parenthesised
expression, a cast or a negation), with fuel `c` or more.
(1) For all operands a, b, c, `a + b * c` parses to
`BinOp(+)[a, BinOp(*)[b, c]]`.
(2) For all operands a, b, c, d, `a == b && c < d` parses to
`BinOp(&&)[BinOp(==)[a, b], BinOp(<)[c, d]]`.
Both hold with any fuel of at least `c + 8` when no binary operator follows,
and the tokens after the expression are left.
(3) Whenever `parse_expression` returns a tree for tokens without parentheses,
no binary operator node of that tree has a binary operator node of a lower
level as a direct operand.
(4) For any tokens, the tree `parse_expression` returns is layered: going down
from the root, an operator node of level j has a left operand that is an
operator node of level at least j, and a right operand that is an operator node
of level above j, unless the operand is one `parse_factor` read, the only place
where parentheses are opened. -/
theorem C9_precedence_respected :
    (∀ (c fuel : Nat) (T0 T1 T2 rest : Cursor) (a b c' : ASTNode) (plus times : Token),
      reads_operand c T0 a (plus :: T1) → reads_operand c T1 b (times :: T2) →
      reads_operand c T2 c' rest →
      plus.is TOK_OPERATOR "+" = true → times.is TOK_OPERATOR "*" = true →
      next_level rest = 0 →
      parse_expression (c + (fuel + 8)) T0 = .ok (binop plus a (binop times b c'), rest)) ∧
    (∀ (c fuel : Nat) (T0 T1 T2 T3 rest : Cursor) (a b c' d : ASTNode) (eq and lt : Token),
      reads_operand c T0 a (eq :: T1) → reads_operand c T1 b (and :: T2) →
      reads_operand c T2 c' (lt :: T3) → reads_operand c T3 d rest →
      eq.is TOK_OPERATOR "==" = true → and.is TOK_OPERATOR "&&" = true →
      lt.is TOK_OPERATOR "<" = true → next_level rest = 0 →
      parse_expression (c + (fuel + 8)) T0 =
        .ok (binop and (binop eq a b) (binop lt c' d), rest)) ∧
    (∀ (fuel : Nat) (toks : Cursor) (node : ASTNode) (rest : Cursor),
      no_paren toks → parse_expression fuel toks = .ok (node, rest) →
      prec_ok node = true) ∧
    (∀ (fuel : Nat) (toks : Cursor) (node : ASTNode) (rest : Cursor),
      parse_expression fuel toks = .ok (node, rest) → Layered 1 node) := by
  refine ⟨?_, ?_, ?_, ?_⟩
  · intro c fuel T0 T1 T2 rest a b c' plus times ha hb hc hplus htimes h0
    have hp : op_level plus = 4 := Phase2.op_level_of_is plus "+" hplus
    have ht : op_level times = 5 := Phase2.op_level_of_is times "*" htimes
    have hterm : parse_term (c + (fuel + 3)) T1 = .ok (binop times b c', rest) :=
      Phase2.term_of (c + (fuel + 2)) _ _ _ _ (hb (fuel + 2))
        (Phase2.term_loop_step (c + (fuel + 1)) _ _ times _ _ _ ht (hc (fuel + 1))
          (Phase2.term_loop_stop (c + fuel) _ rest (by omega)))
    have hadd : parse_add_sub (c + (fuel + 5)) T0 =
        .ok (binop plus a (binop times b c'), rest) :=
      Phase2.add_sub_of (c + (fuel + 4)) _ _ _ _
        (Phase2.term_operand (c + (fuel + 3)) _ _ _ (ha (fuel + 3))
          (by simp only [next_level]; omega))
        (Phase2.add_sub_loop_step (c + (fuel + 3)) _ _ plus _ _ _ hp hterm
          (Phase2.add_sub_loop_stop (c + (fuel + 2)) _ rest (by omega)))
    exact Phase2.logical_or_pass (c + (fuel + 7)) _ _ _
      (Phase2.logical_and_pass (c + (fuel + 6)) _ _ _
        (Phase2.comparison_pass (c + (fuel + 5)) _ _ _ hadd (by omega)) (by omega)) (by omega)
  · intro c fuel T0 T1 T2 T3 rest a b c' d eq and lt ha hb hc hd heq hand hlt h0
    have he : op_level eq = 3 := Phase2.op_level_of_is eq "==" heq
    have hl : op_level lt = 3 := Phase2.op_level_of_is lt "<" hlt
    have ha2 : op_level and = 2 := Phase2.op_level_of_is and "&&" hand
    have hleft : parse_comparison (c + (fuel + 6)) T0 = .ok (binop eq a b, and :: T2) :=
      Phase2.comparison_of (c + (fuel + 5)) _ _ _ _
        (Phase2.add_sub_operand (c + (fuel + 3)) _ _ _ (ha (fuel + 3))
          (by simp only [next_level]; omega))
        (Phase2.comparison_loop_step (c + (fuel + 4)) _ _ eq _ _ _ he
          (Phase2.add_sub_operand (c + (fuel + 2)) _ _ _ (hb (fuel + 2))
            (by simp only [next_level]; omega))
          (Phase2.comparison_loop_stop (c + (fuel + 3)) _ _ (by simp only [next_level]; omega)))
    have hright : parse_comparison (c + (fuel + 5)) T2 = .ok (binop lt c' d, rest) :=
      Phase2.comparison_of (c + (fuel + 4)) _ _ _ _
        (Phase2.add_sub_operand (c + (fuel + 2)) _ _ _ (hc (fuel + 2))
          (by simp only [next_level]; omega))
        (Phase2.comparison_loop_step (c + (fuel + 3)) _ _ lt _ _ _ hl
          (Phase2.add_sub_operand (c + (fuel + 1)) _ _ _ (hd (fuel + 1)) (by omega))
          (Phase2.comparison_loop_stop (c + (fuel + 2)) _ rest (by omega)))
    have hand2 : parse_logical_and (c + (fuel + 7)) T0 =
        .ok (binop and (binop eq a b) (binop lt c' d), rest) :=
      Phase2.logical_and_of (c + (fuel + 6)) _ _ _ _ hleft
        (Phase2.logical_and_loop_step (c + (fuel + 5)) _ _ and _ _ _ ha2 hright
          (Phase2.logical_and_loop_stop (c + (fuel + 4)) _ rest (by omega)))
    exact Phase2.logical_or_pass (c + (fuel + 7)) _ _ _ hand2 (by omega)
  · intro fuel toks node rest hnp h
    exact (Phase2.logical_or_ok fuel toks node rest hnp h).1.1
  · intro fuel toks node rest h
    exact Phase2.logical_or_layered fuel toks node rest h

/-- C9 at concrete inputs: `a + b * c ;` and `a == 1 && c < d )` with fuel 9,
and the tree of the paren-free `a - b * c + d ;`. -/
theorem C9_precedence_respected_witness :
    parse_expression 9 [ident "a", op "+", ident "b", op "*", ident "c", punct ";"] =
      .ok (.mk NODE_BINOP "BinOp(+)"
            [.mk NODE_VAR "a" [], .mk NODE_BINOP "BinOp(*)" [.mk NODE_VAR "b" [], .mk NODE_VAR "c" []]],
           [punct ";"]) ∧
    parse_expression 9
        [ident "a", op "==", int_lit "1", op "&&", ident "c", op "<", ident "d", punct ")"] =
      .ok (.mk NODE_BINOP "BinOp(&&)"
            [.mk NODE_BINOP "BinOp(==)" [.mk NODE_VAR "a" [], .mk NODE_NUMBER "1" []],
             .mk NODE_BINOP "BinOp(<)" [.mk NODE_VAR "c" [], .mk NODE_VAR "d" []]],
           [punct ")"]) ∧
    prec_ok (.mk NODE_BINOP "BinOp(+)"
      [.mk NODE_BINOP "BinOp(-)"
         [.mk NODE_VAR "a" [], .mk NODE_BINOP "BinOp(*)" [.mk NODE_VAR "b" [], .mk NODE_VAR "c" []]],
       .mk NODE_VAR "d" []]) = true :=
  ⟨C9_precedence_respected.1 1 0 _ _ _ [punct ";"] _ _ _ (op "+") (op "*")
      (Phase2.reads_primary (ident "a") _ rfl rfl) (Phase2.reads_primary (ident "b") _ rfl rfl)
      (Phase2.reads_primary (ident "c") _ rfl rfl) rfl rfl rfl,
   C9_precedence_respected.2.1 1 0 _ _ _ _ [punct ")"] _ _ _ _ (op "==") (op "&&") (op "<")
      (Phase2.reads_primary (ident "a") _ rfl rfl) (Phase2.reads_primary (int_lit "1") _ rfl rfl)
      (Phase2.reads_primary (ident "c") _ rfl rfl) (Phase2.reads_primary (ident "d") _ rfl rfl)
      rfl rfl rfl rfl,
   C9_precedence_respected.2.2.1 20
      [ident "a", op "-", ident "b", op "*", ident "c", op "+", ident "d", punct ";"]
      _ [punct ";"] (by unfold no_paren; decide) (by rfl)⟩

/-- C10: every binary operator level is left-associative.  For operator tokens
op1, op2 of the same level (both `||`, both `&&`, both comparisons, both
additive or both multiplicative) and operands x, y, z (token sequences that
`parse_factor` reads with fuel `c` or more), the tokens `x op1 y op2 z`,
followed by no binary operator, parse with any fuel of at least `c + 8` to
`BinOp(op2)[BinOp(op1)[x, y], z]`, and the tokens that follow are left. -/
theorem C10_left_associative (c fuel : Nat) (T0 T1 T2 rest : Cursor) (x y z : ASTNode)
    (op1 op2 : Token)
    (hx : reads_operand c T0 x (op1 :: T1)) (hy : reads_operand c T1 y (op2 :: T2))
    (hz : reads_operand c T2 z rest)
    (hop : op_level op1 ≠ 0) (hsame : op_level op1 = op_level op2)
    (hrest : next_level rest = 0) :
    parse_expression (c + (fuel + 8)) T0 = .ok (binop op2 (binop op1 x y) z, rest) := by
  have hle := Phase2.op_level_le op1
  have hcases : op_level op1 = 1 ∨ op_level op1 = 2 ∨ op_level op1 = 3 ∨ op_level op1 = 4 ∨
      op_level op1 = 5 := by omega
  rcases hcases with h1 | h1 | h1 | h1 | h1
  · exact Phase2.logical_or_chain c fuel T0 T1 T2 rest x y z op1 op2 hx hy hz h1 (by omega) hrest
  · exact Phase2.logical_or_pass (c + (fuel + 7)) _ _ _
      (Phase2.logical_and_chain c fuel T0 T1 T2 rest x y z op1 op2 hx hy hz h1 (by omega) hrest)
      (by omega)
  · exact Phase2.logical_or_pass (c + (fuel + 7)) _ _ _
      (Phase2.logical_and_pass (c + (fuel + 6)) _ _ _
        (Phase2.comparison_chain c fuel T0 T1 T2 rest x y z op1 op2 hx hy hz h1 (by omega) hrest)
        (by omega)) (by omega)
  · exact Phase2.logical_or_pass (c + (fuel + 7)) _ _ _
      (Phase2.logical_and_pass (c + (fuel + 6)) _ _ _
        (Phase2.comparison_pass (c + (fuel + 5)) _ _ _
          (Phase2.add_sub_chain c fuel T0 T1 T2 rest x y z op1 op2 hx hy hz h1 (by omega) hrest)
          (by omega)) (by omega)) (by omega)
  · exact Phase2.logical_or_pass (c + (fuel + 7)) _ _ _
      (Phase2.logical_and_pass (c + (fuel + 6)) _ _ _
        (Phase2.comparison_pass (c + (fuel + 5)) _ _ _
          (Phase2.add_sub_pass (c + (fuel + 4)) _ _ _
            (Phase2.term_chain c fuel T0 T1 T2 rest x y z op1 op2 hx hy hz h1 (by omega) hrest)
            (by omega)) (by omega)) (by omega)) (by omega)

/-- Left associativity for single-token operands: for literals or identifiers
x, y, z and operators of one level, `x op1 y op2 z` followed by tokens that do
not continue the expression parses to `BinOp(op2)[BinOp(op1)[x, y], z]`. -/
theorem Phase2.left_associative_primaries (fuel : Nat) (x op1 y op2 z : Token) (rest : Cursor)
    (hx : is_primary x = true) (hy : is_primary y = true) (hz : is_primary z = true)
    (hop : op_level op1 ≠ 0) (hsame : op_level op1 = op_level op2)
    (hrest : ends_expression rest) :
    parse_expression (fuel + 9) (x :: op1 :: y :: op2 :: z :: rest) =
      .ok (binop op2 (binop op1 (leaf x) (leaf y)) (leaf z), rest) := by
  have hmain : parse_expression (1 + (fuel + 8)) (x :: op1 :: y :: op2 :: z :: rest) =
      .ok (binop op2 (binop op1 (leaf x) (leaf y)) (leaf z), rest) := by
    have hle := Phase2.op_level_le op1
    have hcases : op_level op1 = 1 ∨ op_level op1 = 2 ∨ op_level op1 = 3 ∨ op_level op1 = 4 ∨
        op_level op1 = 5 := by omega
    have hx1 := Phase2.reads_primary x (op1 :: y :: op2 :: z :: rest) hx
      (Phase2.operator_not_lparen op1 _ hop)
    have hy1 := Phase2.reads_primary y (op2 :: z :: rest) hy
      (Phase2.operator_not_lparen op2 _ (by omega))
    have hz1 := Phase2.reads_primary z rest hz hrest.2
    have h0 := hrest.1
    rcases hcases with h1 | h1 | h1 | h1 | h1
    · exact Phase2.logical_or_chain 1 fuel _ _ _ rest _ _ _ op1 op2 hx1 hy1 hz1 h1 (by omega) h0
    · exact Phase2.logical_or_pass (1 + (fuel + 7)) _ _ _
        (Phase2.logical_and_chain 1 fuel _ _ _ rest _ _ _ op1 op2 hx1 hy1 hz1 h1 (by omega) h0)
        (by omega)
    · exact Phase2.logical_or_pass (1 + (fuel + 7)) _ _ _
        (Phase2.logical_and_pass (1 + (fuel + 6)) _ _ _
          (Phase2.comparison_chain 1 fuel _ _ _ rest _ _ _ op1 op2 hx1 hy1 hz1 h1 (by omega) h0)
          (by omega)) (by omega)
    · exact Phase2.logical_or_pass (1 + (fuel + 7)) _ _ _
        (Phase2.logical_and_pass (1 + (fuel + 6)) _ _ _
          (Phase2.comparison_pass (1 + (fuel + 5)) _ _ _
            (Phase2.add_sub_chain 1 fuel _ _ _ rest _ _ _ op1 op2 hx1 hy1 hz1 h1 (by omega) h0)
            (by omega)) (by omega)) (by omega)
    · exact Phase2.logical_or_pass (1 + (fuel + 7)) _ _ _
        (Phase2.logical_and_pass (1 + (fuel + 6)) _ _ _
          (Phase2.comparison_pass (1 + (fuel + 5)) _ _ _
            (Phase2.add_sub_pass (1 + (fuel + 4)) _ _ _
              (Phase2.term_chain 1 fuel _ _ _ rest _ _ _ op1 op2 hx1 hy1 hz1 h1 (by omega) h0)
              (by omega)) (by omega)) (by omega)) (by omega)
  have he : fuel + 9 = 1 + (fuel + 8) := by omega
  rw [he]
  exact hmain

/-- C10 at a concrete input with a parenthesised operand and a literal:
`(a + b) - 2 - c ;` parses with fuel 16 to `BinOp(-)[BinOp(-)[a + b, 2], c]`
and leaves the `;`. -/
theorem C10_left_associative_witness :
    parse_expression 16
        [punct "(", ident "a", op "+", ident "b", punct ")", op "-", int_lit "2", op "-",
         ident "c", punct ";"] =
      .ok (.mk NODE_BINOP "BinOp(-)"
            [.mk NODE_BINOP "BinOp(-)"
               [.mk NODE_BINOP "BinOp(+)" [.mk NODE_VAR "a" [], .mk NODE_VAR "b" []],
                .mk NODE_NUMBER "2" []],
             .mk NODE_VAR "c" []],
           [punct ";"]) :=
  C10_left_associative 8 0
    [punct "(", ident "a", op "+", ident "b", punct ")", op "-", int_lit "2", op "-",
     ident "c", punct ";"]
    [int_lit "2", op "-", ident "c", punct ";"] [ident "c", punct ";"] [punct ";"]
    (.mk NODE_BINOP "BinOp(+)" [.mk NODE_VAR "a" [], .mk NODE_VAR "b" []])
    (.mk NODE_NUMBER "2" []) (.mk NODE_VAR "c" []) (op "-") (op "-")
    (fun fuel => by rw [Nat.add_comm]; rfl)
    (fun fuel => by rw [Nat.add_comm]; rfl)
    (fun fuel => by rw [Nat.add_comm]; rfl)
    (by decide) rfl rfl

/-! ### The else branch of a nested if -/

/-- What `parse_body` leaves is empty or starts with the closing brace. -/
theorem Phase2.parse_body_loop_rest (f : Nat) :
    ∀ (node : ASTNode) (toks : Cursor) (n : ASTNode) (rest : Cursor),
      parse_body_loop f node toks = .ok (n, rest) →
      next_is_not_keyword "else" rest := by
  induction f with
  | zero =>
    intro node toks n rest h
    rw [parse_body_loop] at h
    exact absurd h (by simp)
  | succ f ih =>
    intro node toks n rest h
    cases toks with
    | nil =>
      rw [parse_body_loop] at h
      injection h with h
      injection h with h1 h2
      subst h2
      trivial
    | cons t r =>
      rw [parse_body_loop] at h
      by_cases hb : t.is TOK_PUNCTUATION "\x7d" = true
      · rw [if_pos hb] at h
        injection h with h
        injection h with h1 h2
        subst h2
        obtain ⟨ty, lex, line⟩ := t
        simp only [Token.is, Bool.and_eq_true, decide_eq_true_eq] at hb
        obtain ⟨rfl, rfl⟩ := hb
        rfl
      · rw [if_neg hb] at h
        by_cases hd : is_decl_start t = true
        · rw [if_pos hd] at h
          cases hs : parse_var_decl f (t :: r) with
          | ok p =>
            obtain ⟨d, r1⟩ := p
            rw [hs] at h
            exact ih _ _ _ _ h
          | fail l m =>
            rw [hs] at h
            exact absurd h (by simp)
          | fuel =>
            rw [hs] at h
            exact absurd h (by simp)
        · rw [if_neg hd] at h
          cases hs : parse_statement f (t :: r) with
          | ok p =>
            obtain ⟨d, r1⟩ := p
            rw [hs] at h
            exact ih _ _ _ _ h
          | fail l m =>
            rw [hs] at h
            exact absurd h (by simp)
          | fuel =>
            rw [hs] at h
            exact absurd h (by simp)

/-- A token that is the keyword `if` sends `parse_statement` to
`parse_if_statement`. -/
theorem Phase2.parse_statement_if (f : Nat) (t : Token) (r : Cursor)
    (h : t.is TOK_KEYWORD "if" = true) :
    parse_statement (f + 1) (t :: r) = parse_if_statement f (t :: r) := by
  obtain ⟨ty, lex, line⟩ := t
  simp only [Token.is, Bool.and_eq_true, decide_eq_true_eq] at h
  obtain ⟨rfl, rfl⟩ := h
  rw [parse_statement.eq_def]
  simp [Token.is]

/-- An if statement whose `else` is not followed by `if`: the third child is an
`Else:` node over the `Body:` node that `parse_body` reads. -/
theorem Phase2.parse_if_else_body (f : Nat) (kwif lp rp kwelse : Token)
    (A C D rest : Cursor) (e s body : ASTNode)
    (hif : kwif.is TOK_KEYWORD "if" = true) (hlp : lp.is TOK_PUNCTUATION "(" = true)
    (hrp : rp.is TOK_PUNCTUATION ")" = true) (helse : kwelse.is TOK_KEYWORD "else" = true)
    (he : parse_expression f A = .ok (e, rp :: C))
    (hs : parse_statement f C = .ok (s, kwelse :: D))
    (hD : next_is_not_keyword "if" D)
    (hb : parse_body f D = .ok (body, rest)) :
    parse_if_statement (f + 1) (kwif :: lp :: A) =
      .ok (.mk NODE_IF "If:" [e, s, .mk NODE_ELSE "Else:" [body]], rest) := by
  rw [parse_if_statement]
  unfold parse_body at hb
  obtain ⟨k, t, cs⟩ := body
  cases D with
  | nil =>
    simp only [expect_keyword, expect_token, hif, hlp, hrp, if_true, Outcome.ok_bind, he, hs,
      helse, hb]
    rfl
  | cons d r =>
    have hd : d.is TOK_KEYWORD "if" = false := hD
    simp only [expect_keyword, expect_token, hif, hlp, hrp, if_true, Outcome.ok_bind, he, hs,
      helse, hb, hd]
    rfl

/-- An if statement whose `else` is followed by `if`: the third child is the
node of the statement read after `else`, without an `Else:` node. -/
theorem Phase2.parse_if_else_if (f : Nat) (kwif lp rp kwelse kwif2 : Token)
    (A C D rest : Cursor) (e s x : ASTNode)
    (hif : kwif.is TOK_KEYWORD "if" = true) (hlp : lp.is TOK_PUNCTUATION "(" = true)
    (hrp : rp.is TOK_PUNCTUATION ")" = true) (helse : kwelse.is TOK_KEYWORD "else" = true)
    (hif2 : kwif2.is TOK_KEYWORD "if" = true)
    (he : parse_expression f A = .ok (e, rp :: C))
    (hs : parse_statement f C = .ok (s, kwelse :: kwif2 :: D))
    (hx : parse_statement f (kwif2 :: D) = .ok (x, rest)) :
    parse_if_statement (f + 1) (kwif :: lp :: A) =
      .ok (.mk NODE_IF "If:" [e, s, x], rest) := by
  rw [parse_if_statement]
  simp only [expect_keyword, expect_token, hif, hlp, hrp, if_true, Outcome.ok_bind, he, hs, helse,
    hif2, hx]
  rfl

/-- An if statement without an else branch: the token after the then-branch is
not `else`. -/
theorem Phase2.parse_if_without_else (f : Nat) (kwif lp rp : Token)
    (A C rest : Cursor) (e s : ASTNode)
    (hif : kwif.is TOK_KEYWORD "if" = true) (hlp : lp.is TOK_PUNCTUATION "(" = true)
    (hrp : rp.is TOK_PUNCTUATION ")" = true)
    (he : parse_expression f A = .ok (e, rp :: C))
    (hs : parse_statement f C = .ok (s, rest))
    (hrest : next_is_not_keyword "else" rest) :
    parse_if_statement (f + 1) (kwif :: lp :: A) = .ok (.mk NODE_IF "If:" [e, s], rest) := by
  rw [parse_if_statement]
  simp only [expect_keyword, expect_token, hif, hlp, hrp, if_true, Outcome.ok_bind, he, hs]
  cases rest with
  | nil => rfl
  | cons t r =>
    simp only [next_is_not_keyword] at hrest
    simp only [hrest]
    rfl

/-- What an if statement leaves never starts with `else`: an `else` that
follows the then-branch is always consumed by the if statement itself. -/
theorem Phase2.if_statement_rest (f : Nat) :
    ∀ (toks : Cursor) (n : ASTNode) (rest : Cursor),
      parse_if_statement f toks = .ok (n, rest) → next_is_not_keyword "else" rest := by
  induction f using Nat.strong_induction_on with
  | _ f ih =>
    intro toks n rest h
    cases f with
    | zero =>
      rw [parse_if_statement] at h
      exact absurd h (by simp)
    | succ f =>
      rw [parse_if_statement] at h
      cases h1 : expect_keyword "if" toks with
      | fail l m => rw [h1] at h; exact absurd h (by simp)
      | fuel => rw [h1] at h; exact absurd h (by simp)
      | ok r1 =>
        rw [h1] at h
        simp only [Outcome.ok_bind] at h
        cases h2 : expect_token TOK_PUNCTUATION "(" r1 with
        | fail l m => rw [h2] at h; exact absurd h (by simp)
        | fuel => rw [h2] at h; exact absurd h (by simp)
        | ok r2 =>
          rw [h2] at h
          simp only [Outcome.ok_bind] at h
          cases h3 : parse_expression f r2 with
          | fail l m => rw [h3] at h; exact absurd h (by simp)
          | fuel => rw [h3] at h; exact absurd h (by simp)
          | ok p3 =>
            obtain ⟨cond, r3⟩ := p3
            rw [h3] at h
            simp only [Outcome.ok_bind] at h
            cases h4 : expect_token TOK_PUNCTUATION ")" r3 with
            | fail l m => rw [h4] at h; exact absurd h (by simp)
            | fuel => rw [h4] at h; exact absurd h (by simp)
            | ok r4 =>
              rw [h4] at h
              simp only [Outcome.ok_bind] at h
              cases h5 : parse_statement f r4 with
              | fail l m => rw [h5] at h; exact absurd h (by simp)
              | fuel => rw [h5] at h; exact absurd h (by simp)
              | ok p5 =>
                obtain ⟨thn, r5⟩ := p5
                rw [h5] at h
                simp only [Outcome.ok_bind] at h
                cases r5 with
                | nil =>
                  injection h with h
                  injection h with ha hb
                  subst hb
                  trivial
                | cons t r6 =>
                  simp only at h
                  by_cases helse : t.is TOK_KEYWORD "else" = true
                  · simp only [helse, if_true] at h
                    cases r6 with
                    | nil =>
                      simp only [Bool.false_eq_true, if_false] at h
                      cases h6 : parse_body_loop f (ast_new_node NODE_BODY (some "Body:")) [] with
                      | fail l m => rw [h6] at h; exact absurd h (by simp)
                      | fuel => rw [h6] at h; exact absurd h (by simp)
                      | ok p6 =>
                        obtain ⟨b, r7⟩ := p6
                        rw [h6] at h
                        simp only [Outcome.ok_bind] at h
                        injection h with h
                        injection h with ha hb
                        subst hb
                        exact Phase2.parse_body_loop_rest f _ _ _ _ h6
                    | cons nx r7 =>
                      simp only at h
                      by_cases hnx : nx.is TOK_KEYWORD "if" = true
                      · simp only [hnx, if_true] at h
                        cases h6 : parse_statement f (nx :: r7) with
                        | fail l m => rw [h6] at h; exact absurd h (by simp)
                        | fuel => rw [h6] at h; exact absurd h (by simp)
                        | ok p6 =>
                          obtain ⟨x, r8⟩ := p6
                          rw [h6] at h
                          simp only [Outcome.ok_bind] at h
                          injection h with h
                          injection h with ha hb
                          subst hb
                          cases f with
                          | zero =>
                            rw [parse_statement] at h6
                            exact absurd h6 (by simp)
                          | succ g =>
                            rw [Phase2.parse_statement_if g nx r7 hnx] at h6
                            exact ih g (by omega) _ _ _ h6
                      · simp only [hnx] at h
                        cases h6 : parse_body_loop f (ast_new_node NODE_BODY (some "Body:"))
                            (nx :: r7) with
                        | fail l m => rw [h6] at h; exact absurd h (by simp)
                        | fuel => rw [h6] at h; exact absurd h (by simp)
                        | ok p6 =>
                          obtain ⟨b, r8⟩ := p6
                          rw [h6] at h
                          simp only [Outcome.ok_bind] at h
                          injection h with h
                          injection h with ha hb
                          subst hb
                          exact Phase2.parse_body_loop_rest f _ _ _ _ h6
                  · simp only [helse] at h
                    injection h with h
                    injection h with ha hb
                    subst hb
                    simp only [next_is_not_keyword]
                    simpa using helse

/-- C11 as stated fails at `int f() { if (a) if (b) x = 1; else if (c) y = 2; }`:
the else branch starts with `if`, the parser appends its `If:` node directly to
the inner `If:` node, and the AST has no `Else:` line at all. -/
theorem C11_else_if_has_no_else_node :
    parser_main 100 tokens_nested_if_else_if =
      .ok ("FunctionDefinition: f\n    Parameters:\n    Body:\n" ++
           "        If:\n            Var(a)\n" ++
           "            If:\n                Var(b)\n" ++
           "                Assign: x =\n                    Number(1)\n" ++
           "                If:\n                    Var(c)\n" ++
           "                    Assign: y =\n                        Number(2)\n") ∧
    (∀ text, parser_main 100 tokens_nested_if_else_if = .ok text →
      CStr.strstr_found text.data "Else:".data = false) := by
  refine ⟨by decide, ?_⟩
  intro text h
  have h2 : parser_main 100 tokens_nested_if_else_if =
      .ok ("FunctionDefinition: f\n    Parameters:\n    Body:\n" ++
           "        If:\n            Var(a)\n" ++
           "            If:\n                Var(b)\n" ++
           "                Assign: x =\n                    Number(1)\n" ++
           "                If:\n                    Var(c)\n" ++
           "                    Assign: y =\n                        Number(2)\n") := by decide
  rw [h2] at h
  injection h with h
  subst h
  decide

/-- C11, amended: an `else` binds to the innermost open `if`.  For tokens
`if ( e1 ) if ( e2 ) s1 else ...`, where e1, e2 are read by `parse_expression`
and s1 by `parse_statement` (with fuel `c` or more), the outer `If:` node has
exactly two children, the condition e1 and the inner `If:` node, and the else
branch is the third child of the inner `If:` node:
(1) when the token after `else` is not `if`, it is an `Else:` node over the
`Body:` node that `parse_body` reads after `else`;
(2) when the token after `else` is `if`, it is the node of the if statement
read after `else`, and no `Else:` node is made for this `else`.
Both hold with any fuel of at least `c + 4`. -/
theorem C11_else_binds_to_inner_if :
    (∀ (c fuel : Nat) (kwif1 lp1 rp1 kwif2 lp2 rp2 kwelse : Token) (A B C D rest : Cursor)
       (e1 e2 s1 body : ASTNode),
      kwif1.is TOK_KEYWORD "if" = true → lp1.is TOK_PUNCTUATION "(" = true →
      rp1.is TOK_PUNCTUATION ")" = true → kwif2.is TOK_KEYWORD "if" = true →
      lp2.is TOK_PUNCTUATION "(" = true → rp2.is TOK_PUNCTUATION ")" = true →
      kwelse.is TOK_KEYWORD "else" = true →
      reads_expression c A e1 (rp1 :: kwif2 :: lp2 :: B) →
      reads_expression c B e2 (rp2 :: C) →
      reads_statement c C s1 (kwelse :: D) →
      next_is_not_keyword "if" D →
      reads_body c D body rest →
      parse_statement (c + (fuel + 4)) (kwif1 :: lp1 :: A) =
        .ok (.mk NODE_IF "If:"
              [e1, .mk NODE_IF "If:" [e2, s1, .mk NODE_ELSE "Else:" [body]]], rest)) ∧
    (∀ (c fuel : Nat) (kwif1 lp1 rp1 kwif2 lp2 rp2 kwelse kwif3 : Token)
       (A B C D rest : Cursor) (e1 e2 s1 s2 : ASTNode),
      kwif1.is TOK_KEYWORD "if" = true → lp1.is TOK_PUNCTUATION "(" = true →
      rp1.is TOK_PUNCTUATION ")" = true → kwif2.is TOK_KEYWORD "if" = true →
      lp2.is TOK_PUNCTUATION "(" = true → rp2.is TOK_PUNCTUATION ")" = true →
      kwelse.is TOK_KEYWORD "else" = true → kwif3.is TOK_KEYWORD "if" = true →
      reads_expression c A e1 (rp1 :: kwif2 :: lp2 :: B) →
      reads_expression c B e2 (rp2 :: C) →
      reads_statement c C s1 (kwelse :: kwif3 :: D) →
      reads_statement c (kwif3 :: D) s2 rest →
      parse_statement (c + (fuel + 4)) (kwif1 :: lp1 :: A) =
        .ok (.mk NODE_IF "If:" [e1, .mk NODE_IF "If:" [e2, s1, s2]], rest)) := by
  constructor
  · intro c fuel kwif1 lp1 rp1 kwif2 lp2 rp2 kwelse A B C D rest e1 e2 s1 body
      hif1 hlp1 hrp1 hif2 hlp2 hrp2 helse h1 h2 h3 hD h4
    have hinner : parse_if_statement (c + (fuel + 1)) (kwif2 :: lp2 :: B) =
        .ok (.mk NODE_IF "If:" [e2, s1, .mk NODE_ELSE "Else:" [body]], rest) :=
      Phase2.parse_if_else_body (c + fuel) kwif2 lp2 rp2 kwelse B C D rest e2 s1 body
        hif2 hlp2 hrp2 helse (h2 fuel) (h3 fuel) hD (h4 fuel)
    have hrest : next_is_not_keyword "else" rest :=
      Phase2.if_statement_rest _ _ _ _ hinner
    have hstmt : parse_statement (c + (fuel + 2)) (kwif2 :: lp2 :: B) =
        .ok (.mk NODE_IF "If:" [e2, s1, .mk NODE_ELSE "Else:" [body]], rest) := by
      rw [← hinner]
      exact Phase2.parse_statement_if (c + (fuel + 1)) kwif2 (lp2 :: B) hif2
    have houter := Phase2.parse_if_without_else (c + (fuel + 2)) kwif1 lp1 rp1 A
      (kwif2 :: lp2 :: B) rest e1 _ hif1 hlp1 hrp1 (h1 (fuel + 2)) hstmt hrest
    rw [← houter]
    exact Phase2.parse_statement_if (c + (fuel + 3)) kwif1 (lp1 :: A) hif1
  · intro c fuel kwif1 lp1 rp1 kwif2 lp2 rp2 kwelse kwif3 A B C D rest e1 e2 s1 s2
      hif1 hlp1 hrp1 hif2 hlp2 hrp2 helse hif3 h1 h2 h3 h4
    have hinner : parse_if_statement (c + (fuel + 1)) (kwif2 :: lp2 :: B) =
        .ok (.mk NODE_IF "If:" [e2, s1, s2], rest) :=
      Phase2.parse_if_else_if (c + fuel) kwif2 lp2 rp2 kwelse kwif3 B C D rest e2 s1 s2
        hif2 hlp2 hrp2 helse hif3 (h2 fuel) (h3 fuel) (h4 fuel)
    have hrest : next_is_not_keyword "else" rest :=
      Phase2.if_statement_rest _ _ _ _ hinner
    have hstmt : parse_statement (c + (fuel + 2)) (kwif2 :: lp2 :: B) =
        .ok (.mk NODE_IF "If:" [e2, s1, s2], rest) := by
      rw [← hinner]
      exact Phase2.parse_statement_if (c + (fuel + 1)) kwif2 (lp2 :: B) hif2
    have houter := Phase2.parse_if_without_else (c + (fuel + 2)) kwif1 lp1 rp1 A
      (kwif2 :: lp2 :: B) rest e1 _ hif1 hlp1 hrp1 (h1 (fuel + 2)) hstmt hrest
    rw [← houter]
    exact Phase2.parse_statement_if (c + (fuel + 3)) kwif1 (lp1 :: A) hif1

/-- C11, amended, at concrete inputs: `if (a) if (b) x = 1; else y = 2; }` and
`if (a) if (b) x = 1; else if (c) y = 2; }` with fuel 14. -/
theorem C11_else_binds_to_inner_if_witness :
    parse_statement 14 tokens_nested_if_else =
      .ok (.mk NODE_IF "If:"
            [.mk NODE_VAR "a" [],
             .mk NODE_IF "If:"
               [.mk NODE_VAR "b" [],
                .mk NODE_ASSIGN "Assign: x =" [.mk NODE_NUMBER "1" []],
                .mk NODE_ELSE "Else:"
                  [.mk NODE_BODY "Body:"
                     [.mk NODE_ASSIGN "Assign: y =" [.mk NODE_NUMBER "2" []]]]]],
           [punct "\x7d"]) ∧
    parse_statement 14
        [kw "if", punct "(", ident "a", punct ")",
         kw "if", punct "(", ident "b", punct ")", ident "x", op "=", int_lit "1", punct ";",
         kw "else", kw "if", punct "(", ident "c", punct ")", ident "y", op "=", int_lit "2",
         punct ";", punct "\x7d"] =
      .ok (.mk NODE_IF "If:"
            [.mk NODE_VAR "a" [],
             .mk NODE_IF "If:"
               [.mk NODE_VAR "b" [],
                .mk NODE_ASSIGN "Assign: x =" [.mk NODE_NUMBER "1" []],
                .mk NODE_IF "If:"
                  [.mk NODE_VAR "c" [],
                   .mk NODE_ASSIGN "Assign: y =" [.mk NODE_NUMBER "2" []]]]],
           [punct "\x7d"]) :=
  ⟨C11_else_binds_to_inner_if.1 10 0 (kw "if") (punct "(") (punct ")") (kw "if") (punct "(")
      (punct ")") (kw "else")
      [ident "a", punct ")", kw "if", punct "(", ident "b", punct ")", ident "x", op "=",
       int_lit "1", punct ";", kw "else", ident "y", op "=", int_lit "2", punct ";", punct "\x7d"]
      [ident "b", punct ")", ident "x", op "=", int_lit "1", punct ";", kw "else", ident "y",
       op "=", int_lit "2", punct ";", punct "\x7d"]
      [ident "x", op "=", int_lit "1", punct ";", kw "else", ident "y", op "=", int_lit "2",
       punct ";", punct "\x7d"]
      [ident "y", op "=", int_lit "2", punct ";", punct "\x7d"] [punct "\x7d"]
      (.mk NODE_VAR "a" []) (.mk NODE_VAR "b" [])
      (.mk NODE_ASSIGN "Assign: x =" [.mk NODE_NUMBER "1" []])
      (.mk NODE_BODY "Body:" [.mk NODE_ASSIGN "Assign: y =" [.mk NODE_NUMBER "2" []]])
      rfl rfl rfl rfl rfl rfl rfl
      (fun fuel => by rw [Nat.add_comm]; rfl) (fun fuel => by rw [Nat.add_comm]; rfl)
      (fun fuel => by rw [Nat.add_comm]; rfl) rfl (fun fuel => by rw [Nat.add_comm]; rfl),
   C11_else_binds_to_inner_if.2 10 0 (kw "if") (punct "(") (punct ")") (kw "if") (punct "(")
      (punct ")") (kw "else") (kw "if")
      [ident "a", punct ")", kw "if", punct "(", ident "b", punct ")", ident "x", op "=",
       int_lit "1", punct ";", kw "else", kw "if", punct "(", ident "c", punct ")", ident "y",
       op "=", int_lit "2", punct ";", punct "\x7d"]
      [ident "b", punct ")", ident "x", op "=", int_lit "1", punct ";", kw "else", kw "if",
       punct "(", ident "c", punct ")", ident "y", op "=", int_lit "2", punct ";", punct "\x7d"]
      [ident "x", op "=", int_lit "1", punct ";", kw "else", kw "if", punct "(", ident "c",
       punct ")", ident "y", op "=", int_lit "2", punct ";", punct "\x7d"]
      [punct "(", ident "c", punct ")", ident "y", op "=", int_lit "2", punct ";", punct "\x7d"]
      [punct "\x7d"]
      (.mk NODE_VAR "a" []) (.mk NODE_VAR "b" [])
      (.mk NODE_ASSIGN "Assign: x =" [.mk NODE_NUMBER "1" []])
      (.mk NODE_IF "If:"
        [.mk NODE_VAR "c" [], .mk NODE_ASSIGN "Assign: y =" [.mk NODE_NUMBER "2" []]])
      rfl rfl rfl rfl rfl rfl rfl rfl
      (fun fuel => by rw [Nat.add_comm]; rfl) (fun fuel => by rw [Nat.add_comm]; rfl)
      (fun fuel => by rw [Nat.add_comm]; rfl) (fun fuel => by rw [Nat.add_comm]; rfl)⟩

/-! ### Serialization is a pre-order traversal -/

/-- The text of two lists of lines, one after the other. -/
theorem Phase2.render_lines_append (a b : List (Nat × String)) :
    render_lines (a ++ b) = render_lines a ++ render_lines b := by
  induction a with
  | nil => simp [render_lines]
  | cons x xs ih =>
    obtain ⟨d, l⟩ := x
    rw [List.cons_append, render_lines, render_lines, ih]
    simp only [String.append_assoc]

/-- The line written for a node that is not the Program node is its label and a
newline. -/
theorem Phase2.node_line_label (kind : NodeKind) (text : String) (h : kind ≠ NODE_PROGRAM) :
    node_line kind text = label_text kind text ++ "\n" := by
  cases kind <;> first | exact absurd rfl h | simp [node_line, label_text, String.append_assoc]

mutual

/-- The text written for a tree without Program node is the text of its
pre-order traversal. -/
theorem Phase2.print_is_preorder :
    ∀ (n : ASTNode) (d : Nat), no_program n = true →
      print_ast_recursive n d = render_lines (preorder n d)
  | .mk kind text children, d, h => by
    rw [no_program, Bool.and_eq_true, decide_eq_true_eq] at h
    rw [print_ast_recursive, preorder, render_lines, Phase2.node_line_label kind text h.1,
      Phase2.print_children_is_preorder children (d + 1) h.2]
    simp only [String.append_assoc]

/-- The text written for a list of trees without Program node is the text of
their pre-order traversals. -/
theorem Phase2.print_children_is_preorder :
    ∀ (cs : List ASTNode) (d : Nat), no_program_list cs = true →
      print_children cs d = render_lines (preorder_list cs d)
  | [], d, _ => by rw [print_children, preorder_list, render_lines]
  | c :: cs, d, h => by
    rw [no_program_list, Bool.and_eq_true] at h
    rw [print_children, preorder_list, Phase2.render_lines_append,
      Phase2.print_is_preorder c d h.1, Phase2.print_children_is_preorder cs d h.2]

end

/-- C12: AST serialization is a pre-order traversal.
(1) Every node other than Program is written as 4 × depth spaces, its label and
a newline, immediately followed by the text of its children in order at
depth + 1.
(2) For a tree without Program node, the whole text is the text of the
pre-order traversal, one line per node.
(3) The Program root writes no line: `print_ast` gives the text of the
pre-order traversals of its children at depth 0.
(4) For the top-level declaration `int x = 1 + 2 * 3;` the parser builds a
tree whose traversal is `VarDeclGroup:`, `VarDecl: int x =`, `BinOp(+)`,
`Number(1)`, `BinOp(*)`, `Number(2)`, `Number(3)` at depths 0, 1, 2, 3, 3, 4, 4,
and writes exactly these seven lines. -/
theorem C12_serialization_is_preorder :
    (∀ (kind : NodeKind) (text : String) (children : List ASTNode) (depth : Nat),
      kind ≠ NODE_PROGRAM →
      print_ast_recursive (.mk kind text children) depth =
        indentation depth ++ label_text kind text ++ "\n" ++
          print_children children (depth + 1)) ∧
    (∀ (n : ASTNode) (depth : Nat), no_program n = true →
      print_ast_recursive n depth = render_lines (preorder n depth)) ∧
    (∀ (text : String) (children : List ASTNode), no_program_list children = true →
      print_ast (.mk NODE_PROGRAM text children) = render_lines (preorder_list children 0)) ∧
    ((parse_program 100 tokens_global_init).bind
        (fun root => .ok (preorder_list root.children 0)) =
      .ok [(0, "VarDeclGroup:"), (1, "VarDecl: int x ="), (2, "BinOp(+)"), (3, "Number(1)"),
           (3, "BinOp(*)"), (4, "Number(2)"), (4, "Number(3)")]) ∧
    parser_main 100 tokens_global_init =
      .ok ("VarDeclGroup:\n    VarDecl: int x =\n        BinOp(+)\n            Number(1)\n" ++
           "            BinOp(*)\n                Number(2)\n                Number(3)\n") := by
  refine ⟨?_, ?_, ?_, ?_, ?_⟩
  · intro kind text children depth h
    rw [print_ast_recursive, Phase2.node_line_label kind text h]
    simp only [String.append_assoc]
  · exact Phase2.print_is_preorder
  · intro text children h
    unfold print_ast
    simp only [ASTNode.kind, ASTNode.children, if_true]
    exact Phase2.print_children_is_preorder children 0 h
  · decide
  · decide

/-- C12 at a concrete tree: `Assign: x =` over `Number(1)` at depth 2 is
written as two lines with 8 and 12 spaces. -/
theorem C12_serialization_is_preorder_witness :
    print_ast_recursive (.mk NODE_ASSIGN "Assign: x =" [.mk NODE_NUMBER "1" []]) 2 =
      render_lines [(2, "Assign: x ="), (3, "Number(1)")] ∧
    render_lines [(2, "Assign: x ="), (3, "Number(1)")] =
      "        Assign: x =\n            Number(1)\n" :=
  ⟨C12_serialization_is_preorder.2.1 _ 2 (by decide), by decide⟩

/-! ### The operand of a return statement -/

/-- C20, the code at `int f() { return y; }` with `y` undeclared: the parser
writes `Return: y`, the analyzer looks `y` up, gets `TYPE_UNKNOWN`, copies it
into the return type of `f` (any function not named `main` whose return type is
still the default) and finds no mismatch: the verdict is success.  In `main`
the same statement fails, with a return type mismatch. -/
theorem C20_undeclared_return_operand_accepted :
    parser_main 100 tokens_return_undeclared =
      .ok "FunctionDefinition: f\n    Parameters:\n    Body:\n        Return: y\n" ∧
    verdict_of_tokens 100 100 tokens_return_undeclared = .ok () ∧
    verdict_of_tokens 100 100 tokens_main_return_undeclared =
      .fail (some 4) "Return type mismatch" := by
  decide

/-! ### The lexer on operators, punctuation and other characters -/

/-- The test of `operator_or_punctuation` for two-character operators holds
exactly for the twelve operators of the specification. -/
theorem Phase1.is_double_operator_iff (c d : Char) :
    is_double_operator c d = true ↔ (c, d) ∈ double_operators := by
  simp only [is_double_operator, double_operators, Bool.or_eq_true, Bool.and_eq_true,
    decide_eq_true_eq, List.mem_cons, Prod.mk.injEq, List.mem_nil_iff, or_false, or_assoc]

/-- A two-character operator at the start of a token. -/
theorem Phase1.scan_double_operator (c d : Char) (rest : List Char) (line : Nat)
    (h : (c, d) ∈ double_operators) :
    scan_token ⟨c :: d :: rest, line⟩ =
      .ok (⟨.TOK_OPERATOR, String.mk [c, d], line⟩, ⟨rest, line_after rest line⟩) := by
  simp only [double_operators, List.mem_cons, Prod.mk.injEq, List.mem_nil_iff, or_false] at h
  rcases h with h | h | h | h | h | h | h | h | h | h | h | h <;> obtain ⟨rfl, rfl⟩ := h <;> rfl

/-- A single operator character at the start of a token. -/
theorem Phase1.scan_single_operator (c : Char) (rest : List Char) (line : Nat)
    (h : c ∈ operator_chars) (hn : no_double_operator c rest) :
    scan_token ⟨c :: rest, line⟩ =
      .ok (⟨.TOK_OPERATOR, String.mk [c], line⟩, ⟨rest, line_after rest line⟩) := by
  cases rest with
  | nil =>
    simp only [operator_chars, List.mem_cons, List.mem_nil_iff, or_false] at h
    rcases h with h | h | h | h | h | h | h | h | h | h | h <;> subst h <;> rfl
  | cons d r =>
    have hd : is_double_operator c d = false := by
      cases hx : is_double_operator c d with
      | false => rfl
      | true => exact absurd ((Phase1.is_double_operator_iff c d).1 hx) (hn d rfl)
    simp only [operator_chars, List.mem_cons, List.mem_nil_iff, or_false] at h
    rcases h with h | h | h | h | h | h | h | h | h | h | h <;> subst h <;>
      simp [scan_token, peek, is_eof_byte, isalpha, CStr.isdigit, operator_or_punctuation,
        peek_next, hd, strchr_found, advance, make_token, c_string]

/-- A punctuation character at the start of a token. -/
theorem Phase1.scan_punctuation (c : Char) (rest : List Char) (line : Nat)
    (h : c ∈ punctuation_chars) :
    scan_token ⟨c :: rest, line⟩ =
      .ok (⟨.TOK_PUNCTUATION, String.mk [c], line⟩, ⟨rest, line_after rest line⟩) := by
  simp only [punctuation_chars, List.mem_cons, List.mem_nil_iff, or_false] at h
  cases rest with
  | nil => rcases h with h | h | h | h | h | h | h | h <;> subst h <;> rfl
  | cons d r =>
    rcases h with h | h | h | h | h | h | h | h <;> subst h <;>
      simp [scan_token, peek, is_eof_byte, isalpha, CStr.isdigit, operator_or_punctuation,
        peek_next, is_double_operator, strchr_found, advance, make_token, c_string]

/-- C16: at the start of a token, two characters that form one of the twelve
two-character operators give one OPERATOR token with both characters as its
lexeme, and exactly these two characters are consumed, also when the first
character alone is an operator; a single operator character that forms no
two-character operator with the next character gives a one-character OPERATOR
token, and a punctuation character a one-character PUNCTUATION token.  Here
`scan_token` is the body of the loop of `main` after white space and comments
are skipped. -/
theorem C16_double_operators_first :
    (∀ (c d : Char) (rest : List Char) (line : Nat),
      (c, d) ∈ Phase1.double_operators →
      Phase1.scan_token ⟨c :: d :: rest, line⟩ =
        .ok (⟨.TOK_OPERATOR, String.mk [c, d], line⟩,
             ⟨rest, Phase1.line_after rest line⟩)) ∧
    (∀ (c : Char) (rest : List Char) (line : Nat),
      c ∈ Phase1.operator_chars → Phase1.no_double_operator c rest →
      Phase1.scan_token ⟨c :: rest, line⟩ =
        .ok (⟨.TOK_OPERATOR, String.mk [c], line⟩, ⟨rest, Phase1.line_after rest line⟩)) ∧
    (∀ (c : Char) (rest : List Char) (line : Nat),
      c ∈ Phase1.punctuation_chars →
      Phase1.scan_token ⟨c :: rest, line⟩ =
        .ok (⟨.TOK_PUNCTUATION, String.mk [c], line⟩, ⟨rest, Phase1.line_after rest line⟩)) ∧
    Phase1.main 100 "a+++b<=c=(d)" =
      .ok [⟨.TOK_IDENTIFIER, "a", 1⟩, ⟨.TOK_OPERATOR, "++", 1⟩, ⟨.TOK_OPERATOR, "+", 1⟩,
           ⟨.TOK_IDENTIFIER, "b", 1⟩, ⟨.TOK_OPERATOR, "<=", 1⟩, ⟨.TOK_IDENTIFIER, "c", 1⟩,
           ⟨.TOK_OPERATOR, "=", 1⟩, ⟨.TOK_PUNCTUATION, "(", 1⟩, ⟨.TOK_IDENTIFIER, "d", 1⟩,
           ⟨.TOK_PUNCTUATION, ")", 1⟩, ⟨.TOK_EOF, "EOF", 1⟩] :=
  ⟨Phase1.scan_double_operator, Phase1.scan_single_operator, Phase1.scan_punctuation,
   by decide⟩

/-- C16 at `==x`, `=x` and `;x` on line 3. -/
theorem C16_double_operators_first_witness :
    Phase1.scan_token ⟨['=', '=', 'x'], 3⟩ = .ok (⟨.TOK_OPERATOR, "==", 3⟩, ⟨['x'], 3⟩) ∧
    Phase1.scan_token ⟨['=', 'x'], 3⟩ = .ok (⟨.TOK_OPERATOR, "=", 3⟩, ⟨['x'], 3⟩) ∧
    Phase1.scan_token ⟨[';', 'x'], 3⟩ = .ok (⟨.TOK_PUNCTUATION, ";", 3⟩, ⟨['x'], 3⟩) :=
  ⟨C16_double_operators_first.1 '=' '=' ['x'] 3 (by decide),
   C16_double_operators_first.2.1 '=' ['x'] 3 (by decide) (by
     intro d hd
     injection hd with hd
     subst hd
     decide),
   C16_double_operators_first.2.2.1 ';' ['x'] 3 (by decide)⟩

/-- A character that starts no token, other than NUL and the byte read as the
end of the input: the main loop aborts on it with the invalid-character error
at the current line. -/
theorem Phase1.main_loop_other_character (f : Nat) (c : Char) (rest : List Char) (line : Nat)
    (h : other_character c) (h0 : c ≠ '\x00') (h255 : is_eof_byte c = false) :
    main_loop (f + 2) ⟨c :: rest, line⟩ =
      .fail (some (line : Int)) ("Invalid character '" ++ String.mk [c] ++ "'") := by
  obtain ⟨hsp, hal, hdg, hus, hhs, hqt, hop, hpu⟩ := h
  simp only [operator_chars, punctuation_chars, List.mem_cons, List.mem_nil_iff, or_false,
    not_or] at hop hpu
  obtain ⟨o1, o2, o3, o4, o5, o6, o7, o8, o9, o10, o11⟩ := hop
  obtain ⟨p1, p2, p3, p4, p5, p6, p7, p8⟩ := hpu
  have hskip : skip_whitespace_and_comments (f + 1) ⟨c :: rest, line⟩ =
      .ok ⟨c :: rest, line⟩ := by
    simp [skip_whitespace_and_comments, skip_spaces, hsp, peek, h255, o4]
  have hscan : scan_token ⟨c :: rest, line⟩ =
      .fail (some (line : Int)) ("Invalid character '" ++ String.mk [c] ++ "'") := by
    cases rest with
    | nil =>
      simp [scan_token, peek, h255, hhs, hqt, hal, hus, hdg, operator_or_punctuation, peek_next,
        strchr_found, h0, o1, o2, o3, o4, o5, o6, o7, o8, o9, o10, o11, p1, p2, p3, p4, p5, p6,
        p7, p8]
    | cons d r =>
      simp [scan_token, peek, h255, hhs, hqt, hal, hus, hdg, operator_or_punctuation, peek_next,
        is_double_operator, strchr_found, h0, o1, o2, o3, o4, o5, o6, o7, o8, o9, o10, o11, p1,
        p2, p3, p4, p5, p6, p7, p8]
  rw [main_loop]
  simp [peek, h255, hskip, hscan]

/-- C19, the code at a NUL byte: `strchr("+-*/<>=!&|%", peek())` finds the
terminating NUL of the operator string, so a NUL byte at a token start is
emitted as an OPERATOR token with an empty lexeme and lexing goes on, where the
claim has an invalid-character abort and no token.  (A byte 255 at a token
start compares equal to `EOF` and silently ends the token stream.)  Every other
character that starts no token does abort the main loop with the
invalid-character error at its line. -/
theorem C19_nul_byte_lexed_as_operator :
    Phase1.other_character '\x00' ∧
    (∀ (rest : List Char) (line : Nat),
      Phase1.scan_token ⟨'\x00' :: rest, line⟩ =
        .ok (⟨.TOK_OPERATOR, "", line⟩, ⟨rest, Phase1.line_after rest line⟩)) ∧
    Phase1.main 100 "x \x00 y" =
      .ok [⟨.TOK_IDENTIFIER, "x", 1⟩, ⟨.TOK_OPERATOR, "", 1⟩, ⟨.TOK_IDENTIFIER, "y", 1⟩,
           ⟨.TOK_EOF, "EOF", 1⟩] ∧
    Phase1.main 100 "x \xff y" = .ok [⟨.TOK_IDENTIFIER, "x", 1⟩, ⟨.TOK_EOF, "EOF", 1⟩] ∧
    Phase1.main 100 "x\n @ y" = .fail (some 2) "Invalid character '@'" ∧
    (∀ (f : Nat) (c : Char) (rest : List Char) (line : Nat),
      Phase1.other_character c → c ≠ '\x00' → Phase1.is_eof_byte c = false →
      Phase1.main_loop (f + 2) ⟨c :: rest, line⟩ =
        .fail (some (line : Int)) ("Invalid character '" ++ String.mk [c] ++ "'")) := by
  refine ⟨by decide, ?_, by decide, by decide, by decide, ?_⟩
  · intro rest line
    cases rest with
    | nil => rfl
    | cons d r =>
      simp [Phase1.scan_token, Phase1.peek, Phase1.is_eof_byte, Phase1.isalpha, CStr.isdigit,
        Phase1.operator_or_punctuation, Phase1.peek_next, Phase1.is_double_operator,
        Phase1.strchr_found, Phase1.advance, Phase1.make_token, Phase1.c_string]
  · intro f c rest line h h0 h255
    exact Phase1.main_loop_other_character f c rest line h h0 h255

/-- C19 at `@`: the main loop aborts at the line of the character. -/
theorem C19_nul_byte_lexed_as_operator_witness :
    Phase1.main_loop 2 ⟨['@', 'y'], 7⟩ = .fail (some 7) "Invalid character '@'" :=
  C19_nul_byte_lexed_as_operator.2.2.2.2.2 0 '@' ['y'] 7 (by decide) (by decide) (by decide)

/-! ### The lexer on number literals -/

/-- A digit is none of the characters the lexer tests for before digits. -/
theorem Phase1.isdigit_facts (c : Char) (h : CStr.isdigit c = true) :
    c ≠ '\n' ∧ c ≠ '\x00' ∧ c ≠ '#' ∧ c ≠ '"' ∧ c ≠ '_' ∧ isalpha c = false ∧
    is_eof_byte c = false := by
  simp only [CStr.isdigit, decide_eq_true_eq] at h
  obtain ⟨h1, h2⟩ := h
  refine ⟨?_, ?_, ?_, ?_, ?_, ?_, ?_⟩
  · rintro rfl; exact absurd h1 (by decide)
  · rintro rfl; exact absurd h1 (by decide)
  · rintro rfl; exact absurd h1 (by decide)
  · rintro rfl; exact absurd h1 (by decide)
  · rintro rfl; exact absurd h2 (by decide)
  · cases ha : isalpha c with
    | false => rfl
    | true =>
      simp only [isalpha, Bool.or_eq_true, decide_eq_true_eq] at ha
      rcases ha with ⟨a1, _⟩ | ⟨a1, _⟩
      · exact absurd (le_trans a1 h2) (by decide)
      · exact absurd (le_trans a1 h2) (by decide)
  · cases he : is_eof_byte c with
    | false => rfl
    | true =>
      simp only [is_eof_byte, decide_eq_true_eq] at he
      have hc : c = Char.ofNat 255 := by rw [← he, Char.ofNat_toNat]
      subst hc
      exact absurd h2 (by decide)

/-- The digit loop on a run of digits followed by something that is not a
digit: the run is appended to the buffer and the input is left at what
follows. -/
theorem Phase1.digit_loop_run (ds : List Char) :
    ∀ (rest : List Char) (line : Nat) (buffer : List Char),
      (∀ c ∈ ds, CStr.isdigit c = true) →
      (∀ d, rest.head? = some d → CStr.isdigit d = false) →
      digit_loop (ds ++ rest) line buffer =
        (buffer ++ ds, ⟨rest, if ds = [] then line else line_after rest line⟩) := by
  induction ds with
  | nil =>
    intro rest line buffer _ hrest
    cases rest with
    | nil => simp [digit_loop]
    | cons d r => simp [digit_loop, hrest d rfl]
  | cons c ds ih =>
    intro rest line buffer hds hrest
    have hc : CStr.isdigit c = true := hds c (List.mem_cons_self _ _)
    have hds2 : ∀ x ∈ ds, CStr.isdigit x = true := fun x hx => hds x (List.mem_cons_of_mem _ hx)
    rw [List.cons_append, digit_loop, if_pos hc, ih rest _ _ hds2 hrest]
    cases ds with
    | nil => simp
    | cons d ds2 =>
      have hd : d ≠ '\n' := (Phase1.isdigit_facts d (hds2 d (List.mem_cons_self _ _))).1
      simp [line_after, hd]

/-- A lexeme without NUL of at most 255 characters is copied into the token
as it is. -/
theorem Phase1.make_token_whole (type : TokenType) (lexeme : List Char) (line : Nat)
    (h0 : ∀ c ∈ lexeme, c ≠ '\x00') (hlen : lexeme.length ≤ 255) :
    make_token type lexeme line = ⟨type, String.mk lexeme, line⟩ := by
  have h1 : c_string lexeme = lexeme := by
    unfold c_string
    rw [List.takeWhile_eq_self_iff]
    intro c hc
    simpa using h0 c hc
  rw [make_token, h1, List.take_of_length_le hlen]

/-- A digit at the start of a token sends the main loop to `number_literal`. -/
theorem Phase1.scan_token_digit (c : Char) (rest : List Char) (line : Nat)
    (h : CStr.isdigit c = true) :
    scan_token ⟨c :: rest, line⟩ = number_literal ⟨c :: rest, line⟩ := by
  obtain ⟨_, _, h3, h4, h5, h6, h7⟩ := Phase1.isdigit_facts c h
  simp [scan_token, peek, h3, h4, h5, h6, h7, h]

/-- Function `number_literal` on a maximal digit run that is not followed by
`.` and a digit. -/
theorem Phase1.number_literal_int (ds rest : List Char) (line : Nat)
    (hne : ds ≠ []) (hds : all_digits ds) (hlen : ds.length ≤ 255)
    (hrest : no_digit_next rest) (hfrac : no_fraction_next rest) :
    number_literal ⟨ds ++ rest, line⟩ =
      .ok (⟨.TOK_INT_LITERAL, String.mk ds, line⟩, ⟨rest, line_after rest line⟩) := by
  have hloop := Phase1.digit_loop_run ds rest line [] hds hrest
  rw [if_neg hne, List.nil_append] at hloop
  have hfl : fraction_follows ⟨rest, line_after rest line⟩ = false := by
    unfold fraction_follows
    match rest, hfrac with
    | [], _ => simp [peek]
    | [c], _ => simp [peek_next]
    | c :: d :: r, hfrac =>
      by_cases hc : c = '.'
      · subst hc
        simp [peek_next, hfrac d r rfl]
      · have : peek ⟨c :: d :: r, line_after (c :: d :: r) line⟩ ≠ some '.' := by
          simp only [peek]
          split
          · simp
          · simpa using hc
        simp [this]
  have h0 : ∀ c ∈ ds, c ≠ '\x00' := fun c hc => (Phase1.isdigit_facts c (hds c hc)).2.1
  rw [number_literal]
  dsimp only
  rw [hloop]
  dsimp only
  rw [hfl]
  simp only [Bool.false_eq_true, if_false]
  rw [if_neg (Nat.not_lt.2 hlen), Phase1.make_token_whole _ ds line h0 hlen]

/-- Function `number_literal` on a maximal digit run followed by `.` and a
second maximal digit run. -/
theorem Phase1.number_literal_float (ds fs rest : List Char) (line : Nat)
    (hne : ds ≠ []) (hds : all_digits ds) (hfne : fs ≠ []) (hfs : all_digits fs)
    (hlen : ds.length + 1 + fs.length ≤ 255) (hrest : no_digit_next rest) :
    number_literal ⟨ds ++ '.' :: (fs ++ rest), line⟩ =
      .ok (⟨.TOK_FLOAT_LITERAL, String.mk (ds ++ '.' :: fs), line⟩,
           ⟨rest, line_after rest line⟩) := by
  have hdot : no_digit_next ('.' :: (fs ++ rest)) := by
    intro d hd
    injection hd with hd
    subst hd
    decide
  have hloop := Phase1.digit_loop_run ds ('.' :: (fs ++ rest)) line [] hds hdot
  rw [if_neg hne, List.nil_append] at hloop
  obtain ⟨f, fs2, rfl⟩ := List.exists_cons_of_ne_nil hfne
  have hf : CStr.isdigit f = true := hfs f (List.mem_cons_self _ _)
  have hf2 := Phase1.isdigit_facts f hf
  have hla : line_after ('.' :: (f :: fs2 ++ rest)) line = line := by
    simp [line_after]
  have hlb : line_after (f :: fs2 ++ rest) line = line := by
    simp [line_after, hf2.1]
  have hloop2 := Phase1.digit_loop_run (f :: fs2) rest line (ds ++ ['.']) hfs hrest
  rw [if_neg hfne] at hloop2
  have h0 : ∀ c ∈ ds ++ '.' :: f :: fs2, c ≠ '\x00' := by
    intro c hc
    rcases List.mem_append.1 hc with h | h
    · exact (Phase1.isdigit_facts c (hds c h)).2.1
    · rcases List.mem_cons.1 h with h | h
      · subst h; decide
      · exact (Phase1.isdigit_facts c (hfs c h)).2.1
  have hlen2 : (ds ++ '.' :: f :: fs2).length ≤ 255 := by
    simp only [List.length_append, List.length_cons] at hlen ⊢
    omega
  have happ : ds ++ ['.'] ++ f :: fs2 = ds ++ '.' :: f :: fs2 := by simp
  have hfl : fraction_follows ⟨'.' :: (f :: fs2 ++ rest), line⟩ = true := by
    simp [fraction_follows, peek, peek_next, is_eof_byte, hf]
  have hadv : advance ⟨'.' :: (f :: fs2 ++ rest), line⟩ = ⟨f :: fs2 ++ rest, line⟩ := by
    simp [advance, line_after, hf2.1]
  rw [number_literal]
  dsimp only
  rw [hloop]
  dsimp only
  rw [hla, hfl, hadv]
  dsimp only
  simp only [if_true]
  rw [hloop2, happ]
  rw [if_neg (Nat.not_lt.2 hlen2), Phase1.make_token_whole _ _ line h0 hlen2]

/-- C15: at the start of a token, a maximal run of digits `ds` (of a length
the lexeme buffer holds)
(1) is emitted as an integer literal with lexeme `ds` when it is not followed
by `.` and a digit, and the input is left right after the run;
(2) followed by `.` and a maximal run of digits `fs` is emitted as one float
literal with lexeme `ds.fs`, and the input is left right after `fs`;
(3) followed by `.` and a character that is not a digit is emitted as an
integer literal, and the `.` is the first character of what is left.
Here `scan_token` is the body of the loop of `main` after white space and
comments are skipped. -/
theorem C15_number_literal_kinds :
    (∀ (ds rest : List Char) (line : Nat),
      ds ≠ [] → Phase1.all_digits ds → ds.length ≤ 255 →
      Phase1.no_digit_next rest → Phase1.no_fraction_next rest →
      Phase1.scan_token ⟨ds ++ rest, line⟩ =
        .ok (⟨.TOK_INT_LITERAL, String.mk ds, line⟩, ⟨rest, Phase1.line_after rest line⟩)) ∧
    (∀ (ds fs rest : List Char) (line : Nat),
      ds ≠ [] → Phase1.all_digits ds → fs ≠ [] → Phase1.all_digits fs →
      ds.length + 1 + fs.length ≤ 255 → Phase1.no_digit_next rest →
      Phase1.scan_token ⟨ds ++ '.' :: (fs ++ rest), line⟩ =
        .ok (⟨.TOK_FLOAT_LITERAL, String.mk (ds ++ '.' :: fs), line⟩,
             ⟨rest, Phase1.line_after rest line⟩)) ∧
    (∀ (ds : List Char) (d : Char) (rest : List Char) (line : Nat),
      ds ≠ [] → Phase1.all_digits ds → ds.length ≤ 255 → CStr.isdigit d = false →
      Phase1.scan_token ⟨ds ++ '.' :: d :: rest, line⟩ =
        .ok (⟨.TOK_INT_LITERAL, String.mk ds, line⟩, ⟨'.' :: d :: rest, line⟩)) ∧
    (∀ (ds : List Char) (line : Nat),
      ds ≠ [] → Phase1.all_digits ds → ds.length ≤ 255 →
      Phase1.scan_token ⟨ds ++ ['.'], line⟩ =
        .ok (⟨.TOK_INT_LITERAL, String.mk ds, line⟩, ⟨['.'], line⟩)) := by
  refine ⟨?_, ?_, ?_, ?_⟩
  · intro ds rest line hne hds hlen hrest hfrac
    obtain ⟨c, ds2, rfl⟩ := List.exists_cons_of_ne_nil hne
    rw [List.cons_append, Phase1.scan_token_digit c _ line (hds c (List.mem_cons_self _ _)),
      ← List.cons_append]
    exact Phase1.number_literal_int _ rest line hne hds hlen hrest hfrac
  · intro ds fs rest line hne hds hfne hfs hlen hrest
    obtain ⟨c, ds2, rfl⟩ := List.exists_cons_of_ne_nil hne
    rw [List.cons_append, Phase1.scan_token_digit c _ line (hds c (List.mem_cons_self _ _)),
      ← List.cons_append]
    exact Phase1.number_literal_float _ fs rest line hne hds hfne hfs hlen hrest
  · intro ds d rest line hne hds hlen hd
    obtain ⟨c, ds2, rfl⟩ := List.exists_cons_of_ne_nil hne
    rw [List.cons_append, Phase1.scan_token_digit c _ line (hds c (List.mem_cons_self _ _)),
      ← List.cons_append]
    have h := Phase1.number_literal_int (c :: ds2) ('.' :: d :: rest) line hne hds hlen
      (by
        intro x hx
        injection hx with hx
        subst hx
        decide)
      (by
        intro x r hx
        injection hx with _ hx
        injection hx with hx _
        subst hx
        exact hd)
    rw [h]
    rfl
  · intro ds line hne hds hlen
    obtain ⟨c, ds2, rfl⟩ := List.exists_cons_of_ne_nil hne
    rw [List.cons_append, Phase1.scan_token_digit c _ line (hds c (List.mem_cons_self _ _)),
      ← List.cons_append]
    have h := Phase1.number_literal_int (c :: ds2) ['.'] line hne hds hlen
      (by
        intro x hx
        injection hx with hx
        subst hx
        decide)
      (by
        intro x r hx
        injection hx with _ hx
        exact absurd hx (by simp))
    rw [h]
    rfl

/-- C15 at `42;`, `3.14)` and `12.x` on line 5. -/
theorem C15_number_literal_kinds_witness :
    Phase1.scan_token ⟨['4', '2', ';'], 5⟩ = .ok (⟨.TOK_INT_LITERAL, "42", 5⟩, ⟨[';'], 5⟩) ∧
    Phase1.scan_token ⟨['3', '.', '1', '4', ')'], 5⟩ =
      .ok (⟨.TOK_FLOAT_LITERAL, "3.14", 5⟩, ⟨[')'], 5⟩) ∧
    Phase1.scan_token ⟨['1', '2', '.', 'x'], 5⟩ =
      .ok (⟨.TOK_INT_LITERAL, "12", 5⟩, ⟨['.', 'x'], 5⟩) :=
  ⟨C15_number_literal_kinds.1 ['4', '2'] [';'] 5 (by decide) (by decide) (by decide)
     (by intro d hd; injection hd with hd; subst hd; decide)
     (by intro d r hd; exact absurd hd (by simp)),
   C15_number_literal_kinds.2.1 ['3'] ['1', '4'] [')'] 5 (by decide) (by decide) (by decide)
     (by decide) (by decide) (by intro d hd; injection hd with hd; subst hd; decide),
   C15_number_literal_kinds.2.2.1 ['1', '2'] 'x' [] 5 (by decide) (by decide) (by decide)
     (by decide)⟩

/-! ### The lexer on string literals -/

/-- The loop of `string_literal` on a text without quote: it ends at the end of
the input (or on byte 255), never on a quote, and stays inside the buffer. -/
theorem Phase1.string_loop_no_quote (body : List Char) :
    ∀ (line : Nat) (buffer : List Char), '"' ∉ body →
      ∃ buffer2 st2, Phase1.string_loop body line buffer = .ok (buffer2, st2) ∧
        Phase1.peek st2 ≠ some '"' := by
  induction body with
  | nil =>
    intro line buffer _
    exact ⟨_, _, rfl, by simp [Phase1.peek]⟩
  | cons c tail ih =>
    intro line buffer hq
    have hc : c ≠ '"' := fun h => hq (by rw [h]; exact List.mem_cons_self _ _)
    have htail : '"' ∉ tail := fun h => hq (List.mem_cons_of_mem _ h)
    cases tail with
    | nil =>
      rw [Phase1.string_loop]
      by_cases he : Phase1.is_eof_byte c = true
      · refine ⟨_, _, if_pos (Or.inr he), ?_⟩
        simp [Phase1.peek, he]
      · refine ⟨_, _, if_neg (by simp [hc, he]), ?_⟩
        simp [Phase1.peek]
    | cons q rest =>
      have hqn : q ≠ '"' := fun h => htail (by rw [h]; exact List.mem_cons_self _ _)
      rw [Phase1.string_loop]
      by_cases he : Phase1.is_eof_byte c = true
      · refine ⟨_, _, if_pos (Or.inr he), ?_⟩
        simp [Phase1.peek, he]
      · rw [if_neg (by simp [hc, he]), if_neg (fun h => hqn h.2)]
        exact ih _ _ htail

/-- Function `scan_token` on an opening quote after which the input has no
further quote: the unterminated-string error at the line of the opening
quote. -/
theorem Phase1.scan_token_no_quote (body : List Char) (line : Nat) (hq : '"' ∉ body) :
    Phase1.scan_token ⟨'"' :: body, line⟩ =
      .fail (some (line : Int)) "Unterminated string literal" := by
  obtain ⟨buffer2, st2, hloop, hpeek⟩ :=
    Phase1.string_loop_no_quote body (Phase1.line_after body line) ['"'] hq
  have hs : Phase1.string_literal ⟨'"' :: body, line⟩ =
      .fail (some (line : Int)) "Unterminated string literal" := by
    simp only [Phase1.string_literal, hloop]
    rw [if_neg hpeek]
  rw [← hs]
  simp [Phase1.scan_token, Phase1.peek, Phase1.is_eof_byte]

/-- An error of `scan_token` at a place where the lexer starts a token is the
result of the loop of `main`. -/
theorem Phase1.main_loop_fails_at (f : Nat) : ∀ (st s : Phase1.State) (l : Option Int)
    (m : String), s ∈ Phase1.token_starts f st → Phase1.scan_token s = .fail l m →
    Phase1.main_loop f st = .fail l m := by
  induction f with
  | zero =>
    intro st s l m hs _
    rw [Phase1.token_starts] at hs
    exact absurd hs (List.not_mem_nil _)
  | succ f ih =>
    intro st s l m hs hfail
    rw [Phase1.token_starts] at hs
    rw [Phase1.main_loop]
    by_cases hp : Phase1.peek st = none
    · rw [if_pos hp] at hs
      exact absurd hs (List.not_mem_nil _)
    · rw [if_neg hp] at hs
      rw [if_neg hp]
      cases hsk : Phase1.skip_whitespace_and_comments f st with
      | ok st1 =>
        rw [hsk] at hs
        dsimp only at hs ⊢
        by_cases hp1 : Phase1.peek st1 = none
        · rw [if_pos hp1] at hs
          exact absurd hs (List.not_mem_nil _)
        · rw [if_neg hp1] at hs
          rw [if_neg hp1]
          rcases List.mem_cons.1 hs with h | h
          · rw [← h, hfail]
          · cases hsc : Phase1.scan_token st1 with
            | ok p =>
              obtain ⟨tok, st2⟩ := p
              rw [hsc] at h
              dsimp only at h ⊢
              rw [ih st2 s l m h hfail]
            | fail l2 m2 =>
              rw [hsc] at h
              exact absurd h (List.not_mem_nil _)
            | fuel =>
              rw [hsc] at h
              exact absurd h (List.not_mem_nil _)
      | fail l2 m2 =>
        rw [hsk] at hs
        exact absurd hs (List.not_mem_nil _)
      | fuel =>
        rw [hsk] at hs
        exact absurd hs (List.not_mem_nil _)

/-- C17 as stated fails at a string literal that contains a newline: the
source `"a`, newline, `b" 1` has no closing quote before the end of the line of
the opening quote, and the lexer does not abort; it emits one string literal
token whose lexeme contains the newline, and goes on at line 2. -/
theorem C17_newline_inside_string_accepted :
    Phase1.main 100 "\"a\nb\" 1" =
      .ok [⟨.TOK_STRING_LITERAL, "\"a\nb\"", 1⟩, ⟨.TOK_INT_LITERAL, "1", 2⟩,
           ⟨.TOK_EOF, "EOF", 2⟩] := by
  decide

/-- C17, amended: when the lexer starts a token at a `"` (on line `line`) and no
further `"` follows before the end of the input, it aborts with the
unterminated-string error, reported at the line of the opening quote. -/
theorem C17_unterminated_string_aborts (f : Nat) (file : String) (body : List Char)
    (line : Nat)
    (hstart : ⟨'"' :: body, line⟩ ∈ Phase1.token_starts f (Phase1.initial_state file.data))
    (hopen : '"' ∉ body) :
    Phase1.main f file = .fail (some (line : Int)) "Unterminated string literal" := by
  unfold Phase1.main
  rw [Phase1.main_loop_fails_at f _ _ _ _ hstart (Phase1.scan_token_no_quote body line hopen)]

/-- C17, amended, at `x = "abc;`, newline, `y = 1;`: the literal opens on line 1
after two tokens. -/
theorem C17_unterminated_string_aborts_witness :
    (⟨"\"abc;\ny = 1;".data, 1⟩ : Phase1.State) ∈
      Phase1.token_starts 100 (Phase1.initial_state "x = \"abc;\ny = 1;".data) ∧
    '"' ∉ "abc;\ny = 1;".data ∧
    Phase1.main 100 "x = \"abc;\ny = 1;" = .fail (some 1) "Unterminated string literal" :=
  ⟨by decide, by decide,
   C17_unterminated_string_aborts 100 "x = \"abc;\ny = 1;" "abc;\ny = 1;".data 1
     (by decide) (by decide)⟩

/-! ### Line numbers of preprocessor tokens -/

/-- C18, the code at a `#` directly followed by a newline: `main` consumes the
`#` with `advance()` before `preprocess_directive` reads `start_line`, and that
`advance()` has already counted the newline, so the preprocessor token of the
source `#`, newline, `int x;` gets line 2 although its `#` is on line 1.  With
a character between the `#` and the newline the line is right. -/
theorem C18_empty_directive_gets_next_line :
    Phase1.main 100 "#\nint x;" =
      .ok [⟨.TOK_PREPROCESSOR, "", 2⟩, ⟨.TOK_KEYWORD, "int", 2⟩, ⟨.TOK_IDENTIFIER, "x", 2⟩,
           ⟨.TOK_PUNCTUATION, ";", 2⟩, ⟨.TOK_EOF, "EOF", 2⟩] ∧
    Phase1.main 100 "#a\nint x;" =
      .ok [⟨.TOK_PREPROCESSOR, "a", 1⟩, ⟨.TOK_KEYWORD, "int", 2⟩, ⟨.TOK_IDENTIFIER, "x", 2⟩,
           ⟨.TOK_PUNCTUATION, ";", 2⟩, ⟨.TOK_EOF, "EOF", 2⟩] ∧
    (∀ (rest : List Char) (line : Nat),
      Phase1.scan_token ⟨'#' :: '\n' :: rest, line⟩ =
        .ok (⟨.TOK_PREPROCESSOR, "", line + 1⟩, ⟨'\n' :: rest, line + 1⟩)) := by
  refine ⟨by decide, by decide, ?_⟩
  intro rest line
  rfl

/-! ### The lexer terminates -/

/-- Function `advance` never makes the input longer. -/
theorem Phase1.advance_length_le (st : State) :
    (advance st).input.length ≤ st.input.length := by
  unfold advance
  split
  · exact Nat.le_refl _
  · rename_i h
    rw [h]
    simp

/-- Function `advance` makes a non-empty input shorter. -/
theorem Phase1.advance_length_lt (st : State) (h : st.input ≠ []) :
    (advance st).input.length < st.input.length := by
  unfold advance
  split
  · rename_i h2
    exact absurd h2 h
  · rename_i h2
    rw [h2]
    simp

/-- A state with a current character has a non-empty input. -/
theorem Phase1.peek_some_ne_nil (st : State) (c : Char) (h : peek st = some c) :
    st.input ≠ [] := by
  intro h2
  simp [peek, h2] at h

/-- The loop over white space never makes the input longer. -/
theorem Phase1.skip_spaces_length (input : List Char) :
    ∀ line, (skip_spaces input line).input.length ≤ input.length := by
  induction input with
  | nil => intro line; simp [skip_spaces]
  | cons c rest ih =>
    intro line
    rw [skip_spaces]
    split
    · exact Nat.le_trans (ih _) (by simp)
    · simp

/-- The loop over a line comment never makes the input longer. -/
theorem Phase1.skip_line_length (input : List Char) :
    ∀ line, (skip_line input line).input.length ≤ input.length := by
  induction input with
  | nil => intro line; simp [skip_line]
  | cons c rest ih =>
    intro line
    rw [skip_line]
    split
    · simp
    · exact Nat.le_trans (ih _) (by simp)

/-- The loop over a block comment never makes the input longer. -/
theorem Phase1.skip_block_length (input : List Char) :
    ∀ line st, skip_block input line = .ok st → st.input.length ≤ input.length := by
  induction input with
  | nil => intro line st h; simp [skip_block] at h
  | cons c rest ih =>
    intro line st h
    rw [skip_block] at h
    split at h
    · injection h with h
      subst h
      simp
    · split at h
      · exact absurd h (by simp)
      · exact Nat.le_trans (ih _ _ h) (by simp)

/-- Function `skip_whitespace_and_comments` never makes the input longer. -/
theorem Phase1.skip_length (f : Nat) :
    ∀ st st2, skip_whitespace_and_comments f st = .ok st2 →
      st2.input.length ≤ st.input.length := by
  induction f with
  | zero => intro st st2 h; simp [skip_whitespace_and_comments] at h
  | succ f ih =>
    intro st st2 h
    have h1 := Phase1.skip_spaces_length st.input st.line_number
    rw [skip_whitespace_and_comments] at h
    dsimp only at h
    split at h
    · injection h with h
      subst h
      exact h1
    · split at h
      · have h2 := ih _ _ h
        have h3 := Phase1.skip_line_length
          (advance (advance (skip_spaces st.input st.line_number))).input
          (advance (advance (skip_spaces st.input st.line_number))).line_number
        have h4 := Phase1.advance_length_le (advance (skip_spaces st.input st.line_number))
        have h5 := Phase1.advance_length_le (skip_spaces st.input st.line_number)
        omega
      · split at h
        · split at h
          · rename_i st3 hb
            have h2 := ih _ _ h
            have h3 := Phase1.skip_block_length _ _ _ hb
            have h4 := Phase1.advance_length_le (advance (skip_spaces st.input st.line_number))
            have h5 := Phase1.advance_length_le (skip_spaces st.input st.line_number)
            have h6 := Phase1.advance_length_le (advance st3)
            have h7 := Phase1.advance_length_le st3
            omega
          · exact absurd h (by simp)
          · exact absurd h (by simp)
        · injection h with h
          subst h
          exact h1

/-- Function `skip_whitespace_and_comments` returns or aborts: its outer loop
runs at most once per character of the input. -/
theorem Phase1.skip_terminates (f : Nat) :
    ∀ st, st.input.length < f → skip_whitespace_and_comments f st ≠ .fuel := by
  induction f with
  | zero => intro st h; exact absurd h (Nat.not_lt_zero _)
  | succ f ih =>
    intro st hlen
    have h1 := Phase1.skip_spaces_length st.input st.line_number
    rw [skip_whitespace_and_comments]
    dsimp only
    split
    · simp
    · rename_i hp
      have hne : (skip_spaces st.input st.line_number).input ≠ [] := by
        intro h0
        exact hp (by simp [peek, h0])
      have h5 := Phase1.advance_length_lt (skip_spaces st.input st.line_number) hne
      have h4 := Phase1.advance_length_le (advance (skip_spaces st.input st.line_number))
      split
      · apply ih
        have h3 := Phase1.skip_line_length
          (advance (advance (skip_spaces st.input st.line_number))).input
          (advance (advance (skip_spaces st.input st.line_number))).line_number
        omega
      · split
        · split
          · rename_i st3 hb
            apply ih
            have h3 := Phase1.skip_block_length _ _ _ hb
            have h6 := Phase1.advance_length_le (advance st3)
            have h7 := Phase1.advance_length_le st3
            omega
          · simp
          · rename_i hb
            exfalso
            revert hb
            generalize (advance (advance (skip_spaces st.input st.line_number))).input = inp
            generalize (advance (advance (skip_spaces st.input st.line_number))).line_number = ln
            intro hb
            induction inp generalizing ln with
            | nil => simp [skip_block] at hb
            | cons c rest ihb =>
              rw [skip_block] at hb
              split at hb
              · exact absurd hb (by simp)
              · split at hb
                · exact absurd hb (by simp)
                · exact ihb _ hb
        · simp

/-- The loop of `preprocess_directive` never makes the input longer. -/
theorem Phase1.directive_loop_length (input : List Char) :
    ∀ line buffer, (directive_loop input line buffer).2.input.length ≤ input.length := by
  induction input with
  | nil => intro line buffer; simp [directive_loop]
  | cons c rest ih =>
    intro line buffer
    rw [directive_loop]
    split
    · simp
    · exact Nat.le_trans (ih _ _) (by simp)

/-- The loop of `identifier_or_keyword` never makes the input longer. -/
theorem Phase1.identifier_loop_length (input : List Char) :
    ∀ line buffer, (identifier_loop input line buffer).2.input.length ≤ input.length := by
  induction input with
  | nil => intro line buffer; simp [identifier_loop]
  | cons c rest ih =>
    intro line buffer
    rw [identifier_loop]
    split
    · exact Nat.le_trans (ih _ _) (by simp)
    · simp

/-- The digit loop never makes the input longer. -/
theorem Phase1.digit_loop_length (input : List Char) :
    ∀ line buffer, (digit_loop input line buffer).2.input.length ≤ input.length := by
  induction input with
  | nil => intro line buffer; simp [digit_loop]
  | cons c rest ih =>
    intro line buffer
    rw [digit_loop]
    split
    · exact Nat.le_trans (ih _ _) (by simp)
    · simp

/-- The loop of `string_literal` never makes the input longer. -/
theorem Phase1.string_loop_length (n : Nat) :
    ∀ (input : List Char) (line : Nat) (buffer buffer2 : List Char) (st2 : State),
      input.length ≤ n → string_loop input line buffer = .ok (buffer2, st2) →
      st2.input.length ≤ input.length := by
  induction n using Nat.strong_induction_on with
  | _ n ih =>
    intro input line buffer buffer2 st2 hn h
    match input, hn, h with
    | [], _, h =>
      simp only [string_loop, Outcome.ok.injEq, Prod.mk.injEq] at h
      rw [← h.2]
    | [c], _, h =>
      rw [string_loop] at h
      split at h
      · simp only [Outcome.ok.injEq, Prod.mk.injEq] at h
        rw [← h.2]
      · simp only [Outcome.ok.injEq, Prod.mk.injEq] at h
        rw [← h.2]
        simp
    | c :: q :: rest, hn, h =>
      rw [string_loop] at h
      simp only [List.length_cons] at hn ⊢
      split at h
      · simp only [Outcome.ok.injEq, Prod.mk.injEq] at h
        rw [← h.2]
        simp
      · split at h
        · split at h
          · exact absurd h (by simp [buffer_overflow])
          · have := ih rest.length (by omega) rest _ _ _ _ (Nat.le_refl _) h
            omega
        · have := ih (rest.length + 1) (by omega) (q :: rest) _ _ _ _ (by simp) h
          simp only [List.length_cons] at this
          omega

/-- Function `make_token` keeps the type it is given. -/
theorem Phase1.make_token_type (type : TokenType) (lexeme : List Char) (line : Nat) :
    (make_token type lexeme line).type = type := rfl

/-- One round of the loop of `main`: the token read is not an EOF token and
the input has become shorter. -/
theorem Phase1.scan_token_progress (st st2 : State) (tok : Token) (c : Char)
    (hp : peek st = some c) (h : scan_token st = .ok (tok, st2)) :
    tok.type ≠ .TOK_EOF ∧ st2.input.length < st.input.length := by
  have hne := Phase1.peek_some_ne_nil st c hp
  have hadv := Phase1.advance_length_lt st hne
  obtain ⟨input, line⟩ := st
  obtain ⟨c0, rest, rfl⟩ := List.exists_cons_of_ne_nil hne
  have hc0 : c0 = c := by
    simp only [peek] at hp
    split at hp
    · exact absurd hp (by simp)
    · simpa using hp
  subst hc0
  rw [scan_token, hp] at h
  dsimp only at h
  split at h
  · -- preprocessor directive
    simp only [preprocess_directive, Outcome.ok.injEq, Prod.mk.injEq] at h
    obtain ⟨h1, h2⟩ := h
    subst h1 h2
    refine ⟨by simp [Phase1.make_token_type], ?_⟩
    have := Phase1.directive_loop_length (advance ⟨c0 :: rest, line⟩).input
      (advance ⟨c0 :: rest, line⟩).line_number []
    omega
  · split at h
    · -- string literal
      simp only [string_literal] at h
      split at h
      · rename_i buffer st1 hloop
        split at h
        · split at h
          · exact absurd h (by simp [buffer_overflow])
          · simp only [Outcome.ok.injEq, Prod.mk.injEq] at h
            obtain ⟨h1, h2⟩ := h
            subst h1 h2
            refine ⟨by simp [Phase1.make_token_type], ?_⟩
            have h3 := Phase1.string_loop_length rest.length rest _ _ _ _ (Nat.le_refl _) hloop
            have h4 := Phase1.advance_length_le st1
            simp only [List.length_cons]
            omega
        · exact absurd h (by simp)
      · exact absurd h (by simp)
      · exact absurd h (by simp)
    · split at h
      · -- identifier or keyword
        rename_i hid
        have hid2 : (isalnum c0 || decide (c0 = '_')) = true := by
          simp only [Bool.or_eq_true, decide_eq_true_eq] at hid ⊢
          rcases hid with h1 | h1
          · exact Or.inl (by simp [isalnum, h1])
          · exact Or.inr h1
        have hlen := Phase1.identifier_loop_length rest (line_after rest line)
          (store_guarded [] c0)
        simp only [identifier_or_keyword, identifier_loop, hid2, if_true] at h
        split at h
        · simp only [Outcome.ok.injEq, Prod.mk.injEq] at h
          obtain ⟨h1, h2⟩ := h
          subst h1 h2
          refine ⟨by simp [Phase1.make_token_type], ?_⟩
          simp only [List.length_cons]
          omega
        · simp only [Outcome.ok.injEq, Prod.mk.injEq] at h
          obtain ⟨h1, h2⟩ := h
          subst h1 h2
          refine ⟨by simp [Phase1.make_token_type], ?_⟩
          simp only [List.length_cons]
          omega
      · split at h
        · -- number literal
          rename_i hdg
          have hlen := Phase1.digit_loop_length rest (line_after rest line) ([] ++ [c0])
          simp only [number_literal, digit_loop, hdg, if_true] at h
          have h3 := Phase1.digit_loop_length
            (advance (digit_loop rest (line_after rest line) ([] ++ [c0])).2).input
            (advance (digit_loop rest (line_after rest line) ([] ++ [c0])).2).line_number
            ((digit_loop rest (line_after rest line) ([] ++ [c0])).1 ++ ['.'])
          have h4 := Phase1.advance_length_le
            (digit_loop rest (line_after rest line) ([] ++ [c0])).2
          split at h
          · split at h
            · exact absurd h (by simp [buffer_overflow])
            · simp only [Outcome.ok.injEq, Prod.mk.injEq] at h
              obtain ⟨h1, h2⟩ := h
              subst h1 h2
              refine ⟨by simp [Phase1.make_token_type], ?_⟩
              simp only [List.length_cons]
              omega
          · split at h
            · exact absurd h (by simp [buffer_overflow])
            · simp only [Outcome.ok.injEq, Prod.mk.injEq] at h
              obtain ⟨h1, h2⟩ := h
              subst h1 h2
              refine ⟨by simp [Phase1.make_token_type], ?_⟩
              simp only [List.length_cons]
              omega
        · -- operator or punctuation
          have hadv2 := Phase1.advance_length_le (advance ⟨c0 :: rest, line⟩)
          simp only [operator_or_punctuation, hp] at h
          split at h
          · split at h
            · simp only [Outcome.ok.injEq, Prod.mk.injEq] at h
              obtain ⟨h1, h2⟩ := h
              subst h1 h2
              exact ⟨by simp [Phase1.make_token_type], by omega⟩
            · simp only [Outcome.ok.injEq, Prod.mk.injEq] at h
              obtain ⟨h1, h2⟩ := h
              subst h1 h2
              exact ⟨by simp [Phase1.make_token_type], by omega⟩
          · split at h
            · simp only [Outcome.ok.injEq, Prod.mk.injEq] at h
              obtain ⟨h1, h2⟩ := h
              subst h1 h2
              exact ⟨by simp [Phase1.make_token_type], by omega⟩
            · split at h
              · simp only [Outcome.ok.injEq, Prod.mk.injEq] at h
                obtain ⟨h1, h2⟩ := h
                subst h1 h2
                exact ⟨by simp [Phase1.make_token_type], by omega⟩
              · exact absurd h (by simp)

/-- The loop of `string_literal` is a loop over the input: it returns or
aborts. -/
theorem Phase1.string_loop_returns (n : Nat) :
    ∀ (input : List Char) (line : Nat) (buffer : List Char),
      input.length ≤ n → string_loop input line buffer ≠ .fuel := by
  induction n using Nat.strong_induction_on with
  | _ n ih =>
    intro input line buffer hn
    match input, hn with
    | [], _ => simp [string_loop]
    | [c], _ =>
      rw [string_loop]
      split <;> simp
    | c :: q :: rest, hn =>
      rw [string_loop]
      simp only [List.length_cons] at hn
      split
      · simp
      · split
        · split
          · simp [buffer_overflow]
          · exact ih rest.length (by omega) rest _ _ (Nat.le_refl _)
        · exact ih (rest.length + 1) (by omega) (q :: rest) _ _ (by simp)

/-- Reading one token returns or aborts. -/
theorem Phase1.scan_token_returns (st : State) : scan_token st ≠ .fuel := by
  have hop : operator_or_punctuation st ≠ .fuel := by
    unfold operator_or_punctuation
    dsimp only
    split
    · simp
    · split
      · split <;> simp
      · split
        · simp
        · split <;> simp
  have hstr : string_literal st ≠ .fuel := by
    unfold string_literal
    dsimp only
    split
    · simp
    · split
      · split
        · split
          · simp [buffer_overflow]
          · simp
        · simp
      · simp
      · rename_i hloop
        exact absurd hloop (Phase1.string_loop_returns _ _ _ _ (Nat.le_refl _))
  unfold scan_token
  split
  · exact hop
  · split
    · simp [preprocess_directive]
    · split
      · exact hstr
      · split
        · unfold identifier_or_keyword
          dsimp only
          split <;> simp
        · split
          · unfold number_literal
            dsimp only
            split <;> split <;> simp [buffer_overflow]
          · exact hop

/-- The tokens the main loop collects are never EOF tokens. -/
theorem Phase1.main_loop_no_eof (f : Nat) :
    ∀ (st : State) (toks : List Token) (st2 : State),
      main_loop f st = .ok (toks, st2) → ∀ t ∈ toks, t.type ≠ .TOK_EOF := by
  induction f with
  | zero => intro st toks st2 h; simp [main_loop] at h
  | succ f ih =>
    intro st toks st2 h
    rw [main_loop] at h
    split at h
    · simp only [Outcome.ok.injEq, Prod.mk.injEq] at h
      rw [← h.1]
      simp
    · split at h
      · split at h
        · simp only [Outcome.ok.injEq, Prod.mk.injEq] at h
          rw [← h.1]
          simp
        · rename_i st1 _ hp1
          split at h
          · rename_i tok st3 hscan
            split at h
            · rename_i toks2 st4 hrec
              simp only [Outcome.ok.injEq, Prod.mk.injEq] at h
              rw [← h.1]
              intro t ht
              rcases List.mem_cons.1 ht with ht | ht
              · subst ht
                cases hq : peek st1 with
                | none => exact absurd hq hp1
                | some c => exact (Phase1.scan_token_progress st1 st3 t c hq hscan).1
              · exact ih _ _ _ hrec t ht
            · exact absurd h (by simp)
            · exact absurd h (by simp)
          · exact absurd h (by simp)
          · exact absurd h (by simp)
      · exact absurd h (by simp)
      · exact absurd h (by simp)

/-- The main loop returns or aborts when the fuel exceeds the length of the
input by more than one: every round that reads a token shortens the input. -/
theorem Phase1.main_loop_terminates (f : Nat) :
    ∀ (st : State), st.input.length + 1 < f → main_loop f st ≠ .fuel := by
  induction f with
  | zero => intro st h; exact absurd h (Nat.not_lt_zero _)
  | succ f ih =>
    intro st hlen
    rw [main_loop]
    split
    · simp
    · split
      · rename_i st1 hskip
        have h1 := Phase1.skip_length f st st1 hskip
        split
        · simp
        · rename_i hp1
          split
          · rename_i tok st3 hscan
            have h2 : st3.input.length < st1.input.length := by
              cases hq : peek st1 with
              | none => exact absurd hq hp1
              | some c => exact (Phase1.scan_token_progress st1 st3 tok c hq hscan).2
            have h3 := ih st3 (by omega)
            split
            · simp
            · simp
            · rename_i hrec
              exact absurd hrec h3
          · simp
          · rename_i hscan
            exact absurd hscan (Phase1.scan_token_returns st1)
      · simp
      · rename_i hskip
        exact absurd hskip (Phase1.skip_terminates f st (by omega))

/-- More fuel does not change what `skip_whitespace_and_comments` returns. -/
theorem Phase1.skip_stable (f : Nat) :
    ∀ (g : Nat) (st : State), f ≤ g → skip_whitespace_and_comments f st ≠ .fuel →
      skip_whitespace_and_comments g st = skip_whitespace_and_comments f st := by
  induction f with
  | zero => intro g st _ h; exact absurd rfl h
  | succ f ih =>
    intro g st hle h
    obtain ⟨g2, rfl⟩ : ∃ g2, g = g2 + 1 := ⟨g - 1, by omega⟩
    rw [skip_whitespace_and_comments] at h
    rw [skip_whitespace_and_comments, skip_whitespace_and_comments]
    dsimp only at h ⊢
    split at h
    · rename_i h1
      rw [if_pos h1, if_pos h1]
    · rename_i h1
      rw [if_neg h1, if_neg h1]
      split at h
      · rename_i h2
        rw [if_pos h2, if_pos h2]
        exact ih _ _ (by omega) h
      · rename_i h2
        rw [if_neg h2, if_neg h2]
        split at h
        · rename_i h3
          rw [if_pos h3, if_pos h3]
          split at h
          · rename_i st3 hb
            exact ih _ _ (by omega) h
          · rename_i l m hb
            rfl
          · exact absurd rfl h
        · rename_i h3
          rw [if_neg h3, if_neg h3]

/-- More fuel does not change what the main loop returns. -/
theorem Phase1.main_loop_stable (f : Nat) :
    ∀ (g : Nat) (st : State), f ≤ g → main_loop f st ≠ .fuel →
      main_loop g st = main_loop f st := by
  induction f with
  | zero => intro g st _ h; exact absurd rfl h
  | succ f ih =>
    intro g st hle h
    obtain ⟨g2, rfl⟩ : ∃ g2, g = g2 + 1 := ⟨g - 1, by omega⟩
    rw [main_loop] at h
    rw [main_loop, main_loop]
    split at h
    · rename_i h1
      rw [if_pos h1, if_pos h1]
    · rename_i h1
      rw [if_neg h1, if_neg h1]
      split at h
      · rename_i st1 hskip
        have hskip2 : skip_whitespace_and_comments g2 st = .ok st1 := by
          rw [Phase1.skip_stable f g2 st (by omega) (by simp [hskip]), hskip]
        simp only [hskip, hskip2]
        split at h
        · rename_i h2
          rw [if_pos h2, if_pos h2]
        · rename_i h2
          rw [if_neg h2, if_neg h2]
          split at h
          · rename_i tok st3 hscan
            split at h
            · rename_i toks st4 hrec
              rw [ih g2 st3 (by omega) (by simp [hrec]), hrec]
            · rename_i l m hrec
              rw [ih g2 st3 (by omega) (by simp [hrec]), hrec]
            · exact absurd rfl h
          · rename_i l m hscan
            rfl
          · exact absurd rfl h
      · rename_i l m hskip
        have hskip2 : skip_whitespace_and_comments g2 st = .fail l m := by
          rw [Phase1.skip_stable f g2 st (by omega) (by simp [hskip]), hskip]
        simp only [hskip, hskip2]
      · exact absurd rfl h

/-- C14: with fuel that exceeds the length of the input by more than one, the
lexer returns or aborts, and it does the same with any larger fuel; when it
does not abort, its token sequence is a sequence of tokens none of which is an
EOF token, followed by exactly one EOF token. -/
theorem C14_lexer_terminates_with_one_eof (file : String) (fuel : Nat)
    (h : file.length + 1 < fuel) :
    Phase1.main fuel file ≠ .fuel ∧
    (∀ fuel2, fuel ≤ fuel2 → Phase1.main fuel2 file = Phase1.main fuel file) ∧
    (∀ toks, Phase1.main fuel file = .ok toks →
      ∃ body line, toks = body ++ [⟨.TOK_EOF, "EOF", line⟩] ∧
        ∀ t ∈ body, t.type ≠ .TOK_EOF) := by
  have hterm : Phase1.main_loop fuel (Phase1.initial_state file.data) ≠ .fuel :=
    Phase1.main_loop_terminates fuel _ h
  refine ⟨?_, ?_, ?_⟩
  · unfold Phase1.main
    split
    · simp
    · simp
    · rename_i hloop
      exact absurd hloop hterm
  · intro fuel2 hle
    unfold Phase1.main
    rw [Phase1.main_loop_stable fuel fuel2 _ hle hterm]
  · intro toks hmain
    unfold Phase1.main at hmain
    split at hmain
    · rename_i body st hloop
      simp only [Outcome.ok.injEq] at hmain
      exact ⟨body, st.line_number, hmain.symm, Phase1.main_loop_no_eof fuel _ _ _ hloop⟩
    · exact absurd hmain (by simp)
    · exact absurd hmain (by simp)

/-- C14 at the source `int x;  // c` with fuel 20. -/
theorem C14_lexer_terminates_with_one_eof_witness :
    Phase1.main 20 "int x;  // c" ≠ .fuel ∧
    (∀ fuel2, 20 ≤ fuel2 → Phase1.main fuel2 "int x;  // c" = Phase1.main 20 "int x;  // c") ∧
    (∀ toks, Phase1.main 20 "int x;  // c" = .ok toks →
      ∃ body line, toks = body ++ [⟨.TOK_EOF, "EOF", line⟩] ∧
        ∀ t ∈ body, t.type ≠ .TOK_EOF) :=
  C14_lexer_terminates_with_one_eof "int x;  // c" 20 (by decide)

/-! ### The indentation of the serialized AST -/

theorem Outcome.sat_ok {α : Type} {P : α → Prop} {a : α} (h : P a) :
    Outcome.Sat P (.ok a) := by
  intro b hb
  injection hb with hb
  subst hb
  exact h

/-- A run that aborts satisfies every `Sat P`. -/
theorem Outcome.sat_fail {α : Type} {P : α → Prop} {l : Option Int} {m : String} :
    Outcome.Sat P (.fail l m) := by
  intro b hb
  exact absurd hb (by simp)

/-- A run that is out of fuel satisfies every `Sat P`. -/
theorem Outcome.sat_fuel {α : Type} {P : α → Prop} :
    Outcome.Sat P (.fuel : Outcome α) := by
  intro b hb
  exact absurd hb (by simp)

/-- The rule for sequencing: what the first run returns satisfies `Q`, and from
every such value the second run satisfies `Sat P`. -/
theorem Outcome.sat_bind {α β : Type} {Q : α → Prop} {P : β → Prop} {x : Outcome α}
    {f : α → Outcome β} (hx : Outcome.Sat Q x) (hf : ∀ a, Q a → Outcome.Sat P (f a)) :
    Outcome.Sat P (x >>= f) := by
  cases x with
  | ok a =>
    simp only [Outcome.ok_bind]
    exact hf a (hx a rfl)
  | fail l m =>
    simp only [Outcome.fail_bind]
    exact Outcome.sat_fail
  | fuel =>
    simp only [Outcome.fuel_bind]
    exact Outcome.sat_fuel

/-- Clean tokens stay clean when the first is dropped. -/
theorem Phase2.clean_tokens_tail (t : Token) (r : Cursor) (h : clean_tokens (t :: r)) :
    clean_tokens r := fun x hx => h x (List.mem_cons_of_mem _ hx)

/-- The first of clean tokens has a clean lexeme. -/
theorem Phase2.clean_tokens_head (t : Token) (r : Cursor) (h : clean_tokens (t :: r))
    (ht : carries_text t = true) : clean_text t.lexeme = true :=
  h t (List.mem_cons_self _ _) ht

/-- An identifier token carries text. -/
theorem Phase2.carries_identifier (t : Token) (h : t.type = TOK_IDENTIFIER) :
    carries_text t = true := by
  simp [carries_text, h]

/-- A number token carries text. -/
theorem Phase2.carries_number (t : Token)
    (h : t.type = TOK_INT_LITERAL ∨ t.type = TOK_FLOAT_LITERAL) :
    carries_text t = true := by
  rcases h with h | h <;> simp [carries_text, h]

/-- A token recognised by type and lexeme has that lexeme. -/
theorem Phase2.lexeme_of_is (t : Token) (ty : TokenType) (lex : String)
    (h : t.is ty lex = true) : t.lexeme = lex := by
  simp only [Token.is, Bool.and_eq_true, decide_eq_true_eq] at h
  exact h.2

/-- The type keyword that opens a declaration has a clean lexeme. -/
theorem Phase2.is_decl_start_clean (t : Token) (h : is_decl_start t = true) :
    clean_text t.lexeme = true := by
  simp only [is_decl_start, Bool.or_eq_true] at h
  rcases h with h | h <;> rw [Phase2.lexeme_of_is _ _ _ h] <;> decide

/-- The type keyword of a cast has a clean lexeme. -/
theorem Phase2.is_cast_start_clean (t t1 : Token) (rest : Cursor)
    (h : is_cast_start (t :: t1 :: rest) = true) : clean_text t1.lexeme = true := by
  cases rest with
  | nil => simp [is_cast_start] at h
  | cons t2 r =>
    simp only [is_cast_start, Bool.and_eq_true, Bool.or_eq_true] at h
    rcases h.1.2 with h1 | h1 <;> rw [Phase2.lexeme_of_is _ _ _ h1] <;> decide

/-- The operators of `parse_term` have clean lexemes. -/
theorem Phase2.is_mul_op_clean (t : Token) (h : is_mul_op t = true) :
    clean_text t.lexeme = true := by
  simp only [is_mul_op, Bool.and_eq_true, Bool.or_eq_true, decide_eq_true_eq] at h
  rcases h.2 with (h1 | h1) | h1 <;> rw [h1] <;> decide

/-- The operators of `parse_add_sub` have clean lexemes. -/
theorem Phase2.is_add_op_clean (t : Token) (h : is_add_op t = true) :
    clean_text t.lexeme = true := by
  simp only [is_add_op, Bool.and_eq_true, Bool.or_eq_true, decide_eq_true_eq] at h
  rcases h.2 with h1 | h1 <;> rw [h1] <;> decide

/-- The operators of `parse_comparison` have clean lexemes. -/
theorem Phase2.is_cmp_op_clean (t : Token) (h : is_cmp_op t = true) :
    clean_text t.lexeme = true := by
  simp only [is_cmp_op, Bool.and_eq_true, Bool.or_eq_true, decide_eq_true_eq] at h
  rcases h.2 with ((((h1 | h1) | h1) | h1) | h1) | h1 <;> rw [h1] <;> decide

/-- Function `expect_token` leaves clean tokens. -/
theorem Phase2.expect_token_sat (ty : TokenType) (lex : String) (toks : Cursor)
    (h : clean_tokens toks) : Outcome.Sat clean_tokens (expect_token ty lex toks) := by
  unfold expect_token
  split
  · exact Outcome.sat_fail
  · split
    · exact Outcome.sat_ok (Phase2.clean_tokens_tail _ _ h)
    · exact Outcome.sat_fail

/-- Function `expect_keyword` leaves clean tokens. -/
theorem Phase2.expect_keyword_sat (kw : String) (toks : Cursor)
    (h : clean_tokens toks) : Outcome.Sat clean_tokens (expect_keyword kw toks) := by
  unfold expect_keyword
  split
  · exact Outcome.sat_fail
  · split
    · exact Outcome.sat_ok (Phase2.clean_tokens_tail _ _ h)
    · exact Outcome.sat_fail

/-- A text has no newline when its two parts have none. -/
theorem Phase2.no_newline_append (a b : List Char) :
    no_newline (a ++ b) = (no_newline a && no_newline b) := by
  simp [no_newline, List.all_append]

/-- A cut text has no newline when the text has none. -/
theorem Phase2.no_newline_take (n : Nat) (a : List Char) (h : no_newline a = true) :
    no_newline (a.take n) = true := by
  simp only [no_newline, List.all_eq_true] at h ⊢
  exact fun c hc => h c (List.mem_of_mem_take hc)

/-- A cut text does not begin with a space when the text does not. -/
theorem Phase2.no_leading_space_take (n : Nat) (a : List Char) (h : no_leading_space a = true) :
    no_leading_space (a.take n) = true := by
  cases a with
  | nil => simp [no_leading_space]
  | cons c r =>
    cases n with
    | zero => simp [no_leading_space]
    | succ n => simpa [no_leading_space] using h

/-- Cutting a clean text keeps it clean. -/
theorem Phase2.clean_strncpy (n : Nat) (s : String) (h : clean_text s = true) :
    clean_text (CStr.strncpy n s) = true := by
  simp only [clean_text, Bool.and_eq_true, CStr.strncpy] at h ⊢
  exact ⟨Phase2.no_newline_take n _ h.1, Phase2.no_leading_space_take n _ h.2⟩

/-- A clean non-empty text followed by a text without newline is clean. -/
theorem Phase2.clean_append (p s : String) (hp : clean_text p = true) (hne : p.data ≠ [])
    (hs : no_newline s.data = true) : clean_text (p ++ s) = true := by
  simp only [clean_text, Bool.and_eq_true, String.data_append, Phase2.no_newline_append] at hp ⊢
  refine ⟨⟨hp.1, hs⟩, ?_⟩
  obtain ⟨c, r, hc⟩ := List.exists_cons_of_ne_nil hne
  rw [hc] at hp ⊢
  simpa [no_leading_space] using hp.2

/-- A clean text has no newline. -/
theorem Phase2.clean_no_newline (s : String) (h : clean_text s = true) :
    no_newline s.data = true := by
  simp only [clean_text, Bool.and_eq_true] at h
  exact h.1

/-- Function `strncpy` adds no newline. -/
theorem Phase2.no_newline_strncpy (n : Nat) (s : String) (h : no_newline s.data = true) :
    no_newline (CStr.strncpy n s).data = true :=
  Phase2.no_newline_take n _ h

/-- A string has no newline when its two parts have none. -/
theorem Phase2.no_newline_string_append (a b : String) :
    no_newline (a ++ b).data = (no_newline a.data && no_newline b.data) := by
  rw [String.data_append, Phase2.no_newline_append]

/-- A new node with a clean text, of a kind other than Program, is good. -/
theorem Phase2.good_new_node (kind : NodeKind) (s : String) (hk : kind ≠ NODE_PROGRAM)
    (hs : clean_text s = true) : good_node (ast_new_node kind (some s)) = true := by
  simp [ast_new_node, good_node, good_list, hk, Phase2.clean_strncpy 63 s hs]

/-- Two lists of good trees, one after the other, are a list of good trees. -/
theorem Phase2.good_list_append (a b : List ASTNode) :
    good_list (a ++ b) = (good_list a && good_list b) := by
  induction a with
  | nil => simp [good_list]
  | cons x xs ih => simp [good_list, ih, Bool.and_assoc]

/-- Appending a good child to a good node gives a good node. -/
theorem Phase2.good_append (p c : ASTNode) (hp : good_node p = true) (hc : good_node c = true) :
    good_node (node_list_append p c) = true := by
  obtain ⟨k, t, cs⟩ := p
  simp only [node_list_append, good_node, Bool.and_eq_true, Phase2.good_list_append,
    good_list] at hp ⊢
  exact ⟨hp.1, hp.2, hc, trivial⟩

/-- A clean non-empty beginning followed by texts without newline stays a
clean non-empty beginning. -/
theorem Phase2.clean_begin_append (p s : String)
    (hp : clean_text p = true ∧ p.data ≠ []) (hs : no_newline s.data = true) :
    clean_text (p ++ s) = true ∧ (p ++ s).data ≠ [] := by
  refine ⟨Phase2.clean_append p s hp.1 hp.2 hs, ?_⟩
  rw [String.data_append]
  intro h
  exact hp.2 (List.append_eq_nil.1 h).1

/-- The text of a binary operator node made from a clean lexeme is clean. -/
theorem Phase2.clean_binop_text (lexeme : String) (h : clean_text lexeme = true) :
    clean_text (binop_text lexeme) = true := by
  unfold binop_text
  apply Phase2.clean_strncpy
  exact (Phase2.clean_begin_append _ ")"
    (Phase2.clean_begin_append "BinOp(" lexeme ⟨by decide, by decide⟩
      (Phase2.clean_no_newline _ h)) (by decide)).1

/-- A binary operator node over good operands, with a clean text, is good. -/
theorem Phase2.good_binop_node (text : String) (l r : ASTNode) (ht : clean_text text = true)
    (hl : good_node l = true) (hr : good_node r = true) :
    good_node (binop_node text l r) = true := by
  unfold binop_node
  exact Phase2.good_append _ _
    (Phase2.good_append _ _ (Phase2.good_new_node _ _ (by decide) ht) hl) hr

/-- The invariant of the expression parser at one amount of fuel: every
function returns a good node and leaves clean tokens, given clean tokens (and,
for the loops, a good node to extend). -/
theorem Phase2.expression_kept (f : Nat) :
    (∀ toks, clean_tokens toks → Outcome.Sat Kept (parse_factor f toks)) ∧
    (∀ toks, clean_tokens toks → Outcome.Sat Kept (parse_function_call f toks)) ∧
    (∀ call toks, good_node call = true → clean_tokens toks →
      Outcome.Sat Kept (parse_call_args f call toks)) ∧
    (∀ toks, clean_tokens toks → Outcome.Sat Kept (parse_term f toks)) ∧
    (∀ node toks, good_node node = true → clean_tokens toks →
      Outcome.Sat Kept (parse_term_loop f node toks)) ∧
    (∀ toks, clean_tokens toks → Outcome.Sat Kept (parse_add_sub f toks)) ∧
    (∀ node toks, good_node node = true → clean_tokens toks →
      Outcome.Sat Kept (parse_add_sub_loop f node toks)) ∧
    (∀ toks, clean_tokens toks → Outcome.Sat Kept (parse_comparison f toks)) ∧
    (∀ node toks, good_node node = true → clean_tokens toks →
      Outcome.Sat Kept (parse_comparison_loop f node toks)) ∧
    (∀ toks, clean_tokens toks → Outcome.Sat Kept (parse_logical_and f toks)) ∧
    (∀ node toks, good_node node = true → clean_tokens toks →
      Outcome.Sat Kept (parse_logical_and_loop f node toks)) ∧
    (∀ toks, clean_tokens toks → Outcome.Sat Kept (parse_logical_or f toks)) ∧
    (∀ node toks, good_node node = true → clean_tokens toks →
      Outcome.Sat Kept (parse_logical_or_loop f node toks)) := by
  induction f with
  | zero =>
    refine ⟨?_, ?_, ?_, ?_, ?_, ?_, ?_, ?_, ?_, ?_, ?_, ?_, ?_⟩
    · intro toks _; rw [parse_factor]; exact Outcome.sat_fuel
    · intro toks _; rw [parse_function_call]; exact Outcome.sat_fuel
    · intro call toks _ _; rw [parse_call_args]; exact Outcome.sat_fuel
    · intro toks _; rw [parse_term]; exact Outcome.sat_fuel
    · intro node toks _ _; rw [parse_term_loop]; exact Outcome.sat_fuel
    · intro toks _; rw [parse_add_sub]; exact Outcome.sat_fuel
    · intro node toks _ _; rw [parse_add_sub_loop]; exact Outcome.sat_fuel
    · intro toks _; rw [parse_comparison]; exact Outcome.sat_fuel
    · intro node toks _ _; rw [parse_comparison_loop]; exact Outcome.sat_fuel
    · intro toks _; rw [parse_logical_and]; exact Outcome.sat_fuel
    · intro node toks _ _; rw [parse_logical_and_loop]; exact Outcome.sat_fuel
    · intro toks _; rw [parse_logical_or]; exact Outcome.sat_fuel
    · intro node toks _ _; rw [parse_logical_or_loop]; exact Outcome.sat_fuel
  | succ f ih =>
    obtain ⟨ih_factor, ih_call, ih_args, ih_term, ih_term_loop, ih_add, ih_add_loop, ih_cmp,
      ih_cmp_loop, ih_and, ih_and_loop, ih_or, ih_or_loop⟩ := ih
    refine ⟨?_, ?_, ?_, ?_, ?_, ?_, ?_, ?_, ?_, ?_, ?_, ?_, ?_⟩
    · -- parse_factor
      intro toks hc
      rw [parse_factor.eq_def]
      dsimp only
      split
      · exact Outcome.sat_fail
      · rename_i t rest
        have hcr := Phase2.clean_tokens_tail _ _ hc
        split
        · rename_i hcast
          split
          · rename_i type_tok rest1
            have hctt := Phase2.is_cast_start_clean _ _ _ hcast
            have hcr1 := Phase2.clean_tokens_tail _ _ hcr
            refine Outcome.sat_bind (Phase2.expect_token_sat _ _ _ hcr1) ?_
            intro rest2 hc2
            refine Outcome.sat_bind (ih_factor _ hc2) ?_
            intro p hp
            obtain ⟨cast_expr, rest3⟩ := p
            refine Outcome.sat_ok ⟨?_, hp.2⟩
            refine Phase2.good_append _ _ (Phase2.good_new_node _ _ (by decide) ?_) hp.1
            apply Phase2.clean_strncpy
            exact (Phase2.clean_begin_append _ ")"
              (Phase2.clean_begin_append "Cast(" _ ⟨by decide, by decide⟩
                (Phase2.clean_no_newline _ hctt)) (by decide)).1
          · exact Outcome.sat_fail
        · split
          · refine Outcome.sat_bind (ih_or _ hcr) ?_
            intro p hp
            obtain ⟨expr, rest1⟩ := p
            refine Outcome.sat_bind (Phase2.expect_token_sat _ _ _ hp.2) ?_
            intro rest2 hc2
            exact Outcome.sat_ok ⟨hp.1, hc2⟩
          · split
            · refine Outcome.sat_bind (ih_factor _ hcr) ?_
              intro p hp
              obtain ⟨factor, rest1⟩ := p
              refine Outcome.sat_ok ⟨?_, hp.2⟩
              exact Phase2.good_append _ _ (Phase2.good_new_node _ _ (by decide) (by decide))
                hp.1
            · split
              · rename_i hnum
                have hct := Phase2.clean_tokens_head _ _ hc (Phase2.carries_number _ hnum)
                exact Outcome.sat_ok ⟨Phase2.good_new_node _ _ (by decide) hct, hcr⟩
              · split
                · rename_i hid
                  have hct := Phase2.clean_tokens_head _ _ hc (Phase2.carries_identifier _ hid)
                  split
                  · split
                    · exact ih_call _ hc
                    · exact Outcome.sat_ok ⟨Phase2.good_new_node _ _ (by decide) hct, hcr⟩
                  · exact Outcome.sat_ok ⟨Phase2.good_new_node _ _ (by decide) hct, hcr⟩
                · exact Outcome.sat_fail
    · -- parse_function_call
      intro toks hc
      rw [parse_function_call.eq_def]
      dsimp only
      split
      · exact Outcome.sat_fail
      · rename_i t rest
        have hcr := Phase2.clean_tokens_tail _ _ hc
        split
        · exact Outcome.sat_fail
        · rename_i hid
          have hct := Phase2.clean_tokens_head _ _ hc
            (Phase2.carries_identifier _ (Decidable.of_not_not hid))
          refine Outcome.sat_bind (Phase2.expect_token_sat _ _ _ hcr) ?_
          intro rest1 hc1
          refine Outcome.sat_bind
            (ih_args _ _ (Phase2.good_new_node _ _ (by decide) hct) hc1) ?_
          intro p hp
          obtain ⟨call1, rest2⟩ := p
          refine Outcome.sat_bind (Phase2.expect_token_sat _ _ _ hp.2) ?_
          intro rest3 hc3
          exact Outcome.sat_ok ⟨hp.1, hc3⟩
    · -- parse_call_args
      intro call toks hg hc
      rw [parse_call_args.eq_def]
      dsimp only
      split
      · exact Outcome.sat_ok ⟨hg, hc⟩
      · split
        · exact Outcome.sat_ok ⟨hg, hc⟩
        · refine Outcome.sat_bind (ih_or _ hc) ?_
          intro p hp
          obtain ⟨arg, rest1⟩ := p
          dsimp only
          split
          · rename_i c rest2
            split
            · exact ih_args _ _ (Phase2.good_append _ _ hg hp.1)
                (Phase2.clean_tokens_tail _ _ hp.2)
            · exact Outcome.sat_ok ⟨Phase2.good_append _ _ hg hp.1, hp.2⟩
          · exact Outcome.sat_ok ⟨Phase2.good_append _ _ hg hp.1, hp.2⟩
    · -- parse_term
      intro toks hc
      rw [parse_term]
      refine Outcome.sat_bind (ih_factor _ hc) ?_
      intro p hp
      obtain ⟨node, rest⟩ := p
      exact ih_term_loop _ _ hp.1 hp.2
    · -- parse_term_loop
      intro node toks hg hc
      rw [parse_term_loop.eq_def]
      dsimp only
      split
      · exact Outcome.sat_ok ⟨hg, hc⟩
      · rename_i op rest
        have hcr := Phase2.clean_tokens_tail _ _ hc
        split
        · rename_i hop
          have hct := Phase2.is_mul_op_clean _ hop
          refine Outcome.sat_bind (ih_factor _ hcr) ?_
          intro p hp
          obtain ⟨rhs, rest1⟩ := p
          exact ih_term_loop _ _
            (Phase2.good_binop_node _ _ _ (Phase2.clean_binop_text _ hct) hg hp.1) hp.2
        · exact Outcome.sat_ok ⟨hg, hc⟩
    · -- parse_add_sub
      intro toks hc
      rw [parse_add_sub]
      refine Outcome.sat_bind (ih_term _ hc) ?_
      intro p hp
      obtain ⟨node, rest⟩ := p
      exact ih_add_loop _ _ hp.1 hp.2
    · -- parse_add_sub_loop
      intro node toks hg hc
      rw [parse_add_sub_loop.eq_def]
      dsimp only
      split
      · exact Outcome.sat_ok ⟨hg, hc⟩
      · rename_i op rest
        have hcr := Phase2.clean_tokens_tail _ _ hc
        split
        · rename_i hop
          have hct := Phase2.is_add_op_clean _ hop
          refine Outcome.sat_bind (ih_term _ hcr) ?_
          intro p hp
          obtain ⟨rhs, rest1⟩ := p
          exact ih_add_loop _ _
            (Phase2.good_binop_node _ _ _ (Phase2.clean_binop_text _ hct) hg hp.1) hp.2
        · exact Outcome.sat_ok ⟨hg, hc⟩
    · -- parse_comparison
      intro toks hc
      rw [parse_comparison]
      refine Outcome.sat_bind (ih_add _ hc) ?_
      intro p hp
      obtain ⟨node, rest⟩ := p
      exact ih_cmp_loop _ _ hp.1 hp.2
    · -- parse_comparison_loop
      intro node toks hg hc
      rw [parse_comparison_loop.eq_def]
      dsimp only
      split
      · exact Outcome.sat_ok ⟨hg, hc⟩
      · rename_i op rest
        have hcr := Phase2.clean_tokens_tail _ _ hc
        split
        · rename_i hop
          have hct := Phase2.is_cmp_op_clean _ hop
          refine Outcome.sat_bind (ih_add _ hcr) ?_
          intro p hp
          obtain ⟨rhs, rest1⟩ := p
          exact ih_cmp_loop _ _
            (Phase2.good_binop_node _ _ _ (Phase2.clean_binop_text _ hct) hg hp.1) hp.2
        · exact Outcome.sat_ok ⟨hg, hc⟩
    · -- parse_logical_and
      intro toks hc
      rw [parse_logical_and]
      refine Outcome.sat_bind (ih_cmp _ hc) ?_
      intro p hp
      obtain ⟨node, rest⟩ := p
      exact ih_and_loop _ _ hp.1 hp.2
    · -- parse_logical_and_loop
      intro node toks hg hc
      rw [parse_logical_and_loop.eq_def]
      dsimp only
      split
      · exact Outcome.sat_ok ⟨hg, hc⟩
      · rename_i op rest
        have hcr := Phase2.clean_tokens_tail _ _ hc
        split
        · refine Outcome.sat_bind (ih_cmp _ hcr) ?_
          intro p hp
          obtain ⟨rhs, rest1⟩ := p
          exact ih_and_loop _ _ (Phase2.good_binop_node _ _ _ (by decide) hg hp.1) hp.2
        · exact Outcome.sat_ok ⟨hg, hc⟩
    · -- parse_logical_or
      intro toks hc
      rw [parse_logical_or]
      refine Outcome.sat_bind (ih_and _ hc) ?_
      intro p hp
      obtain ⟨node, rest⟩ := p
      exact ih_or_loop _ _ hp.1 hp.2
    · -- parse_logical_or_loop
      intro node toks hg hc
      rw [parse_logical_or_loop.eq_def]
      dsimp only
      split
      · exact Outcome.sat_ok ⟨hg, hc⟩
      · rename_i op rest
        have hcr := Phase2.clean_tokens_tail _ _ hc
        split
        · refine Outcome.sat_bind (ih_and _ hcr) ?_
          intro p hp
          obtain ⟨rhs, rest1⟩ := p
          exact ih_or_loop _ _ (Phase2.good_binop_node _ _ _ (by decide) hg hp.1) hp.2
        · exact Outcome.sat_ok ⟨hg, hc⟩

/-- The text of a good node is clean. -/
theorem Phase2.good_node_text (n : ASTNode) (h : good_node n = true) :
    clean_text n.text = true := by
  obtain ⟨k, t, cs⟩ := n
  simp only [good_node, Bool.and_eq_true] at h
  exact h.1.2

/-- Function `parse_expression` returns a good node and leaves clean tokens. -/
theorem Phase2.parse_expression_kept (f : Nat) (toks : Cursor) (hc : clean_tokens toks) :
    Outcome.Sat Kept (parse_expression f toks) :=
  (Phase2.expression_kept f).2.2.2.2.2.2.2.2.2.2.2.1 toks hc

/-- The text of an assignment node made from a clean lexeme is clean. -/
theorem Phase2.clean_assign_text (lexeme : String) (h : clean_text lexeme = true) :
    clean_text (CStr.strncpy 127 ("Assign: " ++ CStr.strncpy 63 lexeme ++ " =")) = true := by
  apply Phase2.clean_strncpy
  exact (Phase2.clean_begin_append _ " ="
    (Phase2.clean_begin_append "Assign: " _ ⟨by decide, by decide⟩
      (Phase2.no_newline_strncpy _ _ (Phase2.clean_no_newline _ h))) (by decide)).1

/-- Function `parse_assignment_inline` returns a good node and leaves clean
tokens. -/
theorem Phase2.parse_assignment_inline_kept (f : Nat) (toks : Cursor)
    (hc : clean_tokens toks) : Outcome.Sat Kept (parse_assignment_inline f toks) := by
  unfold parse_assignment_inline
  split
  · exact Outcome.sat_fail
  · rename_i t rest
    have hcr := Phase2.clean_tokens_tail _ _ hc
    split
    · rename_i hid
      have hct := Phase2.clean_tokens_head _ _ hc (Phase2.carries_identifier _ hid)
      dsimp only
      refine Outcome.sat_bind (Phase2.expect_token_sat _ _ _ hcr) ?_
      intro rest1 hc1
      refine Outcome.sat_bind (Phase2.parse_expression_kept f _ hc1) ?_
      intro p hp
      obtain ⟨expr, rest2⟩ := p
      refine Outcome.sat_ok ⟨?_, hp.2⟩
      exact Phase2.good_append _ _
        (Phase2.good_new_node _ _ (by decide) (Phase2.clean_assign_text _ hct)) hp.1
    · exact Outcome.sat_fail

/-- Function `parse_assignment` returns a good node and leaves clean tokens. -/
theorem Phase2.parse_assignment_kept (f : Nat) (toks : Cursor)
    (hc : clean_tokens toks) : Outcome.Sat Kept (parse_assignment f toks) := by
  unfold parse_assignment
  split
  · exact Outcome.sat_fail
  · rename_i t rest
    have hcr := Phase2.clean_tokens_tail _ _ hc
    split
    · rename_i hid
      have hct := Phase2.clean_tokens_head _ _ hc (Phase2.carries_identifier _ hid)
      dsimp only
      refine Outcome.sat_bind (Phase2.expect_token_sat _ _ _ hcr) ?_
      intro rest1 hc1
      refine Outcome.sat_bind (Phase2.parse_expression_kept f _ hc1) ?_
      intro p hp
      obtain ⟨expr, rest2⟩ := p
      refine Outcome.sat_bind (Phase2.expect_token_sat _ _ _ hp.2) ?_
      intro rest3 hc3
      refine Outcome.sat_ok ⟨?_, hc3⟩
      exact Phase2.good_append _ _
        (Phase2.good_new_node _ _ (by decide) (Phase2.clean_assign_text _ hct)) hp.1
    · exact Outcome.sat_fail

/-- Function `parse_return_stmt` returns a good node and leaves clean tokens. -/
theorem Phase2.parse_return_stmt_kept (f : Nat) (toks : Cursor)
    (hc : clean_tokens toks) : Outcome.Sat Kept (parse_return_stmt f toks) := by
  unfold parse_return_stmt
  refine Outcome.sat_bind (Phase2.expect_keyword_sat _ _ hc) ?_
  intro rest hc0
  refine Outcome.sat_bind (Phase2.parse_expression_kept f _ hc0) ?_
  intro p hp
  obtain ⟨expr, rest1⟩ := p
  refine Outcome.sat_bind (Phase2.expect_token_sat _ _ _ hp.2) ?_
  intro rest2 hc2
  dsimp only
  split
  · refine Outcome.sat_ok ⟨?_, hc2⟩
    refine Phase2.good_new_node _ _ (by decide) ?_
    apply Phase2.clean_strncpy
    exact (Phase2.clean_begin_append "Return: " _ ⟨by decide, by decide⟩
      (Phase2.clean_no_newline _ (Phase2.good_node_text _ hp.1))).1
  · refine Outcome.sat_ok ⟨?_, hc2⟩
    exact Phase2.good_append _ _ (Phase2.good_new_node _ _ (by decide) (by decide)) hp.1

/-- The loop of `parse_var_decl` returns a good node and leaves clean tokens. -/
theorem Phase2.parse_var_decl_loop_kept (f : Nat) :
    ∀ (type_text : String) (decl : ASTNode) (toks : Cursor),
      no_newline type_text.data = true → good_node decl = true → clean_tokens toks →
      Outcome.Sat Kept (parse_var_decl_loop f type_text decl toks) := by
  induction f with
  | zero =>
    intro type_text decl toks _ _ _
    rw [parse_var_decl_loop]
    exact Outcome.sat_fuel
  | succ f ih =>
    intro type_text decl toks hty hg hc
    rw [parse_var_decl_loop.eq_def]
    dsimp only
    split
    · exact Outcome.sat_fail
    · rename_i t rest
      have hcr := Phase2.clean_tokens_tail _ _ hc
      split
      · exact Outcome.sat_fail
      · rename_i hid
        have hct := Phase2.clean_tokens_head _ _ hc
          (Phase2.carries_identifier _ (Decidable.of_not_not hid))
        have hbegin := Phase2.clean_begin_append _ (CStr.strncpy 63 t.lexeme)
          (Phase2.clean_begin_append _ " "
            (Phase2.clean_begin_append "VarDecl: " type_text ⟨by decide, by decide⟩ hty)
            (by decide))
          (Phase2.no_newline_strncpy _ _ (Phase2.clean_no_newline _ hct))
        have hplain : good_node (ast_new_node NODE_VAR_DECL
            (some (CStr.strncpy 127 ("VarDecl: " ++ type_text ++ " " ++
              CStr.strncpy 63 t.lexeme)))) = true :=
          Phase2.good_new_node _ _ (by decide) (Phase2.clean_strncpy _ _ hbegin.1)
        refine Outcome.sat_bind (Q := Kept) ?_ ?_
        · split
          · rename_i e rest1
            split
            · refine Outcome.sat_bind
                (Phase2.parse_expression_kept f _ (Phase2.clean_tokens_tail _ _ hcr)) ?_
              intro p hp
              obtain ⟨rhs, rest2⟩ := p
              refine Outcome.sat_ok ⟨?_, hp.2⟩
              refine Phase2.good_append _ _ (Phase2.good_new_node _ _ (by decide) ?_) hp.1
              apply Phase2.clean_strncpy
              exact (Phase2.clean_begin_append _ " =" hbegin (by decide)).1
            · exact Outcome.sat_ok ⟨hplain, hcr⟩
          · exact Outcome.sat_ok ⟨hplain, hcr⟩
        · intro p hp
          obtain ⟨var_node, rest3⟩ := p
          dsimp only
          split
          · exact Outcome.sat_fail
          · rename_i q rest4
            have hc4 := Phase2.clean_tokens_tail _ _ hp.2
            split
            · split
              · exact ih _ _ _ hty (Phase2.good_append _ _ hg hp.1) hc4
              · split
                · exact Outcome.sat_ok ⟨Phase2.good_append _ _ hg hp.1, hc4⟩
                · exact Outcome.sat_fail
            · exact Outcome.sat_fail

/-- Function `parse_var_decl` returns a good node and leaves clean tokens. -/
theorem Phase2.parse_var_decl_kept (f : Nat) (toks : Cursor)
    (hc : clean_tokens toks) : Outcome.Sat Kept (parse_var_decl f toks) := by
  unfold parse_var_decl
  split
  · exact Outcome.sat_fail
  · rename_i t rest
    have hcr := Phase2.clean_tokens_tail _ _ hc
    split
    · exact Outcome.sat_fail
    · rename_i hds
      have hct := Phase2.is_decl_start_clean t (by simpa using hds)
      exact Phase2.parse_var_decl_loop_kept f _ _ _
        (Phase2.no_newline_strncpy _ _ (Phase2.clean_no_newline _ hct))
        (Phase2.good_new_node _ _ (by decide) (by decide)) hcr

/-- The invariant of the statement parser at one amount of fuel. -/
theorem Phase2.statement_kept (f : Nat) :
    (∀ toks, clean_tokens toks → Outcome.Sat Kept (parse_statement f toks)) ∧
    (∀ toks, clean_tokens toks → Outcome.Sat Kept (parse_block_statement f toks)) ∧
    (∀ node toks, good_node node = true → clean_tokens toks →
      Outcome.Sat Kept (parse_block_loop f node toks)) ∧
    (∀ node toks, good_node node = true → clean_tokens toks →
      Outcome.Sat Kept (parse_body_loop f node toks)) ∧
    (∀ toks, clean_tokens toks → Outcome.Sat Kept (parse_if_statement f toks)) ∧
    (∀ toks, clean_tokens toks → Outcome.Sat Kept (parse_while_statement f toks)) ∧
    (∀ toks, clean_tokens toks → Outcome.Sat Kept (parse_for_statement f toks)) := by
  induction f with
  | zero =>
    refine ⟨?_, ?_, ?_, ?_, ?_, ?_, ?_⟩
    · intro toks _; rw [parse_statement]; exact Outcome.sat_fuel
    · intro toks _; rw [parse_block_statement]; exact Outcome.sat_fuel
    · intro node toks _ _; rw [parse_block_loop]; exact Outcome.sat_fuel
    · intro node toks _ _; rw [parse_body_loop]; exact Outcome.sat_fuel
    · intro toks _; rw [parse_if_statement]; exact Outcome.sat_fuel
    · intro toks _; rw [parse_while_statement]; exact Outcome.sat_fuel
    · intro toks _; rw [parse_for_statement]; exact Outcome.sat_fuel
  | succ f ih =>
    obtain ⟨ih_stmt, ih_block, ih_block_loop, ih_body_loop, ih_if, ih_while, ih_for⟩ := ih
    refine ⟨?_, ?_, ?_, ?_, ?_, ?_, ?_⟩
    · -- parse_statement
      intro toks hc
      rw [parse_statement.eq_def]
      dsimp only
      split
      · exact Outcome.sat_fail
      · split
        · exact ih_block _ hc
        · split
          · exact Phase2.parse_assignment_kept f _ hc
          · split
            · exact Phase2.parse_return_stmt_kept f _ hc
            · split
              · exact ih_if _ hc
              · split
                · exact ih_while _ hc
                · split
                  · exact ih_for _ hc
                  · exact Outcome.sat_fail
    · -- parse_block_statement
      intro toks hc
      rw [parse_block_statement]
      refine Outcome.sat_bind (Phase2.expect_token_sat _ _ _ hc) ?_
      intro rest hc0
      refine Outcome.sat_bind
        (ih_block_loop _ _ (Phase2.good_new_node _ _ (by decide) (by decide)) hc0) ?_
      intro p hp
      obtain ⟨body_node, rest1⟩ := p
      refine Outcome.sat_bind (Phase2.expect_token_sat _ _ _ hp.2) ?_
      intro rest2 hc2
      exact Outcome.sat_ok ⟨hp.1, hc2⟩
    · -- parse_block_loop
      intro node toks hg hc
      rw [parse_block_loop.eq_def]
      dsimp only
      split
      · exact Outcome.sat_ok ⟨hg, hc⟩
      · split
        · exact Outcome.sat_ok ⟨hg, hc⟩
        · split
          · refine Outcome.sat_bind (Phase2.parse_var_decl_kept f _ hc) ?_
            intro p hp
            obtain ⟨decl, rest⟩ := p
            exact ih_block_loop _ _ (Phase2.good_append _ _ hg hp.1) hp.2
          · refine Outcome.sat_bind (ih_stmt _ hc) ?_
            intro p hp
            obtain ⟨stmt, rest⟩ := p
            exact ih_block_loop _ _ (Phase2.good_append _ _ hg hp.1) hp.2
    · -- parse_body_loop
      intro node toks hg hc
      rw [parse_body_loop.eq_def]
      dsimp only
      split
      · exact Outcome.sat_ok ⟨hg, hc⟩
      · split
        · exact Outcome.sat_ok ⟨hg, hc⟩
        · split
          · refine Outcome.sat_bind (Phase2.parse_var_decl_kept f _ hc) ?_
            intro p hp
            obtain ⟨decl, rest⟩ := p
            exact ih_body_loop _ _ (Phase2.good_append _ _ hg hp.1) hp.2
          · refine Outcome.sat_bind (ih_stmt _ hc) ?_
            intro p hp
            obtain ⟨stmt, rest⟩ := p
            exact ih_body_loop _ _ (Phase2.good_append _ _ hg hp.1) hp.2
    · -- parse_if_statement
      intro toks hc
      rw [parse_if_statement]
      refine Outcome.sat_bind (Phase2.expect_keyword_sat _ _ hc) ?_
      intro r1 hc1
      refine Outcome.sat_bind (Phase2.expect_token_sat _ _ _ hc1) ?_
      intro r2 hc2
      refine Outcome.sat_bind (Phase2.parse_expression_kept f _ hc2) ?_
      intro p hp
      obtain ⟨condition, r3⟩ := p
      refine Outcome.sat_bind (Phase2.expect_token_sat _ _ _ hp.2) ?_
      intro r4 hc4
      refine Outcome.sat_bind (ih_stmt _ hc4) ?_
      intro q hq
      obtain ⟨then_stmt, r5⟩ := q
      have hif : good_node (node_list_append (node_list_append
          (ast_new_node NODE_IF (some "If:")) condition) then_stmt) = true :=
        Phase2.good_append _ _
          (Phase2.good_append _ _ (Phase2.good_new_node _ _ (by decide) (by decide)) hp.1) hq.1
      dsimp only
      split
      · exact Outcome.sat_ok ⟨hif, hq.2⟩
      · rename_i t r6
        have hc6 := Phase2.clean_tokens_tail _ _ hq.2
        split
        · split
          · refine Outcome.sat_bind (ih_stmt _ hc6) ?_
            intro x hx
            obtain ⟨else_if_node, r7⟩ := x
            exact Outcome.sat_ok ⟨Phase2.good_append _ _ hif hx.1, hx.2⟩
          · refine Outcome.sat_bind
              (ih_body_loop _ _ (Phase2.good_new_node _ _ (by decide) (by decide)) hc6) ?_
            intro x hx
            obtain ⟨else_body, r7⟩ := x
            refine Outcome.sat_ok ⟨Phase2.good_append _ _ hif ?_, hx.2⟩
            exact Phase2.good_append _ _ (Phase2.good_new_node _ _ (by decide) (by decide)) hx.1
        · exact Outcome.sat_ok ⟨hif, hq.2⟩
    · -- parse_while_statement
      intro toks hc
      rw [parse_while_statement]
      refine Outcome.sat_bind (Phase2.expect_keyword_sat _ _ hc) ?_
      intro r1 hc1
      refine Outcome.sat_bind (Phase2.expect_token_sat _ _ _ hc1) ?_
      intro r2 hc2
      refine Outcome.sat_bind (Phase2.parse_expression_kept f _ hc2) ?_
      intro p hp
      obtain ⟨cond, r3⟩ := p
      refine Outcome.sat_bind (Phase2.expect_token_sat _ _ _ hp.2) ?_
      intro r4 hc4
      refine Outcome.sat_bind (ih_stmt _ hc4) ?_
      intro q hq
      obtain ⟨body, r5⟩ := q
      refine Outcome.sat_ok ⟨?_, hq.2⟩
      exact Phase2.good_append _ _
        (Phase2.good_append _ _ (Phase2.good_new_node _ _ (by decide) (by decide)) hp.1) hq.1
    · -- parse_for_statement
      intro toks hc
      rw [parse_for_statement]
      refine Outcome.sat_bind (Phase2.expect_keyword_sat _ _ hc) ?_
      intro r1 hc1
      refine Outcome.sat_bind (Phase2.expect_token_sat _ _ _ hc1) ?_
      intro r2 hc2
      have hfor : good_node (ast_new_node NODE_FOR (some "For:")) = true :=
        Phase2.good_new_node _ _ (by decide) (by decide)
      dsimp only
      refine Outcome.sat_bind (Q := Kept) ?_ ?_
      · split
        · exact Outcome.sat_fail
        · split
          · exact Outcome.sat_ok ⟨hfor, hc2⟩
          · refine Outcome.sat_bind (Phase2.parse_assignment_inline_kept f _ hc2) ?_
            intro p hp
            obtain ⟨init, r⟩ := p
            exact Outcome.sat_ok ⟨Phase2.good_append _ _ hfor hp.1, hp.2⟩
      · intro p1 hp1
        obtain ⟨for_node1, r3⟩ := p1
        refine Outcome.sat_bind (Phase2.expect_token_sat _ _ _ hp1.2) ?_
        intro r4 hc4
        refine Outcome.sat_bind (Q := Kept) ?_ ?_
        · split
          · exact Outcome.sat_fail
          · split
            · exact Outcome.sat_ok ⟨hp1.1, hc4⟩
            · refine Outcome.sat_bind (Phase2.parse_expression_kept f _ hc4) ?_
              intro p hp
              obtain ⟨cond, r⟩ := p
              exact Outcome.sat_ok ⟨Phase2.good_append _ _ hp1.1 hp.1, hp.2⟩
        · intro p2 hp2
          obtain ⟨for_node2, r5⟩ := p2
          refine Outcome.sat_bind (Phase2.expect_token_sat _ _ _ hp2.2) ?_
          intro r6 hc6
          refine Outcome.sat_bind (Q := Kept) ?_ ?_
          · split
            · exact Outcome.sat_fail
            · split
              · exact Outcome.sat_ok ⟨hp2.1, hc6⟩
              · refine Outcome.sat_bind (Phase2.parse_assignment_inline_kept f _ hc6) ?_
                intro p hp
                obtain ⟨inc, r⟩ := p
                exact Outcome.sat_ok ⟨Phase2.good_append _ _ hp2.1 hp.1, hp.2⟩
          · intro p3 hp3
            obtain ⟨for_node3, r7⟩ := p3
            refine Outcome.sat_bind (Phase2.expect_token_sat _ _ _ hp3.2) ?_
            intro r8 hc8
            refine Outcome.sat_bind (ih_stmt _ hc8) ?_
            intro q hq
            obtain ⟨body, r9⟩ := q
            exact Outcome.sat_ok ⟨Phase2.good_append _ _ hp3.1 hq.1, hq.2⟩

/-- Function `parse_statement` returns a good node and leaves clean tokens. -/
theorem Phase2.parse_statement_kept (f : Nat) (toks : Cursor) (hc : clean_tokens toks) :
    Outcome.Sat Kept (parse_statement f toks) :=
  (Phase2.statement_kept f).1 toks hc

/-- Function `parse_body` returns a good node and leaves clean tokens. -/
theorem Phase2.parse_body_kept (f : Nat) (toks : Cursor) (hc : clean_tokens toks) :
    Outcome.Sat Kept (parse_body f toks) :=
  (Phase2.statement_kept f).2.2.2.1 _ toks
    (Phase2.good_new_node _ _ (by decide) (by decide)) hc

/-- The loop of `parse_param_list` returns a good node and leaves clean tokens. -/
theorem Phase2.parse_param_loop_kept (f : Nat) :
    ∀ (params : ASTNode) (toks : Cursor), good_node params = true → clean_tokens toks →
      Outcome.Sat Kept (parse_param_loop f params toks) := by
  induction f with
  | zero =>
    intro params toks _ _
    rw [parse_param_loop]
    exact Outcome.sat_fuel
  | succ f ih =>
    intro params toks hg hc
    rw [parse_param_loop.eq_def]
    dsimp only
    split
    · exact Outcome.sat_ok ⟨hg, hc⟩
    · rename_i t rest
      have hcr := Phase2.clean_tokens_tail _ _ hc
      split
      · exact Outcome.sat_ok ⟨hg, hc⟩
      · split
        · exact Outcome.sat_fail
        · rename_i hds
          have hct := Phase2.is_decl_start_clean t (by simpa using hds)
          split
          · exact Outcome.sat_fail
          · rename_i n rest1
            have hcr1 := Phase2.clean_tokens_tail _ _ hcr
            split
            · exact Outcome.sat_fail
            · rename_i hid
              have hcn := Phase2.clean_tokens_head _ _ hcr
                (Phase2.carries_identifier _ (Decidable.of_not_not hid))
              refine Outcome.sat_bind (Q := fun p => clean_tokens p.2) ?_ ?_
              · split
                · split
                  · refine Outcome.sat_bind
                      (Phase2.expect_token_sat _ _ _ (Phase2.clean_tokens_tail _ _ hcr1)) ?_
                    intro r hr
                    exact Outcome.sat_ok hr
                  · exact Outcome.sat_ok hcr1
                · exact Outcome.sat_ok hcr1
              · intro p hp
                obtain ⟨is_array, rest3⟩ := p
                have hbegin := Phase2.clean_begin_append _ (CStr.strncpy 31 n.lexeme)
                  (Phase2.clean_begin_append _ " "
                    (Phase2.clean_begin_append "Param: " (CStr.strncpy 15 t.lexeme)
                      ⟨by decide, by decide⟩
                      (Phase2.no_newline_strncpy _ _ (Phase2.clean_no_newline _ hct)))
                    (by decide))
                  (Phase2.no_newline_strncpy _ _ (Phase2.clean_no_newline _ hcn))
                have hdesc : good_node (node_list_append params (ast_new_node NODE_VAR_DECL
                    (some (CStr.strncpy 127 ("Param: " ++ CStr.strncpy 15 t.lexeme ++ " " ++
                      CStr.strncpy 31 n.lexeme ++ (if is_array = true then "[]" else ""))))))
                    = true := by
                  refine Phase2.good_append _ _ hg (Phase2.good_new_node _ _ (by decide) ?_)
                  apply Phase2.clean_strncpy
                  refine (Phase2.clean_begin_append _ _ hbegin ?_).1
                  cases is_array <;> decide
                dsimp only
                split
                · rename_i c rest4
                  split
                  · exact ih _ _ hdesc (Phase2.clean_tokens_tail _ _ hp)
                  · exact Outcome.sat_ok ⟨hdesc, hp⟩
                · exact Outcome.sat_ok ⟨hdesc, hp⟩

/-- Function `parse_param_list` returns a good node and leaves clean tokens. -/
theorem Phase2.parse_param_list_kept (f : Nat) (toks : Cursor) (hc : clean_tokens toks) :
    Outcome.Sat Kept (parse_param_list f toks) :=
  Phase2.parse_param_loop_kept f _ toks (Phase2.good_new_node _ _ (by decide) (by decide)) hc

/-- Function `parse_function_def` returns a good node and leaves clean tokens. -/
theorem Phase2.parse_function_def_kept (f : Nat) (toks : Cursor) (hc : clean_tokens toks) :
    Outcome.Sat Kept (parse_function_def f toks) := by
  unfold parse_function_def
  split
  · exact Outcome.sat_fail
  · rename_i t rest
    have hcr := Phase2.clean_tokens_tail _ _ hc
    split
    · exact Outcome.sat_fail
    · split
      · exact Outcome.sat_fail
      · rename_i n rest1
        have hcr1 := Phase2.clean_tokens_tail _ _ hcr
        split
        · exact Outcome.sat_fail
        · rename_i hid
          have hcn := Phase2.clean_tokens_head _ _ hcr
            (Phase2.carries_identifier _ (Decidable.of_not_not hid))
          refine Outcome.sat_bind (Phase2.expect_token_sat _ _ _ hcr1) ?_
          intro rest2 hc2
          refine Outcome.sat_bind (Phase2.parse_param_list_kept f _ hc2) ?_
          intro p hp
          obtain ⟨params, rest3⟩ := p
          refine Outcome.sat_bind (Phase2.expect_token_sat _ _ _ hp.2) ?_
          intro rest4 hc4
          refine Outcome.sat_bind (Phase2.expect_token_sat _ _ _ hc4) ?_
          intro rest5 hc5
          refine Outcome.sat_bind (Phase2.parse_body_kept f _ hc5) ?_
          intro q hq
          obtain ⟨body, rest6⟩ := q
          refine Outcome.sat_bind (Phase2.expect_token_sat _ _ _ hq.2) ?_
          intro rest7 hc7
          refine Outcome.sat_ok ⟨?_, hc7⟩
          exact Phase2.good_append _ _
            (Phase2.good_append _ _ (Phase2.good_new_node _ _ (by decide) hcn) hp.1) hq.1

/-- The loop of `parse_program` keeps a Program root over good children. -/
theorem Phase2.parse_program_loop_kept (f : Nat) :
    ∀ (text : String) (children : List ASTNode) (toks : Cursor),
      good_list children = true → clean_tokens toks →
      Outcome.Sat (fun root => ∃ cs, root = .mk NODE_PROGRAM text cs ∧ good_list cs = true)
        (parse_program_loop f (.mk NODE_PROGRAM text children) toks) := by
  induction f with
  | zero =>
    intro text children toks _ _
    rw [parse_program_loop]
    exact Outcome.sat_fuel
  | succ f ih =>
    intro text children toks hg hc
    rw [parse_program_loop.eq_def]
    dsimp only
    split
    · exact Outcome.sat_ok ⟨children, rfl, hg⟩
    · split
      · exact Outcome.sat_ok ⟨children, rfl, hg⟩
      · split
        · refine Outcome.sat_bind (Phase2.parse_function_def_kept f _ hc) ?_
          intro p hp
          obtain ⟨fn, rest⟩ := p
          refine ih _ _ _ ?_ hp.2
          rw [Phase2.good_list_append, hg]
          simp [good_list, hp.1]
        · split
          · refine Outcome.sat_bind (Phase2.parse_var_decl_kept f _ hc) ?_
            intro p hp
            obtain ⟨decl, rest⟩ := p
            refine ih _ _ _ ?_ hp.2
            rw [Phase2.good_list_append, hg]
            simp [good_list, hp.1]
          · exact Outcome.sat_fail

/-- On clean tokens, `parse_program` returns a Program root with empty text
whose children are good trees. -/
theorem Phase2.parse_program_kept (f : Nat) (toks : Cursor) (root : ASTNode)
    (hc : clean_tokens toks) (h : parse_program f toks = .ok root) :
    ∃ cs, root = .mk NODE_PROGRAM "" cs ∧ good_list cs = true :=
  Phase2.parse_program_loop_kept f "" [] toks rfl hc root h

mutual

/-- A good tree has no Program node. -/
theorem Phase2.good_no_program : ∀ (n : ASTNode), good_node n = true → no_program n = true
  | .mk kind text children, h => by
    simp only [good_node, Bool.and_eq_true] at h
    rw [no_program, Bool.and_eq_true]
    exact ⟨h.1.1, Phase2.good_list_no_program children h.2⟩

/-- Good trees have no Program node. -/
theorem Phase2.good_list_no_program :
    ∀ (cs : List ASTNode), good_list cs = true → no_program_list cs = true
  | [], _ => by rw [no_program_list]
  | c :: cs, h => by
    rw [good_list, Bool.and_eq_true] at h
    rw [no_program_list, Bool.and_eq_true]
    exact ⟨Phase2.good_no_program c h.1, Phase2.good_list_no_program cs h.2⟩

end

/-- The label of a node with a clean text, as it is written to the file, is
clean. -/
theorem Phase2.clean_label_text (kind : NodeKind) (text : String)
    (h : clean_text text = true) : clean_text (label_text kind text) = true := by
  have hn := Phase2.clean_no_newline _ h
  cases kind
  case NODE_FUNCTION_DEF =>
    exact (Phase2.clean_begin_append "FunctionDefinition: " text ⟨by decide, by decide⟩ hn).1
  case NODE_NUMBER =>
    exact (Phase2.clean_begin_append _ ")"
      (Phase2.clean_begin_append "Number(" text ⟨by decide, by decide⟩ hn) (by decide)).1
  case NODE_VAR =>
    exact (Phase2.clean_begin_append _ ")"
      (Phase2.clean_begin_append "Var(" text ⟨by decide, by decide⟩ hn) (by decide)).1
  all_goals exact h

mutual

/-- Every label of the pre-order traversal of a good tree is clean. -/
theorem Phase2.preorder_clean :
    ∀ (n : ASTNode) (d : Nat), good_node n = true →
      ∀ x ∈ preorder n d, clean_text x.2 = true
  | .mk kind text children, d, h => by
    simp only [good_node, Bool.and_eq_true] at h
    intro x hx
    rw [preorder] at hx
    rcases List.mem_cons.1 hx with hx | hx
    · subst hx
      exact Phase2.clean_label_text kind text h.1.2
    · exact Phase2.preorder_list_clean children (d + 1) h.2 x hx

/-- Every label of the pre-order traversals of good trees is clean. -/
theorem Phase2.preorder_list_clean :
    ∀ (cs : List ASTNode) (d : Nat), good_list cs = true →
      ∀ x ∈ preorder_list cs d, clean_text x.2 = true
  | [], d, _ => by
    intro x hx
    rw [preorder_list] at hx
    exact absurd hx (List.not_mem_nil _)
  | c :: cs, d, h => by
    rw [good_list, Bool.and_eq_true] at h
    intro x hx
    rw [preorder_list] at hx
    rcases List.mem_append.1 hx with hx | hx
    · exact Phase2.preorder_clean c d h.1 x hx
    · exact Phase2.preorder_list_clean cs d h.2 x hx

end

/-- A line without newline, followed by a newline, is the next line of the
text. -/
theorem Phase2.text_lines_line (l : List Char) :
    ∀ (cur rest : List Char), no_newline l = true →
      text_lines_from cur (l ++ '\n' :: rest) =
        (cur ++ l ++ ['\n']) :: text_lines_from [] rest := by
  induction l with
  | nil =>
    intro cur rest _
    simp [text_lines_from]
  | cons c l ih =>
    intro cur rest h
    simp only [no_newline, List.all_cons, Bool.and_eq_true, bne_iff_ne, ne_eq] at h
    rw [List.cons_append, text_lines_from, if_neg h.1, ih _ _ (by simpa [no_newline] using h.2)]
    simp

/-- The leading spaces of an indented clean label are the indentation. -/
theorem Phase2.load_line_indent (d : Nat) (s : List Char) (h : no_leading_space s = true) :
    (Ast.load_line (List.replicate (4 * d) ' ' ++ s ++ ['\n'])).indent = d := by
  have hrest : (s ++ ['\n']).takeWhile (fun c => decide (c = ' ')) = [] := by
    cases s with
    | nil => simp
    | cons c r =>
      have hc : c ≠ ' ' := by simpa [no_leading_space] using h
      simp [List.takeWhile_cons, hc]
  have hrep : ∀ (n : Nat) (l : List Char),
      (List.replicate n ' ' ++ l).takeWhile (fun c => decide (c = ' ')) =
        List.replicate n ' ' ++ l.takeWhile (fun c => decide (c = ' ')) := by
    intro n l
    induction n with
    | zero => simp
    | succ n ih => simp [List.replicate_succ, List.takeWhile_cons, ih]
  simp only [Ast.load_line, List.append_assoc, hrep, hrest, List.append_nil,
    List.length_replicate]
  omega

/-- The lines of the file text of clean labels are the rendered lines, and
their indents are the depths. -/
theorem Phase2.line_indents_render (ls : List (Nat × String))
    (h : ∀ x ∈ ls, clean_text x.2 = true) :
    line_indents (render_lines ls) = ls.map Prod.fst := by
  unfold line_indents
  induction ls with
  | nil => simp [render_lines, text_lines_from]
  | cons x xs ih =>
    obtain ⟨d, s⟩ := x
    have hs : clean_text s = true := h (d, s) (List.mem_cons_self _ _)
    simp only [clean_text, Bool.and_eq_true] at hs
    have hdata : (render_lines ((d, s) :: xs)).data =
        (List.replicate (4 * d) ' ' ++ s.data) ++ '\n' :: (render_lines xs).data := by
      simp [render_lines, indentation, String.data_append]
    have hnl : no_newline (List.replicate (4 * d) ' ' ++ s.data) = true := by
      rw [Phase2.no_newline_append, hs.1, Bool.and_true]
      simp [no_newline]
    rw [hdata, Phase2.text_lines_line _ [] _ hnl, List.map_cons,
      ih (fun y hy => h y (List.mem_cons_of_mem _ hy))]
    simp only [List.nil_append, List.map_cons]
    rw [Phase2.load_line_indent d s.data hs.2]

/-- Two runs of indents that never go below `base`, the second starting at
`base`, can be put one after the other. -/
theorem Phase2.steps_ok_append (base : Nat) (a : List Nat) :
    ∀ (p : Nat) (b : List Nat), steps_ok p a = true → (∀ x ∈ a, base ≤ x) → base ≤ p + 1 →
      (∀ q, base ≤ q + 1 → steps_ok q b = true) → steps_ok p (a ++ b) = true := by
  induction a with
  | nil =>
    intro p b _ _ hp hb
    exact hb p hp
  | cons x a ih =>
    intro p b ha hge hp hb
    simp only [steps_ok, Bool.and_eq_true, decide_eq_true_eq] at ha
    rw [List.cons_append, steps_ok, Bool.and_eq_true, decide_eq_true_eq]
    refine ⟨ha.1, ih x b ha.2 (fun y hy => hge y (List.mem_cons_of_mem _ hy)) ?_ hb⟩
    have := hge x (List.mem_cons_self _ _)
    omega

mutual

/-- The depths of the pre-order traversal of a tree from depth `d`: the first
is `d`, none is below `d`, and each is at most one more than the one before. -/
theorem Phase2.preorder_depths :
    ∀ (n : ASTNode) (d : Nat),
      (∀ x ∈ (preorder n d).map Prod.fst, d ≤ x) ∧
      (∀ q, d ≤ q + 1 → steps_ok q ((preorder n d).map Prod.fst) = true) ∧
      ((preorder n d).map Prod.fst).head? = some d
  | .mk kind text children, d => by
    have ih := Phase2.preorder_list_depths children (d + 1)
    rw [preorder, List.map_cons]
    refine ⟨?_, ?_, rfl⟩
    · intro x hx
      rcases List.mem_cons.1 hx with hx | hx
      · exact Nat.le_of_eq hx.symm
      · exact Nat.le_of_succ_le (ih.1 x hx)
    · intro q hq
      rw [steps_ok, Bool.and_eq_true, decide_eq_true_eq]
      exact ⟨hq, ih.2.1 d (Nat.le_refl _)⟩

/-- The depths of the pre-order traversals of a list of trees from depth `d`:
none is below `d`, each is at most one more than the one before, and the first,
if there is one, is `d`. -/
theorem Phase2.preorder_list_depths :
    ∀ (cs : List ASTNode) (d : Nat),
      (∀ x ∈ (preorder_list cs d).map Prod.fst, d ≤ x) ∧
      (∀ q, d ≤ q + 1 → steps_ok q ((preorder_list cs d).map Prod.fst) = true) ∧
      (∀ x, ((preorder_list cs d).map Prod.fst).head? = some x → x = d)
  | [], d => by
    rw [preorder_list]
    refine ⟨?_, ?_, ?_⟩
    · intro x hx
      exact absurd hx (List.not_mem_nil _)
    · intro q _
      rfl
    · intro x hx
      exact absurd hx (by simp)
  | c :: cs, d => by
    have h1 := Phase2.preorder_depths c d
    have h2 := Phase2.preorder_list_depths cs d
    rw [preorder_list, List.map_append]
    refine ⟨?_, ?_, ?_⟩
    · intro x hx
      rcases List.mem_append.1 hx with hx | hx
      · exact h1.1 x hx
      · exact h2.1 x hx
    · intro q hq
      exact Phase2.steps_ok_append d _ q _ (h1.2.1 q hq) h1.1 hq h2.2.1
    · intro x hx
      cases hm : (preorder c d).map Prod.fst with
      | nil =>
        rw [hm] at h1
        exact absurd h1.2.2 (by simp)
      | cons y ys =>
        rw [hm] at h1 hx
        simp only [List.cons_append, List.head?_cons, Option.some.injEq] at h1 hx
        rw [← hx, h1.2.2]

end

/-- The depths of the pre-order traversals of the top-level trees form a
well-nested tree. -/
theorem Phase2.preorder_well_nested (cs : List ASTNode) :
    well_nested ((preorder_list cs 0).map Prod.fst) = true := by
  have h := Phase2.preorder_list_depths cs 0
  cases hm : (preorder_list cs 0).map Prod.fst with
  | nil => rfl
  | cons d ds =>
    rw [hm] at h
    have hd : d = 0 := h.2.2 d rfl
    have hs := h.2.1 0 (Nat.zero_le _)
    simp only [steps_ok, Bool.and_eq_true, decide_eq_true_eq] at hs
    rw [well_nested, Bool.and_eq_true, decide_eq_true_eq]
    exact ⟨hd, hs.2⟩

/-- C13: for every AST the parser produces from tokens whose identifier and
number lexemes are clean (no newline inside, no space at the beginning, as the
lexer makes them), the lines of the serialized AST, with the indent of each
line read as the number of its leading spaces divided by 4, have exactly the
depths of the pre-order traversal as their indents, and these form a
well-nested tree: the first line has indent 0 and no line's indent exceeds the
previous line's indent by more than 1. -/
theorem C13_indentation_well_nested (fuel : Nat) (toks : Cursor) (root : ASTNode)
    (hclean : clean_tokens toks) (h : parse_program fuel toks = .ok root) :
    line_indents (print_ast root) = (preorder_list root.children 0).map Prod.fst ∧
    well_nested (line_indents (print_ast root)) = true := by
  obtain ⟨cs, rfl, hg⟩ := Phase2.parse_program_kept fuel toks root hclean h
  have hprint : print_ast (.mk NODE_PROGRAM "" cs) = render_lines (preorder_list cs 0) := by
    unfold print_ast
    simp only [ASTNode.kind, ASTNode.children, if_true]
    exact Phase2.print_children_is_preorder cs 0 (Phase2.good_list_no_program cs hg)
  have hind : line_indents (print_ast (.mk NODE_PROGRAM "" cs)) =
      (preorder_list cs 0).map Prod.fst := by
    rw [hprint]
    exact Phase2.line_indents_render _ (Phase2.preorder_list_clean cs 0 hg)
  refine ⟨hind, ?_⟩
  rw [hind]
  exact Phase2.preorder_well_nested cs

/-- C13 at the source `int f(int a, int b) \x7b return a + b; \x7d`: the nine
lines of its AST have the indents 0, 1, 2, 2, 1, 2, 3, 4, 4. -/
theorem C13_indentation_well_nested_witness :
    line_indents (print_ast ast_add_fn) = (preorder_list ast_add_fn.children 0).map Prod.fst ∧
    well_nested (line_indents (print_ast ast_add_fn)) = true :=
  C13_indentation_well_nested 100 tokens_add_fn ast_add_fn (by decide) rfl

/-! ### The lexemes the lexer makes for names and numbers are clean -/

/-- The loop of `identifier_or_keyword` stores letters, digits and `_` only. -/
theorem Phase1.identifier_loop_chars (input : List Char) :
    ∀ (line : Nat) (buffer : List Char),
      (∀ c ∈ buffer, (isalnum c || decide (c = '_')) = true) →
      ∀ c ∈ (identifier_loop input line buffer).1, (isalnum c || decide (c = '_')) = true := by
  induction input with
  | nil => intro line buffer h; simpa [identifier_loop] using h
  | cons x rest ih =>
    intro line buffer h
    rw [identifier_loop]
    split
    · rename_i hx
      apply ih
      unfold store_guarded
      split
      · intro c hc
        rcases List.mem_append.1 hc with hc | hc
        · exact h c hc
        · rw [List.mem_singleton.1 hc]
          exact hx
      · exact h
    · exact h

/-- The digit loop stores digits only, after what the buffer holds. -/
theorem Phase1.digit_loop_chars (input : List Char) :
    ∀ (line : Nat) (buffer : List Char),
      (∀ c ∈ buffer, (CStr.isdigit c || decide (c = '.')) = true) →
      ∀ c ∈ (digit_loop input line buffer).1, (CStr.isdigit c || decide (c = '.')) = true := by
  induction input with
  | nil => intro line buffer h; simpa [digit_loop] using h
  | cons x rest ih =>
    intro line buffer h
    rw [digit_loop]
    split
    · rename_i hx
      apply ih
      intro c hc
      rcases List.mem_append.1 hc with hc | hc
      · exact h c hc
      · rw [List.mem_singleton.1 hc]
        simp [hx]
    · exact h

/-- A lexeme made of characters that are neither newline nor space is clean
in the token. -/
theorem Phase1.make_token_clean (type : TokenType) (buffer : List Char) (line : Nat)
    (h : ∀ c ∈ buffer, c ≠ '\n' ∧ c ≠ ' ') :
    Phase2.clean_text (make_token type buffer line).lexeme = true := by
  have hsub : ∀ c ∈ (c_string buffer).take 255, c ≠ '\n' ∧ c ≠ ' ' := by
    intro c hc
    exact h c ((List.takeWhile_sublist _).subset (List.mem_of_mem_take hc))
  simp only [make_token, Phase2.clean_text, Bool.and_eq_true]
  constructor
  · simp only [Phase2.no_newline, List.all_eq_true, bne_iff_ne, ne_eq]
    exact fun c hc => (hsub c hc).1
  · cases hl : (c_string buffer).take 255 with
    | nil => rfl
    | cons c r =>
      rw [hl] at hsub
      simpa [Phase2.no_leading_space] using (hsub c (List.mem_cons_self _ _)).2

/-- The keyword, identifier and number tokens the lexer makes have clean
lexemes: the hypothesis of the indentation theorem holds for them. -/
theorem Phase1.scan_token_clean (st st2 : State) (tok : Token)
    (h : scan_token st = .ok (tok, st2))
    (ht : tok.type = .TOK_KEYWORD ∨ tok.type = .TOK_IDENTIFIER ∨
      tok.type = .TOK_INT_LITERAL ∨ tok.type = .TOK_FLOAT_LITERAL) :
    Phase2.clean_text tok.lexeme = true := by
  have hid : ∀ c, (isalnum c || decide (c = '_')) = true → c ≠ '\n' ∧ c ≠ ' ' := by
    intro c hc
    constructor <;> rintro rfl <;> exact absurd hc (by decide)
  have hdg : ∀ c, (CStr.isdigit c || decide (c = '.')) = true → c ≠ '\n' ∧ c ≠ ' ' := by
    intro c hc
    constructor <;> rintro rfl <;> exact absurd hc (by decide)
  have hop : ∀ (tok : Token) (st2 : State), operator_or_punctuation st = .ok (tok, st2) →
      tok.type = .TOK_OPERATOR ∨ tok.type = .TOK_PUNCTUATION := by
    intro tok st2 h
    unfold operator_or_punctuation at h
    dsimp only at h
    split at h
    · exact absurd h (by simp)
    · split at h
      · split at h <;>
        · simp only [Outcome.ok.injEq, Prod.mk.injEq] at h
          rw [← h.1]
          exact Or.inl rfl
      · split at h
        · simp only [Outcome.ok.injEq, Prod.mk.injEq] at h
          rw [← h.1]
          exact Or.inl rfl
        · split at h
          · simp only [Outcome.ok.injEq, Prod.mk.injEq] at h
            rw [← h.1]
            exact Or.inr rfl
          · exact absurd h (by simp)
  have hop2 : operator_or_punctuation st = .ok (tok, st2) →
      Phase2.clean_text tok.lexeme = true := by
    intro h2
    rcases hop tok st2 h2 with h3 | h3 <;> rw [h3] at ht <;> simp at ht
  unfold scan_token at h
  split at h
  · exact hop2 h
  · split at h
    · simp only [preprocess_directive, Outcome.ok.injEq, Prod.mk.injEq] at h
      rw [← h.1] at ht
      simp [Phase1.make_token_type] at ht
    · split at h
      · unfold string_literal at h
        dsimp only at h
        split at h
        · exact absurd h (by simp)
        · split at h
          · split at h
            · split at h
              · exact absurd h (by simp [buffer_overflow])
              · simp only [Outcome.ok.injEq, Prod.mk.injEq] at h
                rw [← h.1] at ht
                simp [Phase1.make_token_type] at ht
            · exact absurd h (by simp)
          · exact absurd h (by simp)
          · exact absurd h (by simp)
      · split at h
        · have hb := Phase1.identifier_loop_chars st.input st.line_number []
            (fun c hc => absurd hc (List.not_mem_nil _))
          unfold identifier_or_keyword at h
          dsimp only at h
          split at h <;>
          · simp only [Outcome.ok.injEq, Prod.mk.injEq] at h
            rw [← h.1]
            exact Phase1.make_token_clean _ _ _ (fun c hc => hid c (hb c hc))
        · split at h
          · have hb := Phase1.digit_loop_chars st.input st.line_number []
              (fun c hc => absurd hc (List.not_mem_nil _))
            unfold number_literal at h
            dsimp only at h
            split at h
            · split at h
              · exact absurd h (by simp [buffer_overflow])
              · simp only [Outcome.ok.injEq, Prod.mk.injEq] at h
                rw [← h.1]
                refine Phase1.make_token_clean _ _ _ (fun c hc => hdg c ?_)
                refine Phase1.digit_loop_chars _ _ _ ?_ c hc
                intro x hx
                rcases List.mem_append.1 hx with hx | hx
                · exact hb x hx
                · rw [List.mem_singleton.1 hx]
                  rfl
            · split at h
              · exact absurd h (by simp [buffer_overflow])
              · simp only [Outcome.ok.injEq, Prod.mk.injEq] at h
                rw [← h.1]
                exact Phase1.make_token_clean _ _ _ (fun c hc => hdg c (hb c hc))
          · exact hop2 h

/-! ### Initializers and return types in the analyzer -/

/-- C21, the code at `int main() { float y; int x = (float) y; return 0; }`: the
parser writes the line `VarDecl: int x =` with the initializer `Cast(float)`
below it, and the analyzer accepts the program, although the initializer has
type float and the declared type is int.  The same value assigned in a
statement of its own, `int x; x = (float) y;`, is rejected by the `Assign:`
branch. -/
theorem C21_initializer_type_not_checked :
    parser_main 100 tokens_init_cast =
      .ok ("FunctionDefinition: main\n    Parameters:\n    Body:\n" ++
           "        VarDeclGroup:\n            VarDecl: float y\n" ++
           "        VarDeclGroup:\n            VarDecl: int x =\n" ++
           "                Cast(float)\n                    Var(y)\n" ++
           "        Return: 0\n") ∧
    verdict_of_tokens 100 100 tokens_init_cast = .ok () ∧
    verdict_of_tokens 100 100 tokens_assign_cast =
      .fail (some 0) "Type mismatch in assignment to 'x'" := by
  decide

/-- C22, the code at `int f() { float x; return x; }`: the analyzer accepts it.  The
same body in a function named `main` is rejected with "Return type mismatch";
with two returns, `return x; return y;` (float, then int) is rejected and
`return y; return x;` is accepted; and `float f() { int x; return x + 1; }` is
accepted. -/
theorem C22_first_return_sets_return_type :
    verdict_of_tokens 100 100 (tokens_return_float "f") = .ok () ∧
    verdict_of_tokens 100 100 (tokens_return_float "main") =
      .fail (some 6) "Return type mismatch" ∧
    verdict_of_tokens 100 100 (tokens_two_returns "x" "y") =
      .fail (some 9) "Return type mismatch" ∧
    verdict_of_tokens 100 100 (tokens_two_returns "y" "x") = .ok () ∧
    verdict_of_tokens 100 100 tokens_float_fn_returns_int = .ok () := by
  decide

/-! ### Typing of binary operations and conditions -/

/-- Two texts that agree with a string on their first `n` characters agree on
their first `k ≤ n` characters. -/
theorem CStr.strncmp_eq_take (s p : String) (n k : Nat) (hk : k ≤ n)
    (h : CStr.strncmp_eq s p n = true) : s.data.take k = p.data.take k := by
  unfold CStr.strncmp_eq at h
  have h1 := of_decide_eq_true h
  have h2 := congrArg (List.take k) h1
  rwa [List.take_take, List.take_take, Nat.min_eq_left hk] at h2

/-- A text that starts with `p` does not start with a `q` that differs from `p`
within the first `k` characters. -/
theorem CStr.strncmp_eq_excl (s p q : String) (n m k : Nat) (hkn : k ≤ n) (hkm : k ≤ m)
    (hne : p.data.take k ≠ q.data.take k) (h : CStr.strncmp_eq s p n = true) :
    CStr.strncmp_eq s q m = false := by
  cases hq : CStr.strncmp_eq s q m with
  | false => rfl
  | true =>
    exact absurd ((CStr.strncmp_eq_take s p n k hkn h).symm.trans
      (CStr.strncmp_eq_take s q m k hkm hq)) hne

theorem Phase3.is_bool_op_iff (o : String) :
    Phase3.is_bool_op o = true ↔ o ∈ Phase3.bool_operators := by
  simp only [Phase3.is_bool_op, Phase3.bool_operators, Bool.or_eq_true, decide_eq_true_eq,
    List.mem_cons, List.mem_singleton, List.not_mem_nil, or_false, or_assoc]

theorem Phase3.cur_line_of_drop (st : Phase3.State) (ln : Ast.ASTLine) (tail : List Ast.ASTLine)
    (h : st.lines.drop st.current_line = ln :: tail) :
    Phase3.cur_line st = some ln ∧ st.lines.drop (st.current_line + 1) = tail := by
  constructor
  · unfold Phase3.cur_line
    rw [List.get?_eq_getElem?, ← List.head?_drop, h]
    rfl
  · rw [← List.tail_drop, h]
    rfl

/-- The analysis of an expression subtree built from `Number(`, `Var(`, `Cast(` and
`BinOp(` lines, when it returns, leaves the cursor on the line after the
subtree. -/
theorem Phase3.expr_cursor (d : Nat) (sub : List Ast.ASTLine) (h : Phase3.expr_lines d sub) :
    ∀ (f : Nat) (st : Phase3.State) (rest : List Ast.ASTLine) (t : Phase3.VarType)
      (st2 : Phase3.State),
      st.lines.drop st.current_line = sub ++ rest →
      Phase3.parse_node f d st = .ok (t, st2) →
      st2.current_line = st.current_line + sub.length ∧ st2.lines = st.lines := by
  induction h with
  | number d txt hp =>
    intro f st rest t st2 hd hrun
    obtain ⟨hln, _⟩ := Phase3.cur_line_of_drop st ⟨d, txt⟩ rest hd
    cases f with
    | zero => rw [Phase3.parse_node] at hrun; cases hrun
    | succ f =>
      have x1 := CStr.strncmp_eq_excl txt "Number(" "FunctionDefinition:" 7 19 1
        (by decide) (by decide) (by decide) hp
      have x2 := CStr.strncmp_eq_excl txt "Number(" "Body:" 7 5 1
        (by decide) (by decide) (by decide) hp
      have x3 := CStr.strncmp_eq_excl txt "Number(" "VarDecl:" 7 8 1
        (by decide) (by decide) (by decide) hp
      have x4 := CStr.strncmp_eq_excl txt "Number(" "Assign:" 7 7 1
        (by decide) (by decide) (by decide) hp
      have x5 := CStr.strncmp_eq_excl txt "Number(" "If:" 7 3 1
        (by decide) (by decide) (by decide) hp
      have x6 := CStr.strncmp_eq_excl txt "Number(" "Return:" 7 7 1
        (by decide) (by decide) (by decide) hp
      have x7 := CStr.strncmp_eq_excl txt "Number(" "For:" 7 4 1
        (by decide) (by decide) (by decide) hp
      have x8 := CStr.strncmp_eq_excl txt "Number(" "While:" 7 6 1
        (by decide) (by decide) (by decide) hp
      have x9 := CStr.strncmp_eq_excl txt "Number(" "BinOp(" 7 6 1
        (by decide) (by decide) (by decide) hp
      rw [Phase3.parse_node] at hrun
      simp only [hln] at hrun
      rw [if_neg (not_not.2 rfl)] at hrun
      simp only [x1, x2, x3, x4, x5, x6, x7, x8, x9, hp, Bool.false_eq_true, if_false,
        if_true] at hrun
      injection hrun with hrun
      injection hrun with _ hs
      rw [← hs]
      exact ⟨rfl, rfl⟩
  | var d txt hp =>
    intro f st rest t st2 hd hrun
    obtain ⟨hln, _⟩ := Phase3.cur_line_of_drop st ⟨d, txt⟩ rest hd
    cases f with
    | zero => rw [Phase3.parse_node] at hrun; cases hrun
    | succ f =>
      have x1 := CStr.strncmp_eq_excl txt "Var(" "FunctionDefinition:" 4 19 1
        (by decide) (by decide) (by decide) hp
      have x2 := CStr.strncmp_eq_excl txt "Var(" "Body:" 4 5 1
        (by decide) (by decide) (by decide) hp
      have x3 := CStr.strncmp_eq_excl txt "Var(" "VarDecl:" 4 8 4
        (by decide) (by decide) (by decide) hp
      have x4 := CStr.strncmp_eq_excl txt "Var(" "Assign:" 4 7 1
        (by decide) (by decide) (by decide) hp
      have x5 := CStr.strncmp_eq_excl txt "Var(" "If:" 4 3 1
        (by decide) (by decide) (by decide) hp
      have x6 := CStr.strncmp_eq_excl txt "Var(" "Return:" 4 7 1
        (by decide) (by decide) (by decide) hp
      have x7 := CStr.strncmp_eq_excl txt "Var(" "For:" 4 4 1
        (by decide) (by decide) (by decide) hp
      have x8 := CStr.strncmp_eq_excl txt "Var(" "While:" 4 6 1
        (by decide) (by decide) (by decide) hp
      have x9 := CStr.strncmp_eq_excl txt "Var(" "BinOp(" 4 6 1
        (by decide) (by decide) (by decide) hp
      have x10 := CStr.strncmp_eq_excl txt "Var(" "Number(" 4 7 1
        (by decide) (by decide) (by decide) hp
      rw [Phase3.parse_node] at hrun
      simp only [hln] at hrun
      rw [if_neg (not_not.2 rfl)] at hrun
      simp only [x1, x2, x3, x4, x5, x6, x7, x8, x9, x10, hp, Bool.false_eq_true, if_false,
        if_true] at hrun
      split at hrun
      · cases hrun
      · split at hrun
        · cases hrun
        · injection hrun with hrun
          injection hrun with _ hs
          rw [← hs]
          exact ⟨rfl, rfl⟩
  | cast d txt sub hp _ ih =>
    intro f st rest t st2 hd hrun
    obtain ⟨hln, hd1⟩ := Phase3.cur_line_of_drop st ⟨d, txt⟩ (sub ++ rest) hd
    cases f with
    | zero => rw [Phase3.parse_node] at hrun; cases hrun
    | succ f =>
      have x1 := CStr.strncmp_eq_excl txt "Cast(" "FunctionDefinition:" 5 19 1
        (by decide) (by decide) (by decide) hp
      have x2 := CStr.strncmp_eq_excl txt "Cast(" "Body:" 5 5 1
        (by decide) (by decide) (by decide) hp
      have x3 := CStr.strncmp_eq_excl txt "Cast(" "VarDecl:" 5 8 1
        (by decide) (by decide) (by decide) hp
      have x4 := CStr.strncmp_eq_excl txt "Cast(" "Assign:" 5 7 1
        (by decide) (by decide) (by decide) hp
      have x5 := CStr.strncmp_eq_excl txt "Cast(" "If:" 5 3 1
        (by decide) (by decide) (by decide) hp
      have x6 := CStr.strncmp_eq_excl txt "Cast(" "Return:" 5 7 1
        (by decide) (by decide) (by decide) hp
      have x7 := CStr.strncmp_eq_excl txt "Cast(" "For:" 5 4 1
        (by decide) (by decide) (by decide) hp
      have x8 := CStr.strncmp_eq_excl txt "Cast(" "While:" 5 6 1
        (by decide) (by decide) (by decide) hp
      have x9 := CStr.strncmp_eq_excl txt "Cast(" "BinOp(" 5 6 1
        (by decide) (by decide) (by decide) hp
      have x10 := CStr.strncmp_eq_excl txt "Cast(" "Number(" 5 7 1
        (by decide) (by decide) (by decide) hp
      have x11 := CStr.strncmp_eq_excl txt "Cast(" "Var(" 5 4 1
        (by decide) (by decide) (by decide) hp
      rw [Phase3.parse_node] at hrun
      simp only [hln] at hrun
      rw [if_neg (not_not.2 rfl)] at hrun
      simp only [x1, x2, x3, x4, x5, x6, x7, x8, x9, x10, x11, hp, Bool.false_eq_true, if_false,
        if_true] at hrun
      cases h1 : Phase3.parse_node f (d + 1) (Phase3.advance st) with
      | fuel => rw [h1] at hrun; cases hrun
      | fail l m => rw [h1] at hrun; cases hrun
      | ok p =>
        obtain ⟨t1, st1⟩ := p
        rw [h1] at hrun
        simp only [Outcome.ok_bind] at hrun
        injection hrun with hrun
        injection hrun with _ hs
        have := ih f (Phase3.advance st) rest t1 st1 hd1 h1
        rw [← hs]
        refine ⟨?_, this.2⟩
        rw [this.1, List.length_cons]
        show st.current_line + 1 + sub.length = _
        omega
  | binop d txt l r hp _ _ ihl ihr =>
    intro f st rest t st2 hd hrun
    obtain ⟨hln, hd1⟩ := Phase3.cur_line_of_drop st ⟨d, txt⟩ (l ++ r ++ rest) hd
    cases f with
    | zero => rw [Phase3.parse_node] at hrun; cases hrun
    | succ f =>
      have x1 := CStr.strncmp_eq_excl txt "BinOp(" "FunctionDefinition:" 6 19 1
        (by decide) (by decide) (by decide) hp
      have x2 := CStr.strncmp_eq_excl txt "BinOp(" "Body:" 6 5 2
        (by decide) (by decide) (by decide) hp
      have x3 := CStr.strncmp_eq_excl txt "BinOp(" "VarDecl:" 6 8 1
        (by decide) (by decide) (by decide) hp
      have x4 := CStr.strncmp_eq_excl txt "BinOp(" "Assign:" 6 7 1
        (by decide) (by decide) (by decide) hp
      have x5 := CStr.strncmp_eq_excl txt "BinOp(" "If:" 6 3 1
        (by decide) (by decide) (by decide) hp
      have x6 := CStr.strncmp_eq_excl txt "BinOp(" "Return:" 6 7 1
        (by decide) (by decide) (by decide) hp
      have x7 := CStr.strncmp_eq_excl txt "BinOp(" "For:" 6 4 1
        (by decide) (by decide) (by decide) hp
      have x8 := CStr.strncmp_eq_excl txt "BinOp(" "While:" 6 6 1
        (by decide) (by decide) (by decide) hp
      rw [Phase3.parse_node] at hrun
      simp only [hln] at hrun
      rw [if_neg (not_not.2 rfl)] at hrun
      simp only [x1, x2, x3, x4, x5, x6, x7, x8, hp, Bool.false_eq_true, if_false,
        if_true] at hrun
      cases h1 : Phase3.parse_node f (d + 1) (Phase3.advance st) with
      | fuel => rw [h1] at hrun; cases hrun
      | fail a m => rw [h1] at hrun; cases hrun
      | ok p =>
        obtain ⟨t1, st1⟩ := p
        rw [h1] at hrun
        simp only [Outcome.ok_bind] at hrun
        have hl := ihl f (Phase3.advance st) (r ++ rest) t1 st1
          (by
            show st.lines.drop (st.current_line + 1) = l ++ (r ++ rest)
            rw [hd1, List.append_assoc]) h1
        have hd2 : st1.lines.drop st1.current_line = r ++ rest := by
          rw [hl.2, hl.1]
          show st.lines.drop (st.current_line + 1 + l.length) = _
          rw [← List.drop_drop, hd1, List.append_assoc, List.drop_left]
        cases h2 : Phase3.parse_node f (d + 1) st1 with
        | fuel => rw [h2] at hrun; cases hrun
        | fail a m => rw [h2] at hrun; cases hrun
        | ok q =>
          obtain ⟨t2, st3⟩ := q
          rw [h2] at hrun
          simp only [Outcome.ok_bind] at hrun
          have hr := ihr f st1 rest t2 st3 hd2 h2
          have hfin : st3.current_line = st.current_line + (⟨d, txt⟩ :: (l ++ r)).length ∧
              st3.lines = st.lines := by
            refine ⟨?_, hr.2.trans hl.2⟩
            rw [hr.1, hl.1, List.length_cons, List.length_append]
            show st.current_line + 1 + l.length + r.length = _
            omega
          split at hrun
          · cases hrun
          · split at hrun
            · injection hrun with hrun
              injection hrun with _ hs
              rw [← hs]
              exact hfin
            · injection hrun with hrun
              injection hrun with _ hs
              rw [← hs]
              exact hfin

/-- C24: on an `If:`, `While:` or `For:` line at the expected indent, when the
analysis of the condition (for `For:`, after the analysis of the initializer
has returned) returns a type other than bool, the analyzer aborts with
"Condition of 'if' must be boolean", "Condition of 'while' must be boolean" or
"Condition of 'for' must be boolean". -/
theorem C24_condition_must_be_bool (f e : Nat) (st : Phase3.State) (ln : Ast.ASTLine)
    (hln : Phase3.cur_line st = some ln) (hind : ln.indent = e) :
    (CStr.strncmp_eq ln.text "If:" 3 = true →
      ∀ t st1, Phase3.parse_node f (e + 1) (Phase3.advance st) = .ok (t, st1) →
        t ≠ Phase3.VarType.TYPE_BOOL →
        Phase3.parse_node (f + 1) e st =
          Phase3.semantic_error st1.current_line "Condition of 'if' must be boolean") ∧
    (CStr.strncmp_eq ln.text "While:" 6 = true →
      ∀ t st1, Phase3.parse_node f (e + 1) (Phase3.advance st) = .ok (t, st1) →
        t ≠ Phase3.VarType.TYPE_BOOL →
        Phase3.parse_node (f + 1) e st =
          Phase3.semantic_error st1.current_line "Condition of 'while' must be boolean") ∧
    (CStr.strncmp_eq ln.text "For:" 4 = true →
      ∀ t0 st1 t st2, Phase3.parse_node f (e + 1) (Phase3.advance st) = .ok (t0, st1) →
        Phase3.parse_node f (e + 1) st1 = .ok (t, st2) →
        t ≠ Phase3.VarType.TYPE_BOOL →
        Phase3.parse_node (f + 1) e st =
          Phase3.semantic_error st2.current_line "Condition of 'for' must be boolean") := by
  refine ⟨?_, ?_, ?_⟩
  · intro hop t st1 hc hne
    have h1 := CStr.strncmp_eq_excl ln.text "If:" "FunctionDefinition:" 3 19 1
      (by decide) (by decide) (by decide) hop
    have h2 := CStr.strncmp_eq_excl ln.text "If:" "Body:" 3 5 1
      (by decide) (by decide) (by decide) hop
    have h3 := CStr.strncmp_eq_excl ln.text "If:" "VarDecl:" 3 8 1
      (by decide) (by decide) (by decide) hop
    have h4 := CStr.strncmp_eq_excl ln.text "If:" "Assign:" 3 7 1
      (by decide) (by decide) (by decide) hop
    rw [Phase3.parse_node]
    simp only [hln]
    rw [if_neg (not_not.2 hind)]
    simp only [h1, h2, h3, h4, hop, Bool.false_eq_true, if_false, if_true, hc, Outcome.ok_bind]
    rw [if_pos hne]
  · intro hop t st1 hc hne
    have h1 := CStr.strncmp_eq_excl ln.text "While:" "FunctionDefinition:" 6 19 1
      (by decide) (by decide) (by decide) hop
    have h2 := CStr.strncmp_eq_excl ln.text "While:" "Body:" 6 5 1
      (by decide) (by decide) (by decide) hop
    have h3 := CStr.strncmp_eq_excl ln.text "While:" "VarDecl:" 6 8 1
      (by decide) (by decide) (by decide) hop
    have h4 := CStr.strncmp_eq_excl ln.text "While:" "Assign:" 6 7 1
      (by decide) (by decide) (by decide) hop
    have h5 := CStr.strncmp_eq_excl ln.text "While:" "If:" 6 3 1
      (by decide) (by decide) (by decide) hop
    have h6 := CStr.strncmp_eq_excl ln.text "While:" "Return:" 6 7 1
      (by decide) (by decide) (by decide) hop
    have h7 := CStr.strncmp_eq_excl ln.text "While:" "For:" 6 4 1
      (by decide) (by decide) (by decide) hop
    rw [Phase3.parse_node]
    simp only [hln]
    rw [if_neg (not_not.2 hind)]
    simp only [h1, h2, h3, h4, h5, h6, h7, hop, Bool.false_eq_true, if_false, if_true, hc,
      Outcome.ok_bind]
    rw [if_pos hne]
  · intro hop t0 st1 t st2 hi hc hne
    have h1 := CStr.strncmp_eq_excl ln.text "For:" "FunctionDefinition:" 4 19 2
      (by decide) (by decide) (by decide) hop
    have h2 := CStr.strncmp_eq_excl ln.text "For:" "Body:" 4 5 1
      (by decide) (by decide) (by decide) hop
    have h3 := CStr.strncmp_eq_excl ln.text "For:" "VarDecl:" 4 8 1
      (by decide) (by decide) (by decide) hop
    have h4 := CStr.strncmp_eq_excl ln.text "For:" "Assign:" 4 7 1
      (by decide) (by decide) (by decide) hop
    have h5 := CStr.strncmp_eq_excl ln.text "For:" "If:" 4 3 1
      (by decide) (by decide) (by decide) hop
    have h6 := CStr.strncmp_eq_excl ln.text "For:" "Return:" 4 7 1
      (by decide) (by decide) (by decide) hop
    rw [Phase3.parse_node]
    simp only [hln]
    rw [if_neg (not_not.2 hind)]
    simp only [h1, h2, h3, h4, h5, h6, hop, Bool.false_eq_true, if_false, if_true, hi, hc,
      Outcome.ok_bind]
    rw [if_pos hne]

theorem C24_condition_must_be_bool_witness :
    (Phase3.parse_node 2 0 (state_in_f lines_if_a 0) =
       Phase3.semantic_error 2 "Condition of 'if' must be boolean" ∧
     Phase3.parse_node 3 0 (state_in_f lines_while_a_plus_1 0) =
       Phase3.semantic_error 4 "Condition of 'while' must be boolean" ∧
     Phase3.parse_node 3 0 (state_in_f lines_for_a 0) =
       Phase3.semantic_error 4 "Condition of 'for' must be boolean") ∧
    verdict_of_tokens 100 100 tokens_if_int_condition =
      .fail (some 7) "Condition of 'if' must be boolean" ∧
    verdict_of_tokens 100 100 tokens_while_arith_condition =
      .fail (some 9) "Condition of 'while' must be boolean" ∧
    verdict_of_tokens 100 100 tokens_for_int_condition =
      .fail (some 9) "Condition of 'for' must be boolean" :=
  ⟨⟨(C24_condition_must_be_bool 1 0 (state_in_f lines_if_a 0) ⟨0, "If:"⟩
        (by decide) (by decide)).1 (by decide) .TYPE_INT (state_in_f lines_if_a 2)
        (by decide) (by decide),
    (C24_condition_must_be_bool 2 0 (state_in_f lines_while_a_plus_1 0) ⟨0, "While:"⟩
        (by decide) (by decide)).2.1 (by decide) .TYPE_INT (state_in_f lines_while_a_plus_1 4)
        (by decide) (by decide),
    (C24_condition_must_be_bool 2 0 (state_in_f lines_for_a 0) ⟨0, "For:"⟩
        (by decide) (by decide)).2.2 (by decide) .TYPE_VOID (state_in_f lines_for_a 3)
        .TYPE_INT (state_in_f lines_for_a 4) (by decide) (by decide) (by decide)⟩,
   by decide, by decide, by decide⟩

/-! ### The instructions the generator writes -/

theorem Phase4.render_append (d1 d2 : List Phase4.Instr) :
    Phase4.render (d1 ++ d2) = Phase4.render d1 ++ Phase4.render d2 := by
  induction d1 with
  | nil => simp [Phase4.render]
  | cons i rest ih => simp [Phase4.render, ih, String.append_assoc]

theorem Phase4.is_operand_mono (lines : List Ast.ASTLine) (n m : Nat) (o : String) (h : n ≤ m)
    (ho : Phase4.is_operand lines n o) : Phase4.is_operand lines m o := by
  rcases ho with ⟨j, hj, rfl⟩ | ho | ho
  · exact Or.inl ⟨j, by omega, rfl⟩
  · exact Or.inr (Or.inl ho)
  · exact Or.inr (Or.inr ho)

theorem Phase4.operands_ok_append (lines : List Ast.ASTLine) (d1 d2 : List Phase4.Instr) (n : Nat) :
    Phase4.operands_ok lines n (d1 ++ d2) ↔
      Phase4.operands_ok lines n d1 ∧
      Phase4.operands_ok lines (n + (Phase4.assigned_temps d1).length) d2 := by
  induction d1 generalizing n with
  | nil => simp [Phase4.operands_ok, Phase4.assigned_temps]
  | cons i rest ih =>
    have hlen : (Phase4.assigned_temps (i :: rest)).length =
        (Phase4.assigned_temps [i]).length + (Phase4.assigned_temps rest).length := by
      unfold Phase4.assigned_temps
      rw [← List.length_append, ← List.filterMap_append]
      rfl
    rw [List.cons_append, Phase4.operands_ok, Phase4.operands_ok, ih, hlen, and_assoc,
      Nat.add_assoc]

theorem Phase4.range_split (a b c : Nat) (h1 : a ≤ b) (h2 : b ≤ c) :
    List.range' a (b - a) ++ List.range' b (c - b) = List.range' a (c - a) := by
  obtain ⟨m, rfl⟩ : ∃ m, b = a + m := ⟨b - a, by omega⟩
  obtain ⟨n, rfl⟩ : ∃ n, c = a + m + n := ⟨c - (a + m), by omega⟩
  rw [Nat.add_sub_cancel_left, Nat.add_sub_cancel_left, List.range'_append_1]
  congr 1
  omega

theorem Phase4.core_refl (st : Phase4.State) : Phase4.Core st st [] where
  lines_eq := rfl
  cursor_le := le_refl _
  out_eq := by simp [Phase4.render]
  labels_le := le_refl _
  temps_le := le_refl _
  assigned := by simp [Phase4.assigned_temps]
  operands := trivial
  sourced := fun i hi => absurd hi (List.not_mem_nil _)

theorem Phase4.core_trans {st st1 st2 : Phase4.State} {d1 d2 : List Phase4.Instr}
    (h1 : Phase4.Core st st1 d1) (h2 : Phase4.Core st1 st2 d2) :
    Phase4.Core st st2 (d1 ++ d2) where
  lines_eq := h2.lines_eq.trans h1.lines_eq
  cursor_le := le_trans h1.cursor_le h2.cursor_le
  out_eq := by rw [h2.out_eq, h1.out_eq, Phase4.render_append, String.append_assoc]
  labels_le := le_trans h1.labels_le h2.labels_le
  temps_le := le_trans h1.temps_le h2.temps_le
  assigned := by
    have e1 := h1.assigned
    have e2 := h2.assigned
    have t1 := h1.temps_le
    have t2 := h2.temps_le
    unfold Phase4.assigned_temps at e1 e2 ⊢
    rw [List.filterMap_append, e1, e2]
    exact Phase4.range_split _ _ _ t1 t2
  operands := by
    rw [Phase4.operands_ok_append]
    refine ⟨h1.operands, ?_⟩
    have e1 := h1.assigned
    have t1 := h1.temps_le
    rw [e1, List.length_range']
    have hs : st.temp_counter + (st1.temp_counter - st.temp_counter) = st1.temp_counter := by
      omega
    rw [hs, ← h1.lines_eq]
    exact h2.operands
  sourced := by
    intro i hi
    rcases List.mem_append.1 hi with h | h
    · exact h1.sourced i h
    · rw [← h1.lines_eq]
      exact h2.sourced i h

theorem Phase4.core_cast {st st2 : Phase4.State} {d d2 : List Phase4.Instr}
    (h : Phase4.Core st st2 d) (e : d = d2) : Phase4.Core st st2 d2 := e ▸ h

/-- A step that only moves the cursor forward. -/
theorem Phase4.core_jump (st : Phase4.State) (n : Nat) :
    Phase4.Core st { st with current_line := st.current_line + n } [] where
  lines_eq := rfl
  cursor_le := Nat.le_add_right _ _
  out_eq := by simp [Phase4.render]
  labels_le := le_refl _
  temps_le := le_refl _
  assigned := by simp [Phase4.assigned_temps]
  operands := trivial
  sourced := fun i hi => absurd hi (List.not_mem_nil _)

theorem Phase4.core_advance (st : Phase4.State) : Phase4.Core st (Phase4.advance st) [] :=
  Phase4.core_jump st 1

theorem Phase4.core_new_label (st : Phase4.State) :
    Phase4.Core st (Phase4.new_label st).2 [] where
  lines_eq := rfl
  cursor_le := le_refl _
  out_eq := by simp [Phase4.render, Phase4.new_label]
  labels_le := Nat.le_add_right _ _
  temps_le := le_refl _
  assigned := by simp [Phase4.assigned_temps, Phase4.new_label]
  operands := trivial
  sourced := fun i hi => absurd hi (List.not_mem_nil _)

/-- One `printf` of an instruction other than a binary one. -/
theorem Phase4.core_emit (st : Phase4.State) (i : Phase4.Instr) (ha : i.assigned = none)
    (hop : ∀ o ∈ i.operands, Phase4.is_operand st.lines st.temp_counter o)
    (hs : i.sourced st.lines) :
    Phase4.Core st (Phase4.emit st i.text) [i] where
  lines_eq := rfl
  cursor_le := le_refl _
  out_eq := by simp [Phase4.render, Phase4.emit]
  labels_le := le_refl _
  temps_le := le_refl _
  assigned := by simp [Phase4.assigned_temps, Phase4.emit, ha]
  operands := ⟨hop, trivial⟩
  sourced := fun j hj => by rw [List.mem_singleton.1 hj]; exact hs

/-- The end of the `BinOp(` branch: a new temporary and the `printf` of the
binary instruction. -/
theorem Phase4.core_binary (st : Phase4.State) (l o r : String)
    (hl : Phase4.is_operand st.lines st.temp_counter l)
    (hr : Phase4.is_operand st.lines st.temp_counter r)
    (hs : (Phase4.Instr.binary st.temp_counter l o r).sourced st.lines) :
    Phase4.Core st
      (Phase4.emit (Phase4.new_temp st).2 (Phase4.Instr.binary st.temp_counter l o r).text)
      [.binary st.temp_counter l o r] where
  lines_eq := rfl
  cursor_le := le_refl _
  out_eq := by simp [Phase4.render, Phase4.emit, Phase4.new_temp]
  labels_le := le_refl _
  temps_le := Nat.le_add_right _ _
  assigned := by
    simp [Phase4.assigned_temps, Phase4.emit, Phase4.new_temp, Phase4.Instr.assigned]
  operands := by
    refine ⟨?_, trivial⟩
    intro x hx
    simp only [Phase4.Instr.operands, List.mem_cons, List.mem_singleton, List.not_mem_nil,
      or_false] at hx
    rcases hx with rfl | rfl
    · exact hl
    · exact hr
  sourced := fun j hj => by rw [List.mem_singleton.1 hj]; exact hs

/-! ### Label hygiene of pieces of output -/

theorem Phase4.hygiene_nil (a : Nat) : Phase4.hygiene a a [] := by
  intro k
  have h : ¬(a ≤ k ∧ k < a) := by omega
  simp [Phase4.declared_labels, Phase4.jump_targets, h]

theorem Phase4.hygiene_trans (a b c : Nat) (d1 d2 : List Phase4.Instr) (hab : a ≤ b) (hbc : b ≤ c)
    (h1 : Phase4.hygiene a b d1) (h2 : Phase4.hygiene b c d2) :
    Phase4.hygiene a c (d1 ++ d2) := by
  intro k
  have e1 := h1 k
  have e2 := h2 k
  unfold Phase4.declared_labels Phase4.jump_targets at e1 e2 ⊢
  rw [List.filterMap_append, List.filterMap_append, List.count_append, List.count_append,
    e1.1, e1.2, e2.1, e2.2]
  constructor <;> split_ifs <;> omega

/-- An instruction that declares no label and jumps nowhere. -/
theorem Phase4.hygiene_plain (a : Nat) (i : Phase4.Instr) (hd : i.declared = none)
    (ht : i.target = none) : Phase4.hygiene a a [i] := by
  intro k
  have h : ¬(a ≤ k ∧ k < a) := by omega
  simp [Phase4.declared_labels, Phase4.jump_targets, h, hd, ht]

/-- The instructions of a loop: `Lstart:`, the condition, `ifFalse c goto Lend`,
the body, `goto Lstart`, `Lend:`. -/
theorem Phase4.hygiene_loop (n m p : Nat) (c : String) (dc db : List Phase4.Instr)
    (hnm : n + 2 ≤ m) (hmp : m ≤ p)
    (hc : Phase4.hygiene (n + 2) m dc) (hb : Phase4.hygiene m p db) :
    Phase4.hygiene n p
      (.label n :: (dc ++ (.if_false c (n + 1) :: (db ++ [.goto n, .label (n + 1)])))) := by
  intro k
  have e1 := hc k
  have e2 := hb k
  unfold Phase4.declared_labels Phase4.jump_targets at e1 e2 ⊢
  simp only [List.filterMap_cons, List.filterMap_append, List.filterMap_nil,
    Phase4.Instr.declared, Phase4.Instr.target, List.count_cons, List.count_append,
    List.count_nil, e1.1, e1.2, e2.1, e2.2, beq_iff_eq]
  constructor <;> split_ifs <;> omega

/-- The instructions of an `if`: `ifFalse c goto Lelse`, the then-block,
`goto Lend`, `Lelse:`, the else-block, `Lend:`. -/
theorem Phase4.hygiene_branch (n m p : Nat) (c : String) (dt de : List Phase4.Instr)
    (hnm : n + 2 ≤ m) (hmp : m ≤ p)
    (ht : Phase4.hygiene (n + 2) m dt) (he : Phase4.hygiene m p de) :
    Phase4.hygiene n p
      (.if_false c n :: (dt ++ (.goto (n + 1) :: .label n :: (de ++ [.label (n + 1)])))) := by
  intro k
  have e1 := ht k
  have e2 := he k
  unfold Phase4.declared_labels Phase4.jump_targets at e1 e2 ⊢
  simp only [List.filterMap_cons, List.filterMap_append, List.filterMap_nil,
    Phase4.Instr.declared, Phase4.Instr.target, List.count_cons, List.count_append,
    List.count_nil, e1.1, e1.2, e2.1, e2.2, beq_iff_eq]
  constructor <;> split_ifs <;> omega

/-! ### The `func` and `endfunc` lines of pieces of output -/

theorem Phase4.function_lines_upto_succ (lines : List Ast.ASTLine) (c : Nat) (ln : Ast.ASTLine)
    (h : lines.get? c = some ln) :
    Phase4.function_lines_upto lines (c + 1) =
      Phase4.function_lines_upto lines c + (if Phase4.is_function_line ln = true then 1 else 0) := by
  unfold Phase4.function_lines_upto
  rw [List.get?_eq_getElem?] at h
  rw [List.take_succ, h, List.countP_append]
  simp [List.countP_cons]

theorem Phase4.func_facts_nil (lines : List Ast.ASTLine) (c : Nat) :
    Phase4.func_facts lines c c [] := by
  refine ⟨rfl, fun _ => ?_⟩
  simp [Phase4.func_count]

theorem Phase4.func_facts_trans (lines : List Ast.ASTLine) (c c1 c2 : Nat)
    (d1 d2 : List Phase4.Instr) (h1 : Phase4.func_facts lines c c1 d1)
    (h2 : Phase4.func_facts lines c1 c2 d2) : Phase4.func_facts lines c c2 (d1 ++ d2) := by
  obtain ⟨a1, b1⟩ := h1
  obtain ⟨a2, b2⟩ := h2
  refine ⟨?_, fun H => ?_⟩
  · unfold Phase4.endfunc_count Phase4.func_count at *
    rw [List.countP_append, List.countP_append, a1, a2]
  · have e1 := b1 H
    have e2 := b2 H
    unfold Phase4.func_count at *
    rw [List.countP_append]
    omega

/-- An instruction other than `func` and `endfunc`. -/
theorem Phase4.func_facts_plain (lines : List Ast.ASTLine) (c : Nat) (i : Phase4.Instr)
    (hf : i.is_func = false) (he : i.is_endfunc = false) :
    Phase4.func_facts lines c c [i] := by
  unfold Phase4.func_facts Phase4.endfunc_count Phase4.func_count
  simp [List.countP_cons, hf, he]

/-- The cursor passes a line that is not a `FunctionDefinition:` line. -/
theorem Phase4.func_facts_advance (lines : List Ast.ASTLine) (c : Nat) (ln : Ast.ASTLine)
    (h : lines.get? c = some ln) (hfd : Phase4.is_function_line ln = false) :
    Phase4.func_facts lines c (c + 1) [] := by
  refine ⟨rfl, fun _ => ?_⟩
  rw [Phase4.function_lines_upto_succ lines c ln h, hfd]
  simp [Phase4.func_count]

theorem Phase4.take_length_takeWhile {α : Type} (p : α → Bool) (l : List α) :
    List.take (l.takeWhile p).length l = l.takeWhile p := by
  induction l with
  | nil => rfl
  | cons a rest ih =>
    by_cases h : p a = true
    · simp [List.takeWhile_cons, h, ih]
    · simp [List.takeWhile_cons, h]

/-- The cursor passes the lines of greater indent that follow it. -/
theorem Phase4.func_facts_skip (lines : List Ast.ASTLine) (c e : Nat) :
    Phase4.func_facts lines c
      (c + ((lines.drop c).takeWhile (fun l => decide (l.indent > e))).length) [] := by
  refine ⟨rfl, fun H => ?_⟩
  unfold Phase4.function_lines_upto
  rw [List.take_add, List.countP_append]
  have hz : List.countP Phase4.is_function_line
      (List.take ((lines.drop c).takeWhile (fun l => decide (l.indent > e))).length
        (List.drop c lines)) = 0 := by
    rw [List.countP_eq_zero]
    intro a ha hfd
    have hsub : a ∈ (lines.drop c).takeWhile (fun l => decide (l.indent > e)) := by
      rw [Phase4.take_length_takeWhile] at ha
      exact ha
    have hind := List.mem_takeWhile_imp hsub
    have hin : a ∈ lines := List.mem_of_mem_drop ((List.takeWhile_sublist _).subset hsub)
    have h0 := H a hin hfd
    simp only [decide_eq_true_eq] at hind
    omega
  rw [hz]
  simp [Phase4.func_count]

/-- The output for a `FunctionDefinition:` line: `func`, the output for its
parameters and body, `endfunc`. -/
theorem Phase4.func_facts_function (lines : List Ast.ASTLine) (c c2 : Nat) (ln : Ast.ASTLine)
    (name : String) (d : List Phase4.Instr)
    (h : lines.get? c = some ln) (hfd : Phase4.is_function_line ln = true)
    (hd : Phase4.func_facts lines (c + 1) c2 d) :
    Phase4.func_facts lines c c2 (.func name :: (d ++ [.endfunc])) := by
  obtain ⟨a, b⟩ := hd
  refine ⟨?_, fun H => ?_⟩
  · unfold Phase4.endfunc_count Phase4.func_count at *
    simp only [List.countP_cons, List.countP_append, Phase4.Instr.is_func,
      Phase4.Instr.is_endfunc, List.countP_nil, a]
    simp
  · have e := b H
    rw [Phase4.function_lines_upto_succ lines c ln h, hfd] at e
    unfold Phase4.func_count at *
    simp only [List.countP_cons, List.countP_append, Phase4.Instr.is_func, List.countP_nil]
    simp only [if_true] at e
    simp only [if_true, Bool.false_eq_true, if_false]
    omega

/-! ### Pieces of a run of the generator -/

theorem Phase4.traced_refl (st : Phase4.State) : Phase4.Traced st st [] :=
  ⟨Phase4.core_refl st, Phase4.hygiene_nil _, Phase4.func_facts_nil _ _⟩

theorem Phase4.traced_trans {st st1 st2 : Phase4.State} {d1 d2 : List Phase4.Instr}
    (h1 : Phase4.Traced st st1 d1) (h2 : Phase4.Traced st1 st2 d2) :
    Phase4.Traced st st2 (d1 ++ d2) := by
  obtain ⟨c1, g1, f1⟩ := h1
  obtain ⟨c2, g2, f2⟩ := h2
  refine ⟨Phase4.core_trans c1 c2, Phase4.hygiene_trans _ _ _ _ _ c1.labels_le c2.labels_le g1 g2, ?_⟩
  rw [c1.lines_eq] at f2
  exact Phase4.func_facts_trans _ _ _ _ _ _ f1 f2

/-- The cursor passes a line that is not a `FunctionDefinition:` line. -/
theorem Phase4.traced_advance (st : Phase4.State) (ln : Ast.ASTLine)
    (hln : Phase4.cur_line st = some ln) (hfd : Phase4.is_function_line ln = false) :
    Phase4.Traced st (Phase4.advance st) [] :=
  ⟨Phase4.core_advance st, Phase4.hygiene_nil _, Phase4.func_facts_advance _ _ ln hln hfd⟩

/-- The loop of the `VarDeclGroup:` branch that passes the lines of greater
indent. -/
theorem Phase4.traced_skip (st : Phase4.State) (e : Nat) :
    Phase4.Traced st
      { st with current_line := st.current_line +
          ((st.lines.drop st.current_line).takeWhile (fun l => decide (l.indent > e))).length }
      [] :=
  ⟨Phase4.core_jump st _, Phase4.hygiene_nil _, Phase4.func_facts_skip _ _ e⟩

/-- One `printf` of a `copy` or `return` instruction. -/
theorem Phase4.traced_emit (st : Phase4.State) (i : Phase4.Instr) (ha : i.assigned = none)
    (hd : i.declared = none) (ht : i.target = none) (hf : i.is_func = false)
    (he : i.is_endfunc = false)
    (hop : ∀ o ∈ i.operands, Phase4.is_operand st.lines st.temp_counter o)
    (hs : i.sourced st.lines) :
    Phase4.Traced st (Phase4.emit st i.text) [i] :=
  ⟨Phase4.core_emit st i ha hop hs, Phase4.hygiene_plain _ i hd ht,
    Phase4.func_facts_plain _ _ i hf he⟩

theorem Phase4.traced_binary (st : Phase4.State) (l o r : String)
    (hl : Phase4.is_operand st.lines st.temp_counter l)
    (hr : Phase4.is_operand st.lines st.temp_counter r)
    (hs : (Phase4.Instr.binary st.temp_counter l o r).sourced st.lines) :
    Phase4.Traced st
      (Phase4.emit (Phase4.new_temp st).2 (Phase4.Instr.binary st.temp_counter l o r).text)
      [.binary st.temp_counter l o r] :=
  ⟨Phase4.core_binary st l o r hl hr hs, Phase4.hygiene_plain _ _ rfl rfl,
    Phase4.func_facts_plain _ _ _ rfl rfl⟩

/-- The `FunctionDefinition:` branch: `func`, what the parameters and the body
write, `endfunc`. -/
theorem Phase4.traced_function_def (st st3 : Phase4.State) (ln : Ast.ASTLine) (name : String)
    (d : List Phase4.Instr) (hln : Phase4.cur_line st = some ln)
    (hfd : Phase4.is_function_line ln = true)
    (hs : (Phase4.Instr.func name).sourced st.lines)
    (h : Phase4.Traced (Phase4.advance (Phase4.emit st (Phase4.Instr.func name).text)) st3 d) :
    Phase4.Traced st (Phase4.emit st3 Phase4.Instr.endfunc.text)
      (.func name :: (d ++ [.endfunc])) := by
  obtain ⟨c, g, f⟩ := h
  refine ⟨?_, ?_, ?_⟩
  · have c0 := Phase4.core_emit st (.func name) rfl
      (fun o ho => absurd ho (List.not_mem_nil _)) hs
    have c1 := Phase4.core_advance (Phase4.emit st (Phase4.Instr.func name).text)
    have c3 := Phase4.core_emit st3 .endfunc rfl (fun o ho => absurd ho (List.not_mem_nil _))
      trivial
    exact Phase4.core_cast (Phase4.core_trans (Phase4.core_trans (Phase4.core_trans c0 c1) c) c3)
      (by simp)
  · have g0 := Phase4.hygiene_plain st.label_counter (.func name) rfl rfl
    have g3 := Phase4.hygiene_plain st3.label_counter .endfunc rfl rfl
    have hle : st.label_counter ≤ st3.label_counter := c.labels_le
    have g1 := Phase4.hygiene_trans _ _ _ _ _ (le_refl _) hle g0 g
    have g2 := Phase4.hygiene_trans _ _ _ _ _ hle (le_refl _) g1 g3
    exact g2
  · exact Phase4.func_facts_function _ _ _ ln name d hln hfd f

/-- A loop: two labels `Lstart`, `Lend`, then `Lstart:`, the condition,
`ifFalse c goto Lend`, the body, `goto Lstart`, `Lend:`. -/
theorem Phase4.traced_loop (s st4 st6 : Phase4.State) (c : String) (dc db : List Phase4.Instr)
    (hc : Phase4.Traced
      (Phase4.emit (Phase4.new_label (Phase4.new_label s).2).2
        (Phase4.Instr.label s.label_counter).text) st4 dc)
    (hop : Phase4.is_operand s.lines st4.temp_counter c)
    (hb : Phase4.Traced (Phase4.emit st4 (Phase4.Instr.if_false c (s.label_counter + 1)).text)
      st6 db) :
    Phase4.Traced s
      (Phase4.emit (Phase4.emit st6 (Phase4.Instr.goto s.label_counter).text)
        (Phase4.Instr.label (s.label_counter + 1)).text)
      (.label s.label_counter ::
        (dc ++ (.if_false c (s.label_counter + 1) ::
          (db ++ [.goto s.label_counter, .label (s.label_counter + 1)])))) := by
  obtain ⟨cc, gc, fc⟩ := hc
  obtain ⟨cb, gb, fb⟩ := hb
  have hl4 : st4.lines = s.lines := cc.lines_eq
  refine ⟨?_, ?_, ?_⟩
  · have k1 := Phase4.core_new_label s
    have k2 := Phase4.core_new_label (Phase4.new_label s).2
    have k3 := Phase4.core_emit (Phase4.new_label (Phase4.new_label s).2).2
      (.label s.label_counter) rfl (fun o ho => absurd ho (List.not_mem_nil _)) trivial
    have k5 := Phase4.core_emit st4 (.if_false c (s.label_counter + 1)) rfl (by
      intro o ho
      simp only [Phase4.Instr.operands, List.mem_singleton] at ho
      rw [ho, hl4]
      exact hop) trivial
    have k7 := Phase4.core_emit st6 (.goto s.label_counter) rfl
      (fun o ho => absurd ho (List.not_mem_nil _)) trivial
    have k8 := Phase4.core_emit (Phase4.emit st6 (Phase4.Instr.goto s.label_counter).text)
      (.label (s.label_counter + 1)) rfl (fun o ho => absurd ho (List.not_mem_nil _)) trivial
    exact Phase4.core_cast (Phase4.core_trans (Phase4.core_trans (Phase4.core_trans
      (Phase4.core_trans (Phase4.core_trans (Phase4.core_trans (Phase4.core_trans k1 k2) k3) cc)
        k5) cb) k7) k8) (by simp)
  · have h1 : s.label_counter + 2 ≤ st4.label_counter := cc.labels_le
    have h2 : st4.label_counter ≤ st6.label_counter := cb.labels_le
    exact Phase4.hygiene_loop s.label_counter st4.label_counter st6.label_counter c dc db h1 h2
      gc gb
  · have f0 := Phase4.func_facts_nil s.lines s.current_line
    have f3 := Phase4.func_facts_plain s.lines s.current_line (.label s.label_counter) rfl rfl
    have f5 := Phase4.func_facts_plain s.lines st4.current_line
      (.if_false c (s.label_counter + 1)) rfl rfl
    have f7 := Phase4.func_facts_plain s.lines st6.current_line (.goto s.label_counter) rfl rfl
    have f8 := Phase4.func_facts_plain s.lines st6.current_line
      (.label (s.label_counter + 1)) rfl rfl
    have fb2 : Phase4.func_facts s.lines st4.current_line st6.current_line db := by
      have := fb
      rw [show (Phase4.emit st4 (Phase4.Instr.if_false c (s.label_counter + 1)).text).lines =
        s.lines from hl4] at this
      exact this
    have fc2 : Phase4.func_facts s.lines s.current_line st4.current_line dc := fc
    have r1 := Phase4.func_facts_trans _ _ _ _ _ _ f3 fc2
    have r2 := Phase4.func_facts_trans _ _ _ _ _ _ r1 f5
    have r3 := Phase4.func_facts_trans _ _ _ _ _ _ r2 fb2
    have r4 := Phase4.func_facts_trans _ _ _ _ _ _ r3 f7
    have r5 := Phase4.func_facts_trans _ _ _ _ _ _ r4 f8
    have e : [Phase4.Instr.label s.label_counter] ++ dc ++
        [Phase4.Instr.if_false c (s.label_counter + 1)] ++ db ++
        [Phase4.Instr.goto s.label_counter] ++ [Phase4.Instr.label (s.label_counter + 1)] =
        (.label s.label_counter ::
          (dc ++ (.if_false c (s.label_counter + 1) ::
            (db ++ [.goto s.label_counter, .label (s.label_counter + 1)])))) := by simp
    rw [e] at r5
    exact r5

/-- An `if`: two labels `Lelse`, `Lend`, then `ifFalse c goto Lelse`, the
then-block, `goto Lend`, `Lelse:`, the else-block, `Lend:`. -/
theorem Phase4.traced_branch (s st5 st7 : Phase4.State) (c : String)
    (dt de : List Phase4.Instr)
    (hop : Phase4.is_operand s.lines s.temp_counter c)
    (ht : Phase4.Traced
      (Phase4.emit (Phase4.new_label (Phase4.new_label s).2).2
        (Phase4.Instr.if_false c s.label_counter).text) st5 dt)
    (he : Phase4.Traced
      (Phase4.emit (Phase4.emit st5 (Phase4.Instr.goto (s.label_counter + 1)).text)
        (Phase4.Instr.label s.label_counter).text) st7 de) :
    Phase4.Traced s (Phase4.emit st7 (Phase4.Instr.label (s.label_counter + 1)).text)
      (.if_false c s.label_counter ::
        (dt ++ (.goto (s.label_counter + 1) :: .label s.label_counter ::
          (de ++ [.label (s.label_counter + 1)])))) := by
  obtain ⟨ct, gt, ft⟩ := ht
  obtain ⟨ce, ge, fe⟩ := he
  have hl5 : st5.lines = s.lines := ct.lines_eq
  refine ⟨?_, ?_, ?_⟩
  · have k1 := Phase4.core_new_label s
    have k2 := Phase4.core_new_label (Phase4.new_label s).2
    have k3 := Phase4.core_emit (Phase4.new_label (Phase4.new_label s).2).2
      (.if_false c s.label_counter) rfl (by
      intro o ho
      simp only [Phase4.Instr.operands, List.mem_singleton] at ho
      rw [ho]
      exact hop) trivial
    have k5 := Phase4.core_emit st5 (.goto (s.label_counter + 1)) rfl
      (fun o ho => absurd ho (List.not_mem_nil _)) trivial
    have k6 := Phase4.core_emit (Phase4.emit st5 (Phase4.Instr.goto (s.label_counter + 1)).text)
      (.label s.label_counter) rfl (fun o ho => absurd ho (List.not_mem_nil _)) trivial
    have k8 := Phase4.core_emit st7 (.label (s.label_counter + 1)) rfl
      (fun o ho => absurd ho (List.not_mem_nil _)) trivial
    exact Phase4.core_cast (Phase4.core_trans (Phase4.core_trans (Phase4.core_trans
      (Phase4.core_trans (Phase4.core_trans (Phase4.core_trans (Phase4.core_trans k1 k2) k3) ct)
        k5) k6) ce) k8) (by simp)
  · have h1 : s.label_counter + 2 ≤ st5.label_counter := ct.labels_le
    have h2 : st5.label_counter ≤ st7.label_counter := ce.labels_le
    exact Phase4.hygiene_branch s.label_counter st5.label_counter st7.label_counter c dt de h1 h2
      gt ge
  · have f3 := Phase4.func_facts_plain s.lines s.current_line
      (.if_false c s.label_counter) rfl rfl
    have f5 := Phase4.func_facts_plain s.lines st5.current_line
      (.goto (s.label_counter + 1)) rfl rfl
    have f6 := Phase4.func_facts_plain s.lines st5.current_line
      (.label s.label_counter) rfl rfl
    have f8 := Phase4.func_facts_plain s.lines st7.current_line
      (.label (s.label_counter + 1)) rfl rfl
    have fe2 : Phase4.func_facts s.lines st5.current_line st7.current_line de := by
      have := fe
      rw [show (Phase4.emit (Phase4.emit st5 (Phase4.Instr.goto (s.label_counter + 1)).text)
        (Phase4.Instr.label s.label_counter).text).lines = s.lines from hl5] at this
      exact this
    have ft2 : Phase4.func_facts s.lines s.current_line st5.current_line dt := ft
    have r1 := Phase4.func_facts_trans _ _ _ _ _ _ f3 ft2
    have r2 := Phase4.func_facts_trans _ _ _ _ _ _ r1 f5
    have r3 := Phase4.func_facts_trans _ _ _ _ _ _ r2 f6
    have r4 := Phase4.func_facts_trans _ _ _ _ _ _ r3 fe2
    have r5 := Phase4.func_facts_trans _ _ _ _ _ _ r4 f8
    have e : [Phase4.Instr.if_false c s.label_counter] ++ dt ++
        [Phase4.Instr.goto (s.label_counter + 1)] ++ [Phase4.Instr.label s.label_counter] ++ de ++
        [Phase4.Instr.label (s.label_counter + 1)] =
        (.if_false c s.label_counter ::
          (dt ++ (.goto (s.label_counter + 1) :: .label s.label_counter ::
            (de ++ [.label (s.label_counter + 1)])))) := by simp
    rw [e] at r5
    exact r5

/-! ### The invariant of the generator -/

theorem Outcome.sat_mono {α : Type} {P Q : α → Prop} {x : Outcome α}
    (h : ∀ a, P a → Q a) (hx : Outcome.Sat P x) : Outcome.Sat Q x :=
  fun a ha => h a (hx a ha)

/-- A word read with `sscanf`: when it fits its buffer the run goes on with it. -/
theorem Phase4.scanned_sat {β : Type} (size : Nat) (w : List Char) (P : β → Prop)
    (g : String → Outcome β) (h : w.length < size → Outcome.Sat P (g (String.mk w))) :
    Outcome.Sat P (Phase4.scanned size w >>= g) := by
  unfold Phase4.scanned
  by_cases hl : w.length < size
  · rw [if_pos hl, Outcome.ok_bind]
    exact h hl
  · rw [if_neg hl]
    exact Outcome.sat_fail

theorem Phase4.cur_line_in_lines (st : Phase4.State) (ln : Ast.ASTLine)
    (h : Phase4.cur_line st = some ln) : ln ∈ st.lines := List.get?_mem h

/-- A branch of `gen_node` that first passes the current line and then runs from
`advance st` to `stf`. -/
theorem Phase4.node_post_of_advance (e : Nat) (st stf : Phase4.State) (ln : Ast.ASTLine)
    (r : Option String) (d : List Phase4.Instr)
    (hln : Phase4.cur_line st = some ln) (hfd : Phase4.is_function_line ln = false)
    (T : Phase4.Traced (Phase4.advance st) stf d)
    (hop : Phase4.is_operand st.lines stf.temp_counter (Phase4.str_arg r)) :
    Phase4.node_post e st (r, stf) :=
  ⟨⟨_, Phase4.traced_trans (Phase4.traced_advance st ln hln hfd) T⟩, hop, fun _ _ _ => T.1.cursor_le⟩

theorem Phase4.is_operand_null (lines : List Ast.ASTLine) (n : Nat) :
    Phase4.is_operand lines n (Phase4.str_arg none) := Or.inr (Or.inr rfl)

/-- The invariant of `gen_node` and `gen_block` at one amount of fuel: what a call
that returns has written is a list of instructions with label hygiene, fresh
temporaries and matching `func` and `endfunc` lines. -/
theorem Phase4.gen_traced (f : Nat) :
    (∀ e st, Outcome.Sat (Phase4.node_post e st) (Phase4.gen_node f e st)) ∧
    (∀ e st, Outcome.Sat (Phase4.block_post st) (Phase4.gen_block f e st)) := by
  induction f with
  | zero =>
    refine ⟨?_, ?_⟩
    · intro e st; rw [Phase4.gen_node]; exact Outcome.sat_fuel
    · intro e st; rw [Phase4.gen_block]; exact Outcome.sat_fuel
  | succ f ih =>
    obtain ⟨ih_node, ih_block⟩ := ih
    have ih_opt_block : ∀ (b : Bool) (e : Nat) (s : Phase4.State),
        Outcome.Sat (Phase4.block_post s)
          (if b = true then Phase4.gen_block f e s else .ok s) := by
      intro b e s
      split
      · exact ih_block _ _
      · exact Outcome.sat_ok ⟨[], Phase4.traced_refl _⟩
    refine ⟨?_, ?_⟩
    · intro e st
      rw [Phase4.gen_node]
      split
      · rename_i hnone
        exact Outcome.sat_ok ⟨⟨[], Phase4.traced_refl st⟩, Phase4.is_operand_null _ _,
          fun ln hln _ => by rw [hnone] at hln; cases hln⟩
      rename_i ln hln
      by_cases hlt : ln.indent < e
      · rw [if_pos hlt]
        exact Outcome.sat_ok ⟨⟨[], Phase4.traced_refl st⟩, Phase4.is_operand_null _ _,
          fun l2 hl2 hle => by
            rw [hln] at hl2
            cases hl2
            omega⟩
      rw [if_neg hlt]
      by_cases hfd1 : CStr.strncmp_eq ln.text "FunctionDefinition:" 19 = true
      · -- FunctionDefinition:
        rw [if_pos hfd1]
        refine Phase4.scanned_sat _ _ _ _ (fun _ => ?_)
        refine Outcome.sat_bind
          (Q := Phase4.block_post (Phase4.advance (Phase4.emit st (Phase4.Instr.func
            (String.mk (CStr.scan_word (Phase4.from_offset ln.text 19)))).text))) ?_ ?_
        · split
          · split
            · refine Outcome.sat_bind (ih_node _ _) ?_
              intro p hp
              exact Outcome.sat_ok hp.1
            · exact Outcome.sat_ok ⟨[], Phase4.traced_refl _⟩
          · exact Outcome.sat_ok ⟨[], Phase4.traced_refl _⟩
        · intro st2 h2
          obtain ⟨d2, T2⟩ := h2
          refine Outcome.sat_bind (Q := Phase4.block_post st2) ?_ ?_
          · split
            · split
              · exact ih_block _ _
              · exact Outcome.sat_ok ⟨[], Phase4.traced_refl _⟩
            · exact Outcome.sat_ok ⟨[], Phase4.traced_refl _⟩
          · intro st3 h3
            obtain ⟨d3, T3⟩ := h3
            have T := Phase4.traced_trans T2 T3
            exact Outcome.sat_ok
              ⟨⟨_, Phase4.traced_function_def st st3 ln _ _ hln hfd1
                  ⟨ln, Phase4.cur_line_in_lines st ln hln, hfd1, rfl⟩ T⟩,
                Phase4.is_operand_null _ _, fun _ _ _ => T.1.cursor_le⟩
      rw [if_neg hfd1]
      have hfd : Phase4.is_function_line ln = false := Bool.eq_false_iff.2 hfd1
      by_cases hbody : ln.text = "Body:"
      · -- Body:
        rw [if_pos hbody]
        refine Outcome.sat_bind (ih_block _ _) ?_
        intro st1 h1
        obtain ⟨d1, T1⟩ := h1
        exact Outcome.sat_ok (Phase4.node_post_of_advance e st st1 ln none d1 hln hfd T1
          (Phase4.is_operand_null _ _))
      rw [if_neg hbody]
      by_cases hgroup : CStr.strncmp_eq ln.text "VarDeclGroup:" 13 = true
      · -- VarDeclGroup:
        rw [if_pos hgroup]
        exact Outcome.sat_ok (Phase4.node_post_of_advance e st _ ln none [] hln hfd
          (Phase4.traced_skip (Phase4.advance st) e) (Phase4.is_operand_null _ _))
      rw [if_neg hgroup]
      by_cases hdecl : CStr.strncmp_eq ln.text "VarDecl:" 8 = true
      · -- VarDecl:
        rw [if_pos hdecl]
        dsimp only
        split
        · split
          · refine Outcome.sat_bind (ih_node _ _) ?_
            intro p hp
            obtain ⟨⟨d1, T1⟩, _, _⟩ := hp
            exact Outcome.sat_ok (Phase4.node_post_of_advance e st _ ln none d1 hln hfd
              T1 (Phase4.is_operand_null _ _))
          · exact Outcome.sat_ok (Phase4.node_post_of_advance e st _ ln none [] hln hfd
              (Phase4.traced_refl _) (Phase4.is_operand_null _ _))
        · exact Outcome.sat_ok (Phase4.node_post_of_advance e st _ ln none [] hln hfd
            (Phase4.traced_refl _) (Phase4.is_operand_null _ _))
      rw [if_neg hdecl]
      by_cases hassign : CStr.strncmp_eq ln.text "Assign:" 7 = true
      · -- Assign:
        rw [if_pos hassign]
        refine Phase4.scanned_sat _ _ _ _ (fun _ => ?_)
        refine Outcome.sat_bind (ih_node _ _) ?_
        intro p hp
        obtain ⟨r, st1⟩ := p
        obtain ⟨⟨d1, T1⟩, hop1, _⟩ := hp
        have hl1 : st1.lines = st.lines := T1.1.lines_eq
        have T2 := Phase4.traced_emit st1
          (.copy (String.mk (CStr.scan_word (Phase4.from_offset ln.text 7)))
            (Phase4.str_arg r)) rfl rfl rfl rfl rfl (by
            intro o ho
            simp only [Phase4.Instr.operands, List.mem_singleton] at ho
            rw [ho, hl1]
            exact hop1) (by
            rw [hl1]
            exact ⟨ln, Phase4.cur_line_in_lines st ln hln, hassign, rfl⟩)
        exact Outcome.sat_ok (Phase4.node_post_of_advance e st _ ln none _ hln hfd
          (Phase4.traced_trans T1 T2) (Phase4.is_operand_null _ _))
      rw [if_neg hassign]
      by_cases hret : CStr.strncmp_eq ln.text "Return" 6 = true
      · -- Return
        rw [if_pos hret]
        refine Outcome.sat_bind (ih_node _ _) ?_
        intro p hp
        obtain ⟨r, st1⟩ := p
        obtain ⟨⟨d1, T1⟩, hop1, _⟩ := hp
        have hl1 : st1.lines = st.lines := T1.1.lines_eq
        cases r with
        | none =>
          have T2 := Phase4.traced_emit st1 (.ret none) rfl rfl rfl rfl rfl
            (fun o ho => absurd ho (List.not_mem_nil _)) trivial
          exact Outcome.sat_ok (Phase4.node_post_of_advance e st _ ln none _ hln hfd
            (Phase4.traced_trans T1 T2) (Phase4.is_operand_null _ _))
        | some x =>
          have T2 := Phase4.traced_emit st1 (.ret (some x)) rfl rfl rfl rfl rfl (by
            intro o ho
            simp only [Phase4.Instr.operands, List.mem_singleton] at ho
            rw [ho, hl1]
            exact hop1) trivial
          exact Outcome.sat_ok (Phase4.node_post_of_advance e st _ ln none _ hln hfd
            (Phase4.traced_trans T1 T2) (Phase4.is_operand_null _ _))
      rw [if_neg hret]
      by_cases hif : CStr.strncmp_eq ln.text "If:" 3 = true
      · -- If:
        rw [if_pos hif]
        refine Outcome.sat_bind (ih_node _ _) ?_
        intro p hp
        obtain ⟨c, st1⟩ := p
        obtain ⟨⟨d1, T1⟩, hop1, _⟩ := hp
        have hl1 : st1.lines = st.lines := T1.1.lines_eq
        refine Outcome.sat_bind (ih_opt_block _ _ _) ?_
        intro st5 h5
        obtain ⟨dt, Tt⟩ := h5
        refine Outcome.sat_bind
          (Q := Phase4.block_post (Phase4.emit (Phase4.emit st5
            (Phase4.Instr.goto (st1.label_counter + 1)).text)
            (Phase4.Instr.label st1.label_counter).text)) ?_ ?_
        · split
          · rename_i l6 hl6
            split
            · rename_i helse
              have hfe : Phase4.is_function_line l6 = false :=
                CStr.strncmp_eq_excl l6.text "Else:" "FunctionDefinition:" 5 19 1
                  (by decide) (by decide) (by decide) helse
              have Ta := Phase4.traced_advance _ l6 hl6 hfe
              refine Outcome.sat_mono ?_ (ih_opt_block _ _ _)
              intro s hs
              obtain ⟨ds, Ts⟩ := hs
              exact ⟨_, Phase4.traced_trans Ta Ts⟩
            · exact Outcome.sat_ok ⟨[], Phase4.traced_refl _⟩
          · exact Outcome.sat_ok ⟨[], Phase4.traced_refl _⟩
        · intro st7 h7
          obtain ⟨de, Te⟩ := h7
          have Tb := Phase4.traced_branch st1 st5 st7 (Phase4.str_arg c) dt de
            (by rw [hl1]; exact hop1) Tt Te
          exact Outcome.sat_ok (Phase4.node_post_of_advance e st _ ln none _ hln
            hfd (Phase4.traced_trans T1 Tb) (Phase4.is_operand_null _ _))
      rw [if_neg hif]
      by_cases hfor : CStr.strncmp_eq ln.text "For:" 4 = true
      · -- For:
        rw [if_pos hfor]
        refine Outcome.sat_bind (ih_node _ _) ?_
        intro p hp
        obtain ⟨r0, st1⟩ := p
        obtain ⟨⟨d1, T1⟩, _, _⟩ := hp
        have hl1 : st1.lines = st.lines := T1.1.lines_eq
        refine Outcome.sat_bind (ih_node _ _) ?_
        intro p hp
        obtain ⟨c, st5⟩ := p
        obtain ⟨⟨dc, Tc⟩, hopc, _⟩ := hp
        refine Outcome.sat_bind (ih_opt_block _ _ _) ?_
        intro st7 h7
        obtain ⟨db, Tb⟩ := h7
        refine Outcome.sat_bind (ih_node _ _) ?_
        intro p hp
        obtain ⟨r8, st8⟩ := p
        obtain ⟨⟨ds, Ts⟩, _, _⟩ := hp
        have Tl := Phase4.traced_loop st1 st5 st8 (Phase4.str_arg c) dc (db ++ ds)
          Tc hopc (Phase4.traced_trans Tb Ts)
        exact Outcome.sat_ok (Phase4.node_post_of_advance e st _ ln none _ hln
          hfd (Phase4.traced_trans T1 Tl) (Phase4.is_operand_null _ _))
      rw [if_neg hfor]
      by_cases hwhile : CStr.strncmp_eq ln.text "While:" 6 = true
      · -- While:
        rw [if_pos hwhile]
        refine Outcome.sat_bind (ih_node _ _) ?_
        intro p hp
        obtain ⟨c, st4⟩ := p
        obtain ⟨⟨dc, Tc⟩, hopc, _⟩ := hp
        refine Outcome.sat_bind (ih_opt_block _ _ _) ?_
        intro st6 h6
        obtain ⟨db, Tb⟩ := h6
        have Tl := Phase4.traced_loop (Phase4.advance st) st4 st6
          (Phase4.str_arg c) dc db Tc hopc Tb
        exact Outcome.sat_ok (Phase4.node_post_of_advance e st _ ln none _ hln
          hfd Tl (Phase4.is_operand_null _ _))
      rw [if_neg hwhile]
      by_cases hbin : CStr.strncmp_eq ln.text "BinOp(" 6 = true
      · -- BinOp(
        rw [if_pos hbin]
        refine Phase4.scanned_sat _ _ _ _ (fun _ => ?_)
        refine Outcome.sat_bind (ih_node _ _) ?_
        intro p hp
        obtain ⟨l, st1⟩ := p
        obtain ⟨⟨d1, T1⟩, hop1, _⟩ := hp
        have hl1 : st1.lines = st.lines := T1.1.lines_eq
        refine Outcome.sat_bind (ih_node _ _) ?_
        intro p hp
        obtain ⟨r, st2⟩ := p
        obtain ⟨⟨d2, T2⟩, hop2, _⟩ := hp
        have hl2 : st2.lines = st.lines := T2.1.lines_eq.trans hl1
        have T3 := Phase4.traced_binary st2 (Phase4.str_arg l)
          (String.mk (CStr.scan_until_rparen (Phase4.from_offset ln.text 6)))
          (Phase4.str_arg r)
          (by
            rw [hl2]
            exact Phase4.is_operand_mono _ _ _ _ T2.1.temps_le hop1)
          (by
            rw [hl2, ← hl1]
            exact hop2)
          (by
            rw [hl2]
            exact ⟨ln, Phase4.cur_line_in_lines st ln hln, hbin, rfl⟩)
        exact Outcome.sat_ok (Phase4.node_post_of_advance e st _ ln _ _ hln
          hfd (Phase4.traced_trans (Phase4.traced_trans T1 T2) T3)
          (Or.inl ⟨st2.temp_counter, Nat.lt_succ_self _, rfl⟩))
      rw [if_neg hbin]
      by_cases hnum : CStr.strncmp_eq ln.text "Number(" 7 = true
      · -- Number(
        rw [if_pos hnum]
        refine Phase4.scanned_sat _ _ _ _ (fun _ => ?_)
        exact Outcome.sat_ok (Phase4.node_post_of_advance e st _ ln _ []
          hln hfd (Phase4.traced_refl _)
          (Or.inr (Or.inl (List.mem_filterMap.2
            ⟨ln, List.get?_mem hln, by
              unfold Phase4.ast_operand
              rw [if_pos hnum]
              rfl⟩))))
      rw [if_neg hnum]
      by_cases hvar : CStr.strncmp_eq ln.text "Var(" 4 = true
      · -- Var(
        rw [if_pos hvar]
        refine Phase4.scanned_sat _ _ _ _ (fun _ => ?_)
        exact Outcome.sat_ok (Phase4.node_post_of_advance e st _ ln _ []
          hln hfd (Phase4.traced_refl _)
          (Or.inr (Or.inl (List.mem_filterMap.2
            ⟨ln, List.get?_mem hln, by
              unfold Phase4.ast_operand
              rw [if_neg hnum, if_pos hvar]
              rfl⟩))))
      rw [if_neg hvar]
      by_cases hcast : CStr.strncmp_eq ln.text "Cast(" 5 = true
      · -- Cast(
        rw [if_pos hcast]
        refine Outcome.sat_mono ?_ (ih_node _ _)
        intro p hp
        obtain ⟨r, st1⟩ := p
        obtain ⟨⟨d1, T1⟩, hop1, _⟩ := hp
        exact Phase4.node_post_of_advance e st _ ln _ d1 hln hfd T1 hop1
      -- any other line
      rw [if_neg hcast]
      exact Outcome.sat_ok (Phase4.node_post_of_advance e st _ ln
        none [] hln hfd (Phase4.traced_refl _)
        (Phase4.is_operand_null _ _))
    · intro e st
      rw [Phase4.gen_block]
      split
      · exact Outcome.sat_ok ⟨[], Phase4.traced_refl st⟩
      · split
        · refine Outcome.sat_bind (ih_node _ _) ?_
          intro p hp
          obtain ⟨r, st1⟩ := p
          obtain ⟨⟨d1, T1⟩, _, _⟩ := hp
          refine Outcome.sat_mono ?_ (ih_block _ _)
          intro s hs
          obtain ⟨ds, Ts⟩ := hs
          exact ⟨_, Phase4.traced_trans T1 Ts⟩
        · exact Outcome.sat_ok ⟨[], Phase4.traced_refl st⟩

/-! ### The generator terminates -/

theorem Outcome.returns_ok {α : Type} {P : α → Prop} {a : α} (h : P a) :
    Outcome.Returns P (.ok a) := ⟨a, rfl, h⟩

theorem Outcome.returns_bind {α β : Type} {Q : α → Prop} {P : β → Prop} {x : Outcome α}
    {g : α → Outcome β} (hx : Outcome.Returns Q x) (hg : ∀ a, Q a → Outcome.Returns P (g a)) :
    Outcome.Returns P (x >>= g) := by
  obtain ⟨a, rfl, ha⟩ := hx
  simp only [Outcome.ok_bind]
  exact hg a ha

/-- A run that returns, and whose returned values all satisfy `Q`. -/
theorem Outcome.returns_sat {α : Type} {P Q : α → Prop} {x : Outcome α}
    (hx : Outcome.Returns P x) (hs : Outcome.Sat Q x) : Outcome.Returns Q x := by
  obtain ⟨a, h, _⟩ := hx
  exact ⟨a, h, hs a h⟩

theorem Outcome.returns_mono {α : Type} {P Q : α → Prop} {x : Outcome α}
    (h : ∀ a, P a → Q a) (hx : Outcome.Returns P x) : Outcome.Returns Q x := by
  obtain ⟨a, e, ha⟩ := hx
  exact ⟨a, e, h a ha⟩

theorem Phase4.cur_line_lt (st : Phase4.State) (ln : Ast.ASTLine)
    (h : Phase4.cur_line st = some ln) : st.current_line < st.lines.length := by
  unfold Phase4.cur_line at h
  obtain ⟨hlt, _⟩ := List.get?_eq_some.1 h
  exact hlt

/-- A word read with `sscanf` that fits its buffer. -/
theorem Phase4.scanned_returns {β : Type} (size : Nat) (w : List Char) (P : β → Prop)
    (g : String → Outcome β) (hl : w.length < size)
    (hg : Outcome.Returns P (g (String.mk w))) :
    Outcome.Returns P (Phase4.scanned size w >>= g) := by
  unfold Phase4.scanned
  rw [if_pos hl, Outcome.ok_bind]
  exact hg

/-- What the generator reads from a line of an AST whose words fit. -/
theorem Phase4.fits_read (lines : List Ast.ASTLine) (ln : Ast.ASTLine)
    (hfit : Phase4.words_fit lines) (hmem : ln ∈ lines) (w : List Char) (size : Nat)
    (h : Phase4.line_read ln = some (w, size)) : w ≠ [] ∧ w.length < size := by
  have hf := hfit ln hmem
  unfold Phase4.fits at hf
  rw [h] at hf
  simp only [Bool.and_eq_true, Bool.not_eq_true', List.isEmpty_eq_false, decide_eq_true_eq,
    ne_eq] at hf
  exact hf

/-- With fuel `2 r + 1` for `gen_node` and `2 r + 2` for `gen_block`, where `r` is the
number of lines from the cursor to the end, the call returns. -/
theorem Phase4.gen_terminates (f : Nat) :
    (∀ e st, Phase4.words_fit st.lines → 2 * (st.lines.length - st.current_line) + 1 ≤ f →
      Outcome.Returns (fun _ => True) (Phase4.gen_node f e st)) ∧
    (∀ e st, Phase4.words_fit st.lines → 2 * (st.lines.length - st.current_line) + 2 ≤ f →
      Outcome.Returns (fun _ => True) (Phase4.gen_block f e st)) := by
  induction f with
  | zero =>
    refine ⟨?_, ?_⟩
    · intro e st _ h; omega
    · intro e st _ h; omega
  | succ f ih =>
    obtain ⟨ih_node0, ih_block0⟩ := ih
    have ih_node : ∀ e s, Phase4.words_fit s.lines →
        2 * (s.lines.length - s.current_line) + 2 ≤ f →
        Outcome.Returns (Phase4.node_post e s) (Phase4.gen_node f e s) := fun e s hw h =>
      Outcome.returns_sat (ih_node0 e s hw (by omega)) ((Phase4.gen_traced f).1 e s)
    have ih_block : ∀ e s, Phase4.words_fit s.lines →
        2 * (s.lines.length - s.current_line) + 2 ≤ f →
        Outcome.Returns (Phase4.block_post s) (Phase4.gen_block f e s) := fun e s hw h =>
      Outcome.returns_sat (ih_block0 e s hw h) ((Phase4.gen_traced f).2 e s)
    have ih_opt_block : ∀ (b : Bool) (e : Nat) (s : Phase4.State),
        Phase4.words_fit s.lines → 2 * (s.lines.length - s.current_line) + 2 ≤ f →
        Outcome.Returns (Phase4.block_post s)
          (if b = true then Phase4.gen_block f e s else .ok s) := by
      intro b e s hw h
      split
      · exact ih_block _ _ hw h
      · exact Outcome.returns_ok ⟨[], Phase4.traced_refl _⟩
    refine ⟨?_, ?_⟩
    · intro e st hfit hf
      rw [Phase4.gen_node]
      split
      · exact Outcome.returns_ok trivial
      rename_i ln hln
      have hcur := Phase4.cur_line_lt st ln hln
      have hmem := Phase4.cur_line_in_lines st ln hln
      have hfs : ∀ s : Phase4.State, s.lines = st.lines → Phase4.words_fit s.lines := by
        intro s hl
        rw [hl]
        exact hfit
      have hb : ∀ s : Phase4.State, s.lines = st.lines → st.current_line + 1 ≤ s.current_line →
          2 * (s.lines.length - s.current_line) + 2 ≤ f := by
        intro s hl hc
        rw [hl]
        omega
      by_cases hlt : ln.indent < e
      · rw [if_pos hlt]
        exact Outcome.returns_ok trivial
      rw [if_neg hlt]
      by_cases hfd1 : CStr.strncmp_eq ln.text "FunctionDefinition:" 19 = true
      · -- FunctionDefinition:
        rw [if_pos hfd1]
        refine Phase4.scanned_returns _ _ _ _ (Phase4.fits_read _ ln hfit hmem _ 64 (by
          unfold Phase4.line_read
          rw [if_pos hfd1])).2 ?_
        refine Outcome.returns_bind
          (Q := Phase4.block_post (Phase4.advance (Phase4.emit st (Phase4.Instr.func
            (String.mk (CStr.scan_word (Phase4.from_offset ln.text 19)))).text))) ?_ ?_
        · split
          · split
            · refine Outcome.returns_bind (ih_node _ _ (hfs _ rfl) (hb _ rfl (Nat.le_refl _))) ?_
              intro p hp
              exact Outcome.returns_ok hp.1
            · exact Outcome.returns_ok ⟨[], Phase4.traced_refl _⟩
          · exact Outcome.returns_ok ⟨[], Phase4.traced_refl _⟩
        · intro st2 h2
          obtain ⟨d2, T2⟩ := h2
          refine Outcome.returns_bind (Q := Phase4.block_post st2) ?_ ?_
          · split
            · split
              · exact ih_block _ _ (hfs _ T2.1.lines_eq) (hb _ T2.1.lines_eq T2.1.cursor_le)
              · exact Outcome.returns_ok ⟨[], Phase4.traced_refl _⟩
            · exact Outcome.returns_ok ⟨[], Phase4.traced_refl _⟩
          · intro st3 h3
            exact Outcome.returns_ok trivial
      rw [if_neg hfd1]
      by_cases hbody : ln.text = "Body:"
      · -- Body:
        rw [if_pos hbody]
        refine Outcome.returns_bind (ih_block _ _ (hfs _ rfl) (hb _ rfl (Nat.le_refl _))) ?_
        intro st1 h1
        exact Outcome.returns_ok trivial
      rw [if_neg hbody]
      by_cases hgroup : CStr.strncmp_eq ln.text "VarDeclGroup:" 13 = true
      · -- VarDeclGroup:
        rw [if_pos hgroup]
        exact Outcome.returns_ok trivial
      rw [if_neg hgroup]
      by_cases hdecl : CStr.strncmp_eq ln.text "VarDecl:" 8 = true
      · -- VarDecl:
        rw [if_pos hdecl]
        dsimp only
        split
        · split
          · refine Outcome.returns_bind (ih_node _ _ (hfs _ rfl) (hb _ rfl (Nat.le_refl _))) ?_
            intro p hp
            exact Outcome.returns_ok trivial
          · exact Outcome.returns_ok trivial
        · exact Outcome.returns_ok trivial
      rw [if_neg hdecl]
      by_cases hassign : CStr.strncmp_eq ln.text "Assign:" 7 = true
      · -- Assign:
        rw [if_pos hassign]
        refine Phase4.scanned_returns _ _ _ _ (Phase4.fits_read _ ln hfit hmem _ 64 (by
          unfold Phase4.line_read
          rw [if_neg hfd1, if_pos hassign])).2 ?_
        refine Outcome.returns_bind (ih_node _ _ (hfs _ rfl) (hb _ rfl (Nat.le_refl _))) ?_
        intro p hp
        exact Outcome.returns_ok trivial
      rw [if_neg hassign]
      by_cases hret : CStr.strncmp_eq ln.text "Return" 6 = true
      · -- Return
        rw [if_pos hret]
        refine Outcome.returns_bind (ih_node _ _ (hfs _ rfl) (hb _ rfl (Nat.le_refl _))) ?_
        intro p hp
        obtain ⟨r, st1⟩ := p
        cases r with
        | none => exact Outcome.returns_ok trivial
        | some x => exact Outcome.returns_ok trivial
      rw [if_neg hret]
      by_cases hif : CStr.strncmp_eq ln.text "If:" 3 = true
      · -- If:
        rw [if_pos hif]
        refine Outcome.returns_bind (ih_node _ _ (hfs _ rfl) (hb _ rfl (Nat.le_refl _))) ?_
        intro p hp
        obtain ⟨c, st1⟩ := p
        obtain ⟨⟨d1, T1⟩, _, _⟩ := hp
        have hl1 : st1.lines = st.lines := T1.1.lines_eq
        have hc1 : st.current_line + 1 ≤ st1.current_line := T1.1.cursor_le
        refine Outcome.returns_bind (ih_opt_block _ _ _ (hfs _ hl1) (hb _ hl1 hc1)) ?_
        intro st5 h5
        obtain ⟨dt, Tt⟩ := h5
        have hl5 : st5.lines = st.lines := Tt.1.lines_eq.trans hl1
        have hc5 : st.current_line + 1 ≤ st5.current_line := le_trans hc1 Tt.1.cursor_le
        refine Outcome.returns_bind (Q := fun _ => True) ?_ ?_
        · split
          · split
            · exact Outcome.returns_mono (fun _ _ => trivial)
                (ih_opt_block _ _ _ (hfs _ hl5) (hb _ hl5 (Nat.le_succ_of_le hc5)))
            · exact Outcome.returns_ok trivial
          · exact Outcome.returns_ok trivial
        · intro st7 h7
          exact Outcome.returns_ok trivial
      rw [if_neg hif]
      by_cases hfor : CStr.strncmp_eq ln.text "For:" 4 = true
      · -- For:
        rw [if_pos hfor]
        refine Outcome.returns_bind (ih_node _ _ (hfs _ rfl) (hb _ rfl (Nat.le_refl _))) ?_
        intro p hp
        obtain ⟨r0, st1⟩ := p
        obtain ⟨⟨d1, T1⟩, _, _⟩ := hp
        have hl1 : st1.lines = st.lines := T1.1.lines_eq
        have hc1 : st.current_line + 1 ≤ st1.current_line := T1.1.cursor_le
        refine Outcome.returns_bind (ih_node _ _ (hfs _ hl1) (hb _ hl1 hc1)) ?_
        intro p hp
        obtain ⟨c, st5⟩ := p
        obtain ⟨⟨dc, Tc⟩, _, _⟩ := hp
        have hl5 : st5.lines = st.lines := Tc.1.lines_eq.trans hl1
        have hc5 : st.current_line + 1 ≤ st5.current_line := le_trans hc1 Tc.1.cursor_le
        refine Outcome.returns_bind (ih_opt_block _ _ _ (hfs _ hl5) (hb _ hl5 hc5)) ?_
        intro st7 h7
        obtain ⟨db, Tb⟩ := h7
        have hl7 : st7.lines = st.lines := Tb.1.lines_eq.trans hl5
        have hc7 : st.current_line + 1 ≤ st7.current_line := le_trans hc5 Tb.1.cursor_le
        refine Outcome.returns_bind (ih_node _ _ (hfs _ hl7) (hb _ hl7 hc7)) ?_
        intro p hp
        exact Outcome.returns_ok trivial
      rw [if_neg hfor]
      by_cases hwhile : CStr.strncmp_eq ln.text "While:" 6 = true
      · -- While:
        rw [if_pos hwhile]
        refine Outcome.returns_bind (ih_node _ _ (hfs _ rfl) (hb _ rfl (Nat.le_refl _))) ?_
        intro p hp
        obtain ⟨c, st4⟩ := p
        obtain ⟨⟨dc, Tc⟩, _, _⟩ := hp
        have hl4 : st4.lines = st.lines := Tc.1.lines_eq
        have hc4 : st.current_line + 1 ≤ st4.current_line := Tc.1.cursor_le
        refine Outcome.returns_bind (ih_opt_block _ _ _ (hfs _ hl4) (hb _ hl4 hc4)) ?_
        intro st6 h6
        exact Outcome.returns_ok trivial
      rw [if_neg hwhile]
      by_cases hbin : CStr.strncmp_eq ln.text "BinOp(" 6 = true
      · -- BinOp(
        rw [if_pos hbin]
        refine Phase4.scanned_returns _ _ _ _ (Phase4.fits_read _ ln hfit hmem _ 8 (by
          unfold Phase4.line_read
          rw [if_neg hfd1, if_neg hassign, if_pos hbin])).2 ?_
        refine Outcome.returns_bind (ih_node _ _ (hfs _ rfl) (hb _ rfl (Nat.le_refl _))) ?_
        intro p hp
        obtain ⟨l, st1⟩ := p
        obtain ⟨⟨d1, T1⟩, _, _⟩ := hp
        have hl1 : st1.lines = st.lines := T1.1.lines_eq
        have hc1 : st.current_line + 1 ≤ st1.current_line := T1.1.cursor_le
        refine Outcome.returns_bind (ih_node _ _ (hfs _ hl1) (hb _ hl1 hc1)) ?_
        intro p hp
        exact Outcome.returns_ok trivial
      rw [if_neg hbin]
      by_cases hnum : CStr.strncmp_eq ln.text "Number(" 7 = true
      · rw [if_pos hnum]
        refine Phase4.scanned_returns _ _ _ _ (Phase4.fits_read _ ln hfit hmem _ 64 (by
          unfold Phase4.line_read
          rw [if_neg hfd1, if_neg hassign, if_neg hbin, if_pos hnum])).2 ?_
        exact Outcome.returns_ok trivial
      rw [if_neg hnum]
      by_cases hvar : CStr.strncmp_eq ln.text "Var(" 4 = true
      · rw [if_pos hvar]
        refine Phase4.scanned_returns _ _ _ _ (Phase4.fits_read _ ln hfit hmem _ 64 (by
          unfold Phase4.line_read
          rw [if_neg hfd1, if_neg hassign, if_neg hbin, if_neg hnum, if_pos hvar])).2 ?_
        exact Outcome.returns_ok trivial
      rw [if_neg hvar]
      by_cases hcast : CStr.strncmp_eq ln.text "Cast(" 5 = true
      · -- Cast(
        rw [if_pos hcast]
        exact Outcome.returns_mono (fun _ _ => trivial)
          (ih_node _ _ (hfs _ rfl) (hb _ rfl (Nat.le_refl _)))
      rw [if_neg hcast]
      exact Outcome.returns_ok trivial
    · intro e st hfit hf
      rw [Phase4.gen_block]
      split
      · exact Outcome.returns_ok trivial
      rename_i ln hln
      have hcur := Phase4.cur_line_lt st ln hln
      split
      · rename_i hge
        refine Outcome.returns_bind (Outcome.returns_sat (ih_node0 e st hfit (by omega))
          ((Phase4.gen_traced f).1 e st)) ?_
        intro p hp
        obtain ⟨r, st1⟩ := p
        obtain ⟨⟨d1, T1⟩, _, hprog⟩ := hp
        have hl1 : st1.lines = st.lines := T1.1.lines_eq
        have hc1 : st.current_line < st1.current_line := hprog ln hln hge
        exact ih_block0 _ _ (by
          rw [hl1]
          exact hfit) (by
          rw [hl1]
          omega)
      · exact Outcome.returns_ok trivial

/-! ### Names of labels and temporaries -/

theorem CStr.digit_val (m : Nat) (h : m < 10) : (Char.ofNat (48 + m)).toNat - 48 = m := by
  interval_cases m <;> rfl

theorem CStr.digits_val_rev (f : Nat) : ∀ n, n < f → CStr.digits_val (CStr.digits_rev f n) = n := by
  induction f with
  | zero => intro n h; omega
  | succ f ih =>
    intro n h
    rw [CStr.digits_rev]
    by_cases h10 : n < 10
    · rw [if_pos h10, CStr.digits_val, CStr.digits_val, CStr.digit_val n h10]
      omega
    · rw [if_neg h10, CStr.digits_val, CStr.digit_val (n % 10) (Nat.mod_lt _ (by decide)),
        ih (n / 10) (by omega)]
      omega

/-- Different numbers are printed differently by `%d`. -/
theorem CStr.fmt_d_injective (a b : Nat) (h : CStr.fmt_d a = CStr.fmt_d b) : a = b := by
  unfold CStr.fmt_d at h
  have h1 : CStr.digits_rev (a + 1) a = CStr.digits_rev (b + 1) b :=
    List.reverse_inj.1 (congrArg String.data h)
  have h2 := congrArg CStr.digits_val h1
  rwa [CStr.digits_val_rev _ _ (Nat.lt_succ_self _),
    CStr.digits_val_rev _ _ (Nat.lt_succ_self _)] at h2

theorem Phase4.label_name_injective : Function.Injective Phase4.label_name := by
  intro a b h
  unfold Phase4.label_name at h
  have h1 := congrArg String.data h
  rw [String.data_append, String.data_append] at h1
  exact CStr.fmt_d_injective a b (String.ext (List.append_cancel_left h1))

theorem Phase4.temp_name_injective : Function.Injective Phase4.temp_name := by
  intro a b h
  unfold Phase4.temp_name at h
  have h1 := congrArg String.data h
  rw [String.data_append, String.data_append] at h1
  exact CStr.fmt_d_injective a b (String.ext (List.append_cancel_left h1))

/-! ### The whole run of the generator -/

/-- The loop of `main`: what it has written when it returns, and the cursor is
then past the last line. -/
theorem Phase4.generator_loop_traced (f : Nat) : ∀ st,
    Outcome.Sat (fun st2 => Phase4.block_post st st2 ∧ Phase4.cur_line st2 = none)
      (Phase4.main_loop f st) := by
  induction f with
  | zero => intro st; rw [Phase4.main_loop]; exact Outcome.sat_fuel
  | succ f ih =>
    intro st
    rw [Phase4.main_loop]
    split
    · rename_i h
      exact Outcome.sat_ok ⟨⟨[], Phase4.traced_refl st⟩, h⟩
    · refine Outcome.sat_bind ((Phase4.gen_traced f).1 0 st) ?_
      intro p hp
      obtain ⟨r, st1⟩ := p
      obtain ⟨⟨d1, T1⟩, _, _⟩ := hp
      refine Outcome.sat_mono ?_ (ih st1)
      intro s hs
      obtain ⟨⟨ds, Ts⟩, hn⟩ := hs
      exact ⟨⟨_, Phase4.traced_trans T1 Ts⟩, hn⟩

/-- The loop of `main` returns when the fuel is at least `2 r + 2`, `r` being the
number of lines from the cursor to the end. -/
theorem Phase4.generator_loop_returns (f : Nat) : ∀ st, Phase4.words_fit st.lines →
    2 * (st.lines.length - st.current_line) + 2 ≤ f →
    Outcome.Returns (fun _ => True) (Phase4.main_loop f st) := by
  induction f with
  | zero => intro st _ h; omega
  | succ f ih =>
    intro st hfit hf
    rw [Phase4.main_loop]
    split
    · exact Outcome.returns_ok trivial
    · rename_i ln hln
      have hcur := Phase4.cur_line_lt st ln hln
      refine Outcome.returns_bind (Outcome.returns_sat
        ((Phase4.gen_terminates f).1 0 st hfit (by omega)) ((Phase4.gen_traced f).1 0 st)) ?_
      intro p hp
      obtain ⟨r, st1⟩ := p
      obtain ⟨⟨d1, T1⟩, _, hprog⟩ := hp
      have hl1 : st1.lines = st.lines := T1.1.lines_eq
      have hc1 : st.current_line < st1.current_line := hprog ln hln (Nat.zero_le _)
      exact ih st1 (by
        rw [hl1]
        exact hfit) (by
        rw [hl1]
        omega)

/-- The run of the generator on a list of lines whose words fit the buffers,
with enough fuel: it returns, and what it has written is a list of instructions
with the properties of `Traced`. -/
theorem Phase4.generator_run (lines : List Ast.ASTLine) (n : Nat)
    (hfit : Phase4.words_fit lines) :
    ∃ st d, Phase4.main_loop (2 * lines.length + 2 + n) (Phase4.initial_state lines) = .ok st ∧
      Phase4.Traced (Phase4.initial_state lines) st d ∧ Phase4.cur_line st = none := by
  have h := Outcome.returns_sat
    (Phase4.generator_loop_returns (2 * lines.length + 2 + n) (Phase4.initial_state lines)
      hfit
      (by
        show 2 * (lines.length - 0) + 2 ≤ 2 * lines.length + 2 + n
        omega))
    (Phase4.generator_loop_traced (2 * lines.length + 2 + n) (Phase4.initial_state lines))
  obtain ⟨st, hst, ⟨d, T⟩, hn⟩ := h
  exact ⟨st, d, hst, T, hn⟩

theorem Phase4.hygiene_nodup (a b : Nat) (d : List Phase4.Instr) (h : Phase4.hygiene a b d) :
    (Phase4.declared_labels d).Nodup ∧
    ∀ k, k ∈ Phase4.declared_labels d ↔ k ∈ Phase4.jump_targets d := by
  refine ⟨List.nodup_iff_count_le_one.2 (fun k => ?_), fun k => ?_⟩
  · rw [(h k).1]
    split_ifs <;> omega
  · rw [← List.count_pos_iff, ← List.count_pos_iff, (h k).1, (h k).2]

/-- A beginning of `0, 1, …, k - 1` is `0, 1, …, m - 1`. -/
theorem Phase4.prefix_of_range (l1 l2 : List Nat) (k : Nat) (h : l1 ++ l2 = List.range k) :
    l1 = List.range l1.length := by
  have hlen : l1.length ≤ k := by
    have := congrArg List.length h
    rw [List.length_append, List.length_range] at this
    omega
  have h1 := congrArg (List.take l1.length) h
  rw [List.take_left, List.take_range, Nat.min_eq_left hlen] at h1
  exact h1

/-- Every operand of an instruction may be read where the instruction stands. -/
theorem Phase4.operands_ok_at (lines : List Ast.ASTLine) (n : Nat)
    (pre post : List Phase4.Instr) (i : Phase4.Instr)
    (h : Phase4.operands_ok lines n (pre ++ i :: post)) :
    ∀ o ∈ i.operands, Phase4.is_operand lines (n + (Phase4.assigned_temps pre).length) o := by
  rw [Phase4.operands_ok_append] at h
  exact h.2.1

theorem Phase4.function_lines_upto_all (lines : List Ast.ASTLine) (c : Nat)
    (h : lines.length ≤ c) :
    Phase4.function_lines_upto lines c = lines.countP Phase4.is_function_line := by
  unfold Phase4.function_lines_upto
  rw [List.take_of_length_le h]

/-! ### The code for a `while` loop -/

/-- Function `gen_block` returns with the cursor past the last line or on a line of
smaller indent. -/
theorem Phase4.gen_block_stops (f : Nat) : ∀ e st,
    Outcome.Sat (fun s => ∀ l, Phase4.cur_line s = some l → l.indent < e)
      (Phase4.gen_block f e st) := by
  induction f with
  | zero => intro e st; rw [Phase4.gen_block]; exact Outcome.sat_fuel
  | succ f ih =>
    intro e st
    rw [Phase4.gen_block]
    split
    · rename_i h
      exact Outcome.sat_ok (fun l hl => by rw [h] at hl; cases hl)
    · rename_i ln hln
      split
      · refine Outcome.sat_bind (Q := fun _ => True) (fun _ _ => trivial) ?_
        intro p _
        exact ih _ _
      · rename_i hlt
        exact Outcome.sat_ok (fun l hl => by
          rw [hln] at hl
          cases hl
          omega)

/-- The `While:` branch of `gen_node`, when the lowering of the condition returns
operand `c` with the cursor on a `Body:` line and the lowering of that block
returns: the output is `Lstart:`, the condition's code, `ifFalse c goto Lend`,
the body's code, `goto Lstart`, `Lend:`, where `Lstart` and `Lend` are the
labels numbered `label_counter` and `label_counter + 1` at the call; the cursor
stays where the lowering of the body left it, past the last line or on a line
of indent at most `e`. -/
theorem Phase4.while_lowering (f e : Nat) (st st4 st6 : Phase4.State) (ln : Ast.ASTLine)
    (c : Option String)
    (hln : Phase4.cur_line st = some ln) (hind : e ≤ ln.indent)
    (hop : CStr.strncmp_eq ln.text "While:" 6 = true)
    (hc : Phase4.gen_node f (e + 1)
      (Phase4.emit (Phase4.new_label (Phase4.new_label (Phase4.advance st)).2).2
        (Phase4.label_name st.label_counter ++ ":\n")) = .ok (c, st4))
    (hbody : Phase4.at_body st4 = true)
    (hb : Phase4.gen_block f (e + 1)
      (Phase4.emit st4 ("ifFalse " ++ Phase4.str_arg c ++ " goto " ++
        Phase4.label_name (st.label_counter + 1) ++ "\n")) = .ok st6) :
    ∃ code_c code_b,
      Phase4.gen_node (f + 1) e st =
        .ok (none, { st6 with out :=
          st.out ++ (Phase4.label_name st.label_counter ++ ":\n") ++ code_c ++
            ("ifFalse " ++ Phase4.str_arg c ++ " goto " ++
              Phase4.label_name (st.label_counter + 1) ++ "\n") ++ code_b ++
            ("goto " ++ Phase4.label_name st.label_counter ++ "\n") ++
            (Phase4.label_name (st.label_counter + 1) ++ ":\n") }) ∧
      st4.out = st.out ++ (Phase4.label_name st.label_counter ++ ":\n") ++ code_c ∧
      st6.out = st4.out ++ ("ifFalse " ++ Phase4.str_arg c ++ " goto " ++
        Phase4.label_name (st.label_counter + 1) ++ "\n") ++ code_b ∧
      (∀ l, Phase4.cur_line st6 = some l → l.indent ≤ e) := by
  obtain ⟨⟨dc, Tc⟩, _, _⟩ := (Phase4.gen_traced f).1 _ _ _ hc
  obtain ⟨db, Tb⟩ := (Phase4.gen_traced f).2 _ _ _ hb
  have h4 : st4.out = st.out ++ (Phase4.label_name st.label_counter ++ ":\n") ++
      Phase4.render dc := Tc.1.out_eq
  have h6 : st6.out = st4.out ++ ("ifFalse " ++ Phase4.str_arg c ++ " goto " ++
      Phase4.label_name (st.label_counter + 1) ++ "\n") ++ Phase4.render db := Tb.1.out_eq
  refine ⟨Phase4.render dc, Phase4.render db, ?_, h4, h6, ?_⟩
  · have x1 := CStr.strncmp_eq_excl ln.text "While:" "FunctionDefinition:" 6 19 1
      (by decide) (by decide) (by decide) hop
    have x2 : ln.text ≠ "Body:" := by
      intro h
      rw [h] at hop
      exact absurd hop (by decide)
    have x3 := CStr.strncmp_eq_excl ln.text "While:" "VarDeclGroup:" 6 13 1
      (by decide) (by decide) (by decide) hop
    have x4 := CStr.strncmp_eq_excl ln.text "While:" "VarDecl:" 6 8 1
      (by decide) (by decide) (by decide) hop
    have x5 := CStr.strncmp_eq_excl ln.text "While:" "Assign:" 6 7 1
      (by decide) (by decide) (by decide) hop
    have x6 := CStr.strncmp_eq_excl ln.text "While:" "Return" 6 6 1
      (by decide) (by decide) (by decide) hop
    have x7 := CStr.strncmp_eq_excl ln.text "While:" "If:" 6 3 1
      (by decide) (by decide) (by decide) hop
    have x8 := CStr.strncmp_eq_excl ln.text "While:" "For:" 6 4 1
      (by decide) (by decide) (by decide) hop
    have hbody2 : Phase4.at_body (Phase4.emit st4 ("ifFalse " ++ Phase4.str_arg c ++ " goto " ++
        Phase4.label_name (st.label_counter + 1) ++ "\n")) = true := hbody
    have hrun : Phase4.gen_node (f + 1) e st =
        .ok (none, Phase4.emit (Phase4.emit st6
          ("goto " ++ Phase4.label_name st.label_counter ++ "\n"))
          (Phase4.label_name (st.label_counter + 1) ++ ":\n")) := by
      rw [Phase4.gen_node]
      simp only [hln]
      rw [if_neg (not_lt.2 hind)]
      simp only [x1, x2, x3, x4, x5, x6, x7, x8, hop, Bool.false_eq_true, if_false, if_true]
      show (Phase4.gen_node f (e + 1)
        (Phase4.emit (Phase4.new_label (Phase4.new_label (Phase4.advance st)).2).2
          (Phase4.label_name st.label_counter ++ ":\n")) >>= fun p =>
          ((if Phase4.at_body (Phase4.emit p.2 ("ifFalse " ++ Phase4.str_arg p.1 ++ " goto " ++
              Phase4.label_name (st.label_counter + 1) ++ "\n")) = true then
            Phase4.gen_block f (e + 1) (Phase4.emit p.2 ("ifFalse " ++ Phase4.str_arg p.1 ++
              " goto " ++ Phase4.label_name (st.label_counter + 1) ++ "\n"))
          else .ok (Phase4.emit p.2 ("ifFalse " ++ Phase4.str_arg p.1 ++ " goto " ++
              Phase4.label_name (st.label_counter + 1) ++ "\n"))) >>= fun s =>
            (.ok (none, Phase4.emit (Phase4.emit s
              ("goto " ++ Phase4.label_name st.label_counter ++ "\n"))
              (Phase4.label_name (st.label_counter + 1) ++ ":\n")) :
              Outcome (Option String × Phase4.State)))) = _
      rw [hc]
      simp only [Outcome.ok_bind]
      rw [if_pos hbody2, hb]
      rfl
    rw [hrun]
    simp only [Phase4.emit]
    rw [h6, h4]
  · intro l hl
    have := Phase4.gen_block_stops f _ _ _ hb l hl
    omega

/-- C30, the code at
`int f() { int a; if (a == 1) { while (a == 2) { if (a == 3) { a = 4; } } } else { a = 5; } return a; }`:
the `While:` line is line 10 of the AST, at indent 4; its subtree is the eleven
lines 11 to 21 of greater indent, and line 22 is the `Else:` of the outer `if`
(indent 3).  The call `gen_node(4)` on the `While:` line writes the loop and
returns with the cursor on line 23, past the `Else:` line: the `If:` inside the
body has consumed it.  In the whole output the else-branch `a = 5` follows
`L3:` and is not under `L0:`. -/
theorem C30_while_cursor_passes_else :
    (parser_main 100 tokens_while_in_if_else).bind (fun a => .ok (Ast.load_ast a)) =
      .ok lines_while_in_if_else ∧
    Phase4.cur_line state_at_while = some ⟨4, "While:"⟩ ∧
    ((lines_while_in_if_else.drop 11).takeWhile (fun l => decide (l.indent > 4))).length = 11 ∧
    lines_while_in_if_else.get? 22 = some ⟨3, "Else:"⟩ ∧
    Phase4.gen_node 12 4 state_at_while =
      .ok (none,
        { lines := lines_while_in_if_else, current_line := 23, temp_counter := 3,
          label_counter := 6,
          out := "func f:\nt0 = a == 1\nifFalse t0 goto L0\n" ++
            "L2:\nt1 = a == 2\nifFalse t1 goto L3\n" ++
            "t2 = a == 3\nifFalse t2 goto L4\na = 4\ngoto L5\nL4:\nL5:\n" ++
            "goto L2\nL3:\n" }) ∧
    tac_of_tokens 100 tokens_while_in_if_else =
      .ok ("func f:\nt0 = a == 1\nifFalse t0 goto L0\n" ++
           "L2:\nt1 = a == 2\nifFalse t1 goto L3\n" ++
           "t2 = a == 3\nifFalse t2 goto L4\na = 4\ngoto L5\nL4:\nL5:\n" ++
           "goto L2\nL3:\n" ++
           "a = 5\nreturn\ngoto L1\nL0:\nL1:\nendfunc\n\n") := by
  decide

/-! ### Symbol names in a scope are unique -/

theorem CStr.strncpy_short (n : Nat) (s : String) (h : s.length ≤ n) : CStr.strncpy n s = s := by
  unfold CStr.strncpy
  rw [List.take_of_length_le h]

theorem CStr.scan_word_length (l : List Char) : (CStr.scan_word l).length ≤ l.length :=
  le_trans (List.takeWhile_sublist _).length_le (List.dropWhile_sublist _).length_le

theorem CStr.scan_word_rest_length (l : List Char) : (CStr.scan_word_rest l).length ≤ l.length :=
  le_trans (List.dropWhile_sublist _).length_le (List.dropWhile_sublist _).length_le

/-- The second word that `sscanf(txt + n, "%s %s", …)` reads from a short line
is short. -/
theorem Phase3.second_word_short (txt : String) (n : Nat) (h : txt.length ≤ 63) :
    (String.mk (CStr.scan_word (CStr.scan_word_rest (Phase3.from_offset txt n)))).length ≤ 63 := by
  have h1 := CStr.scan_word_length (CStr.scan_word_rest (Phase3.from_offset txt n))
  have h2 := CStr.scan_word_rest_length (Phase3.from_offset txt n)
  have h3 : (Phase3.from_offset txt n).length ≤ txt.length := by
    unfold Phase3.from_offset
    rw [List.length_drop]
    exact Nat.sub_le _ _
  show (CStr.scan_word (CStr.scan_word_rest (Phase3.from_offset txt n))).length ≤ 63
  omega

theorem Phase3.add_symbol_present (scope : Phase3.Scope) (name : String) (ty : Phase3.VarType)
    (line : Nat) (h : name ∈ Phase3.scope_names scope) :
    Phase3.add_symbol scope name ty line =
      Phase3.semantic_error line (CStr.strncpy 127 ("Redeclaration of '" ++ name ++ "'")) := by
  unfold Phase3.add_symbol
  rw [if_pos]
  rw [List.any_eq_true]
  obtain ⟨s, hs, rfl⟩ := List.mem_map.1 h
  exact ⟨s, hs, decide_eq_true rfl⟩

theorem Phase3.add_symbol_absent (scope : Phase3.Scope) (name : String) (ty : Phase3.VarType)
    (line : Nat) (h : name ∉ Phase3.scope_names scope) (hlen : scope.length < 1024) :
    Phase3.add_symbol scope name ty line =
      .ok (scope ++ [{ name := CStr.strncpy 63 name, type := ty }]) := by
  unfold Phase3.add_symbol
  rw [if_neg, if_neg (by omega)]
  rw [List.any_eq_true]
  rintro ⟨s, hs, hd⟩
  exact h (List.mem_map.2 ⟨s, hs, of_decide_eq_true hd⟩)

/-- When `add_symbol` returns, the name was not in the scope and the new scope is
the old one with the new symbol at the end. -/
theorem Phase3.add_symbol_ok (scope scope2 : Phase3.Scope) (name : String)
    (ty : Phase3.VarType) (line : Nat) (h : Phase3.add_symbol scope name ty line = .ok scope2) :
    name ∉ Phase3.scope_names scope ∧
    scope2 = scope ++ [{ name := CStr.strncpy 63 name, type := ty }] := by
  by_cases hin : name ∈ Phase3.scope_names scope
  · rw [Phase3.add_symbol_present scope name ty line hin] at h
    exact absurd h (by simp [Phase3.semantic_error])
  · refine ⟨hin, ?_⟩
    unfold Phase3.add_symbol at h
    split at h
    · exact absurd h (by simp [Phase3.semantic_error])
    · split at h
      · exact absurd h (by simp [Phase3.semantic_error])
      · injection h with h
        exact h.symm

theorem Phase3.add_symbol_nodup (scope scope2 : Phase3.Scope) (name : String)
    (ty : Phase3.VarType) (line : Nat) (hn : (Phase3.scope_names scope).Nodup)
    (hlen : name.length ≤ 63) (h : Phase3.add_symbol scope name ty line = .ok scope2) :
    (Phase3.scope_names scope2).Nodup := by
  obtain ⟨hin, rfl⟩ := Phase3.add_symbol_ok scope scope2 name ty line h
  unfold Phase3.scope_names at *
  rw [List.map_append, List.nodup_append]
  refine ⟨hn, List.nodup_singleton _, ?_⟩
  intro x hx hx2
  simp only [List.map_cons, List.map_nil, List.mem_singleton] at hx2
  rw [CStr.strncpy_short 63 name hlen] at hx2
  rw [hx2] at hx
  exact hin hx

theorem Phase3.lookup_symbol_absent (scope : Phase3.Scope) (name : String)
    (h : name ∉ Phase3.scope_names scope) :
    scope.find? (fun s => decide (s.name = name)) = none := by
  rw [List.find?_eq_none]
  intro s hs hd
  exact h (List.mem_map.2 ⟨s, hs, of_decide_eq_true hd⟩)

/-- After a successful `add_symbol` of a name that fits the buffer, `lookup_symbol`
gives the type of the new name and the types of all other names as before. -/
theorem Phase3.lookup_after_add (scope scope2 : Phase3.Scope) (name : String)
    (ty : Phase3.VarType) (line : Nat) (hlen : name.length ≤ 63)
    (h : Phase3.add_symbol scope name ty line = .ok scope2) :
    Phase3.lookup_symbol scope2 name = ty ∧
    ∀ other, other ≠ name →
      Phase3.lookup_symbol scope2 other = Phase3.lookup_symbol scope other := by
  obtain ⟨hin, rfl⟩ := Phase3.add_symbol_ok scope scope2 name ty line h
  rw [CStr.strncpy_short 63 name hlen]
  constructor
  · unfold Phase3.lookup_symbol
    rw [List.find?_append, Phase3.lookup_symbol_absent scope name hin]
    simp
  · intro other hne
    unfold Phase3.lookup_symbol
    rw [List.find?_append]
    cases hf : scope.find? (fun s => decide (s.name = other)) with
    | some s => rfl
    | none =>
      have : ¬(name = other) := fun e => hne e.symm
      simp [List.find?_cons, this]

/-- In a scope with distinct names, `lookup_symbol` gives the type of the one
symbol of that name. -/
theorem Phase3.lookup_symbol_mem (scope : Phase3.Scope) (s : Phase3.Symbol)
    (hn : (Phase3.scope_names scope).Nodup) (hs : s ∈ scope) :
    Phase3.lookup_symbol scope s.name = s.type := by
  induction scope with
  | nil => cases hs
  | cons a rest ih =>
    unfold Phase3.scope_names at hn
    rw [List.map_cons, List.nodup_cons] at hn
    unfold Phase3.lookup_symbol
    rw [List.find?_cons]
    by_cases ha : a.name = s.name
    · have has : a = s := by
        rcases List.mem_cons.1 hs with e | hr
        · exact e.symm
        · exact absurd (List.mem_map.2 ⟨s, hr, ha.symm⟩) hn.1
      simp [ha, has]
    · have hr : s ∈ rest := by
        rcases List.mem_cons.1 hs with e | hr
        · exact absurd (by rw [e]) ha
        · exact hr
      have := ih hn.2 hr
      unfold Phase3.lookup_symbol at this
      simp only [ha, decide_False]
      exact this

/-! ### The scopes of the analyzer keep distinct names -/

theorem Phase3.modify_all {α : Type} (Q : α → Prop) (g : α → α) (l : List α) (i : Nat)
    (h : ∀ y ∈ l, Q y) (hg : ∀ y, Q y → Q (g y)) : ∀ x ∈ l.modify g i, Q x := by
  induction l generalizing i with
  | nil => intro x hx; simp at hx
  | cons a rest ih =>
    cases i with
    | zero =>
      intro x hx
      simp at hx
      rcases hx with rfl | hx
      · exact hg a (h a (List.mem_cons_self _ _))
      · exact h x (List.mem_cons_of_mem _ hx)
    | succ j =>
      intro x hx
      simp at hx
      rcases hx with rfl | hx
      · exact h _ (List.mem_cons_self _ _)
      · exact ih j (fun y hy => h y (List.mem_cons_of_mem _ hy)) x hx

/-- A write through `current_function` that puts a scope with distinct names. -/
theorem Phase3.scopes_ok_update_scope (st : Phase3.State) (sc : Phase3.Scope)
    (h : Phase3.scopes_ok st) (hsc : (Phase3.scope_names sc).Nodup) :
    Phase3.scopes_ok (Phase3.update_current_fn st (fun g => { g with scope := sc })) := by
  unfold Phase3.update_current_fn
  split
  · exact ⟨h.1, Phase3.modify_all (fun (fn : Phase3.Function) => (Phase3.scope_names fn.scope).Nodup) _ _ _ h.2.1
      (fun _ _ => hsc), h.2.2⟩
  · exact h

/-- A write through `current_function` that leaves the scope as it is. -/
theorem Phase3.scopes_ok_update_flags (st : Phase3.State) (g : Phase3.Function → Phase3.Function)
    (h : Phase3.scopes_ok st) (hg : ∀ y, (g y).scope = y.scope) :
    Phase3.scopes_ok (Phase3.update_current_fn st g) := by
  unfold Phase3.update_current_fn
  split
  · exact ⟨h.1, Phase3.modify_all (fun (fn : Phase3.Function) => (Phase3.scope_names fn.scope).Nodup) _ _ _ h.2.1
      (fun y hy => by
        show (Phase3.scope_names (g y).scope).Nodup
        rw [hg y]
        exact hy), h.2.2⟩
  · exact h

theorem Phase3.scopes_ok_cursor (st : Phase3.State) (n : Nat) (h : Phase3.scopes_ok st) :
    Phase3.scopes_ok { st with current_line := n } := h

theorem Phase3.current_fn_mem (st : Phase3.State) (fn : Phase3.Function)
    (h : Phase3.current_fn st = some fn) : fn ∈ st.functions := by
  unfold Phase3.current_fn at h
  split at h
  · exact List.get?_mem h
  · cases h

theorem Phase3.cur_line_mem (st : Phase3.State) (ln : Ast.ASTLine)
    (h : Phase3.cur_line st = some ln) : ln ∈ st.lines := List.get?_mem h

theorem Phase3.param_symbol_sat (off : Nat) (ln : Ast.ASTLine) (lineno : Nat)
    (scope : Option Phase3.Scope) (hshort : ln.text.length ≤ 63)
    (hs : ∀ sc, scope = some sc → (Phase3.scope_names sc).Nodup) :
    Outcome.Sat (fun r => ∀ sc, r = some sc → (Phase3.scope_names sc).Nodup)
      (Phase3.param_symbol off ln lineno scope) := by
  unfold Phase3.param_symbol
  dsimp only
  split
  · split
    · rename_i sc
      refine Outcome.sat_bind
        (Q := fun sc1 => (Phase3.scope_names sc1).Nodup) ?_ ?_
      · intro sc1 h1
        exact Phase3.add_symbol_nodup sc sc1 _ _ _ (hs sc rfl)
          (Phase3.second_word_short ln.text off hshort) h1
      · intro sc1 h1
        exact Outcome.sat_ok (fun sc2 h2 => by
          injection h2 with h2
          rw [← h2]
          exact h1)
    · exact Outcome.sat_fail
  · exact Outcome.sat_ok hs

theorem Phase3.params_loop_sat (lines : List Ast.ASTLine) : ∀ (e lineno : Nat)
    (scope : Option Phase3.Scope), Phase3.short_lines lines →
    (∀ sc, scope = some sc → (Phase3.scope_names sc).Nodup) →
    Outcome.Sat (fun p => ∀ sc, p.1 = some sc → (Phase3.scope_names sc).Nodup)
      (Phase3.params_loop lines e lineno scope) := by
  induction lines with
  | nil =>
    intro e lineno scope _ hs
    rw [Phase3.params_loop]
    exact Outcome.sat_ok hs
  | cons ln rest ih =>
    intro e lineno scope hshort hs
    rw [Phase3.params_loop]
    have hln : ln.text.length ≤ 63 := hshort ln (List.mem_cons_self _ _)
    have hrest : Phase3.short_lines rest := fun l hl => hshort l (List.mem_cons_of_mem _ hl)
    split
    · refine Outcome.sat_bind
        (Q := fun r => ∀ sc, r = some sc → (Phase3.scope_names sc).Nodup) ?_ ?_
      · split
        · exact Phase3.param_symbol_sat 6 ln lineno scope hln hs
        · split
          · exact Phase3.param_symbol_sat 8 ln lineno scope hln hs
          · exact Outcome.sat_ok hs
      · intro scope1 h1
        refine Outcome.sat_bind (ih e (lineno + 1) scope1 hrest h1) ?_
        intro p hp
        obtain ⟨scope2, n⟩ := p
        exact Outcome.sat_ok hp
    · exact Outcome.sat_ok hs

/-- The invariant of the analyzer at one amount of fuel: a call that starts with
short lines and distinct names in every scope returns in such a state. -/
theorem Phase3.analysis_keeps_scopes (f : Nat) :
    (∀ e st, Phase3.scopes_ok st →
      Outcome.Sat (fun p => Phase3.scopes_ok p.2) (Phase3.parse_node f e st)) ∧
    (∀ e st, Phase3.scopes_ok st → Outcome.Sat Phase3.scopes_ok (Phase3.children_loop f e st)) ∧
    (∀ e st, Phase3.scopes_ok st → Outcome.Sat Phase3.scopes_ok (Phase3.group_loop f e st)) := by
  induction f with
  | zero =>
    refine ⟨?_, ?_, ?_⟩
    · intro e st _; rw [Phase3.parse_node]; exact Outcome.sat_fuel
    · intro e st _; rw [Phase3.children_loop]; exact Outcome.sat_fuel
    · intro e st _; rw [Phase3.group_loop]; exact Outcome.sat_fuel
  | succ f ih =>
    obtain ⟨ih_node, ih_children, ih_group⟩ := ih
    have ih_snd : ∀ e st, Phase3.scopes_ok st →
        Outcome.Sat Phase3.scopes_ok
          (Phase3.parse_node f e st >>= fun p => (.ok p.2 : Outcome Phase3.State)) := by
      intro e st h
      refine Outcome.sat_bind (ih_node e st h) ?_
      intro p hp
      exact Outcome.sat_ok hp
    refine ⟨?_, ?_, ?_⟩
    · intro e st hst
      rw [Phase3.parse_node]
      split
      · exact Outcome.sat_ok hst
      rename_i ln hln
      have hshort : ln.text.length ≤ 63 := hst.1 ln (Phase3.cur_line_mem st ln hln)
      by_cases hind : ln.indent ≠ e
      · rw [if_pos hind]
        exact Outcome.sat_ok hst
      rw [if_neg hind]
      dsimp only
      by_cases h1 : CStr.strncmp_eq ln.text "FunctionDefinition:" 19 = true
      · -- FunctionDefinition:
        rw [if_pos h1]
        by_cases hfull : st.functions.length ≥ 128
        · rw [if_pos hfull]
          exact Outcome.sat_fail
        rw [if_neg hfull]
        refine Outcome.sat_bind (ih_node _ _ ?_) ?_
        · refine ⟨hst.1, ?_, hst.2.2⟩
          intro fn hfn
          rcases List.mem_append.1 hfn with h | h
          · exact hst.2.1 fn h
          · rw [List.mem_singleton.1 h]
            exact List.nodup_nil
        · intro p hp
          refine Outcome.sat_bind (ih_node _ _ hp) ?_
          intro q hq
          exact Outcome.sat_ok hq
      rw [if_neg h1]
      by_cases h2 : CStr.strncmp_eq ln.text "Body:" 5 = true
      · -- Body:
        rw [if_pos h2]
        refine Outcome.sat_bind (ih_children _ _ hst) ?_
        intro s hs
        exact Outcome.sat_ok hs
      rw [if_neg h2]
      by_cases h3 : CStr.strncmp_eq ln.text "VarDecl:" 8 = true
      · -- VarDecl:
        rw [if_pos h3]
        refine Outcome.sat_bind (Q := Phase3.scopes_ok) ?_ ?_
        · split
          · split
            · rename_i fn hfn
              refine Outcome.sat_bind
                (Q := fun sc1 => (Phase3.scope_names sc1).Nodup) ?_ ?_
              · intro sc1 hsc1
                exact Phase3.add_symbol_nodup fn.scope sc1 _ _ _
                  (hst.2.1 fn (Phase3.current_fn_mem st fn hfn))
                  (Phase3.second_word_short ln.text 8 hshort) hsc1
              · intro sc1 hsc1
                exact Outcome.sat_ok (Phase3.scopes_ok_update_scope st sc1 hst hsc1)
            · exact Outcome.sat_fail
          · refine Outcome.sat_bind
              (Q := fun sc1 => (Phase3.scope_names sc1).Nodup) ?_ ?_
            · intro sc1 hsc1
              exact Phase3.add_symbol_nodup st.global_scope sc1 _ _ _ hst.2.2
                (Phase3.second_word_short ln.text 8 hshort) hsc1
            · intro sc1 hsc1
              exact Outcome.sat_ok ⟨hst.1, hst.2.1, hsc1⟩
        · intro st1 hst1
          split
          · refine Outcome.sat_bind (ih_node _ _ hst1) ?_
            intro p hp
            exact Outcome.sat_ok hp
          · exact Outcome.sat_ok hst1
      rw [if_neg h3]
      by_cases h4 : CStr.strncmp_eq ln.text "Assign:" 7 = true
      · -- Assign:
        rw [if_pos h4]
        split
        · exact Outcome.sat_fail
        · split
          · exact Outcome.sat_fail
          · refine Outcome.sat_bind (ih_node _ _ hst) ?_
            intro p hp
            split
            · exact Outcome.sat_fail
            · exact Outcome.sat_ok hp
      rw [if_neg h4]
      by_cases h5 : CStr.strncmp_eq ln.text "If:" 3 = true
      · -- If:
        rw [if_pos h5]
        refine Outcome.sat_bind (ih_node _ _ hst) ?_
        intro p hp
        split
        · exact Outcome.sat_fail
        · refine Outcome.sat_bind (Q := Phase3.scopes_ok) ?_ ?_
          · split
            · exact ih_snd _ _ hp
            · exact Outcome.sat_ok hp
          · intro st2 hst2
            split
            · split
              · refine Outcome.sat_bind (ih_node _ _ hst2) ?_
                intro q hq
                exact Outcome.sat_ok hq
              · exact Outcome.sat_ok hst2
            · exact Outcome.sat_ok hst2
      rw [if_neg h5]
      by_cases h6 : CStr.strncmp_eq ln.text "Return:" 7 = true
      · -- Return:
        rw [if_pos h6]
        split
        · exact Outcome.sat_fail
        · have hst0 := Phase3.scopes_ok_update_flags st (fun g => { g with has_return := true })
            hst (fun _ => rfl)
          refine Outcome.sat_bind (Q := fun p => Phase3.scopes_ok p.2) ?_ ?_
          · split
            · exact ih_node _ _ hst0
            · exact Outcome.sat_ok hst0
          · intro p hp
            obtain ⟨rt, st1⟩ := p
            split
            · exact Outcome.sat_fail
            · rename_i fn hfn
              have hst2 : Phase3.scopes_ok
                  (if fn.return_type = Phase3.VarType.TYPE_INT ∧ fn.name ≠ "main" then
                    Phase3.update_current_fn st1 (fun g => { g with return_type := rt })
                   else st1) := by
                split
                · exact Phase3.scopes_ok_update_flags st1 _ hp (fun _ => rfl)
                · exact hp
              split
              · exact Outcome.sat_fail
              · split
                · exact Outcome.sat_fail
                · exact Outcome.sat_ok hst2
      rw [if_neg h6]
      by_cases h7 : CStr.strncmp_eq ln.text "For:" 4 = true
      · -- For:
        rw [if_pos h7]
        refine Outcome.sat_bind (ih_node _ _ hst) ?_
        intro p hp
        refine Outcome.sat_bind (ih_node _ _ hp) ?_
        intro q hq
        split
        · exact Outcome.sat_fail
        · refine Outcome.sat_bind (ih_node _ _ hq) ?_
          intro r hr
          split
          · refine Outcome.sat_bind (ih_node _ _ hr) ?_
            intro s hs
            exact Outcome.sat_ok hs
          · exact Outcome.sat_ok hr
      rw [if_neg h7]
      by_cases h8 : CStr.strncmp_eq ln.text "While:" 6 = true
      · -- While:
        rw [if_pos h8]
        refine Outcome.sat_bind (ih_node _ _ hst) ?_
        intro p hp
        split
        · exact Outcome.sat_fail
        · split
          · refine Outcome.sat_bind (ih_node _ _ hp) ?_
            intro q hq
            exact Outcome.sat_ok hq
          · exact Outcome.sat_ok hp
      rw [if_neg h8]
      by_cases h9 : CStr.strncmp_eq ln.text "BinOp(" 6 = true
      · -- BinOp(
        rw [if_pos h9]
        refine Outcome.sat_bind (ih_node _ _ hst) ?_
        intro p hp
        refine Outcome.sat_bind (ih_node _ _ hp) ?_
        intro q hq
        split
        · exact Outcome.sat_fail
        · split
          · exact Outcome.sat_ok hq
          · exact Outcome.sat_ok hq
      rw [if_neg h9]
      by_cases h10 : CStr.strncmp_eq ln.text "Number(" 7 = true
      · rw [if_pos h10]
        exact Outcome.sat_ok hst
      rw [if_neg h10]
      by_cases h11 : CStr.strncmp_eq ln.text "Var(" 4 = true
      · -- Var(
        rw [if_pos h11]
        split
        · exact Outcome.sat_fail
        · split
          · exact Outcome.sat_fail
          · exact Outcome.sat_ok hst
      rw [if_neg h11]
      by_cases h12 : CStr.strncmp_eq ln.text "Cast(" 5 = true
      · -- Cast(
        rw [if_pos h12]
        refine Outcome.sat_bind (ih_node _ _ hst) ?_
        intro p hp
        exact Outcome.sat_ok hp
      rw [if_neg h12]
      by_cases h13 : CStr.strncmp_eq ln.text "Parameters:" 11 = true
      · -- Parameters:
        rw [if_pos h13]
        refine Outcome.sat_bind
          (Q := fun p => ∀ sc, p.1 = some sc → (Phase3.scope_names sc).Nodup) ?_ ?_
        · refine Phase3.params_loop_sat _ _ _ _ ?_ ?_
          · intro l hl
            exact hst.1 l (List.mem_of_mem_drop hl)
          · intro sc hsc
            cases hfn : Phase3.current_fn (Phase3.advance st) with
            | none =>
              rw [hfn] at hsc
              cases hsc
            | some fn =>
              rw [hfn] at hsc
              injection hsc with hsc
              rw [← hsc]
              exact hst.2.1 fn (Phase3.current_fn_mem (Phase3.advance st) fn hfn)
        · intro p hp
          obtain ⟨scope1, n⟩ := p
          cases scope1 with
          | none => exact Outcome.sat_ok hst
          | some sc =>
            exact Outcome.sat_ok (Phase3.scopes_ok_cursor _ _
              (Phase3.scopes_ok_update_scope (Phase3.advance st) sc hst (hp sc rfl)))
      rw [if_neg h13]
      by_cases h14 : CStr.strncmp_eq ln.text "VarDeclGroup:" 13 = true
      · -- VarDeclGroup:
        rw [if_pos h14]
        refine Outcome.sat_bind (ih_group _ _ hst) ?_
        intro s hs
        exact Outcome.sat_ok hs
      rw [if_neg h14]
      split
      · refine Outcome.sat_bind (ih_children _ _ hst) ?_
        intro s hs
        exact Outcome.sat_ok hs
      · exact Outcome.sat_ok hst
    · intro e st hst
      rw [Phase3.children_loop]
      split
      · exact Outcome.sat_ok hst
      · split
        · refine Outcome.sat_bind (ih_node _ _ hst) ?_
          intro p hp
          exact ih_children _ _ hp
        · exact Outcome.sat_ok hst
    · intro e st hst
      rw [Phase3.group_loop]
      split
      · exact Outcome.sat_ok hst
      · split
        · refine Outcome.sat_bind (ih_node _ _ hst) ?_
          intro p hp
          exact ih_group _ _ hp
        · exact Outcome.sat_ok hst

/-- The loop of the analyzer's `main` keeps the invariant. -/
theorem Phase3.analyzer_loop_keeps_scopes (f : Nat) : ∀ st, Phase3.scopes_ok st →
    Outcome.Sat Phase3.scopes_ok (Phase3.main_loop f st) := by
  induction f with
  | zero => intro st _; rw [Phase3.main_loop]; exact Outcome.sat_fuel
  | succ f ih =>
    intro st hst
    rw [Phase3.main_loop]
    split
    · exact Outcome.sat_ok hst
    · refine Outcome.sat_bind ((Phase3.analysis_keeps_scopes f).1 _ _ hst) ?_
      intro p hp
      exact ih _ hp

/-- C25: `add_symbol` on a name that is already in the scope aborts with
"Redeclaration of '<name>'"; on a name that is not in the scope (the scope
having room, the name fitting the 63 characters of the buffer) it appends the
symbol and leaves the earlier symbols as they are.  Distinct names stay
distinct, and after the call `lookup_symbol` gives the new name its type and every
other name the type it had; in a scope with distinct names `lookup_symbol` gives the
type of the one symbol of that name.  Hence every call of `parse_node` started
with distinct names in every scope (on lines of at most 63 characters) returns
with distinct names in every scope, and so does the loop of `main` from the
initial state. -/
theorem C25_scope_names_unique :
    (∀ scope name ty line, name ∈ Phase3.scope_names scope →
      Phase3.add_symbol scope name ty line =
        Phase3.semantic_error line (CStr.strncpy 127 ("Redeclaration of '" ++ name ++ "'"))) ∧
    (∀ scope name ty line, name ∉ Phase3.scope_names scope → scope.length < 1024 →
      name.length ≤ 63 →
      Phase3.add_symbol scope name ty line = .ok (scope ++ [{ name := name, type := ty }])) ∧
    (∀ scope scope2 name ty line, (Phase3.scope_names scope).Nodup → name.length ≤ 63 →
      Phase3.add_symbol scope name ty line = .ok scope2 →
      (Phase3.scope_names scope2).Nodup ∧ Phase3.lookup_symbol scope2 name = ty ∧
      ∀ other, other ≠ name →
        Phase3.lookup_symbol scope2 other = Phase3.lookup_symbol scope other) ∧
    (∀ scope s, (Phase3.scope_names scope).Nodup → s ∈ scope →
      Phase3.lookup_symbol scope s.name = s.type) ∧
    (∀ f e st p, Phase3.short_lines st.lines → Phase3.scopes_distinct st →
      Phase3.parse_node f e st = .ok p → Phase3.scopes_distinct p.2) ∧
    (∀ fuel lines st, Phase3.short_lines lines →
      Phase3.main_loop fuel (Phase3.initial_state lines) = .ok st →
      Phase3.scopes_distinct st) := by
  refine ⟨Phase3.add_symbol_present, ?_, ?_, Phase3.lookup_symbol_mem, ?_, ?_⟩
  · intro scope name ty line hin hlen hname
    rw [Phase3.add_symbol_absent scope name ty line hin hlen, CStr.strncpy_short 63 name hname]
  · intro scope scope2 name ty line hn hname h
    exact ⟨Phase3.add_symbol_nodup scope scope2 name ty line hn hname h,
      Phase3.lookup_after_add scope scope2 name ty line hname h⟩
  · intro f e st p hs hd h
    exact ((Phase3.analysis_keeps_scopes f).1 e st ⟨hs, hd⟩ p h).2
  · intro fuel lines st hs h
    exact (Phase3.analyzer_loop_keeps_scopes fuel (Phase3.initial_state lines)
      ⟨hs, fun fn hfn => absurd hfn (List.not_mem_nil _), List.nodup_nil⟩ st h).2

theorem C25_scope_names_unique_witness :
    Phase3.add_symbol [⟨"a", .TYPE_INT⟩] "a" .TYPE_FLOAT 3 =
      Phase3.semantic_error 3 "Redeclaration of 'a'" ∧
    Phase3.add_symbol [⟨"a", .TYPE_INT⟩] "b" .TYPE_FLOAT 3 =
      .ok [⟨"a", .TYPE_INT⟩, ⟨"b", .TYPE_FLOAT⟩] ∧
    Phase3.main_loop 20 (Phase3.initial_state lines_param_and_local) =
      .ok state_param_and_local ∧
    Phase3.scopes_distinct state_param_and_local ∧
    verdict_of_tokens 100 100 tokens_param_redeclared =
      .fail (some 5) "Redeclaration of 'a'" :=
  ⟨C25_scope_names_unique.1 [⟨"a", .TYPE_INT⟩] "a" .TYPE_FLOAT 3 (by decide),
   C25_scope_names_unique.2.1 [⟨"a", .TYPE_INT⟩] "b" .TYPE_FLOAT 3 (by decide) (by decide)
     (by decide),
   by decide,
   C25_scope_names_unique.2.2.2.2.2 20 lines_param_and_local state_param_and_local (by decide)
     (by decide),
   by decide⟩

/-! ### Return flags of the functions -/

theorem Phase3.mark_last_snoc (F : List Bool) (b : Bool) :
    Phase3.mark_last (F ++ [b]) = F ++ [true] := by
  induction F with
  | nil => rfl
  | cons a rest ih =>
    cases rest with
    | nil => rfl
    | cons c r =>
      show a :: Phase3.mark_last (c :: r ++ [b]) = a :: (c :: r ++ [true])
      rw [ih]

theorem Phase3.mark_last_length (F : List Bool) : (Phase3.mark_last F).length = F.length := by
  rcases List.eq_nil_or_concat F with rfl | ⟨F2, b, rfl⟩
  · rfl
  · rw [List.concat_eq_append, Phase3.mark_last_snoc, List.length_append, List.length_append]
    rfl

theorem Phase3.mark_last_getLast (F : List Bool) (h : F ≠ []) :
    (Phase3.mark_last F).getLast? = some true := by
  rcases List.eq_nil_or_concat F with rfl | ⟨F2, b, rfl⟩
  · exact absurd rfl h
  · rw [List.concat_eq_append, Phase3.mark_last_snoc, List.getLast?_append]
    rfl

theorem Phase3.return_flags_snoc (l : List Ast.ASTLine) (ln : Ast.ASTLine) :
    Phase3.return_flags (l ++ [ln]) = Phase3.flag_step (Phase3.return_flags l) ln := by
  unfold Phase3.return_flags
  rw [List.foldl_append]
  rfl

theorem Phase3.flag_step_length (F : List Bool) (ln : Ast.ASTLine) :
    F.length ≤ (Phase3.flag_step F ln).length := by
  unfold Phase3.flag_step
  split
  · rw [List.length_append]
    exact Nat.le_add_right _ _
  · split
    · rw [Phase3.mark_last_length]
    · exact le_refl _

theorem Phase3.foldl_flags_length (X : List Ast.ASTLine) : ∀ F : List Bool,
    F.length ≤ (X.foldl Phase3.flag_step F).length := by
  induction X with
  | nil => intro F; exact le_refl _
  | cons a rest ih =>
    intro F
    rw [List.foldl_cons]
    exact le_trans (Phase3.flag_step_length F a) (ih _)

/-- Reading more lines without adding a function keeps the flag of the last
function set. -/
theorem Phase3.foldl_flags_last (X : List Ast.ASTLine) : ∀ F : List Bool,
    F.getLast? = some true → (X.foldl Phase3.flag_step F).length = F.length →
    (X.foldl Phase3.flag_step F).getLast? = some true := by
  induction X with
  | nil => intro F h _; exact h
  | cons a rest ih =>
    intro F h hlen
    rw [List.foldl_cons] at hlen ⊢
    have h1 := Phase3.flag_step_length F a
    have h2 := Phase3.foldl_flags_length rest (Phase3.flag_step F a)
    have hne : F ≠ [] := by
      intro e
      rw [e] at h
      cases h
    refine ih _ ?_ (by omega)
    unfold Phase3.flag_step at h1 hlen h2 ⊢
    split
    · rename_i hfd
      rw [if_pos hfd] at h2 hlen
      rw [List.length_append] at h2
      simp only [List.length_singleton] at h2
      omega
    · split
      · exact Phase3.mark_last_getLast F hne
      · exact h

/-- Lines that are neither `FunctionDefinition:` nor `Return:` lines leave the
flags as they are. -/
theorem Phase3.foldl_flags_plain (X : List Ast.ASTLine) (F : List Bool)
    (h : ∀ l ∈ X, Phase3.is_function_line l = false ∧ Phase3.is_return_line l = false) :
    X.foldl Phase3.flag_step F = F := by
  induction X generalizing F with
  | nil => rfl
  | cons a rest ih =>
    rw [List.foldl_cons]
    have ha := h a (List.mem_cons_self _ _)
    have : Phase3.flag_step F a = F := by
      unfold Phase3.flag_step
      rw [ha.1, ha.2]
      rfl
    rw [this]
    exact ih F (fun l hl => h l (List.mem_cons_of_mem _ hl))

/-- The flags read off the regions: the flag of a function is set when its
region has a `Return:` line. -/
theorem Phase3.foldl_flags_regions (lines : List Ast.ASTLine) : ∀ (F : List Bool) (b : Bool),
    lines.foldl Phase3.flag_step (F ++ [b]) =
      F ++ [b || (lines.takeWhile (fun l => !Phase3.is_function_line l)).any
        Phase3.is_return_line] ++
      (Phase3.function_regions lines).map (fun r => r.any Phase3.is_return_line) := by
  induction lines with
  | nil =>
    intro F b
    simp [Phase3.function_regions]
  | cons a rest ih =>
    intro F b
    rw [List.foldl_cons]
    by_cases hfd : Phase3.is_function_line a = true
    · have hs : Phase3.flag_step (F ++ [b]) a = F ++ [b] ++ [false] := by
        unfold Phase3.flag_step
        rw [if_pos hfd]
      rw [hs, ih (F ++ [b]) false, Phase3.function_regions, if_pos hfd]
      simp [List.takeWhile_cons, hfd]
    · by_cases hr : Phase3.is_return_line a = true
      · have hs : Phase3.flag_step (F ++ [b]) a = F ++ [true] := by
          unfold Phase3.flag_step
          rw [if_neg hfd, if_pos hr, Phase3.mark_last_snoc]
        rw [hs, ih F true, Phase3.function_regions, if_neg hfd]
        simp [List.takeWhile_cons, hfd, hr]
      · have hs : Phase3.flag_step (F ++ [b]) a = F ++ [b] := by
          unfold Phase3.flag_step
          rw [if_neg hfd, if_neg hr]
        rw [hs, ih F b, Phase3.function_regions, if_neg hfd]
        simp [List.takeWhile_cons, hfd, hr]

theorem Phase3.return_flags_regions (lines : List Ast.ASTLine) :
    Phase3.return_flags lines =
      (Phase3.function_regions lines).map (fun r => r.any Phase3.is_return_line) := by
  unfold Phase3.return_flags
  induction lines with
  | nil => rfl
  | cons a rest ih =>
    rw [List.foldl_cons]
    by_cases hfd : Phase3.is_function_line a = true
    · have hs : Phase3.flag_step [] a = [] ++ [false] := by
        unfold Phase3.flag_step
        rw [if_pos hfd]
      rw [hs, Phase3.foldl_flags_regions rest [] false, Phase3.function_regions, if_pos hfd]
      simp
    · have hs : Phase3.flag_step [] a = [] := by
        unfold Phase3.flag_step
        rw [if_neg hfd]
        split <;> rfl
      rw [hs, Phase3.function_regions, if_neg hfd]
      exact ih

/-! ### The analyzer's records and the lines read -/

theorem Phase3.map_modify_same {α β : Type} (f : α → β) (g : α → α) (h : ∀ y, f (g y) = f y)
    (l : List α) : ∀ i, (l.modify g i).map f = l.map f := by
  induction l with
  | nil => intro i; simp
  | cons a rest ih =>
    intro i
    cases i with
    | zero => simp [h]
    | succ j => simp [ih j]

theorem Phase3.map_modify_last (l : List Phase3.Function) :
    (l.modify (fun g => { g with has_return := true }) (l.length - 1)).map
        Phase3.Function.has_return =
      Phase3.mark_last (l.map Phase3.Function.has_return) := by
  induction l with
  | nil => rfl
  | cons a rest ih =>
    cases rest with
    | nil => rfl
    | cons b r =>
      have e : (a :: b :: r).length - 1 = ((b :: r).length - 1) + 1 := by
        simp
      rw [e, List.modify_succ_cons, List.map_cons, ih]
      rfl

/-- A write to the last element: every element keeps a property that the other
elements have and that the write gives to the last one. -/
theorem Phase3.modify_last_all {α : Type} (Q : α → Prop) (g : α → α) (l : List α)
    (h : ∀ y ∈ l, Q y) (hg : ∀ y, l.getLast? = some y → Q (g y)) :
    ∀ x ∈ l.modify g (l.length - 1), Q x := by
  induction l with
  | nil => intro x hx; simp at hx
  | cons a rest ih =>
    cases rest with
    | nil =>
      intro x hx
      simp at hx
      rw [hx]
      exact hg a rfl
    | cons b r =>
      have e : (a :: b :: r).length - 1 = ((b :: r).length - 1) + 1 := by
        simp
      rw [e, List.modify_succ_cons]
      intro x hx
      rcases List.mem_cons.1 hx with rfl | hx
      · exact h _ (List.mem_cons_self _ _)
      · refine ih (fun y hy => h y (List.mem_cons_of_mem _ hy)) ?_ x hx
        intro y hy
        exact hg y (by rw [List.getLast?_cons_cons]; exact hy)

theorem Phase3.take_succ_cur (st : Phase3.State) (ln : Ast.ASTLine)
    (hln : Phase3.cur_line st = some ln) :
    st.lines.take (st.current_line + 1) = st.lines.take st.current_line ++ [ln] := by
  unfold Phase3.cur_line at hln
  rw [List.get?_eq_getElem?] at hln
  rw [List.take_succ, hln]
  rfl

/-- The cursor passes a line that is neither a `FunctionDefinition:` nor a
`Return:` line. -/
theorem Phase3.flags_ok_advance (lines : List Ast.ASTLine) (st : Phase3.State)
    (ln : Ast.ASTLine) (h : Phase3.flags_ok lines st) (hln : Phase3.cur_line st = some ln)
    (hfd : Phase3.is_function_line ln = false) (hret : Phase3.is_return_line ln = false) :
    Phase3.flags_ok lines (Phase3.advance st) := by
  obtain ⟨hl, ha, hb, hc⟩ := h
  refine ⟨hl, ha, ?_, hc⟩
  show st.functions.map Phase3.Function.has_return =
    Phase3.return_flags (lines.take (st.current_line + 1))
  rw [← hl, Phase3.take_succ_cur st ln hln, Phase3.return_flags_snoc, hl, ← hb]
  unfold Phase3.flag_step
  rw [hfd, hret]
  rfl

/-- The cursor passes `n` lines that are neither `FunctionDefinition:` nor `Return:`
lines. -/
theorem Phase3.flags_ok_skip (lines : List Ast.ASTLine) (st : Phase3.State) (n : Nat)
    (h : Phase3.flags_ok lines st)
    (hplain : ∀ l ∈ (lines.drop st.current_line).take n,
      Phase3.is_function_line l = false ∧ Phase3.is_return_line l = false) :
    Phase3.flags_ok lines { st with current_line := st.current_line + n } := by
  obtain ⟨hl, ha, hb, hc⟩ := h
  refine ⟨hl, ha, ?_, hc⟩
  show st.functions.map Phase3.Function.has_return =
    Phase3.return_flags (lines.take (st.current_line + n))
  rw [List.take_add, hb]
  unfold Phase3.return_flags
  rw [List.foldl_append, Phase3.foldl_flags_plain _ _ hplain]

/-- A write through `current_function` that changes neither `has_return` nor
`return_type`. -/
theorem Phase3.flags_ok_update (lines : List Ast.ASTLine) (st : Phase3.State)
    (g : Phase3.Function → Phase3.Function) (h : Phase3.flags_ok lines st)
    (hg : ∀ y, (g y).has_return = y.has_return ∧ (g y).return_type = y.return_type) :
    Phase3.flags_ok lines (Phase3.update_current_fn st g) := by
  obtain ⟨hl, ha, hb, hc⟩ := h
  unfold Phase3.update_current_fn
  split
  · rename_i i hi
    refine ⟨hl, ?_, ?_, ?_⟩
    · show st.current_function =
        (if st.functions.modify g i = [] then none
         else some ((st.functions.modify g i).length - 1))
      rw [List.length_modify, ha]
      by_cases he : st.functions = []
      · simp [he]
      · have : st.functions.modify g i ≠ [] := by
          intro e
          have := congrArg List.length e
          rw [List.length_modify] at this
          exact he (List.length_eq_zero.1 this)
        rw [if_neg he, if_neg this]
    · show (st.functions.modify g i).map Phase3.Function.has_return = _
      rw [Phase3.map_modify_same _ g (fun y => (hg y).1), hb]
    · exact Phase3.modify_all
        (fun (fn : Phase3.Function) => fn.has_return = false →
          fn.return_type = Phase3.VarType.TYPE_INT) g _ i hc
        (fun y hy hf => by
          rw [(hg y).2]
          rw [(hg y).1] at hf
          exact hy hf)
  · exact ⟨hl, ha, hb, hc⟩

/-- The `FunctionDefinition:` branch adds a record. -/
theorem Phase3.flags_ok_new_function (lines : List Ast.ASTLine) (st : Phase3.State)
    (ln : Ast.ASTLine) (name : String) (h : Phase3.flags_ok lines st)
    (hln : Phase3.cur_line st = some ln) (hfd : Phase3.is_function_line ln = true) :
    Phase3.flags_ok lines
      { st with
        functions := st.functions ++
          [{ name := name, return_type := Phase3.VarType.TYPE_INT, scope := [],
             has_return := false }],
        current_function := some st.functions.length,
        current_line := st.current_line + 1 } := by
  obtain ⟨hl, ha, hb, hc⟩ := h
  refine ⟨hl, ?_, ?_, ?_⟩
  · simp
  · show (st.functions ++ [_]).map Phase3.Function.has_return =
      Phase3.return_flags (lines.take (st.current_line + 1))
    rw [← hl, Phase3.take_succ_cur st ln hln, Phase3.return_flags_snoc, hl, ← hb]
    unfold Phase3.flag_step
    rw [if_pos hfd, List.map_append]
    rfl
  · intro fn hfn hf
    rcases List.mem_append.1 hfn with h1 | h1
    · exact hc fn h1 hf
    · rw [List.mem_singleton.1 h1]

theorem Phase3.current_fn_nonempty (st : Phase3.State) (fn : Phase3.Function)
    (h : Phase3.current_fn st = some fn) : st.functions ≠ [] := by
  intro e
  have := Phase3.current_fn_mem st fn h
  rw [e] at this
  cases this

/-- The start of the `Return:` branch: `has_return` of the current function is set,
and the cursor passes the line. -/
theorem Phase3.flags_ok_mark (lines : List Ast.ASTLine) (st : Phase3.State)
    (ln : Ast.ASTLine) (fn : Phase3.Function) (h : Phase3.flags_ok lines st)
    (hln : Phase3.cur_line st = some ln) (hfd : Phase3.is_function_line ln = false)
    (hret : Phase3.is_return_line ln = true) (hcur : Phase3.current_fn st = some fn) :
    Phase3.flags_ok lines
      (Phase3.advance (Phase3.update_current_fn st (fun g => { g with has_return := true }))) ∧
    ((Phase3.advance (Phase3.update_current_fn st
      (fun g => { g with has_return := true }))).functions.map
        Phase3.Function.has_return).getLast? = some true := by
  obtain ⟨hl, ha, hb, hc⟩ := h
  have hne := Phase3.current_fn_nonempty st fn hcur
  rw [if_neg hne] at ha
  have hupd : Phase3.update_current_fn st (fun g => { g with has_return := true }) =
      { st with functions := (st.functions.modify (fun g => { g with has_return := true })
          (st.functions.length - 1)) } := by
    unfold Phase3.update_current_fn
    rw [ha]
  rw [hupd]
  have hmap : (st.functions.modify (fun g => { g with has_return := true })
      (st.functions.length - 1)).map Phase3.Function.has_return =
      Phase3.mark_last (st.functions.map Phase3.Function.has_return) :=
    Phase3.map_modify_last st.functions
  have hne2 : st.functions.map Phase3.Function.has_return ≠ [] := by
    intro e
    exact hne (List.map_eq_nil_iff.1 e)
  refine ⟨⟨hl, ?_, ?_, ?_⟩, ?_⟩
  · show st.current_function = (if st.functions.modify _ _ = [] then none
      else some ((st.functions.modify _ _).length - 1))
    rw [List.length_modify, ha]
    have : st.functions.modify (fun g => { g with has_return := true })
        (st.functions.length - 1) ≠ [] := by
      intro e
      have := congrArg List.length e
      rw [List.length_modify] at this
      exact hne (List.length_eq_zero.1 this)
    rw [if_neg this]
  · show (st.functions.modify _ _).map Phase3.Function.has_return =
      Phase3.return_flags (lines.take (st.current_line + 1))
    rw [hmap, ← hl, Phase3.take_succ_cur st ln hln, Phase3.return_flags_snoc, hl, ← hb]
    unfold Phase3.flag_step
    rw [hfd, if_pos hret]
    rfl
  · exact Phase3.modify_last_all
      (fun (f : Phase3.Function) => f.has_return = false →
        f.return_type = Phase3.VarType.TYPE_INT) _ _ hc
      (fun y _ hf => by cases hf)
  · show ((st.functions.modify _ _).map Phase3.Function.has_return).getLast? = some true
    rw [hmap]
    exact Phase3.mark_last_getLast _ hne2

/-- The write of `return_type` in the `Return:` branch, when the current function
has its `has_return` set. -/
theorem Phase3.flags_ok_return_type (lines : List Ast.ASTLine) (st : Phase3.State)
    (rt : Phase3.VarType) (h : Phase3.flags_ok lines st)
    (hlast : (st.functions.map Phase3.Function.has_return).getLast? = some true) :
    Phase3.flags_ok lines
      (Phase3.update_current_fn st (fun g => { g with return_type := rt })) := by
  obtain ⟨hl, ha, hb, hc⟩ := h
  have hne : st.functions ≠ [] := by
    intro e
    rw [e] at hlast
    cases hlast
  rw [if_neg hne] at ha
  have hupd : Phase3.update_current_fn st (fun g => { g with return_type := rt }) =
      { st with functions := (st.functions.modify (fun g => { g with return_type := rt })
          (st.functions.length - 1)) } := by
    unfold Phase3.update_current_fn
    rw [ha]
  rw [hupd]
  refine ⟨hl, ?_, ?_, ?_⟩
  · show st.current_function = (if st.functions.modify _ _ = [] then none
      else some ((st.functions.modify _ _).length - 1))
    rw [List.length_modify, ha]
    have : st.functions.modify (fun g => { g with return_type := rt })
        (st.functions.length - 1) ≠ [] := by
      intro e
      have := congrArg List.length e
      rw [List.length_modify] at this
      exact hne (List.length_eq_zero.1 this)
    rw [if_neg this]
  · show (st.functions.modify _ _).map Phase3.Function.has_return = _
    rw [Phase3.map_modify_same Phase3.Function.has_return
      (fun g => { g with return_type := rt }) (fun _ => rfl), hb]
  · refine Phase3.modify_last_all
      (fun (f : Phase3.Function) => f.has_return = false →
        f.return_type = Phase3.VarType.TYPE_INT) _ _ hc ?_
    intro y hy hf
    rw [List.getLast?_map, hy] at hlast
    injection hlast with hlast
    have hf2 : y.has_return = false := hf
    rw [hlast] at hf2
    cases hf2

/-! ### The invariant of the analyzer for the return flags -/

theorem Phase3.params_plain_at (lines : List Ast.ASTLine) (h : Phase3.params_plain lines = true) :
    ∀ i ln, lines.get? i = some ln → CStr.strncmp_eq ln.text "Parameters:" 11 = true →
      ∀ l ∈ (lines.drop (i + 1)).takeWhile (fun l => decide (l.indent > ln.indent)),
        Phase3.is_function_line l = false ∧ Phase3.is_return_line l = false := by
  induction lines with
  | nil => intro i ln hln; cases hln
  | cons a rest ih =>
    rw [Phase3.params_plain, Bool.and_eq_true] at h
    intro i ln hln hp l hl
    cases i with
    | zero =>
      have e : a = ln := by
        simp at hln
        exact hln
      subst e
      have h1 := h.1
      rw [if_pos hp, List.all_eq_true] at h1
      have := h1 l hl
      simp only [Bool.and_eq_true, Bool.not_eq_true'] at this
      exact this
    | succ j =>
      exact ih h.2 j ln (by simpa using hln) hp l hl

theorem Phase3.params_loop_count (ls : List Ast.ASTLine) : ∀ (e lineno : Nat)
    (scope : Option Phase3.Scope),
    Outcome.Sat (fun p => p.2 = (ls.takeWhile (fun l => decide (l.indent > e))).length)
      (Phase3.params_loop ls e lineno scope) := by
  induction ls with
  | nil =>
    intro e lineno scope
    rw [Phase3.params_loop]
    exact Outcome.sat_ok rfl
  | cons ln rest ih =>
    intro e lineno scope
    rw [Phase3.params_loop]
    split
    · rename_i hgt
      refine Outcome.sat_bind (Q := fun _ => True) (fun _ _ => trivial) ?_
      intro scope1 _
      refine Outcome.sat_bind (ih e (lineno + 1) scope1) ?_
      intro p hp
      obtain ⟨scope2, n⟩ := p
      refine Outcome.sat_ok ?_
      show n + 1 = _
      rw [List.takeWhile_cons, if_pos (decide_eq_true hgt), List.length_cons]
      exact congrArg (· + 1) hp
    · rename_i hgt
      refine Outcome.sat_ok ?_
      show 0 = _
      rw [List.takeWhile_cons, if_neg (by simpa using hgt)]
      rfl

theorem Phase3.follows_refl (st : Phase3.State) : Phase3.follows st st := ⟨le_refl _, rfl⟩

theorem Phase3.follows_trans {a b c : Phase3.State} (h1 : Phase3.follows a b)
    (h2 : Phase3.follows b c) : Phase3.follows a c :=
  ⟨le_trans h1.1 h2.1, h2.2.trans h1.2⟩

theorem Phase3.follows_advance (st : Phase3.State) : Phase3.follows st (Phase3.advance st) :=
  ⟨Nat.le_succ _, rfl⟩

theorem Phase3.follows_update (st : Phase3.State) (g : Phase3.Function → Phase3.Function) :
    Phase3.follows st (Phase3.update_current_fn st g) := by
  unfold Phase3.update_current_fn
  split
  · exact ⟨le_refl _, List.length_modify _ _ _⟩
  · exact Phase3.follows_refl st

/-- What a call one level down has done. -/
theorem Phase3.follows_sub (lines : List Ast.ASTLine) (e : Nat) (s : Phase3.State)
    (p : Phase3.VarType × Phase3.State) (hp : Phase3.flags_post lines (e + 1) s p) :
    Phase3.follows s p.2 := ⟨hp.2.1, hp.2.2 (Nat.succ_pos e)⟩

theorem Phase3.flags_post_of (lines : List Ast.ASTLine) (e : Nat) (st s : Phase3.State)
    (t : Phase3.VarType) (h : Phase3.flags_ok lines s) (hf : Phase3.follows st s) :
    Phase3.flags_post lines e st (t, s) := ⟨h, hf.1, fun _ => hf.2⟩

theorem Phase3.at_else_line (st : Phase3.State) (i : Nat) (h : Phase3.at_else st i = true) :
    ∃ l, Phase3.cur_line st = some l ∧ CStr.strncmp_eq l.text "Else:" 5 = true := by
  unfold Phase3.at_else at h
  split at h
  · rename_i l hl
    rw [Bool.and_eq_true] at h
    exact ⟨l, hl, h.2⟩
  · cases h

/-- The invariant of the analyzer at one amount of fuel, on lines whose
`FunctionDefinition:` lines have indent 0 and whose `Parameters:` lines are
followed by plain lines: a call that returns leaves records that agree with
the lines read. -/
theorem Phase3.analysis_keeps_flags (lines : List Ast.ASTLine)
    (H1 : Phase3.functions_at_top lines) (H2 : Phase3.params_plain lines = true) (f : Nat) :
    (∀ e st, Phase3.flags_ok lines st →
      Outcome.Sat (Phase3.flags_post lines e st) (Phase3.parse_node f e st)) ∧
    (∀ e st, Phase3.flags_ok lines st →
      Outcome.Sat (fun s => Phase3.flags_ok lines s ∧ Phase3.follows st s)
        (Phase3.children_loop f e st)) ∧
    (∀ e st, Phase3.flags_ok lines st →
      Outcome.Sat (fun s => Phase3.flags_ok lines s ∧ Phase3.follows st s)
        (Phase3.group_loop f e st)) := by
  induction f with
  | zero =>
    refine ⟨?_, ?_, ?_⟩
    · intro e st _; rw [Phase3.parse_node]; exact Outcome.sat_fuel
    · intro e st _; rw [Phase3.children_loop]; exact Outcome.sat_fuel
    · intro e st _; rw [Phase3.group_loop]; exact Outcome.sat_fuel
  | succ f ih =>
    obtain ⟨ih_node, ih_children, ih_group⟩ := ih
    -- an optional call one level down, keeping the state only
    have ih_sub : ∀ (e : Nat) (s : Phase3.State), Phase3.flags_ok lines s →
        Outcome.Sat (fun p => Phase3.flags_ok lines p.2 ∧ Phase3.follows s p.2)
          (Phase3.parse_node f (e + 1) s) := by
      intro e s hs
      refine Outcome.sat_mono ?_ (ih_node (e + 1) s hs)
      intro p hp
      exact ⟨hp.1, Phase3.follows_sub lines e s p hp⟩
    refine ⟨?_, ?_, ?_⟩
    · intro e st hst
      rw [Phase3.parse_node]
      split
      · exact Outcome.sat_ok (Phase3.flags_post_of lines e st st _ hst (Phase3.follows_refl st))
      rename_i ln hln
      by_cases hind : ln.indent ≠ e
      · rw [if_pos hind]
        exact Outcome.sat_ok (Phase3.flags_post_of lines e st st _ hst (Phase3.follows_refl st))
      rw [if_neg hind]
      dsimp only
      have hinde : ln.indent = e := not_not.1 hind
      by_cases h1 : CStr.strncmp_eq ln.text "FunctionDefinition:" 19 = true
      · -- FunctionDefinition:
        rw [if_pos h1]
        by_cases hfull : st.functions.length ≥ 128
        · rw [if_pos hfull]
          exact Outcome.sat_fail
        rw [if_neg hfull]
        have hI1 := Phase3.flags_ok_new_function lines st ln
          (CStr.strncpy 63 (String.mk (CStr.scan_word (Phase3.from_offset ln.text 19)))) hst hln h1
        refine Outcome.sat_bind (ih_sub _ _ hI1) ?_
        intro p hp
        refine Outcome.sat_bind (ih_sub _ _ hp.1) ?_
        intro q hq
        refine Outcome.sat_ok ⟨hq.1, ?_, ?_⟩
        · have a1 := hp.2.1
          have a2 := hq.2.1
          have a0 : st.current_line + 1 ≤ p.2.current_line := a1
          exact le_trans (Nat.le_succ _) (le_trans a0 a2)
        · intro hpos
          have hmem : ln ∈ lines := by
            rw [← hst.1]
            exact Phase3.cur_line_mem st ln hln
          have := H1 ln hmem h1
          omega
      rw [if_neg h1]
      have hfd : Phase3.is_function_line ln = false := Bool.eq_false_iff.2 h1
      have hadv : ∀ (_ : Phase3.is_return_line ln = false),
          Phase3.flags_ok lines (Phase3.advance st) := fun hr =>
        Phase3.flags_ok_advance lines st ln hst hln hfd hr
      have hfa := Phase3.follows_advance st
      by_cases h2 : CStr.strncmp_eq ln.text "Body:" 5 = true
      · -- Body:
        rw [if_pos h2]
        have hret := CStr.strncmp_eq_excl ln.text "Body:" "Return:" 5 7 1
          (by decide) (by decide) (by decide) h2
        refine Outcome.sat_bind (ih_children _ _ (hadv hret)) ?_
        intro s hs
        exact Outcome.sat_ok (Phase3.flags_post_of lines e st s _ hs.1
          (Phase3.follows_trans hfa hs.2))
      rw [if_neg h2]
      by_cases h3 : CStr.strncmp_eq ln.text "VarDecl:" 8 = true
      · -- VarDecl:
        rw [if_pos h3]
        have hret := CStr.strncmp_eq_excl ln.text "VarDecl:" "Return:" 8 7 1
          (by decide) (by decide) (by decide) h3
        refine Outcome.sat_bind
          (Q := fun s => Phase3.flags_ok lines s ∧ Phase3.follows st s ∧
            Phase3.cur_line s = some ln) ?_ ?_
        · split
          · split
            · refine Outcome.sat_bind (Q := fun _ => True) (fun _ _ => trivial) ?_
              intro sc1 _
              refine Outcome.sat_ok ⟨Phase3.flags_ok_update lines st _ hst
                (fun _ => ⟨rfl, rfl⟩), Phase3.follows_update st _, ?_⟩
              unfold Phase3.update_current_fn
              split
              · exact hln
              · exact hln
            · exact Outcome.sat_fail
          · refine Outcome.sat_bind (Q := fun _ => True) (fun _ _ => trivial) ?_
            intro sc1 _
            exact Outcome.sat_ok ⟨hst, Phase3.follows_refl st, hln⟩
        · intro st1 hst1
          have hI2 := Phase3.flags_ok_advance lines st1 ln hst1.1 hst1.2.2 hfd hret
          have hF2 := Phase3.follows_trans hst1.2.1 (Phase3.follows_advance st1)
          split
          · refine Outcome.sat_bind (ih_sub _ _ hI2) ?_
            intro p hp
            exact Outcome.sat_ok (Phase3.flags_post_of lines e st p.2 _ hp.1
              (Phase3.follows_trans hF2 hp.2))
          · exact Outcome.sat_ok (Phase3.flags_post_of lines e st _ _ hI2 hF2)
      rw [if_neg h3]
      by_cases h4 : CStr.strncmp_eq ln.text "Assign:" 7 = true
      · -- Assign:
        rw [if_pos h4]
        have hret := CStr.strncmp_eq_excl ln.text "Assign:" "Return:" 7 7 1
          (by decide) (by decide) (by decide) h4
        split
        · exact Outcome.sat_fail
        · split
          · exact Outcome.sat_fail
          · refine Outcome.sat_bind (ih_sub _ _ (hadv hret)) ?_
            intro p hp
            split
            · exact Outcome.sat_fail
            · exact Outcome.sat_ok (Phase3.flags_post_of lines e st p.2 _ hp.1
                (Phase3.follows_trans hfa hp.2))
      rw [if_neg h4]
      by_cases h5 : CStr.strncmp_eq ln.text "If:" 3 = true
      · -- If:
        rw [if_pos h5]
        have hret := CStr.strncmp_eq_excl ln.text "If:" "Return:" 3 7 1
          (by decide) (by decide) (by decide) h5
        refine Outcome.sat_bind (ih_sub _ _ (hadv hret)) ?_
        intro p hp
        have hFp := Phase3.follows_trans hfa hp.2
        split
        · exact Outcome.sat_fail
        · refine Outcome.sat_bind
            (Q := fun s => Phase3.flags_ok lines s ∧ Phase3.follows st s) ?_ ?_
          · split
            · refine Outcome.sat_bind (ih_sub _ _ hp.1) ?_
              intro q hq
              exact Outcome.sat_ok ⟨hq.1, Phase3.follows_trans hFp hq.2⟩
            · exact Outcome.sat_ok ⟨hp.1, hFp⟩
          · intro st2 hst2
            split
            · rename_i helse
              obtain ⟨l, hl, hle⟩ := Phase3.at_else_line st2 _ helse
              have hI3 := Phase3.flags_ok_advance lines st2 l hst2.1 hl
                (CStr.strncmp_eq_excl l.text "Else:" "FunctionDefinition:" 5 19 1
                  (by decide) (by decide) (by decide) hle)
                (CStr.strncmp_eq_excl l.text "Else:" "Return:" 5 7 1
                  (by decide) (by decide) (by decide) hle)
              have hF3 := Phase3.follows_trans hst2.2 (Phase3.follows_advance st2)
              split
              · refine Outcome.sat_bind (ih_sub _ _ hI3) ?_
                intro q hq
                exact Outcome.sat_ok (Phase3.flags_post_of lines e st q.2 _ hq.1
                  (Phase3.follows_trans hF3 hq.2))
              · exact Outcome.sat_ok (Phase3.flags_post_of lines e st _ _ hI3 hF3)
            · exact Outcome.sat_ok (Phase3.flags_post_of lines e st st2 _ hst2.1 hst2.2)
      rw [if_neg h5]
      by_cases h6 : CStr.strncmp_eq ln.text "Return:" 7 = true
      · -- Return:
        rw [if_pos h6]
        split
        · exact Outcome.sat_fail
        · rename_i fn0 hfn0
          obtain ⟨hI0, hlast0⟩ := Phase3.flags_ok_mark lines st ln fn0 hst hln hfd h6 hfn0
          have hF0 : Phase3.follows st (Phase3.advance (Phase3.update_current_fn st
              (fun g => { g with has_return := true }))) :=
            Phase3.follows_trans (Phase3.follows_update st _) (Phase3.follows_advance _)
          refine Outcome.sat_bind
            (Q := fun p => Phase3.flags_ok lines p.2 ∧ Phase3.follows st p.2 ∧
              (p.2.functions.map Phase3.Function.has_return).getLast? = some true) ?_ ?_
          · split
            · refine Outcome.sat_mono ?_ (ih_sub _ _ hI0)
              intro p hp
              refine ⟨hp.1, Phase3.follows_trans hF0 hp.2, ?_⟩
              -- the flag of the last function is still set
              have hb1 := hp.1.2.2.1
              have hb0 := hI0.2.2.1
              have hc : (Phase3.advance (Phase3.update_current_fn st
                  (fun g => { g with has_return := true }))).current_line ≤
                  p.2.current_line := hp.2.1
              obtain ⟨k, hk⟩ : ∃ k, p.2.current_line =
                  (Phase3.advance (Phase3.update_current_fn st
                    (fun g => { g with has_return := true }))).current_line + k :=
                ⟨_, (Nat.add_sub_cancel' hc).symm⟩
              rw [hk, List.take_add] at hb1
              unfold Phase3.return_flags at hb1 hb0
              rw [List.foldl_append, ← hb0] at hb1
              rw [hb1]
              refine Phase3.foldl_flags_last _ _ hlast0 ?_
              rw [← hb1, List.length_map, List.length_map]
              exact hp.2.2
            · exact Outcome.sat_ok ⟨hI0, hF0, hlast0⟩
          · intro p hp
            obtain ⟨rt, st1⟩ := p
            obtain ⟨hI1, hF1, hlast1⟩ := hp
            split
            · exact Outcome.sat_fail
            · rename_i fn hfn
              have hst2 : Phase3.flags_ok lines
                  (if fn.return_type = Phase3.VarType.TYPE_INT ∧ fn.name ≠ "main" then
                    Phase3.update_current_fn st1 (fun g => { g with return_type := rt })
                   else st1) ∧
                  Phase3.follows st
                  (if fn.return_type = Phase3.VarType.TYPE_INT ∧ fn.name ≠ "main" then
                    Phase3.update_current_fn st1 (fun g => { g with return_type := rt })
                   else st1) := by
                split
                · exact ⟨Phase3.flags_ok_return_type lines st1 rt hI1 hlast1,
                    Phase3.follows_trans hF1 (Phase3.follows_update st1 _)⟩
                · exact ⟨hI1, hF1⟩
              split
              · exact Outcome.sat_fail
              · split
                · exact Outcome.sat_fail
                · exact Outcome.sat_ok (Phase3.flags_post_of lines e st _ _ hst2.1 hst2.2)
      rw [if_neg h6]
      have hret : Phase3.is_return_line ln = false := Bool.eq_false_iff.2 h6
      have hI := hadv hret
      by_cases h7 : CStr.strncmp_eq ln.text "For:" 4 = true
      · -- For:
        rw [if_pos h7]
        refine Outcome.sat_bind (ih_sub _ _ hI) ?_
        intro p hp
        have hFp := Phase3.follows_trans hfa hp.2
        refine Outcome.sat_bind (ih_sub _ _ hp.1) ?_
        intro q hq
        have hFq := Phase3.follows_trans hFp hq.2
        split
        · exact Outcome.sat_fail
        · refine Outcome.sat_bind (ih_sub _ _ hq.1) ?_
          intro r hr
          have hFr := Phase3.follows_trans hFq hr.2
          split
          · refine Outcome.sat_bind (ih_sub _ _ hr.1) ?_
            intro s hs
            exact Outcome.sat_ok (Phase3.flags_post_of lines e st s.2 _ hs.1
              (Phase3.follows_trans hFr hs.2))
          · exact Outcome.sat_ok (Phase3.flags_post_of lines e st r.2 _ hr.1 hFr)
      rw [if_neg h7]
      by_cases h8 : CStr.strncmp_eq ln.text "While:" 6 = true
      · -- While:
        rw [if_pos h8]
        refine Outcome.sat_bind (ih_sub _ _ hI) ?_
        intro p hp
        have hFp := Phase3.follows_trans hfa hp.2
        split
        · exact Outcome.sat_fail
        · split
          · refine Outcome.sat_bind (ih_sub _ _ hp.1) ?_
            intro q hq
            exact Outcome.sat_ok (Phase3.flags_post_of lines e st q.2 _ hq.1
              (Phase3.follows_trans hFp hq.2))
          · exact Outcome.sat_ok (Phase3.flags_post_of lines e st p.2 _ hp.1 hFp)
      rw [if_neg h8]
      by_cases h9 : CStr.strncmp_eq ln.text "BinOp(" 6 = true
      · -- BinOp(
        rw [if_pos h9]
        refine Outcome.sat_bind (ih_sub _ _ hI) ?_
        intro p hp
        have hFp := Phase3.follows_trans hfa hp.2
        refine Outcome.sat_bind (ih_sub _ _ hp.1) ?_
        intro q hq
        have hFq := Phase3.follows_trans hFp hq.2
        split
        · exact Outcome.sat_fail
        · split
          · exact Outcome.sat_ok (Phase3.flags_post_of lines e st q.2 _ hq.1 hFq)
          · exact Outcome.sat_ok (Phase3.flags_post_of lines e st q.2 _ hq.1 hFq)
      rw [if_neg h9]
      by_cases h10 : CStr.strncmp_eq ln.text "Number(" 7 = true
      · rw [if_pos h10]
        exact Outcome.sat_ok (Phase3.flags_post_of lines e st _ _ hI hfa)
      rw [if_neg h10]
      by_cases h11 : CStr.strncmp_eq ln.text "Var(" 4 = true
      · -- Var(
        rw [if_pos h11]
        split
        · exact Outcome.sat_fail
        · split
          · exact Outcome.sat_fail
          · exact Outcome.sat_ok (Phase3.flags_post_of lines e st _ _ hI hfa)
      rw [if_neg h11]
      by_cases h12 : CStr.strncmp_eq ln.text "Cast(" 5 = true
      · -- Cast(
        rw [if_pos h12]
        refine Outcome.sat_bind (ih_sub _ _ hI) ?_
        intro p hp
        exact Outcome.sat_ok (Phase3.flags_post_of lines e st p.2 _ hp.1
          (Phase3.follows_trans hfa hp.2))
      rw [if_neg h12]
      by_cases h13 : CStr.strncmp_eq ln.text "Parameters:" 11 = true
      · -- Parameters:
        rw [if_pos h13]
        refine Outcome.sat_bind (Phase3.params_loop_count _ _ _ _) ?_
        intro p hp
        obtain ⟨scope1, n⟩ := p
        have hn : n = (((Phase3.advance st).lines.drop (Phase3.advance st).current_line).takeWhile
            (fun l => decide (l.indent > e))).length := hp
        have hplain : ∀ l ∈ (lines.drop (st.current_line + 1)).take n,
            Phase3.is_function_line l = false ∧ Phase3.is_return_line l = false := by
          intro l hl
          have hlines : (Phase3.advance st).lines = lines := hst.1
          rw [hn, hlines] at hl
          have hl2 : l ∈ (lines.drop (st.current_line + 1)).takeWhile
              (fun l => decide (l.indent > e)) := by
            have := Phase4.take_length_takeWhile (fun (l : Ast.ASTLine) => decide (l.indent > e))
              (lines.drop (st.current_line + 1))
            rw [← this]
            exact hl
          have hget : lines.get? st.current_line = some ln := by
            rw [← hst.1]
            exact hln
          rw [← hinde] at hl2
          exact Phase3.params_plain_at lines H2 st.current_line ln hget h13 l hl2
        have hupd : ∀ s : Phase3.State, Phase3.flags_ok lines s → Phase3.follows st s →
            s.current_line = st.current_line + 1 →
            Phase3.flags_post lines e st
              (Phase3.VarType.TYPE_VOID, { s with current_line := s.current_line + n }) := by
          intro s hs hf hc
          refine Phase3.flags_post_of lines e st _ _ ?_ ⟨?_, hf.2⟩
          · refine Phase3.flags_ok_skip lines s n hs ?_
            rw [hc]
            exact hplain
          · show st.current_line ≤ s.current_line + n
            omega
        cases scope1 with
        | none => exact Outcome.sat_ok (hupd _ hI hfa rfl)
        | some sc =>
          refine Outcome.sat_ok (hupd _
            (Phase3.flags_ok_update lines _ _ hI (fun _ => ⟨rfl, rfl⟩))
            (Phase3.follows_trans hfa (Phase3.follows_update _ _)) ?_)
          show (Phase3.update_current_fn (Phase3.advance st) _).current_line = _
          unfold Phase3.update_current_fn
          split <;> rfl
      rw [if_neg h13]
      by_cases h14 : CStr.strncmp_eq ln.text "VarDeclGroup:" 13 = true
      · -- VarDeclGroup:
        rw [if_pos h14]
        refine Outcome.sat_bind (ih_group _ _ hI) ?_
        intro s hs
        exact Outcome.sat_ok (Phase3.flags_post_of lines e st s _ hs.1
          (Phase3.follows_trans hfa hs.2))
      rw [if_neg h14]
      split
      · refine Outcome.sat_bind (ih_children _ _ hI) ?_
        intro s hs
        exact Outcome.sat_ok (Phase3.flags_post_of lines e st s _ hs.1
          (Phase3.follows_trans hfa hs.2))
      · exact Outcome.sat_ok (Phase3.flags_post_of lines e st _ _ hI hfa)
    · intro e st hst
      rw [Phase3.children_loop]
      split
      · exact Outcome.sat_ok ⟨hst, Phase3.follows_refl st⟩
      · split
        · refine Outcome.sat_bind (ih_sub _ _ hst) ?_
          intro p hp
          refine Outcome.sat_mono ?_ (ih_children _ _ hp.1)
          intro s hs
          exact ⟨hs.1, Phase3.follows_trans hp.2 hs.2⟩
        · exact Outcome.sat_ok ⟨hst, Phase3.follows_refl st⟩
    · intro e st hst
      rw [Phase3.group_loop]
      split
      · exact Outcome.sat_ok ⟨hst, Phase3.follows_refl st⟩
      · split
        · refine Outcome.sat_bind (ih_sub _ _ hst) ?_
          intro p hp
          refine Outcome.sat_mono ?_ (ih_group _ _ hp.1)
          intro s hs
          exact ⟨hs.1, Phase3.follows_trans hp.2 hs.2⟩
        · exact Outcome.sat_ok ⟨hst, Phase3.follows_refl st⟩

/-- The loop of the analyzer's `main` keeps the records in agreement with the lines
read; when it returns the cursor is past the last line. -/
theorem Phase3.analyzer_loop_keeps_flags (lines : List Ast.ASTLine)
    (H1 : Phase3.functions_at_top lines) (H2 : Phase3.params_plain lines = true) (f : Nat) :
    ∀ st, Phase3.flags_ok lines st →
      Outcome.Sat (fun s => Phase3.flags_ok lines s ∧ Phase3.cur_line s = none)
        (Phase3.main_loop f st) := by
  induction f with
  | zero => intro st _; rw [Phase3.main_loop]; exact Outcome.sat_fuel
  | succ f ih =>
    intro st hst
    rw [Phase3.main_loop]
    split
    · rename_i h
      exact Outcome.sat_ok ⟨hst, h⟩
    · refine Outcome.sat_bind ((Phase3.analysis_keeps_flags lines H1 H2 f).1 0 st hst) ?_
      intro p hp
      exact ih _ hp.1

/-- At the end of the analyzer's loop the `has_return` fields are the flags of the
regions. -/
theorem Phase3.final_flags (lines : List Ast.ASTLine) (H1 : Phase3.functions_at_top lines)
    (H2 : Phase3.params_plain lines = true) (fuel : Nat) (st : Phase3.State)
    (hrun : Phase3.main_loop fuel (Phase3.initial_state lines) = .ok st) :
    st.functions.map Phase3.Function.has_return =
      (Phase3.function_regions lines).map (fun r => r.any Phase3.is_return_line) ∧
    ∀ fn ∈ st.functions, fn.has_return = false →
      fn.return_type = Phase3.VarType.TYPE_INT := by
  have h0 : Phase3.flags_ok lines (Phase3.initial_state lines) :=
    ⟨rfl, rfl, rfl, fun fn hfn => absurd hfn (List.not_mem_nil _)⟩
  obtain ⟨⟨hl, _, hb, hc⟩, hn⟩ :=
    Phase3.analyzer_loop_keeps_flags lines H1 H2 fuel _ h0 st hrun
  refine ⟨?_, hc⟩
  have hlen : lines.length ≤ st.current_line := by
    unfold Phase3.cur_line at hn
    rw [hl] at hn
    exact List.get?_eq_none.1 hn
  rw [hb, List.take_of_length_le hlen, Phase3.return_flags_regions]

/-- The check at the end of `main`, on an AST whose `FunctionDefinition:` lines
have indent 0 and whose `Parameters:` lines are followed by plain lines, when
the analyzer's loop over the lines returns: if the region of some function
(the lines from its `FunctionDefinition:` line to the next one) has no
`Return:` line, `main` ends with "function '<name>' missing return" for one of
the functions; if the region of every function has a `Return:` line, `main`
ends with success. -/
theorem Phase3.missing_return_verdict (fuel : Nat) (file : String) (st : Phase3.State)
    (H1 : Phase3.functions_at_top (Ast.load_ast file))
    (H2 : Phase3.params_plain (Ast.load_ast file) = true)
    (hrun : Phase3.main_loop fuel (Phase3.initial_state (Ast.load_ast file)) = .ok st) :
    ((∃ r ∈ Phase3.function_regions (Ast.load_ast file),
        r.any Phase3.is_return_line = false) →
      ∃ fn ∈ st.functions,
        Phase3.main fuel file = .fail none ("function '" ++ fn.name ++ "' missing return")) ∧
    ((∀ r ∈ Phase3.function_regions (Ast.load_ast file),
        r.any Phase3.is_return_line = true) →
      Phase3.main fuel file = .ok ()) := by
  obtain ⟨hflags, hc⟩ := Phase3.final_flags (Ast.load_ast file) H1 H2 fuel st hrun
  have hmain : Phase3.main fuel file =
      (match Phase3.missing_return st.functions with
       | some fn => .fail none ("function '" ++ fn.name ++ "' missing return")
       | none => .ok ()) := by
    unfold Phase3.main
    rw [hrun]
    rfl
  constructor
  · rintro ⟨r, hr, hany⟩
    have hmem : false ∈ st.functions.map Phase3.Function.has_return := by
      rw [hflags]
      exact List.mem_map.2 ⟨r, hr, hany⟩
    obtain ⟨fn, hfn, hfalse⟩ := List.mem_map.1 hmem
    cases hm : Phase3.missing_return st.functions with
    | none =>
      unfold Phase3.missing_return at hm
      have := List.find?_eq_none.1 hm fn hfn
      rw [hfalse, hc fn hfn hfalse] at this
      exact absurd (by decide) this
    | some fn2 =>
      refine ⟨fn2, ?_, ?_⟩
      · unfold Phase3.missing_return at hm
        exact List.mem_of_find?_eq_some hm
      · rw [hmain, hm]
  · intro hall
    have hm : Phase3.missing_return st.functions = none := by
      unfold Phase3.missing_return
      rw [List.find?_eq_none]
      intro fn hfn
      have hmem : fn.has_return ∈ st.functions.map Phase3.Function.has_return :=
        List.mem_map.2 ⟨fn, hfn, rfl⟩
      rw [hflags] at hmem
      obtain ⟨r, hr, hany⟩ := List.mem_map.1 hmem
      rw [hall r hr] at hany
      rw [← hany]
      simp
    rw [hmain, hm]

theorem Phase3.missing_return_verdict_example :
    (∃ fn ∈ state_no_return.functions,
      Phase3.main 20 ast_no_return =
        .fail none ("function '" ++ fn.name ++ "' missing return")) ∧
    Phase3.main 20 ast_two_returns = .ok () :=
  ⟨(Phase3.missing_return_verdict 20 ast_no_return state_no_return (by decide) (by decide)
      (by decide)).1
      ⟨[⟨1, "Parameters:"⟩, ⟨1, "Body:"⟩, ⟨2, "VarDeclGroup:"⟩, ⟨3, "VarDecl: int a"⟩],
        by decide, by decide⟩,
   (Phase3.missing_return_verdict 20 ast_two_returns state_two_returns (by decide) (by decide)
      (by decide)).2 (by decide)⟩

/-! ### Declarations with an initializer in the generator -/

/-- C31: on a `VarDeclGroup:` line the generator moves the cursor past the line
and every deeper line that follows and writes nothing, so the initializer of a
declaration inside a group is neither lowered nor assigned; on a `VarDecl:`
line with a deeper line below it the initializer is lowered and no assignment
is written.  For `int main() { int x = 10; return x + 1; }` the parser writes
`VarDeclGroup:` / `VarDecl: int x =` / `Number(10)` and the TAC has no line
`x = 10`, while `int x; x = 10;` gives that line; the product of
`int x = 2 * 3;` is not computed either. -/
theorem C31_initializer_not_assigned :
    (∀ (f indent : Nat) (st : Phase4.State) (ln : Ast.ASTLine),
      Phase4.cur_line st = some ln → indent ≤ ln.indent →
      CStr.strncmp_eq ln.text "VarDeclGroup:" 13 = true →
      ∃ st2, Phase4.gen_node (f + 1) indent st = .ok (none, st2) ∧ st2.out = st.out ∧
        st2.temp_counter = st.temp_counter ∧
        st2.current_line = st.current_line + 1 +
          ((st.lines.drop (st.current_line + 1)).takeWhile
            (fun l => decide (l.indent > indent))).length) ∧
    parser_main 100 tokens_decl_with_init =
      .ok ("FunctionDefinition: main\n    Parameters:\n    Body:\n" ++
           "        VarDeclGroup:\n            VarDecl: int x =\n" ++
           "                Number(10)\n" ++
           "        Return:\n            BinOp(+)\n                Var(x)\n" ++
           "                Number(1)\n") ∧
    tac_of_tokens 100 tokens_decl_with_init =
      .ok "func main:\nt0 = x + 1\nreturn t0\nendfunc\n\n" ∧
    tac_of_tokens 100 tokens_decl_then_assign =
      .ok "func main:\nx = 10\nt0 = x + 1\nreturn t0\nendfunc\n\n" ∧
    tac_of_tokens 100 tokens_decl_with_product =
      .ok "func main:\nt0 = x + 1\nreturn t0\nendfunc\n\n" ∧
    Phase4.gen_node 4 0 (generator_state (lines_decl_group.drop 1) 0 0 "") =
      .ok (none, generator_state (lines_decl_group.drop 1) 4 1 "t0 = 2 * 3\n") := by
  refine ⟨?_, by decide, by decide, by decide, by decide, by decide⟩
  intro f indent st ln hln hind hg
  have h1 := CStr.strncmp_eq_excl ln.text "VarDeclGroup:" "FunctionDefinition:" 13 19 1
    (by decide) (by decide) (by decide) hg
  have h2 : ¬ ln.text = "Body:" := by
    intro h
    rw [h] at hg
    exact absurd hg (by decide)
  have hrun : Phase4.gen_node (f + 1) indent st =
      .ok (none, { Phase4.advance st with
        current_line := st.current_line + 1 +
          ((st.lines.drop (st.current_line + 1)).takeWhile
            (fun l => decide (l.indent > indent))).length }) := by
    rw [Phase4.gen_node]
    simp only [hln]
    rw [if_neg (by omega), if_neg (by rw [h1]; decide), if_neg h2, if_pos hg]
    rfl
  exact ⟨_, hrun, rfl, rfl, rfl⟩

theorem C31_initializer_not_assigned_witness :
    ∃ st2, Phase4.gen_node 1 0 (generator_state lines_decl_group 0 0 "") = .ok (none, st2) ∧
      st2.out = "" ∧ st2.temp_counter = 0 ∧ st2.current_line = 0 + 1 + 4 :=
  C31_initializer_not_assigned.1 0 0 (generator_state lines_decl_group 0 0 "")
    ⟨0, "VarDeclGroup:"⟩ (by decide) (by decide) (by decide)

/-! ### Casts, array parameters and `for` without initializer -/

/-- C33, the code at `(void) x`: the three tokens `(`, `void`, `)` do not open a
cast; the `(` opens a parenthesised expression, and `void` cannot start one, so
`parse_factor` aborts with a syntax error. -/
theorem C33_void_is_not_a_cast :
    is_cast_start tokens_void_cast = false ∧
    parse_factor 100 tokens_void_cast = .fail (some 1) "unexpected token 'void' in factor" :=
  ⟨by decide, rfl⟩

/-- C33 as the code has it: a cast is recognized exactly when the next three
tokens are `(`, the keyword `int` or `float`, and `)`.  In that case, when
`parse_factor` reads the factor that follows as `e`, the result is the node
`Cast(<type>)` with `e` as its only child.  In every other case a leading `(`
is followed by an expression and `)`, and the result is the node of that
expression itself. -/
theorem C33_cast_recognition (f : Nat) (t : Token) (toks : Cursor) :
    (is_cast_start (t :: toks) = true ↔
      ∃ t1 t2 rest, toks = t1 :: t2 :: rest ∧
        (t.type = TOK_PUNCTUATION ∧ t.lexeme = "(") ∧
        (t1.type = TOK_KEYWORD ∧ (t1.lexeme = "int" ∨ t1.lexeme = "float")) ∧
        (t2.type = TOK_PUNCTUATION ∧ t2.lexeme = ")")) ∧
    (∀ t1 t2 rest e r, toks = t1 :: t2 :: rest → is_cast_start (t :: toks) = true →
      parse_factor f rest = .ok (e, r) →
      parse_factor (f + 1) (t :: toks) =
        .ok (.mk NODE_BINOP ("Cast(" ++ t1.lexeme ++ ")") [e], r)) ∧
    (∀ e r1 r2, is_cast_start (t :: toks) = false → t.is TOK_PUNCTUATION "(" = true →
      parse_logical_or f toks = .ok (e, r1) →
      expect_token TOK_PUNCTUATION ")" r1 = .ok r2 →
      parse_factor (f + 1) (t :: toks) = .ok (e, r2)) := by
  refine ⟨?_, ?_, ?_⟩
  · constructor
    · intro h
      match toks, h with
      | t1 :: t2 :: rest, h =>
        simp only [is_cast_start, Token.is, Bool.and_eq_true, Bool.or_eq_true,
          decide_eq_true_eq] at h
        refine ⟨t1, t2, rest, rfl, h.1.1, ?_, h.2⟩
        rcases h.1.2 with h1 | h1
        · exact ⟨h1.1, Or.inl h1.2⟩
        · exact ⟨h1.1, Or.inr h1.2⟩
      | [], h => simp [is_cast_start] at h
      | [_], h => simp [is_cast_start] at h
    · rintro ⟨t1, t2, rest, rfl, h0, ⟨h1, h1l⟩, h2⟩
      simp only [is_cast_start, Token.is, Bool.and_eq_true, Bool.or_eq_true, decide_eq_true_eq]
      refine ⟨⟨h0, ?_⟩, h2⟩
      rcases h1l with h | h
      · exact Or.inl ⟨h1, h⟩
      · exact Or.inr ⟨h1, h⟩
  · intro t1 t2 rest e r htoks hc he
    subst htoks
    have hc2 := hc
    simp only [is_cast_start, Token.is, Bool.and_eq_true, Bool.or_eq_true,
      decide_eq_true_eq] at hc2
    have h2 : expect_token TOK_PUNCTUATION ")" (t2 :: rest) = .ok rest := by
      simp only [expect_token, Token.is, hc2.2.1, hc2.2.2, decide_True, Bool.and_self, if_true]
    have htxt : CStr.strncpy 63 ("Cast(" ++ t1.lexeme ++ ")") = "Cast(" ++ t1.lexeme ++ ")" := by
      rcases hc2.1.2 with h | h
      · rw [h.2]; decide
      · rw [h.2]; decide
    rw [parse_factor, if_pos hc]
    simp only [h2, he, Outcome.ok_bind, ast_new_node, node_list_append, htxt, List.nil_append]
  · intro e r1 r2 hc hp he hx
    rw [parse_factor.eq_def]
    dsimp only
    rw [if_neg (by rw [hc]; decide), if_pos hp]
    simp only [he, hx, Outcome.ok_bind]

theorem C33_cast_recognition_witness :
    parse_factor 3 tokens_int_cast =
      .ok (.mk NODE_BINOP ("Cast(" ++ "int" ++ ")") [.mk NODE_VAR "x" []], [punct ";"]) ∧
    parse_factor 20 tokens_parenthesised =
      .ok (.mk NODE_BINOP "BinOp(+)" [.mk NODE_VAR "x" [], .mk NODE_NUMBER "1" []],
           [punct ";"]) :=
  ⟨(C33_cast_recognition 2 (punct "(") [kw "int", punct ")", ident "x", punct ";"]).2.1
      (kw "int") (punct ")") [ident "x", punct ";"] (.mk NODE_VAR "x" []) [punct ";"]
      rfl (by decide) rfl,
   (C33_cast_recognition 19 (punct "(")
      [ident "x", op "+", int_lit "1", punct ")", punct ";"]).2.2
      (.mk NODE_BINOP "BinOp(+)" [.mk NODE_VAR "x" [], .mk NODE_NUMBER "1" []])
      [punct ")", punct ";"] [punct ";"] (by decide) (by decide) rfl (by decide)⟩

/-- C34, the code at `int f(int a[]) { int x; x = a + 1; return x; }`: the parser
writes the line `Param: int a[]`, the analyzer reads the second word of the
line as the name and adds the symbol `a[]`, and the use of `a` in the body
aborts with "Use of undeclared 'a'".  With the plain parameter `int a` the same
function is accepted. -/
theorem C34_array_parameter_keeps_brackets :
    parser_main 100 tokens_array_param =
      .ok ("FunctionDefinition: f\n    Parameters:\n        Param: int a[]\n    Body:\n" ++
           "        VarDeclGroup:\n            VarDecl: int x\n" ++
           "        Assign: x =\n            BinOp(+)\n                Var(a)\n" ++
           "                Number(1)\n        Return: x\n") ∧
    Phase3.param_symbol 6 ⟨2, "Param: int a[]"⟩ 2 (some []) =
      .ok (some [⟨"a[]", .TYPE_INT⟩]) ∧
    Phase3.lookup_symbol [⟨"a[]", .TYPE_INT⟩] "a" = .TYPE_UNKNOWN ∧
    verdict_of_tokens 100 100 tokens_array_param = .fail (some 0) "Use of undeclared 'a'" ∧
    Phase3.param_symbol 6 ⟨2, "Param: int a"⟩ 2 (some []) = .ok (some [⟨"a", .TYPE_INT⟩]) ∧
    verdict_of_tokens 100 100 tokens_plain_param = .ok () := by
  decide

/-- C36, the code at
`int f() { int i; for (; i < 10; i = i + 1) { i = i; } return i; }`: the parser
writes `For:` with the three children condition, step and body; the analyzer
reads the first child as the initializer and the second, the assignment of the
step, as the condition, and aborts with "Condition of 'for' must be boolean".
With the initializer `i = 0` the same loop is accepted. -/
theorem C36_for_without_initializer_rejected :
    parser_main 100 tokens_for_without_init =
      .ok ("FunctionDefinition: f\n    Parameters:\n    Body:\n" ++
           "        VarDeclGroup:\n            VarDecl: int i\n" ++
           "        For:\n            BinOp(<)\n                Var(i)\n" ++
           "                Number(10)\n            Assign: i =\n" ++
           "                BinOp(+)\n                    Var(i)\n" ++
           "                    Number(1)\n            Body:\n" ++
           "                Assign: i =\n                    Var(i)\n" ++
           "        Return: i\n") ∧
    verdict_of_tokens 100 100 tokens_for_without_init =
      .fail (some 13) "Condition of 'for' must be boolean" ∧
    verdict_of_tokens 100 100 tokens_for_with_init = .ok () := by
  decide

/-! ### The analyzer's current function -/

/-- A property of the analyzer's state that is kept by the four ways the analysis
changes the state (a new function record, a write through `current_function`, a
move of the cursor, a new global scope) is kept by every call of `parse_node`
and of its loops that returns. -/
theorem Phase3.analysis_keeps (I : Phase3.State → Prop)
    (h_fn : ∀ (st : Phase3.State) (fn : Phase3.Function), I st →
      I { st with functions := st.functions ++ [fn],
                  current_function := some st.functions.length,
                  current_line := st.current_line + 1 })
    (h_upd : ∀ st g, I st → I (Phase3.update_current_fn st g))
    (h_cur : ∀ (st : Phase3.State) (n : Nat), I st → I { st with current_line := n })
    (h_glob : ∀ (st : Phase3.State) (sc : Phase3.Scope), I st → I { st with global_scope := sc })
    (f : Nat) :
    (∀ e st, I st → Outcome.Sat (fun p => I p.2) (Phase3.parse_node f e st)) ∧
    (∀ e st, I st → Outcome.Sat I (Phase3.children_loop f e st)) ∧
    (∀ e st, I st → Outcome.Sat I (Phase3.group_loop f e st)) := by
  induction f with
  | zero =>
    refine ⟨?_, ?_, ?_⟩
    · intro e st _; rw [Phase3.parse_node]; exact Outcome.sat_fuel
    · intro e st _; rw [Phase3.children_loop]; exact Outcome.sat_fuel
    · intro e st _; rw [Phase3.group_loop]; exact Outcome.sat_fuel
  | succ f ih =>
    obtain ⟨ih_node, ih_children, ih_group⟩ := ih
    have h_adv : ∀ st, I st → I (Phase3.advance st) := fun st h => h_cur st _ h
    have ih_snd : ∀ e st, I st →
        Outcome.Sat I (Phase3.parse_node f e st >>= fun p => (.ok p.2 : Outcome Phase3.State)) := by
      intro e st h
      refine Outcome.sat_bind (ih_node e st h) ?_
      intro p hp
      exact Outcome.sat_ok hp
    refine ⟨?_, ?_, ?_⟩
    · intro e st hst
      rw [Phase3.parse_node]
      split
      · exact Outcome.sat_ok hst
      rename_i ln hln
      by_cases hind : ln.indent ≠ e
      · rw [if_pos hind]
        exact Outcome.sat_ok hst
      rw [if_neg hind]
      dsimp only
      by_cases h1 : CStr.strncmp_eq ln.text "FunctionDefinition:" 19 = true
      · rw [if_pos h1]
        by_cases hfull : st.functions.length ≥ 128
        · rw [if_pos hfull]
          exact Outcome.sat_fail
        rw [if_neg hfull]
        refine Outcome.sat_bind (ih_node _ _ (h_fn st _ hst)) ?_
        intro p hp
        refine Outcome.sat_bind (ih_node _ _ hp) ?_
        intro q hq
        exact Outcome.sat_ok hq
      rw [if_neg h1]
      by_cases h2 : CStr.strncmp_eq ln.text "Body:" 5 = true
      · rw [if_pos h2]
        refine Outcome.sat_bind (ih_children _ _ (h_adv st hst)) ?_
        intro s hs
        exact Outcome.sat_ok hs
      rw [if_neg h2]
      by_cases h3 : CStr.strncmp_eq ln.text "VarDecl:" 8 = true
      · rw [if_pos h3]
        refine Outcome.sat_bind (Q := I) ?_ ?_
        · split
          · split
            · refine Outcome.sat_bind (Q := fun _ => True) (fun _ _ => trivial) ?_
              intro sc1 _
              exact Outcome.sat_ok (h_upd st _ hst)
            · exact Outcome.sat_fail
          · refine Outcome.sat_bind (Q := fun _ => True) (fun _ _ => trivial) ?_
            intro sc1 _
            exact Outcome.sat_ok (h_glob st sc1 hst)
        · intro st1 hst1
          split
          · refine Outcome.sat_bind (ih_node _ _ (h_adv st1 hst1)) ?_
            intro p hp
            exact Outcome.sat_ok hp
          · exact Outcome.sat_ok (h_adv st1 hst1)
      rw [if_neg h3]
      by_cases h4 : CStr.strncmp_eq ln.text "Assign:" 7 = true
      · rw [if_pos h4]
        split
        · exact Outcome.sat_fail
        · split
          · exact Outcome.sat_fail
          · refine Outcome.sat_bind (ih_node _ _ (h_adv st hst)) ?_
            intro p hp
            split
            · exact Outcome.sat_fail
            · exact Outcome.sat_ok hp
      rw [if_neg h4]
      by_cases h5 : CStr.strncmp_eq ln.text "If:" 3 = true
      · rw [if_pos h5]
        refine Outcome.sat_bind (ih_node _ _ (h_adv st hst)) ?_
        intro p hp
        split
        · exact Outcome.sat_fail
        · refine Outcome.sat_bind (Q := I) ?_ ?_
          · split
            · exact ih_snd _ _ hp
            · exact Outcome.sat_ok hp
          · intro st2 hst2
            split
            · split
              · refine Outcome.sat_bind (ih_node _ _ (h_adv st2 hst2)) ?_
                intro q hq
                exact Outcome.sat_ok hq
              · exact Outcome.sat_ok (h_adv st2 hst2)
            · exact Outcome.sat_ok hst2
      rw [if_neg h5]
      by_cases h6 : CStr.strncmp_eq ln.text "Return:" 7 = true
      · rw [if_pos h6]
        split
        · exact Outcome.sat_fail
        · have hst0 := h_upd st (fun g => { g with has_return := true }) hst
          refine Outcome.sat_bind (Q := fun p => I p.2) ?_ ?_
          · split
            · exact ih_node _ _ (h_adv _ hst0)
            · exact Outcome.sat_ok (h_adv _ hst0)
          · intro p hp
            obtain ⟨rt, st1⟩ := p
            split
            · exact Outcome.sat_fail
            · rename_i fn hfn
              have hst2 : I
                  (if fn.return_type = Phase3.VarType.TYPE_INT ∧ fn.name ≠ "main" then
                    Phase3.update_current_fn st1 (fun g => { g with return_type := rt })
                   else st1) := by
                split
                · exact h_upd st1 _ hp
                · exact hp
              split
              · exact Outcome.sat_fail
              · split
                · exact Outcome.sat_fail
                · exact Outcome.sat_ok hst2
      rw [if_neg h6]
      by_cases h7 : CStr.strncmp_eq ln.text "For:" 4 = true
      · rw [if_pos h7]
        refine Outcome.sat_bind (ih_node _ _ (h_adv st hst)) ?_
        intro p hp
        refine Outcome.sat_bind (ih_node _ _ hp) ?_
        intro q hq
        split
        · exact Outcome.sat_fail
        · refine Outcome.sat_bind (ih_node _ _ hq) ?_
          intro r hr
          split
          · refine Outcome.sat_bind (ih_node _ _ hr) ?_
            intro s hs
            exact Outcome.sat_ok hs
          · exact Outcome.sat_ok hr
      rw [if_neg h7]
      by_cases h8 : CStr.strncmp_eq ln.text "While:" 6 = true
      · rw [if_pos h8]
        refine Outcome.sat_bind (ih_node _ _ (h_adv st hst)) ?_
        intro p hp
        split
        · exact Outcome.sat_fail
        · split
          · refine Outcome.sat_bind (ih_node _ _ hp) ?_
            intro q hq
            exact Outcome.sat_ok hq
          · exact Outcome.sat_ok hp
      rw [if_neg h8]
      by_cases h9 : CStr.strncmp_eq ln.text "BinOp(" 6 = true
      · rw [if_pos h9]
        refine Outcome.sat_bind (ih_node _ _ (h_adv st hst)) ?_
        intro p hp
        refine Outcome.sat_bind (ih_node _ _ hp) ?_
        intro q hq
        split
        · exact Outcome.sat_fail
        · split
          · exact Outcome.sat_ok hq
          · exact Outcome.sat_ok hq
      rw [if_neg h9]
      by_cases h10 : CStr.strncmp_eq ln.text "Number(" 7 = true
      · rw [if_pos h10]
        exact Outcome.sat_ok (h_adv st hst)
      rw [if_neg h10]
      by_cases h11 : CStr.strncmp_eq ln.text "Var(" 4 = true
      · rw [if_pos h11]
        split
        · exact Outcome.sat_fail
        · split
          · exact Outcome.sat_fail
          · exact Outcome.sat_ok (h_adv st hst)
      rw [if_neg h11]
      by_cases h12 : CStr.strncmp_eq ln.text "Cast(" 5 = true
      · rw [if_pos h12]
        refine Outcome.sat_bind (ih_node _ _ (h_adv st hst)) ?_
        intro p hp
        exact Outcome.sat_ok hp
      rw [if_neg h12]
      by_cases h13 : CStr.strncmp_eq ln.text "Parameters:" 11 = true
      · rw [if_pos h13]
        refine Outcome.sat_bind (Q := fun _ => True) (fun _ _ => trivial) ?_
        intro p _
        obtain ⟨scope1, n⟩ := p
        cases scope1 with
        | none => exact Outcome.sat_ok (h_cur _ _ (h_adv st hst))
        | some sc => exact Outcome.sat_ok (h_cur _ _ (h_upd _ _ (h_adv st hst)))
      rw [if_neg h13]
      by_cases h14 : CStr.strncmp_eq ln.text "VarDeclGroup:" 13 = true
      · rw [if_pos h14]
        refine Outcome.sat_bind (ih_group _ _ (h_adv st hst)) ?_
        intro s hs
        exact Outcome.sat_ok hs
      rw [if_neg h14]
      split
      · refine Outcome.sat_bind (ih_children _ _ (h_adv st hst)) ?_
        intro s hs
        exact Outcome.sat_ok hs
      · exact Outcome.sat_ok (h_adv st hst)
    · intro e st hst
      rw [Phase3.children_loop]
      split
      · exact Outcome.sat_ok hst
      · split
        · refine Outcome.sat_bind (ih_node _ _ hst) ?_
          intro p hp
          exact ih_children _ _ hp
        · exact Outcome.sat_ok hst
    · intro e st hst
      rw [Phase3.group_loop]
      split
      · exact Outcome.sat_ok hst
      · split
        · refine Outcome.sat_bind (ih_node _ _ hst) ?_
          intro p hp
          exact ih_group _ _ hp
        · exact Outcome.sat_ok hst

/-- The loop of the analyzer's `main` keeps such a property. -/
theorem Phase3.analyzer_loop_keeps (I : Phase3.State → Prop)
    (h_fn : ∀ (st : Phase3.State) (fn : Phase3.Function), I st →
      I { st with functions := st.functions ++ [fn],
                  current_function := some st.functions.length,
                  current_line := st.current_line + 1 })
    (h_upd : ∀ st g, I st → I (Phase3.update_current_fn st g))
    (h_cur : ∀ (st : Phase3.State) (n : Nat), I st → I { st with current_line := n })
    (h_glob : ∀ (st : Phase3.State) (sc : Phase3.Scope), I st → I { st with global_scope := sc })
    (f : Nat) : ∀ st, I st → Outcome.Sat I (Phase3.main_loop f st) := by
  induction f with
  | zero => intro st _; rw [Phase3.main_loop]; exact Outcome.sat_fuel
  | succ f ih =>
    intro st hst
    rw [Phase3.main_loop]
    split
    · exact Outcome.sat_ok hst
    · refine Outcome.sat_bind ((Phase3.analysis_keeps I h_fn h_upd h_cur h_glob f).1 _ _ hst) ?_
      intro p hp
      exact ih _ hp
theorem Phase3.indent_at_update (st : Phase3.State) (g : Phase3.Function → Phase3.Function) :
    Phase3.indent_at (Phase3.advance (Phase3.update_current_fn st g)) =
      Phase3.indent_at (Phase3.advance st) := by
  unfold Phase3.update_current_fn
  split <;> rfl

/-- C38: on a `BinOp(!)` line at the expected indent, when the analysis of the
operand returns a type other than `unknown` and leaves the cursor on no line of
the operand's indent (the node has one child), the analyzer reads `unknown` for
the second operand and aborts with "Type mismatch in binary operation".  The
cursor is on no such line when the operand is a subtree built from `Number(`,
`Var(`, `Cast(` and `BinOp(` lines and the line after it, if any, is not
deeper than the `BinOp(!)` line. -/
theorem C38_logical_not_always_mismatch (f e : Nat) (st st1 : Phase3.State) (ln : Ast.ASTLine)
    (t : Phase3.VarType)
    (hln : Phase3.cur_line st = some ln) (hind : ln.indent = e) (hop : ln.text = "BinOp(!)")
    (ha : Phase3.parse_node f (e + 1) (Phase3.advance st) = .ok (t, st1))
    (ht : t ≠ Phase3.VarType.TYPE_UNKNOWN) :
    ((∀ l, Phase3.cur_line st1 = some l → l.indent ≠ e + 1) →
      Phase3.parse_node (f + 1) e st =
        Phase3.semantic_error st1.current_line "Type mismatch in binary operation") ∧
    (∀ ops rest, Phase3.expr_lines (e + 1) ops →
      st.lines.drop (st.current_line + 1) = ops ++ rest →
      (∀ l, rest.head? = some l → l.indent ≤ e) →
      Phase3.parse_node (f + 1) e st =
        Phase3.semantic_error st1.current_line "Type mismatch in binary operation") := by
  have hb : CStr.strncmp_eq ln.text "BinOp(" 6 = true := by rw [hop]; decide
  have h1 : CStr.strncmp_eq ln.text "FunctionDefinition:" 19 = false := by rw [hop]; decide
  have h2 : CStr.strncmp_eq ln.text "Body:" 5 = false := by rw [hop]; decide
  have h3 : CStr.strncmp_eq ln.text "VarDecl:" 8 = false := by rw [hop]; decide
  have h4 : CStr.strncmp_eq ln.text "Assign:" 7 = false := by rw [hop]; decide
  have h5 : CStr.strncmp_eq ln.text "If:" 3 = false := by rw [hop]; decide
  have h6 : CStr.strncmp_eq ln.text "Return:" 7 = false := by rw [hop]; decide
  have h7 : CStr.strncmp_eq ln.text "For:" 4 = false := by rw [hop]; decide
  have h8 : CStr.strncmp_eq ln.text "While:" 6 = false := by rw [hop]; decide
  have main : (∀ l, Phase3.cur_line st1 = some l → l.indent ≠ e + 1) →
      Phase3.parse_node (f + 1) e st =
        Phase3.semantic_error st1.current_line "Type mismatch in binary operation" := by
    intro hcur
    obtain ⟨g, rfl⟩ : ∃ g, f = g + 1 := by
      cases f with
      | zero => rw [Phase3.parse_node] at ha; cases ha
      | succ g => exact ⟨g, rfl⟩
    have hsecond : Phase3.parse_node (g + 1) (e + 1) st1 =
        .ok (Phase3.VarType.TYPE_UNKNOWN, st1) := by
      cases hc : Phase3.cur_line st1 with
      | none =>
        rw [Phase3.parse_node]
        simp only [hc]
      | some l => exact Phase3.parse_node_indent_mismatch g (e + 1) st1 l hc (hcur l hc)
    rw [Phase3.parse_node]
    simp only [hln]
    rw [if_neg (not_not.2 hind)]
    simp only [h1, h2, h3, h4, h5, h6, h7, h8, hb, Bool.false_eq_true, if_false, if_true,
      ha, hsecond, Outcome.ok_bind]
    rw [if_pos ht]
  refine ⟨main, ?_⟩
  intro ops rest hops hd hrest
  apply main
  intro l hl
  have c := Phase3.expr_cursor (e + 1) ops hops f (Phase3.advance st) rest t st1 hd ha
  have hcur : Phase3.cur_line st1 = rest.head? := by
    unfold Phase3.cur_line
    rw [c.2, c.1, List.get?_eq_getElem?, ← List.head?_drop]
    show (st.lines.drop (st.current_line + 1 + ops.length)).head? = _
    rw [← List.drop_drop, hd, List.drop_left]
  rw [hcur] at hl
  have := hrest l hl
  omega

theorem C38_logical_not_always_mismatch_witness :
    Phase3.parse_node 2 1 (state_in_f lines_if_not_a 1) =
      Phase3.semantic_error 3 "Type mismatch in binary operation" ∧
    verdict_of_tokens 100 100 tokens_if_not =
      .fail (some 8) "Type mismatch in binary operation" ∧
    verdict_of_tokens 100 100 tokens_not_of_comparison =
      .fail (some 12) "Type mismatch in binary operation" :=
  ⟨(C38_logical_not_always_mismatch 1 1 (state_in_f lines_if_not_a 1)
      (state_in_f lines_if_not_a 3) ⟨1, "BinOp(!)"⟩ .TYPE_INT (by decide) (by decide)
      (by decide) (by decide) (by decide)).2 [⟨2, "Var(a)"⟩] [⟨1, "Body:"⟩]
      (Phase3.expr_lines.var 2 "Var(a)" (by decide)) rfl
      (fun l hl => by
        injection hl with hl
        rw [← hl]),
   by decide, by decide⟩

/-! ### The two forms of the return statement -/

theorem Phase2.kind_node_list_append (p c : ASTNode) :
    (node_list_append p c).kind = p.kind := by
  obtain ⟨k, t, cs⟩ := p
  rfl

theorem Phase2.kind_binop_node (text : String) (l r : ASTNode) :
    (binop_node text l r).kind = NODE_BINOP := rfl

/-- Every node the expression parser returns is a leaf of a literal or
identifier token or has kind `NODE_BINOP`. -/
theorem Phase2.expression_shape (f : Nat) :
    (∀ toks, Outcome.Sat (fun p => leaf_or_operation p.1) (parse_factor f toks)) ∧
    (∀ toks, Outcome.Sat (fun p => p.1.kind = NODE_BINOP) (parse_function_call f toks)) ∧
    (∀ call toks, call.kind = NODE_BINOP →
      Outcome.Sat (fun p => p.1.kind = NODE_BINOP) (parse_call_args f call toks)) ∧
    (∀ toks, Outcome.Sat (fun p => leaf_or_operation p.1) (parse_term f toks)) ∧
    (∀ node toks, leaf_or_operation node →
      Outcome.Sat (fun p => leaf_or_operation p.1) (parse_term_loop f node toks)) ∧
    (∀ toks, Outcome.Sat (fun p => leaf_or_operation p.1) (parse_add_sub f toks)) ∧
    (∀ node toks, leaf_or_operation node →
      Outcome.Sat (fun p => leaf_or_operation p.1) (parse_add_sub_loop f node toks)) ∧
    (∀ toks, Outcome.Sat (fun p => leaf_or_operation p.1) (parse_comparison f toks)) ∧
    (∀ node toks, leaf_or_operation node →
      Outcome.Sat (fun p => leaf_or_operation p.1) (parse_comparison_loop f node toks)) ∧
    (∀ toks, Outcome.Sat (fun p => leaf_or_operation p.1) (parse_logical_and f toks)) ∧
    (∀ node toks, leaf_or_operation node →
      Outcome.Sat (fun p => leaf_or_operation p.1) (parse_logical_and_loop f node toks)) ∧
    (∀ toks, Outcome.Sat (fun p => leaf_or_operation p.1) (parse_logical_or f toks)) ∧
    (∀ node toks, leaf_or_operation node →
      Outcome.Sat (fun p => leaf_or_operation p.1) (parse_logical_or_loop f node toks)) := by
  induction f with
  | zero =>
    refine ⟨?_, ?_, ?_, ?_, ?_, ?_, ?_, ?_, ?_, ?_, ?_, ?_, ?_⟩
    · intro toks; rw [parse_factor]; exact Outcome.sat_fuel
    · intro toks; rw [parse_function_call]; exact Outcome.sat_fuel
    · intro call toks _; rw [parse_call_args]; exact Outcome.sat_fuel
    · intro toks; rw [parse_term]; exact Outcome.sat_fuel
    · intro node toks _; rw [parse_term_loop]; exact Outcome.sat_fuel
    · intro toks; rw [parse_add_sub]; exact Outcome.sat_fuel
    · intro node toks _; rw [parse_add_sub_loop]; exact Outcome.sat_fuel
    · intro toks; rw [parse_comparison]; exact Outcome.sat_fuel
    · intro node toks _; rw [parse_comparison_loop]; exact Outcome.sat_fuel
    · intro toks; rw [parse_logical_and]; exact Outcome.sat_fuel
    · intro node toks _; rw [parse_logical_and_loop]; exact Outcome.sat_fuel
    · intro toks; rw [parse_logical_or]; exact Outcome.sat_fuel
    · intro node toks _; rw [parse_logical_or_loop]; exact Outcome.sat_fuel
  | succ f ih =>
    obtain ⟨ih_factor, ih_call, ih_args, ih_term, ih_term_loop, ih_add, ih_add_loop, ih_cmp,
      ih_cmp_loop, ih_and, ih_and_loop, ih_or, ih_or_loop⟩ := ih
    have hbin : ∀ (text : String) (l r : ASTNode), leaf_or_operation (binop_node text l r) :=
      fun _ _ _ => Or.inr rfl
    refine ⟨?_, ?_, ?_, ?_, ?_, ?_, ?_, ?_, ?_, ?_, ?_, ?_, ?_⟩
    · -- parse_factor
      intro toks
      rw [parse_factor.eq_def]
      dsimp only
      split
      · exact Outcome.sat_fail
      · rename_i t rest
        split
        · split
          · refine Outcome.sat_bind (Q := fun _ => True) (fun _ _ => trivial) ?_
            intro rest2 _
            refine Outcome.sat_bind (Q := fun _ => True) (fun _ _ => trivial) ?_
            intro p _
            obtain ⟨cast_expr, rest3⟩ := p
            refine Outcome.sat_ok (Or.inr ?_)
            dsimp only
            rw [Phase2.kind_node_list_append]
            rfl
          · exact Outcome.sat_fail
        · split
          · refine Outcome.sat_bind (ih_or _) ?_
            intro p hp
            obtain ⟨expr, rest1⟩ := p
            refine Outcome.sat_bind (Q := fun _ => True) (fun _ _ => trivial) ?_
            intro rest2 _
            exact Outcome.sat_ok hp
          · split
            · refine Outcome.sat_bind (Q := fun _ => True) (fun _ _ => trivial) ?_
              intro p _
              obtain ⟨factor, rest1⟩ := p
              refine Outcome.sat_ok (Or.inr ?_)
              dsimp only
              rw [Phase2.kind_node_list_append]
              rfl
            · split
              · rename_i hnum
                refine Outcome.sat_ok (Or.inl ⟨t, ?_, ?_⟩)
                · rcases hnum with h | h <;> simp [is_primary, h]
                · rw [Phase2.leaf_is_new_node, if_neg]
                  rcases hnum with h | h <;> rw [h] <;> decide
              · split
                · rename_i hid
                  have hleaf : leaf_or_operation (ast_new_node NODE_VAR (some t.lexeme)) := by
                    refine Or.inl ⟨t, ?_, ?_⟩
                    · simp [is_primary, hid]
                    · rw [Phase2.leaf_is_new_node, if_pos hid]
                  split
                  · split
                    · refine Outcome.sat_mono ?_ (ih_call _)
                      intro p hp
                      exact Or.inr hp
                    · exact Outcome.sat_ok hleaf
                  · exact Outcome.sat_ok hleaf
                · exact Outcome.sat_fail
    · -- parse_function_call
      intro toks
      rw [parse_function_call.eq_def]
      dsimp only
      split
      · exact Outcome.sat_fail
      · rename_i t rest
        split
        · exact Outcome.sat_fail
        · refine Outcome.sat_bind (Q := fun _ => True) (fun _ _ => trivial) ?_
          intro rest1 _
          refine Outcome.sat_bind (ih_args _ _ rfl) ?_
          intro p hp
          obtain ⟨call1, rest2⟩ := p
          refine Outcome.sat_bind (Q := fun _ => True) (fun _ _ => trivial) ?_
          intro rest3 _
          exact Outcome.sat_ok hp
    · -- parse_call_args
      intro call toks hg
      rw [parse_call_args.eq_def]
      dsimp only
      split
      · exact Outcome.sat_ok hg
      · split
        · exact Outcome.sat_ok hg
        · refine Outcome.sat_bind (Q := fun _ => True) (fun _ _ => trivial) ?_
          intro p _
          obtain ⟨arg, rest1⟩ := p
          dsimp only
          have hg1 : (node_list_append call arg).kind = NODE_BINOP :=
            (Phase2.kind_node_list_append _ _).trans hg
          split
          · split
            · exact ih_args _ _ hg1
            · exact Outcome.sat_ok hg1
          · exact Outcome.sat_ok hg1
    · -- parse_term
      intro toks
      rw [parse_term]
      refine Outcome.sat_bind (ih_factor _) ?_
      intro p hp
      obtain ⟨node, rest⟩ := p
      exact ih_term_loop _ _ hp
    · -- parse_term_loop
      intro node toks hg
      rw [parse_term_loop.eq_def]
      dsimp only
      split
      · exact Outcome.sat_ok hg
      · split
        · refine Outcome.sat_bind (Q := fun _ => True) (fun _ _ => trivial) ?_
          intro p _
          obtain ⟨rhs, rest1⟩ := p
          exact ih_term_loop _ _ (hbin _ _ _)
        · exact Outcome.sat_ok hg
    · -- parse_add_sub
      intro toks
      rw [parse_add_sub]
      refine Outcome.sat_bind (ih_term _) ?_
      intro p hp
      obtain ⟨node, rest⟩ := p
      exact ih_add_loop _ _ hp
    · -- parse_add_sub_loop
      intro node toks hg
      rw [parse_add_sub_loop.eq_def]
      dsimp only
      split
      · exact Outcome.sat_ok hg
      · split
        · refine Outcome.sat_bind (Q := fun _ => True) (fun _ _ => trivial) ?_
          intro p _
          obtain ⟨rhs, rest1⟩ := p
          exact ih_add_loop _ _ (hbin _ _ _)
        · exact Outcome.sat_ok hg
    · -- parse_comparison
      intro toks
      rw [parse_comparison]
      refine Outcome.sat_bind (ih_add _) ?_
      intro p hp
      obtain ⟨node, rest⟩ := p
      exact ih_cmp_loop _ _ hp
    · -- parse_comparison_loop
      intro node toks hg
      rw [parse_comparison_loop.eq_def]
      dsimp only
      split
      · exact Outcome.sat_ok hg
      · split
        · refine Outcome.sat_bind (Q := fun _ => True) (fun _ _ => trivial) ?_
          intro p _
          obtain ⟨rhs, rest1⟩ := p
          exact ih_cmp_loop _ _ (hbin _ _ _)
        · exact Outcome.sat_ok hg
    · -- parse_logical_and
      intro toks
      rw [parse_logical_and]
      refine Outcome.sat_bind (ih_cmp _) ?_
      intro p hp
      obtain ⟨node, rest⟩ := p
      exact ih_and_loop _ _ hp
    · -- parse_logical_and_loop
      intro node toks hg
      rw [parse_logical_and_loop.eq_def]
      dsimp only
      split
      · exact Outcome.sat_ok hg
      · split
        · refine Outcome.sat_bind (Q := fun _ => True) (fun _ _ => trivial) ?_
          intro p _
          obtain ⟨rhs, rest1⟩ := p
          exact ih_and_loop _ _ (hbin _ _ _)
        · exact Outcome.sat_ok hg
    · -- parse_logical_or
      intro toks
      rw [parse_logical_or]
      refine Outcome.sat_bind (ih_and _) ?_
      intro p hp
      obtain ⟨node, rest⟩ := p
      exact ih_or_loop _ _ hp
    · -- parse_logical_or_loop
      intro node toks hg
      rw [parse_logical_or_loop.eq_def]
      dsimp only
      split
      · exact Outcome.sat_ok hg
      · split
        · refine Outcome.sat_bind (Q := fun _ => True) (fun _ _ => trivial) ?_
          intro p _
          obtain ⟨rhs, rest1⟩ := p
          exact ih_or_loop _ _ (hbin _ _ _)
        · exact Outcome.sat_ok hg

/-- C35: for `return <expression> ;`, when `parse_expression` reads the expression as
the node `expr`: `expr` is the leaf of a literal or identifier token, or a node
of kind `NODE_BINOP` (an operator node, a cast or a call).  For the leaf of the
token `t` the statement's node is childless and labelled `Return: ` followed by
the leaf's text, cut to 63 characters; that is `Return: <lexeme>` when the lexeme
has at most 55 characters.  For a node of kind `NODE_BINOP` the statement's
node is labelled `Return:` and has `expr` as its only child.  And with fuel 6
or more, `return t ;` for a literal or identifier token `t` of at most 55
characters gives the childless node `Return: <lexeme>`. -/
theorem C35_return_statement_forms :
    (∀ (fuel : Nat) (toks rest rest1 rest2 : Cursor) (expr : ASTNode),
      expect_keyword "return" toks = .ok rest →
      parse_expression fuel rest = .ok (expr, rest1) →
      expect_token TOK_PUNCTUATION ";" rest1 = .ok rest2 →
      leaf_or_operation expr ∧
      (∀ t, is_primary t = true → expr = leaf t →
        parse_return_stmt fuel toks =
          .ok (.mk NODE_RETURN (CStr.strncpy 63 ("Return: " ++ CStr.strncpy 63 t.lexeme)) [],
               rest2) ∧
        (t.lexeme.length ≤ 55 →
          parse_return_stmt fuel toks =
            .ok (.mk NODE_RETURN ("Return: " ++ t.lexeme) [], rest2))) ∧
      (expr.kind = NODE_BINOP →
        parse_return_stmt fuel toks = .ok (.mk NODE_RETURN "Return:" [expr], rest2))) ∧
    (∀ (n : Nat) (ret t semi : Token) (after : Cursor),
      ret.is TOK_KEYWORD "return" = true → is_primary t = true →
      semi.is TOK_PUNCTUATION ";" = true → t.lexeme.length ≤ 55 →
      parse_return_stmt (n + 6) (ret :: t :: semi :: after) =
        .ok (.mk NODE_RETURN ("Return: " ++ t.lexeme) [], after)) := by
  have hshort : ∀ (s : String), s.length ≤ 55 →
      CStr.strncpy 63 ("Return: " ++ CStr.strncpy 63 s) = "Return: " ++ s := by
    intro s hs
    rw [CStr.strncpy_short 63 s (by omega)]
    apply CStr.strncpy_short
    rw [String.length_append]
    have : "Return: ".length = 8 := by decide
    omega
  have hleaf : ∀ (fuel : Nat) (toks rest rest1 rest2 : Cursor) (t : Token),
      expect_keyword "return" toks = .ok rest →
      parse_expression fuel rest = .ok (leaf t, rest1) →
      expect_token TOK_PUNCTUATION ";" rest1 = .ok rest2 →
      parse_return_stmt fuel toks =
        .ok (.mk NODE_RETURN (CStr.strncpy 63 ("Return: " ++ CStr.strncpy 63 t.lexeme)) [],
             rest2) := by
    intro fuel toks rest rest1 rest2 t hk he hs
    unfold parse_return_stmt
    simp only [hk, he, hs, Outcome.ok_bind]
    unfold leaf
    by_cases hid : t.type = TOK_IDENTIFIER
    · rw [if_pos hid]
      simp [ASTNode.kind, ASTNode.text, ast_new_node, CStr.strncpy, List.take_take]
    · rw [if_neg hid]
      simp [ASTNode.kind, ASTNode.text, ast_new_node, CStr.strncpy, List.take_take]
  refine ⟨?_, ?_⟩
  · intro fuel toks rest rest1 rest2 expr hk he hs
    refine ⟨(Phase2.expression_shape fuel).2.2.2.2.2.2.2.2.2.2.2.1 rest (expr, rest1) he, ?_, ?_⟩
    · intro t _ hx
      subst hx
      refine ⟨hleaf fuel toks rest rest1 rest2 t hk he hs, ?_⟩
      intro hlen
      rw [hleaf fuel toks rest rest1 rest2 t hk he hs, hshort t.lexeme hlen]
    · intro hb
      unfold parse_return_stmt
      simp only [hk, he, hs, Outcome.ok_bind]
      rw [if_neg (by rw [hb]; decide)]
      rfl
  · intro n ret t semi after hret ht hsemi hlen
    have hk : expect_keyword "return" (ret :: t :: semi :: after) = .ok (t :: semi :: after) := by
      simp only [expect_keyword, hret, if_true]
    have hs : expect_token TOK_PUNCTUATION ";" (semi :: after) = .ok after := by
      simp only [expect_token, hsemi, if_true]
    have hsemi2 := hsemi
    simp only [Token.is, Bool.and_eq_true, decide_eq_true_eq] at hsemi2
    have hnl : next_is_lparen (semi :: after) = false := by
      simp only [next_is_lparen, Token.is, hsemi2.1, hsemi2.2]
      decide
    have hlv : next_level (semi :: after) < 1 := by
      simp only [next_level, op_level, hsemi2.1]
      rw [if_neg (by decide)]
      decide
    have he : parse_expression (n + 6) (t :: semi :: after) = .ok (leaf t, semi :: after) :=
      Phase2.logical_or_operand (n + 1) _ _ _ (Phase2.parse_factor_primary n t _ ht hnl) hlv
    rw [hleaf (n + 6) _ _ _ _ t hk he hs, hshort t.lexeme hlen]

theorem C35_return_statement_forms_witness :
    parse_return_stmt 6 (tokens_return_operand (float_lit "1.5")) =
      .ok (.mk NODE_RETURN ("Return: " ++ "1.5") [], []) ∧
    parse_return_stmt 6 (tokens_return_operand (ident "x")) =
      .ok (.mk NODE_RETURN ("Return: " ++ "x") [], []) ∧
    parse_return_stmt 20 tokens_return_parenthesised =
      .ok (.mk NODE_RETURN "Return: x" [], []) ∧
    parse_return_stmt 20 tokens_return_call =
      .ok (.mk NODE_RETURN "Return:"
        [.mk NODE_BINOP "f" [.mk NODE_NUMBER "1" []]], []) ∧
    parse_return_stmt 20 tokens_return_sum =
      .ok (.mk NODE_RETURN "Return:"
        [.mk NODE_BINOP "BinOp(+)" [.mk NODE_VAR "a" [], .mk NODE_VAR "b" []]], []) ∧
    parse_return_stmt 20 tokens_return_cast =
      .ok (.mk NODE_RETURN "Return:" [.mk NODE_BINOP "Cast(int)" [.mk NODE_VAR "a" []]], []) ∧
    parse_return_stmt 20 tokens_return_not =
      .ok (.mk NODE_RETURN "Return:" [.mk NODE_BINOP "BinOp(!)" [.mk NODE_VAR "a" []]], []) :=
  ⟨C35_return_statement_forms.2 0 (kw "return") (float_lit "1.5") (punct ";") []
      (by decide) (by decide) (by decide) (by decide),
   C35_return_statement_forms.2 0 (kw "return") (ident "x") (punct ";") []
      (by decide) (by decide) (by decide) (by decide),
   rfl,
   (C35_return_statement_forms.1 20 tokens_return_call
      [ident "f", punct "(", int_lit "1", punct ")", punct ";"] [punct ";"] []
      (.mk NODE_BINOP "f" [.mk NODE_NUMBER "1" []]) (by decide) rfl (by decide)).2.2 rfl,
   rfl, rfl, rfl⟩

/-! ### Reading back the lines `print_token` writes -/

theorem CStr.takeWhile_append_stop {α : Type} (p : α → Bool) (a : List α) (c : α) (b : List α)
    (ha : ∀ x ∈ a, p x = true) (hc : p c = false) : (a ++ c :: b).takeWhile p = a := by
  induction a with
  | nil => simp [List.takeWhile, hc]
  | cons x xs ih =>
    have hx := ha x (List.mem_cons_self _ _)
    simp only [List.cons_append, List.takeWhile_cons, hx, if_true]
    rw [ih (fun y hy => ha y (List.mem_cons_of_mem _ hy))]

theorem CStr.dropWhile_append_stop {α : Type} (p : α → Bool) (a : List α) (c : α) (b : List α)
    (ha : ∀ x ∈ a, p x = true) (hc : p c = false) : (a ++ c :: b).dropWhile p = c :: b := by
  induction a with
  | nil => simp [List.dropWhile, hc]
  | cons x xs ih =>
    have hx := ha x (List.mem_cons_self _ _)
    simp only [List.cons_append, List.dropWhile_cons, hx, if_true]
    rw [ih (fun y hy => ha y (List.mem_cons_of_mem _ hy))]

/-- A run up to a stop character is the run of the first part when the stop
character follows it. -/
theorem CStr.takeWhile_before_stop {α : Type} (p : α → Bool) (a : List α) (c : α) (b : List α)
    (hc : p c = false) : (a ++ c :: b).takeWhile p = a.takeWhile p := by
  induction a with
  | nil => simp [List.takeWhile, hc]
  | cons x xs ih =>
    simp only [List.cons_append, List.takeWhile_cons]
    split
    · rw [ih]
    · rfl

theorem CStr.dropWhile_ne_nil {α : Type} (p : α → Bool) (a : List α) (c : α) (b : List α)
    (hc : p c = false) : (a ++ c :: b).dropWhile p ≠ [] := by
  induction a with
  | nil => simp [List.dropWhile, hc]
  | cons x xs ih =>
    simp only [List.cons_append, List.dropWhile_cons]
    split
    · exact ih
    · simp

/-- The length of the run before the first stop character, as `load_tokens`
computes it from the two pointers. -/
theorem CStr.run_length {α : Type} (p : α → Bool) (l : List α) :
    l.take (l.length - (l.dropWhile p).length) = l.takeWhile p ∧
    l.length - (l.dropWhile p).length = (l.takeWhile p).length := by
  have h := List.takeWhile_append_dropWhile p l
  have hlen : l.length = (l.takeWhile p).length + (l.dropWhile p).length := by
    conv_lhs => rw [← h]
    rw [List.length_append]
  have h2 : l.length - (l.dropWhile p).length = (l.takeWhile p).length := by omega
  refine ⟨?_, h2⟩
  rw [h2]
  have h3 : (l.takeWhile p ++ l.dropWhile p).take (l.takeWhile p).length = l.takeWhile p :=
    List.take_left _ _
  rw [h] at h3
  exact h3

theorem CStr.strchr_found_after (a : List Char) (c : Char) (b : List Char)
    (ha : ∀ x ∈ a, x ≠ c) : CStr.strchr (a ++ c :: b) c = some (c :: b) := by
  unfold CStr.strchr
  rw [CStr.dropWhile_append_stop _ a c b (fun x hx => by simpa using ha x hx) (by simp)]

theorem CStr.decimal_value_reverse (ds : List Char) :
    CStr.decimal_value ds.reverse = CStr.digits_val ds := by
  induction ds with
  | nil => rfl
  | cons c cs ih =>
    unfold CStr.decimal_value at ih ⊢
    rw [List.reverse_cons, List.foldl_append, ih]
    simp only [List.foldl_cons, List.foldl_nil, CStr.digits_val]
    omega

theorem CStr.digit_char (m : Nat) (h : m < 10) : CStr.isdigit (Char.ofNat (48 + m)) = true := by
  interval_cases m <;> decide

theorem CStr.digits_rev_digits (f : Nat) : ∀ n, ∀ c ∈ CStr.digits_rev f n, CStr.isdigit c = true := by
  induction f with
  | zero => intro n c hc; simp [CStr.digits_rev] at hc
  | succ f ih =>
    intro n c hc
    rw [CStr.digits_rev] at hc
    split at hc
    · rename_i h
      rw [List.mem_singleton.1 hc]
      exact CStr.digit_char n h
    · rcases List.mem_cons.1 hc with h | h
      · rw [h]
        exact CStr.digit_char _ (Nat.mod_lt _ (by decide))
      · exact ih _ c h

theorem CStr.digits_rev_ne_nil (f n : Nat) : CStr.digits_rev (f + 1) n ≠ [] := by
  rw [CStr.digits_rev]
  split <;> simp

/-- Function `atoi` reads back the number `%d` printed, whatever follows that is
not a digit. -/
theorem CStr.atoi_fmt_d (n : Nat) (c : Char) (rest : List Char) (hc : CStr.isdigit c = false) :
    CStr.atoi ((CStr.fmt_d n).data ++ c :: rest) = (n : Int) := by
  have hall : ∀ x ∈ (CStr.fmt_d n).data, CStr.isdigit x = true := by
    intro x hx
    unfold CStr.fmt_d at hx
    exact CStr.digits_rev_digits _ _ x (List.mem_reverse.1 hx)
  obtain ⟨d, ds, hd⟩ : ∃ d ds, (CStr.fmt_d n).data = d :: ds := by
    cases h : (CStr.fmt_d n).data with
    | nil =>
      unfold CStr.fmt_d at h
      exact absurd (List.reverse_eq_nil_iff.1 h) (CStr.digits_rev_ne_nil n n)
    | cons d ds => exact ⟨d, ds, rfl⟩
  have hdd : CStr.isdigit d = true := hall d (by rw [hd]; exact List.mem_cons_self _ _)
  have hsp : CStr.isspace d = false := by
    cases h : CStr.isspace d with
    | false => rfl
    | true =>
      simp only [CStr.isspace, Bool.or_eq_true, decide_eq_true_eq] at h
      rcases h with ((((h | h) | h) | h) | h) | h <;> rw [h] at hdd <;> exact absurd hdd (by decide)
  have hminus : d ≠ '-' := by rintro rfl; exact absurd hdd (by decide)
  have hplus : d ≠ '+' := by rintro rfl; exact absurd hdd (by decide)
  have htake : ((CStr.fmt_d n).data ++ c :: rest).takeWhile CStr.isdigit = (CStr.fmt_d n).data :=
    CStr.takeWhile_append_stop _ _ _ _ hall hc
  unfold CStr.atoi
  have hdrop : ((CStr.fmt_d n).data ++ c :: rest).dropWhile CStr.isspace =
      (CStr.fmt_d n).data ++ c :: rest := by
    rw [hd]
    simp [List.dropWhile, hsp]
  simp only [hdrop]
  have hhead : ((CStr.fmt_d n).data ++ c :: rest).head? = some d := by rw [hd]; rfl
  rw [hhead, if_neg (by simpa using hminus), if_neg (by simpa using hplus), htake]
  unfold CStr.fmt_d
  rw [CStr.decimal_value_reverse, CStr.digits_val_rev (n + 1) n (by omega)]

/-- The body of the loop of `load_tokens` on a line made of `[line:`, a number
printed with `%d`, `] `, a name `N` without space, tab and quote, spaces, a
quote, a text `X`, a quote and a newline: the type named by `N`, the number,
and as lexeme the part of `X` before its first quote, empty when that part has
more than 255 characters. -/
theorem Phase2.load_token_line_printed (n : Nat) (N S X : List Char)
    (hN0 : N ≠ []) (hN : ∀ c ∈ N, c ≠ ' ' ∧ c ≠ '\t' ∧ c ≠ '"') (hNlen : N.length ≤ 31)
    (hS : ∀ c ∈ S, c = ' ') :
    load_token_line
      ("[line:".data ++ ((CStr.fmt_d n).data ++ ']' :: ' ' ::
        (N ++ ' ' :: (S ++ '"' :: (X ++ ['"', '\n']))))) =
      .ok { type := token_type_from_string (String.mk N),
            lexeme := CStr.strncpy 255 (String.mk
              (if (X.takeWhile (fun c => c != '"')).length > 0 ∧
                  (X.takeWhile (fun c => c != '"')).length < 256
               then X.takeWhile (fun c => c != '"') else [])),
            line := (n : Int) } := by
  have hD : ∀ x ∈ (CStr.fmt_d n).data, CStr.isdigit x = true := by
    intro x hx
    unfold CStr.fmt_d at hx
    exact CStr.digits_rev_digits _ _ x (List.mem_reverse.1 hx)
  have hA : "[line:".data = ['[', 'l', 'i', 'n', 'e', ':'] := rfl
  -- the line number
  have h1 : CStr.strstr ("[line:".data ++ ((CStr.fmt_d n).data ++ ']' :: ' ' ::
        (N ++ ' ' :: (S ++ '"' :: (X ++ ['"', '\n']))))) "[line:".data =
      some ("[line:".data ++ ((CStr.fmt_d n).data ++ ']' :: ' ' ::
        (N ++ ' ' :: (S ++ '"' :: (X ++ ['"', '\n']))))) := by
    rw [hA]
    simp [CStr.strstr, List.isPrefixOf]
  have h2 : CStr.atoi (("[line:".data ++ ((CStr.fmt_d n).data ++ ']' :: ' ' ::
        (N ++ ' ' :: (S ++ '"' :: (X ++ ['"', '\n']))))).drop 6) = (n : Int) := by
    rw [hA]
    exact CStr.atoi_fmt_d n ']' _ (by decide)
  -- the type name
  have h3 : CStr.strchr ("[line:".data ++ ((CStr.fmt_d n).data ++ ']' :: ' ' ::
        (N ++ ' ' :: (S ++ '"' :: (X ++ ['"', '\n']))))) ']' =
      some (']' :: ' ' :: (N ++ ' ' :: (S ++ '"' :: (X ++ ['"', '\n'])))) := by
    rw [← List.append_assoc]
    apply CStr.strchr_found_after
    intro x hx
    rcases List.mem_append.1 hx with h | h
    · rw [hA] at h
      intro e
      rw [e] at h
      exact absurd h (by decide)
    · intro e
      rw [e] at h
      exact absurd (hD _ h) (by decide)
  obtain ⟨n0, Ns, hNs⟩ := List.exists_cons_of_ne_nil hN0
  have h4 : ((']' :: ' ' :: (N ++ ' ' :: (S ++ '"' :: (X ++ ['"', '\n'])))).drop 1).dropWhile
      (fun c => c = ' ' || c = '\t') = N ++ ' ' :: (S ++ '"' :: (X ++ ['"', '\n'])) := by
    have hn0 := hN n0 (by rw [hNs]; exact List.mem_cons_self _ _)
    rw [hNs]
    simp [List.dropWhile, hn0.1, hn0.2.1]
  have h5 : (N ++ ' ' :: (S ++ '"' :: (X ++ ['"', '\n']))).takeWhile
      (fun c => c != ' ' && c != '\t' && c != '"') = N := by
    apply CStr.takeWhile_append_stop
    · intro x hx
      have := hN x hx
      simp [this.1, this.2.1, this.2.2]
    · rfl
  -- the lexeme
  have h6 : CStr.strchr ("[line:".data ++ ((CStr.fmt_d n).data ++ ']' :: ' ' ::
        (N ++ ' ' :: (S ++ '"' :: (X ++ ['"', '\n']))))) '"' =
      some ('"' :: (X ++ ['"', '\n'])) := by
    have hre : "[line:".data ++ ((CStr.fmt_d n).data ++ ']' :: ' ' ::
        (N ++ ' ' :: (S ++ '"' :: (X ++ ['"', '\n'])))) =
        ("[line:".data ++ (CStr.fmt_d n).data ++ [']', ' '] ++ N ++ [' '] ++ S) ++
          '"' :: (X ++ ['"', '\n']) := by
      simp
    rw [hre]
    apply CStr.strchr_found_after
    intro x hx
    simp only [List.mem_append, List.mem_cons, List.mem_singleton, List.not_mem_nil,
      or_false] at hx
    rcases hx with ((((h | h) | h) | h) | h) | h
    · rcases h with h | h | h | h | h | h <;> rw [h] <;> decide
    · intro e
      rw [e] at h
      exact absurd (hD _ h) (by decide)
    · rcases h with h | h <;> rw [h] <;> decide
    · exact (hN x h).2.2
    · rw [h]; decide
    · rw [hS x h]; decide
  have h7 : CStr.strchr (('"' :: (X ++ ['"', '\n'])).drop 1) '"' =
      some ((X ++ ['"', '\n']).dropWhile (fun x => x != '"')) := by
    unfold CStr.strchr
    have := CStr.dropWhile_ne_nil (fun x => x != '"') X '"' ['\n'] (by simp)
    show (match (X ++ ['"', '\n']).dropWhile (fun x => x != '"') with
      | [] => none
      | r => some r) = _
    split
    · rename_i h
      exact absurd h this
    · rfl
  have h8 := CStr.run_length (fun x => x != '"') (X ++ ['"', '\n'])
  have h9 : (X ++ ['"', '\n']).takeWhile (fun x => x != '"') = X.takeWhile (fun x => x != '"') :=
    CStr.takeWhile_before_stop _ X '"' ['\n'] (by simp)
  unfold load_token_line
  simp only [h1, h2, h3, h4, h5, h6, h7]
  have hlen : (('"' :: (X ++ ['"', '\n'])).drop 1).length -
      ((X ++ ['"', '\n']).dropWhile (fun x => x != '"')).length =
      (X.takeWhile (fun x => x != '"')).length := by
    rw [← h9]
    exact h8.2
  have htake : (('"' :: (X ++ ['"', '\n'])).drop 1).take
      (X.takeWhile (fun x => x != '"')).length = X.takeWhile (fun x => x != '"') := by
    have := h8.1
    rw [h8.2, h9] at this
    exact this
  rw [hlen, htake, List.take_of_length_le hNlen]

/-- The characters of the line `print_token` writes, in the order line number,
kind, padding, lexeme. -/
theorem Phase1.print_token_data (tok : Phase1.Token) :
    (Phase1.print_token tok).data =
      "[line:".data ++ ((CStr.fmt_d tok.line).data ++ ']' :: ' ' ::
        ((Phase1.type_name tok.type).data ++ ' ' ::
          (List.replicate (16 - (Phase1.type_name tok.type).length) ' ' ++
            '"' :: (tok.lexeme.data ++ ['"', '\n'])))) := by
  obtain ⟨ty, lexeme, line⟩ := tok
  have hpad : ∀ (k : Nat) (r : List Char),
      List.replicate k ' ' ++ ' ' :: r = ' ' :: (List.replicate k ' ' ++ r) := by
    intro k r
    induction k with
    | zero => rfl
    | succ k ih => rw [List.replicate_succ, List.cons_append, ih, List.cons_append]
  have hsep : " \"".data = [' ', '"'] := rfl
  have hsq : "] ".data = [']', ' '] := rfl
  have hend : "\"\n".data = ['"', '\n'] := rfl
  simp only [Phase1.print_token, Phase1.pad16, String.data_append, hsep, hsq, hend,
    List.append_assoc, List.cons_append, List.nil_append, hpad]

/-- The names of the kinds have no space, tab or quote and fit the buffer
`type_str`. -/
theorem Phase1.type_name_plain (ty : Phase1.TokenType) :
    (Phase1.type_name ty).data ≠ [] ∧
    (∀ c ∈ (Phase1.type_name ty).data, c ≠ ' ' ∧ c ≠ '\t' ∧ c ≠ '"') ∧
    (Phase1.type_name ty).data.length ≤ 31 := by
  cases ty <;> decide

/-- The parser's kind for the name the lexer prints. -/
theorem Phase2.token_type_of_name (ty : Phase1.TokenType) :
    token_type_from_string (String.mk (Phase1.type_name ty).data) = loaded_kind ty := by
  cases ty <;> decide

/-- Function `load_tokens` reads the line `print_token` wrote for a token: the kind
of the same name (`TOK_EOF_TOKEN` where the parser has none), the line number,
and as lexeme the text up to the first quote, empty when it has more than 255
characters. -/
theorem Phase2.load_printed_token (tok : Phase1.Token) :
    load_token_line (Phase1.print_token tok).data =
      .ok { type := loaded_kind tok.type,
            lexeme := CStr.strncpy 255 (String.mk
              (if (tok.lexeme.data.takeWhile (fun c => c != '"')).length > 0 ∧
                  (tok.lexeme.data.takeWhile (fun c => c != '"')).length < 256
               then tok.lexeme.data.takeWhile (fun c => c != '"') else [])),
            line := (tok.line : Int) } := by
  have hn := Phase1.type_name_plain tok.type
  rw [Phase1.print_token_data,
    Phase2.load_token_line_printed tok.line _ _ _ hn.1 hn.2.1 hn.2.2
      (fun c hc => (List.mem_replicate.1 hc).2),
    Phase2.token_type_of_name]

/-- A token with a plain lexeme is read back as it is. -/
theorem Phase2.load_plain_token (tok : Phase1.Token) (h : Phase1.plain_lexeme tok.lexeme) :
    load_token_line (Phase1.print_token tok).data = .ok (loaded_token tok) := by
  rw [Phase2.load_printed_token]
  have htw : tok.lexeme.data.takeWhile (fun c => c != '"') = tok.lexeme.data := by
    rw [List.takeWhile_eq_self_iff]
    intro c hc
    simpa using (h.2 c hc).1
  have hlen : tok.lexeme.data.length ≤ 255 := h.1
  rw [htw]
  unfold loaded_token
  congr 2
  by_cases h0 : tok.lexeme.data.length > 0
  · rw [if_pos ⟨h0, by omega⟩]
    exact CStr.strncpy_short 255 _ hlen
  · rw [if_neg (fun hh => h0 hh.1)]
    have : tok.lexeme.data = [] := List.length_eq_zero.1 (by omega)
    show CStr.strncpy 255 (String.mk []) = tok.lexeme
    rw [← this]
    exact CStr.strncpy_short 255 _ hlen

/-- The lines `fgets` reads: a line of at most 510 characters before its
newline is one chunk. -/
theorem Ast.read_chunks_line (body rest : List Char) (hb : ∀ c ∈ body, c ≠ '\n') :
    ∀ cur : List Char, cur.length + body.length ≤ 510 →
      Ast.read_chunks (body ++ '\n' :: rest) cur =
        (cur.reverse ++ body ++ ['\n']) :: Ast.read_chunks rest [] := by
  induction body with
  | nil =>
    intro cur _
    simp [Ast.read_chunks]
  | cons c cs ih =>
    intro cur hlen
    have hc := hb c (List.mem_cons_self _ _)
    simp only [List.length_cons] at hlen
    rw [List.cons_append, Ast.read_chunks, if_neg (by
      rintro (h | h)
      · exact hc h
      · omega)]
    rw [ih (fun x hx => hb x (List.mem_cons_of_mem _ hx)) (c :: cur)
      (by simp only [List.length_cons]; omega)]
    simp

/-- A number below `10 ^ k` is printed with at most `k` digits. -/
theorem CStr.digits_rev_length (f : Nat) : ∀ (n k : Nat), n < 10 ^ k →
    (CStr.digits_rev f n).length ≤ max k 1 := by
  induction f with
  | zero => intro n k _; simp [CStr.digits_rev]
  | succ f ih =>
    intro n k hk
    rw [CStr.digits_rev]
    split
    · simp
    · rename_i h10
      obtain ⟨j, rfl⟩ : ∃ j, k = j + 1 := by
        cases k with
        | zero => simp at hk; omega
        | succ j => exact ⟨j, rfl⟩
      have hj : n / 10 < 10 ^ j := by
        rw [Nat.div_lt_iff_lt_mul (by decide)]
        rw [Nat.pow_succ] at hk
        exact hk
      have hj1 : 1 ≤ j := by
        cases j with
        | zero => simp at hk; omega
        | succ i => omega
      have := ih (n / 10) j hj
      simp only [List.length_cons]
      omega

/-- The line of a token with a line number below `2 ^ 31` and a lexeme of at
most 255 characters without newline is one chunk of `fgets`. -/
theorem Phase1.print_token_chunk (tok : Phase1.Token) (rest : List Char)
    (hline : tok.line < 2 ^ 31) (hlen : tok.lexeme.length ≤ 255)
    (hnl : ∀ c ∈ tok.lexeme.data, c ≠ '\n') :
    Ast.read_chunks ((Phase1.print_token tok).data ++ rest) [] =
      (Phase1.print_token tok).data :: Ast.read_chunks rest [] := by
  have hD : ∀ x ∈ (CStr.fmt_d tok.line).data, CStr.isdigit x = true := by
    intro x hx
    unfold CStr.fmt_d at hx
    exact CStr.digits_rev_digits _ _ x (List.mem_reverse.1 hx)
  have hDlen : (CStr.fmt_d tok.line).data.length ≤ 10 := by
    unfold CStr.fmt_d
    rw [List.length_reverse]
    have := CStr.digits_rev_length (tok.line + 1) tok.line 10 (by omega)
    omega
  have hN := Phase1.type_name_plain tok.type
  have hNnl : ∀ c ∈ (Phase1.type_name tok.type).data, c ≠ '\n' := by
    cases tok.type <;> decide
  have hre : (Phase1.print_token tok).data =
      ("[line:".data ++ (CStr.fmt_d tok.line).data ++ [']', ' '] ++
        (Phase1.type_name tok.type).data ++ [' '] ++
        List.replicate (16 - (Phase1.type_name tok.type).length) ' ' ++ ['"'] ++
        tok.lexeme.data ++ ['"']) ++ ['\n'] := by
    rw [Phase1.print_token_data]
    simp
  have hbody : ∀ c ∈ "[line:".data ++ (CStr.fmt_d tok.line).data ++ [']', ' '] ++
        (Phase1.type_name tok.type).data ++ [' '] ++
        List.replicate (16 - (Phase1.type_name tok.type).length) ' ' ++ ['"'] ++
        tok.lexeme.data ++ ['"'], c ≠ '\n' := by
    intro c hc
    simp only [List.mem_append, List.mem_cons, List.mem_singleton, List.not_mem_nil,
      or_false] at hc
    rcases hc with (((((((h | h) | h) | h) | h) | h) | h) | h) | h
    · rcases h with h | h | h | h | h | h <;> rw [h] <;> decide
    · intro e
      rw [e] at h
      exact absurd (hD _ h) (by decide)
    · rcases h with h | h <;> rw [h] <;> decide
    · exact hNnl c h
    · rw [h]; decide
    · rw [(List.mem_replicate.1 h).2]; decide
    · rw [h]; decide
    · exact hnl c h
    · rw [h]; decide
  have hlen2 : ("[line:".data ++ (CStr.fmt_d tok.line).data ++ [']', ' '] ++
        (Phase1.type_name tok.type).data ++ [' '] ++
        List.replicate (16 - (Phase1.type_name tok.type).length) ' ' ++ ['"'] ++
        tok.lexeme.data ++ ['"']).length ≤ 510 := by
    have hA : "[line:".data.length = 6 := rfl
    have hx : tok.lexeme.data.length ≤ 255 := hlen
    have hnm : (Phase1.type_name tok.type).data.length +
        (16 - (Phase1.type_name tok.type).length) ≤ 31 := by
      cases tok.type <;> decide
    simp only [List.length_append, List.length_cons, List.length_nil, List.length_replicate, hA]
    omega
  rw [hre, List.append_assoc, List.singleton_append,
    Ast.read_chunks_line _ rest hbody [] (by simpa using hlen2)]
  simp

/-- The kind loaded for a token of a known kind is `TOK_EOF_TOKEN` only for the
EOF token. -/
theorem Pipeline.loaded_kind_eof (tok : Phase1.Token) (h : Phase1.known_kind tok) :
    loaded_kind tok.type = TOK_EOF_TOKEN ↔ tok.type = .TOK_EOF := by
  obtain ⟨ty, lexeme, line⟩ := tok
  unfold Phase1.known_kind at h
  cases ty <;> simp [loaded_kind, same_kind] at h ⊢

/-- The loop of `load_tokens` on the lines printed for a list of tokens of known
kinds with plain lexemes, in which only the last token may be the EOF token:
every token is loaded as it is, as long as the array has room. -/
theorem Phase2.load_printed_tokens : ∀ (toks : List Phase1.Token) (count : Nat),
    (∀ t ∈ toks, Phase1.known_kind t ∧ Phase1.plain_lexeme t.lexeme ∧ t.line < 2 ^ 31) →
    Phase1.eof_only_last toks → count + toks.length ≤ 4096 →
    load_tokens_loop (Ast.read_chunks (Phase1.tokens_txt toks).data []) count =
      .ok (toks.map loaded_token) := by
  intro toks
  induction toks with
  | nil =>
    intro count _ _ _
    simp [Phase1.tokens_txt, Ast.read_chunks, load_tokens_loop]
  | cons tok rest ih =>
    intro count hall heof hroom
    obtain ⟨hk, hp, hl⟩ := hall tok (List.mem_cons_self _ _)
    simp only [List.length_cons] at hroom
    rw [Phase1.tokens_txt, String.data_append,
      Phase1.print_token_chunk tok _ hl hp.1 (fun c hc => (hp.2 c hc).2), load_tokens_loop,
      if_neg (by omega), Phase2.load_plain_token tok hp]
    dsimp only
    by_cases he : (loaded_token tok).type = TOK_EOF_TOKEN
    · rw [if_pos he]
      have : rest = [] := heof.1 ((Pipeline.loaded_kind_eof tok hk).1 he)
      rw [this]
      rfl
    · rw [if_neg he, ih (count + 1) (fun t ht => hall t (List.mem_cons_of_mem _ ht)) heof.2
        (by omega)]
      rfl

/-! ### The lexemes the lexer makes are read back whole -/

/-- A lexeme made from a buffer without quote and newline is plain. -/
theorem Phase1.make_token_plain (type : Phase1.TokenType) (buffer : List Char) (line : Nat)
    (h : ∀ c ∈ buffer, c ≠ '"' ∧ c ≠ '\n') :
    Phase1.plain_lexeme (Phase1.make_token type buffer line).lexeme := by
  unfold Phase1.plain_lexeme Phase1.make_token
  constructor
  · show ((Phase1.c_string buffer).take 255).length ≤ 255
    rw [List.length_take]
    omega
  · intro c hc
    exact h c ((List.takeWhile_sublist _).subset (List.mem_of_mem_take hc))

/-- The operator and punctuation tokens have plain lexemes. -/
theorem Phase1.operator_plain (st st2 : Phase1.State) (tok : Phase1.Token)
    (h : Phase1.operator_or_punctuation st = .ok (tok, st2)) :
    Phase1.plain_lexeme tok.lexeme := by
  have hset : ∀ (set : List Char) (c : Char), (∀ x ∈ set, x ≠ '"' ∧ x ≠ '\n') →
      Phase1.strchr_found set c = true → c ≠ '"' ∧ c ≠ '\n' := by
    intro set c hs hc
    simp only [Phase1.strchr_found, Bool.or_eq_true, List.contains_iff_exists_mem_beq,
      decide_eq_true_eq] at hc
    rcases hc with ⟨x, hx, hcx⟩ | hc
    · rw [beq_iff_eq] at hcx
      rw [hcx]
      exact hs x hx
    · rw [hc]
      decide
  have hdouble : ∀ c d, Phase1.is_double_operator c d = true →
      (c ≠ '"' ∧ c ≠ '\n') ∧ (d ≠ '"' ∧ d ≠ '\n') := by
    intro c d hcd
    have := (Phase1.is_double_operator_iff c d).1 hcd
    simp only [Phase1.double_operators, List.mem_cons, Prod.mk.injEq, List.mem_nil_iff,
      or_false] at this
    rcases this with h | h | h | h | h | h | h | h | h | h | h | h <;> obtain ⟨rfl, rfl⟩ := h <;>
      decide
  obtain ⟨input, line⟩ := st
  unfold Phase1.operator_or_punctuation at h
  dsimp only at h
  split at h
  · exact absurd h (by simp)
  · rename_i c hc
    split at h
    · rename_i hd
      cases input with
      | nil => simp [Phase1.peek] at hc
      | cons c0 rest =>
        cases rest with
        | nil => simp [Phase1.peek_next] at hd
        | cons d0 r =>
          have hc0 : c0 = c := by
            simp only [Phase1.peek] at hc
            split at hc
            · exact absurd hc (by simp)
            · simpa using hc
          subst hc0
          have hcd : Phase1.is_double_operator c0 d0 = true := by
            simpa [Phase1.peek_next] using hd
          have hp := hdouble c0 d0 hcd
          split at h
          · rename_i d hd2
            have hd0 : d0 = d := by
              simp only [Phase1.advance, Phase1.peek] at hd2
              split at hd2
              · exact absurd hd2 (by simp)
              · simpa using hd2
            subst hd0
            simp only [Outcome.ok.injEq, Prod.mk.injEq] at h
            rw [← h.1]
            apply Phase1.make_token_plain
            intro x hx
            simp only [List.mem_cons, List.mem_singleton, List.not_mem_nil, or_false] at hx
            rcases hx with rfl | rfl
            · exact hp.1
            · exact hp.2
          · simp only [Outcome.ok.injEq, Prod.mk.injEq] at h
            rw [← h.1]
            apply Phase1.make_token_plain
            intro x hx
            rw [List.mem_singleton.1 hx]
            exact hp.1
    · split at h
      · rename_i hs
        simp only [Outcome.ok.injEq, Prod.mk.injEq] at h
        rw [← h.1]
        apply Phase1.make_token_plain
        intro x hx
        rw [List.mem_singleton.1 hx]
        exact hset _ c (by decide) hs
      · split at h
        · rename_i hs
          simp only [Outcome.ok.injEq, Prod.mk.injEq] at h
          rw [← h.1]
          apply Phase1.make_token_plain
          intro x hx
          rw [List.mem_singleton.1 hx]
          exact hset _ c (by decide) hs
        · exact absurd h (by simp)

/-- Every token the lexer reads that is not a string literal or a preprocessor
directive has a plain lexeme. -/
theorem Phase1.scan_token_plain (st st2 : Phase1.State) (tok : Phase1.Token)
    (h : Phase1.scan_token st = .ok (tok, st2)) (hk : Phase1.known_kind tok) :
    Phase1.plain_lexeme tok.lexeme := by
  have hid : ∀ c, (Phase1.isalnum c || decide (c = '_')) = true → c ≠ '"' ∧ c ≠ '\n' := by
    intro c hc
    constructor <;> rintro rfl <;> exact absurd hc (by decide)
  have hdg : ∀ c, (CStr.isdigit c || decide (c = '.')) = true → c ≠ '"' ∧ c ≠ '\n' := by
    intro c hc
    constructor <;> rintro rfl <;> exact absurd hc (by decide)
  unfold Phase1.scan_token at h
  split at h
  · exact Phase1.operator_plain _ _ _ h
  · split at h
    · simp only [Phase1.preprocess_directive, Outcome.ok.injEq, Prod.mk.injEq] at h
      rw [← h.1] at hk
      exact absurd rfl hk.2
    · split at h
      · unfold Phase1.string_literal at h
        dsimp only at h
        split at h
        · exact absurd h (by simp)
        · split at h
          · split at h
            · split at h
              · exact absurd h (by simp [Phase1.buffer_overflow])
              · simp only [Outcome.ok.injEq, Prod.mk.injEq] at h
                rw [← h.1] at hk
                exact absurd rfl hk.1
            · exact absurd h (by simp)
          · exact absurd h (by simp)
          · exact absurd h (by simp)
      · split at h
        · have hb := Phase1.identifier_loop_chars st.input st.line_number []
            (fun c hc => absurd hc (List.not_mem_nil _))
          unfold Phase1.identifier_or_keyword at h
          dsimp only at h
          split at h <;>
          · simp only [Outcome.ok.injEq, Prod.mk.injEq] at h
            rw [← h.1]
            exact Phase1.make_token_plain _ _ _ (fun c hc => hid c (hb c hc))
        · split at h
          · have hb := Phase1.digit_loop_chars st.input st.line_number []
              (fun c hc => absurd hc (List.not_mem_nil _))
            unfold Phase1.number_literal at h
            dsimp only at h
            split at h
            · split at h
              · exact absurd h (by simp [Phase1.buffer_overflow])
              · simp only [Outcome.ok.injEq, Prod.mk.injEq] at h
                rw [← h.1]
                refine Phase1.make_token_plain _ _ _ (fun c hc => hdg c ?_)
                refine Phase1.digit_loop_chars _ _ _ ?_ c hc
                intro x hx
                rcases List.mem_append.1 hx with hx | hx
                · exact hb x hx
                · rw [List.mem_singleton.1 hx]
                  rfl
            · split at h
              · exact absurd h (by simp [Phase1.buffer_overflow])
              · simp only [Outcome.ok.injEq, Prod.mk.injEq] at h
                rw [← h.1]
                exact Phase1.make_token_plain _ _ _ (fun c hc => hdg c (hb c hc))
          · exact Phase1.operator_plain _ _ _ h

/-- The tokens the main loop collects, where of a known kind, have plain
lexemes. -/
theorem Phase1.main_loop_plain (f : Nat) :
    ∀ (st : Phase1.State) (toks : List Phase1.Token) (st2 : Phase1.State),
      Phase1.main_loop f st = .ok (toks, st2) →
      ∀ t ∈ toks, Phase1.known_kind t → Phase1.plain_lexeme t.lexeme := by
  induction f with
  | zero => intro st toks st2 h; simp [Phase1.main_loop] at h
  | succ f ih =>
    intro st toks st2 h
    rw [Phase1.main_loop] at h
    split at h
    · simp only [Outcome.ok.injEq, Prod.mk.injEq] at h
      rw [← h.1]
      simp
    · split at h
      · split at h
        · simp only [Outcome.ok.injEq, Prod.mk.injEq] at h
          rw [← h.1]
          simp
        · split at h
          · rename_i tok st3 hscan
            split at h
            · rename_i toks2 st4 hrec
              simp only [Outcome.ok.injEq, Prod.mk.injEq] at h
              rw [← h.1]
              intro t ht hk
              rcases List.mem_cons.1 ht with ht | ht
              · subst ht
                exact Phase1.scan_token_plain _ _ _ hscan hk
              · exact ih _ _ _ hrec t ht hk
            · exact absurd h (by simp)
            · exact absurd h (by simp)
          · exact absurd h (by simp)
          · exact absurd h (by simp)
      · exact absurd h (by simp)
      · exact absurd h (by simp)

/-- A list without EOF token followed by one token has its EOF token, if any,
in the last place. -/
theorem Phase1.eof_only_last_snoc (body : List Phase1.Token) (last : Phase1.Token)
    (h : ∀ t ∈ body, t.type ≠ .TOK_EOF) : Phase1.eof_only_last (body ++ [last]) := by
  induction body with
  | nil => exact ⟨fun _ => rfl, trivial⟩
  | cons t rest ih =>
    exact ⟨fun he => absurd he (h t (List.mem_cons_self _ _)),
      ih (fun x hx => h x (List.mem_cons_of_mem _ hx))⟩

/-- C32: a token the lexer reads that is neither a string literal nor a
preprocessor directive, and the EOF token it adds at the end, is printed by
`print_token` as a line that the body of the loop of `load_tokens` reads back as
the token of the kind of the same name, with the same lexeme and the same line
number.  And when the lexer returns a token list without string literal and
preprocessor tokens, `load_tokens` on the `tokens.txt` written for it returns the
same tokens in the same order.  (For line numbers below `2 ^ 31`, the range of
`%d` and `atoi`, and at most 4096 tokens, the size of the parser's array.) -/
theorem C32_token_file_round_trip :
    (∀ (st st2 : Phase1.State) (tok : Phase1.Token),
      Phase1.scan_token st = .ok (tok, st2) → Phase1.known_kind tok → tok.line < 2 ^ 31 →
      load_token_line (Phase1.print_token tok).data = .ok (loaded_token tok) ∧
      same_kind tok.type = some (loaded_token tok).type) ∧
    (∀ line : Nat, line < 2 ^ 31 →
      load_token_line (Phase1.print_token (Phase1.make_token .TOK_EOF "EOF".data line)).data =
        .ok { type := TOK_EOF_TOKEN, lexeme := "EOF", line := (line : Int) }) ∧
    (∀ (fuel : Nat) (source : String) (toks : List Phase1.Token),
      Phase1.main fuel source = .ok toks →
      (∀ t ∈ toks, Phase1.known_kind t) → (∀ t ∈ toks, t.line < 2 ^ 31) →
      toks.length ≤ 4096 →
      load_tokens (Phase1.tokens_txt toks) = .ok (toks.map loaded_token) ∧
      ∀ t ∈ toks, same_kind t.type = some (loaded_token t).type) := by
  have hsame : ∀ tok : Phase1.Token, Phase1.known_kind tok →
      same_kind tok.type = some (loaded_token tok).type := by
    intro tok hk
    obtain ⟨ty, lexeme, line⟩ := tok
    unfold Phase1.known_kind at hk
    cases ty <;> simp [loaded_token, loaded_kind, same_kind] at hk ⊢
  have heof : ∀ line : Nat,
      Phase1.plain_lexeme (Phase1.make_token .TOK_EOF "EOF".data line).lexeme :=
    fun line => Phase1.make_token_plain _ _ _ (by decide)
  refine ⟨?_, ?_, ?_⟩
  · intro st st2 tok hscan hk _
    exact ⟨Phase2.load_plain_token tok (Phase1.scan_token_plain st st2 tok hscan hk), hsame tok hk⟩
  · intro line _
    exact Phase2.load_plain_token _ (heof line)
  · intro fuel source toks hmain hk hl hlen
    refine ⟨?_, fun t ht => hsame t (hk t ht)⟩
    unfold Phase1.main at hmain
    split at hmain
    · rename_i body st hloop
      injection hmain with hmain
      subst hmain
      unfold load_tokens
      apply Phase2.load_printed_tokens _ 0 _ _ (by omega)
      · intro t ht
        refine ⟨hk t ht, ?_, hl t ht⟩
        rcases List.mem_append.1 ht with h | h
        · exact Phase1.main_loop_plain fuel _ _ _ hloop t h (hk t ht)
        · rw [List.mem_singleton.1 h]
          exact heof _
      · exact Phase1.eof_only_last_snoc _ _ (Phase1.main_loop_no_eof fuel _ _ _ hloop)
    · cases hmain
    · cases hmain

theorem C32_token_file_round_trip_witness :
    load_tokens (Phase1.tokens_txt
      [⟨.TOK_KEYWORD, "int", 1⟩, ⟨.TOK_IDENTIFIER, "x", 1⟩, ⟨.TOK_PUNCTUATION, ";", 1⟩,
       ⟨.TOK_EOF, "EOF", 2⟩]) =
      .ok ([⟨.TOK_KEYWORD, "int", 1⟩, ⟨.TOK_IDENTIFIER, "x", 1⟩, ⟨.TOK_PUNCTUATION, ";", 1⟩,
            ⟨.TOK_EOF, "EOF", 2⟩].map loaded_token) ∧
    (Phase1.main_output 100 source_all_kinds).bind load_tokens = .ok tokens_all_kinds :=
  ⟨(C32_token_file_round_trip.2.2 10 "int x;\n"
      [⟨.TOK_KEYWORD, "int", 1⟩, ⟨.TOK_IDENTIFIER, "x", 1⟩, ⟨.TOK_PUNCTUATION, ";", 1⟩,
       ⟨.TOK_EOF, "EOF", 2⟩] (by decide) (by decide) (by decide) (by decide)).1,
   by decide⟩

/-! ### Lines of unknown kind in `tokens.txt` -/

/-- The loop of `preprocess_directive` stores no newline. -/
theorem Phase1.directive_loop_chars (input : List Char) :
    ∀ (line : Nat) (buffer : List Char), (∀ c ∈ buffer, c ≠ '\n') →
      ∀ c ∈ (Phase1.directive_loop input line buffer).1, c ≠ '\n' := by
  induction input with
  | nil => intro line buffer h; simpa [Phase1.directive_loop] using h
  | cons x rest ih =>
    intro line buffer h
    rw [Phase1.directive_loop]
    split
    · exact h
    · rename_i hx
      apply ih
      unfold Phase1.store_guarded
      split
      · intro c hc
        rcases List.mem_append.1 hc with hc | hc
        · exact h c hc
        · rw [List.mem_singleton.1 hc]
          exact fun e => hx (Or.inl e)
      · exact h

/-- Every token the lexer reads that is not a string literal has a lexeme of at
most 255 characters without newline. -/
theorem Phase1.scan_token_one_line (st st2 : Phase1.State) (tok : Phase1.Token)
    (h : Phase1.scan_token st = .ok (tok, st2)) (hk : tok.type ≠ .TOK_STRING_LITERAL) :
    tok.lexeme.length ≤ 255 ∧ ∀ c ∈ tok.lexeme.data, c ≠ '\n' := by
  by_cases hp : tok.type = .TOK_PREPROCESSOR
  · have hdir : ∀ s, Phase1.preprocess_directive s = .ok (tok, st2) →
        tok.lexeme.length ≤ 255 ∧ ∀ c ∈ tok.lexeme.data, c ≠ '\n' := by
      intro s hs
      simp only [Phase1.preprocess_directive, Outcome.ok.injEq, Prod.mk.injEq] at hs
      rw [← hs.1]
      constructor
      · show ((Phase1.c_string _).take 255).length ≤ 255
        rw [List.length_take]
        omega
      · intro c hc
        have hc2 : c ∈ (Phase1.directive_loop s.input s.line_number []).1 :=
          (List.takeWhile_sublist _).subset (List.mem_of_mem_take hc)
        exact Phase1.directive_loop_chars _ _ _ (fun x hx => absurd hx (List.not_mem_nil _)) c hc2
    have hop : ∀ s, Phase1.operator_or_punctuation s = .ok (tok, st2) →
        tok.lexeme.length ≤ 255 ∧ ∀ c ∈ tok.lexeme.data, c ≠ '\n' := by
      intro s hs
      have := Phase1.operator_plain s st2 tok hs
      exact ⟨this.1, fun c hc => (this.2 c hc).2⟩
    unfold Phase1.scan_token at h
    split at h
    · exact hop _ h
    · split at h
      · exact hdir _ h
      · split at h
        · unfold Phase1.string_literal at h
          dsimp only at h
          split at h
          · exact absurd h (by simp)
          · split at h
            · split at h
              · split at h
                · exact absurd h (by simp [Phase1.buffer_overflow])
                · simp only [Outcome.ok.injEq, Prod.mk.injEq] at h
                  rw [← h.1] at hk
                  exact absurd rfl hk
              · exact absurd h (by simp)
            · exact absurd h (by simp)
            · exact absurd h (by simp)
        · split at h
          · unfold Phase1.identifier_or_keyword at h
            dsimp only at h
            split at h <;>
            · simp only [Outcome.ok.injEq, Prod.mk.injEq] at h
              rw [← h.1] at hp
              cases hp
          · split at h
            · unfold Phase1.number_literal at h
              dsimp only at h
              split at h
              · split at h
                · exact absurd h (by simp [Phase1.buffer_overflow])
                · simp only [Outcome.ok.injEq, Prod.mk.injEq] at h
                  rw [← h.1] at hp
                  cases hp
              · split at h
                · exact absurd h (by simp [Phase1.buffer_overflow])
                · simp only [Outcome.ok.injEq, Prod.mk.injEq] at h
                  rw [← h.1] at hp
                  cases hp
            · exact hop _ h
  · have := Phase1.scan_token_plain st st2 tok h ⟨hk, hp⟩
    exact ⟨this.1, fun c hc => (this.2 c hc).2⟩

/-- The first token the lexer returns, when it is not the EOF token, was read by
`scan_token`. -/
theorem Phase1.first_token_scanned (fuel : Nat) (source : String) (tok : Phase1.Token)
    (rest : List Phase1.Token) (h : Phase1.main fuel source = .ok (tok :: rest))
    (hk : tok.type ≠ .TOK_EOF) : ∃ st st2, Phase1.scan_token st = .ok (tok, st2) := by
  unfold Phase1.main at h
  split at h
  · rename_i body st hloop
    injection h with h
    cases fuel with
    | zero => simp [Phase1.main_loop] at hloop
    | succ f =>
      rw [Phase1.main_loop] at hloop
      have hnil : body ≠ [] := by
        rintro rfl
        simp only [List.nil_append, List.cons.injEq] at h
        rw [← h.1] at hk
        exact hk rfl
      split at hloop
      · simp only [Outcome.ok.injEq, Prod.mk.injEq] at hloop
        exact absurd hloop.1.symm hnil
      · split at hloop
        · split at hloop
          · simp only [Outcome.ok.injEq, Prod.mk.injEq] at hloop
            exact absurd hloop.1.symm hnil
          · split at hloop
            · rename_i st1 _ _ tok1 st3 hscan
              split at hloop
              · simp only [Outcome.ok.injEq, Prod.mk.injEq] at hloop
                rw [← hloop.1] at h
                simp only [List.cons_append, List.cons.injEq] at h
                rw [h.1] at hscan
                exact ⟨_, _, hscan⟩
              · cases hloop
              · cases hloop
            · cases hloop
            · cases hloop
        · cases hloop
        · cases hloop
  · cases h
  · cases h

/-- The loop of `load_tokens` does not read past a line that gives a token of type
`TOK_EOF_TOKEN`. -/
theorem Phase2.load_stops (l : List Char) (tok : Token) (post : List (List Char))
    (hl : load_token_line l = .ok tok) (he : tok.type = TOK_EOF_TOKEN) :
    ∀ (pre : List (List Char)) (count : Nat),
      load_tokens_loop (pre ++ l :: post) count = load_tokens_loop (pre ++ [l]) count := by
  intro pre
  induction pre with
  | nil =>
    intro count
    simp only [List.nil_append, load_tokens_loop, hl, he, if_true]
  | cons p rest ih =>
    intro count
    show load_tokens_loop (p :: (rest ++ l :: post)) count =
      load_tokens_loop (p :: (rest ++ [l])) count
    rw [load_tokens_loop, load_tokens_loop, ih (count + 1)]

/-- In the array `load_tokens` returns only the last token can have type
`TOK_EOF_TOKEN`. -/
theorem Phase2.loaded_eof_last : ∀ (chunks : List (List Char)) (count : Nat) (toks : List Token),
    load_tokens_loop chunks count = .ok toks → ∀ t ∈ toks.dropLast, t.type ≠ TOK_EOF_TOKEN := by
  intro chunks
  induction chunks with
  | nil =>
    intro count toks h
    simp only [load_tokens_loop, Outcome.ok.injEq] at h
    rw [← h]
    simp
  | cons l rest ih =>
    intro count toks h
    rw [load_tokens_loop] at h
    split at h
    · cases h
    · split at h
      · rename_i tok hl
        split at h
        · injection h with h
          rw [← h]
          simp
        · rename_i hne
          split at h
          · rename_i toks2 hrec
            injection h with h
            rw [← h]
            intro t ht
            cases toks2 with
            | nil => simp at ht
            | cons a r =>
              rw [List.dropLast_cons₂] at ht
              rcases List.mem_cons.1 ht with ht | ht
              · rw [ht]
                exact hne
              · exact ih _ _ hrec t ht
          · cases h
          · cases h
      · cases h
      · cases h

/-- The parser on a token array that starts with a token of type `TOK_EOF_TOKEN`
writes an empty `ast.txt`. -/
theorem Phase2.parser_main_eof_first (f : Nat) (t : Token) (rest : List Token)
    (h : t.type = TOK_EOF_TOKEN) : parser_main (f + 1) (t :: rest) = .ok "" := by
  unfold parser_main parse_program
  rw [parse_program_loop]
  simp only [h, if_true, Outcome.ok_bind]
  rfl

/-- C37: `token_type_from_string` gives `TOK_EOF_TOKEN` for `STRING_LITERAL`, for
`PREPROCESSOR` and for every name that is not one of the six kinds the parser
knows.  The loop of `load_tokens` stops at the first line that gives a token of
that type: the lines after it are not read, and in the array it returns no
token but the last has that type.  The parser on an array whose first token has
that type writes an empty `ast.txt` and reports no error: so does the parser on
the `tokens.txt` written for any token list that starts with a token of a kind
the parser does not know, its lexeme being on one line, and the lexer followed
by the parser on every source whose first token is a preprocessor directive.
(For line numbers below `2 ^ 31`.) -/
theorem C37_unknown_kind_ends_loading :
    (token_type_from_string "STRING_LITERAL" = TOK_EOF_TOKEN ∧
     token_type_from_string "PREPROCESSOR" = TOK_EOF_TOKEN ∧
     ∀ s, s ∉ ["KEYWORD", "IDENTIFIER", "INT_LITERAL", "FLOAT_LITERAL", "OPERATOR",
               "PUNCTUATION"] → token_type_from_string s = TOK_EOF_TOKEN) ∧
    (∀ (pre post : List (List Char)) (l : List Char) (tok : Token) (count : Nat),
      load_token_line l = .ok tok → tok.type = TOK_EOF_TOKEN →
      load_tokens_loop (pre ++ l :: post) count = load_tokens_loop (pre ++ [l]) count) ∧
    (∀ (file : String) (toks : List Token), load_tokens file = .ok toks →
      ∀ t ∈ toks.dropLast, t.type ≠ TOK_EOF_TOKEN) ∧
    (∀ (f : Nat) (t : Token) (rest : List Token), t.type = TOK_EOF_TOKEN →
      parser_main (f + 1) (t :: rest) = .ok "") ∧
    (∀ (f : Nat) (tok : Phase1.Token) (rest : List Phase1.Token),
      same_kind tok.type = none → tok.line < 2 ^ 31 → tok.lexeme.length ≤ 255 →
      (∀ c ∈ tok.lexeme.data, c ≠ '\n') →
      Phase2.main (f + 1) (Phase1.tokens_txt (tok :: rest)) = .ok "") ∧
    (∀ (lfuel f : Nat) (source : String) (tok : Phase1.Token) (rest : List Phase1.Token),
      Phase1.main lfuel source = .ok (tok :: rest) → tok.type = .TOK_PREPROCESSOR →
      tok.line < 2 ^ 31 → ast_of_source lfuel (f + 1) source = .ok "") := by
  have hfile : ∀ (f : Nat) (tok : Phase1.Token) (rest : List Phase1.Token),
      same_kind tok.type = none → tok.line < 2 ^ 31 → tok.lexeme.length ≤ 255 →
      (∀ c ∈ tok.lexeme.data, c ≠ '\n') →
      Phase2.main (f + 1) (Phase1.tokens_txt (tok :: rest)) = .ok "" := by
    intro f tok rest hk hl hlen hnl
    have hkind : loaded_kind tok.type = TOK_EOF_TOKEN := by
      unfold loaded_kind
      rw [hk]
    unfold Phase2.main load_tokens
    rw [Phase1.tokens_txt, String.data_append, Phase1.print_token_chunk tok _ hl hlen hnl,
      load_tokens_loop, if_neg (by omega), Phase2.load_printed_token]
    simp only [hkind, if_true]
    exact Phase2.parser_main_eof_first f _ _ rfl
  refine ⟨⟨by decide, by decide, ?_⟩, ?_, ?_, Phase2.parser_main_eof_first, hfile, ?_⟩
  · intro s hs
    simp only [List.mem_cons, List.mem_singleton, List.not_mem_nil, or_false, not_or] at hs
    unfold token_type_from_string
    simp only [hs.1, hs.2.1, hs.2.2.1, hs.2.2.2.1, hs.2.2.2.2.1, hs.2.2.2.2.2, if_false]
    split <;> rfl
  · intro pre post l tok count hl he
    exact Phase2.load_stops l tok post hl he pre count
  · intro file toks h
    exact Phase2.loaded_eof_last _ _ toks h
  · intro lfuel f source tok rest hmain hty hl
    obtain ⟨st, st2, hscan⟩ := Phase1.first_token_scanned lfuel source tok rest hmain
      (by rw [hty]; decide)
    have hone := Phase1.scan_token_one_line st st2 tok hscan (by rw [hty]; decide)
    unfold ast_of_source Phase1.main_output
    rw [hmain]
    exact hfile f tok rest (by rw [hty]; rfl) hl hone.1 hone.2

theorem C37_unknown_kind_ends_loading_witness :
    load_tokens_loop ([] ++ "[line:1] PREPROCESSOR     \"include <stdio.h>\"\n".data ::
        ["[line:2] KEYWORD          \"int\"\n".data, "[line:2] EOF \"EOF\"\n".data]) 0 =
      load_tokens_loop ([] ++ ["[line:1] PREPROCESSOR     \"include <stdio.h>\"\n".data]) 0 ∧
    (Phase1.main_output 100 source_with_directive).bind load_tokens =
      .ok [⟨TOK_EOF_TOKEN, "include <stdio.h>", 1⟩] ∧
    ast_of_source 100 (0 + 1) source_with_directive = .ok "" ∧
    ast_of_source 100 100 source_without_directive =
      .ok "FunctionDefinition: main\n    Parameters:\n    Body:\n        Return: 0\n" ∧
    ast_of_source 100 100 source_with_string =
      .fail (some 2) "unexpected token '' in factor" :=
  ⟨C37_unknown_kind_ends_loading.2.1 []
      ["[line:2] KEYWORD          \"int\"\n".data, "[line:2] EOF \"EOF\"\n".data]
      "[line:1] PREPROCESSOR     \"include <stdio.h>\"\n".data
      ⟨TOK_EOF_TOKEN, "include <stdio.h>", 1⟩ 0 (by decide) (by decide),
   by decide,
   C37_unknown_kind_ends_loading.2.2.2.2.2 100 0 source_with_directive
      ⟨.TOK_PREPROCESSOR, "include <stdio.h>", 1⟩
      [⟨.TOK_KEYWORD, "int", 2⟩, ⟨.TOK_IDENTIFIER, "main", 2⟩, ⟨.TOK_PUNCTUATION, "(", 2⟩,
       ⟨.TOK_PUNCTUATION, ")", 2⟩, ⟨.TOK_PUNCTUATION, "\x7b", 2⟩, ⟨.TOK_KEYWORD, "return", 2⟩,
       ⟨.TOK_INT_LITERAL, "0", 2⟩, ⟨.TOK_PUNCTUATION, ";", 2⟩, ⟨.TOK_PUNCTUATION, "\x7d", 2⟩,
       ⟨.TOK_EOF, "EOF", 3⟩] (by decide) rfl (by decide),
   by decide, by decide⟩

/-! ### The parser reads what it consumes and looks one token ahead -/

/-! ### The parser reads no further than one token ahead -/

theorem Phase2.looks_same_refl (t : Token) : looks_same t t := Or.inl rfl

theorem Phase2.same_next_refl (r : Cursor) : same_next r r := by
  cases r with
  | nil => rfl
  | cons t rest => exact ⟨t, rest, rfl, Or.inl rfl⟩

theorem Phase2.same_next_cons (c : Token) (a b : Cursor) : same_next (c :: a) (c :: b) :=
  ⟨c, b, rfl, Or.inl rfl⟩

theorem Phase2.same_next_append (pre a b : Cursor) (h : same_next a b) :
    same_next (pre ++ a) (pre ++ b) := by
  cases pre with
  | nil => exact h
  | cons c rest => exact Phase2.same_next_cons c _ _

/-- A return type keyword fails every test of the parser for another type or
another lexeme. -/
theorem Phase2.looks_same_is (t t' : Token) (h : looks_same t t') (ty : TokenType) (lex : String)
    (hne : ty ≠ TOK_KEYWORD ∨ (lex ≠ "int" ∧ lex ≠ "float" ∧ lex ≠ "void")) :
    t'.is ty lex = t.is ty lex := by
  rcases h with h | ⟨h1, h2⟩
  · rw [h]
  · have key : ∀ x : Token, is_return_type x = true → x.is ty lex = false := by
      intro x hx
      obtain ⟨xt, xl, xn⟩ := x
      simp only [is_return_type, Token.is, Bool.or_eq_true, Bool.and_eq_true,
        decide_eq_true_eq] at hx
      simp only [Token.is, Bool.and_eq_false_iff, decide_eq_false_iff_not]
      rcases hne with hne | hne
      · left
        rcases hx with (hx | hx) | hx <;> rw [hx.1] <;> exact fun e => hne e.symm
      · right
        rcases hx with (hx | hx) | hx <;> rw [hx.2]
        · exact fun e => hne.1 e.symm
        · exact fun e => hne.2.1 e.symm
        · exact fun e => hne.2.2 e.symm
    rw [key t h1, key t' h2]

theorem Phase2.looks_same_type (t t' : Token) (h : looks_same t t') : t'.type = t.type := by
  rcases h with h | ⟨h1, h2⟩
  · rw [h]
  · have key : ∀ x : Token, is_return_type x = true → x.type = TOK_KEYWORD := by
      intro x hx
      simp only [is_return_type, Token.is, Bool.or_eq_true, Bool.and_eq_true,
        decide_eq_true_eq] at hx
      rcases hx with (hx | hx) | hx <;> exact hx.1
    rw [key t h1, key t' h2]

theorem Phase2.looks_same_mul (t t' : Token) (h : looks_same t t') :
    is_mul_op t' = is_mul_op t := by
  rcases h with h | ⟨h1, h2⟩
  · rw [h]
  · have h3 := Phase2.looks_same_type t t' (Or.inr ⟨h1, h2⟩)
    have h4 := Phase2.looks_same_type t t (Or.inr ⟨h1, h1⟩)
    have key : ∀ x : Token, is_return_type x = true → is_mul_op x = false := by
      intro x hx
      have : x.type = TOK_KEYWORD := by
        simp only [is_return_type, Token.is, Bool.or_eq_true, Bool.and_eq_true,
          decide_eq_true_eq] at hx
        rcases hx with (hx | hx) | hx <;> exact hx.1
      simp [is_mul_op, this]
    rw [key t h1, key t' h2]

theorem Phase2.looks_same_add (t t' : Token) (h : looks_same t t') :
    is_add_op t' = is_add_op t := by
  rcases h with h | ⟨h1, h2⟩
  · rw [h]
  · have key : ∀ x : Token, is_return_type x = true → is_add_op x = false := by
      intro x hx
      have : x.type = TOK_KEYWORD := by
        simp only [is_return_type, Token.is, Bool.or_eq_true, Bool.and_eq_true,
          decide_eq_true_eq] at hx
        rcases hx with (hx | hx) | hx <;> exact hx.1
      simp [is_add_op, this]
    rw [key t h1, key t' h2]

theorem Phase2.looks_same_cmp (t t' : Token) (h : looks_same t t') :
    is_cmp_op t' = is_cmp_op t := by
  rcases h with h | ⟨h1, h2⟩
  · rw [h]
  · have key : ∀ x : Token, is_return_type x = true → is_cmp_op x = false := by
      intro x hx
      have : x.type = TOK_KEYWORD := by
        simp only [is_return_type, Token.is, Bool.or_eq_true, Bool.and_eq_true,
          decide_eq_true_eq] at hx
        rcases hx with (hx | hx) | hx <;> exact hx.1
      simp [is_cmp_op, this]
    rw [key t h1, key t' h2]

/-- The tokens consumed begin with the first token of the input. -/
theorem Phase2.consumed_cons (t : Token) (rest pre r : Cursor) (h : t :: rest = pre ++ r)
    (hk : 1 ≤ pre.length) : ∃ pre1, pre = t :: pre1 ∧ rest = pre1 ++ r := by
  cases pre with
  | nil => simp at hk
  | cons a pre1 =>
    simp only [List.cons_append, List.cons.injEq] at h
    exact ⟨pre1, by rw [h.1], h.2⟩

/-- Function `expect_token` returns when the next token is the expected one, which it
consumes. -/
theorem Phase2.expect_token_ok (ty : TokenType) (lex : String) (r1 r2 : Cursor)
    (h : expect_token ty lex r1 = .ok r2) : ∃ c, r1 = c :: r2 ∧ c.is ty lex = true := by
  unfold expect_token at h
  split at h
  · cases h
  · rename_i c rest
    split at h
    · rename_i hc
      injection h with h
      exact ⟨c, by rw [h], hc⟩
    · cases h

theorem Phase2.expect_token_cons (ty : TokenType) (lex : String) (c : Token) (r : Cursor)
    (h : c.is ty lex = true) : expect_token ty lex (c :: r) = .ok r := by
  simp only [expect_token, h, if_true]

theorem Phase2.expect_keyword_ok (kw : String) (r1 r2 : Cursor)
    (h : expect_keyword kw r1 = .ok r2) : ∃ c, r1 = c :: r2 ∧ c.is TOK_KEYWORD kw = true := by
  unfold expect_keyword at h
  split at h
  · cases h
  · rename_i c rest
    split at h
    · rename_i hc
      injection h with h
      exact ⟨c, by rw [h], hc⟩
    · cases h

theorem Phase2.expect_keyword_cons (kw : String) (c : Token) (r : Cursor)
    (h : c.is TOK_KEYWORD kw = true) : expect_keyword kw (c :: r) = .ok r := by
  simp only [expect_keyword, h, if_true]

/-- A run that reads `pre1`, followed by a run that reads on from where the first
one stopped. -/
theorem Phase2.reads_bind {α β : Type} (k1 k2 : Nat)
    (A : Cursor → Outcome (α × Cursor)) (B : α → Cursor → Outcome (β × Cursor))
    (toks : Cursor) (a : α) (r1 : Cursor) (q : β × Cursor)
    (hA : Reads k1 A toks (a, r1)) (hB : Reads k2 (B a) r1 q) :
    Reads (k1 + k2) (fun c => A c >>= fun p => B p.1 p.2) toks q := by
  obtain ⟨pre1, h1, hk1, hr1⟩ := hA
  obtain ⟨pre2, h2, hk2, hr2⟩ := hB
  refine ⟨pre1 ++ pre2, ?_, ?_, ?_⟩
  · rw [h1, List.append_assoc]
    exact congrArg _ h2
  · rw [List.length_append]
    omega
  · intro r' hr'
    show (A (pre1 ++ pre2 ++ r') >>= fun p => B p.1 p.2) = _
    rw [List.append_assoc, hr1 (pre2 ++ r') (by
      show same_next r1 (pre2 ++ r')
      rw [h2]
      exact Phase2.same_next_append pre2 _ _ hr'), Outcome.ok_bind]
    exact hr2 r' hr'

/-- A run that behaves on every cursor as another one reads what that one reads. -/
theorem Phase2.reads_congr {α : Type} (k : Nat) (A B : Cursor → Outcome (α × Cursor))
    (toks : Cursor) (p : α × Cursor) (h : Reads k A toks p)
    (heq : ∀ pre r', toks = pre ++ p.2 → k ≤ pre.length → same_next p.2 r' →
      B (pre ++ r') = A (pre ++ r')) : Reads k B toks p := by
  obtain ⟨pre, h1, hk, hr⟩ := h
  exact ⟨pre, h1, hk, fun r' hr' => (heq pre r' h1 hk hr').trans (hr r' hr')⟩

theorem Phase2.reads_weaken {α : Type} (k j : Nat) (A : Cursor → Outcome (α × Cursor))
    (toks : Cursor) (p : α × Cursor) (h : Reads k A toks p) (hj : j ≤ k) : Reads j A toks p := by
  obtain ⟨pre, h1, hk, hr⟩ := h
  exact ⟨pre, h1, by omega, hr⟩

/-- A run that returns at once has read nothing. -/
theorem Phase2.reads_nothing {α : Type} (A : Cursor → Outcome (α × Cursor)) (x : α)
    (toks : Cursor) (h : ∀ r', same_next toks r' → A r' = .ok (x, r')) :
    Reads 0 A toks (x, toks) :=
  ⟨[], rfl, Nat.le_refl _, h⟩

/-- A run that consumes one token and goes on as another run reads one token
more than that run. -/
theorem Phase2.reads_cons {α : Type} (k : Nat) (A B : Cursor → Outcome (α × Cursor))
    (t : Token) (rest : Cursor) (q : α × Cursor) (h : Reads k A rest q)
    (heq : ∀ pre1 r', rest = pre1 ++ q.2 → k ≤ pre1.length → same_next q.2 r' →
      B (t :: (pre1 ++ r')) = A (pre1 ++ r')) : Reads (k + 1) B (t :: rest) q := by
  obtain ⟨pre1, h1, hk, hr⟩ := h
  refine ⟨t :: pre1, by rw [h1]; rfl, by simp only [List.length_cons]; omega, ?_⟩
  intro r' hr'
  exact (heq pre1 r' h1 hk hr').trans (hr r' hr')

/-- One level of the expression grammar: an operand, then the loop over the
operators of the level. -/
theorem Phase2.level_reads (sub P : Cursor → Outcome (ASTNode × Cursor))
    (loop : ASTNode → Cursor → Outcome (ASTNode × Cursor))
    (hP : ∀ c, P c = sub c >>= fun p => loop p.1 p.2)
    (hsub : ∀ c p, sub c = .ok p → Reads 1 sub c p)
    (hloop : ∀ n c p, loop n c = .ok p → Reads 0 (loop n) c p) :
    ∀ c q, P c = .ok q → Reads 1 P c q := by
  intro c q h
  rw [hP] at h
  cases hA : sub c with
  | fuel => rw [hA] at h; cases h
  | fail l m => rw [hA] at h; cases h
  | ok p =>
    obtain ⟨node, r1⟩ := p
    rw [hA, Outcome.ok_bind] at h
    have := Phase2.reads_bind 1 0 sub loop c node r1 q (hsub c _ hA) (hloop node r1 q h)
    exact Phase2.reads_congr 1 _ P c q this (fun pre r' _ _ _ => hP _)

/-- The loop of one level of the expression grammar. -/
theorem Phase2.loop_reads (sub : Cursor → Outcome (ASTNode × Cursor))
    (loop L : ASTNode → Cursor → Outcome (ASTNode × Cursor))
    (test : Token → Bool) (mk : Token → ASTNode → ASTNode → ASTNode)
    (hnil : ∀ n, L n [] = .ok (n, []))
    (hstep : ∀ n op rest, test op = true →
      L n (op :: rest) = sub rest >>= fun p => loop (mk op n p.1) p.2)
    (hstop : ∀ n op rest, test op = false → L n (op :: rest) = .ok (n, op :: rest))
    (htest : ∀ t t', looks_same t t' → test t' = test t)
    (hsub : ∀ c p, sub c = .ok p → Reads 1 sub c p)
    (hloop : ∀ n c p, loop n c = .ok p → Reads 0 (loop n) c p) :
    ∀ n c q, L n c = .ok q → Reads 0 (L n) c q := by
  intro n c q h
  cases c with
  | nil =>
    rw [hnil] at h
    injection h with h
    rw [← h]
    apply Phase2.reads_nothing
    intro r' hr'
    have : r' = [] := hr'
    rw [this]
    exact hnil n
  | cons op rest =>
    cases ht : test op with
    | true =>
      rw [hstep n op rest ht] at h
      cases hA : sub rest with
      | fuel => rw [hA] at h; cases h
      | fail l m => rw [hA] at h; cases h
      | ok p =>
        obtain ⟨rhs, r1⟩ := p
        rw [hA, Outcome.ok_bind] at h
        have hb := Phase2.reads_bind 1 0 sub (fun x => loop (mk op n x)) rest rhs r1 q
          (hsub rest _ hA) (hloop _ r1 q h)
        have hc := Phase2.reads_cons (1 + 0) _ (L n) op rest q hb
          (fun pre1 r' _ _ _ => hstep n op _ ht)
        exact Phase2.reads_weaken _ 0 _ _ _ hc (by omega)
    | false =>
      rw [hstop n op rest ht] at h
      injection h with h
      rw [← h]
      apply Phase2.reads_nothing
      intro r' hr'
      obtain ⟨t', rest', rfl, hl⟩ := hr'
      exact hstop n t' rest' ((htest op t' hl).trans ht)

/-- A run that consumes the tokens `front` and goes on as another run. -/
theorem Phase2.reads_prepend {α : Type} (k : Nat) (A B : Cursor → Outcome (α × Cursor))
    (front rest : Cursor) (q : α × Cursor) (h : Reads k A rest q)
    (heq : ∀ pre1 r', rest = pre1 ++ q.2 → k ≤ pre1.length → same_next q.2 r' →
      B (front ++ (pre1 ++ r')) = A (pre1 ++ r')) :
    Reads (k + front.length) B (front ++ rest) q := by
  obtain ⟨pre1, h1, hk, hr⟩ := h
  refine ⟨front ++ pre1, by rw [h1, List.append_assoc], by rw [List.length_append]; omega, ?_⟩
  intro r' hr'
  rw [List.append_assoc]
  exact (heq pre1 r' h1 hk hr').trans (hr r' hr')

/-- A run followed by a change of the node it returns. -/
theorem Phase2.reads_map {α β : Type} (k : Nat) (A : Cursor → Outcome (α × Cursor)) (g : α → β)
    (toks : Cursor) (a : α) (r : Cursor) (h : Reads k A toks (a, r)) :
    Reads k (fun c => A c >>= fun p => (.ok (g p.1, p.2) : Outcome (β × Cursor))) toks (g a, r) := by
  obtain ⟨pre, h1, hk, hr⟩ := h
  refine ⟨pre, h1, hk, ?_⟩
  intro r' hr'
  show (A (pre ++ r') >>= fun p => (.ok (g p.1, p.2) : Outcome (β × Cursor))) = _
  rw [hr r' hr', Outcome.ok_bind]

/-- A run followed by `expect_token`. -/
theorem Phase2.reads_expect {α : Type} (k : Nat) (A : Cursor → Outcome (α × Cursor))
    (ty : TokenType) (lex : String) (toks : Cursor) (a : α) (r1 r2 : Cursor)
    (h : Reads k A toks (a, r1)) (he : expect_token ty lex r1 = .ok r2) :
    Reads (k + 1)
      (fun c => A c >>= fun p => expect_token ty lex p.2 >>= fun r =>
        (.ok (p.1, r) : Outcome (α × Cursor))) toks (a, r2) := by
  obtain ⟨pre, h1, hk, hr⟩ := h
  obtain ⟨c, hc, hcis⟩ := Phase2.expect_token_ok ty lex r1 r2 he
  refine ⟨pre ++ [c], ?_, by rw [List.length_append]; simp only [List.length_singleton]; omega,
    ?_⟩
  · show toks = pre ++ [c] ++ r2
    rw [h1, List.append_assoc]
    exact congrArg _ hc
  · intro r' _
    show (A (pre ++ [c] ++ r') >>= fun p => expect_token ty lex p.2 >>= fun r =>
        (.ok (p.1, r) : Outcome (α × Cursor))) = _
    rw [List.append_assoc, hr ([c] ++ r') (by
      show same_next r1 (c :: r')
      rw [hc]
      exact Phase2.same_next_cons c _ _), Outcome.ok_bind]
    show (expect_token ty lex (c :: r') >>= fun r => (.ok (a, r) : Outcome (α × Cursor))) = _
    rw [Phase2.expect_token_cons ty lex c r' hcis, Outcome.ok_bind]

/-- The test for a cast looks at three tokens. -/
theorem Phase2.is_cast_start_consumed (t : Token) (pre1 a b : Cursor) (h : 2 ≤ pre1.length) :
    is_cast_start (t :: (pre1 ++ a)) = is_cast_start (t :: (pre1 ++ b)) := by
  match pre1, h with
  | x :: y :: z, _ => rfl

/-- The expression parser reads what it consumes and looks one token ahead. -/
theorem Phase2.expression_local (f : Nat) :
    (∀ toks q, parse_factor f toks = .ok q → Reads 1 (parse_factor f) toks q) ∧
    (∀ toks q, parse_function_call f toks = .ok q → Reads 2 (parse_function_call f) toks q) ∧
    (∀ call toks q, parse_call_args f call toks = .ok q →
      Reads 0 (parse_call_args f call) toks q) ∧
    (∀ toks q, parse_term f toks = .ok q → Reads 1 (parse_term f) toks q) ∧
    (∀ node toks q, parse_term_loop f node toks = .ok q →
      Reads 0 (parse_term_loop f node) toks q) ∧
    (∀ toks q, parse_add_sub f toks = .ok q → Reads 1 (parse_add_sub f) toks q) ∧
    (∀ node toks q, parse_add_sub_loop f node toks = .ok q →
      Reads 0 (parse_add_sub_loop f node) toks q) ∧
    (∀ toks q, parse_comparison f toks = .ok q → Reads 1 (parse_comparison f) toks q) ∧
    (∀ node toks q, parse_comparison_loop f node toks = .ok q →
      Reads 0 (parse_comparison_loop f node) toks q) ∧
    (∀ toks q, parse_logical_and f toks = .ok q → Reads 1 (parse_logical_and f) toks q) ∧
    (∀ node toks q, parse_logical_and_loop f node toks = .ok q →
      Reads 0 (parse_logical_and_loop f node) toks q) ∧
    (∀ toks q, parse_logical_or f toks = .ok q → Reads 1 (parse_logical_or f) toks q) ∧
    (∀ node toks q, parse_logical_or_loop f node toks = .ok q →
      Reads 0 (parse_logical_or_loop f node) toks q) := by
  induction f with
  | zero =>
    refine ⟨?_, ?_, ?_, ?_, ?_, ?_, ?_, ?_, ?_, ?_, ?_, ?_, ?_⟩
    · intro toks q h; rw [parse_factor] at h; cases h
    · intro toks q h; rw [parse_function_call] at h; cases h
    · intro call toks q h; rw [parse_call_args] at h; cases h
    · intro toks q h; rw [parse_term] at h; cases h
    · intro node toks q h; rw [parse_term_loop] at h; cases h
    · intro toks q h; rw [parse_add_sub] at h; cases h
    · intro node toks q h; rw [parse_add_sub_loop] at h; cases h
    · intro toks q h; rw [parse_comparison] at h; cases h
    · intro node toks q h; rw [parse_comparison_loop] at h; cases h
    · intro toks q h; rw [parse_logical_and] at h; cases h
    · intro node toks q h; rw [parse_logical_and_loop] at h; cases h
    · intro toks q h; rw [parse_logical_or] at h; cases h
    · intro node toks q h; rw [parse_logical_or_loop] at h; cases h
  | succ f ih =>
    obtain ⟨ih_factor, ih_call, ih_args, ih_term, ih_term_loop, ih_add, ih_add_loop, ih_cmp,
      ih_cmp_loop, ih_and, ih_and_loop, ih_or, ih_or_loop⟩ := ih
    refine ⟨?_, ?_, ?_, ?_, ?_, ?_, ?_, ?_, ?_, ?_, ?_, ?_, ?_⟩
    · -- parse_factor
      intro toks q h
      rw [parse_factor.eq_def] at h
      dsimp only at h
      split at h
      · cases h
      rename_i t rest
      by_cases hcast : is_cast_start (t :: rest) = true
      · rw [if_pos hcast] at h
        split at h
        · rename_i type_tok rest1
          cases he : expect_token TOK_PUNCTUATION ")" rest1 with
          | fuel => rw [he] at h; cases h
          | fail l m => rw [he] at h; cases h
          | ok rest2 =>
            rw [he, Outcome.ok_bind] at h
            cases hf : parse_factor f rest2 with
            | fuel => rw [hf] at h; cases h
            | fail l m => rw [hf] at h; cases h
            | ok p =>
              obtain ⟨e, r3⟩ := p
              rw [hf, Outcome.ok_bind] at h
              injection h with h
              subst h
              obtain ⟨c, hc, hcis⟩ := Phase2.expect_token_ok _ _ _ _ he
              subst hc
              have hm := Phase2.reads_map 1 (parse_factor f)
                (fun x => node_list_append (ast_new_node NODE_BINOP
                  (some (CStr.strncpy 63 ("Cast(" ++ type_tok.lexeme ++ ")")))) x)
                rest2 e r3 (ih_factor _ _ hf)
              have hp := Phase2.reads_prepend 1 _ (parse_factor (f + 1)) [t, type_tok, c] rest2 _ hm
                (fun pre1 r' _ _ _ => by
                  show parse_factor (f + 1) (t :: type_tok :: c :: (pre1 ++ r')) = _
                  rw [parse_factor.eq_def]
                  dsimp only
                  rw [if_pos (show is_cast_start (t :: type_tok :: c :: (pre1 ++ r')) = true
                    from hcast), Phase2.expect_token_cons _ _ c _ hcis, Outcome.ok_bind])
              exact Phase2.reads_weaken _ 1 _ _ _ hp (by simp)
        · cases h
      rw [if_neg hcast] at h
      by_cases hparen : t.is TOK_PUNCTUATION "(" = true
      · rw [if_pos hparen] at h
        cases ho : parse_logical_or f rest with
        | fuel => rw [ho] at h; cases h
        | fail l m => rw [ho] at h; cases h
        | ok p =>
          obtain ⟨e, r1⟩ := p
          rw [ho, Outcome.ok_bind] at h
          cases he : expect_token TOK_PUNCTUATION ")" r1 with
          | fuel => rw [he] at h; cases h
          | fail l m => rw [he] at h; cases h
          | ok r2 =>
            rw [he, Outcome.ok_bind] at h
            injection h with h
            subst h
            have hx := Phase2.reads_expect 1 (parse_logical_or f) TOK_PUNCTUATION ")" rest e r1 r2
              (ih_or _ _ ho) he
            have hp := Phase2.reads_cons (1 + 1) _ (parse_factor (f + 1)) t rest _ hx
              (fun pre1 r' hpre hlen _ => by
                rw [parse_factor.eq_def]
                dsimp only
                have hc2 : is_cast_start (t :: (pre1 ++ r')) = false := by
                  rw [Phase2.is_cast_start_consumed t pre1 r' r2 hlen, ← hpre]
                  exact Bool.eq_false_iff.2 hcast
                rw [if_neg (by rw [hc2]; decide), if_pos hparen])
            exact Phase2.reads_weaken _ 1 _ _ _ hp (by omega)
      rw [if_neg hparen] at h
      have hnc : ∀ x, is_cast_start (t :: x) = false :=
        fun x => Phase2.is_cast_start_head t x (Bool.eq_false_iff.2 hparen)
      by_cases hnot : t.is TOK_OPERATOR "!" = true
      · rw [if_pos hnot] at h
        cases hf : parse_factor f rest with
        | fuel => rw [hf] at h; cases h
        | fail l m => rw [hf] at h; cases h
        | ok p =>
          obtain ⟨e, r1⟩ := p
          rw [hf, Outcome.ok_bind] at h
          injection h with h
          subst h
          have hm := Phase2.reads_map 1 (parse_factor f)
            (fun x => node_list_append (ast_new_node NODE_BINOP (some "BinOp(!)")) x)
            rest e r1 (ih_factor _ _ hf)
          have hp := Phase2.reads_cons 1 _ (parse_factor (f + 1)) t rest _ hm
            (fun pre1 r' _ _ _ => by
              rw [parse_factor.eq_def]
              dsimp only
              rw [if_neg (by rw [hnc]; decide), if_neg hparen, if_pos hnot])
          exact Phase2.reads_weaken _ 1 _ _ _ hp (by omega)
      rw [if_neg hnot] at h
      by_cases hnum : t.type = TOK_INT_LITERAL ∨ t.type = TOK_FLOAT_LITERAL
      · rw [if_pos hnum] at h
        injection h with h
        subst h
        refine ⟨[t], rfl, Nat.le_refl _, ?_⟩
        intro r' _
        show parse_factor (f + 1) (t :: r') = _
        rw [parse_factor.eq_def]
        dsimp only
        rw [if_neg (by rw [hnc]; decide), if_neg hparen, if_neg hnot, if_pos hnum]
      rw [if_neg hnum] at h
      by_cases hid : t.type = TOK_IDENTIFIER
      · rw [if_pos hid] at h
        have hvar : ∀ r', (∀ n x, r' = n :: x → n.is TOK_PUNCTUATION "(" = false) →
            parse_factor (f + 1) (t :: r') = .ok (ast_new_node NODE_VAR (some t.lexeme), r') := by
          intro r' hr'
          rw [parse_factor.eq_def]
          dsimp only
          rw [if_neg (by rw [hnc]; decide), if_neg hparen, if_neg hnot, if_neg hnum, if_pos hid]
          cases r' with
          | nil => rfl
          | cons n x =>
            dsimp only
            rw [if_neg (by rw [hr' n x rfl]; decide)]
        split at h
        · rename_i next rest2
          by_cases hcall : next.is TOK_PUNCTUATION "(" = true
          · rw [if_pos hcall] at h
            have hr := ih_call _ _ h
            refine Phase2.reads_weaken 2 1 _ _ _
              (Phase2.reads_congr 2 _ _ _ _ hr ?_) (by omega)
            intro pre r' hpre hlen _
            obtain ⟨pre1, rfl, hpre1⟩ := Phase2.consumed_cons t _ pre _ hpre (by omega)
            obtain ⟨pre2, rfl, _⟩ := Phase2.consumed_cons next _ pre1 _ hpre1
              (by simp only [List.length_cons] at hlen; omega)
            show parse_factor (f + 1) (t :: next :: (pre2 ++ r')) = _
            rw [parse_factor.eq_def]
            dsimp only
            rw [if_neg (by rw [hnc]; decide), if_neg hparen, if_neg hnot, if_neg hnum,
              if_pos hid, if_pos hcall]
            rfl
          · rw [if_neg hcall] at h
            injection h with h
            subst h
            refine ⟨[t], rfl, Nat.le_refl _, ?_⟩
            intro r' hr'
            obtain ⟨n', x', rfl, hl⟩ := hr'
            apply hvar
            intro n x hnx
            injection hnx with h1 h2
            subst h1
            rw [Phase2.looks_same_is next n' hl _ _ (Or.inl (by decide))]
            exact Bool.eq_false_iff.2 hcall
        · injection h with h
          subst h
          refine ⟨[t], rfl, Nat.le_refl _, ?_⟩
          intro r' hr'
          have : r' = [] := hr'
          subst this
          exact hvar [] (fun n x hnx => by cases hnx)
      rw [if_neg hid] at h
      cases h
    · -- parse_function_call
      intro toks q h
      rw [parse_function_call.eq_def] at h
      dsimp only at h
      split at h
      · cases h
      rename_i t rest
      by_cases hid : t.type ≠ TOK_IDENTIFIER
      · rw [if_pos hid] at h
        cases h
      rw [if_neg hid] at h
      cases he : expect_token TOK_PUNCTUATION "(" rest with
      | fuel => rw [he] at h; cases h
      | fail l m => rw [he] at h; cases h
      | ok rest1 =>
        rw [he, Outcome.ok_bind] at h
        cases ha : parse_call_args f (ast_new_node NODE_BINOP (some t.lexeme)) rest1 with
        | fuel => rw [ha] at h; cases h
        | fail l m => rw [ha] at h; cases h
        | ok p =>
          obtain ⟨call1, rest2⟩ := p
          rw [ha, Outcome.ok_bind] at h
          cases he2 : expect_token TOK_PUNCTUATION ")" rest2 with
          | fuel => rw [he2] at h; cases h
          | fail l m => rw [he2] at h; cases h
          | ok rest3 =>
            rw [he2, Outcome.ok_bind] at h
            injection h with h
            subst h
            obtain ⟨c, hc, hcis⟩ := Phase2.expect_token_ok _ _ _ _ he
            subst hc
            have hx := Phase2.reads_expect 0 _ TOK_PUNCTUATION ")" rest1 call1 rest2 rest3
              (ih_args _ _ _ ha) he2
            have hp := Phase2.reads_prepend (0 + 1) _ (parse_function_call (f + 1)) [t, c]
              rest1 _ hx
              (fun pre1 r' _ _ _ => by
                show parse_function_call (f + 1) (t :: c :: (pre1 ++ r')) = _
                rw [parse_function_call.eq_def]
                dsimp only
                rw [if_neg hid, Phase2.expect_token_cons _ _ c _ hcis, Outcome.ok_bind])
            exact Phase2.reads_weaken _ 2 _ _ _ hp (by simp)
    · -- parse_call_args
      intro call toks q h
      rw [parse_call_args.eq_def] at h
      dsimp only at h
      split at h
      · injection h with h
        subst h
        apply Phase2.reads_nothing
        intro r' hr'
        have : r' = [] := hr'
        subst this
        rw [parse_call_args]
      rename_i t rest
      by_cases hclose : t.is TOK_PUNCTUATION ")" = true
      · rw [if_pos hclose] at h
        injection h with h
        subst h
        apply Phase2.reads_nothing
        intro r' hr'
        obtain ⟨t', x', rfl, hl⟩ := hr'
        rw [parse_call_args.eq_def]
        dsimp only
        rw [if_pos (by rw [Phase2.looks_same_is t t' hl _ _ (Or.inl (by decide))]; exact hclose)]
      rw [if_neg hclose] at h
      cases ho : parse_logical_or f (t :: rest) with
      | fuel => rw [ho] at h; cases h
      | fail l m => rw [ho] at h; cases h
      | ok p =>
        obtain ⟨arg, r1⟩ := p
        rw [ho, Outcome.ok_bind] at h
        dsimp only at h
        -- the run after the argument
        have htail : Reads 0
            (fun c => match c with
              | c0 :: rest2 =>
                if c0.is TOK_PUNCTUATION "," = true then
                  parse_call_args f (node_list_append call arg) rest2
                else .ok (node_list_append call arg, c)
              | [] => .ok (node_list_append call arg, c)) r1 q := by
          split at h
          · rename_i c0 rest2
            by_cases hcomma : c0.is TOK_PUNCTUATION "," = true
            · rw [if_pos hcomma] at h
              have hr := ih_args _ _ _ h
              have hc := Phase2.reads_cons 0 _
                (fun c => match c with
                  | c0 :: rest2 =>
                    if c0.is TOK_PUNCTUATION "," = true then
                      parse_call_args f (node_list_append call arg) rest2
                    else .ok (node_list_append call arg, c)
                  | [] => .ok (node_list_append call arg, c)) c0 rest2 q hr
                (fun pre1 r' _ _ _ => by
                  dsimp only
                  rw [if_pos hcomma])
              exact Phase2.reads_weaken _ 0 _ _ _ hc (by omega)
            · rw [if_neg hcomma] at h
              injection h with h
              subst h
              apply Phase2.reads_nothing
              intro r' hr'
              obtain ⟨t', x', rfl, hl⟩ := hr'
              dsimp only
              rw [if_neg (by
                rw [Phase2.looks_same_is c0 t' hl _ _ (Or.inl (by decide))]
                exact hcomma)]
          · injection h with h
            subst h
            apply Phase2.reads_nothing
            intro r' hr'
            have : r' = [] := hr'
            subst this
            rfl
        have hb := Phase2.reads_bind 1 0 (parse_logical_or f)
          (fun a c => match c with
              | c0 :: rest2 =>
                if c0.is TOK_PUNCTUATION "," = true then
                  parse_call_args f (node_list_append call a) rest2
                else .ok (node_list_append call a, c)
              | [] => .ok (node_list_append call a, c)) (t :: rest) arg r1 q
          (ih_or _ _ ho) htail
        refine Phase2.reads_weaken 1 0 _ _ _ (Phase2.reads_congr (1 + 0) _ _ _ _ hb ?_) (by omega)
        intro pre r' hpre hlen _
        obtain ⟨pre1, rfl, _⟩ := Phase2.consumed_cons t _ pre _ hpre (by omega)
        show parse_call_args (f + 1) call (t :: (pre1 ++ r')) = _
        rw [parse_call_args.eq_def]
        dsimp only
        rw [if_neg hclose]
        rfl
    · exact Phase2.level_reads (parse_factor f) _ (parse_term_loop f)
        (fun c => by rw [parse_term]) ih_factor ih_term_loop
    · exact Phase2.loop_reads (parse_factor f) (parse_term_loop f) _ is_mul_op
        (fun op l r => binop_node (binop_text op.lexeme) l r)
        (fun n => by rw [parse_term_loop])
        (fun n op rest h => by rw [parse_term_loop.eq_def]; dsimp only; rw [if_pos h])
        (fun n op rest h => by
          rw [parse_term_loop.eq_def]; dsimp only; rw [if_neg (by rw [h]; decide)])
        Phase2.looks_same_mul ih_factor ih_term_loop
    · exact Phase2.level_reads (parse_term f) _ (parse_add_sub_loop f)
        (fun c => by rw [parse_add_sub]) ih_term ih_add_loop
    · exact Phase2.loop_reads (parse_term f) (parse_add_sub_loop f) _ is_add_op
        (fun op l r => binop_node (binop_text op.lexeme) l r)
        (fun n => by rw [parse_add_sub_loop])
        (fun n op rest h => by rw [parse_add_sub_loop.eq_def]; dsimp only; rw [if_pos h])
        (fun n op rest h => by
          rw [parse_add_sub_loop.eq_def]; dsimp only; rw [if_neg (by rw [h]; decide)])
        Phase2.looks_same_add ih_term ih_add_loop
    · exact Phase2.level_reads (parse_add_sub f) _ (parse_comparison_loop f)
        (fun c => by rw [parse_comparison]) ih_add ih_cmp_loop
    · exact Phase2.loop_reads (parse_add_sub f) (parse_comparison_loop f) _ is_cmp_op
        (fun op l r => binop_node (binop_text op.lexeme) l r)
        (fun n => by rw [parse_comparison_loop])
        (fun n op rest h => by
          rw [parse_comparison_loop.eq_def]; dsimp only; rw [if_pos h])
        (fun n op rest h => by
          rw [parse_comparison_loop.eq_def]; dsimp only; rw [if_neg (by rw [h]; decide)])
        Phase2.looks_same_cmp ih_add ih_cmp_loop
    · exact Phase2.level_reads (parse_comparison f) _ (parse_logical_and_loop f)
        (fun c => by rw [parse_logical_and]) ih_cmp ih_and_loop
    · exact Phase2.loop_reads (parse_comparison f) (parse_logical_and_loop f) _
        (fun op => op.is TOK_OPERATOR "&&")
        (fun _ l r => binop_node "BinOp(&&)" l r)
        (fun n => by rw [parse_logical_and_loop])
        (fun n op rest h => by
          rw [parse_logical_and_loop.eq_def]; dsimp only; rw [if_pos h])
        (fun n op rest h => by
          have h2 : op.is TOK_OPERATOR _ = false := h
          rw [parse_logical_and_loop.eq_def]; dsimp only; rw [if_neg (by rw [h2]; decide)])
        (fun t t' h => Phase2.looks_same_is t t' h _ _ (Or.inl (by decide))) ih_cmp ih_and_loop
    · exact Phase2.level_reads (parse_logical_and f) _ (parse_logical_or_loop f)
        (fun c => by rw [parse_logical_or]) ih_and ih_or_loop
    · exact Phase2.loop_reads (parse_logical_and f) (parse_logical_or_loop f) _
        (fun op => op.is TOK_OPERATOR "||")
        (fun _ l r => binop_node "BinOp(||)" l r)
        (fun n => by rw [parse_logical_or_loop])
        (fun n op rest h => by
          rw [parse_logical_or_loop.eq_def]; dsimp only; rw [if_pos h])
        (fun n op rest h => by
          have h2 : op.is TOK_OPERATOR _ = false := h
          rw [parse_logical_or_loop.eq_def]; dsimp only; rw [if_neg (by rw [h2]; decide)])
        (fun t t' h => Phase2.looks_same_is t t' h _ _ (Or.inl (by decide))) ih_and ih_or_loop

theorem Phase2.local_mono {α : Type} (k j : Nat) (A : Cursor → Outcome (α × Cursor))
    (h : Local k A) (hj : j ≤ k) : Local j A :=
  fun toks q hq => Phase2.reads_weaken k j A toks q (h toks q hq) hj

theorem Phase2.local_pure {α : Type} (x : α) :
    Local 0 (fun c => (.ok (x, c) : Outcome (α × Cursor))) := by
  intro toks q h
  injection h with h
  subst h
  exact Phase2.reads_nothing _ x toks (fun r' _ => rfl)

theorem Phase2.local_bind {α β : Type} (k1 k2 : Nat) (A : Cursor → Outcome (α × Cursor))
    (B : α × Cursor → Outcome (β × Cursor)) (hA : Local k1 A)
    (hB : ∀ a, Local k2 (fun c => B (a, c))) : Local (k1 + k2) (fun c => A c >>= B) := by
  intro toks q h
  dsimp only at h
  cases hA1 : A toks with
  | fuel => rw [hA1] at h; cases h
  | fail l m => rw [hA1] at h; cases h
  | ok p =>
    obtain ⟨a, r1⟩ := p
    rw [hA1, Outcome.ok_bind] at h
    exact Phase2.reads_bind k1 k2 A (fun a c => B (a, c)) toks a r1 q (hA _ _ hA1) (hB a r1 q h)

theorem Phase2.local_expect {β : Type} (ty : TokenType) (lex : String) (k : Nat)
    (B : Cursor → Outcome (β × Cursor)) (hB : Local k B) :
    Local (k + 1) (fun c => expect_token ty lex c >>= B) := by
  intro toks q h
  dsimp only at h
  cases he : expect_token ty lex toks with
  | fuel => rw [he] at h; cases h
  | fail l m => rw [he] at h; cases h
  | ok r1 =>
    rw [he, Outcome.ok_bind] at h
    obtain ⟨c, rfl, hc⟩ := Phase2.expect_token_ok _ _ _ _ he
    exact Phase2.reads_cons k B _ c r1 q (hB r1 q h) (fun pre1 r' _ _ _ => by
      show (expect_token ty lex (c :: _) >>= B) = _
      rw [Phase2.expect_token_cons _ _ _ _ hc, Outcome.ok_bind])

theorem Phase2.local_keyword {β : Type} (kw : String) (k : Nat)
    (B : Cursor → Outcome (β × Cursor)) (hB : Local k B) :
    Local (k + 1) (fun c => expect_keyword kw c >>= B) := by
  intro toks q h
  dsimp only at h
  cases he : expect_keyword kw toks with
  | fuel => rw [he] at h; cases h
  | fail l m => rw [he] at h; cases h
  | ok r1 =>
    rw [he, Outcome.ok_bind] at h
    obtain ⟨c, rfl, hc⟩ := Phase2.expect_keyword_ok _ _ _ he
    exact Phase2.reads_cons k B _ c r1 q (hB r1 q h) (fun pre1 r' _ _ _ => by
      show (expect_keyword kw (c :: _) >>= B) = _
      rw [Phase2.expect_keyword_cons _ _ _ hc, Outcome.ok_bind])

/-- A run that behaves as `A` on every input with the same next token. -/
theorem Phase2.reads_peek {α : Type} (k : Nat) (A B : Cursor → Outcome (α × Cursor))
    (toks : Cursor) (q : α × Cursor) (h : Reads k A toks q)
    (heq : ∀ c, same_next toks c → B c = A c) : Reads k B toks q := by
  obtain ⟨pre, h1, hk, hr⟩ := h
  refine ⟨pre, h1, hk, fun r' hr' => ?_⟩
  rw [heq (pre ++ r') (by rw [h1]; exact Phase2.same_next_append pre _ _ hr')]
  exact hr r' hr'

/-- A run that behaves as `A` on every input with the same first token. -/
theorem Phase2.reads_head {α : Type} (k : Nat) (A B : Cursor → Outcome (α × Cursor))
    (t : Token) (rest : Cursor) (q : α × Cursor) (h : Reads (k + 1) A (t :: rest) q)
    (heq : ∀ x, B (t :: x) = A (t :: x)) : Reads (k + 1) B (t :: rest) q := by
  refine Phase2.reads_congr (k + 1) A B _ q h ?_
  intro pre r' hpre hlen _
  obtain ⟨pre1, rfl, _⟩ := Phase2.consumed_cons t _ pre _ hpre (by omega)
  exact heq _

/-- A run that behaves as `A` on every input with the same first two tokens. -/
theorem Phase2.reads_head2 {α : Type} (k : Nat) (A B : Cursor → Outcome (α × Cursor))
    (t n : Token) (rest : Cursor) (q : α × Cursor) (h : Reads (k + 2) A (t :: n :: rest) q)
    (heq : ∀ x, B (t :: n :: x) = A (t :: n :: x)) : Reads (k + 2) B (t :: n :: rest) q := by
  refine Phase2.reads_congr (k + 2) A B _ q h ?_
  intro pre r' hpre hlen _
  obtain ⟨pre1, rfl, hpre1⟩ := Phase2.consumed_cons t _ pre _ hpre (by omega)
  obtain ⟨pre2, rfl, _⟩ := Phase2.consumed_cons n _ pre1 _ hpre1
    (by simp only [List.length_cons] at hlen; omega)
  exact heq _

theorem Phase2.parse_expression_local (f : Nat) : Local 1 (parse_expression f) :=
  (Phase2.expression_local f).2.2.2.2.2.2.2.2.2.2.2.1

/-- Function `parse_assignment_inline` reads the name, the `=` and the expression. -/
theorem Phase2.parse_assignment_inline_local (f : Nat) :
    Local 3 (parse_assignment_inline f) := by
  intro toks q h
  unfold parse_assignment_inline at h
  split at h
  · cases h
  rename_i t rest
  by_cases ht : t.type = TOK_IDENTIFIER
  · rw [if_pos ht] at h
    refine Phase2.reads_cons 2 _ _ t rest q
      (Phase2.local_expect TOK_OPERATOR "=" 1 _ ?_ rest q h) ?_
    · exact Phase2.local_bind 1 0 _ _ (Phase2.parse_expression_local f)
        (fun a => Phase2.local_pure _)
    · intro pre1 r' _ _ _
      rw [parse_assignment_inline]
      dsimp only
      rw [if_pos ht]
  · rw [if_neg ht] at h
    cases h

/-- Function `parse_assignment` reads the name, the `=`, the expression and the `;`. -/
theorem Phase2.parse_assignment_local (f : Nat) : Local 4 (parse_assignment f) := by
  intro toks q h
  unfold parse_assignment at h
  split at h
  · cases h
  rename_i t rest
  by_cases ht : t.type = TOK_IDENTIFIER
  · rw [if_pos ht] at h
    refine Phase2.reads_cons 3 _ _ t rest q
      (Phase2.local_expect TOK_OPERATOR "=" 2 _ ?_ rest q h) ?_
    · refine Phase2.local_bind 1 1 _ _ (Phase2.parse_expression_local f) (fun a => ?_)
      exact Phase2.local_expect TOK_PUNCTUATION ";" 0 _ (Phase2.local_pure _)
    · intro pre1 r' _ _ _
      rw [parse_assignment]
      dsimp only
      rw [if_pos ht]
  · rw [if_neg ht] at h
    cases h

/-- The end of `parse_return_stmt`: the node built from the expression. -/
theorem Phase2.return_node_local (expr : ASTNode) :
    Local 0 (fun rest2 =>
      if expr.kind = NODE_NUMBER ∨ expr.kind = NODE_VAR then
        (.ok (ast_new_node NODE_RETURN (some (CStr.strncpy 63 ("Return: " ++ expr.text))), rest2) :
          Outcome (ASTNode × Cursor))
      else
        .ok (node_list_append (ast_new_node NODE_RETURN (some "Return:")) expr, rest2)) := by
  by_cases hc : expr.kind = NODE_NUMBER ∨ expr.kind = NODE_VAR
  · simp only [if_pos hc]
    exact Phase2.local_pure _
  · simp only [if_neg hc]
    exact Phase2.local_pure _

/-- Function `parse_return_stmt` reads `return`, the expression and the `;`. -/
theorem Phase2.parse_return_stmt_local (f : Nat) : Local 3 (parse_return_stmt f) := by
  show Local 3 (fun toks => parse_return_stmt f toks)
  unfold parse_return_stmt
  refine Phase2.local_keyword "return" 2 _ ?_
  refine Phase2.local_bind 1 1 _ _ (Phase2.parse_expression_local f) (fun a => ?_)
  exact Phase2.local_expect TOK_PUNCTUATION ";" 0 _ (Phase2.return_node_local a)

/-- The optional initializer of one declarator. -/
theorem Phase2.declarator_local (f : Nat) (type_text var_name : String) :
    Local 0 (fun rest =>
      (match rest with
       | e :: rest1 =>
         if e.is TOK_OPERATOR "=" then do
           let (rhs, rest2) ← parse_expression f rest1
           let buf := CStr.strncpy 127 ("VarDecl: " ++ type_text ++ " " ++ var_name ++ " =")
           .ok (node_list_append (ast_new_node NODE_VAR_DECL (some buf)) rhs, rest2)
         else .ok (ast_new_node NODE_VAR_DECL
            (some (CStr.strncpy 127 ("VarDecl: " ++ type_text ++ " " ++ var_name))), rest)
       | [] => .ok (ast_new_node NODE_VAR_DECL
            (some (CStr.strncpy 127 ("VarDecl: " ++ type_text ++ " " ++ var_name))), rest) :
        Outcome (ASTNode × Cursor))) := by
  intro c q h
  cases c with
  | nil =>
    dsimp only at h
    injection h with h
    subst h
    apply Phase2.reads_nothing
    intro r' hr'
    have : r' = [] := hr'
    subst this
    rfl
  | cons e rest1 =>
    dsimp only at h
    by_cases he : e.is TOK_OPERATOR "=" = true
    · rw [if_pos he] at h
      refine Phase2.reads_weaken 2 0 _ _ _ (Phase2.reads_cons 1 _ _ e rest1 q
        (Phase2.local_bind 1 0 _ _ (Phase2.parse_expression_local f)
          (fun a => ?_) rest1 q h) ?_) (by omega)
      · dsimp only
        exact Phase2.local_pure _
      · intro pre1 r' _ _ _
        dsimp only
        rw [if_pos he]
    · rw [if_neg he] at h
      injection h with h
      subst h
      apply Phase2.reads_nothing
      intro r' hr'
      obtain ⟨e', x', rfl, hl⟩ := hr'
      dsimp only
      rw [if_neg (by
        rw [Phase2.looks_same_is e e' hl _ _ (Or.inl (by decide))]
        exact he)]

/-- The `,` or `;` after one declarator. -/
theorem Phase2.declarator_end_local (f : Nat) (type_text : String) (decl1 : ASTNode)
    (ih : Local 2 (parse_var_decl_loop f type_text decl1)) :
    Local 1 (fun rest3 =>
      match rest3 with
      | [] => (.fail (some (-1)) "expected ',' or ';'" : Outcome (ASTNode × Cursor))
      | p :: rest4 =>
        if p.type = TOK_PUNCTUATION then
          if p.lexeme = "," then parse_var_decl_loop f type_text decl1 rest4
          else if p.lexeme = ";" then .ok (decl1, rest4)
          else .fail (some p.line) ("expected ',' or ';', got '" ++ p.lexeme ++ "'")
        else .fail (some p.line) "expected ',' or ';'") := by
  intro c q h
  cases c with
  | nil => cases h
  | cons p rest4 =>
    dsimp only at h
    by_cases hp : p.type = TOK_PUNCTUATION
    · rw [if_pos hp] at h
      by_cases hc : p.lexeme = ","
      · rw [if_pos hc] at h
        refine Phase2.reads_weaken 3 1 _ _ _ (Phase2.reads_cons 2 _ _ p rest4 q
          (ih rest4 q h) ?_) (by omega)
        intro pre1 r' _ _ _
        dsimp only
        rw [if_pos hp, if_pos hc]
      · rw [if_neg hc] at h
        by_cases hs : p.lexeme = ";"
        · rw [if_pos hs] at h
          injection h with h
          subst h
          refine ⟨[p], rfl, Nat.le_refl _, ?_⟩
          intro r' _
          show (if p.type = TOK_PUNCTUATION then _ else _) = _
          rw [if_pos hp, if_neg hc, if_pos hs]
          rfl
        · rw [if_neg hs] at h
          cases h
    · rw [if_neg hp] at h
      cases h

/-- The declarator loop reads the declarators up to the `;`. -/
theorem Phase2.parse_var_decl_loop_local (f : Nat) :
    ∀ type_text decl, Local 2 (parse_var_decl_loop f type_text decl) := by
  induction f with
  | zero =>
    intro type_text decl toks q h
    rw [parse_var_decl_loop] at h
    cases h
  | succ f ih =>
    intro type_text decl toks q h
    rw [parse_var_decl_loop.eq_def] at h
    dsimp only at h
    split at h
    · cases h
    rename_i t rest
    by_cases ht : t.type ≠ TOK_IDENTIFIER
    · rw [if_pos ht] at h
      cases h
    rw [if_neg ht] at h
    refine Phase2.reads_cons 1 _ _ t rest q
      (Phase2.local_bind 0 1 _ _
        (Phase2.declarator_local f type_text (CStr.strncpy 63 t.lexeme))
        (fun a => ?_) rest q h) ?_
    · dsimp only
      exact Phase2.declarator_end_local f type_text _ (ih type_text _)
    · intro pre1 r' _ _ _
      rw [parse_var_decl_loop.eq_def]
      dsimp only
      rw [if_neg ht]
      rfl

/-- Function `parse_var_decl` reads the type, the declarators and the `;`. -/
theorem Phase2.parse_var_decl_local (f : Nat) : Local 3 (parse_var_decl f) := by
  intro toks q h
  unfold parse_var_decl at h
  split at h
  · cases h
  rename_i t rest
  by_cases ht : (!is_decl_start t) = true
  · rw [if_pos ht] at h
    cases h
  rw [if_neg ht] at h
  refine Phase2.reads_cons 2 _ _ t rest q (Phase2.parse_var_decl_loop_local f _ _ rest q h) ?_
  intro pre1 r' _ _ _
  rw [parse_var_decl]
  rw [if_neg ht]

/-- The look at the token after `else`. -/
theorem Phase2.peek_if_same (a b : Cursor) :
    same_next a b →
    (match b with
     | next :: _ => next.is TOK_KEYWORD "if"
     | [] => false) =
    (match a with
     | next :: _ => next.is TOK_KEYWORD "if"
     | [] => false) := by
  intro h
  cases a with
  | nil =>
    have : b = [] := h
    subst this
    rfl
  | cons t rest =>
    obtain ⟨t', x', rfl, hl⟩ := h
    exact Phase2.looks_same_is t t' hl _ _ (Or.inr ⟨by decide, by decide, by decide⟩)

/-- The optional `else` part of `parse_if_statement`. -/
theorem Phase2.else_part_local (f : Nat) (if_node1 : ASTNode)
    (ih_stmt : Local 1 (parse_statement f))
    (ih_body : ∀ n, Local 0 (parse_body_loop f n)) :
    Local 0 (fun r5 =>
      match r5 with
      | [] => (.ok (if_node1, r5) : Outcome (ASTNode × Cursor))
      | t :: r6 =>
        if t.is TOK_KEYWORD "else" then
          if (match r6 with
              | next :: _ => next.is TOK_KEYWORD "if"
              | [] => false) then do
            let (else_if_node, r7) ← parse_statement f r6
            .ok (node_list_append if_node1 else_if_node, r7)
          else do
            let (else_body, r7) ← parse_body_loop f (ast_new_node NODE_BODY (some "Body:")) r6
            let else_node := node_list_append (ast_new_node NODE_ELSE (some "Else:")) else_body
            .ok (node_list_append if_node1 else_node, r7)
        else .ok (if_node1, r5)) := by
  intro c q h
  cases c with
  | nil =>
    dsimp only at h
    injection h with h
    subst h
    apply Phase2.reads_nothing
    intro r' hr'
    have : r' = [] := hr'
    subst this
    rfl
  | cons t r6 =>
    dsimp only at h
    by_cases helse : t.is TOK_KEYWORD "else" = true
    · rw [if_pos helse] at h
      have hstmt : ∀ x, (match x with
              | next :: _ => next.is TOK_KEYWORD "if"
              | [] => false) = true →
          (parse_statement f x >>= fun p =>
            (.ok (node_list_append if_node1 p.1, p.2) : Outcome (ASTNode × Cursor))) = .ok q →
          Reads 0 (fun r5 =>
            match r5 with
            | [] => (.ok (if_node1, r5) : Outcome (ASTNode × Cursor))
            | t :: r6 =>
              if t.is TOK_KEYWORD "else" then
                if (match r6 with
                    | next :: _ => next.is TOK_KEYWORD "if"
                    | [] => false) then do
                  let (else_if_node, r7) ← parse_statement f r6
                  .ok (node_list_append if_node1 else_if_node, r7)
                else do
                  let (else_body, r7) ←
                    parse_body_loop f (ast_new_node NODE_BODY (some "Body:")) r6
                  let else_node :=
                    node_list_append (ast_new_node NODE_ELSE (some "Else:")) else_body
                  .ok (node_list_append if_node1 else_node, r7)
              else .ok (if_node1, r5)) (t :: x) q := by
        intro x hif h
        refine Phase2.reads_weaken 2 0 _ _ _ (Phase2.reads_cons 1 _ _ t x q
          (Phase2.local_bind 1 0 _ _ ih_stmt (fun a => ?_) x q h) ?_) (by omega)
        · dsimp only
          exact Phase2.local_pure _
        · intro pre1 r' hpre _ hr'
          dsimp only
          rw [if_pos helse]
          exact if_pos ((Phase2.peek_if_same x (pre1 ++ r') (by
              rw [hpre]
              exact Phase2.same_next_append pre1 _ _ hr')).trans hif)
      have hbody : ∀ x, (match x with
              | next :: _ => next.is TOK_KEYWORD "if"
              | [] => false) = false →
          (parse_body_loop f (ast_new_node NODE_BODY (some "Body:")) x >>= fun p =>
            (.ok (node_list_append if_node1
              (node_list_append (ast_new_node NODE_ELSE (some "Else:")) p.1), p.2) :
              Outcome (ASTNode × Cursor))) = .ok q →
          Reads 0 (fun r5 =>
            match r5 with
            | [] => (.ok (if_node1, r5) : Outcome (ASTNode × Cursor))
            | t :: r6 =>
              if t.is TOK_KEYWORD "else" then
                if (match r6 with
                    | next :: _ => next.is TOK_KEYWORD "if"
                    | [] => false) then do
                  let (else_if_node, r7) ← parse_statement f r6
                  .ok (node_list_append if_node1 else_if_node, r7)
                else do
                  let (else_body, r7) ←
                    parse_body_loop f (ast_new_node NODE_BODY (some "Body:")) r6
                  let else_node :=
                    node_list_append (ast_new_node NODE_ELSE (some "Else:")) else_body
                  .ok (node_list_append if_node1 else_node, r7)
              else .ok (if_node1, r5)) (t :: x) q := by
        intro x hif h
        refine Phase2.reads_weaken 1 0 _ _ _ (Phase2.reads_cons 0 _ _ t x q
          (Phase2.local_bind 0 0 _ _ (ih_body _) (fun a => ?_) x q h) ?_) (by omega)
        · dsimp only
          exact Phase2.local_pure _
        · intro pre1 r' hpre _ hr'
          dsimp only
          rw [if_pos helse]
          exact if_neg (Bool.eq_false_iff.1 ((Phase2.peek_if_same x (pre1 ++ r') (by
              rw [hpre]
              exact Phase2.same_next_append pre1 _ _ hr')).trans hif))
      cases r6 with
      | nil =>
        exact hbody [] rfl h
      | cons next r =>
        dsimp only at h
        by_cases hif : next.is TOK_KEYWORD "if" = true
        · rw [if_pos hif] at h
          exact hstmt (next :: r) hif h
        · rw [if_neg hif] at h
          exact hbody (next :: r) (Bool.eq_false_iff.2 hif) h
    · rw [if_neg helse] at h
      injection h with h
      subst h
      apply Phase2.reads_nothing
      intro r' hr'
      obtain ⟨t', x', rfl, hl⟩ := hr'
      dsimp only
      rw [if_neg (by
        rw [Phase2.looks_same_is t t' hl _ _ (Or.inr ⟨by decide, by decide, by decide⟩)]
        exact helse)]

/-- An optional clause in the header of a `for` statement. -/
theorem Phase2.for_clause_local (lex : String) (P : Cursor → Outcome (ASTNode × Cursor))
    (hP : Local 1 P) (node : ASTNode) :
    Local 0 (fun r2 =>
      (match r2 with
       | [] => null_deref
       | t :: _ =>
         if t.is TOK_PUNCTUATION lex then .ok (node, r2)
         else do
           let (init, r) ← P r2
           .ok (node_list_append node init, r) : Outcome (ASTNode × Cursor))) := by
  intro c q h
  cases c with
  | nil => cases h
  | cons t rest =>
    dsimp only at h
    by_cases hl : t.is TOK_PUNCTUATION lex = true
    · rw [if_pos hl] at h
      injection h with h
      subst h
      apply Phase2.reads_nothing
      intro r' hr'
      obtain ⟨t', x', rfl, hs⟩ := hr'
      dsimp only
      rw [if_pos (by
        rw [Phase2.looks_same_is t t' hs _ _ (Or.inl (by decide))]
        exact hl)]
    · rw [if_neg hl] at h
      refine Phase2.reads_weaken 1 0 _ _ _ (Phase2.reads_head 0 _ _ t rest q
        (Phase2.local_bind 1 0 _ _ hP (fun a => ?_) (t :: rest) q h) ?_) (by omega)
      · dsimp only
        exact Phase2.local_pure _
      · intro x
        dsimp only
        rw [if_neg hl]

/-- An identifier is no keyword. -/
theorem Phase2.identifier_not_keyword (t : Token) (h : t.type = TOK_IDENTIFIER) (kw : String) :
    t.is TOK_KEYWORD kw = false := by
  simp [Token.is, h]

/-- The statement parser reads what it consumes and looks one token ahead. -/
theorem Phase2.statements_local (f : Nat) :
    Local 1 (parse_statement f) ∧
    Local 1 (parse_block_statement f) ∧
    (∀ n, Local 0 (parse_block_loop f n)) ∧
    (∀ n, Local 0 (parse_body_loop f n)) ∧
    Local 1 (parse_if_statement f) ∧
    Local 1 (parse_while_statement f) ∧
    Local 1 (parse_for_statement f) := by
  induction f with
  | zero =>
    refine ⟨?_, ?_, ?_, ?_, ?_, ?_, ?_⟩
    · intro toks q h
      rw [parse_statement] at h
      cases h
    · intro toks q h
      rw [parse_block_statement] at h
      cases h
    · intro n toks q h
      rw [parse_block_loop] at h
      cases h
    · intro n toks q h
      rw [parse_body_loop] at h
      cases h
    · intro toks q h
      rw [parse_if_statement] at h
      cases h
    · intro toks q h
      rw [parse_while_statement] at h
      cases h
    · intro toks q h
      rw [parse_for_statement] at h
      cases h
  | succ f ih =>
    obtain ⟨ih_stmt, ih_block, ih_block_loop, ih_body_loop, ih_if, ih_while, ih_for⟩ := ih
    refine ⟨?_, ?_, ?_, ?_, ?_, ?_, ?_⟩
    · -- parse_statement
      intro toks q h
      rw [parse_statement.eq_def] at h
      dsimp only at h
      split at h
      · cases h
      rename_i t rest
      by_cases hb : t.is TOK_PUNCTUATION "\x7b" = true
      · rw [if_pos hb] at h
        refine Phase2.reads_head 0 _ _ t rest q (ih_block _ _ h) ?_
        intro x
        rw [parse_statement.eq_def]
        dsimp only
        rw [if_pos hb]
      rw [if_neg hb] at h
      by_cases hid : t.type = TOK_IDENTIFIER
      · cases rest with
        | nil =>
          dsimp only at h
          rw [if_neg (by simp), Phase2.identifier_not_keyword t hid,
            Phase2.identifier_not_keyword t hid, Phase2.identifier_not_keyword t hid,
            Phase2.identifier_not_keyword t hid] at h
          cases h
        | cons n rest1 =>
          dsimp only at h
          by_cases hn : n.is TOK_OPERATOR "=" = true
          · rw [if_pos (by rw [hn, hid]; decide)] at h
            refine Phase2.reads_weaken 2 1 _ _ _ (Phase2.reads_head2 0 _ _ t n rest1 q
              (Phase2.reads_weaken 4 2 _ _ _ (Phase2.parse_assignment_local f _ _ h)
                (by omega)) ?_) (by omega)
            intro x
            rw [parse_statement.eq_def]
            dsimp only
            rw [if_neg hb, if_pos (by rw [hn, hid]; decide)]
          · rw [if_neg (by rw [Bool.eq_false_iff.2 hn]; simp),
              Phase2.identifier_not_keyword t hid,
              Phase2.identifier_not_keyword t hid, Phase2.identifier_not_keyword t hid,
              Phase2.identifier_not_keyword t hid] at h
            cases h
      have hdec : decide (t.type = TOK_IDENTIFIER) = false := by simp [hid]
      simp only [hdec, Bool.false_and, Bool.false_eq_true, if_false] at h
      by_cases hret : t.is TOK_KEYWORD "return" = true
      · rw [if_pos hret] at h
        refine Phase2.reads_head 0 _ _ t rest q
          (Phase2.reads_weaken 3 1 _ _ _ (Phase2.parse_return_stmt_local f _ _ h) (by omega)) ?_
        intro x
        rw [parse_statement.eq_def]
        dsimp only
        rw [if_neg hb]
        simp only [hdec, Bool.false_and, Bool.false_eq_true, if_false]
        rw [if_pos hret]
      rw [if_neg hret] at h
      by_cases hif : t.is TOK_KEYWORD "if" = true
      · rw [if_pos hif] at h
        refine Phase2.reads_head 0 _ _ t rest q (ih_if _ _ h) ?_
        intro x
        rw [parse_statement.eq_def]
        dsimp only
        rw [if_neg hb]
        simp only [hdec, Bool.false_and, Bool.false_eq_true, if_false]
        rw [if_neg hret, if_pos hif]
      rw [if_neg hif] at h
      by_cases hwh : t.is TOK_KEYWORD "while" = true
      · rw [if_pos hwh] at h
        refine Phase2.reads_head 0 _ _ t rest q (ih_while _ _ h) ?_
        intro x
        rw [parse_statement.eq_def]
        dsimp only
        rw [if_neg hb]
        simp only [hdec, Bool.false_and, Bool.false_eq_true, if_false]
        rw [if_neg hret, if_neg hif, if_pos hwh]
      rw [if_neg hwh] at h
      by_cases hfor : t.is TOK_KEYWORD "for" = true
      · rw [if_pos hfor] at h
        refine Phase2.reads_head 0 _ _ t rest q (ih_for _ _ h) ?_
        intro x
        rw [parse_statement.eq_def]
        dsimp only
        rw [if_neg hb]
        simp only [hdec, Bool.false_and, Bool.false_eq_true, if_false]
        rw [if_neg hret, if_neg hif, if_neg hwh, if_pos hfor]
      rw [if_neg hfor] at h
      cases h
    · -- parse_block_statement
      show Local 1 (fun toks => parse_block_statement (f + 1) toks)
      simp only [parse_block_statement]
      refine Phase2.local_mono 2 1 _ (Phase2.local_expect TOK_PUNCTUATION "\x7b" 1 _ ?_)
        (by omega)
      refine Phase2.local_bind 0 1 _ _ (ih_block_loop _) (fun a => ?_)
      dsimp only
      exact Phase2.local_expect TOK_PUNCTUATION "\x7d" 0 _ (Phase2.local_pure _)
    · -- parse_block_loop
      intro node toks q h
      rw [parse_block_loop.eq_def] at h
      dsimp only at h
      split at h
      · injection h with h
        subst h
        apply Phase2.reads_nothing
        intro r' hr'
        have : r' = [] := hr'
        subst this
        rw [parse_block_loop]
      rename_i t rest
      by_cases hb : t.is TOK_PUNCTUATION "\x7d" = true
      · rw [if_pos hb] at h
        injection h with h
        subst h
        apply Phase2.reads_nothing
        intro r' hr'
        obtain ⟨t', x', rfl, hl⟩ := hr'
        rw [parse_block_loop.eq_def]
        dsimp only
        rw [if_pos (by
          rw [Phase2.looks_same_is t t' hl _ _ (Or.inl (by decide))]
          exact hb)]
      rw [if_neg hb] at h
      by_cases hd : is_decl_start t = true
      · rw [if_pos hd] at h
        refine Phase2.reads_weaken 3 0 _ _ _ (Phase2.reads_head 2 _ _ t rest q
          (Phase2.local_bind 3 0 _ _ (Phase2.parse_var_decl_local f) (fun a => ?_)
            (t :: rest) q h) ?_) (by omega)
        · dsimp only
          exact ih_block_loop _
        · intro x
          rw [parse_block_loop.eq_def]
          dsimp only
          rw [if_neg hb, if_pos hd]
      · rw [if_neg hd] at h
        refine Phase2.reads_weaken 1 0 _ _ _ (Phase2.reads_head 0 _ _ t rest q
          (Phase2.local_bind 1 0 _ _ ih_stmt (fun a => ?_) (t :: rest) q h) ?_) (by omega)
        · dsimp only
          exact ih_block_loop _
        · intro x
          rw [parse_block_loop.eq_def]
          dsimp only
          rw [if_neg hb, if_neg hd]
    · -- parse_body_loop
      intro node toks q h
      rw [parse_body_loop.eq_def] at h
      dsimp only at h
      split at h
      · injection h with h
        subst h
        apply Phase2.reads_nothing
        intro r' hr'
        have : r' = [] := hr'
        subst this
        rw [parse_body_loop]
      rename_i t rest
      by_cases hb : t.is TOK_PUNCTUATION "\x7d" = true
      · rw [if_pos hb] at h
        injection h with h
        subst h
        apply Phase2.reads_nothing
        intro r' hr'
        obtain ⟨t', x', rfl, hl⟩ := hr'
        rw [parse_body_loop.eq_def]
        dsimp only
        rw [if_pos (by
          rw [Phase2.looks_same_is t t' hl _ _ (Or.inl (by decide))]
          exact hb)]
      rw [if_neg hb] at h
      by_cases hd : is_decl_start t = true
      · rw [if_pos hd] at h
        refine Phase2.reads_weaken 3 0 _ _ _ (Phase2.reads_head 2 _ _ t rest q
          (Phase2.local_bind 3 0 _ _ (Phase2.parse_var_decl_local f) (fun a => ?_)
            (t :: rest) q h) ?_) (by omega)
        · dsimp only
          exact ih_body_loop _
        · intro x
          rw [parse_body_loop.eq_def]
          dsimp only
          rw [if_neg hb, if_pos hd]
      · rw [if_neg hd] at h
        refine Phase2.reads_weaken 1 0 _ _ _ (Phase2.reads_head 0 _ _ t rest q
          (Phase2.local_bind 1 0 _ _ ih_stmt (fun a => ?_) (t :: rest) q h) ?_) (by omega)
        · dsimp only
          exact ih_body_loop _
        · intro x
          rw [parse_body_loop.eq_def]
          dsimp only
          rw [if_neg hb, if_neg hd]
    · -- parse_if_statement
      show Local 1 (fun toks => parse_if_statement (f + 1) toks)
      simp only [parse_if_statement]
      refine Phase2.local_mono 5 1 _ (Phase2.local_keyword "if" 4 _ ?_) (by omega)
      refine Phase2.local_expect TOK_PUNCTUATION "(" 3 _ ?_
      refine Phase2.local_bind 1 2 _ _ (Phase2.parse_expression_local f) (fun a => ?_)
      dsimp only
      refine Phase2.local_expect TOK_PUNCTUATION ")" 1 _ ?_
      refine Phase2.local_bind 1 0 _ _ ih_stmt (fun b => ?_)
      dsimp only
      exact Phase2.else_part_local f _ ih_stmt ih_body_loop
    · -- parse_while_statement
      show Local 1 (fun toks => parse_while_statement (f + 1) toks)
      simp only [parse_while_statement]
      refine Phase2.local_mono 5 1 _ (Phase2.local_keyword "while" 4 _ ?_) (by omega)
      refine Phase2.local_expect TOK_PUNCTUATION "(" 3 _ ?_
      refine Phase2.local_bind 1 2 _ _ (Phase2.parse_expression_local f) (fun a => ?_)
      dsimp only
      refine Phase2.local_expect TOK_PUNCTUATION ")" 1 _ ?_
      refine Phase2.local_bind 1 0 _ _ ih_stmt (fun b => ?_)
      dsimp only
      exact Phase2.local_pure _
    · -- parse_for_statement
      show Local 1 (fun toks => parse_for_statement (f + 1) toks)
      simp only [parse_for_statement]
      refine Phase2.local_mono 6 1 _ (Phase2.local_keyword "for" 5 _ ?_) (by omega)
      refine Phase2.local_expect TOK_PUNCTUATION "(" 4 _ ?_
      refine Phase2.local_bind 0 4 _ _
        (Phase2.for_clause_local ";" (parse_assignment_inline f)
          (Phase2.local_mono 3 1 _ (Phase2.parse_assignment_inline_local f) (by omega)) _)
        (fun a => ?_)
      dsimp only
      refine Phase2.local_expect TOK_PUNCTUATION ";" 3 _ ?_
      refine Phase2.local_bind 0 3 _ _
        (Phase2.for_clause_local ";" (parse_expression f) (Phase2.parse_expression_local f) _)
        (fun b => ?_)
      dsimp only
      refine Phase2.local_expect TOK_PUNCTUATION ";" 2 _ ?_
      refine Phase2.local_bind 0 2 _ _
        (Phase2.for_clause_local ")" (parse_assignment_inline f)
          (Phase2.local_mono 3 1 _ (Phase2.parse_assignment_inline_local f) (by omega)) _)
        (fun c => ?_)
      dsimp only
      refine Phase2.local_expect TOK_PUNCTUATION ")" 1 _ ?_
      refine Phase2.local_bind 1 0 _ _ ih_stmt (fun d => ?_)
      dsimp only
      exact Phase2.local_pure _

/-- The optional `[ ]` after a parameter name. -/
theorem Phase2.param_brackets_local :
    Local 0 (fun rest1 =>
      (match rest1 with
       | b :: rest2 =>
         if b.is TOK_PUNCTUATION "[" then do
           let r ← expect_token TOK_PUNCTUATION "]" rest2
           .ok (true, r)
         else .ok (false, rest1)
       | [] => .ok (false, rest1) : Outcome (Bool × Cursor))) := by
  intro c q h
  cases c with
  | nil =>
    dsimp only at h
    injection h with h
    subst h
    apply Phase2.reads_nothing
    intro r' hr'
    have : r' = [] := hr'
    subst this
    rfl
  | cons b rest2 =>
    dsimp only at h
    by_cases hb : b.is TOK_PUNCTUATION "[" = true
    · rw [if_pos hb] at h
      refine Phase2.reads_weaken 2 0 _ _ _ (Phase2.reads_cons 1 _ _ b rest2 q
        (Phase2.local_expect TOK_PUNCTUATION "]" 0 _ (Phase2.local_pure true) rest2 q h) ?_)
        (by omega)
      intro pre1 r' _ _ _
      dsimp only
      rw [if_pos hb]
    · rw [if_neg hb] at h
      injection h with h
      subst h
      apply Phase2.reads_nothing
      intro r' hr'
      obtain ⟨b', x', rfl, hl⟩ := hr'
      dsimp only
      rw [if_neg (by
        rw [Phase2.looks_same_is b b' hl _ _ (Or.inl (by decide))]
        exact hb)]

/-- The `,` after one parameter, or the end of the list. -/
theorem Phase2.param_end_local (f : Nat) (params1 : ASTNode)
    (ih : Local 0 (parse_param_loop f params1)) :
    Local 0 (fun rest3 =>
      match rest3 with
      | c :: rest4 =>
        if c.is TOK_PUNCTUATION "," then parse_param_loop f params1 rest4
        else .ok (params1, rest3)
      | [] => .ok (params1, rest3)) := by
  intro c q h
  cases c with
  | nil =>
    dsimp only at h
    injection h with h
    subst h
    apply Phase2.reads_nothing
    intro r' hr'
    have : r' = [] := hr'
    subst this
    rfl
  | cons c rest4 =>
    dsimp only at h
    by_cases hc : c.is TOK_PUNCTUATION "," = true
    · rw [if_pos hc] at h
      refine Phase2.reads_weaken 1 0 _ _ _ (Phase2.reads_cons 0 _ _ c rest4 q
        (ih rest4 q h) ?_) (by omega)
      intro pre1 r' _ _ _
      dsimp only
      rw [if_pos hc]
    · rw [if_neg hc] at h
      injection h with h
      subst h
      apply Phase2.reads_nothing
      intro r' hr'
      obtain ⟨c', x', rfl, hl⟩ := hr'
      dsimp only
      rw [if_neg (by
        rw [Phase2.looks_same_is c c' hl _ _ (Or.inl (by decide))]
        exact hc)]

/-- The parameter loop reads the parameters it consumes and looks one token
ahead. -/
theorem Phase2.parse_param_loop_local (f : Nat) :
    ∀ params, Local 0 (parse_param_loop f params) := by
  induction f with
  | zero =>
    intro params toks q h
    rw [parse_param_loop] at h
    cases h
  | succ f ih =>
    intro params toks q h
    rw [parse_param_loop.eq_def] at h
    dsimp only at h
    split at h
    · injection h with h
      subst h
      apply Phase2.reads_nothing
      intro r' hr'
      have : r' = [] := hr'
      subst this
      rw [parse_param_loop]
    rename_i t rest
    by_cases hclose : t.is TOK_PUNCTUATION ")" = true
    · rw [if_pos hclose] at h
      injection h with h
      subst h
      apply Phase2.reads_nothing
      intro r' hr'
      obtain ⟨t', x', rfl, hl⟩ := hr'
      rw [parse_param_loop.eq_def]
      dsimp only
      rw [if_pos (by
        rw [Phase2.looks_same_is t t' hl _ _ (Or.inl (by decide))]
        exact hclose)]
    rw [if_neg hclose] at h
    by_cases hd : (!is_decl_start t) = true
    · rw [if_pos hd] at h
      cases h
    rw [if_neg hd] at h
    split at h
    · cases h
    rename_i n rest1
    by_cases hn : n.type ≠ TOK_IDENTIFIER
    · rw [if_pos hn] at h
      cases h
    rw [if_neg hn] at h
    refine Phase2.reads_weaken 2 0 _ _ _ (Phase2.reads_prepend 0 _ _ [t, n] rest1 q
      (Phase2.local_bind 0 0 _ _ Phase2.param_brackets_local (fun a => ?_) rest1 q h) ?_)
      (by simp)
    · dsimp only
      exact Phase2.param_end_local f _ (ih _)
    · intro pre1 r' _ _ _
      show parse_param_loop (f + 1) params (t :: n :: (pre1 ++ r')) = _
      rw [parse_param_loop.eq_def]
      dsimp only
      rw [if_neg hclose, if_neg hd, if_neg hn]
      rfl

theorem Phase2.parse_param_list_local (f : Nat) : Local 0 (parse_param_list f) :=
  Phase2.parse_param_loop_local f _

theorem Phase2.parse_body_local (f : Nat) : Local 0 (parse_body f) :=
  (Phase2.statements_local f).2.2.2.1 _

/-- Function `parse_function_def` reads the definition up to its closing brace. -/
theorem Phase2.parse_function_def_local (f : Nat) : Local 3 (parse_function_def f) := by
  intro toks q h
  unfold parse_function_def at h
  split at h
  · cases h
  rename_i t rest
  by_cases ht : (!is_return_type t) = true
  · rw [if_pos ht] at h
    cases h
  rw [if_neg ht] at h
  split at h
  · cases h
  rename_i n rest1
  by_cases hn : n.type ≠ TOK_IDENTIFIER
  · rw [if_pos hn] at h
    cases h
  rw [if_neg hn] at h
  refine Phase2.reads_weaken 6 3 _ _ _ (Phase2.reads_prepend 4 _ _ [t, n] rest1 q
    (Phase2.local_expect TOK_PUNCTUATION "(" 3 _ ?_ rest1 q h) ?_) (by simp)
  · refine Phase2.local_bind 0 3 _ _ (Phase2.parse_param_list_local f) (fun a => ?_)
    dsimp only
    refine Phase2.local_expect TOK_PUNCTUATION ")" 2 _ ?_
    refine Phase2.local_expect TOK_PUNCTUATION "\x7b" 1 _ ?_
    refine Phase2.local_bind 0 1 _ _ (Phase2.parse_body_local f) (fun b => ?_)
    dsimp only
    exact Phase2.local_expect TOK_PUNCTUATION "\x7d" 0 _ (Phase2.local_pure _)
  · intro pre1 r' _ _ _
    show parse_function_def f (t :: n :: (pre1 ++ r')) = _
    rw [parse_function_def]
    dsimp only
    rw [if_neg ht, if_neg hn]

/-- Function `parse_function_def` tests the first token for a return type and does
nothing else with it. -/
theorem Phase2.parse_function_def_retyped (f : Nat) (t t' : Token) (rest : Cursor)
    (ht : is_return_type t = true) (ht' : is_return_type t' = true) :
    parse_function_def f (t' :: rest) = parse_function_def f (t :: rest) := by
  unfold parse_function_def
  dsimp only
  rw [if_neg (by rw [ht']; decide), if_neg (by rw [ht]; decide)]

/-- The test for a function definition looks at three tokens. -/
theorem Phase2.is_function_start_consumed (pre0 a b : Cursor) (h : 3 ≤ pre0.length) :
    is_function_start (pre0 ++ a) = is_function_start (pre0 ++ b) := by
  match pre0, h with
  | x :: y :: z :: w, _ => rfl

theorem Phase2.is_function_start_retyped (t t' : Token) (rest : Cursor)
    (h : is_function_start (t :: rest) = true) (ht' : is_return_type t' = true) :
    is_function_start (t' :: rest) = true := by
  simp only [is_function_start, Bool.and_eq_true] at h ⊢
  exact ⟨ht', h.2⟩

theorem Phase2.is_function_start_head (t : Token) (rest : Cursor)
    (h : is_function_start (t :: rest) = true) : is_return_type t = true := by
  simp only [is_function_start, Bool.and_eq_true] at h
  exact h.1

theorem Phase2.return_type_not_eof (t : Token) (h : is_return_type t = true) :
    ¬ t.type = TOK_EOF_TOKEN := by
  intro he
  simp [is_return_type, Token.is, he] at h

/-- Each item the loop of `parse_program` starts at is a tail of the tokens. -/
theorem Phase2.item_starts_suffix (f : Nat) :
    ∀ toks s, s ∈ item_starts f toks → ∃ p, toks = p ++ s := by
  induction f with
  | zero =>
    intro toks s h
    simp [item_starts] at h
  | succ f ih =>
    intro toks s h
    rw [item_starts.eq_def] at h
    dsimp only at h
    split at h
    · simp at h
    rename_i t rest
    by_cases he : t.type = TOK_EOF_TOKEN
    · rw [if_pos he] at h
      simp at h
    rw [if_neg he] at h
    by_cases hfs : is_function_start (t :: rest) = true
    · rw [if_pos hfs] at h
      rcases List.mem_cons.1 h with h | h
      · exact ⟨[], by rw [h]; rfl⟩
      · cases hrun : parse_function_def f (t :: rest) with
        | fuel => rw [hrun] at h; simp at h
        | fail l m => rw [hrun] at h; simp at h
        | ok p =>
          obtain ⟨fn, rest1⟩ := p
          rw [hrun] at h
          obtain ⟨p1, hp1⟩ := ih _ _ h
          obtain ⟨pre0, h0, _, _⟩ := Phase2.parse_function_def_local f _ _ hrun
          exact ⟨pre0 ++ p1, by rw [h0, List.append_assoc]; exact congrArg _ hp1⟩
    · rw [if_neg hfs] at h
      by_cases hd : is_decl_start t = true
      · rw [if_pos hd] at h
        rcases List.mem_cons.1 h with h | h
        · exact ⟨[], by rw [h]; rfl⟩
        · cases hrun : parse_var_decl f (t :: rest) with
          | fuel => rw [hrun] at h; simp at h
          | fail l m => rw [hrun] at h; simp at h
          | ok p =>
            obtain ⟨fn, rest1⟩ := p
            rw [hrun] at h
            obtain ⟨p1, hp1⟩ := ih _ _ h
            obtain ⟨pre0, h0, _, _⟩ := Phase2.parse_var_decl_local f _ _ hrun
            exact ⟨pre0 ++ p1, by rw [h0, List.append_assoc]; exact congrArg _ hp1⟩
      · rw [if_neg hd] at h
        simp at h

/-- One round of the loop of `parse_program` on a function definition. -/
theorem Phase2.program_loop_function (f : Nat) (node : ASTNode) (t : Token) (rest : Cursor)
    (he : ¬ t.type = TOK_EOF_TOKEN) (hfs : is_function_start (t :: rest) = true) :
    parse_program_loop (f + 1) node (t :: rest) =
      parse_function_def f (t :: rest) >>= fun p =>
        parse_program_loop f (node_list_append node p.1) p.2 := by
  rw [parse_program_loop.eq_def]
  dsimp only
  rw [if_neg he, if_pos hfs]

/-- One round of the loop of `parse_program` on a global declaration. -/
theorem Phase2.program_loop_decl (f : Nat) (node : ASTNode) (t : Token) (rest : Cursor)
    (he : ¬ t.type = TOK_EOF_TOKEN) (hfs : ¬ is_function_start (t :: rest) = true)
    (hd : is_decl_start t = true) :
    parse_program_loop (f + 1) node (t :: rest) =
      parse_var_decl f (t :: rest) >>= fun p =>
        parse_program_loop f (node_list_append node p.1) p.2 := by
  rw [parse_program_loop.eq_def]
  dsimp only
  rw [if_neg he, if_neg hfs, if_pos hd]

/-- One round of the loop of `parse_program` before the retyped function: the item
parsed in this round is the same in both token streams. -/
theorem Phase2.program_loop_step (t t' : Token) (rest : Cursor)
    (ht : is_return_type t = true) (ht' : is_return_type t' = true) (f : Nat)
    (P : Cursor → Outcome (ASTNode × Cursor)) (hP : Local 3 P) (cond : Cursor → Prop)
    (hcond : ∀ pre0 a b, 3 ≤ pre0.length → cond (pre0 ++ a) → cond (pre0 ++ b))
    (hstep : ∀ node toks, cond toks →
      parse_program_loop (f + 1) node toks =
        P toks >>= fun p => parse_program_loop f (node_list_append node p.1) p.2)
    (ih : ∀ node pre, (t :: rest) ∈ item_starts f (pre ++ t :: rest) →
      parse_program_loop f node (pre ++ t' :: rest) =
        parse_program_loop f node (pre ++ t :: rest))
    (node : ASTNode) (pre : Cursor) (fn : ASTNode) (rest1 : Cursor)
    (hc : cond (pre ++ t :: rest)) (hrun : P (pre ++ t :: rest) = .ok (fn, rest1))
    (hmem : (t :: rest) ∈ item_starts f rest1) :
    parse_program_loop (f + 1) node (pre ++ t' :: rest) =
      parse_program_loop (f + 1) node (pre ++ t :: rest) := by
  obtain ⟨p, hp⟩ := Phase2.item_starts_suffix f _ _ hmem
  obtain ⟨pre0, h0, hlen, hr⟩ := hP _ _ hrun
  dsimp only at h0 hr
  subst hp
  have hpre : pre = pre0 ++ p := by
    have hx : pre ++ (t :: rest) = (pre0 ++ p) ++ (t :: rest) := by
      rw [List.append_assoc]
      exact h0
    exact List.append_cancel_right hx
  subst hpre
  have hnew := hr (p ++ t' :: rest)
    (Phase2.same_next_append p _ _ ⟨t', rest, rfl, Or.inr ⟨ht, ht'⟩⟩)
  rw [List.append_assoc] at hc hrun
  rw [List.append_assoc, List.append_assoc,
    hstep node _ (hcond pre0 _ (p ++ t' :: rest) hlen hc), hstep node _ hc, hnew, hrun,
    Outcome.ok_bind, Outcome.ok_bind]
  exact ih _ p hmem

/-- The loop of `parse_program` builds the same tree whichever return type keyword
opens a function definition it reaches. -/
theorem Phase2.program_loop_retyped (t t' : Token) (rest : Cursor)
    (hfn : is_function_start (t :: rest) = true) (ht' : is_return_type t' = true) :
    ∀ f node pre, (t :: rest) ∈ item_starts f (pre ++ t :: rest) →
      parse_program_loop f node (pre ++ t' :: rest) =
        parse_program_loop f node (pre ++ t :: rest) := by
  have ht := Phase2.is_function_start_head t rest hfn
  intro f
  induction f with
  | zero =>
    intro node pre h
    simp [item_starts] at h
  | succ f ih =>
    intro node pre hmem
    cases pre with
    | nil =>
      show parse_program_loop (f + 1) node (t' :: rest) =
        parse_program_loop (f + 1) node (t :: rest)
      rw [Phase2.program_loop_function f node t' rest (Phase2.return_type_not_eof t' ht')
          (Phase2.is_function_start_retyped t t' rest hfn ht'),
        Phase2.program_loop_function f node t rest (Phase2.return_type_not_eof t ht) hfn,
        Phase2.parse_function_def_retyped f t t' rest ht ht']
    | cons a pre1 =>
      have hlong : t :: rest ≠ a :: (pre1 ++ t :: rest) := by
        intro h
        have := congrArg List.length h
        simp only [List.length_cons, List.length_append] at this
        omega
      have hmem1 := hmem
      rw [List.cons_append, item_starts.eq_def] at hmem1
      dsimp only at hmem1
      by_cases he : a.type = TOK_EOF_TOKEN
      · rw [if_pos he] at hmem1
        simp at hmem1
      rw [if_neg he] at hmem1
      by_cases hfs : is_function_start (a :: (pre1 ++ t :: rest)) = true
      · rw [if_pos hfs] at hmem1
        rcases List.mem_cons.1 hmem1 with h | h
        · exact absurd h hlong
        · cases hrun : parse_function_def f (a :: (pre1 ++ t :: rest)) with
          | fuel => rw [hrun] at h; simp at h
          | fail l m => rw [hrun] at h; simp at h
          | ok p =>
            obtain ⟨fn, rest1⟩ := p
            rw [hrun] at h
            refine Phase2.program_loop_step t t' rest ht ht' f (parse_function_def f)
              (Phase2.parse_function_def_local f)
              (fun toks => ∃ x y, toks = x :: y ∧ ¬ x.type = TOK_EOF_TOKEN ∧
                is_function_start toks = true) ?_ ?_ ih node (a :: pre1) fn rest1
              ⟨a, _, rfl, he, hfs⟩ hrun h
            · intro pre0 u v hlen hc
              obtain ⟨x, y, hxy, hx, hf⟩ := hc
              match pre0, hlen, hxy, hf with
              | x0 :: y0 :: z0 :: w0, _, hxy, hf =>
                injection hxy with h1 h2
                subst h1
                exact ⟨x0, _, rfl, hx, hf⟩
            · intro node1 toks hc
              obtain ⟨x, y, rfl, hx, hf⟩ := hc
              exact Phase2.program_loop_function f node1 x y hx hf
      · rw [if_neg hfs] at hmem1
        by_cases hd : is_decl_start a = true
        · rw [if_pos hd] at hmem1
          rcases List.mem_cons.1 hmem1 with h | h
          · exact absurd h hlong
          · cases hrun : parse_var_decl f (a :: (pre1 ++ t :: rest)) with
            | fuel => rw [hrun] at h; simp at h
            | fail l m => rw [hrun] at h; simp at h
            | ok p =>
              obtain ⟨fn, rest1⟩ := p
              rw [hrun] at h
              refine Phase2.program_loop_step t t' rest ht ht' f (parse_var_decl f)
                (Phase2.parse_var_decl_local f)
                (fun toks => ∃ x y, toks = x :: y ∧ ¬ x.type = TOK_EOF_TOKEN ∧
                  ¬ is_function_start toks = true ∧ is_decl_start x = true) ?_ ?_ ih node
                (a :: pre1) fn rest1 ⟨a, _, rfl, he, hfs, hd⟩ hrun h
              · intro pre0 u v hlen hc
                obtain ⟨x, y, hxy, hx, hf, hdx⟩ := hc
                match pre0, hlen, hxy, hf with
                | x0 :: y0 :: z0 :: w0, _, hxy, hf =>
                  injection hxy with h1 h2
                  subst h1
                  exact ⟨x0, _, rfl, hx, hf, hdx⟩
              · intro node1 toks hc
                obtain ⟨x, y, rfl, hx, hf, hdx⟩ := hc
                exact Phase2.program_loop_decl f node1 x y hx hf hdx
        · rw [if_neg hd] at hmem1
          simp at hmem1

/-- Claim C39: the serialized AST does not depend on the declared return type of
a function.  When the loop of `parse_program` reaches the token `t` as the first
token of a function definition, any other return type keyword `t'` in its place
gives the same result of the parser (the same text of `ast.txt`, or the same
failure), hence the same verdict of the semantic analyzer and the same TAC. -/
theorem C39_ast_independent_of_return_type (f : Nat) (pre : List Token) (t t' : Token)
    (rest : List Token)
    (hitem : (t :: rest) ∈ Phase2.item_starts f (pre ++ t :: rest))
    (hfn : Phase2.is_function_start (t :: rest) = true)
    (ht' : Phase2.is_return_type t' = true) :
    Phase2.parser_main f (pre ++ t' :: rest) = Phase2.parser_main f (pre ++ t :: rest) ∧
    (∀ g, verdict_of_tokens f g (pre ++ t' :: rest) =
      verdict_of_tokens f g (pre ++ t :: rest)) ∧
    tac_of_tokens f (pre ++ t' :: rest) = tac_of_tokens f (pre ++ t :: rest) := by
  have h : Phase2.parser_main f (pre ++ t' :: rest) =
      Phase2.parser_main f (pre ++ t :: rest) := by
    unfold Phase2.parser_main Phase2.parse_program
    rw [Phase2.program_loop_retyped t t' rest hfn ht' f _ pre hitem]
  refine ⟨h, fun g => ?_, ?_⟩
  · unfold verdict_of_tokens
    rw [h]
  · unfold tac_of_tokens
    rw [h]

theorem C39_ast_independent_of_return_type_witness :
    (kw "int" :: tokens_after_return_type) ∈
      Phase2.item_starts 100 (tokens_before_second_function ++
        kw "int" :: tokens_after_return_type) ∧
    (Phase2.parser_main 100
        (tokens_before_second_function ++ kw "void" :: tokens_after_return_type) =
      Phase2.parser_main 100
        (tokens_before_second_function ++ kw "int" :: tokens_after_return_type) ∧
     (∀ g, verdict_of_tokens 100 g
        (tokens_before_second_function ++ kw "void" :: tokens_after_return_type) =
       verdict_of_tokens 100 g
        (tokens_before_second_function ++ kw "int" :: tokens_after_return_type)) ∧
     tac_of_tokens 100
        (tokens_before_second_function ++ kw "void" :: tokens_after_return_type) =
      tac_of_tokens 100
        (tokens_before_second_function ++ kw "int" :: tokens_after_return_type)) ∧
    Phase2.parser_main 100
        (tokens_before_second_function ++ kw "int" :: tokens_after_return_type) =
      .ok ("VarDeclGroup:\n    VarDecl: int g\nFunctionDefinition: f\n    Parameters:\n" ++
        "        Param: int a\n    Body:\n        Return: a\nFunctionDefinition: main\n" ++
        "    Parameters:\n    Body:\n        Return: 2\n") :=
  ⟨by decide,
   C39_ast_independent_of_return_type 100 tokens_before_second_function (kw "int") (kw "void")
     tokens_after_return_type (by decide) (by decide) (by decide),
   by decide⟩

/-! ### Lines and words of a text -/

theorem CStr.split_at_ne_nil (sep : Char) (s : List Char) : CStr.split_at sep s ≠ [] := by
  cases s with
  | nil => simp [CStr.split_at]
  | cons c cs =>
    rw [CStr.split_at]
    split
    · simp
    · split <;> simp

/-- A text without separator is one piece. -/
theorem CStr.split_at_free (sep : Char) (w : List Char) (h : sep ∉ w) :
    CStr.split_at sep w = [w] := by
  induction w with
  | nil => rfl
  | cons c cs ih =>
    rw [CStr.split_at, if_neg (fun hc => h (by rw [hc]; exact List.mem_cons_self _ _)),
      ih (fun hc => h (List.mem_cons_of_mem _ hc))]

/-- A text that starts with a piece without separator, followed by the
separator: that piece is the first one. -/
theorem CStr.split_at_append (sep : Char) (w rest : List Char) (h : sep ∉ w) :
    CStr.split_at sep (w ++ sep :: rest) = w :: CStr.split_at sep rest := by
  induction w with
  | nil =>
    rw [List.nil_append, CStr.split_at, if_pos rfl]
  | cons c cs ih =>
    rw [List.cons_append, CStr.split_at,
      if_neg (fun hc => h (by rw [hc]; exact List.mem_cons_self _ _)),
      ih (fun hc => h (List.mem_cons_of_mem _ hc))]

theorem CStr.join_rows_append (sep : Char) (a b : List (List Char)) :
    CStr.join_rows sep (a ++ b) = CStr.join_rows sep a ++ CStr.join_rows sep b := by
  induction a with
  | nil => rfl
  | cons r rs ih =>
    rw [List.cons_append, CStr.join_rows, CStr.join_rows, ih, List.append_assoc, List.cons_append]

/-- The pieces of a text made of rows, each ended by the separator. -/
theorem CStr.split_at_rows (sep : Char) (rows : List (List Char))
    (h : ∀ r ∈ rows, sep ∉ r) :
    CStr.split_at sep (CStr.join_rows sep rows) = rows ++ [[]] := by
  induction rows with
  | nil => rfl
  | cons r rs ih =>
    rw [CStr.join_rows, CStr.split_at_append sep r _ (h r (List.mem_cons_self _ _)),
      ih (fun x hx => h x (List.mem_cons_of_mem _ hx)), List.cons_append]

/-! ### The text of an instruction, line by line -/

theorem Phase4.text_rows (i : Phase4.Instr) :
    i.text.data = CStr.join_rows '\n' i.rows := by
  cases i with
  | ret src =>
    cases src <;>
    simp [Phase4.Instr.text, Phase4.Instr.rows, String.data_append, CStr.join_rows]
  | _ => simp [Phase4.Instr.text, Phase4.Instr.rows, String.data_append, CStr.join_rows]

theorem Phase4.render_data (d : List Phase4.Instr) :
    (Phase4.render d).data = CStr.join_rows '\n' (Phase4.rows_of d) := by
  induction d with
  | nil => rfl
  | cons i rest ih =>
    rw [Phase4.render, String.data_append, ih, Phase4.text_rows, Phase4.rows_of,
      CStr.join_rows_append]

theorem Phase4.mem_rows_of (d : List Phase4.Instr) (r : List Char) :
    r ∈ Phase4.rows_of d ↔ ∃ i ∈ d, r ∈ i.rows := by
  induction d with
  | nil => simp [Phase4.rows_of]
  | cons i rest ih =>
    rw [Phase4.rows_of, List.mem_append, ih]
    simp

/-- The lines of the text of a list of instructions are the rows of the
instructions, and the empty line after the last newline. -/
theorem Phase4.tac_lines_render (d : List Phase4.Instr)
    (h : ∀ i ∈ d, ∀ r ∈ i.rows, '\n' ∉ r) :
    Phase4.tac_lines (Phase4.render d) = Phase4.rows_of d ++ [[]] := by
  unfold Phase4.tac_lines
  rw [Phase4.render_data]
  refine CStr.split_at_rows _ _ (fun r hr => ?_)
  obtain ⟨i, hi, hri⟩ := (Phase4.mem_rows_of d r).1 hr
  exact h i hi r hri

/-! ### The names the generator makes and the names it reads -/

theorem Phase4.label_name_data (k : Nat) :
    (Phase4.label_name k).data = 'L' :: (CStr.digits_rev (k + 1) k).reverse := rfl

theorem Phase4.temp_name_data (k : Nat) :
    (Phase4.temp_name k).data = 't' :: (CStr.digits_rev (k + 1) k).reverse := rfl

theorem CStr.digits_all (k : Nat) :
    (CStr.digits_rev (k + 1) k).reverse.isEmpty = false ∧
    (CStr.digits_rev (k + 1) k).reverse.all CStr.isdigit = true := by
  constructor
  · rw [List.isEmpty_eq_false]
    intro h
    exact CStr.digits_rev_ne_nil k k (List.reverse_eq_nil_iff.1 h)
  · rw [List.all_eq_true]
    intro c hc
    exact CStr.digits_rev_digits _ _ c (List.mem_reverse.1 hc)

theorem Phase4.is_label_name_label (k : Nat) :
    Phase4.is_label_name (Phase4.label_name k).data = true := by
  rw [Phase4.label_name_data]
  unfold Phase4.is_label_name
  simp only [(CStr.digits_all k).1, (CStr.digits_all k).2, Bool.not_false, Bool.and_self]

theorem Phase4.is_temp_name_temp (k : Nat) :
    Phase4.is_temp_name (Phase4.temp_name k).data = true := by
  rw [Phase4.temp_name_data]
  unfold Phase4.is_temp_name
  simp only [(CStr.digits_all k).1, (CStr.digits_all k).2, Bool.not_false, Bool.and_self]

/-- A name of the form `L<digits>` holds no character that is neither `L` nor a
digit. -/
theorem Phase4.label_name_chars (w : List Char) (h : Phase4.is_label_name w = true) (c : Char)
    (hc : CStr.isdigit c = false) (hL : c ≠ 'L') : c ∉ w := by
  unfold Phase4.is_label_name at h
  split at h
  · rename_i ds
    rw [Bool.and_eq_true, List.all_eq_true] at h
    intro hm
    rcases List.mem_cons.1 hm with h1 | h1
    · exact hL h1
    · rw [h.2 c h1] at hc
      exact Bool.noConfusion hc
  · exact Bool.noConfusion h

theorem Phase4.temp_name_chars (w : List Char) (h : Phase4.is_temp_name w = true) (c : Char)
    (hc : CStr.isdigit c = false) (ht : c ≠ 't') : c ∉ w := by
  unfold Phase4.is_temp_name at h
  split at h
  · rename_i ds
    rw [Bool.and_eq_true, List.all_eq_true] at h
    intro hm
    rcases List.mem_cons.1 hm with h1 | h1
    · exact ht h1
    · rw [h.2 c h1] at hc
      exact Bool.noConfusion hc
  · exact Bool.noConfusion h

theorem Phase4.label_no_blank (k : Nat) : ' ' ∉ (Phase4.label_name k).data :=
  Phase4.label_name_chars _ (Phase4.is_label_name_label k) ' ' (by decide) (by decide)

theorem Phase4.label_no_newline (k : Nat) : '\n' ∉ (Phase4.label_name k).data :=
  Phase4.label_name_chars _ (Phase4.is_label_name_label k) '\n' (by decide) (by decide)

theorem Phase4.temp_no_blank (k : Nat) : ' ' ∉ (Phase4.temp_name k).data :=
  Phase4.temp_name_chars _ (Phase4.is_temp_name_temp k) ' ' (by decide) (by decide)

theorem Phase4.temp_no_newline (k : Nat) : '\n' ∉ (Phase4.temp_name k).data :=
  Phase4.temp_name_chars _ (Phase4.is_temp_name_temp k) '\n' (by decide) (by decide)

/-- What `%s` reads holds no white space. -/
theorem CStr.scan_word_no_space (s : List Char) (c : Char) (h : c ∈ CStr.scan_word s) :
    CStr.isspace c = false := by
  unfold CStr.scan_word at h
  have h1 := List.mem_takeWhile_imp h
  simpa using h1

theorem CStr.scan_word_sub (s : List Char) (c : Char) (h : c ∈ CStr.scan_word s) : c ∈ s := by
  unfold CStr.scan_word at h
  exact (List.dropWhile_sublist _).subset ((List.takeWhile_sublist _).subset h)

theorem CStr.scan_until_rparen_sub (s : List Char) (c : Char)
    (h : c ∈ CStr.scan_until_rparen s) : c ∈ s := by
  unfold CStr.scan_until_rparen at h
  exact (List.takeWhile_sublist _).subset h

theorem Phase4.from_offset_sub (t : String) (n : Nat) (c : Char)
    (h : c ∈ Phase4.from_offset t n) : c ∈ t.data := by
  unfold Phase4.from_offset at h
  exact List.mem_of_mem_drop h

theorem Phase4.single_line_mem (lines : List Ast.ASTLine) (h : Phase4.one_line lines)
    (ln : Ast.ASTLine) (hln : ln ∈ lines) : '\n' ∉ ln.text.data := by
  have h1 := h ln hln
  unfold Phase4.single_line at h1
  rw [List.all_eq_true] at h1
  intro hm
  have h2 := h1 _ hm
  simp at h2

/-- The operand an AST line gives is part of the text of the line. -/
theorem Phase4.ast_operand_sub (ln : Ast.ASTLine) (o : String)
    (h : Phase4.ast_operand ln = some o) (c : Char) (hc : c ∈ o.data) : c ∈ ln.text.data := by
  unfold Phase4.ast_operand at h
  split at h
  · rw [Option.some.injEq] at h
    rw [← h] at hc
    exact Phase4.from_offset_sub _ _ _ (CStr.scan_until_rparen_sub _ _ hc)
  · split at h
    · rw [Option.some.injEq] at h
      rw [← h] at hc
      exact Phase4.from_offset_sub _ _ _ (CStr.scan_until_rparen_sub _ _ hc)
    · exact Option.noConfusion h

theorem Phase4.mem_ast_operands (lines : List Ast.ASTLine) (o : String)
    (h : o ∈ Phase4.ast_operands lines) : ∃ ln ∈ lines, Phase4.ast_operand ln = some o := by
  unfold Phase4.ast_operands at h
  exact List.mem_filterMap.1 h

/-- An operand holds no newline when the AST lines hold none. -/
theorem Phase4.operand_no_newline (lines : List Ast.ASTLine) (m : Nat) (o : String)
    (h1 : Phase4.one_line lines) (h : Phase4.is_operand lines m o) : '\n' ∉ o.data := by
  rcases h with ⟨j, _, hj⟩ | h | h
  · rw [hj]
    exact Phase4.temp_no_newline j
  · obtain ⟨ln, hln, ho⟩ := Phase4.mem_ast_operands lines o h
    exact fun hc => Phase4.single_line_mem lines h1 ln hln (Phase4.ast_operand_sub ln o ho _ hc)
  · rw [h]
    decide

/-- An operand holds no blank when the operands of the AST hold none. -/
theorem Phase4.operand_no_blank (lines : List Ast.ASTLine) (m : Nat) (o : String)
    (h1 : Phase4.operands_plain lines) (h : Phase4.is_operand lines m o) : ' ' ∉ o.data := by
  rcases h with ⟨j, _, hj⟩ | h | h
  · rw [hj]
    exact Phase4.temp_no_blank j
  · obtain ⟨ln, hln, ho⟩ := Phase4.mem_ast_operands lines o h
    have h2 := h1 ln hln
    unfold Phase4.operand_plain at h2
    rw [ho] at h2
    dsimp only at h2
    rw [List.all_eq_true] at h2
    intro hc
    have h3 := h2 _ hc
    simp at h3
  · rw [h]
    decide

/-- An operand named like a temporary is a temporary assigned before, when no
operand of the AST is named like one. -/
theorem Phase4.operand_temp (lines : List Ast.ASTLine) (m : Nat) (o : String)
    (h1 : Phase4.no_temp_names lines) (h : Phase4.is_operand lines m o)
    (ht : Phase4.is_temp_name o.data = true) : ∃ j, j < m ∧ o = Phase4.temp_name j := by
  rcases h with h | h | h
  · exact h
  · obtain ⟨ln, hln, ho⟩ := Phase4.mem_ast_operands lines o h
    have h2 := h1 ln hln
    unfold Phase4.temp_free at h2
    rw [ho, Bool.and_eq_true] at h2
    have h3 := h2.2
    dsimp only at h3
    rw [ht] at h3
    exact Bool.noConfusion h3
  · rw [h] at ht
    exact absurd ht (by decide)

/-- Every operand of every instruction of a piece of output is an operand that may
be read somewhere. -/
theorem Phase4.operands_ok_mem (lines : List Ast.ASTLine) (d : List Phase4.Instr) :
    ∀ n, Phase4.operands_ok lines n d →
      ∀ i ∈ d, ∀ o ∈ i.operands, ∃ m, Phase4.is_operand lines m o := by
  induction d with
  | nil => intro n _ i hi; exact absurd hi (List.not_mem_nil _)
  | cons a rest ih =>
    intro n h i hi o ho
    unfold Phase4.operands_ok at h
    rcases List.mem_cons.1 hi with h1 | h1
    · rw [h1] at ho
      exact ⟨n, h.1 o ho⟩
    · exact ih _ h.2 i h1 o ho

/-! ### The words of the lines the generator writes -/

theorem Phase4.words_free (w : List Char) (h : ' ' ∉ w) : Phase4.tac_words w = [w] :=
  CStr.split_at_free ' ' w h

theorem Phase4.words_cons (w rest : List Char) (h : ' ' ∉ w) :
    Phase4.tac_words (w ++ ' ' :: rest) = w :: Phase4.tac_words rest :=
  CStr.split_at_append ' ' w rest h

theorem Phase4.words_ne_nil (l : List Char) : Phase4.tac_words l ≠ [] :=
  CStr.split_at_ne_nil ' ' l

theorem Phase4.words_func (name : String) (h : ' ' ∉ name.data) :
    Phase4.tac_words ("func ".data ++ name.data ++ ":".data) =
      ["func".data, name.data ++ ":".data] := by
  rw [show "func ".data ++ name.data ++ ":".data = "func".data ++ ' ' :: (name.data ++ ":".data)
    from rfl, Phase4.words_cons _ _ (by decide), Phase4.words_free]
  intro hm
  rcases List.mem_append.1 hm with h1 | h1
  · exact h h1
  · exact absurd h1 (by decide)

theorem Phase4.words_copy_head (var src : String) (h : ' ' ∉ var.data) :
    Phase4.tac_words (var.data ++ " = ".data ++ src.data) =
      var.data :: "=".data :: Phase4.tac_words src.data := by
  rw [List.append_assoc,
    show " = ".data ++ src.data = ' ' :: ("=".data ++ ' ' :: src.data) from rfl,
    Phase4.words_cons _ _ h, Phase4.words_cons _ _ (by decide)]

theorem Phase4.words_copy (var src : String) (h : ' ' ∉ var.data) (hs : ' ' ∉ src.data) :
    Phase4.tac_words (var.data ++ " = ".data ++ src.data) = [var.data, "=".data, src.data] := by
  rw [Phase4.words_copy_head var src h, Phase4.words_free _ hs]

theorem Phase4.words_ret_head (x : String) :
    Phase4.tac_words ("return ".data ++ x.data) = "return".data :: Phase4.tac_words x.data := by
  rw [show "return ".data ++ x.data = "return".data ++ ' ' :: x.data from rfl,
    Phase4.words_cons _ _ (by decide)]

theorem Phase4.words_ret (x : String) (h : ' ' ∉ x.data) :
    Phase4.tac_words ("return ".data ++ x.data) = ["return".data, x.data] := by
  rw [Phase4.words_ret_head, Phase4.words_free _ h]

theorem Phase4.words_if_head (c : String) (k : Nat) :
    Phase4.tac_words ("ifFalse ".data ++ c.data ++ " goto ".data ++ (Phase4.label_name k).data) =
      "ifFalse".data ::
        Phase4.tac_words (c.data ++ " goto ".data ++ (Phase4.label_name k).data) := by
  rw [show "ifFalse ".data ++ c.data ++ " goto ".data ++ (Phase4.label_name k).data =
      "ifFalse".data ++ ' ' :: (c.data ++ " goto ".data ++ (Phase4.label_name k).data) from rfl,
    Phase4.words_cons _ _ (by decide)]

theorem Phase4.words_if (c : String) (k : Nat) (h : ' ' ∉ c.data) :
    Phase4.tac_words ("ifFalse ".data ++ c.data ++ " goto ".data ++ (Phase4.label_name k).data) =
      ["ifFalse".data, c.data, "goto".data, (Phase4.label_name k).data] := by
  rw [Phase4.words_if_head, List.append_assoc,
    show " goto ".data ++ (Phase4.label_name k).data =
      ' ' :: ("goto".data ++ ' ' :: (Phase4.label_name k).data) from rfl,
    Phase4.words_cons _ _ h, Phase4.words_cons _ _ (by decide),
    Phase4.words_free _ (Phase4.label_no_blank k)]

theorem Phase4.words_goto (k : Nat) :
    Phase4.tac_words ("goto ".data ++ (Phase4.label_name k).data) =
      ["goto".data, (Phase4.label_name k).data] := by
  rw [show "goto ".data ++ (Phase4.label_name k).data =
      "goto".data ++ ' ' :: (Phase4.label_name k).data from rfl,
    Phase4.words_cons _ _ (by decide), Phase4.words_free _ (Phase4.label_no_blank k)]

theorem Phase4.words_label (k : Nat) :
    Phase4.tac_words ((Phase4.label_name k).data ++ ":".data) =
      [(Phase4.label_name k).data ++ ":".data] := by
  refine Phase4.words_free _ (fun hm => ?_)
  rcases List.mem_append.1 hm with h1 | h1
  · exact Phase4.label_no_blank k h1
  · exact absurd h1 (by decide)

theorem Phase4.words_binary_head (t : Nat) (l o r : String) :
    Phase4.tac_words ((Phase4.temp_name t).data ++ " = ".data ++ l.data ++ " ".data ++ o.data ++
        " ".data ++ r.data) =
      (Phase4.temp_name t).data :: "=".data ::
        Phase4.tac_words (l.data ++ " ".data ++ o.data ++ " ".data ++ r.data) := by
  rw [List.append_assoc, List.append_assoc, List.append_assoc, List.append_assoc,
    List.append_assoc,
    show " = ".data ++ (l.data ++ (" ".data ++ (o.data ++ (" ".data ++ r.data)))) =
      ' ' :: ("=".data ++ ' ' :: (l.data ++ (" ".data ++ (o.data ++ (" ".data ++ r.data)))))
      from rfl,
    Phase4.words_cons _ _ (Phase4.temp_no_blank t), Phase4.words_cons _ _ (by decide),
    List.append_assoc, List.append_assoc, List.append_assoc]

theorem Phase4.words_binary (t : Nat) (l o r : String) (hl : ' ' ∉ l.data) (ho : ' ' ∉ o.data)
    (hr : ' ' ∉ r.data) :
    Phase4.tac_words ((Phase4.temp_name t).data ++ " = ".data ++ l.data ++ " ".data ++ o.data ++
        " ".data ++ r.data) =
      [(Phase4.temp_name t).data, "=".data, l.data, o.data, r.data] := by
  rw [Phase4.words_binary_head, List.append_assoc, List.append_assoc, List.append_assoc,
    show " ".data ++ (o.data ++ (" ".data ++ r.data)) = ' ' :: (o.data ++ ' ' :: r.data) from rfl,
    Phase4.words_cons _ _ hl, Phase4.words_cons _ _ ho, Phase4.words_free _ hr]

/-! ### The names an instruction takes from the AST -/

theorem CStr.scan_word_no_blank (s : List Char) : ' ' ∉ CStr.scan_word s := fun h =>
  absurd (CStr.scan_word_no_space s ' ' h) (by decide)

theorem CStr.scan_word_no_newline (s : List Char) : '\n' ∉ CStr.scan_word s := fun h =>
  absurd (CStr.scan_word_no_space s '\n' h) (by decide)

theorem Phase4.func_name_plain (lines : List Ast.ASTLine) (name : String)
    (h : (Phase4.Instr.func name).sourced lines) : ' ' ∉ name.data ∧ '\n' ∉ name.data := by
  obtain ⟨ln, _, _, hn⟩ := h
  rw [hn]
  exact ⟨CStr.scan_word_no_blank _, CStr.scan_word_no_newline _⟩

theorem Phase4.copy_var_plain (lines : List Ast.ASTLine) (var src : String)
    (h : (Phase4.Instr.copy var src).sourced lines) : ' ' ∉ var.data ∧ '\n' ∉ var.data := by
  obtain ⟨ln, _, _, hn⟩ := h
  rw [hn]
  exact ⟨CStr.scan_word_no_blank _, CStr.scan_word_no_newline _⟩

theorem Phase4.copy_var_no_temp (lines : List Ast.ASTLine) (var src : String)
    (h : (Phase4.Instr.copy var src).sourced lines) (h1 : Phase4.no_temp_names lines) :
    Phase4.is_temp_name var.data = false := by
  obtain ⟨ln, hln, hp, hn⟩ := h
  have h2 := h1 ln hln
  unfold Phase4.temp_free at h2
  rw [Bool.and_eq_true, if_pos hp, ← hn] at h2
  simpa using h2.1

theorem Phase4.binary_op_one_line (lines : List Ast.ASTLine) (t : Nat) (l o r : String)
    (h : (Phase4.Instr.binary t l o r).sourced lines) (h1 : Phase4.one_line lines) :
    '\n' ∉ o.data := by
  obtain ⟨ln, hln, _, hn⟩ := h
  rw [hn]
  exact fun hc => Phase4.single_line_mem lines h1 ln hln
    (Phase4.from_offset_sub _ _ _ (CStr.scan_until_rparen_sub _ _ hc))

theorem Phase4.binary_op_plain (lines : List Ast.ASTLine) (t : Nat) (l o r : String)
    (h : (Phase4.Instr.binary t l o r).sourced lines) (h1 : Phase4.operators_plain lines) :
    ' ' ∉ o.data := by
  obtain ⟨ln, hln, hp, hn⟩ := h
  have h2 := h1 ln hln
  unfold Phase4.operator_plain at h2
  rw [if_pos hp, ← hn, List.all_eq_true] at h2
  intro hc
  have h3 := h2 _ hc
  simp at h3

/-- No row of an instruction holds a newline, when the AST lines hold none. -/
theorem Phase4.rows_one_line (lines : List Ast.ASTLine) (i : Phase4.Instr)
    (h1 : Phase4.one_line lines) (hs : i.sourced lines)
    (ho : ∀ o ∈ i.operands, '\n' ∉ o.data) : ∀ r ∈ i.rows, '\n' ∉ r := by
  intro r hr hm
  cases i with
  | func name =>
    rw [Phase4.Instr.rows, List.mem_singleton] at hr
    rw [hr] at hm
    rcases List.mem_append.1 hm with h | h
    · rcases List.mem_append.1 h with h | h
      · exact absurd h (by decide)
      · exact (Phase4.func_name_plain lines name hs).2 h
    · exact absurd h (by decide)
  | endfunc =>
    rw [Phase4.Instr.rows] at hr
    rcases List.mem_cons.1 hr with h | h
    · rw [h] at hm
      exact absurd hm (by decide)
    · rw [List.mem_singleton] at h
      rw [h] at hm
      exact absurd hm (List.not_mem_nil _)
  | copy var src =>
    rw [Phase4.Instr.rows, List.mem_singleton] at hr
    rw [hr] at hm
    rcases List.mem_append.1 hm with h | h
    · rcases List.mem_append.1 h with h | h
      · exact (Phase4.copy_var_plain lines var src hs).2 h
      · exact absurd h (by decide)
    · exact ho src (List.mem_singleton_self _) h
  | ret src =>
    cases src with
    | none =>
      rw [Phase4.Instr.rows, List.mem_singleton] at hr
      rw [hr] at hm
      exact absurd hm (by decide)
    | some x =>
      rw [Phase4.Instr.rows, List.mem_singleton] at hr
      rw [hr] at hm
      rcases List.mem_append.1 hm with h | h
      · exact absurd h (by decide)
      · exact ho x (List.mem_singleton_self _) h
  | if_false c k =>
    rw [Phase4.Instr.rows, List.mem_singleton] at hr
    rw [hr] at hm
    rcases List.mem_append.1 hm with h | h
    · rcases List.mem_append.1 h with h | h
      · rcases List.mem_append.1 h with h | h
        · exact absurd h (by decide)
        · exact ho c (List.mem_singleton_self _) h
      · exact absurd h (by decide)
    · exact Phase4.label_no_newline k h
  | goto k =>
    rw [Phase4.Instr.rows, List.mem_singleton] at hr
    rw [hr] at hm
    rcases List.mem_append.1 hm with h | h
    · exact absurd h (by decide)
    · exact Phase4.label_no_newline k h
  | label k =>
    rw [Phase4.Instr.rows, List.mem_singleton] at hr
    rw [hr] at hm
    rcases List.mem_append.1 hm with h | h
    · exact Phase4.label_no_newline k h
    · exact absurd h (by decide)
  | binary t l o r =>
    rw [Phase4.Instr.rows, List.mem_singleton] at hr
    rw [hr] at hm
    rcases List.mem_append.1 hm with h | h
    · rcases List.mem_append.1 h with h | h
      · rcases List.mem_append.1 h with h | h
        · rcases List.mem_append.1 h with h | h
          · rcases List.mem_append.1 h with h | h
            · rcases List.mem_append.1 h with h | h
              · exact Phase4.temp_no_newline t h
              · exact absurd h (by decide)
            · exact ho l (List.mem_cons_self _ _) h
          · exact absurd h (by decide)
        · exact Phase4.binary_op_one_line lines t l o r hs h1 h
      · exact absurd h (by decide)
    · exact ho r (List.mem_cons_of_mem _ (List.mem_singleton_self _)) h

/-- The lines of the text a run has written are the rows of its instructions. -/
theorem Phase4.tac_lines_traced (lines : List Ast.ASTLine) (st : Phase4.State)
    (d : List Phase4.Instr) (h1 : Phase4.one_line lines)
    (c : Phase4.Core (Phase4.initial_state lines) st d) :
    Phase4.tac_lines st.out = Phase4.rows_of d ++ [[]] := by
  have hout : st.out = Phase4.render d := by
    rw [c.out_eq]
    exact String.empty_append _
  rw [hout]
  refine Phase4.tac_lines_render d (fun i hi => ?_)
  refine Phase4.rows_one_line lines i h1 (c.sourced i hi) (fun o ho => ?_)
  obtain ⟨m, hm⟩ := Phase4.operands_ok_mem lines d _ c.operands i hi o ho
  exact Phase4.operand_no_newline lines m o h1 hm

/-! ### Reading the lines of an instruction: function headers -/

theorem Phase4.is_func_line_head (l w : List Char) (ws : List (List Char))
    (h : Phase4.tac_words l = w :: ws) (hw : w ≠ "func".data) : Phase4.is_func_line l = false := by
  unfold Phase4.is_func_line
  rw [h]
  split
  · rename_i f x heq
    have h1 : w = f := (List.cons.inj heq).1
    rw [← h1, decide_eq_false hw, Bool.false_and]
  · rfl

theorem Phase4.is_func_line_three (l a b c : List Char) (ws : List (List Char))
    (h : Phase4.tac_words l = a :: b :: c :: ws) : Phase4.is_func_line l = false := by
  unfold Phase4.is_func_line
  rw [h]

theorem Phase4.is_func_line_one (l a : List Char)
    (h : Phase4.tac_words l = [a]) : Phase4.is_func_line l = false := by
  unfold Phase4.is_func_line
  rw [h]

theorem Phase4.count_one {α : Type} (p : α → Bool) (a : α) (h : p a = true) :
    [a].countP p = 1 := by
  rw [List.countP_cons, List.countP_nil, h]
  rfl

theorem Phase4.count_none {α : Type} (p : α → Bool) (a : α) (h : p a = false) :
    [a].countP p = 0 := by
  rw [List.countP_cons, List.countP_nil, h]
  rfl

theorem Phase4.temp_name_ne (t : Nat) (c : Char) (w : List Char) (hc : c ≠ 't') :
    (Phase4.temp_name t).data ≠ c :: w := by
  rw [Phase4.temp_name_data]
  intro h
  exact hc (List.cons.inj h).1.symm

/-- The rows of an instruction that are `func <name>:` lines: the row of a `func`
instruction, and no other. -/
theorem Phase4.func_rows (lines : List Ast.ASTLine) (i : Phase4.Instr) (hs : i.sourced lines) :
    i.rows.countP Phase4.is_func_line = Phase4.func_count [i] := by
  cases i with
  | func name =>
    have h : Phase4.is_func_line ("func ".data ++ name.data ++ ":".data) = true := by
      unfold Phase4.is_func_line
      rw [Phase4.words_func name (Phase4.func_name_plain lines name hs).1]
      show (decide ("func".data = "func".data) &&
        decide ((name.data ++ [':']).getLast? = some ':')) = true
      rw [List.getLast?_concat]
      rfl
    exact Phase4.count_one _ _ h
  | endfunc =>
    decide
  | copy var src =>
    have h : Phase4.is_func_line (var.data ++ " = ".data ++ src.data) = false := by
      cases hw : Phase4.tac_words src.data with
      | nil => exact absurd hw (Phase4.words_ne_nil _)
      | cons x xs =>
        refine Phase4.is_func_line_three _ var.data "=".data x xs ?_
        rw [Phase4.words_copy_head var src (Phase4.copy_var_plain lines var src hs).1, hw]
    exact Phase4.count_none _ _ h
  | ret src =>
    cases src with
    | none =>
      decide
    | some x =>
      have h : Phase4.is_func_line ("return ".data ++ x.data) = false :=
        Phase4.is_func_line_head _ _ _ (Phase4.words_ret_head x) (by decide)
      exact Phase4.count_none _ _ h
  | if_false c k =>
    have h : Phase4.is_func_line
        ("ifFalse ".data ++ c.data ++ " goto ".data ++ (Phase4.label_name k).data) = false :=
      Phase4.is_func_line_head _ _ _ (Phase4.words_if_head c k) (by decide)
    exact Phase4.count_none _ _ h
  | goto k =>
    have h : Phase4.is_func_line ("goto ".data ++ (Phase4.label_name k).data) = false :=
      Phase4.is_func_line_head _ _ _ (Phase4.words_goto k) (by decide)
    exact Phase4.count_none _ _ h
  | label k =>
    have h : Phase4.is_func_line ((Phase4.label_name k).data ++ ":".data) = false :=
      Phase4.is_func_line_one _ _ (Phase4.words_label k)
    exact Phase4.count_none _ _ h
  | binary t l o r =>
    have h : Phase4.is_func_line ((Phase4.temp_name t).data ++ " = ".data ++ l.data ++
        " ".data ++ o.data ++ " ".data ++ r.data) = false :=
      Phase4.is_func_line_head _ _ _ (Phase4.words_binary_head t l o r)
        (Phase4.temp_name_ne t 'f' _ (by decide))
    exact Phase4.count_none _ _ h

theorem Phase4.ne_of_first (a b : Char) (x y : List Char) (h : a ≠ b) : a :: x ≠ b :: y :=
  fun he => h (List.cons.inj he).1

theorem Phase4.ne_of_blank (x y : List Char) (hx : ' ' ∈ x) (hy : ' ' ∉ y) : x ≠ y :=
  fun he => hy (he ▸ hx)

/-- The rows of an instruction that are `endfunc` lines: the first row of an
`endfunc` instruction, and no other. -/
theorem Phase4.endfunc_rows (i : Phase4.Instr) :
    i.rows.countP Phase4.is_endfunc_line = Phase4.endfunc_count [i] := by
  cases i with
  | func name =>
    have h : Phase4.is_endfunc_line ("func ".data ++ name.data ++ ":".data) = false :=
      decide_eq_false (Phase4.ne_of_first 'f' 'e' _ _ (by decide))
    exact Phase4.count_none _ _ h
  | endfunc =>
    decide
  | copy var src =>
    have h : Phase4.is_endfunc_line (var.data ++ " = ".data ++ src.data) = false :=
      decide_eq_false (Phase4.ne_of_blank _ _ (by simp) (by decide))
    exact Phase4.count_none _ _ h
  | ret src =>
    cases src with
    | none =>
      decide
    | some x =>
      have h : Phase4.is_endfunc_line ("return ".data ++ x.data) = false :=
        decide_eq_false (Phase4.ne_of_first 'r' 'e' _ _ (by decide))
      exact Phase4.count_none _ _ h
  | if_false c k =>
    have h : Phase4.is_endfunc_line
        ("ifFalse ".data ++ c.data ++ " goto ".data ++ (Phase4.label_name k).data) = false :=
      decide_eq_false (Phase4.ne_of_first 'i' 'e' _ _ (by decide))
    exact Phase4.count_none _ _ h
  | goto k =>
    have h : Phase4.is_endfunc_line ("goto ".data ++ (Phase4.label_name k).data) = false :=
      decide_eq_false (Phase4.ne_of_first 'g' 'e' _ _ (by decide))
    exact Phase4.count_none _ _ h
  | label k =>
    have h : Phase4.is_endfunc_line ((Phase4.label_name k).data ++ ":".data) = false :=
      decide_eq_false (Phase4.ne_of_first 'L' 'e' _ _ (by decide))
    exact Phase4.count_none _ _ h
  | binary t l o r =>
    have h : Phase4.is_endfunc_line ((Phase4.temp_name t).data ++ " = ".data ++ l.data ++
        " ".data ++ o.data ++ " ".data ++ r.data) = false :=
      decide_eq_false (Phase4.ne_of_first 't' 'e' _ _ (by decide))
    exact Phase4.count_none _ _ h

/-- The `func <name>:` lines and the `endfunc` lines among the rows of a list of
instructions. -/
theorem Phase4.func_rows_of (lines : List Ast.ASTLine) (d : List Phase4.Instr)
    (hs : ∀ i ∈ d, i.sourced lines) :
    (Phase4.rows_of d ++ [[]]).countP Phase4.is_func_line = Phase4.func_count d ∧
    (Phase4.rows_of d ++ [[]]).countP Phase4.is_endfunc_line = Phase4.endfunc_count d := by
  induction d with
  | nil => exact ⟨by decide, by decide⟩
  | cons i rest ih =>
    obtain ⟨h1, h2⟩ := ih (fun x hx => hs x (List.mem_cons_of_mem _ hx))
    have e1 : Phase4.func_count (i :: rest) = Phase4.func_count [i] + Phase4.func_count rest := by
      unfold Phase4.func_count
      rw [List.countP_cons, List.countP_cons, List.countP_nil]
      omega
    have e2 : Phase4.endfunc_count (i :: rest) =
        Phase4.endfunc_count [i] + Phase4.endfunc_count rest := by
      unfold Phase4.endfunc_count
      rw [List.countP_cons, List.countP_cons, List.countP_nil]
      omega
    constructor
    · rw [Phase4.rows_of, List.append_assoc, List.countP_append, h1,
        Phase4.func_rows lines i (hs i (List.mem_cons_self _ _)), e1]
    · rw [Phase4.rows_of, List.append_assoc, List.countP_append, h2, Phase4.endfunc_rows i, e2]

/-! ### Reading the lines of an instruction: labels and jumps -/

theorem Phase4.line_declares_first (c c2 : Char) (rest : List Char) (hc : c ≠ 'L') :
    Phase4.line_declares (c :: c2 :: rest) = none := by
  unfold Phase4.line_declares
  refine if_neg (fun h => ?_)
  have h2 := h.2
  rw [List.dropLast_cons₂] at h2
  unfold Phase4.is_label_name at h2
  split at h2
  · rename_i ds heq
    exact hc (List.cons.inj heq).1
  · exact Bool.noConfusion h2

theorem Phase4.line_declares_blank (l : List Char) (h : ' ' ∈ l.dropLast) :
    Phase4.line_declares l = none := by
  unfold Phase4.line_declares
  refine if_neg (fun h2 => ?_)
  exact Phase4.label_name_chars _ h2.2 ' ' (by decide) (by decide) h

theorem Phase4.line_declares_label (k : Nat) :
    Phase4.line_declares ((Phase4.label_name k).data ++ ":".data) =
      some (Phase4.label_name k).data := by
  unfold Phase4.line_declares
  rw [show ":".data = [':'] from rfl, List.getLast?_concat, List.dropLast_concat]
  exact if_pos ⟨rfl, Phase4.is_label_name_label k⟩

theorem Phase4.filter_one {α β : Type} (g : α → Option β) (a : α) (b : β) (h : g a = some b) :
    [a].filterMap g = [b] := by
  rw [List.filterMap_cons, h, List.filterMap_nil]

theorem Phase4.filter_none {α β : Type} (g : α → Option β) (a : α) (h : g a = none) :
    [a].filterMap g = [] := by
  rw [List.filterMap_cons, h, List.filterMap_nil]

/-- The labels the rows of an instruction declare: the label of a label
instruction, and nothing else. -/
theorem Phase4.declares_rows (i : Phase4.Instr) :
    i.rows.filterMap Phase4.line_declares =
      (Phase4.declared_labels [i]).map (fun k => (Phase4.label_name k).data) := by
  cases i with
  | func name =>
    exact Phase4.filter_none _ _ (Phase4.line_declares_first 'f' 'u' _ (by decide))
  | endfunc => decide
  | copy var src =>
    refine Phase4.filter_none _ _ (Phase4.line_declares_blank _ ?_)
    rw [List.append_assoc, List.dropLast_append_of_ne_nil _ (by
      intro h
      exact absurd (congrArg List.length h) (by simp))]
    refine List.mem_append_right _ ?_
    rw [show " = ".data ++ src.data = ' ' :: '=' :: (' ' :: src.data) from rfl,
      List.dropLast_cons₂]
    exact List.mem_cons_self _ _
  | ret src =>
    cases src with
    | none => decide
    | some x => exact Phase4.filter_none _ _ (Phase4.line_declares_first 'r' 'e' _ (by decide))
  | if_false c k =>
    exact Phase4.filter_none _ _ (Phase4.line_declares_first 'i' 'f' _ (by decide))
  | goto k => exact Phase4.filter_none _ _ (Phase4.line_declares_first 'g' 'o' _ (by decide))
  | label k => exact Phase4.filter_one _ _ _ (Phase4.line_declares_label k)
  | binary t l o r =>
    refine Phase4.filter_none _ _ ?_
    rw [Phase4.temp_name_data]
    cases hd : (CStr.digits_rev (t + 1) t).reverse with
    | nil => exact Phase4.line_declares_first 't' ' ' _ (by decide)
    | cons x xs => exact Phase4.line_declares_first 't' x _ (by decide)

theorem Phase4.line_jumps_head (l w : List Char) (ws : List (List Char))
    (h : Phase4.tac_words l = w :: ws) (h1 : w ≠ "goto".data) (h2 : w ≠ "ifFalse".data) :
    Phase4.line_jumps l = none := by
  unfold Phase4.line_jumps
  rw [h]
  split
  · rename_i g x heq
    have e : w = g := (List.cons.inj heq).1
    exact if_neg (fun hh => h1 (e.trans hh.1))
  · rename_i i c g x heq
    have e : w = i := (List.cons.inj heq).1
    exact if_neg (fun hh => h2 (e.trans hh.1))
  · rfl

/-- The jumps the rows of an instruction make: the target of a `goto` or
`ifFalse` instruction, and nothing else, when the operands hold no blank. -/
theorem Phase4.jumps_rows (lines : List Ast.ASTLine) (i : Phase4.Instr) (hs : i.sourced lines)
    (ho : ∀ o ∈ i.operands, ' ' ∉ o.data) :
    i.rows.filterMap Phase4.line_jumps =
      (Phase4.jump_targets [i]).map (fun k => (Phase4.label_name k).data) := by
  cases i with
  | func name =>
    exact Phase4.filter_none _ _ (Phase4.line_jumps_head _ _ _
      (Phase4.words_func name (Phase4.func_name_plain lines name hs).1) (by decide) (by decide))
  | endfunc => decide
  | copy var src =>
    refine Phase4.filter_none _ _ ?_
    unfold Phase4.line_jumps
    rw [Phase4.words_copy var src (Phase4.copy_var_plain lines var src hs).1
      (ho src (List.mem_singleton_self _))]
  | ret src =>
    cases src with
    | none => decide
    | some x =>
      exact Phase4.filter_none _ _ (Phase4.line_jumps_head _ _ _ (Phase4.words_ret_head x)
        (by decide) (by decide))
  | if_false c k =>
    refine Phase4.filter_one _ _ _ ?_
    unfold Phase4.line_jumps
    rw [Phase4.words_if c k (ho c (List.mem_singleton_self _))]
    exact if_pos ⟨rfl, rfl, Phase4.is_label_name_label k⟩
  | goto k =>
    refine Phase4.filter_one _ _ _ ?_
    unfold Phase4.line_jumps
    rw [Phase4.words_goto k]
    exact if_pos ⟨rfl, Phase4.is_label_name_label k⟩
  | label k =>
    refine Phase4.filter_none _ _ ?_
    unfold Phase4.line_jumps
    rw [Phase4.words_label k]
  | binary t l o r =>
    exact Phase4.filter_none _ _ (Phase4.line_jumps_head _ _ _
      (Phase4.words_binary_head t l o r) (Phase4.temp_name_ne t 'g' _ (by decide))
      (Phase4.temp_name_ne t 'i' _ (by decide)))

/-- The labels declared and the targets of the jumps among the rows of a list
of instructions. -/
theorem Phase4.label_rows_of (lines : List Ast.ASTLine) (d : List Phase4.Instr)
    (hs : ∀ i ∈ d, i.sourced lines) (ho : ∀ i ∈ d, ∀ o ∈ i.operands, ' ' ∉ o.data) :
    (Phase4.rows_of d ++ [[]]).filterMap Phase4.line_declares =
      (Phase4.declared_labels d).map (fun k => (Phase4.label_name k).data) ∧
    (Phase4.rows_of d ++ [[]]).filterMap Phase4.line_jumps =
      (Phase4.jump_targets d).map (fun k => (Phase4.label_name k).data) := by
  induction d with
  | nil => exact ⟨by decide, by decide⟩
  | cons i rest ih =>
    obtain ⟨h1, h2⟩ := ih (fun x hx => hs x (List.mem_cons_of_mem _ hx))
      (fun x hx => ho x (List.mem_cons_of_mem _ hx))
    have e1 : Phase4.declared_labels (i :: rest) =
        Phase4.declared_labels [i] ++ Phase4.declared_labels rest := by
      unfold Phase4.declared_labels
      rw [← List.filterMap_append]
      rfl
    have e2 : Phase4.jump_targets (i :: rest) =
        Phase4.jump_targets [i] ++ Phase4.jump_targets rest := by
      unfold Phase4.jump_targets
      rw [← List.filterMap_append]
      rfl
    constructor
    · rw [Phase4.rows_of, List.append_assoc, List.filterMap_append, h1, Phase4.declares_rows i,
        e1, List.map_append]
    · rw [Phase4.rows_of, List.append_assoc, List.filterMap_append, h2,
        Phase4.jumps_rows lines i (hs i (List.mem_cons_self _ _))
          (ho i (List.mem_cons_self _ _)), e2, List.map_append]

/-! ### Labels of the emitted TAC -/

theorem Phase4.label_chars_injective :
    Function.Injective (fun k => (Phase4.label_name k).data) := by
  intro a b h
  exact Phase4.label_name_injective (String.ext h)

/-- C27, the code on the two AST lines `Assign: ifFalse =` and `Var(goto L99)`:
the operand read from the `Var(` line holds a blank, the generator writes the one
line `ifFalse = goto L99`, which has the form `ifFalse <operand> goto <label>`,
and no line declares `L99`.  On an `If:` whose body assigns to a name of 400
characters the generator stops in the write past `var[64]`. -/
theorem C27_blank_in_operand_reads_as_jump :
    Ast.load_ast "Assign: ifFalse =\n    Var(goto L99)\n" =
      [⟨0, "Assign: ifFalse ="⟩, ⟨1, "Var(goto L99)"⟩] ∧
    Phase4.main 10 "Assign: ifFalse =\n    Var(goto L99)\n" = .ok "ifFalse = goto L99\n" ∧
    Phase4.targets_in "ifFalse = goto L99\n" = ["L99".data] ∧
    Phase4.declared_in "ifFalse = goto L99\n" = [] ∧
    Phase4.main_loop 10 (Phase4.initial_state
      [⟨0, "If:"⟩, ⟨1, "Var(x)"⟩, ⟨1, "Body:"⟩,
       ⟨2, "Assign: " ++ String.mk (List.replicate 400 'a') ++ " ="⟩, ⟨3, "Number(1)"⟩]) =
      .fail none "buffer overflow" := by
  decide

/-- C27: for every list of AST lines, each one line of text, in which the name of
every `FunctionDefinition:` line, the variable of every `Assign:` line, the
operator of every `BinOp(` line and the operand of every `Number(` and `Var(` line
is present and fits its buffer, and no operand of a `Number(` or `Var(` line
holds a blank, the loop of the generator's
`main` returns (with fuel `2 * lines + 2` or more), and in the text it has
written every label declared by a line `Lk:` is the target of a line `goto Lk`
or `ifFalse <operand> goto Lk`, every target of such a line is declared, and no
label is declared twice. -/
theorem C27_label_hygiene (lines : List Ast.ASTLine) (n : Nat)
    (hfit : Phase4.words_fit lines) (hline : Phase4.one_line lines)
    (hplain : Phase4.operands_plain lines) :
    ∃ st, Phase4.main_loop (2 * lines.length + 2 + n) (Phase4.initial_state lines) = .ok st ∧
      (∀ x ∈ Phase4.declared_in st.out, x ∈ Phase4.targets_in st.out) ∧
      (∀ x ∈ Phase4.targets_in st.out, x ∈ Phase4.declared_in st.out) ∧
      (Phase4.declared_in st.out).Nodup := by
  obtain ⟨st, d, hst, ⟨c, g, _⟩, _⟩ := Phase4.generator_run lines n hfit
  obtain ⟨hnd, hiff⟩ := Phase4.hygiene_nodup _ _ d g
  have hl := Phase4.tac_lines_traced lines st d hline c
  have ho : ∀ i ∈ d, ∀ o ∈ i.operands, ' ' ∉ o.data := by
    intro i hi o ho
    obtain ⟨m, hm⟩ := Phase4.operands_ok_mem lines d _ c.operands i hi o ho
    exact Phase4.operand_no_blank lines m o hplain hm
  obtain ⟨hd, hj⟩ := Phase4.label_rows_of lines d c.sourced ho
  have e1 : Phase4.declared_in st.out =
      (Phase4.declared_labels d).map (fun k => (Phase4.label_name k).data) := by
    unfold Phase4.declared_in
    rw [hl, hd]
  have e2 : Phase4.targets_in st.out =
      (Phase4.jump_targets d).map (fun k => (Phase4.label_name k).data) := by
    unfold Phase4.targets_in
    rw [hl, hj]
  refine ⟨st, hst, ?_, ?_, ?_⟩
  · intro x hx
    rw [e1] at hx
    rw [e2]
    obtain ⟨k, hk, hkx⟩ := List.mem_map.1 hx
    exact List.mem_map.2 ⟨k, (hiff k).1 hk, hkx⟩
  · intro x hx
    rw [e2] at hx
    rw [e1]
    obtain ⟨k, hk, hkx⟩ := List.mem_map.1 hx
    exact List.mem_map.2 ⟨k, (hiff k).2 hk, hkx⟩
  · rw [e1]
    exact List.Nodup.map Phase4.label_chars_injective hnd

theorem C27_label_hygiene_witness :
    Phase4.words_fit Pipeline.lines_while_in_if_else ∧
    Phase4.one_line Pipeline.lines_while_in_if_else ∧
    Phase4.operands_plain Pipeline.lines_while_in_if_else ∧
    ∃ st, Phase4.main_loop (2 * Pipeline.lines_while_in_if_else.length + 2 + 0)
        (Phase4.initial_state Pipeline.lines_while_in_if_else) = .ok st ∧
      (∀ x ∈ Phase4.declared_in st.out, x ∈ Phase4.targets_in st.out) ∧
      (∀ x ∈ Phase4.targets_in st.out, x ∈ Phase4.declared_in st.out) ∧
      (Phase4.declared_in st.out).Nodup :=
  ⟨by unfold Phase4.words_fit; decide, by unfold Phase4.one_line; decide,
   by unfold Phase4.operands_plain; decide,
   C27_label_hygiene Pipeline.lines_while_in_if_else 0 (by unfold Phase4.words_fit; decide)
     (by unfold Phase4.one_line; decide) (by unfold Phase4.operands_plain; decide)⟩

/-! ### Termination and function headers of the emitted TAC -/

/-- C29, the code on two ASTs.  On the two lines `VarDeclGroup:` (indent 0) and
`FunctionDefinition: f` (indent 1) the `VarDeclGroup:` branch passes every
following line of greater indent, so the generator writes nothing, although
the AST has one `FunctionDefinition:` line.  On a `FunctionDefinition:` line
whose name has 400 characters the `sscanf` into `name[64]` writes past the
buffer, and the generator does not end normally; a name of 63 characters fits. -/
theorem C29_function_line_skipped_or_too_long :
    Ast.load_ast "VarDeclGroup:\n    FunctionDefinition: f\n" =
      [⟨0, "VarDeclGroup:"⟩, ⟨1, "FunctionDefinition: f"⟩] ∧
    (Ast.load_ast "VarDeclGroup:\n    FunctionDefinition: f\n").countP
      Phase4.is_function_line = 1 ∧
    Phase4.main 10 "VarDeclGroup:\n    FunctionDefinition: f\n" = .ok "" ∧
    (Phase4.tac_lines "").countP Phase4.is_func_line = 0 ∧
    (∀ fuel, Phase4.main_loop (fuel + 2) (Phase4.initial_state
      [⟨0, "FunctionDefinition: " ++ String.mk (List.replicate 400 'a')⟩]) =
      .fail none "buffer overflow") ∧
    Phase4.main_loop 10 (Phase4.initial_state
      [⟨0, "FunctionDefinition: " ++ String.mk (List.replicate 63 'a')⟩]) =
      .ok { lines := [⟨0, "FunctionDefinition: " ++ String.mk (List.replicate 63 'a')⟩],
            current_line := 1, temp_counter := 0, label_counter := 0,
            out := "func " ++ String.mk (List.replicate 63 'a') ++ ":\nendfunc\n\n" } := by
  refine ⟨by decide, by decide, by decide, by decide, fun fuel => ?_, by decide⟩
  rw [Phase4.main_loop, Phase4.gen_node]
  rfl

/-- C29: the generator is total on every list of AST lines, each one line of
text, in which the name of every `FunctionDefinition:` line, the variable of
every `Assign:` line, the operator of every `BinOp(` line and the operand of
every `Number(` and `Var(` line is present and fits its buffer.  A `gen_node` call that returns, made on a line whose indent is at
least the expected indent, has moved the cursor forward; `gen_block` returns
from every state over these lines (with fuel `2 r + 2` or more, `r` the number of
lines from the cursor to the end); the loop of `main` returns, and the text it
has written has as many `endfunc` lines as `func <name>:` lines; when every
`FunctionDefinition:` line has indent 0, as in the `ast.txt` the parser writes,
this number is the number of `FunctionDefinition:` lines of the AST. -/
theorem C29_generator_total (lines : List Ast.ASTLine) (n : Nat)
    (hfit : Phase4.words_fit lines) (hline : Phase4.one_line lines) :
    (∀ f e st p ln, Phase4.gen_node f e st = .ok p → Phase4.cur_line st = some ln →
      e ≤ ln.indent → st.current_line < p.2.current_line) ∧
    (∀ e st, st.lines = lines → ∃ s,
      Phase4.gen_block (2 * (st.lines.length - st.current_line) + 2 + n) e st = .ok s) ∧
    ∃ st, Phase4.main_loop (2 * lines.length + 2 + n) (Phase4.initial_state lines) = .ok st ∧
      (Phase4.tac_lines st.out).countP Phase4.is_endfunc_line =
        (Phase4.tac_lines st.out).countP Phase4.is_func_line ∧
      (Phase4.functions_at_top lines →
        (Phase4.tac_lines st.out).countP Phase4.is_func_line =
          lines.countP Phase4.is_function_line) := by
  refine ⟨?_, ?_, ?_⟩
  · intro f e st p ln hp hln hle
    exact ((Phase4.gen_traced f).1 e st p hp).2.2 ln hln hle
  · intro e st hl
    obtain ⟨s, hs, _⟩ := (Phase4.gen_terminates _).2 e st (by rw [hl]; exact hfit)
      (Nat.le_add_right _ n)
    exact ⟨s, hs⟩
  · obtain ⟨st, d, hst, ⟨c, _, fe, ff⟩, hn⟩ := Phase4.generator_run lines n hfit
    have hl := Phase4.tac_lines_traced lines st d hline c
    obtain ⟨h1, h2⟩ := Phase4.func_rows_of lines d c.sourced
    refine ⟨st, hst, ?_, fun H => ?_⟩
    · rw [hl, h1, h2]
      exact fe
    · rw [hl, h1]
      have h : Phase4.func_count d + Phase4.function_lines_upto lines 0 =
          Phase4.function_lines_upto lines st.current_line := ff H
      have hlen : lines.length ≤ st.current_line := by
        have hl : st.lines = lines := c.lines_eq
        unfold Phase4.cur_line at hn
        rw [hl] at hn
        exact List.get?_eq_none.1 hn
      rw [Phase4.function_lines_upto_all lines _ hlen] at h
      have h0 : Phase4.function_lines_upto lines 0 = 0 := rfl
      omega

theorem C29_generator_total_witness :
    Phase4.words_fit [⟨0, "FunctionDefinition: f"⟩, ⟨1, "Parameters:"⟩, ⟨1, "Body:"⟩] ∧
    Phase4.one_line [⟨0, "FunctionDefinition: f"⟩, ⟨1, "Parameters:"⟩, ⟨1, "Body:"⟩] ∧
    Phase4.functions_at_top [⟨0, "FunctionDefinition: f"⟩, ⟨1, "Parameters:"⟩, ⟨1, "Body:"⟩] ∧
    ∃ st, Phase4.main_loop (2 * 3 + 2 + 0)
        (Phase4.initial_state [⟨0, "FunctionDefinition: f"⟩, ⟨1, "Parameters:"⟩, ⟨1, "Body:"⟩]) =
        .ok st ∧
      (Phase4.tac_lines st.out).countP Phase4.is_endfunc_line =
        (Phase4.tac_lines st.out).countP Phase4.is_func_line ∧
      (Phase4.functions_at_top [⟨0, "FunctionDefinition: f"⟩, ⟨1, "Parameters:"⟩, ⟨1, "Body:"⟩] →
        (Phase4.tac_lines st.out).countP Phase4.is_func_line =
          List.countP Phase4.is_function_line
            [⟨0, "FunctionDefinition: f"⟩, ⟨1, "Parameters:"⟩, ⟨1, "Body:"⟩]) :=
  ⟨by unfold Phase4.words_fit; decide, by unfold Phase4.one_line; decide,
   by unfold Phase4.functions_at_top; decide,
   (C29_generator_total [⟨0, "FunctionDefinition: f"⟩, ⟨1, "Parameters:"⟩, ⟨1, "Body:"⟩] 0
     (by unfold Phase4.words_fit; decide) (by unfold Phase4.one_line; decide)).2.2⟩

/-! ### Reading the lines of an instruction: assignments and operands -/

/-- The binary lines among the rows of an instruction: the row of a binary
instruction, and no other, when operands and operators hold no blank. -/
theorem Phase4.binary_rows (lines : List Ast.ASTLine) (i : Phase4.Instr) (hs : i.sourced lines)
    (ho : ∀ o ∈ i.operands, ' ' ∉ o.data) (hops : Phase4.operators_plain lines) :
    i.rows.filterMap Phase4.binary_left =
      (Phase4.assigned_temps [i]).map (fun k => (Phase4.temp_name k).data) := by
  cases i with
  | func name =>
    refine Phase4.filter_none _ _ ?_
    unfold Phase4.binary_left
    rw [Phase4.words_func name (Phase4.func_name_plain lines name hs).1]
  | endfunc => decide
  | copy var src =>
    refine Phase4.filter_none _ _ ?_
    unfold Phase4.binary_left
    rw [Phase4.words_copy var src (Phase4.copy_var_plain lines var src hs).1
      (ho src (List.mem_singleton_self _))]
  | ret src =>
    cases src with
    | none => decide
    | some x =>
      refine Phase4.filter_none _ _ ?_
      unfold Phase4.binary_left
      rw [Phase4.words_ret x (ho x (List.mem_singleton_self _))]
  | if_false c k =>
    refine Phase4.filter_none _ _ ?_
    unfold Phase4.binary_left
    rw [Phase4.words_if c k (ho c (List.mem_singleton_self _))]
  | goto k =>
    refine Phase4.filter_none _ _ ?_
    unfold Phase4.binary_left
    rw [Phase4.words_goto k]
  | label k =>
    refine Phase4.filter_none _ _ ?_
    unfold Phase4.binary_left
    rw [Phase4.words_label k]
  | binary t l o r =>
    refine Phase4.filter_one _ _ _ ?_
    unfold Phase4.binary_left
    rw [Phase4.words_binary t l o r (ho l (List.mem_cons_self _ _))
      (Phase4.binary_op_plain lines t l o r hs hops)
      (ho r (List.mem_cons_of_mem _ (List.mem_singleton_self _)))]
    exact if_pos rfl

theorem Phase4.filter_skip {α β : Type} (g : α → Option β) (p : β → Bool) (a : α)
    (h : g a = none) : ([a].filterMap g).filter p = [] := by
  rw [Phase4.filter_none g a h]
  rfl

theorem Phase4.filter_keep {α β : Type} (g : α → Option β) (p : β → Bool) (a : α) (b : β)
    (h : g a = some b) (hp : p b = true) : ([a].filterMap g).filter p = [b] := by
  rw [Phase4.filter_one g a b h, List.filter_cons, if_pos hp]
  rfl

theorem Phase4.filter_drop {α β : Type} (g : α → Option β) (p : β → Bool) (a : α) (b : β)
    (h : g a = some b) (hp : p b = false) : ([a].filterMap g).filter p = [] := by
  rw [Phase4.filter_one g a b h, List.filter_cons, if_neg (by rw [hp]; exact Bool.false_ne_true)]
  rfl

/-- The names like temporaries that the rows of an instruction assign: the
temporary of a binary instruction, and no other, when no assigned variable of
the AST is named like a temporary. -/
theorem Phase4.assign_rows (lines : List Ast.ASTLine) (i : Phase4.Instr) (hs : i.sourced lines)
    (ho : ∀ o ∈ i.operands, ' ' ∉ o.data) (hops : Phase4.operators_plain lines)
    (hnames : Phase4.no_temp_names lines) :
    (i.rows.filterMap Phase4.line_assigns).filter Phase4.is_temp_name =
      (Phase4.assigned_temps [i]).map (fun k => (Phase4.temp_name k).data) := by
  cases i with
  | func name =>
    refine Phase4.filter_skip _ _ _ ?_
    unfold Phase4.line_assigns
    rw [Phase4.words_func name (Phase4.func_name_plain lines name hs).1]
  | endfunc => decide
  | copy var src =>
    refine Phase4.filter_drop _ _ _ var.data ?_
      (Phase4.copy_var_no_temp lines var src hs hnames)
    unfold Phase4.line_assigns
    rw [Phase4.words_copy var src (Phase4.copy_var_plain lines var src hs).1
      (ho src (List.mem_singleton_self _))]
    exact if_pos rfl
  | ret src =>
    cases src with
    | none => decide
    | some x =>
      refine Phase4.filter_skip _ _ _ ?_
      unfold Phase4.line_assigns
      rw [Phase4.words_ret x (ho x (List.mem_singleton_self _))]
  | if_false c k =>
    refine Phase4.filter_skip _ _ _ ?_
    unfold Phase4.line_assigns
    rw [Phase4.words_if c k (ho c (List.mem_singleton_self _))]
  | goto k =>
    refine Phase4.filter_skip _ _ _ ?_
    unfold Phase4.line_assigns
    rw [Phase4.words_goto k]
  | label k =>
    refine Phase4.filter_skip _ _ _ ?_
    unfold Phase4.line_assigns
    rw [Phase4.words_label k]
  | binary t l o r =>
    refine Phase4.filter_keep _ _ _ (Phase4.temp_name t).data ?_ (Phase4.is_temp_name_temp t)
    unfold Phase4.line_assigns
    rw [Phase4.words_binary t l o r (ho l (List.mem_cons_self _ _))
      (Phase4.binary_op_plain lines t l o r hs hops)
      (ho r (List.mem_cons_of_mem _ (List.mem_singleton_self _)))]
    exact if_pos rfl

/-- The operands the rows of an instruction read are the operands of the
instruction. -/
theorem Phase4.operand_rows (lines : List Ast.ASTLine) (i : Phase4.Instr) (hs : i.sourced lines)
    (ho : ∀ o ∈ i.operands, ' ' ∉ o.data) (hops : Phase4.operators_plain lines) :
    ∀ r ∈ i.rows, ∀ x ∈ Phase4.line_operands r, ∃ o ∈ i.operands, x = o.data := by
  intro r hr x hx
  cases i with
  | func name =>
    rw [Phase4.Instr.rows, List.mem_singleton] at hr
    rw [hr] at hx
    unfold Phase4.line_operands at hx
    rw [Phase4.words_func name (Phase4.func_name_plain lines name hs).1] at hx
    exact absurd hx (by
      dsimp only
      rw [if_neg (by decide)]
      exact List.not_mem_nil _)
  | endfunc =>
    rw [Phase4.Instr.rows] at hr
    rcases List.mem_cons.1 hr with h | h
    · rw [h, show Phase4.line_operands "endfunc".data = [] from by decide] at hx
      exact absurd hx (List.not_mem_nil _)
    · rw [List.mem_singleton] at h
      rw [h, show Phase4.line_operands [] = [] from by decide] at hx
      exact absurd hx (List.not_mem_nil _)
  | copy var src =>
    rw [Phase4.Instr.rows, List.mem_singleton] at hr
    rw [hr] at hx
    unfold Phase4.line_operands at hx
    rw [Phase4.words_copy var src (Phase4.copy_var_plain lines var src hs).1
      (ho src (List.mem_singleton_self _))] at hx
    dsimp only at hx
    rw [if_pos rfl, List.mem_singleton] at hx
    exact ⟨src, List.mem_singleton_self _, hx⟩
  | ret src =>
    cases src with
    | none =>
      rw [Phase4.Instr.rows, List.mem_singleton] at hr
      rw [hr, show Phase4.line_operands "return".data = [] from by decide] at hx
      exact absurd hx (List.not_mem_nil _)
    | some s =>
      rw [Phase4.Instr.rows, List.mem_singleton] at hr
      rw [hr] at hx
      unfold Phase4.line_operands at hx
      rw [Phase4.words_ret s (ho s (List.mem_singleton_self _))] at hx
      dsimp only at hx
      rw [if_pos rfl, List.mem_singleton] at hx
      exact ⟨s, List.mem_singleton_self _, hx⟩
  | if_false c k =>
    rw [Phase4.Instr.rows, List.mem_singleton] at hr
    rw [hr] at hx
    unfold Phase4.line_operands at hx
    rw [Phase4.words_if c k (ho c (List.mem_singleton_self _))] at hx
    dsimp only at hx
    rw [if_pos ⟨rfl, rfl⟩, List.mem_singleton] at hx
    exact ⟨c, List.mem_singleton_self _, hx⟩
  | goto k =>
    rw [Phase4.Instr.rows, List.mem_singleton] at hr
    rw [hr] at hx
    unfold Phase4.line_operands at hx
    rw [Phase4.words_goto k] at hx
    exact absurd hx (by
      dsimp only
      rw [if_neg (by decide)]
      exact List.not_mem_nil _)
  | label k =>
    rw [Phase4.Instr.rows, List.mem_singleton] at hr
    rw [hr] at hx
    unfold Phase4.line_operands at hx
    rw [Phase4.words_label k] at hx
    exact absurd hx (List.not_mem_nil _)
  | binary t l o r =>
    rw [Phase4.Instr.rows, List.mem_singleton] at hr
    rw [hr] at hx
    unfold Phase4.line_operands at hx
    rw [Phase4.words_binary t l o r (ho l (List.mem_cons_self _ _))
      (Phase4.binary_op_plain lines t l o r hs hops)
      (ho r (List.mem_cons_of_mem _ (List.mem_singleton_self _)))] at hx
    dsimp only at hx
    rw [if_pos rfl] at hx
    rcases List.mem_cons.1 hx with h | h
    · exact ⟨l, List.mem_cons_self _ _, h⟩
    · rw [List.mem_singleton] at h
      exact ⟨r, List.mem_cons_of_mem _ (List.mem_singleton_self _), h⟩

/-! ### Temporaries of the emitted TAC -/

theorem Phase4.temp_chars_injective :
    Function.Injective (fun k => (Phase4.temp_name k).data) := by
  intro a b h
  exact Phase4.temp_name_injective (String.ext h)

/-- The binary lines and the assignments to names like temporaries among the
rows of a list of instructions. -/
theorem Phase4.temp_rows_of (lines : List Ast.ASTLine) (d : List Phase4.Instr)
    (hs : ∀ i ∈ d, i.sourced lines) (ho : ∀ i ∈ d, ∀ o ∈ i.operands, ' ' ∉ o.data)
    (hops : Phase4.operators_plain lines) (hnames : Phase4.no_temp_names lines) :
    (Phase4.rows_of d ++ [[]]).filterMap Phase4.binary_left =
      (Phase4.assigned_temps d).map (fun k => (Phase4.temp_name k).data) ∧
    ((Phase4.rows_of d ++ [[]]).filterMap Phase4.line_assigns).filter Phase4.is_temp_name =
      (Phase4.assigned_temps d).map (fun k => (Phase4.temp_name k).data) := by
  induction d with
  | nil => exact ⟨by decide, by decide⟩
  | cons i rest ih =>
    obtain ⟨h1, h2⟩ := ih (fun x hx => hs x (List.mem_cons_of_mem _ hx))
      (fun x hx => ho x (List.mem_cons_of_mem _ hx))
    have e1 : Phase4.assigned_temps (i :: rest) =
        Phase4.assigned_temps [i] ++ Phase4.assigned_temps rest := by
      unfold Phase4.assigned_temps
      rw [← List.filterMap_append]
      rfl
    constructor
    · rw [Phase4.rows_of, List.append_assoc, List.filterMap_append, h1,
        Phase4.binary_rows lines i (hs i (List.mem_cons_self _ _))
          (ho i (List.mem_cons_self _ _)) hops, e1, List.map_append]
    · rw [Phase4.rows_of, List.append_assoc, List.filterMap_append, List.filter_append, h2,
        Phase4.assign_rows lines i (hs i (List.mem_cons_self _ _))
          (ho i (List.mem_cons_self _ _)) hops hnames, e1, List.map_append]

/-- In lines read in order, an operand named like a temporary is one of the
temporaries assigned before the first line or the left side of an earlier
binary line. -/
theorem Phase4.temps_in_order_at (pre : List (List Char)) :
    ∀ (n : Nat) (l : List Char) (post : List (List Char)),
      Phase4.temps_in_order n (pre ++ l :: post) →
      ∀ o ∈ Phase4.line_operands l, Phase4.is_temp_name o = true →
        (∃ j, j < n ∧ o = (Phase4.temp_name j).data) ∨ o ∈ pre.filterMap Phase4.binary_left := by
  induction pre with
  | nil =>
    intro n l post h o ho ht
    rw [List.nil_append, Phase4.temps_in_order] at h
    exact Or.inl (h.1 o ho ht)
  | cons p pre ih =>
    intro n l post h o ho ht
    rw [List.cons_append, Phase4.temps_in_order] at h
    obtain ⟨_, hb, hrest⟩ := h
    rcases ih _ l post hrest o ho ht with ⟨j, hj, hjo⟩ | hm
    · cases hp : Phase4.binary_left p with
      | none =>
        rw [hp] at hj
        exact Or.inl ⟨j, hj, hjo⟩
      | some t =>
        rw [hp] at hj
        have hj2 : j < n + 1 := hj
        by_cases hjn : j < n
        · exact Or.inl ⟨j, hjn, hjo⟩
        · have hjeq : j = n := by omega
          refine Or.inr ?_
          rw [List.filterMap_cons, hp, hjo, hjeq, ← hb t hp]
          exact List.mem_cons_self _ _
    · refine Or.inr ?_
      rw [List.filterMap_cons]
      cases hp : Phase4.binary_left p with
      | none => exact hm
      | some t => exact List.mem_cons_of_mem _ hm

theorem Phase4.temps_in_order_append (a : List (List Char)) :
    ∀ (n : Nat) (b : List (List Char)), Phase4.temps_in_order n a →
      Phase4.temps_in_order (n + (a.filterMap Phase4.binary_left).length) b →
      Phase4.temps_in_order n (a ++ b) := by
  induction a with
  | nil =>
    intro n b _ hb
    exact hb
  | cons r rs ih =>
    intro n b ha hb
    rw [Phase4.temps_in_order] at ha
    rw [List.cons_append, Phase4.temps_in_order]
    refine ⟨ha.1, ha.2.1, ih _ b ha.2.2 ?_⟩
    have e : n + (Phase4.binary_left r).toList.length +
        (rs.filterMap Phase4.binary_left).length =
        n + ((r :: rs).filterMap Phase4.binary_left).length := by
      rw [List.filterMap_cons]
      cases Phase4.binary_left r with
      | none => rfl
      | some t =>
        rw [List.length_cons]
        show n + 1 + _ = _
        omega
    rw [e]
    exact hb

/-- The rows of one instruction, read with `n` temporaries assigned before. -/
theorem Phase4.temps_in_order_rows (lines : List Ast.ASTLine) (i : Phase4.Instr) (n : Nat)
    (hs : i.sourced lines) (ho : ∀ o ∈ i.operands, ' ' ∉ o.data)
    (hops : Phase4.operators_plain lines) (hnames : Phase4.no_temp_names lines)
    (hopn : ∀ o ∈ i.operands, Phase4.is_operand lines n o)
    (ha : ∀ k ∈ Phase4.assigned_temps [i], k = n) :
    Phase4.temps_in_order n i.rows := by
  have hrow : ∀ r ∈ i.rows,
      (∀ o ∈ Phase4.line_operands r, Phase4.is_temp_name o = true →
        ∃ j, j < n ∧ o = (Phase4.temp_name j).data) ∧
      (∀ t, Phase4.binary_left r = some t → t = (Phase4.temp_name n).data) := by
    intro r hr
    constructor
    · intro x hx ht
      obtain ⟨o, hoi, hxo⟩ := Phase4.operand_rows lines i hs ho hops r hr x hx
      rw [hxo] at ht
      obtain ⟨j, hj, hjo⟩ := Phase4.operand_temp lines n o hnames (hopn o hoi) ht
      exact ⟨j, hj, by rw [hxo, hjo]⟩
    · intro t ht
      have hm : t ∈ i.rows.filterMap Phase4.binary_left := List.mem_filterMap.2 ⟨r, hr, ht⟩
      rw [Phase4.binary_rows lines i hs ho hops] at hm
      obtain ⟨k, hk, hkt⟩ := List.mem_map.1 hm
      rw [← hkt, ha k hk]
  have hone : ∀ r, i.rows = [r] → Phase4.temps_in_order n i.rows := by
    intro r hr
    have h := hrow r (by rw [hr]; exact List.mem_singleton_self _)
    rw [hr, Phase4.temps_in_order]
    exact ⟨h.1, h.2, trivial⟩
  cases i with
  | endfunc =>
    rw [Phase4.Instr.rows, Phase4.temps_in_order,
      show Phase4.line_operands "endfunc".data = [] from by decide,
      show Phase4.binary_left "endfunc".data = none from by decide, Phase4.temps_in_order,
      show Phase4.line_operands [] = [] from by decide,
      show Phase4.binary_left [] = none from by decide]
    exact ⟨fun o h => absurd h (List.not_mem_nil _), fun t h => Option.noConfusion h,
      fun o h => absurd h (List.not_mem_nil _), fun t h => Option.noConfusion h, trivial⟩
  | ret src =>
    cases src with
    | none => exact hone _ rfl
    | some x => exact hone _ rfl
  | _ => exact hone _ rfl

theorem Phase4.assigned_one (i : Phase4.Instr) : (Phase4.assigned_temps [i]).length ≤ 1 := by
  cases i <;> exact Nat.le_of_ble_eq_true rfl

/-- A list that begins `n, n + 1, …`: its first part and the rest. -/
theorem Phase4.range_parts (l1 : List Nat) : ∀ (l2 : List Nat) (n m : Nat),
    l1 ++ l2 = List.range' n m →
    l1 = List.range' n l1.length ∧ l2 = List.range' (n + l1.length) (m - l1.length) := by
  induction l1 with
  | nil =>
    intro l2 n m h
    exact ⟨rfl, h⟩
  | cons a l1 ih =>
    intro l2 n m h
    cases m with
    | zero => exact List.noConfusion h
    | succ m =>
      rw [List.range'_succ, List.cons_append] at h
      obtain ⟨ha, hrest⟩ := List.cons.inj h
      obtain ⟨h1, h2⟩ := ih l2 (n + 1) m hrest
      constructor
      · rw [List.length_cons, List.range'_succ, ha, ← h1]
      · rw [h2, List.length_cons]
        congr 1
        · omega
        · omega

/-- The rows of a piece of output, read with `n` temporaries assigned before. -/
theorem Phase4.temps_in_order_of (lines : List Ast.ASTLine) (d : List Phase4.Instr)
    (hops : Phase4.operators_plain lines) (hnames : Phase4.no_temp_names lines) :
    ∀ (n m : Nat), Phase4.operands_ok lines n d →
      Phase4.assigned_temps d = List.range' n m →
      (∀ i ∈ d, i.sourced lines) → (∀ i ∈ d, ∀ o ∈ i.operands, ' ' ∉ o.data) →
      Phase4.temps_in_order n (Phase4.rows_of d ++ [[]]) := by
  induction d with
  | nil =>
    intro n m _ _ _ _
    rw [Phase4.rows_of, List.nil_append, Phase4.temps_in_order,
      show Phase4.line_operands [] = [] from by decide,
      show Phase4.binary_left [] = none from by decide]
    exact ⟨fun o h => absurd h (List.not_mem_nil _), fun t h => Option.noConfusion h, trivial⟩
  | cons i rest ih =>
    intro n m hok hasg hs ho
    have e1 : Phase4.assigned_temps (i :: rest) =
        Phase4.assigned_temps [i] ++ Phase4.assigned_temps rest := by
      unfold Phase4.assigned_temps
      rw [← List.filterMap_append]
      rfl
    rw [e1] at hasg
    obtain ⟨ha1, ha2⟩ := Phase4.range_parts _ _ n m hasg
    unfold Phase4.operands_ok at hok
    have hi := hs i (List.mem_cons_self _ _)
    have hoi := ho i (List.mem_cons_self _ _)
    rw [Phase4.rows_of, List.append_assoc]
    refine Phase4.temps_in_order_append _ n _
      (Phase4.temps_in_order_rows lines i n hi hoi hops hnames hok.1 ?_) ?_
    · intro k hk
      rw [ha1] at hk
      have h1 := Phase4.assigned_one i
      rw [List.mem_range'_1] at hk
      omega
    · rw [Phase4.binary_rows lines i hi hoi hops, List.length_map]
      exact ih _ _ hok.2 ha2 (fun x hx => hs x (List.mem_cons_of_mem _ hx))
        (fun x hx => ho x (List.mem_cons_of_mem _ hx))

/-- C28, the code on four inputs.  The source
`int f() { int t0; t0 = 1 + 2; return t0; }` has a variable named `t0`: the
generator writes `t0 = 1 + 2` for the sum and `t0 = t0` for the assignment, so
the name `t0` is assigned twice.  On the AST lines `Assign: x =` and
`Var(a + b)` the operand holds blanks and the line written, `x = a + b`, is a
binary line with `x` on the left.  On a `BinOp(+ 1)` line the operator holds a
blank and the line written for temporary `t0`, `t0 = 1 + 1 2`, is no binary
line.  On a `BinOp(` line with an operator of 400 characters the generator
stops in the write past `op[8]`. -/
theorem C28_variable_named_like_temporary :
    Pipeline.tac_of_tokens 100 Pipeline.tokens_temp_named =
      .ok "func f:\nt0 = 1 + 2\nt0 = t0\nreturn\nendfunc\n\n" ∧
    (Phase4.tac_lines "func f:\nt0 = 1 + 2\nt0 = t0\nreturn\nendfunc\n\n").filterMap
      Phase4.line_assigns = ["t0".data, "t0".data] ∧
    Phase4.main 10 "Assign: x =\n    Var(a + b)\n" = .ok "x = a + b\n" ∧
    (Phase4.tac_lines "x = a + b\n").filterMap Phase4.binary_left = ["x".data] ∧
    Phase4.main 10 "BinOp(+ 1)\n    Number(1)\n    Number(2)\n" = .ok "t0 = 1 + 1 2\n" ∧
    (Phase4.tac_lines "t0 = 1 + 1 2\n").filterMap Phase4.binary_left = [] ∧
    Phase4.main_loop 10 (Phase4.initial_state
      [⟨0, "BinOp(" ++ String.mk (List.replicate 400 '+') ++ ")"⟩, ⟨1, "Number(1)"⟩,
       ⟨1, "Number(2)"⟩]) =
      .fail none "buffer overflow" := by
  decide

/-- C28: for every list of AST lines, each one line of text, in which the name of
every `FunctionDefinition:` line, the variable of every `Assign:` line, the
operator of every `BinOp(` line and the operand of every `Number(` and `Var(` line
is present and fits its buffer, no operand and no operator holds a blank, and
no assigned variable and no operand has the form `t<digits>`, the loop of the generator's `main` returns, and in the
text it has written: the names on the left of the binary lines are
`t0, t1, …, t(k-1)` in order of appearance (`k` the final value of
`temp_counter`); the assignments to names of the form `t<digits>` are these and
no other, so that no such name is assigned twice; and every operand of the form
`t<digits>` on a line is the left side of a binary line further up. -/
theorem C28_temporaries_fresh (lines : List Ast.ASTLine) (n : Nat)
    (hfit : Phase4.words_fit lines) (hline : Phase4.one_line lines)
    (hplain : Phase4.operands_plain lines) (hops : Phase4.operators_plain lines)
    (hnames : Phase4.no_temp_names lines) :
    ∃ st, Phase4.main_loop (2 * lines.length + 2 + n) (Phase4.initial_state lines) = .ok st ∧
      (Phase4.tac_lines st.out).filterMap Phase4.binary_left =
        (List.range st.temp_counter).map (fun k => (Phase4.temp_name k).data) ∧
      ((Phase4.tac_lines st.out).filterMap Phase4.line_assigns).filter Phase4.is_temp_name =
        (List.range st.temp_counter).map (fun k => (Phase4.temp_name k).data) ∧
      (((Phase4.tac_lines st.out).filterMap Phase4.line_assigns).filter
        Phase4.is_temp_name).Nodup ∧
      ∀ pre l post, Phase4.tac_lines st.out = pre ++ l :: post →
        ∀ o ∈ Phase4.line_operands l, Phase4.is_temp_name o = true →
          o ∈ pre.filterMap Phase4.binary_left := by
  obtain ⟨st, d, hst, ⟨c, _, _⟩, _⟩ := Phase4.generator_run lines n hfit
  have hl := Phase4.tac_lines_traced lines st d hline c
  have ho : ∀ i ∈ d, ∀ o ∈ i.operands, ' ' ∉ o.data := by
    intro i hi o ho
    obtain ⟨m, hm⟩ := Phase4.operands_ok_mem lines d _ c.operands i hi o ho
    exact Phase4.operand_no_blank lines m o hplain hm
  have ha : Phase4.assigned_temps d = List.range st.temp_counter := by
    rw [c.assigned, List.range_eq_range']
    rfl
  obtain ⟨h1, h2⟩ := Phase4.temp_rows_of lines d c.sourced ho hops hnames
  have hord := Phase4.temps_in_order_of lines d hops hnames 0 _ c.operands c.assigned
    c.sourced ho
  refine ⟨st, hst, ?_, ?_, ?_, ?_⟩
  · rw [hl, h1, ha]
  · rw [hl, h2, ha]
  · rw [hl, h2, ha]
    exact List.Nodup.map Phase4.temp_chars_injective (List.nodup_range _)
  · intro pre l post hsplit o hol hot
    rw [hl] at hsplit
    rw [hsplit] at hord
    rcases Phase4.temps_in_order_at pre 0 l post hord o hol hot with ⟨j, hj, _⟩ | h
    · exact absurd hj (Nat.not_lt_zero _)
    · exact h

theorem C28_temporaries_fresh_witness :
    Phase4.words_fit Pipeline.lines_while_in_if_else ∧
    Phase4.one_line Pipeline.lines_while_in_if_else ∧
    Phase4.operands_plain Pipeline.lines_while_in_if_else ∧
    Phase4.operators_plain Pipeline.lines_while_in_if_else ∧
    Phase4.no_temp_names Pipeline.lines_while_in_if_else ∧
    ∃ st, Phase4.main_loop (2 * Pipeline.lines_while_in_if_else.length + 2 + 0)
        (Phase4.initial_state Pipeline.lines_while_in_if_else) = .ok st ∧
      (Phase4.tac_lines st.out).filterMap Phase4.binary_left =
        (List.range st.temp_counter).map (fun k => (Phase4.temp_name k).data) ∧
      ((Phase4.tac_lines st.out).filterMap Phase4.line_assigns).filter Phase4.is_temp_name =
        (List.range st.temp_counter).map (fun k => (Phase4.temp_name k).data) ∧
      (((Phase4.tac_lines st.out).filterMap Phase4.line_assigns).filter
        Phase4.is_temp_name).Nodup ∧
      ∀ pre l post, Phase4.tac_lines st.out = pre ++ l :: post →
        ∀ o ∈ Phase4.line_operands l, Phase4.is_temp_name o = true →
          o ∈ pre.filterMap Phase4.binary_left :=
  ⟨by unfold Phase4.words_fit; decide, by unfold Phase4.one_line; decide,
   by unfold Phase4.operands_plain; decide, by unfold Phase4.operators_plain; decide,
   by unfold Phase4.no_temp_names; decide,
   C28_temporaries_fresh Pipeline.lines_while_in_if_else 0 (by unfold Phase4.words_fit; decide)
     (by unfold Phase4.one_line; decide) (by unfold Phase4.operands_plain; decide)
     (by unfold Phase4.operators_plain; decide) (by unfold Phase4.no_temp_names; decide)⟩
